import Mathlib

/-!
Aegis: circular transport and domain event bus.

A shallow embedding of `framework/src/common/ring_buffer.c` and
`framework/src/domain/domain_event.c`, with the properties of the messaging
core stated over it.

Conventions of the embedding

* A C object reached through a non-null pointer is passed by value and the
  updated object is returned next to the C return value.  A pointer argument
  that the C code tests against `NULL` is an `Option`; for the ring functions
  the ring pointer `rb` itself is the object (the `rb == NULL` guard, which
  returns before touching anything, has no ring to act on).
* `uint16_t`/`uint8_t` fields are natural numbers; every place where the C
  code narrows an `int` result back to a fixed width carries an explicit
  `% 65536` / `% 256`.
* Bytes are natural numbers; the backing array of a ring is a `List Nat`.
* `ENTER_CRITICAL`/`EXIT_CRITICAL` bracket code that is already sequential in
  this single-threaded embedding and are not represented.
* A handler is the list of events it publishes on the bus, in order, and the
  result it returns; the calls it makes re-enter `aegis_domain_event_publish`.
  The functions that run handlers return, next to the bus, the list of
  observations (`BusObs`) made on the way: publications, handler calls,
  refusals of the recursion guard, enqueues, drops and dequeues.
-/

namespace Aegis

/-! ## Error codes (`include/common/error_codes.h`) -/

/-- The closed error taxonomy `AegisErrorCode`. -/
inductive AegisErrorCode where
  | ERR_OK
  | ERR_NULL_PTR
  | ERR_INVALID_PARAM
  | ERR_NOT_INITIALIZED
  | ERR_ALREADY_INITIALIZED
  | ERR_OUT_OF_RANGE
  | ERR_TIMEOUT
  | ERR_BUSY
  | ERR_NOT_FOUND
  | ERR_EMPTY
  | ERR_INVALID_STATE
  | ERR_MEM_POOL_FULL
  | ERR_MEM_POOL_INVALID
  | ERR_MEM_POOL_DOUBLE_FREE
  | ERR_MEM_SIZE_TOO_LARGE
  | ERR_CMD_QUEUE_FULL
  | ERR_CMD_QUEUE_EMPTY
  | ERR_CMD_INVALID_TYPE
  | ERR_HAL_TIMEOUT
  | ERR_HAL_BUSY
  | ERR_HAL_ERROR
  | ERR_DOMAIN_NOT_FOUND
  | ERR_DOMAIN_INVALID_STATE
  | ERR_DOMAIN_FULL
  | ERR_APP_CMD_FAILED
  | ERR_APP_QUERY_FAILED
  | ERR_MAX
deriving DecidableEq, Repr

open AegisErrorCode

/-! ## Circular transport (`framework/src/common/ring_buffer.c`) -/

/-- The `MIN(a, b)` helper of `ring_buffer.c`: `((a) < (b) ? (a) : (b))`. -/
def MIN (a b : Nat) : Nat := if a < b then a else b

/-- The libc call `memcpy(&dst[off], &src[soff], n)`, as the array `dst` after
the call: cell `i` of `dst` with `off ≤ i < off + n` receives `src[soff + (i - off)]`,
every other cell keeps its byte.  The length of `dst` never changes. -/
def memcpy (dst : List Nat) (off : Nat) (src : List Nat) (soff n : Nat) : List Nat :=
  (List.range dst.length).map fun i =>
    if off ≤ i ∧ i < off + n then src.getD (soff + (i - off)) 0 else dst.getD i 0

/-- The `AegisRingBuffer` record: `buffer` is the caller-owned backing array that
`rb->buffer` points to, `size`, `head`, `tail`, `count` are the `uint16_t` fields. -/
structure AegisRingBuffer where
  buffer : List Nat
  size : Nat
  head : Nat
  tail : Nat
  count : Nat
deriving DecidableEq, Repr

/-- The function `aegis_ring_buffer_init`: `rb` is the ring object to fill in,
`buffer` the backing array pointer (`none` is `NULL`). -/
def aegis_ring_buffer_init (rb : AegisRingBuffer) (buffer : Option (List Nat)) (size : Nat) :
    AegisErrorCode × AegisRingBuffer :=
  match buffer with
  | none => (ERR_INVALID_PARAM, rb)
  | some buf =>
    if size = 0 then (ERR_INVALID_PARAM, rb)
    else (ERR_OK, { buffer := buf, size := size, head := 0, tail := 0, count := 0 })

/-- The function `aegis_ring_buffer_put`. -/
def aegis_ring_buffer_put (rb : AegisRingBuffer) (data : Nat) : AegisErrorCode × AegisRingBuffer :=
  if rb.count ≥ rb.size then (ERR_OUT_OF_RANGE, rb)
  else
    (ERR_OK,
      { rb with
        buffer := rb.buffer.set rb.head data
        head := ((rb.head + 1) % rb.size) % 65536
        count := (rb.count + 1) % 65536 })

/-- The function `aegis_ring_buffer_get`: `data` is the output pointer, `none`
for `NULL`, otherwise the byte currently stored in the pointee; the third
component of the result is the pointee after the call. -/
def aegis_ring_buffer_get (rb : AegisRingBuffer) (data : Option Nat) :
    AegisErrorCode × AegisRingBuffer × Option Nat :=
  match data with
  | none => (ERR_NULL_PTR, rb, none)
  | some old =>
    if rb.count = 0 then (ERR_OUT_OF_RANGE, rb, some old)
    else
      (ERR_OK,
        { rb with
          tail := ((rb.tail + 1) % rb.size) % 65536
          count := (rb.count + 65535) % 65536 },
        some (rb.buffer.getD rb.tail 0))

/-- The function `aegis_ring_buffer_write`: `data` is the source pointer
(`none` for `NULL`), `len` the requested length.  Returns the number of bytes
written and the ring after the call. -/
def aegis_ring_buffer_write (rb : AegisRingBuffer) (data : Option (List Nat)) (len : Nat) :
    Nat × AegisRingBuffer :=
  match data with
  | none => (0, rb)
  | some data =>
    if len = 0 then (0, rb)
    else
      let free_space := (rb.size + 65536 - rb.count) % 65536
      let written := MIN len free_space
      if written > 0 then
        let to_end := (rb.size + 65536 - rb.head) % 65536
        let buffer :=
          if written ≤ to_end then
            memcpy rb.buffer rb.head data 0 written
          else
            let chunk1 := to_end
            let chunk2 := (written + 65536 - chunk1) % 65536
            memcpy (memcpy rb.buffer rb.head data 0 chunk1) 0 data chunk1 chunk2
        (written,
          { rb with
            buffer := buffer
            head := ((rb.head + written) % rb.size) % 65536
            count := (rb.count + written) % 65536 })
      else (written, rb)

/-- The function `aegis_ring_buffer_read`: `data` is the destination pointer
(`none` for `NULL`, otherwise the caller's array as it is before the call),
`len` the requested length.  Returns the number of bytes read, the ring after
the call and the caller's array after the call. -/
def aegis_ring_buffer_read (rb : AegisRingBuffer) (data : Option (List Nat)) (len : Nat) :
    Nat × AegisRingBuffer × Option (List Nat) :=
  match data with
  | none => (0, rb, none)
  | some data =>
    if len = 0 then (0, rb, some data)
    else
      let read_len := MIN len rb.count
      if read_len > 0 then
        let to_end := (rb.size + 65536 - rb.tail) % 65536
        let out :=
          if read_len ≤ to_end then
            memcpy data 0 rb.buffer rb.tail read_len
          else
            let chunk1 := to_end
            let chunk2 := (read_len + 65536 - chunk1) % 65536
            memcpy (memcpy data 0 rb.buffer rb.tail chunk1) chunk1 rb.buffer 0 chunk2
        (read_len,
          { rb with
            tail := ((rb.tail + read_len) % rb.size) % 65536
            count := (rb.count + 65536 - read_len) % 65536 },
          some out)
      else (read_len, rb, some data)

/-- The function `aegis_ring_buffer_get_write_ptr`: returns the contiguous
writable length and the offset into the backing array the returned pointer
designates (`none` for `NULL`).  `ptr` tells whether the out-pointer argument
is non-null. -/
def aegis_ring_buffer_get_write_ptr (rb : AegisRingBuffer) (ptr : Bool) : Nat × Option Nat :=
  if ptr = false then (0, none)
  else
    let free_space := (rb.size + 65536 - rb.count) % 65536
    let to_end := (rb.size + 65536 - rb.head) % 65536
    let continuous := MIN free_space to_end
    if continuous > 0 then (continuous, some rb.head) else (continuous, none)

/-- The function `aegis_ring_buffer_commit_write`. -/
def aegis_ring_buffer_commit_write (rb : AegisRingBuffer) (len : Nat) :
    AegisErrorCode × AegisRingBuffer :=
  if (len : Int) > (rb.size : Int) - (rb.count : Int) then (ERR_OUT_OF_RANGE, rb)
  else
    (ERR_OK,
      { rb with
        head := ((rb.head + len) % rb.size) % 65536
        count := (rb.count + len) % 65536 })

/-- The function `aegis_ring_buffer_get_read_ptr`, with the same conventions as
`aegis_ring_buffer_get_write_ptr`. -/
def aegis_ring_buffer_get_read_ptr (rb : AegisRingBuffer) (ptr : Bool) : Nat × Option Nat :=
  if ptr = false then (0, none)
  else
    let to_end := (rb.size + 65536 - rb.tail) % 65536
    let continuous := MIN rb.count to_end
    if continuous > 0 then (continuous, some rb.tail) else (continuous, none)

/-- The function `aegis_ring_buffer_commit_read`. -/
def aegis_ring_buffer_commit_read (rb : AegisRingBuffer) (len : Nat) :
    AegisErrorCode × AegisRingBuffer :=
  if len > rb.count then (ERR_OUT_OF_RANGE, rb)
  else
    (ERR_OK,
      { rb with
        tail := ((rb.tail + len) % rb.size) % 65536
        count := (rb.count + 65536 - len) % 65536 })

/-- The function `aegis_ring_buffer_get_count`. -/
def aegis_ring_buffer_get_count (rb : AegisRingBuffer) : Nat := rb.count

/-- The function `aegis_ring_buffer_get_free`: the `int` difference
`size - count` narrowed to `uint16_t`. -/
def aegis_ring_buffer_get_free (rb : AegisRingBuffer) : Nat :=
  (rb.size + 65536 - rb.count) % 65536

/-- The function `aegis_ring_buffer_clear`. -/
def aegis_ring_buffer_clear (rb : AegisRingBuffer) : AegisRingBuffer :=
  { rb with head := 0, tail := 0, count := 0 }

/-! ### Calls on a ring, for statements about call sequences -/

/-- One call of the mutating ring interface together with its arguments. -/
inductive RingOp where
  | put (data : Nat)
  | get (data : Option Nat)
  | write (data : Option (List Nat)) (len : Nat)
  | read (data : Option (List Nat)) (len : Nat)
  | commit_write (len : Nat)
  | commit_read (len : Nat)
  | clear
deriving DecidableEq, Repr

/-- The ring after one call. -/
def ring_step (rb : AegisRingBuffer) : RingOp → AegisRingBuffer
  | .put d => (aegis_ring_buffer_put rb d).2
  | .get d => (aegis_ring_buffer_get rb d).2.1
  | .write d len => (aegis_ring_buffer_write rb d len).2
  | .read d len => (aegis_ring_buffer_read rb d len).2.1
  | .commit_write len => (aegis_ring_buffer_commit_write rb len).2
  | .commit_read len => (aegis_ring_buffer_commit_read rb len).2
  | .clear => aegis_ring_buffer_clear rb

/-- The ring after a sequence of calls, first call first. -/
def ring_run (rb : AegisRingBuffer) (ops : List RingOp) : AegisRingBuffer :=
  ops.foldl ring_step rb

/-- The numeric invariant of the transport: `count ≤ size`, both indices inside
the array, and `get_free + get_count = size`. -/
def RingInv (rb : AegisRingBuffer) : Prop :=
  rb.count ≤ rb.size ∧ rb.head < rb.size ∧ rb.tail < rb.size ∧
    aegis_ring_buffer_get_free rb + aegis_ring_buffer_get_count rb = rb.size

instance (rb : AegisRingBuffer) : Decidable (RingInv rb) := by
  unfold RingInv
  infer_instance

/-- The bytes a ring holds, oldest first: the `count` cells starting at
offset `tail`, wrapping at `size`. -/
def ring_contents (rb : AegisRingBuffer) : List Nat :=
  (List.range rb.count).map fun i => rb.buffer.getD ((rb.tail + i) % rb.size) 0

/-- A bulk transfer request: write the given bytes (`len` is their number), or
read `len` bytes into a scratch array. -/
inductive BulkOp where
  | write (data : List Nat)
  | read (len : Nat)
deriving DecidableEq, Repr

/-- Runs a sequence of bulk transfers; returns the bytes the reads delivered
(each read contributes the first `n` cells of its destination array, `n` being
its return value) and the final ring. -/
def bulk_run (rb : AegisRingBuffer) : List BulkOp → List Nat × AegisRingBuffer
  | [] => ([], rb)
  | .write d :: ops => bulk_run (aegis_ring_buffer_write rb (some d) d.length).2 ops
  | .read len :: ops =>
    let r := aegis_ring_buffer_read rb (some (List.replicate len 0)) len
    let rest := bulk_run r.2.1 ops
    ((r.2.2.getD []).take r.1 ++ rest.1, rest.2)

/-- Every write of the sequence fits in the free space at the time it is made
and every read asks for at most the bytes then held. -/
def bulk_fits (rb : AegisRingBuffer) : List BulkOp → Bool
  | [] => true
  | .write d :: ops =>
    decide (d.length ≤ aegis_ring_buffer_get_free rb) &&
      bulk_fits (aegis_ring_buffer_write rb (some d) d.length).2 ops
  | .read len :: ops =>
    decide (len ≤ aegis_ring_buffer_get_count rb) &&
      bulk_fits (aegis_ring_buffer_read rb (some (List.replicate len 0)) len).2.1 ops

/-- All bytes handed to the writes of a sequence, in call order. -/
def bulk_written : List BulkOp → List Nat
  | [] => []
  | .write d :: ops => d ++ bulk_written ops
  | .read _ :: ops => bulk_written ops

/-- The length a bulk transfer asks for: the number of bytes handed to a
write, the `len` of a read. -/
def bulk_len : BulkOp → Nat
  | .write d => d.length
  | .read len => len

/-- The value each call of a sequence of bulk transfers returns, in call
order. -/
def bulk_returns (rb : AegisRingBuffer) : List BulkOp → List Nat
  | [] => []
  | .write d :: ops =>
    (aegis_ring_buffer_write rb (some d) d.length).1 ::
      bulk_returns (aegis_ring_buffer_write rb (some d) d.length).2 ops
  | .read len :: ops =>
    (aegis_ring_buffer_read rb (some (List.replicate len 0)) len).1 ::
      bulk_returns (aegis_ring_buffer_read rb (some (List.replicate len 0)) len).2.1 ops

/-- Total number of bytes the reads of a sequence ask for. -/
def bulk_requested : List BulkOp → Nat
  | [] => 0
  | .write _ :: ops => bulk_requested ops
  | .read len :: ops => len + bulk_requested ops

/-- Well-formed ring: the numeric invariant together with the facts the C types
give (`size` is a `uint16_t`, the backing array has `size` cells). -/
def RingWF (rb : AegisRingBuffer) : Prop :=
  rb.size < 65536 ∧ rb.buffer.length = rb.size ∧ rb.count ≤ rb.size ∧
    rb.head < rb.size ∧ rb.tail < rb.size

instance (rb : AegisRingBuffer) : Decidable (RingWF rb) := by
  unfold RingWF
  infer_instance

/-- Well-formed ring whose write index is where the held bytes end:
`head = (tail + count) mod size`. -/
def RingCoherent (rb : AegisRingBuffer) : Prop :=
  RingWF rb ∧ rb.head = (rb.tail + rb.count) % rb.size

instance (rb : AegisRingBuffer) : Decidable (RingCoherent rb) := by
  unfold RingCoherent
  infer_instance


/-! ## Domain event bus (`framework/src/domain/domain_event.c`)

Handlers are C function pointers whose bodies lie outside the bus.  A handler
is embedded by what it does to the bus while it runs: the sequence of events it
passes to `aegis_domain_event_publish` on this same bus and the result it then
returns, both as a function of the event it receives and of its registered
context.  The bus functions return, next to their C results, the list of
observations (`BusObs`) they made, in the order they happened; the
observations are not part of the C state.

Re-entrant calls make `publish`, handler invocation and subscriber dispatch
mutually recursive.  The recursion is tied through a parameter `pub` (the
publish function a handler reaches) and `aegis_domain_event_publish` takes the
number of nested publish levels it may open as `fuel`; `none` means the fuel
ran out.
-/

/-- Configuration constant `DOMAIN_EVENT_QUEUE_SIZE`. -/
def DOMAIN_EVENT_QUEUE_SIZE : Nat := 32

/-- Configuration constant `DOMAIN_EVENT_HISTORY_SIZE`. -/
def DOMAIN_EVENT_HISTORY_SIZE : Nat := 16

/-- Configuration constant `MAX_EVENT_SUBSCRIPTIONS`. -/
def MAX_EVENT_SUBSCRIPTIONS : Nat := 16

/-- Configuration constant `MAX_EVENT_RECURSION_DEPTH`. -/
def MAX_EVENT_RECURSION_DEPTH : Nat := 3

/-- Configuration constant `DOMAIN_EVENT_CUSTOM_DATA_MAX` (`framework_config.h`). -/
def DOMAIN_EVENT_CUSTOM_DATA_MAX : Nat := 64

/-- Configuration constant `TRACE_LOG_SIZE`. -/
def TRACE_LOG_SIZE : Nat := 32

/-- The values `TRUE` and `FALSE` of `bool_t` (`unsigned char`). -/
def TRUE : Nat := 1

/-- The value `FALSE` of `bool_t`. -/
def FALSE : Nat := 0

/-- The enumeration `AegisEventHandlerResult`. -/
inductive AegisEventHandlerResult where
  | EVENT_HANDLER_OK
  | EVENT_HANDLER_ERROR
  | EVENT_HANDLER_RETRY
deriving DecidableEq, Repr

open AegisEventHandlerResult

/-- The record `AegisDomainEvent`: `event_id` and `aggregate_id` are `uint16_t`,
`type` is the `AegisDomainEventType` enumeration (an `int`-sized tag),
`timestamp` a `uint32_t`, `aegis_trace_id` the address held by the
`const char*`, and `data` the cells of the payload union
(`DOMAIN_EVENT_CUSTOM_DATA_MAX` of them). -/
structure AegisDomainEvent where
  event_id : Nat
  type : Nat
  aggregate_id : Nat
  timestamp : Nat
  aegis_trace_id : Nat
  data : List Nat
deriving DecidableEq, Repr

/-- The value `sizeof(AegisDomainEvent)` for the layout below. -/
def sizeof_AegisDomainEvent : Nat := 88

/-- Little-endian object representation of an unsigned integer in `k` cells. -/
def le_bytes : Nat → Nat → List Nat
  | 0, _ => []
  | k + 1, n => n % 256 :: le_bytes k (n / 256)

/-- The unsigned integer a little-endian cell sequence represents. -/
def le_value : List Nat → Nat
  | [] => 0
  | b :: bs => b + 256 * le_value bs

/-- The cast `(const uint8_t*)event`: the object representation of an event as
the x86_sim port lays the record out (little-endian, LP64): `event_id` at
offset 0, `type` at 4, `aggregate_id` at 8, `timestamp` at 12, the pointer at
16 and the payload union at 24; the padding cells at 2–3 and 10–11 are
written as 0. -/
def event_bytes (e : AegisDomainEvent) : List Nat :=
  le_bytes 2 e.event_id ++ [0, 0] ++ le_bytes 4 e.type ++ le_bytes 2 e.aggregate_id ++ [0, 0] ++
    le_bytes 4 e.timestamp ++ le_bytes 8 e.aegis_trace_id ++
    (List.range DOMAIN_EVENT_CUSTOM_DATA_MAX).map fun i => e.data.getD i 0

/-- The event whose object representation is the given cell sequence (the cast
`(uint8_t*)event` read back). -/
def event_of_bytes (bs : List Nat) : AegisDomainEvent :=
  { event_id := le_value (bs.take 2)
    type := le_value ((bs.drop 4).take 4)
    aggregate_id := le_value ((bs.drop 8).take 2)
    timestamp := le_value ((bs.drop 12).take 4)
    aegis_trace_id := le_value ((bs.drop 16).take 8)
    data := (List.range DOMAIN_EVENT_CUSTOM_DATA_MAX).map fun i => bs.getD (24 + i) 0 }

/-- The call `memcpy(dst, src, sizeof(AegisDomainEvent))` between two event
records: the destination becomes the event with the source's representation. -/
def event_memcpy (src : AegisDomainEvent) : AegisDomainEvent :=
  event_of_bytes (event_bytes src)

/-- An event is a value of the C record type: every field within the range of
its C type and the payload made of `DOMAIN_EVENT_CUSTOM_DATA_MAX` cells. -/
def EventWF (e : AegisDomainEvent) : Prop :=
  e.event_id < 65536 ∧ e.type < 4294967296 ∧ e.aggregate_id < 65536 ∧
    e.timestamp < 4294967296 ∧ e.aegis_trace_id < 18446744073709551616 ∧
    e.data.length = DOMAIN_EVENT_CUSTOM_DATA_MAX

instance (e : AegisDomainEvent) : Decidable (EventWF e) := by
  unfold EventWF
  infer_instance

/-- The all-zero event record (`memset(…, 0, …)`). -/
def zero_event : AegisDomainEvent :=
  { event_id := 0, type := 0, aggregate_id := 0, timestamp := 0, aegis_trace_id := 0,
    data := List.replicate DOMAIN_EVENT_CUSTOM_DATA_MAX 0 }

/-- What one call of a handler does: the events it publishes on the bus, in
order, and the result it returns afterwards. -/
structure HandlerRun where
  publishes : List AegisDomainEvent
  result : AegisEventHandlerResult
deriving DecidableEq, Repr

/-- The function pointer type `DomainEventHandler`: a handler receives the
event and its context `ctx`. -/
abbrev DomainEventHandler := AegisDomainEvent → Nat → HandlerRun

/-- The record `AegisEventSubscription`; `handler` is `none` for a `NULL`
function pointer, `is_sync` is a `bool_t`. -/
structure AegisEventSubscription where
  event_type : Nat
  handler : Option DomainEventHandler
  ctx : Nat
  is_sync : Nat
  priority : Nat

/-- The record `AegisTraceEvent` of the audit log. -/
structure AegisTraceEvent where
  timestamp : Nat
  event_type : Nat
  aegis_trace_id : String
  param1 : Nat
  param2 : Nat
deriving DecidableEq, Repr

/-- Modelled from the spec: the record `AegisTraceLog`, whose declaration (the
instance-based `trace.h` of the framework) is not among the sources.  The
fields are those `trace_log.c` uses: the clock callback `clock.now` (`none` for
`NULL`) acting on the state `clock.ctx` points to, `fallback_tick`,
`is_initialized`, and the record ring, kept as the list of the records it
holds, oldest first (the log is a passive append-only sink that drops its
oldest record when `TRACE_LOG_SIZE` are held). -/
structure AegisTraceLog where
  records : List AegisTraceEvent
  clock_now : Option (Nat → Nat × Nat)
  clock_ctx : Nat
  fallback_tick : Nat
  is_initialized : Nat

/-- The function `aegis_trace_get_timestamp` on a non-null log: the value
returned (a `uint32_t`) and the log afterwards. -/
def aegis_trace_get_timestamp (log : AegisTraceLog) : Nat × AegisTraceLog :=
  match log.clock_now with
  | some now =>
    ((now log.clock_ctx).1 % 4294967296, { log with clock_ctx := (now log.clock_ctx).2 })
  | none => (log.fallback_tick, { log with fallback_tick := (log.fallback_tick + 1) % 4294967296 })

/-- The function `aegis_trace_log_event`; `log` is `none` for `NULL`. -/
def aegis_trace_log_event (log : Option AegisTraceLog) (type : Nat) (aegis_trace_id : String)
    (param1 param2 : Nat) : Option AegisTraceLog :=
  match log with
  | none => none
  | some log =>
    if log.is_initialized = 0 then some log
    else
      let ts := aegis_trace_get_timestamp log
      let event : AegisTraceEvent :=
        { timestamp := ts.1, event_type := type, aegis_trace_id := aegis_trace_id,
          param1 := param1 % 4294967296, param2 := param2 % 4294967296 }
      if ts.2.records.length < TRACE_LOG_SIZE then
        some { ts.2 with records := ts.2.records ++ [event] }
      else
        some { ts.2 with records := ts.2.records.drop 1 ++ [event] }

/-- The trace event type `TRACE_EVENT_SYSTEM_INIT`. -/
def TRACE_EVENT_SYSTEM_INIT : Nat := 0

/-- The trace event type `TRACE_EVENT_DOMAIN_ERR`. -/
def TRACE_EVENT_DOMAIN_ERR : Nat := 6

/-- The trace event type `TRACE_EVENT_APP_ERROR`. -/
def TRACE_EVENT_APP_ERROR : Nat := 7

/-- The record `AegisDomainEventHistory`. -/
structure AegisDomainEventHistory where
  history : List AegisDomainEvent
  head : Nat
  count : Nat
deriving DecidableEq, Repr

/-- The record `AegisDomainEventBus`.  `subscriptions` is the borrowed table
(`none` for a `NULL` pointer); `async_queue.buffer` is the member
`async_queue_buffer`; `trace` is the log the pointer designates (`none` for
`NULL`). -/
structure AegisDomainEventBus where
  subscriptions : Option (List AegisEventSubscription)
  subscription_count : Nat
  async_queue : AegisRingBuffer
  history : AegisDomainEventHistory
  next_event_id : Nat
  total_published : Nat
  total_processed : Nat
  sync_handled : Nat
  async_handled : Nat
  dropped_events : Nat
  recursion_depth : Nat
  is_initialized : Nat
  trace : Option AegisTraceLog

/-- What the bus is observed to do, in order of occurrence.
* `published event copy`: `publish` was entered with `event`, assigned the
  identifier of `copy` and stored `copy` in the history;
* `call i pass e depth r`: the handler of subscription `i` was called with `e`
  in the synchronous (`pass = TRUE`) or asynchronous (`pass = FALSE`) dispatch,
  while `recursion_depth` was `depth` (before the increment), and returns `r`;
* `refused i pass e depth`: the recursion guard refused to call the handler of
  subscription `i`;
* `enqueued e` / `dropped e`: the copy `e` was written to the async queue / discarded;
* `dequeued e`: `process` took `e` from the async queue. -/
inductive BusObs where
  | published (event copy : AegisDomainEvent)
  | call (i pass : Nat) (e : AegisDomainEvent) (depth : Nat) (r : AegisEventHandlerResult)
  | refused (i pass : Nat) (e : AegisDomainEvent) (depth : Nat)
  | enqueued (e : AegisDomainEvent)
  | dropped (e : AegisDomainEvent)
  | dequeued (e : AegisDomainEvent)
deriving DecidableEq, Repr

/-- The publish function as handlers reach it: the status, the bus afterwards
and the observations made; `none` when the nesting budget is exhausted. -/
abbrev PublishFn :=
  AegisDomainEventBus → AegisDomainEvent →
    Option (AegisErrorCode × AegisDomainEventBus × List BusObs)

/-- The guarded call `if (bus->trace != NULL) aegis_trace_log_event(bus->trace, …)`. -/
def bus_trace_log (bus : AegisDomainEventBus) (type : Nat) (aegis_trace_id : String)
    (param1 param2 : Nat) : AegisDomainEventBus :=
  { bus with trace := aegis_trace_log_event bus.trace type aegis_trace_id param1 param2 }

/-- The static function `event_queue_enqueue`. -/
def event_queue_enqueue (bus : AegisDomainEventBus) (event : AegisDomainEvent) :
    AegisErrorCode × AegisDomainEventBus :=
  if aegis_ring_buffer_get_free bus.async_queue < sizeof_AegisDomainEvent then
    (ERR_CMD_QUEUE_FULL, { bus with dropped_events := (bus.dropped_events + 1) % 4294967296 })
  else
    let r := aegis_ring_buffer_write bus.async_queue (some (event_bytes event))
      sizeof_AegisDomainEvent
    if r.1 ≠ sizeof_AegisDomainEvent then
      (ERR_CMD_QUEUE_FULL,
        { bus with
          async_queue := r.2
          dropped_events := (bus.dropped_events + 1) % 4294967296 })
    else (ERR_OK, { bus with async_queue := r.2 })

/-- The static function `event_queue_dequeue`; `event` is the caller's record
before the call, the third component the record after it. -/
def event_queue_dequeue (bus : AegisDomainEventBus) (event : AegisDomainEvent) :
    AegisErrorCode × AegisDomainEventBus × AegisDomainEvent :=
  if aegis_ring_buffer_get_count bus.async_queue < sizeof_AegisDomainEvent then
    (ERR_EMPTY, bus, event)
  else
    let r := aegis_ring_buffer_read bus.async_queue (some (event_bytes event))
      sizeof_AegisDomainEvent
    if r.1 ≠ sizeof_AegisDomainEvent then
      (ERR_EMPTY, { bus with async_queue := r.2.1 }, event_of_bytes (r.2.2.getD []))
    else (ERR_OK, { bus with async_queue := r.2.1 }, event_of_bytes (r.2.2.getD []))

/-- The static function `event_history_add`. -/
def event_history_add (bus : AegisDomainEventBus) (event : AegisDomainEvent) :
    AegisDomainEventBus :=
  { bus with
    history :=
      { history := bus.history.history.set bus.history.head (event_memcpy event)
        head := ((bus.history.head + 1) % DOMAIN_EVENT_HISTORY_SIZE) % 256
        count :=
          if bus.history.count < DOMAIN_EVENT_HISTORY_SIZE then (bus.history.count + 1) % 256
          else bus.history.count } }

/-- The handler body running against the bus: it publishes its events one
after the other through `pub`. -/
def run_handler (pub : PublishFn) :
    AegisDomainEventBus → List AegisDomainEvent → Option (AegisDomainEventBus × List BusObs)
  | bus, [] => some (bus, [])
  | bus, e :: es =>
    match pub bus e with
    | none => none
    | some (_, bus1, o1) =>
      match run_handler pub bus1 es with
      | none => none
      | some (bus2, o2) => some (bus2, o1 ++ o2)

/-- The static function `invoke_handler_with_recursion` (with `invoke_handler`
inlined); `i` is the index of `subscription` in the table and `pass` the
dispatch pass, both used only in the observations. -/
def invoke_handler_with_recursion (pub : PublishFn) (bus : AegisDomainEventBus) (i pass : Nat)
    (subscription : AegisEventSubscription) (event : AegisDomainEvent) :
    Option (AegisEventHandlerResult × AegisDomainEventBus × List BusObs) :=
  match subscription.handler with
  | none => some (EVENT_HANDLER_ERROR, bus, [])
  | some handler =>
    if bus.recursion_depth ≥ MAX_EVENT_RECURSION_DEPTH then
      some (EVENT_HANDLER_ERROR,
        bus_trace_log bus TRACE_EVENT_DOMAIN_ERR "REQ-EVENT-008" event.type bus.recursion_depth,
        [BusObs.refused i pass event bus.recursion_depth])
    else
      let bus1 := { bus with recursion_depth := (bus.recursion_depth + 1) % 256 }
      let run := handler event subscription.ctx
      match run_handler pub bus1 run.publishes with
      | none => none
      | some (bus2, o) =>
        some (run.result,
          { bus2 with recursion_depth := (bus2.recursion_depth + 255) % 256 },
          BusObs.call i pass event bus.recursion_depth run.result :: o)

/-- The loop of `dispatch_to_subscribers` over the table indices still to
visit, with the running `handled_count`. -/
def dispatch_loop (pub : PublishFn) (event : AegisDomainEvent) (is_sync : Nat) :
    List Nat → AegisDomainEventBus → Nat → Option (Nat × AegisDomainEventBus × List BusObs)
  | [], bus, handled_count => some (handled_count, bus, [])
  | i :: rest, bus, handled_count =>
    match (bus.subscriptions.getD [])[i]? with
    | none => dispatch_loop pub event is_sync rest bus handled_count
    | some sub =>
      if sub.is_sync ≠ is_sync then dispatch_loop pub event is_sync rest bus handled_count
      else if sub.event_type ≠ 0 ∧ sub.event_type ≠ event.type then
        dispatch_loop pub event is_sync rest bus handled_count
      else
        match invoke_handler_with_recursion pub bus i is_sync sub event with
        | none => none
        | some (result, bus1, o1) =>
          let handled1 :=
            if result = EVENT_HANDLER_OK then (handled_count + 1) % 256 else handled_count
          let bus2 :=
            if result = EVENT_HANDLER_ERROR then
              bus_trace_log bus1 TRACE_EVENT_APP_ERROR "REQ-EVENT-009" event.type i
            else bus1
          match dispatch_loop pub event is_sync rest bus2 handled1 with
          | none => none
          | some (n, bus3, o2) => some (n, bus3, o1 ++ o2)

/-- The static function `dispatch_to_subscribers`: the loop visits the indices
`0 … subscription_count - 1` in increasing order. -/
def dispatch_to_subscribers (pub : PublishFn) (bus : AegisDomainEventBus)
    (event : AegisDomainEvent) (is_sync : Nat) :
    Option (Nat × AegisDomainEventBus × List BusObs) :=
  dispatch_loop pub event is_sync (List.range bus.subscription_count) bus 0

/-- The first critical section of `aegis_domain_event_publish`: copy the
event, assign its identifier, fill a zero timestamp from the log's clock when
there is a log, add the copy to the history and count the publication.
Returns `event_copy` and the bus. -/
def publish_enter (bus : AegisDomainEventBus) (event : AegisDomainEvent) :
    AegisDomainEvent × AegisDomainEventBus :=
  let copy0 := { event_memcpy event with event_id := bus.next_event_id }
  let bus1 := { bus with next_event_id := (bus.next_event_id + 1) % 65536 }
  let stamped : AegisDomainEvent × AegisDomainEventBus :=
    if copy0.timestamp = 0 then
      match bus1.trace with
      | some log =>
        ({ copy0 with timestamp := (aegis_trace_get_timestamp log).1 },
          { bus1 with trace := some (aegis_trace_get_timestamp log).2 })
      | none => (copy0, bus1)
    else (copy0, bus1)
  let bus2 := event_history_add stamped.2 stamped.1
  (stamped.1, { bus2 with total_published := (bus2.total_published + 1) % 4294967296 })

/-- The end of `aegis_domain_event_publish` after the synchronous dispatch
returned `sync_count`: account for the handled subscribers, try to enqueue the
copy (second critical section) and log a failure.  Returns the bus and the
observation made. -/
def publish_exit (bus : AegisDomainEventBus) (event_copy : AegisDomainEvent) (sync_count : Nat) :
    AegisDomainEventBus × List BusObs :=
  let bus5 := { bus with sync_handled := (bus.sync_handled + sync_count) % 4294967296 }
  let q := event_queue_enqueue bus5 event_copy
  if q.1 ≠ ERR_OK then
    (bus_trace_log q.2 TRACE_EVENT_DOMAIN_ERR "REQ-EVENT-010" event_copy.type
        q.2.async_queue.count,
      [BusObs.dropped event_copy])
  else (q.2, [BusObs.enqueued event_copy])

/-- The body of `aegis_domain_event_publish` after its `NULL` guard, nested
publishes going through `pub`: `publish_enter`, the synchronous dispatch
outside the critical sections, then `publish_exit`. -/
def publish_body (pub : PublishFn) (bus : AegisDomainEventBus) (event : AegisDomainEvent) :
    Option (AegisErrorCode × AegisDomainEventBus × List BusObs) :=
  if bus.is_initialized = 0 then some (ERR_NOT_INITIALIZED, bus, [])
  else
    match dispatch_to_subscribers pub (publish_enter bus event).2 (publish_enter bus event).1
        TRUE with
    | none => none
    | some (sync_count, bus4, o) =>
      some (ERR_OK, (publish_exit bus4 (publish_enter bus event).1 sync_count).1,
        BusObs.published event (publish_enter bus event).1 :: o ++
          (publish_exit bus4 (publish_enter bus event).1 sync_count).2)

/-- The function `aegis_domain_event_publish` on non-null arguments.  `fuel` is
the number of publish levels that may be open at once, this one included. -/
def aegis_domain_event_publish : Nat → PublishFn
  | 0 => fun _ _ => none
  | fuel + 1 => publish_body (aegis_domain_event_publish fuel)

/-- The function `aegis_domain_event_publish` as callers see it, with its
`NULL` guard: `bus` and `event` are `none` for `NULL`. -/
def aegis_domain_event_publish_nullable (fuel : Nat) (bus : Option AegisDomainEventBus)
    (event : Option AegisDomainEvent) :
    Option (AegisErrorCode × Option AegisDomainEventBus × List BusObs) :=
  match bus, event with
  | some b, some e => (aegis_domain_event_publish fuel b e).map fun r => (r.1, some r.2.1, r.2.2)
  | b, _ => some (ERR_NULL_PTR, b, [])

/-- The function `aegis_domain_event_bus_init`; `bus` is the storage to
initialise, `trace` and `subscriptions` are `none` for `NULL`. -/
def aegis_domain_event_bus_init (bus : AegisDomainEventBus) (trace : Option AegisTraceLog)
    (subscriptions : Option (List AegisEventSubscription)) (count : Nat) :
    AegisErrorCode × AegisDomainEventBus :=
  if subscriptions.isNone ∧ count > 0 then (ERR_NULL_PTR, bus)
  else if count > MAX_EVENT_SUBSCRIPTIONS then (ERR_OUT_OF_RANGE, bus)
  else
    let zeroed : AegisRingBuffer := { buffer := [], size := 0, head := 0, tail := 0, count := 0 }
    let r := aegis_ring_buffer_init zeroed
      (some (List.replicate (DOMAIN_EVENT_QUEUE_SIZE * sizeof_AegisDomainEvent) 0))
      ((DOMAIN_EVENT_QUEUE_SIZE * sizeof_AegisDomainEvent) % 65536)
    let bus0 : AegisDomainEventBus :=
      { subscriptions := none, subscription_count := 0, async_queue := r.2,
        history :=
          { history := List.replicate DOMAIN_EVENT_HISTORY_SIZE zero_event, head := 0, count := 0 },
        next_event_id := 0, total_published := 0, total_processed := 0, sync_handled := 0,
        async_handled := 0, dropped_events := 0, recursion_depth := 0, is_initialized := FALSE,
        trace := none }
    if r.1 ≠ ERR_OK then (r.1, bus0)
    else
      (ERR_OK,
        { bus0 with
          subscriptions := subscriptions
          subscription_count := count
          next_event_id := 1
          is_initialized := TRUE
          trace := aegis_trace_log_event trace TRACE_EVENT_SYSTEM_INIT "REQ-EVENT-001" count 0 })

/-- The loop of `aegis_domain_event_process`; `event` is the local record the
dequeue fills, `processed` the `uint8_t` counter.  Each iteration uses one unit
of `fuel`. -/
def process_loop (pub : PublishFn) (max_events : Nat) :
    Nat → AegisDomainEventBus → AegisDomainEvent → Nat →
      Option (Nat × AegisDomainEventBus × List BusObs)
  | 0, _, _, _ => none
  | fuel + 1, bus, event, processed =>
    if processed < max_events ∨ max_events = 0 then
      let d := event_queue_dequeue bus event
      if d.1 ≠ ERR_OK then some (processed, d.2.1, [])
      else
        match dispatch_to_subscribers pub d.2.1 d.2.2 FALSE with
        | none => none
        | some (async_count, bus1, o1) =>
          let bus2 :=
            { bus1 with
              async_handled := (bus1.async_handled + async_count) % 4294967296
              total_processed := (bus1.total_processed + 1) % 4294967296 }
          match process_loop pub max_events fuel bus2 d.2.2 ((processed + 1) % 256) with
          | none => none
          | some (n, bus3, o2) => some (n, bus3, BusObs.dequeued d.2.2 :: o1 ++ o2)
    else some (processed, bus, [])

/-- The function `aegis_domain_event_process` on a non-null bus.  `fuel` bounds
both the number of loop iterations and the publish levels handlers may open. -/
def aegis_domain_event_process (fuel : Nat) (bus : AegisDomainEventBus) (max_events : Nat) :
    Option (Nat × AegisDomainEventBus × List BusObs) :=
  if bus.is_initialized = 0 then some (0, bus, [])
  else process_loop (aegis_domain_event_publish fuel) max_events fuel bus zero_event 0

/-- The function `aegis_domain_event_get_stats` on a non-null bus with non-null
output pointers: the status and the values stored through `pending_count` and
`processed_count` (`none` when nothing is stored). -/
def aegis_domain_event_get_stats (bus : AegisDomainEventBus) :
    AegisErrorCode × Option (Nat × Nat) :=
  if bus.is_initialized = 0 then (ERR_NOT_INITIALIZED, none)
  else
    (ERR_OK,
      some ((aegis_ring_buffer_get_count bus.async_queue / sizeof_AegisDomainEvent) % 256,
        bus.total_processed))

/-- The function `aegis_domain_event_get_history` on a non-null bus: the
history entry the returned pointer designates, `none` for `NULL`. -/
def aegis_domain_event_get_history (bus : AegisDomainEventBus) (index : Nat) :
    Option AegisDomainEvent :=
  if bus.is_initialized = 0 then none
  else if index ≥ bus.history.count then none
  else
    let actual_index :=
      if bus.history.head > index then (bus.history.head + 65536 - index - 1) % 256
      else (DOMAIN_EVENT_HISTORY_SIZE + bus.history.head + 65536 - index - 1) % 256
    bus.history.history[actual_index]?

/-- The function `aegis_domain_event_clear_queue` on a non-null bus. -/
def aegis_domain_event_clear_queue (bus : AegisDomainEventBus) :
    AegisErrorCode × AegisDomainEventBus :=
  if bus.is_initialized = 0 then (ERR_NOT_INITIALIZED, bus)
  else (ERR_OK, { bus with async_queue := aegis_ring_buffer_clear bus.async_queue })

/-- The function `aegis_domain_event_get_recursion_depth` on a non-null bus. -/
def aegis_domain_event_get_recursion_depth (bus : AegisDomainEventBus) : Nat :=
  bus.recursion_depth

/-! ### Abstract views of the bus state and of the observations -/

/-- The object representations of a list of events, one after the other. -/
def encode_events : List AegisDomainEvent → List Nat
  | [] => []
  | e :: es => event_bytes e ++ encode_events es

/-- Reads `n` consecutive event records from a cell sequence. -/
def decode_events : Nat → List Nat → List AegisDomainEvent
  | 0, _ => []
  | n + 1, bs =>
    event_of_bytes (bs.take sizeof_AegisDomainEvent) ::
      decode_events n (bs.drop sizeof_AegisDomainEvent)

/-- The events pending in the async queue, oldest first: the whole records
among the bytes the ring holds. -/
def pending_events (bus : AegisDomainEventBus) : List AegisDomainEvent :=
  decode_events (bus.async_queue.count / sizeof_AegisDomainEvent) (ring_contents bus.async_queue)

/-- The events the history retains, most recent first. -/
def hist_list (bus : AegisDomainEventBus) : List AegisDomainEvent :=
  (List.range bus.history.count).map fun i =>
    bus.history.history.getD
      ((bus.history.head + DOMAIN_EVENT_HISTORY_SIZE - 1 - i) % DOMAIN_EVENT_HISTORY_SIZE)
      zero_event

/-- The copies whose publication was observed, in order. -/
def obs_published : List BusObs → List AegisDomainEvent
  | [] => []
  | .published _ e :: o => e :: obs_published o
  | _ :: o => obs_published o

/-- The events `publish` was entered with, in order (nested publishes included). -/
def obs_inputs : List BusObs → List AegisDomainEvent
  | [] => []
  | .published e _ :: o => e :: obs_inputs o
  | _ :: o => obs_inputs o

/-- The copies observed to enter the async queue, in order. -/
def obs_enqueued : List BusObs → List AegisDomainEvent
  | [] => []
  | .enqueued e :: o => e :: obs_enqueued o
  | _ :: o => obs_enqueued o

/-- The copies observed to be discarded because the queue was full, in order. -/
def obs_dropped : List BusObs → List AegisDomainEvent
  | [] => []
  | .dropped e :: o => e :: obs_dropped o
  | _ :: o => obs_dropped o

/-- The events observed to leave the async queue, in order. -/
def obs_dequeued : List BusObs → List AegisDomainEvent
  | [] => []
  | .dequeued e :: o => e :: obs_dequeued o
  | _ :: o => obs_dequeued o

/-- The handler calls observed, in order: subscription index, event, depth at
which the call was made, result. -/
def obs_calls : List BusObs → List (Nat × AegisDomainEvent × Nat × AegisEventHandlerResult)
  | [] => []
  | .call i _ e d r :: o => (i, e, d, r) :: obs_calls o
  | _ :: o => obs_calls o

/-- The refusals of the recursion guard observed, in order. -/
def obs_refused : List BusObs → List (Nat × AegisDomainEvent × Nat)
  | [] => []
  | .refused i _ e d :: o => (i, e, d) :: obs_refused o
  | _ :: o => obs_refused o

/-- The handler calls of the asynchronous dispatch observed, in order:
subscription index and event delivered. -/
def obs_async_calls : List BusObs → List (Nat × AegisDomainEvent)
  | [] => []
  | .call i p e _ _ :: o => if p = FALSE then (i, e) :: obs_async_calls o else obs_async_calls o
  | _ :: o => obs_async_calls o

/-- The handler calls made at depth `d` exactly: subscription index and event. -/
def calls_at (d : Nat) (o : List BusObs) : List (Nat × AegisDomainEvent) :=
  (obs_calls o).filterMap fun c => if c.2.2.1 = d then some (c.1, c.2.1) else none

/-- The number of observed handler calls of the dispatch pass `pass` that
returned `EVENT_HANDLER_OK`. -/
def obs_handled (pass : Nat) : List BusObs → Nat
  | [] => 0
  | .call _ p _ _ r :: o =>
    (if p = pass ∧ r = AegisEventHandlerResult.EVENT_HANDLER_OK then 1 else 0) + obs_handled pass o
  | _ :: o => obs_handled pass o

/-- The async queue holds exactly the records of `evs`: the ring is coherent,
has the capacity of `async_queue_buffer`, and its bytes are the representations
of the events of `evs`, each a value of the record type. -/
def QueueWF (q : AegisRingBuffer) (evs : List AegisDomainEvent) : Prop :=
  RingCoherent q ∧ q.size = DOMAIN_EVENT_QUEUE_SIZE * sizeof_AegisDomainEvent ∧
    ring_contents q = encode_events evs ∧ ∀ e ∈ evs, EventWF e

/-- The history record is well formed. -/
def HistWF (h : AegisDomainEventHistory) : Prop :=
  h.history.length = DOMAIN_EVENT_HISTORY_SIZE ∧ h.head < DOMAIN_EVENT_HISTORY_SIZE ∧
    h.count ≤ DOMAIN_EVENT_HISTORY_SIZE

/-- The `uint32_t` fallback tick of the log is in range. -/
def TraceWF (t : Option AegisTraceLog) : Prop :=
  ∀ log, t = some log → log.fallback_tick < 4294967296

/-- Representation invariant of a bus: the async queue holds whole event
records, the history record is well formed, the table is within
`MAX_EVENT_SUBSCRIPTIONS`, the identifier counter is a `uint16_t` and the
statistics counters are `uint32_t`. -/
def BusWF (bus : AegisDomainEventBus) : Prop :=
  QueueWF bus.async_queue (pending_events bus) ∧ HistWF bus.history ∧
    bus.next_event_id < 65536 ∧ TraceWF bus.trace ∧
    bus.subscription_count ≤ MAX_EVENT_SUBSCRIPTIONS ∧
    bus.total_published < 4294967296 ∧ bus.total_processed < 4294967296 ∧
    bus.dropped_events < 4294967296 ∧ bus.sync_handled < 4294967296 ∧
    bus.async_handled < 4294967296

/-- The record `copy` is the copy `publish` makes of `event`: the same record
except for the identifier and, when the event came with a zero timestamp, the
timestamp. -/
def IsCopy (event copy : AegisDomainEvent) : Prop :=
  copy = { event_memcpy event with event_id := copy.event_id, timestamp := copy.timestamp } ∧
    ((event_memcpy event).timestamp ≠ 0 → copy.timestamp = (event_memcpy event).timestamp)

/-- Every publication observed pairs an event with a copy of it. -/
def CopyOK : BusObs → Prop
  | .published e ec => IsCopy e ec
  | _ => True

/-- Depth condition on one observation made while the bus was entered at depth
`d`: calls happen at depths `d ≤ · < MAX_EVENT_RECURSION_DEPTH`, refusals at
depths `≥ MAX_EVENT_RECURSION_DEPTH`. -/
def ObsDepthOK (d : Nat) : BusObs → Prop
  | .call _ _ _ d' _ => d ≤ d' ∧ d' < MAX_EVENT_RECURSION_DEPTH
  | .refused _ _ _ d' => d ≤ d' ∧ MAX_EVENT_RECURSION_DEPTH ≤ d'
  | _ => True

/-- The effect of a completed bus operation that started in `b`, ended in `b'`
and made the observations `o`. -/
structure Eff (b b' : AegisDomainEventBus) (o : List BusObs) : Prop where
  subs : b'.subscriptions = b.subscriptions
  cnt : b'.subscription_count = b.subscription_count
  init : b'.is_initialized = b.is_initialized
  depth : b'.recursion_depth = b.recursion_depth
  tnull : b'.trace.isSome = b.trace.isSome
  wf : BusWF b'
  queue : obs_dequeued o ++ pending_events b' = pending_events b ++ obs_enqueued o
  hist : hist_list b' = ((obs_published o).reverse ++ hist_list b).take DOMAIN_EVENT_HISTORY_SIZE
  next_id : b'.next_event_id = (b.next_event_id + (obs_published o).length) % 65536
  ids : (obs_published o).map AegisDomainEvent.event_id =
    (List.range (obs_published o).length).map fun k => (b.next_event_id + k) % 65536
  tp : b'.total_published = (b.total_published + (obs_published o).length) % 4294967296
  dr : b'.dropped_events = (b.dropped_events + (obs_dropped o).length) % 4294967296
  pr : b'.total_processed = (b.total_processed + (obs_dequeued o).length) % 4294967296
  evwf : ∀ e ∈ obs_published o, EventWF e
  copies : ∀ x ∈ o, CopyOK x
  depths : ∀ x ∈ o, ObsDepthOK b.recursion_depth x

/-- Observations of completed publishes only: nothing was dequeued and every
published copy was either enqueued or dropped. -/
def ObsClosed (o : List BusObs) : Prop :=
  obs_dequeued o = [] ∧
    (obs_published o).length = (obs_enqueued o).length + (obs_dropped o).length

/-- The specification a publish function reachable from handlers satisfies:
on a well-formed initialised bus a completed call reports `ERR_OK`, has the
effect described by `Eff`, and its observations are those of completed
publishes. -/
def PubSpec (pub : PublishFn) : Prop :=
  ∀ b e r, BusWF b → b.is_initialized ≠ 0 → pub b e = some r →
    r.1 = ERR_OK ∧ Eff b r.2.1 r.2.2 ∧ ObsClosed r.2.2

/-- The accounting a publish function reachable from handlers satisfies: a
completed call on a well-formed initialised bus adds to `sync_handled` the
number of synchronous handler calls it observed to return `EVENT_HANDLER_OK`. -/
def HandledSpec (pub : PublishFn) : Prop :=
  ∀ b e r, BusWF b → b.is_initialized ≠ 0 → pub b e = some r →
    r.2.1.sync_handled = (b.sync_handled + obs_handled TRUE r.2.2) % 4294967296

/-- No handler of the table publishes. -/
def NoPublish (tbl : List AegisEventSubscription) : Prop :=
  ∀ sub ∈ tbl, ∀ h, sub.handler = some h → ∀ e ctx, (h e ctx).publishes = []

/-- Subscription `sub` is eligible for `event` in the pass `is_sync`: same
pass, and a type filter that is 0 or the type of the event. -/
def sub_matches (is_sync : Nat) (event : AegisDomainEvent) (sub : AegisEventSubscription) : Bool :=
  decide (sub.is_sync = is_sync) && (decide (sub.event_type = 0) || decide (sub.event_type = event.type))

/-- Entry `i` of `tbl` is eligible for `event` in the pass `is_sync` and has a
handler to call. -/
def eligible_at (tbl : List AegisEventSubscription) (is_sync : Nat) (event : AegisDomainEvent)
    (i : Nat) : Bool :=
  match tbl[i]? with
  | some sub => sub_matches is_sync event sub && sub.handler.isSome
  | none => false

/-- The indices `i < n` of the entries of `tbl` that are eligible for `event`
in the pass `is_sync` and have a handler, in increasing order. -/
def eligible (tbl : List AegisEventSubscription) (n : Nat) (is_sync : Nat)
    (event : AegisDomainEvent) : List Nat :=
  (List.range n).filter (eligible_at tbl is_sync event)

/-- The publish function `pub` completes on every well-formed initialised bus
whose recursion depth is `d`. -/
def PubTotalAt (pub : PublishFn) (d : Nat) : Prop :=
  ∀ b e, BusWF b → b.is_initialized ≠ 0 → b.recursion_depth = d → (pub b e).isSome = true

/-- What the dispatch of `event` in the pass `is_sync` observes at depth `d`
below the recursion limit when no handler it calls publishes: one call per
index of `idxs` whose entry is eligible and has a handler, in order. -/
def dispatch_obs (tbl : List AegisEventSubscription) (idxs : List Nat) (is_sync : Nat)
    (event : AegisDomainEvent) (d : Nat) : List BusObs :=
  idxs.filterMap fun i =>
    match tbl[i]? with
    | some sub =>
      if sub_matches is_sync event sub then
        match sub.handler with
        | some h => some (BusObs.call i is_sync event d (h event sub.ctx).result)
        | none => none
      else none
    | none => none

/-- No handler that the pass `is_sync` can call for `event` publishes. -/
def QuietFor (tbl : List AegisEventSubscription) (is_sync : Nat) (event : AegisDomainEvent) :
    Prop :=
  ∀ sub ∈ tbl, sub_matches is_sync event sub = true → ∀ h, sub.handler = some h →
    (h event sub.ctx).publishes = []

/-- What `process` observes on the pending events `evs` when no asynchronous
handler publishes: each event is dequeued and then dispatched. -/
def process_obs (tbl : List AegisEventSubscription) (n : Nat) :
    List AegisDomainEvent → List BusObs
  | [] => []
  | e :: evs =>
    BusObs.dequeued e :: dispatch_obs tbl (List.range n) FALSE e 0 ++ process_obs tbl n evs

/-- The number of events `process` handles when `len` are pending and
`processed` were already handled: all of them for `max_events = 0`, otherwise
at most the remaining budget. -/
def process_count (max_events processed len : Nat) : Nat :=
  if max_events = 0 then len else min (max_events - processed) len

/-- The bus with the state of its log replaced. -/
def set_trace (bus : AegisDomainEventBus) (t : Option AegisTraceLog) : AegisDomainEventBus :=
  { bus with trace := t }

/-- One call made on the bus from the main loop or an interrupt handler, outside
any handler. -/
inductive BusCall where
  | publish (event : AegisDomainEvent)
  | process (max_events : Nat)
deriving DecidableEq, Repr

/-- What a top-level call returned: the status of a publish, or the count of
a process. -/
inductive BusRet where
  | code (c : AegisErrorCode)
  | count (n : Nat)
deriving DecidableEq, Repr

/-- Runs a sequence of top-level calls, first call first, each with the given
`fuel`; returns what the calls returned, the final bus and all observations in
order, `none` when some call ran out of fuel. -/
def bus_run (fuel : Nat) :
    AegisDomainEventBus → List BusCall →
      Option (List BusRet × AegisDomainEventBus × List BusObs)
  | b, [] => some ([], b, [])
  | b, .publish e :: cs =>
    match aegis_domain_event_publish fuel b e with
    | none => none
    | some (c, b1, o1) =>
      match bus_run fuel b1 cs with
      | none => none
      | some (rs, b2, o2) => some (BusRet.code c :: rs, b2, o1 ++ o2)
  | b, .process m :: cs =>
    match aegis_domain_event_process fuel b m with
    | none => none
    | some (n, b1, o1) =>
      match bus_run fuel b1 cs with
      | none => none
      | some (rs, b2, o2) => some (BusRet.count n :: rs, b2, o1 ++ o2)

/-- The events handed to the publish calls of a sequence of top-level calls,
in call order. -/
def call_events : List BusCall → List AegisDomainEvent
  | [] => []
  | .publish e :: cs => e :: call_events cs
  | .process _ :: cs => call_events cs

/-- The accepted copies were enqueued in the order in which they were
published: the enqueued copies form a subsequence of the published ones. -/
def EnqInOrder (o : List BusObs) : Prop :=
  List.Sublist (obs_enqueued o) (obs_published o)

/-! ## Command channel (`framework/src/application/app_command.c`) -/

/-- The constant `CMD_QUEUE_SIZE`. -/
def CMD_QUEUE_SIZE : Nat := 16

/-- The constant `APP_CMD_PAYLOAD_MAX`. -/
def APP_CMD_PAYLOAD_MAX : Nat := 32

/-- The constant `APP_CMD_RESULT_PAYLOAD_MAX`. -/
def APP_CMD_RESULT_PAYLOAD_MAX : Nat := 16

/-- The constant `CMD_TYPE_INVALID`. -/
def CMD_TYPE_INVALID : Nat := 65535

/-- The constant `ENTITY_ID_INVALID`. -/
def ENTITY_ID_INVALID : Nat := 65535

/-- The trace event type `TRACE_EVENT_CMD_ENQUEUE`. -/
def TRACE_EVENT_CMD_ENQUEUE : Nat := 1

/-- The trace event type `TRACE_EVENT_CMD_EXEC`. -/
def TRACE_EVENT_CMD_EXEC : Nat := 2

/-- The record `AegisCommand`: `type`, `entity_id` and `payload_size` are
`uint16_t`, `timestamp` is a `uint32_t`, `payload` the `APP_CMD_PAYLOAD_MAX`
cells of the payload array. -/
structure AegisCommand where
  type : Nat
  timestamp : Nat
  entity_id : Nat
  payload_size : Nat
  payload : List Nat
deriving DecidableEq, Repr

/-- The value `sizeof(AegisCommand)` for the layout below. -/
def sizeof_AegisCommand : Nat := 44

/-- The cast `(const uint8_t*)&cmd_copy`: the object representation of a
command (little-endian): `type` at offset 0, `timestamp` at 4, `entity_id` at 8,
`payload_size` at 10 and the payload at 12; the padding cells at 2–3 are
written as 0. -/
def cmd_bytes (c : AegisCommand) : List Nat :=
  le_bytes 2 c.type ++ [0, 0] ++ le_bytes 4 c.timestamp ++ le_bytes 2 c.entity_id ++
    le_bytes 2 c.payload_size ++ (List.range APP_CMD_PAYLOAD_MAX).map fun i => c.payload.getD i 0

/-- The command whose object representation is the given cell sequence (the
cast `(uint8_t*)cmd` read back). -/
def cmd_of_bytes (bs : List Nat) : AegisCommand :=
  { type := le_value (bs.take 2)
    timestamp := le_value ((bs.drop 4).take 4)
    entity_id := le_value ((bs.drop 8).take 2)
    payload_size := le_value ((bs.drop 10).take 2)
    payload := (List.range APP_CMD_PAYLOAD_MAX).map fun i => bs.getD (12 + i) 0 }

/-- The call `memcpy(&cmd_copy, cmd, sizeof(AegisCommand))`. -/
def cmd_memcpy (src : AegisCommand) : AegisCommand :=
  cmd_of_bytes (cmd_bytes src)

/-- A command is a value of the C record type: every field within the range of
its C type and the payload made of `APP_CMD_PAYLOAD_MAX` cells. -/
def CmdWF (c : AegisCommand) : Prop :=
  c.type < 65536 ∧ c.timestamp < 4294967296 ∧ c.entity_id < 65536 ∧ c.payload_size < 65536 ∧
    c.payload.length = APP_CMD_PAYLOAD_MAX

instance (c : AegisCommand) : Decidable (CmdWF c) := by
  unfold CmdWF
  infer_instance

/-- The all-zero command record (`memset(&cmd, 0, sizeof(cmd))`). -/
def zero_cmd : AegisCommand :=
  { type := 0, timestamp := 0, entity_id := 0, payload_size := 0,
    payload := List.replicate APP_CMD_PAYLOAD_MAX 0 }

/-- The record `AegisCommandResult`. -/
structure AegisCommandResult where
  result : AegisErrorCode
  created_id : Nat
  payload_size : Nat
  payload : List Nat
deriving DecidableEq, Repr

/-- The record `AegisAppCmdQueue`; the array `buffer` is the backing array of
`ring`, `trace` is `none` for `NULL`. -/
structure AegisAppCmdQueue where
  ring : AegisRingBuffer
  trace : Option AegisTraceLog
  is_initialized : Nat

/-- The function `aegis_app_cmd_init` on a non-null queue: the storage is
zeroed, so what it held does not matter; the status of
`aegis_ring_buffer_init` is not looked at. -/
def aegis_app_cmd_init (_queue : AegisAppCmdQueue) (trace : Option AegisTraceLog) :
    AegisErrorCode × AegisAppCmdQueue :=
  let zeroed : AegisRingBuffer := { buffer := [], size := 0, head := 0, tail := 0, count := 0 }
  let r := aegis_ring_buffer_init zeroed
    (some (List.replicate (CMD_QUEUE_SIZE * sizeof_AegisCommand) 0))
    ((CMD_QUEUE_SIZE * sizeof_AegisCommand) % 65536)
  (ERR_OK, { ring := r.2, trace := trace, is_initialized := TRUE })

/-- The function `aegis_app_cmd_enqueue` on non-null arguments. -/
def aegis_app_cmd_enqueue (queue : AegisAppCmdQueue) (cmd : AegisCommand) :
    AegisErrorCode × AegisAppCmdQueue :=
  if queue.is_initialized = 0 then (ERR_NOT_INITIALIZED, queue)
  else if cmd.type = CMD_TYPE_INVALID then (ERR_INVALID_PARAM, queue)
  else if aegis_ring_buffer_get_free queue.ring < sizeof_AegisCommand then
    (ERR_OUT_OF_RANGE, queue)
  else
    let stamped : Nat × Option AegisTraceLog :=
      match queue.trace with
      | some log => ((aegis_trace_get_timestamp log).1, some (aegis_trace_get_timestamp log).2)
      | none => (0, none)
    let cmd_copy := { cmd_memcpy cmd with timestamp := stamped.1 }
    let w := aegis_ring_buffer_write queue.ring (some (cmd_bytes cmd_copy)) sizeof_AegisCommand
    if w.1 ≠ sizeof_AegisCommand then
      (ERR_OUT_OF_RANGE, { queue with ring := w.2, trace := stamped.2 })
    else
      (ERR_OK,
        { queue with
          ring := w.2
          trace := aegis_trace_log_event stamped.2 TRACE_EVENT_CMD_ENQUEUE "CMD-ENQUEUE" cmd.type
            stamped.1 })

/-- The function `aegis_app_cmd_dequeue` on non-null arguments; `cmd` is the
caller's record before the call, the third component the record after it. -/
def aegis_app_cmd_dequeue (queue : AegisAppCmdQueue) (cmd : AegisCommand) :
    AegisErrorCode × AegisAppCmdQueue × AegisCommand :=
  if queue.is_initialized = 0 then (ERR_NOT_INITIALIZED, queue, cmd)
  else if aegis_ring_buffer_get_count queue.ring < sizeof_AegisCommand then (ERR_EMPTY, queue, cmd)
  else
    let r := aegis_ring_buffer_read queue.ring (some (cmd_bytes cmd)) sizeof_AegisCommand
    if r.1 ≠ sizeof_AegisCommand then
      (ERR_EMPTY, { queue with ring := r.2.1 }, cmd_of_bytes (r.2.2.getD []))
    else (ERR_OK, { queue with ring := r.2.1 }, cmd_of_bytes (r.2.2.getD []))

/-- The function `aegis_app_cmd_get_count` on non-null arguments: the status
and the value stored through `count` (`none` when nothing is stored). -/
def aegis_app_cmd_get_count (queue : AegisAppCmdQueue) : AegisErrorCode × Option Nat :=
  if queue.is_initialized = 0 then (ERR_NOT_INITIALIZED, none)
  else (ERR_OK, some ((aegis_ring_buffer_get_count queue.ring / sizeof_AegisCommand) % 256))

/-- The function `aegis_app_cmd_clear` on a non-null queue. -/
def aegis_app_cmd_clear (queue : AegisAppCmdQueue) : AegisErrorCode × AegisAppCmdQueue :=
  if queue.is_initialized = 0 then (ERR_NOT_INITIALIZED, queue)
  else
    (ERR_OK,
      { queue with
        ring := aegis_ring_buffer_clear queue.ring
        trace := aegis_trace_log_event queue.trace TRACE_EVENT_CMD_EXEC "CMD-CLEAR" 0 0 })

/-! ### Views of the command channel -/

/-- The object representations of a list of commands, one after the other. -/
def encode_cmds : List AegisCommand → List Nat
  | [] => []
  | c :: cs => cmd_bytes c ++ encode_cmds cs

/-- Reads `n` consecutive command records from a cell sequence. -/
def decode_cmds : Nat → List Nat → List AegisCommand
  | 0, _ => []
  | n + 1, bs =>
    cmd_of_bytes (bs.take sizeof_AegisCommand) :: decode_cmds n (bs.drop sizeof_AegisCommand)

/-- The commands buffered in the queue, oldest first: the whole records among
the bytes the ring holds. -/
def pending_cmds (queue : AegisAppCmdQueue) : List AegisCommand :=
  decode_cmds (queue.ring.count / sizeof_AegisCommand) (ring_contents queue.ring)

/-- The ring of a command queue holds exactly the records of `cs`. -/
def CmdRingWF (r : AegisRingBuffer) (cs : List AegisCommand) : Prop :=
  RingCoherent r ∧ r.size = CMD_QUEUE_SIZE * sizeof_AegisCommand ∧
    ring_contents r = encode_cmds cs ∧ ∀ c ∈ cs, CmdWF c

/-- The timestamp `aegis_app_cmd_enqueue` puts on an accepted command and the
log after the enqueue: the clock value read through the log, 0 without a
log. -/
def enqueue_stamp (trace : Option AegisTraceLog) (cmd : AegisCommand) :
    Nat × Option AegisTraceLog :=
  match trace with
  | some log =>
    ((aegis_trace_get_timestamp log).1,
      aegis_trace_log_event (some (aegis_trace_get_timestamp log).2) TRACE_EVENT_CMD_ENQUEUE
        "CMD-ENQUEUE" cmd.type (aegis_trace_get_timestamp log).1)
  | none => (0, none)

/-- The copies a sequence of accepted enqueues puts in the queue, starting
with the log `trace`: each command with the timestamp read at its enqueue. -/
def stamped_cmds : Option AegisTraceLog → List AegisCommand → List AegisCommand
  | _, [] => []
  | trace, c :: cs =>
    { c with timestamp := (enqueue_stamp trace c).1 } ::
      stamped_cmds (enqueue_stamp trace c).2 cs

/-- Representation invariant of an initialised command queue: the ring holds
whole command records and has the capacity of `buffer`, and the tick of the log
is a `uint32_t`. -/
def CmdQueueWF (queue : AegisAppCmdQueue) : Prop :=
  queue.is_initialized ≠ 0 ∧ CmdRingWF queue.ring (pending_cmds queue) ∧ TraceWF queue.trace

/-- One mutating call on the command queue with its arguments. -/
inductive CmdOp where
  | enqueue (cmd : AegisCommand)
  | dequeue (out : AegisCommand)
  | clear
deriving DecidableEq, Repr

/-- Runs a sequence of calls on the queue; returns for every call its status
and, for a dequeue that succeeded, the record it delivered, and the final
queue. -/
def cmd_run : AegisAppCmdQueue → List CmdOp →
    List (AegisErrorCode × Option AegisCommand) × AegisAppCmdQueue
  | q, [] => ([], q)
  | q, .enqueue c :: ops =>
    let r := aegis_app_cmd_enqueue q c
    let rest := cmd_run r.2 ops
    ((r.1, none) :: rest.1, rest.2)
  | q, .dequeue out :: ops =>
    let r := aegis_app_cmd_dequeue q out
    let rest := cmd_run r.2.1 ops
    ((r.1, if r.1 = ERR_OK then some r.2.2 else none) :: rest.1, rest.2)
  | q, .clear :: ops =>
    let r := aegis_app_cmd_clear q
    let rest := cmd_run r.2 ops
    ((r.1, none) :: rest.1, rest.2)

/-- The number of successful enqueues minus the number of successful dequeues
since the start or the last clear call, given the calls, the statuses of the
enqueues and dequeues, and the number `n` held at the start: an enqueue or a
dequeue counts when its status is `ERR_OK`, and every clear call starts the
count again at 0, whatever it returned. -/
def cmd_net (n : Nat) : List CmdOp → List AegisErrorCode → Nat
  | .enqueue _ :: ops, c :: cs => cmd_net (if c = ERR_OK then n + 1 else n) ops cs
  | .dequeue _ :: ops, c :: cs => cmd_net (if c = ERR_OK then n - 1 else n) ops cs
  | .clear :: ops, _ :: cs => cmd_net 0 ops cs
  | _, _ => n

/-- The statuses the calls of a sequence return on an initialised queue that
are fixed by the kind of call alone: every clear returns `ERR_OK`. -/
def clear_statuses : List CmdOp → List AegisErrorCode → Prop
  | .clear :: ops, c :: cs => c = ERR_OK ∧ clear_statuses ops cs
  | _ :: ops, _ :: cs => clear_statuses ops cs
  | _, _ => True

/-! ## Handler tables (`framework/src/application/app_cmd_service.c`,
`framework/src/application/app_query.c`)

The command service and the query dispatcher keep the same kind of table and
their `register_handler` functions are the same text up to the names of the
types, so the table and the registration are written once, for any handler
type `H`, and instantiated for both. -/

/-- The constant `APP_CMD_SERVICE_MAX_HANDLERS`. -/
def APP_CMD_SERVICE_MAX_HANDLERS : Nat := 16

/-- The constant `APP_QUERY_MAX_HANDLERS`. -/
def APP_QUERY_MAX_HANDLERS : Nat := 16

/-- The constant `QUERY_TYPE_INVALID`. -/
def QUERY_TYPE_INVALID : Nat := 65535

/-- The constant `APP_QUERY_PAYLOAD_MAX`. -/
def APP_QUERY_PAYLOAD_MAX : Nat := 32

/-- The constant `APP_QUERY_RESULT_PAYLOAD_MAX`. -/
def APP_QUERY_RESULT_PAYLOAD_MAX : Nat := 64

/-- The records `AegisAppCmdServiceHandlerEntry` and `AegisAppQueryHandlerEntry`:
`type` is a `uint16_t`, `handler` is `none` for a `NULL` function pointer, `ctx`
is the address held by the `void*`. -/
structure HandlerEntry (H : Type) where
  type : Nat
  handler : Option H
  ctx : Nat

/-- The records `AegisAppCmdService` and `AegisAppQueryDispatcher`: the array
`handlers` and the `uint8_t` `handler_count`. -/
structure HandlerTable (H : Type) where
  handlers : List (HandlerEntry H)
  handler_count : Nat

/-- The scan `for (i = 0; i < handler_count; i++) if (handlers[i].type == type)`
over the indices still to visit: the first index whose entry has the type. -/
def find_handler_slot {H : Type} (handlers : List (HandlerEntry H)) (type : Nat) :
    List Nat → Option Nat
  | [] => none
  | i :: rest =>
    match handlers[i]? with
    | some entry => if entry.type = type then some i else find_handler_slot handlers type rest
    | none => find_handler_slot handlers type rest

/-- The table after `init`: `cap` entries `{type = INVALID, handler = NULL,
ctx = NULL}` and no handler counted. -/
def table_init {H : Type} (cap invalid : Nat) : HandlerTable H :=
  { handlers := List.replicate cap { type := invalid, handler := none, ctx := 0 },
    handler_count := 0 }

/-- The body shared by `aegis_app_cmd_service_register_handler` and
`aegis_app_query_register_handler` on a non-null table, `cap` being the
capacity constant of the table: update the entry of an existing registration,
else append when there is room. -/
def register_handler {H : Type} (cap : Nat) (table : HandlerTable H) (type : Nat)
    (handler : Option H) (ctx : Nat) : AegisErrorCode × HandlerTable H :=
  match handler with
  | none => (ERR_NULL_PTR, table)
  | some h =>
    match find_handler_slot table.handlers type (List.range table.handler_count) with
    | some i =>
      match table.handlers[i]? with
      | some entry =>
        (ERR_OK,
          { table with handlers := table.handlers.set i { entry with handler := some h, ctx := ctx } })
      | none => (ERR_OK, table)
    | none =>
      if table.handler_count ≥ cap then (ERR_OUT_OF_RANGE, table)
      else
        (ERR_OK,
          { handlers :=
              table.handlers.set table.handler_count { type := type, handler := some h, ctx := ctx }
            handler_count := (table.handler_count + 1) % 256 })

/-- The lookup loop of the `execute` functions: the handler and context of the
first entry whose type matches, with the index of the entry; `none` when no
entry matches or the entry found has a `NULL` handler. -/
def lookup_handler {H : Type} (table : HandlerTable H) (type : Nat) : Option (Nat × H × Nat) :=
  match find_handler_slot table.handlers type (List.range table.handler_count) with
  | some i =>
    match table.handlers[i]? with
    | some entry => entry.handler.map fun h => (i, h, entry.ctx)
    | none => none
  | none => none

/-- The function pointer type `AppCmdHandler`: a handler receives the command,
the result record and its context, and returns a status together with the
result record as it leaves it. -/
abbrev AppCmdHandler := AegisCommand → AegisCommandResult → Nat → AegisErrorCode × AegisCommandResult

/-- The record `AegisAppCmdService`. -/
abbrev AegisAppCmdService := HandlerTable AppCmdHandler

/-- The function `aegis_app_cmd_service_init` on a non-null service. -/
def aegis_app_cmd_service_init (_service : AegisAppCmdService) :
    AegisErrorCode × AegisAppCmdService :=
  (ERR_OK, table_init APP_CMD_SERVICE_MAX_HANDLERS CMD_TYPE_INVALID)

/-- The function `aegis_app_cmd_service_register_handler` on a non-null service. -/
def aegis_app_cmd_service_register_handler (service : AegisAppCmdService) (type : Nat)
    (handler : Option AppCmdHandler) (ctx : Nat) : AegisErrorCode × AegisAppCmdService :=
  register_handler APP_CMD_SERVICE_MAX_HANDLERS service type handler ctx

/-- The three assignments `aegis_app_cmd_service_execute` makes to the caller's
result record before it looks the handler up: `result = ERR_OK`,
`created_id = ENTITY_ID_INVALID`, `payload_size = 0`. -/
def cmd_result_defaults (result : AegisCommandResult) : AegisCommandResult :=
  { result with result := ERR_OK, created_id := ENTITY_ID_INVALID, payload_size := 0 }

/-- The function `aegis_app_cmd_service_execute` on non-null arguments: the
status, the caller's result record after the call, and the handler calls made
(index of the table entry, context passed).  The service is `const`. -/
def aegis_app_cmd_service_execute (service : AegisAppCmdService) (cmd : AegisCommand)
    (result : AegisCommandResult) : AegisErrorCode × AegisCommandResult × List (Nat × Nat) :=
  let result1 : AegisCommandResult := cmd_result_defaults result
  match lookup_handler service cmd.type with
  | none => (ERR_NOT_FOUND, { result1 with result := ERR_NOT_FOUND }, [])
  | some (i, handler, ctx) =>
    let r := handler cmd result1 ctx
    (r.1, { r.2 with result := r.1 }, [(i, ctx)])

/-- The record `AegisQueryRequest`. -/
structure AegisQueryRequest where
  type : Nat
  entity_id : Nat
  payload_size : Nat
  payload : List Nat
deriving DecidableEq, Repr

/-- The record `AegisQueryResponse`. -/
structure AegisQueryResponse where
  result : AegisErrorCode
  payload_size : Nat
  payload : List Nat
deriving DecidableEq, Repr

/-- The function pointer type `AppQueryHandler`: a handler receives the
request, the response record and its context, and returns a status together
with the response record as it leaves it. -/
abbrev AppQueryHandler :=
  AegisQueryRequest → AegisQueryResponse → Nat → AegisErrorCode × AegisQueryResponse

/-- The record `AegisAppQueryDispatcher`. -/
abbrev AegisAppQueryDispatcher := HandlerTable AppQueryHandler

/-- The function `aegis_app_query_init` on a non-null dispatcher. -/
def aegis_app_query_init (_dispatcher : AegisAppQueryDispatcher) :
    AegisErrorCode × AegisAppQueryDispatcher :=
  (ERR_OK, table_init APP_QUERY_MAX_HANDLERS QUERY_TYPE_INVALID)

/-- The function `aegis_app_query_register_handler` on a non-null dispatcher. -/
def aegis_app_query_register_handler (dispatcher : AegisAppQueryDispatcher) (type : Nat)
    (handler : Option AppQueryHandler) (ctx : Nat) : AegisErrorCode × AegisAppQueryDispatcher :=
  register_handler APP_QUERY_MAX_HANDLERS dispatcher type handler ctx

/-- The function `aegis_app_query_execute` on non-null arguments: the status,
the caller's response record after the call, and the handler calls made (index
of the table entry, context passed).  The dispatcher is `const`. -/
def aegis_app_query_execute (dispatcher : AegisAppQueryDispatcher) (req : AegisQueryRequest)
    (resp : AegisQueryResponse) : AegisErrorCode × AegisQueryResponse × List (Nat × Nat) :=
  if req.type = QUERY_TYPE_INVALID then
    (ERR_INVALID_PARAM, { resp with result := ERR_INVALID_PARAM, payload_size := 0 }, [])
  else
    match lookup_handler dispatcher req.type with
    | none => (ERR_NOT_FOUND, { resp with result := ERR_NOT_FOUND, payload_size := 0 }, [])
    | some (i, handler, ctx) =>
      let r := handler req resp ctx
      (r.1, { r.2 with result := r.1 }, [(i, ctx)])

/-- The table is a value of the C record type: `cap` entries and a count
within the array. -/
def TableWF {H : Type} (cap : Nat) (table : HandlerTable H) : Prop :=
  table.handlers.length = cap ∧ table.handler_count ≤ cap

/-- Type `t` is registered in the table: one of the first `handler_count`
entries has it. -/
def registered {H : Type} (table : HandlerTable H) (t : Nat) : Prop :=
  ∃ i entry, i < table.handler_count ∧ table.handlers[i]? = some entry ∧ entry.type = t

/-! ## Concrete rings used to instantiate the statements -/

/-- A ring of four cells, empty at offset 3. -/
def ring_demo : AegisRingBuffer := { buffer := [0, 0, 0, 0], size := 4, head := 3, tail := 3, count := 0 }

/-- A write of three bytes that crosses the end of the array, a read of two, a
write of three more that wraps again, and a read of the four bytes held. -/
def ring_demo_ops : List BulkOp := [.write [11, 12, 13], .read 2, .write [14, 15, 16], .read 4]

/-- A mix of calls on a ring of three cells: bulk write that is truncated,
failing and succeeding commits, single-byte calls with and without a
destination, a wrapped read and a clear. -/
def ring_calls_demo : List RingOp :=
  [.write (some [1, 2, 3, 4, 5]) 5, .put 9, .commit_read 2, .commit_read 7, .get none,
    .get (some 0), .commit_write 2, .commit_write 1, .read (some [0, 0, 0, 0]) 4, .write none 2,
    .put 7, .clear, .read (some [0]) 1]

/-- A ring of four cells holding `[7, 8]` at offsets 3 and 0. -/
def ring_wrapped : AegisRingBuffer :=
  { buffer := [8, 0, 0, 7], size := 4, head := 1, tail := 3, count := 2 }

/-- The ring `ring_wrapped` after a write of `[21, 22, 23]` was cut to two bytes. -/
def ring_wrapped_written : AegisRingBuffer :=
  { buffer := [8, 21, 22, 7], size := 4, head := 3, tail := 3, count := 4 }

/-- The ring `ring_wrapped` after a read of three bytes delivered its two. -/
def ring_wrapped_read : AegisRingBuffer :=
  { buffer := [8, 0, 0, 7], size := 4, head := 1, tail := 1, count := 0 }

/-! ## Concrete buses used to instantiate the statements -/

/-- The storage of a bus before initialisation, all zero. -/
def storage_bus : AegisDomainEventBus :=
  { subscriptions := none, subscription_count := 0,
    async_queue := { buffer := [], size := 0, head := 0, tail := 0, count := 0 },
    history := { history := [], head := 0, count := 0 },
    next_event_id := 0, total_published := 0, total_processed := 0, sync_handled := 0,
    async_handled := 0, dropped_events := 0, recursion_depth := 0, is_initialized := 0,
    trace := none }

/-- An event of type 1 about aggregate 42. -/
def demo_event : AegisDomainEvent := { zero_event with type := 1, aggregate_id := 42 }

/-- A handler that publishes nothing and reports success. -/
def ok_handler : DomainEventHandler := fun _ _ =>
  { publishes := [], result := AegisEventHandlerResult.EVENT_HANDLER_OK }

/-- A handler that publishes the event it receives once more and reports success. -/
def republish_handler : DomainEventHandler := fun e _ =>
  { publishes := [e], result := AegisEventHandlerResult.EVENT_HANDLER_OK }

/-- A table of four subscriptions with `ok_handler`: a sync wildcard, a sync one
for type 1, a sync one for type 2 and an async one for type 1. -/
def fanout_table : List AegisEventSubscription :=
  [{ event_type := 0, handler := some ok_handler, ctx := 0, is_sync := TRUE, priority := 0 },
    { event_type := 1, handler := some ok_handler, ctx := 0, is_sync := TRUE, priority := 1 },
    { event_type := 2, handler := some ok_handler, ctx := 0, is_sync := TRUE, priority := 2 },
    { event_type := 1, handler := some ok_handler, ctx := 0, is_sync := FALSE, priority := 3 }]

/-- The bus initialised with `fanout_table` and no log. -/
def fanout_bus : AegisDomainEventBus :=
  (aegis_domain_event_bus_init storage_bus none (some fanout_table) 4).2

/-- The bus `fanout_bus` after `demo_event` was published on it. -/
def fanout_bus_pending : AegisDomainEventBus :=
  match aegis_domain_event_publish 1 fanout_bus demo_event with
  | some r => r.2.1
  | none => fanout_bus

/-- A table whose only subscription is a sync wildcard one with
`republish_handler`. -/
def reentrant_table : List AegisEventSubscription :=
  [{ event_type := 0, handler := some republish_handler, ctx := 0, is_sync := TRUE,
      priority := 0 }]

/-- The bus initialised with `reentrant_table` and no log. -/
def reentrant_bus : AegisDomainEventBus :=
  (aegis_domain_event_bus_init storage_bus none (some reentrant_table) 1).2

/-- A handler that publishes an event of type 5 and reports success. -/
def nest_handler : DomainEventHandler := fun e _ =>
  { publishes := [{ e with type := 5 }], result := AegisEventHandlerResult.EVENT_HANDLER_OK }

/-- A table whose only subscription is a sync one for type 1 with
`nest_handler`. -/
def nest_table : List AegisEventSubscription :=
  [{ event_type := 1, handler := some nest_handler, ctx := 0, is_sync := TRUE, priority := 0 }]

/-- The bus initialised with `nest_table` and no log. -/
def nest_bus : AegisDomainEventBus :=
  (aegis_domain_event_bus_init storage_bus none (some nest_table) 1).2

/-- A table whose only subscription is an async wildcard one with
`republish_handler`. -/
def relay_table : List AegisEventSubscription :=
  [{ event_type := 0, handler := some republish_handler, ctx := 0, is_sync := FALSE,
      priority := 0 }]

/-- The bus initialised with `relay_table` and no log. -/
def relay_bus : AegisDomainEventBus :=
  (aegis_domain_event_bus_init storage_bus none (some relay_table) 1).2

/-- A command queue record before `aegis_app_cmd_init`. -/
def storage_cmd_queue : AegisAppCmdQueue :=
  { ring := { buffer := [], size := 0, head := 0, tail := 0, count := 0 }, trace := none,
    is_initialized := 0 }

/-- An initialised trace log without a clock, whose fallback tick stands at 41. -/
def demo_trace : AegisTraceLog :=
  { records := [], clock_now := none, clock_ctx := 0, fallback_tick := 41, is_initialized := 1 }

/-- The command queue initialised with `demo_trace`. -/
def demo_cmd_queue : AegisAppCmdQueue :=
  (aegis_app_cmd_init storage_cmd_queue (some demo_trace)).2

/-- A command of type 1 for entity 7 that carries a caller-supplied timestamp. -/
def demo_cmd : AegisCommand :=
  { zero_cmd with type := 1, timestamp := 99, entity_id := 7, payload_size := 2 }

/-- Two enqueues, a clear and one more enqueue. -/
def cmd_count_demo_ops : List CmdOp :=
  [.enqueue demo_cmd, .enqueue demo_cmd, .clear, .enqueue demo_cmd]

/-- A command of type 2 for entity 8. -/
def demo_cmd2 : AegisCommand := { zero_cmd with type := 2, entity_id := 8 }

/-- A command handler that reports `ERR_OK` and does not write to the result. -/
def ok_cmd_handler : AppCmdHandler := fun _ result _ => (ERR_OK, result)

/-- A command handler that stores the entity of the command as the created
entity and reports `ERR_OK`. -/
def create_cmd_handler : AppCmdHandler := fun cmd result _ =>
  (ERR_OK, { result with created_id := cmd.entity_id })

/-- The command service after `init`. -/
def empty_service : AegisAppCmdService :=
  (aegis_app_cmd_service_init (table_init 0 0)).2

/-- The command service with `ok_cmd_handler` registered for type 1 with
context 5. -/
def demo_service : AegisAppCmdService :=
  (aegis_app_cmd_service_register_handler empty_service 1 (some ok_cmd_handler) 5).2

/-- A result record that holds data of an earlier call. -/
def demo_result : AegisCommandResult :=
  { result := ERR_OK, created_id := 7, payload_size := 3,
    payload := List.replicate APP_CMD_RESULT_PAYLOAD_MAX 0 }

/-- A query handler that reports `ERR_OK` and does not write to the response. -/
def ok_query_handler : AppQueryHandler := fun _ resp _ => (ERR_OK, resp)

/-- The query dispatcher after `init` with `ok_query_handler` registered for
type 1 with context 5. -/
def demo_dispatcher : AegisAppQueryDispatcher :=
  (aegis_app_query_register_handler (aegis_app_query_init (table_init 0 0)).2 1
    (some ok_query_handler) 5).2

/-- The query dispatcher after `init` with `ok_query_handler` registered under
`QUERY_TYPE_INVALID`. -/
def invalid_dispatcher : AegisAppQueryDispatcher :=
  (aegis_app_query_register_handler (aegis_app_query_init (table_init 0 0)).2 QUERY_TYPE_INVALID
    (some ok_query_handler) 5).2

/-- A query request of type 2. -/
def demo_req : AegisQueryRequest :=
  { type := 2, entity_id := 7, payload_size := 0, payload := List.replicate APP_QUERY_PAYLOAD_MAX 0 }

/-- A response record that holds data of an earlier call. -/
def demo_resp : AegisQueryResponse :=
  { result := ERR_OK, payload_size := 3, payload := List.replicate APP_QUERY_RESULT_PAYLOAD_MAX 0 }

/-- A handler that publishes nothing and reports an error. -/
def error_handler : DomainEventHandler := fun _ _ =>
  { publishes := [], result := AegisEventHandlerResult.EVENT_HANDLER_ERROR }

/-- A table of two sync subscriptions for type 1: the first with
`error_handler`, the second with `ok_handler`. -/
def isolation_table : List AegisEventSubscription :=
  [{ event_type := 1, handler := some error_handler, ctx := 0, is_sync := TRUE, priority := 0 },
    { event_type := 1, handler := some ok_handler, ctx := 0, is_sync := TRUE, priority := 1 }]

/-- The bus initialised with `isolation_table` and no log. -/
def isolation_bus : AegisDomainEventBus :=
  (aegis_domain_event_bus_init storage_bus none (some isolation_table) 2).2


/-! ## The circular transport with checked array accesses

A second embedding of `put`, `get`, `write` and `read` in which every access to
the backing array and to the caller's array is an indexing that can fail: the
result is `none` as soon as one offset lies outside its array. -/

/-- The libc call `memcpy(&dst[off], &src[soff], n)` done cell by cell with
checked accesses: `none` as soon as a cell to read lies outside `src` or a cell
to write lies outside `dst`. -/
def memcpy_checked (dst : List Nat) (off : Nat) (src : List Nat) (soff : Nat) :
    Nat → Option (List Nat)
  | 0 => some dst
  | n + 1 =>
    match memcpy_checked dst off src soff n with
    | none => none
    | some d =>
      match src[soff + n]? with
      | none => none
      | some v => if off + n < d.length then some (d.set (off + n) v) else none

/-- The function `aegis_ring_buffer_put` with the store `rb->buffer[rb->head]`
checked. -/
def aegis_ring_buffer_put_checked (rb : AegisRingBuffer) (data : Nat) :
    Option (AegisErrorCode × AegisRingBuffer) :=
  if rb.count ≥ rb.size then some (ERR_OUT_OF_RANGE, rb)
  else if rb.head < rb.buffer.length then
    some (ERR_OK,
      { rb with
        buffer := rb.buffer.set rb.head data
        head := ((rb.head + 1) % rb.size) % 65536
        count := (rb.count + 1) % 65536 })
  else none

/-- The function `aegis_ring_buffer_get` with the load `rb->buffer[rb->tail]`
checked. -/
def aegis_ring_buffer_get_checked (rb : AegisRingBuffer) (data : Option Nat) :
    Option (AegisErrorCode × AegisRingBuffer × Option Nat) :=
  match data with
  | none => some (ERR_NULL_PTR, rb, none)
  | some old =>
    if rb.count = 0 then some (ERR_OUT_OF_RANGE, rb, some old)
    else
      match rb.buffer[rb.tail]? with
      | none => none
      | some v =>
        some (ERR_OK,
          { rb with
            tail := ((rb.tail + 1) % rb.size) % 65536
            count := (rb.count + 65535) % 65536 },
          some v)

/-- The function `aegis_ring_buffer_write` with the copies checked. -/
def aegis_ring_buffer_write_checked (rb : AegisRingBuffer) (data : Option (List Nat))
    (len : Nat) : Option (Nat × AegisRingBuffer) :=
  match data with
  | none => some (0, rb)
  | some data =>
    if len = 0 then some (0, rb)
    else
      let free_space := (rb.size + 65536 - rb.count) % 65536
      let written := MIN len free_space
      if written > 0 then
        let to_end := (rb.size + 65536 - rb.head) % 65536
        let buffer :=
          if written ≤ to_end then
            memcpy_checked rb.buffer rb.head data 0 written
          else
            let chunk1 := to_end
            let chunk2 := (written + 65536 - chunk1) % 65536
            match memcpy_checked rb.buffer rb.head data 0 chunk1 with
            | none => none
            | some b1 => memcpy_checked b1 0 data chunk1 chunk2
        buffer.map fun b =>
          (written,
            { rb with
              buffer := b
              head := ((rb.head + written) % rb.size) % 65536
              count := (rb.count + written) % 65536 })
      else some (written, rb)

/-- The function `aegis_ring_buffer_read` with the copies checked. -/
def aegis_ring_buffer_read_checked (rb : AegisRingBuffer) (data : Option (List Nat))
    (len : Nat) : Option (Nat × AegisRingBuffer × Option (List Nat)) :=
  match data with
  | none => some (0, rb, none)
  | some data =>
    if len = 0 then some (0, rb, some data)
    else
      let read_len := MIN len rb.count
      if read_len > 0 then
        let to_end := (rb.size + 65536 - rb.tail) % 65536
        let out :=
          if read_len ≤ to_end then
            memcpy_checked data 0 rb.buffer rb.tail read_len
          else
            let chunk1 := to_end
            let chunk2 := (read_len + 65536 - chunk1) % 65536
            match memcpy_checked data 0 rb.buffer rb.tail chunk1 with
            | none => none
            | some d1 => memcpy_checked d1 chunk1 rb.buffer 0 chunk2
        out.map fun o =>
          (read_len,
            { rb with
              tail := ((rb.tail + read_len) % rb.size) % 65536
              count := (rb.count + 65536 - read_len) % 65536 },
            some o)
      else some (read_len, rb, some data)


/-! ## Entry points with their `NULL` guards, and more example values -/

/-- The function `aegis_domain_event_bus_init` as callers see it, with its
`NULL` guard: `bus` is `none` for `NULL`, and the second component is the bus
object after the call. -/
def aegis_domain_event_bus_init_nullable (bus : Option AegisDomainEventBus)
    (trace : Option AegisTraceLog) (subscriptions : Option (List AegisEventSubscription))
    (count : Nat) : AegisErrorCode × Option AegisDomainEventBus :=
  match bus with
  | none => (ERR_NULL_PTR, none)
  | some b =>
    ((aegis_domain_event_bus_init b trace subscriptions count).1,
      some (aegis_domain_event_bus_init b trace subscriptions count).2)

/-- The function `aegis_trace_get_timestamp` as callers see it, with its `NULL`
guard: 0 and no log for `NULL`. -/
def aegis_trace_get_timestamp_nullable (log : Option AegisTraceLog) :
    Nat × Option AegisTraceLog :=
  match log with
  | none => (0, none)
  | some l => ((aegis_trace_get_timestamp l).1, some (aegis_trace_get_timestamp l).2)

/-- A bus object that was never initialised and holds leftover data: the flag
`is_initialized` is `FALSE` and `recursion_depth` is 5. -/
def stale_bus : AegisDomainEventBus := { storage_bus with recursion_depth := 5 }

/-- The value `ENTITY_TYPE_INVALID`. -/
def ENTITY_TYPE_INVALID : Nat := 65535

/-- The enumerator `ENTITY_STATE_INACTIVE`. -/
def ENTITY_STATE_INACTIVE : Nat := 0

/-- Configuration constant `DOMAIN_ENTITY_PAYLOAD_MAX`. -/
def DOMAIN_ENTITY_PAYLOAD_MAX : Nat := 64

/-- Configuration constant `REPOSITORY_MAX_ENTITIES`. -/
def REPOSITORY_MAX_ENTITIES : Nat := 32

/-- The enumerator `DOMAIN_EVENT_ENTITY_CREATED`. -/
def DOMAIN_EVENT_ENTITY_CREATED : Nat := 1

/-- The enumerator `DOMAIN_EVENT_USER_BASE`. -/
def DOMAIN_EVENT_USER_BASE : Nat := 1000

/-- The value `DEMO_ENTITY_TYPE_CHARGER`. -/
def DEMO_ENTITY_TYPE_CHARGER : Nat := 1

/-- The value `DEMO_EVENT_POWER_LEVEL_CHANGED`. -/
def DEMO_EVENT_POWER_LEVEL_CHANGED : Nat := DOMAIN_EVENT_USER_BASE + 1

/-- The value `DEMO_CMD_CREATE_CHARGER`. -/
def DEMO_CMD_CREATE_CHARGER : Nat := 1

/-- The value `DEMO_CMD_SET_POWER_LEVEL`. -/
def DEMO_CMD_SET_POWER_LEVEL : Nat := 2

/-- The value `DEMO_QUERY_GET_CHARGER`. -/
def DEMO_QUERY_GET_CHARGER : Nat := 1

/-- The numeric value of an `AegisErrorCode` enumerator (`error_codes.h`). -/
def error_code_value : AegisErrorCode → Nat
  | ERR_OK => 0
  | ERR_NULL_PTR => 1
  | ERR_INVALID_PARAM => 2
  | ERR_NOT_INITIALIZED => 3
  | ERR_ALREADY_INITIALIZED => 4
  | ERR_OUT_OF_RANGE => 5
  | ERR_TIMEOUT => 6
  | ERR_BUSY => 7
  | ERR_NOT_FOUND => 8
  | ERR_EMPTY => 9
  | ERR_INVALID_STATE => 10
  | ERR_MEM_POOL_FULL => 100
  | ERR_MEM_POOL_INVALID => 101
  | ERR_MEM_POOL_DOUBLE_FREE => 102
  | ERR_MEM_SIZE_TOO_LARGE => 103
  | ERR_CMD_QUEUE_FULL => 200
  | ERR_CMD_QUEUE_EMPTY => 201
  | ERR_CMD_INVALID_TYPE => 202
  | ERR_HAL_TIMEOUT => 300
  | ERR_HAL_BUSY => 301
  | ERR_HAL_ERROR => 302
  | ERR_DOMAIN_NOT_FOUND => 400
  | ERR_DOMAIN_INVALID_STATE => 401
  | ERR_DOMAIN_FULL => 402
  | ERR_APP_CMD_FAILED => 500
  | ERR_APP_QUERY_FAILED => 501
  | ERR_MAX => 999

/-! ### Entities -/

/-- The record `AegisEntityBase`: `id` and `type` are `uint16_t`, `state` the
`AegisEntityState` enumeration, the timestamps `uint32_t`, `is_valid` a `bool_t`. -/
structure AegisEntityBase where
  id : Nat
  type : Nat
  state : Nat
  created_at : Nat
  updated_at : Nat
  is_valid : Nat
deriving DecidableEq, Repr

/-- The record `AegisDomainEntity`: the base, the `uint16_t` `payload_size` and
the `DOMAIN_ENTITY_PAYLOAD_MAX` cells of the payload array. -/
structure AegisDomainEntity where
  base : AegisEntityBase
  payload_size : Nat
  payload : List Nat
deriving DecidableEq, Repr

/-- The all-zero entity record (`memset(&entity, 0, sizeof(AegisDomainEntity))`). -/
def zero_entity : AegisDomainEntity :=
  { base := { id := 0, type := 0, state := 0, created_at := 0, updated_at := 0, is_valid := 0 },
    payload_size := 0, payload := List.replicate DOMAIN_ENTITY_PAYLOAD_MAX 0 }

/-- The function `aegis_domain_entity_init` on a non-null base. -/
def aegis_domain_entity_init (base : AegisEntityBase) (id type : Nat) :
    AegisErrorCode × AegisEntityBase :=
  if type = ENTITY_TYPE_INVALID then (ERR_INVALID_PARAM, base)
  else
    (ERR_OK,
      { id := id, type := type, state := ENTITY_STATE_INACTIVE, created_at := 0, updated_at := 0,
        is_valid := TRUE })

/-- The function `aegis_domain_entity_payload_set` on a non-null entity;
`payload` is `none` for `NULL`. -/
def aegis_domain_entity_payload_set (entity : AegisDomainEntity) (payload : Option (List Nat))
    (payload_size : Nat) : AegisErrorCode × AegisDomainEntity :=
  if payload_size > DOMAIN_ENTITY_PAYLOAD_MAX then (ERR_OUT_OF_RANGE, entity)
  else if payload_size = 0 then (ERR_OK, { entity with payload_size := payload_size })
  else
    match payload with
    | none => (ERR_NULL_PTR, { entity with payload_size := payload_size })
    | some p =>
      (ERR_OK,
        { entity with
          payload_size := payload_size
          payload := memcpy entity.payload 0 p 0 payload_size })

/-- The function `aegis_domain_entity_payload_get` on non-null arguments: the
status, the payload array the returned pointer designates and the size. -/
def aegis_domain_entity_payload_get (entity : AegisDomainEntity) :
    AegisErrorCode × List Nat × Nat :=
  (ERR_OK, entity.payload, entity.payload_size)

/-! ### The in-memory repository -/

/-- The record `AegisInfrastructureRepositoryInmem`: the pool, the `uint8_t`
`entity_count`, the `uint16_t` `next_entity_id`, `is_initialized`, and the
clock callback `now_ms` (`none` for `NULL`) acting on the state `now_ms_ctx`
points to.  The two interface records, which only hold the functions below
and the address of the repository, are left out. -/
structure AegisInfrastructureRepositoryInmem where
  entity_pool : List AegisDomainEntity
  entity_count : Nat
  next_entity_id : Nat
  is_initialized : Nat
  now_ms : Option (Nat → Nat × Nat)
  now_ms_ctx : Nat

/-- The static function `repo_now_ms` on a non-null repository: the value
returned (a `uint32_t`) and the repository afterwards. -/
def repo_now_ms (repo : AegisInfrastructureRepositoryInmem) :
    Nat × AegisInfrastructureRepositoryInmem :=
  match repo.now_ms with
  | none => (0, repo)
  | some now =>
    ((now repo.now_ms_ctx).1 % 4294967296, { repo with now_ms_ctx := (now repo.now_ms_ctx).2 })

/-- The static function `allocate_entity_id` on a non-null repository. -/
def allocate_entity_id (repo : AegisInfrastructureRepositoryInmem) :
    Nat × AegisInfrastructureRepositoryInmem :=
  (repo.next_entity_id,
    { repo with
      next_entity_id :=
        if (repo.next_entity_id + 1) % 65536 = ENTITY_ID_INVALID then 1
        else (repo.next_entity_id + 1) % 65536 })

/-- The loop of the static function `find_entity_index` over the indices still
to visit: the first index whose entry has the identifier and is valid. -/
def find_entity_index (pool : List AegisDomainEntity) (entity_id : Nat) : List Nat → Option Nat
  | [] => none
  | i :: rest =>
    match pool[i]? with
    | some e =>
      if e.base.id = entity_id ∧ e.base.is_valid ≠ 0 then some i
      else find_entity_index pool entity_id rest
    | none => find_entity_index pool entity_id rest

/-- The function `repository_init_impl` on the repository its interface
designates. -/
def repository_init_impl (repo : AegisInfrastructureRepositoryInmem) :
    AegisErrorCode × AegisInfrastructureRepositoryInmem :=
  (ERR_OK,
    { repo with
      entity_pool := List.replicate REPOSITORY_MAX_ENTITIES zero_entity
      entity_count := 0
      next_entity_id := 1
      is_initialized := TRUE })

/-- The function `repository_get_impl` with a non-null output pointer: the
status and the pool index of the entity stored through `entity` (`none` when
nothing is stored). -/
def repository_get_impl (repo : AegisInfrastructureRepositoryInmem) (entity_id : Nat) :
    AegisErrorCode × Option Nat :=
  if repo.is_initialized = 0 then (ERR_NOT_INITIALIZED, none)
  else
    match find_entity_index repo.entity_pool entity_id (List.range repo.entity_count) with
    | none => (ERR_NOT_FOUND, none)
    | some i => (ERR_OK, some i)

/-- The function `repository_create_impl` on a non-null entity: the status,
the repository afterwards and the caller's entity record afterwards. -/
def repository_create_impl (repo : AegisInfrastructureRepositoryInmem)
    (entity : AegisDomainEntity) :
    AegisErrorCode × AegisInfrastructureRepositoryInmem × AegisDomainEntity :=
  if repo.is_initialized = 0 then (ERR_NOT_INITIALIZED, repo, entity)
  else if entity.payload_size > DOMAIN_ENTITY_PAYLOAD_MAX then (ERR_OUT_OF_RANGE, repo, entity)
  else if repo.entity_count ≥ REPOSITORY_MAX_ENTITIES then (ERR_OUT_OF_RANGE, repo, entity)
  else
    let a : Nat × AegisInfrastructureRepositoryInmem :=
      if entity.base.id = ENTITY_ID_INVALID then allocate_entity_id repo
      else (entity.base.id, repo)
    let t := repo_now_ms a.2
    let stored : AegisDomainEntity :=
      { entity with
        base :=
          { entity.base with
            id := a.1, created_at := t.1, updated_at := t.1, is_valid := TRUE } }
    (ERR_OK,
      { t.2 with
        entity_pool := t.2.entity_pool.set t.2.entity_count stored
        entity_count := (t.2.entity_count + 1) % 256 },
      stored)

/-- The function `repository_update_impl` on a non-null entity: the status,
the repository afterwards and the caller's entity record afterwards.  When the
caller's record is the stored one, the final `memcpy` copies it onto itself. -/
def repository_update_impl (repo : AegisInfrastructureRepositoryInmem)
    (entity : AegisDomainEntity) :
    AegisErrorCode × AegisInfrastructureRepositoryInmem × AegisDomainEntity :=
  if repo.is_initialized = 0 then (ERR_NOT_INITIALIZED, repo, entity)
  else if entity.payload_size > DOMAIN_ENTITY_PAYLOAD_MAX then (ERR_OUT_OF_RANGE, repo, entity)
  else
    match find_entity_index repo.entity_pool entity.base.id (List.range repo.entity_count) with
    | none => (ERR_NOT_FOUND, repo, entity)
    | some index =>
      let t := repo_now_ms repo
      let updated : AegisDomainEntity :=
        { entity with
          base :=
            { entity.base with
              created_at := (repo.entity_pool.getD index zero_entity).base.created_at
              is_valid := TRUE
              updated_at := t.1 } }
      (ERR_OK, { t.2 with entity_pool := t.2.entity_pool.set index updated }, updated)

/-! ### The domain of the example (`demo_domain.c`) -/

/-- The record `DemoChargerState` (`uint16_t`, `uint8_t`). -/
structure DemoChargerState where
  charger_model : Nat
  power_level : Nat
deriving DecidableEq, Repr

/-- The value `sizeof(DemoChargerState)`. -/
def sizeof_DemoChargerState : Nat := 4

/-- The object representation of a `DemoChargerState`: the model at offset 0
(little-endian), the power level at 2.  The padding cell at 3 is indeterminate
in C: `demo_domain_charger_create` assigns the two fields of a local record it
does not zero and copies all four cells.  It is written as 0 here;
`charger_state_of_bytes` reads the fields back from the cells 0 to 2 only. -/
def charger_state_bytes (s : DemoChargerState) : List Nat :=
  le_bytes 2 s.charger_model ++ [s.power_level % 256, 0]

/-- The `DemoChargerState` whose object representation starts the cell
sequence. -/
def charger_state_of_bytes (bs : List Nat) : DemoChargerState :=
  { charger_model := le_value (bs.take 2), power_level := bs.getD 2 0 }

/-- The record `DemoPowerChangedEventData` (two `uint8_t`). -/
structure DemoPowerChangedEventData where
  old_power : Nat
  new_power : Nat
deriving DecidableEq, Repr

/-- The value `sizeof(DemoPowerChangedEventData)`. -/
def sizeof_DemoPowerChangedEventData : Nat := 2

/-- The object representation of a `DemoPowerChangedEventData`. -/
def power_changed_bytes (p : DemoPowerChangedEventData) : List Nat :=
  [p.old_power % 256, p.new_power % 256]

/-- The `DemoPowerChangedEventData` whose object representation starts the cell
sequence. -/
def power_changed_of_bytes (bs : List Nat) : DemoPowerChangedEventData :=
  { old_power := bs.getD 0 0, new_power := bs.getD 1 0 }

/-- The address of the string literal `"REQ-DEMO-CHARGER-CREATE"`, chosen by the
linker; the embedding fixes a value for it. -/
def REQ_DEMO_CHARGER_CREATE : Nat := 4096

/-- The address of the string literal `"REQ-DEMO-POWER-CHANGED"`, chosen by the
linker; the embedding fixes a value for it. -/
def REQ_DEMO_POWER_CHANGED : Nat := 4128

/-- The static function `validate_power_level`. -/
def validate_power_level (level : Nat) : AegisErrorCode :=
  if level > 100 then ERR_OUT_OF_RANGE else ERR_OK

/-- The event record `publish_entity_created` builds. -/
def entity_created_event (id type : Nat) : AegisDomainEvent :=
  { zero_event with
    type := DOMAIN_EVENT_ENTITY_CREATED
    aggregate_id := id
    aegis_trace_id := REQ_DEMO_CHARGER_CREATE
    data := memcpy zero_event.data 0 (le_bytes 2 type) 0 2 }

/-- The event record `publish_power_changed` builds. -/
def power_changed_event (id old_power new_power : Nat) : AegisDomainEvent :=
  { zero_event with
    type := DEMO_EVENT_POWER_LEVEL_CHANGED
    aggregate_id := id
    aegis_trace_id := REQ_DEMO_POWER_CHANGED
    data :=
      memcpy zero_event.data 0
        (power_changed_bytes { old_power := old_power, new_power := new_power }) 0
        sizeof_DemoPowerChangedEventData }

/-- The static function `publish_entity_created`; `bus` is `none` for `NULL`
and `pub` is `aegis_domain_event_publish`. -/
def publish_entity_created (pub : PublishFn) (bus : Option AegisDomainEventBus) (id type : Nat) :
    Option (AegisErrorCode × Option AegisDomainEventBus × List BusObs) :=
  match bus with
  | none => some (ERR_NULL_PTR, none, [])
  | some b => (pub b (entity_created_event id type)).map fun r => (r.1, some r.2.1, r.2.2)

/-- The static function `publish_power_changed`; `bus` is `none` for `NULL`. -/
def publish_power_changed (pub : PublishFn) (bus : Option AegisDomainEventBus)
    (id old_power new_power : Nat) :
    Option (AegisErrorCode × Option AegisDomainEventBus × List BusObs) :=
  match bus with
  | none => some (ERR_NULL_PTR, none, [])
  | some b =>
    (pub b (power_changed_event id old_power new_power)).map fun r => (r.1, some r.2.1, r.2.2)

/-- What a use case of the example leaves behind: the status, the repository
and the bus afterwards, the value of the output identifier and the observations
the bus made. -/
structure DemoOutcome where
  ret : AegisErrorCode
  repo : Option AegisInfrastructureRepositoryInmem
  bus : Option AegisDomainEventBus
  out_id : Nat
  obs : List BusObs

/-- The function `demo_domain_charger_create` with a non-null `out_id`, whose
value before the call is `out_id`; `repo` and `bus` are `none` for `NULL`. -/
def demo_domain_charger_create (pub : PublishFn)
    (repo : Option AegisInfrastructureRepositoryInmem) (bus : Option AegisDomainEventBus)
    (charger_model initial_power_level out_id : Nat) : Option DemoOutcome :=
  match repo, bus with
  | some r, some b =>
    if validate_power_level initial_power_level ≠ ERR_OK then
      some
        { ret := validate_power_level initial_power_level, repo := repo, bus := bus,
          out_id := out_id, obs := [] }
    else
      let entity : AegisDomainEntity :=
        { zero_entity with
          base :=
            (aegis_domain_entity_init zero_entity.base ENTITY_ID_INVALID
              DEMO_ENTITY_TYPE_CHARGER).2 }
      let s :=
        aegis_domain_entity_payload_set entity
          (some
            (charger_state_bytes
              { charger_model := charger_model, power_level := initial_power_level }))
          sizeof_DemoChargerState
      if s.1 ≠ ERR_OK then
        some { ret := s.1, repo := repo, bus := bus, out_id := out_id, obs := [] }
      else
        let c := repository_create_impl r s.2
        if c.1 ≠ ERR_OK then
          some { ret := c.1, repo := some c.2.1, bus := bus, out_id := out_id, obs := [] }
        else
          match publish_entity_created pub (some b) c.2.2.base.id c.2.2.base.type with
          | none => none
          | some p1 =>
            match publish_power_changed pub p1.2.1 c.2.2.base.id 0 initial_power_level with
            | none => none
            | some p2 =>
              some
                { ret := ERR_OK, repo := some c.2.1, bus := p2.2.1, out_id := c.2.2.base.id,
                  obs := p1.2.2 ++ p2.2.2 }
  | _, _ => some { ret := ERR_NULL_PTR, repo := repo, bus := bus, out_id := out_id, obs := [] }

/-- The function `demo_domain_charger_set_power_level`; `repo` and `bus` are
`none` for `NULL`.  The entity pointer the repository returns designates the
pool entry, so `aegis_domain_entity_payload_set` writes the pool and the record
handed to `update` is that entry.  `raw` is the object representation of the
local `state` after the `memcpy` from the payload; the assignment to
`state.power_level` replaces its cell 2. -/
def demo_domain_charger_set_power_level (pub : PublishFn)
    (repo : Option AegisInfrastructureRepositoryInmem) (bus : Option AegisDomainEventBus)
    (charger_id new_power_level : Nat) : Option DemoOutcome :=
  match repo, bus with
  | some r, some b =>
    if validate_power_level new_power_level ≠ ERR_OK then
      some
        { ret := validate_power_level new_power_level, repo := repo, bus := bus,
          out_id := charger_id, obs := [] }
    else
      match repository_get_impl r charger_id with
      | (ERR_OK, some i) =>
        let entity := r.entity_pool.getD i zero_entity
        let g := aegis_domain_entity_payload_get entity
        if g.1 ≠ ERR_OK then
          some { ret := g.1, repo := repo, bus := bus, out_id := charger_id, obs := [] }
        else if g.2.2 ≠ sizeof_DemoChargerState then
          some { ret := ERR_INVALID_STATE, repo := repo, bus := bus, out_id := charger_id, obs := [] }
        else
          let raw :=
            memcpy (List.replicate sizeof_DemoChargerState 0) 0 g.2.1 0 sizeof_DemoChargerState
          let state := charger_state_of_bytes raw
          if state.power_level = new_power_level then
            some { ret := ERR_OK, repo := repo, bus := bus, out_id := charger_id, obs := [] }
          else
            let s :=
              aegis_domain_entity_payload_set entity (some (raw.set 2 (new_power_level % 256)))
                sizeof_DemoChargerState
            let r1 := { r with entity_pool := r.entity_pool.set i s.2 }
            if s.1 ≠ ERR_OK then
              some { ret := s.1, repo := some r1, bus := bus, out_id := charger_id, obs := [] }
            else
              let u := repository_update_impl r1 s.2
              let r2 := { u.2.1 with entity_pool := u.2.1.entity_pool.set i u.2.2 }
              if u.1 ≠ ERR_OK then
                some { ret := u.1, repo := some r2, bus := bus, out_id := charger_id, obs := [] }
              else
                match publish_power_changed pub (some b) charger_id state.power_level
                    new_power_level with
                | none => none
                | some p =>
                  some
                    { ret := ERR_OK, repo := some r2, bus := p.2.1, out_id := charger_id,
                      obs := p.2.2 }
      | _ =>
        some { ret := ERR_NOT_FOUND, repo := repo, bus := bus, out_id := charger_id, obs := [] }
  | _, _ =>
    some { ret := ERR_NULL_PTR, repo := repo, bus := bus, out_id := charger_id, obs := [] }

/-- The function `demo_domain_charger_get` with a non-null `out_state`, whose
value before the call is `out_state`; `repo` is `none` for `NULL`. -/
def demo_domain_charger_get (repo : Option AegisInfrastructureRepositoryInmem)
    (charger_id : Nat) (out_state : DemoChargerState) : AegisErrorCode × DemoChargerState :=
  match repo with
  | none => (ERR_NULL_PTR, out_state)
  | some r =>
    match repository_get_impl r charger_id with
    | (ERR_OK, some i) =>
      let g := aegis_domain_entity_payload_get (r.entity_pool.getD i zero_entity)
      if g.1 ≠ ERR_OK then (g.1, out_state)
      else if g.2.2 ≠ sizeof_DemoChargerState then (ERR_INVALID_STATE, out_state)
      else (ERR_OK, charger_state_of_bytes g.2.1)
    | _ => (ERR_NOT_FOUND, out_state)

/-! ### Payload helpers of commands and responses -/

/-- The macro `APP_CMD_INIT`. -/
def APP_CMD_INIT (cmd : AegisCommand) (type_val : Nat) : AegisCommand :=
  { cmd with type := type_val, timestamp := 0, entity_id := ENTITY_ID_INVALID, payload_size := 0 }

/-- The macro `APP_CMD_SET_ENTITY_ID`. -/
def APP_CMD_SET_ENTITY_ID (cmd : AegisCommand) (id_val : Nat) : AegisCommand :=
  { cmd with entity_id := id_val }

/-- The function `aegis_app_cmd_payload_write` on a non-null command;
`payload` is `none` for `NULL`. -/
def aegis_app_cmd_payload_write (cmd : AegisCommand) (payload : Option (List Nat)) (size : Nat) :
    AegisErrorCode × AegisCommand :=
  if size > APP_CMD_PAYLOAD_MAX then (ERR_OUT_OF_RANGE, cmd)
  else
    match payload with
    | none =>
      if size > 0 then (ERR_NULL_PTR, cmd) else (ERR_OK, { cmd with payload_size := size })
    | some p =>
      (ERR_OK, { cmd with payload_size := size, payload := memcpy cmd.payload 0 p 0 size })

/-- The function `aegis_app_cmd_payload_read` on non-null arguments: the status
and the cells of `out` afterwards. -/
def aegis_app_cmd_payload_read (cmd : AegisCommand) (out : List Nat) (expected_size : Nat) :
    AegisErrorCode × List Nat :=
  if cmd.payload_size ≠ expected_size then (ERR_OUT_OF_RANGE, out)
  else if expected_size > APP_CMD_PAYLOAD_MAX then (ERR_OUT_OF_RANGE, out)
  else (ERR_OK, memcpy out 0 cmd.payload 0 expected_size)

/-- The function `aegis_app_query_result_payload_write` on a non-null response;
`payload` is `none` for `NULL`. -/
def aegis_app_query_result_payload_write (resp : AegisQueryResponse)
    (payload : Option (List Nat)) (size : Nat) : AegisErrorCode × AegisQueryResponse :=
  if size > APP_QUERY_RESULT_PAYLOAD_MAX then (ERR_OUT_OF_RANGE, resp)
  else
    match payload with
    | none =>
      if size > 0 then (ERR_NULL_PTR, resp) else (ERR_OK, { resp with payload_size := size })
    | some p =>
      (ERR_OK, { resp with payload_size := size, payload := memcpy resp.payload 0 p 0 size })

/-- The function `aegis_app_query_result_payload_read` on non-null arguments:
the status and the cells of `out` afterwards. -/
def aegis_app_query_result_payload_read (resp : AegisQueryResponse) (out : List Nat)
    (expected_size : Nat) : AegisErrorCode × List Nat :=
  if resp.payload_size ≠ expected_size then (ERR_OUT_OF_RANGE, out)
  else if expected_size > APP_QUERY_RESULT_PAYLOAD_MAX then (ERR_OUT_OF_RANGE, out)
  else (ERR_OK, memcpy out 0 resp.payload 0 expected_size)

/-! ### The application layer of the example (`demo_application.c`) -/

/-- The record `DemoCreateChargerCmd` (`uint16_t`, `uint8_t`). -/
structure DemoCreateChargerCmd where
  charger_model : Nat
  initial_power_level : Nat
deriving DecidableEq, Repr

/-- The value `sizeof(DemoCreateChargerCmd)`. -/
def sizeof_DemoCreateChargerCmd : Nat := 4

/-- The object representation of a `DemoCreateChargerCmd`: the model at offset
0 (little-endian), the power level at 2; the padding cell at 3 is written as 0. -/
def create_cmd_bytes (p : DemoCreateChargerCmd) : List Nat :=
  le_bytes 2 p.charger_model ++ [p.initial_power_level % 256, 0]

/-- The `DemoCreateChargerCmd` whose object representation starts the cell
sequence. -/
def create_cmd_of_bytes (bs : List Nat) : DemoCreateChargerCmd :=
  { charger_model := le_value (bs.take 2), initial_power_level := bs.getD 2 0 }

/-- The value `sizeof(DemoSetPowerCmd)`, a record of one `uint8_t`
`new_power_level`. -/
def sizeof_DemoSetPowerCmd : Nat := 1

/-- The record `DemoChargerDto` (`uint16_t`, `uint16_t`, `uint8_t`). -/
structure DemoChargerDto where
  id : Nat
  charger_model : Nat
  power_level : Nat
deriving DecidableEq, Repr

/-- The value `sizeof(DemoChargerDto)`. -/
def sizeof_DemoChargerDto : Nat := 6

/-- The object representation of a `DemoChargerDto`: the identifier at offset
0, the model at 2, the power level at 4; the padding cell at 5 is 0 (the
record is zeroed before it is filled). -/
def charger_dto_bytes (d : DemoChargerDto) : List Nat :=
  le_bytes 2 d.id ++ le_bytes 2 d.charger_model ++ [d.power_level % 256, 0]

/-- The `DemoChargerDto` whose object representation starts the cell sequence. -/
def charger_dto_of_bytes (bs : List Nat) : DemoChargerDto :=
  { id := le_value (bs.take 2), charger_model := le_value ((bs.drop 2).take 2),
    power_level := bs.getD 4 0 }

/-- The objects the two pointers of a `DemoUseCaseDeps` record designate, each
`none` for `NULL`. -/
structure DemoUseCaseDeps where
  repo : Option AegisInfrastructureRepositoryInmem
  bus : Option AegisDomainEventBus

/-- A command handler whose context designates a `DemoUseCaseDeps`: it receives
the command, the result record, the context address and the objects behind the
record, and returns its status, the result record and those objects as it
leaves them, and the observations the bus made; `none` when a publish ran out
of fuel. -/
abbrev DepsCmdHandler :=
  AegisCommand → AegisCommandResult → Nat → DemoUseCaseDeps →
    Option (AegisErrorCode × AegisCommandResult × DemoUseCaseDeps × List BusObs)

/-- A query handler whose context designates a `DemoUseCaseDeps`, which it only
reads. -/
abbrev DepsQueryHandler :=
  AegisQueryRequest → AegisQueryResponse → Nat → DemoUseCaseDeps →
    AegisErrorCode × AegisQueryResponse

/-- The static function `handle_create_charger` on non-null `cmd` and `result`;
`ctx` is the address held by the `void*`. -/
def handle_create_charger (pub : PublishFn) : DepsCmdHandler := fun cmd result ctx deps =>
  if ctx = 0 then some (ERR_NULL_PTR, result, deps, [])
  else
    let p :=
      aegis_app_cmd_payload_read cmd (List.replicate sizeof_DemoCreateChargerCmd 0)
        sizeof_DemoCreateChargerCmd
    if p.1 ≠ ERR_OK then
      some (ERR_INVALID_PARAM, { result with result := ERR_INVALID_PARAM }, deps, [])
    else
      match demo_domain_charger_create pub deps.repo deps.bus
          (create_cmd_of_bytes p.2).charger_model (create_cmd_of_bytes p.2).initial_power_level
          ENTITY_ID_INVALID with
      | none => none
      | some r =>
        some (r.ret, { result with created_id := r.out_id, result := r.ret },
          { repo := r.repo, bus := r.bus }, r.obs)

/-- The static function `handle_set_power` on non-null `cmd` and `result`. -/
def handle_set_power (pub : PublishFn) : DepsCmdHandler := fun cmd result ctx deps =>
  if ctx = 0 then some (ERR_NULL_PTR, result, deps, [])
  else if cmd.entity_id = ENTITY_ID_INVALID then
    some (ERR_INVALID_PARAM, { result with result := ERR_INVALID_PARAM }, deps, [])
  else
    let p :=
      aegis_app_cmd_payload_read cmd (List.replicate sizeof_DemoSetPowerCmd 0)
        sizeof_DemoSetPowerCmd
    if p.1 ≠ ERR_OK then
      some (ERR_INVALID_PARAM, { result with result := ERR_INVALID_PARAM }, deps, [])
    else
      match demo_domain_charger_set_power_level pub deps.repo deps.bus cmd.entity_id
          (p.2.getD 0 0) with
      | none => none
      | some r =>
        some (r.ret, { result with result := r.ret }, { repo := r.repo, bus := r.bus }, r.obs)

/-- The static function `handle_get_charger` on non-null `req` and `resp`. -/
def handle_get_charger : DepsQueryHandler := fun req resp ctx deps =>
  if ctx = 0 then (ERR_NULL_PTR, resp)
  else if req.entity_id = ENTITY_ID_INVALID then
    (ERR_INVALID_PARAM, { resp with result := ERR_INVALID_PARAM, payload_size := 0 })
  else
    let g :=
      demo_domain_charger_get deps.repo req.entity_id { charger_model := 0, power_level := 0 }
    if g.1 ≠ ERR_OK then (g.1, { resp with result := g.1, payload_size := 0 })
    else
      let w :=
        aegis_app_query_result_payload_write resp
          (some
            (charger_dto_bytes
              { id := req.entity_id, charger_model := g.2.charger_model,
                power_level := g.2.power_level }))
          sizeof_DemoChargerDto
      if w.1 ≠ ERR_OK then (w.1, { w.2 with result := w.1, payload_size := 0 })
      else (ERR_OK, { w.2 with result := ERR_OK })

/-- The function `aegis_app_cmd_service_execute` on non-null arguments, for
handlers that act on the objects behind a `DemoUseCaseDeps`. -/
def aegis_app_cmd_service_execute_deps (service : HandlerTable DepsCmdHandler)
    (cmd : AegisCommand) (result : AegisCommandResult) (deps : DemoUseCaseDeps) :
    Option (AegisErrorCode × AegisCommandResult × DemoUseCaseDeps × List BusObs) :=
  match lookup_handler service cmd.type with
  | none =>
    some (ERR_NOT_FOUND, { cmd_result_defaults result with result := ERR_NOT_FOUND }, deps, [])
  | some (_, handler, ctx) =>
    match handler cmd (cmd_result_defaults result) ctx deps with
    | none => none
    | some r => some (r.1, { r.2.1 with result := r.1 }, r.2.2.1, r.2.2.2)

/-- The function `aegis_app_query_execute` on non-null arguments, for handlers
that read the objects behind a `DemoUseCaseDeps`. -/
def aegis_app_query_execute_deps (dispatcher : HandlerTable DepsQueryHandler)
    (req : AegisQueryRequest) (resp : AegisQueryResponse) (deps : DemoUseCaseDeps) :
    AegisErrorCode × AegisQueryResponse :=
  if req.type = QUERY_TYPE_INVALID then
    (ERR_INVALID_PARAM, { resp with result := ERR_INVALID_PARAM, payload_size := 0 })
  else
    match lookup_handler dispatcher req.type with
    | none => (ERR_NOT_FOUND, { resp with result := ERR_NOT_FOUND, payload_size := 0 })
    | some (_, handler, ctx) =>
      ((handler req resp ctx deps).1,
        { (handler req resp ctx deps).2 with result := (handler req resp ctx deps).1 })

/-- The loop of `aegis_app_cmd_service_register_handlers` and
`aegis_app_query_register_handlers` over the definitions still to register. -/
def register_handlers {H : Type} (cap : Nat) (table : HandlerTable H) :
    List (HandlerEntry H) → AegisErrorCode × HandlerTable H
  | [] => (ERR_OK, table)
  | d :: defs =>
    if (register_handler cap table d.type d.handler d.ctx).1 ≠ ERR_OK then
      register_handler cap table d.type d.handler d.ctx
    else register_handlers cap (register_handler cap table d.type d.handler d.ctx).2 defs

/-! ### The application runtime and the main loop -/

/-- The record `AegisAppRuntime`.  `trace` is the log its pointer designates
(`none` for `NULL`), which is also the log of the bus and of the command
queue; `write_repo` is the repository the interface pointer designates.  The
assembler and converter registries, which the functions below only
initialise, are left out. -/
structure AegisAppRuntime where
  trace : Option AegisTraceLog
  write_repo : Option AegisInfrastructureRepositoryInmem
  event_bus : AegisDomainEventBus
  cmd_queue : AegisAppCmdQueue
  cmd_service : HandlerTable DepsCmdHandler
  query : HandlerTable DepsQueryHandler
  is_initialized : Nat

/-- The bus of the runtime with the log its `trace` pointer designates. -/
def app_bus (app : AegisAppRuntime) : AegisDomainEventBus :=
  { app.event_bus with trace := app.trace }

/-- The command queue of the runtime with the log its `trace` pointer
designates. -/
def app_queue (app : AegisAppRuntime) : AegisAppCmdQueue :=
  { app.cmd_queue with trace := app.trace }

/-- The runtime after a bus function left the bus and the log as in `bus`. -/
def app_store_bus (app : AegisAppRuntime) (bus : AegisDomainEventBus) : AegisAppRuntime :=
  { app with event_bus := bus, trace := bus.trace }

/-- The runtime after a queue function left the queue and the log as in `queue`. -/
def app_store_queue (app : AegisAppRuntime) (queue : AegisAppCmdQueue) : AegisAppRuntime :=
  { app with cmd_queue := queue, trace := queue.trace }

/-- The objects the `DemoUseCaseDeps` record filled by
`demo_application_register` designates: the repository of the runtime and its
bus. -/
def app_deps (app : AegisAppRuntime) : DemoUseCaseDeps :=
  { repo := app.write_repo, bus := some (app_bus app) }

/-- The runtime after a handler left the repository and the bus as in `deps`. -/
def app_store_deps (app : AegisAppRuntime) (deps : DemoUseCaseDeps) : AegisAppRuntime :=
  match deps.bus with
  | some bus => { app_store_bus app bus with write_repo := deps.repo }
  | none => { app with write_repo := deps.repo }

/-- The record `AegisAppInitConfig`, pointers as the objects they designate. -/
structure AegisAppInitConfig where
  trace : Option AegisTraceLog
  write_repo : Option AegisInfrastructureRepositoryInmem
  event_subscriptions : Option (List AegisEventSubscription)
  event_subscription_count : Nat

/-- The zeroed bus record (`memset(runtime, 0, …)`). -/
def zero_bus : AegisDomainEventBus :=
  { subscriptions := none, subscription_count := 0,
    async_queue :=
      { buffer := List.replicate (DOMAIN_EVENT_QUEUE_SIZE * sizeof_AegisDomainEvent) 0, size := 0,
        head := 0, tail := 0, count := 0 },
    history :=
      { history := List.replicate DOMAIN_EVENT_HISTORY_SIZE zero_event, head := 0, count := 0 },
    next_event_id := 0, total_published := 0, total_processed := 0, sync_handled := 0,
    async_handled := 0, dropped_events := 0, recursion_depth := 0, is_initialized := 0,
    trace := none }

/-- The zeroed command queue record. -/
def zero_cmd_queue : AegisAppCmdQueue :=
  { ring :=
      { buffer := List.replicate (CMD_QUEUE_SIZE * sizeof_AegisCommand) 0, size := 0, head := 0,
        tail := 0, count := 0 },
    trace := none, is_initialized := 0 }

/-- The function `aegis_app_init_all` on non-null arguments, with a repository
interface whose function pointers are all set. -/
def aegis_app_init_all (_runtime : AegisAppRuntime) (config : AegisAppInitConfig) :
    AegisErrorCode × AegisAppRuntime :=
  match config.write_repo with
  | none => (ERR_NULL_PTR, _runtime)
  | some repo =>
    let zeroed : AegisAppRuntime :=
      { trace := config.trace, write_repo := some repo, event_bus := zero_bus,
        cmd_queue := zero_cmd_queue,
        cmd_service := table_init APP_CMD_SERVICE_MAX_HANDLERS 0,
        query := table_init APP_QUERY_MAX_HANDLERS 0,
        is_initialized := 0 }
    let b :=
      aegis_domain_event_bus_init zeroed.event_bus config.trace config.event_subscriptions
        config.event_subscription_count
    if b.1 ≠ ERR_OK then (b.1, { zeroed with event_bus := b.2 })
    else
      let r := repository_init_impl repo
      let q := aegis_app_cmd_init zeroed.cmd_queue b.2.trace
      (ERR_OK,
        { trace := q.2.trace, write_repo := some r.2, event_bus := b.2, cmd_queue := q.2,
          cmd_service := table_init APP_CMD_SERVICE_MAX_HANDLERS CMD_TYPE_INVALID,
          query := table_init APP_QUERY_MAX_HANDLERS QUERY_TYPE_INVALID,
          is_initialized := TRUE })

/-- The function `demo_application_register` on a non-null runtime; `ctx` is
the address of the module record, whose first member is the `DemoUseCaseDeps`
the handlers are registered with. -/
def demo_application_register (pub : PublishFn) (app : AegisAppRuntime) (ctx : Nat) :
    AegisErrorCode × AegisAppRuntime :=
  if app.is_initialized = 0 then (ERR_NOT_INITIALIZED, app)
  else if ctx = 0 then (ERR_NULL_PTR, app)
  else
    let c :=
      register_handlers APP_CMD_SERVICE_MAX_HANDLERS app.cmd_service
        [{ type := DEMO_CMD_CREATE_CHARGER, handler := some (handle_create_charger pub),
            ctx := ctx },
          { type := DEMO_CMD_SET_POWER_LEVEL, handler := some (handle_set_power pub),
            ctx := ctx }]
    if c.1 ≠ ERR_OK then (c.1, { app with cmd_service := c.2 })
    else
      let q :=
        register_handlers APP_QUERY_MAX_HANDLERS app.query
          [{ type := DEMO_QUERY_GET_CHARGER, handler := some handle_get_charger, ctx := ctx }]
      if q.1 ≠ ERR_OK then (q.1, { app with cmd_service := c.2, query := q.2 })
      else (ERR_OK, { app with cmd_service := c.2, query := q.2 })

/-- The function `aegis_app_init_process_domain_events` on a non-null runtime. -/
def aegis_app_init_process_domain_events (fuel : Nat) (app : AegisAppRuntime)
    (max_events : Nat) : Option (Nat × AegisAppRuntime × List BusObs) :=
  if app.is_initialized = 0 then some (0, app, [])
  else
    (aegis_domain_event_process fuel (app_bus app) max_events).map fun r =>
      (r.1, app_store_bus app r.2.1, r.2.2)

/-- The record `AegisEntryRuntime`.  Its member `trace` is the log `app.trace`
designates and is held there; the memory pool, which the main loop does not
touch, is left out. -/
structure AegisEntryRuntime where
  app : AegisAppRuntime
  is_initialized : Nat

/-- What one pass of the main loop did: the command it took from the queue
with the status `aegis_app_cmd_service_execute` returned for it and the local
result record afterwards (`none` when no command was executed), the
observations the bus made while the command was executed, and those it made in
the `aegis_app_init_process_domain_events` call that ends the pass. -/
structure LoopPass where
  executed : Option (AegisCommand × AegisErrorCode × AegisCommandResult)
  handler_obs : List BusObs
  process_obs : List BusObs

/-- The function `aegis_entry_main_loop_once` on a non-null runtime; `result`
is the content of the local result record, which the function does not
initialise, when the loop is entered. -/
def aegis_entry_main_loop_once (fuel : Nat) (runtime : AegisEntryRuntime)
    (result : AegisCommandResult) : Option (AegisErrorCode × AegisEntryRuntime × LoopPass) :=
  if runtime.is_initialized = 0 then
    some (ERR_NOT_INITIALIZED, runtime, { executed := none, handler_obs := [], process_obs := [] })
  else
    let c := aegis_app_cmd_get_count (app_queue runtime.app)
    if c.1 ≠ ERR_OK then
      some (c.1, runtime, { executed := none, handler_obs := [], process_obs := [] })
    else
      let step : Option (AegisAppRuntime ×
          Option (AegisCommand × AegisErrorCode × AegisCommandResult) × List BusObs) :=
        if c.2.getD 0 > 0 then
          let d := aegis_app_cmd_dequeue (app_queue runtime.app) zero_cmd
          let app1 := app_store_queue runtime.app d.2.1
          if d.1 = ERR_OK then
            match aegis_app_cmd_service_execute_deps app1.cmd_service d.2.2 result
                (app_deps app1) with
            | none => none
            | some x =>
              let app2 := app_store_deps app1 x.2.2.1
              let t1 :=
                aegis_trace_log_event app2.trace TRACE_EVENT_CMD_EXEC "CMD-EXEC" d.2.2.type
                  (error_code_value x.1)
              let t2 :=
                if x.1 ≠ ERR_OK then
                  aegis_trace_log_event t1 TRACE_EVENT_CMD_EXEC "CMD-EXEC-ERR"
                    (error_code_value x.1) 0
                else t1
              some ({ app2 with trace := t2 }, some (d.2.2, x.1, x.2.1), x.2.2.2)
          else some (app1, none, [])
        else some (runtime.app, none, [])
      match step with
      | none => none
      | some s =>
        match aegis_app_init_process_domain_events fuel s.1 4 with
        | none => none
        | some p =>
          some (ERR_OK, { runtime with app := p.2.1 },
            { executed := s.2.1, handler_obs := s.2.2, process_obs := p.2.2 })

/-- The call `aegis_app_cmd_enqueue(&runtime->app.cmd_queue, cmd)` of `main`. -/
def runtime_enqueue (runtime : AegisEntryRuntime) (cmd : AegisCommand) :
    AegisErrorCode × AegisEntryRuntime :=
  ((aegis_app_cmd_enqueue (app_queue runtime.app) cmd).1,
    { runtime with
      app := app_store_queue runtime.app (aegis_app_cmd_enqueue (app_queue runtime.app) cmd).2 })

/-- The call `aegis_app_query_execute(&runtime->app.query, req, resp)` of `main`. -/
def runtime_query (runtime : AegisEntryRuntime) (req : AegisQueryRequest)
    (resp : AegisQueryResponse) : AegisErrorCode × AegisQueryResponse :=
  aegis_app_query_execute_deps runtime.app.query req resp (app_deps runtime.app)

/-! ### Views of the example system -/

/-- The table holds one synchronous subscriber for `DOMAIN_EVENT_ENTITY_CREATED`
and one for `DEMO_EVENT_POWER_LEVEL_CHANGED`, in this order, and neither
handler publishes. -/
def ChargerSubscribers (tbl : List AegisEventSubscription) : Prop :=
  ∃ s0 s1 h0 h1, tbl = [s0, s1] ∧
    s0.event_type = DOMAIN_EVENT_ENTITY_CREATED ∧ s0.is_sync = TRUE ∧ s0.handler = some h0 ∧
    (∀ e, (h0 e s0.ctx).publishes = []) ∧
    s1.event_type = DEMO_EVENT_POWER_LEVEL_CHANGED ∧ s1.is_sync = TRUE ∧
    s1.handler = some h1 ∧ (∀ e, (h1 e s1.ctx).publishes = [])

/-- The runtime is the example system between two passes of the main loop:
initialised, the command queue well formed and holding the commands `cs`, the
bus well formed, idle and set up with the two subscribers, the three handlers
of `demo_application.c` registered with a non-null context, and `repo` the
repository behind the write interface. -/
def ChargerReady (fuel : Nat) (runtime : AegisEntryRuntime) (cs : List AegisCommand)
    (repo : AegisInfrastructureRepositoryInmem) : Prop :=
  runtime.is_initialized ≠ 0 ∧ runtime.app.is_initialized ≠ 0 ∧
    CmdQueueWF (app_queue runtime.app) ∧ pending_cmds runtime.app.cmd_queue = cs ∧
    BusWF (app_bus runtime.app) ∧ runtime.app.event_bus.is_initialized ≠ 0 ∧
    runtime.app.event_bus.recursion_depth = 0 ∧
    runtime.app.event_bus.subscription_count = 2 ∧
    ChargerSubscribers (runtime.app.event_bus.subscriptions.getD []) ∧
    (∃ i c, c ≠ 0 ∧ lookup_handler runtime.app.cmd_service DEMO_CMD_CREATE_CHARGER =
      some (i, handle_create_charger (aegis_domain_event_publish fuel), c)) ∧
    (∃ i c, c ≠ 0 ∧ lookup_handler runtime.app.cmd_service DEMO_CMD_SET_POWER_LEVEL =
      some (i, handle_set_power (aegis_domain_event_publish fuel), c)) ∧
    (∃ i c, c ≠ 0 ∧ lookup_handler runtime.app.query DEMO_QUERY_GET_CHARGER =
      some (i, handle_get_charger, c)) ∧
    runtime.app.write_repo = some repo

/-- The repository is initialised, has room for one more entity, and the
identifier it will allocate next is a valid one that no valid stored entity
carries. -/
def RepoFresh (repo : AegisInfrastructureRepositoryInmem) : Prop :=
  repo.is_initialized ≠ 0 ∧ repo.entity_pool.length = REPOSITORY_MAX_ENTITIES ∧
    repo.entity_count < REPOSITORY_MAX_ENTITIES ∧ repo.next_entity_id < ENTITY_ID_INVALID ∧
    ∀ i e, i < repo.entity_count → repo.entity_pool[i]? = some e → e.base.is_valid ≠ 0 →
      e.base.id ≠ repo.next_entity_id

/-- The repository holds, at pool index `k`, the valid charger `id` with the
given model and power level, and `k` is the entry a lookup of `id` finds. -/
def HoldsCharger (repo : AegisInfrastructureRepositoryInmem) (k id model power : Nat) : Prop :=
  repo.is_initialized ≠ 0 ∧
    find_entity_index repo.entity_pool id (List.range repo.entity_count) = some k ∧
    ∃ e, repo.entity_pool[k]? = some e ∧ e.base.id = id ∧
      e.base.type = DEMO_ENTITY_TYPE_CHARGER ∧ e.base.is_valid = TRUE ∧
      e.payload_size = sizeof_DemoChargerState ∧
      e.payload.length = DOMAIN_ENTITY_PAYLOAD_MAX ∧
      charger_state_of_bytes e.payload = { charger_model := model, power_level := power }

/-! ### The example system -/

/-- The storage of a repository before `repository_init_impl`, without a
clock. -/
def storage_repo : AegisInfrastructureRepositoryInmem :=
  { entity_pool := List.replicate REPOSITORY_MAX_ENTITIES zero_entity, entity_count := 0,
    next_entity_id := 0, is_initialized := 0, now_ms := none, now_ms_ctx := 0 }

/-- The subscription table of the example: one synchronous subscriber for
`DOMAIN_EVENT_ENTITY_CREATED` and one for `DEMO_EVENT_POWER_LEVEL_CHANGED`, both
with `ok_handler`. -/
def charger_table : List AegisEventSubscription :=
  [{ event_type := DOMAIN_EVENT_ENTITY_CREATED, handler := some ok_handler, ctx := 512,
      is_sync := TRUE, priority := 0 },
    { event_type := DEMO_EVENT_POWER_LEVEL_CHANGED, handler := some ok_handler, ctx := 512,
      is_sync := TRUE, priority := 1 }]

/-- The storage of an application runtime before `aegis_app_init_all`. -/
def storage_app : AegisAppRuntime :=
  { trace := none, write_repo := none, event_bus := storage_bus, cmd_queue := storage_cmd_queue,
    cmd_service := { handlers := [], handler_count := 0 },
    query := { handlers := [], handler_count := 0 }, is_initialized := 0 }

/-- The application runtime of the example: initialised with `demo_trace`, the
in-memory repository and `charger_table`, then handed to
`demo_application_register` with a module at address 1024. -/
def charger_app (fuel : Nat) : AegisAppRuntime :=
  (demo_application_register (aegis_domain_event_publish fuel)
    (aegis_app_init_all storage_app
      { trace := some demo_trace, write_repo := some storage_repo,
        event_subscriptions := some charger_table, event_subscription_count := 2 }).2
    1024).2

/-- An initialised entry runtime around `charger_app`. -/
def charger_runtime (fuel : Nat) : AegisEntryRuntime :=
  { app := charger_app fuel, is_initialized := TRUE }

/-- The command `main` builds to create a charger: zeroed, `APP_CMD_INIT`,
then the payload written with `aegis_app_cmd_payload_write`. -/
def create_charger_cmd (charger_model initial_power_level : Nat) : AegisCommand :=
  (aegis_app_cmd_payload_write (APP_CMD_INIT zero_cmd DEMO_CMD_CREATE_CHARGER)
    (some
      (create_cmd_bytes
        { charger_model := charger_model, initial_power_level := initial_power_level }))
    sizeof_DemoCreateChargerCmd).2

/-- The command `main` builds to set the power level of a charger. -/
def set_power_cmd (charger_id new_power_level : Nat) : AegisCommand :=
  (aegis_app_cmd_payload_write
    (APP_CMD_SET_ENTITY_ID (APP_CMD_INIT zero_cmd DEMO_CMD_SET_POWER_LEVEL) charger_id)
    (some [new_power_level % 256]) sizeof_DemoSetPowerCmd).2

/-- The request `main` builds to query a charger. -/
def get_charger_query (charger_id : Nat) : AegisQueryRequest :=
  { type := DEMO_QUERY_GET_CHARGER, entity_id := charger_id, payload_size := 0,
    payload := List.replicate APP_QUERY_PAYLOAD_MAX 0 }

/-- The zeroed response record (`memset(&qr, 0, sizeof(AegisQueryResponse))`). -/
def zero_response : AegisQueryResponse :=
  { result := ERR_OK, payload_size := 0, payload := List.replicate APP_QUERY_RESULT_PAYLOAD_MAX 0 }

/-- The zeroed command result record. -/
def zero_result : AegisCommandResult :=
  { result := ERR_OK, created_id := 0, payload_size := 0,
    payload := List.replicate APP_CMD_RESULT_PAYLOAD_MAX 0 }

/-! ## A bus whose asynchronous handler publishes a burst of events -/

/-- A handler that publishes `k` events of type 5 and reports success. -/
def burst_handler (k : Nat) : DomainEventHandler := fun e _ =>
  { publishes := List.replicate k { e with type := 5 },
    result := AegisEventHandlerResult.EVENT_HANDLER_OK }

/-- A table whose only subscription is an async one for type 1 with
`burst_handler k`. -/
def burst_table (k : Nat) : List AegisEventSubscription :=
  [{ event_type := 1, handler := some (burst_handler k), ctx := 0, is_sync := FALSE,
      priority := 0 }]

/-- The bus initialised with `burst_table k` and no log. -/
def burst_bus (k : Nat) : AegisDomainEventBus :=
  (aegis_domain_event_bus_init storage_bus none (some (burst_table k)) 1).2

/-- The bus `burst_bus k` after `demo_event` was published on it. -/
def burst_pending (k : Nat) : AegisDomainEventBus :=
  ((aegis_domain_event_publish 1 (burst_bus k) demo_event).map fun r => r.2.1).getD (burst_bus k)

/-! ## Buses for nested publishes -/

/-- The only entry of `nest_table`. -/
def nest_entry : AegisEventSubscription :=
  { event_type := 1, handler := some nest_handler, ctx := 0, is_sync := TRUE, priority := 0 }

/-- The event `nest_handler` publishes when it runs for the copy of
`demo_event` published on `nest_bus`. -/
def nest_inner : AegisDomainEvent := { (publish_enter nest_bus demo_event).1 with type := 5 }

/-- The bus `nest_bus` when its identifier counter has reached 65535. -/
def wrap_bus : AegisDomainEventBus := { nest_bus with next_event_id := 65535 }

/-- A table whose only subscription is a sync one for type 1 with
`burst_handler 16`, which publishes 16 events of type 5. -/
def crowd_table : List AegisEventSubscription :=
  [{ event_type := 1, handler := some (burst_handler 16), ctx := 0, is_sync := TRUE,
      priority := 0 }]

/-- The bus initialised with `crowd_table` and no log. -/
def crowd_bus : AegisDomainEventBus :=
  (aegis_domain_event_bus_init storage_bus none (some crowd_table) 1).2

/-- A table with the sync subscription `nest_entry` for type 1, whose handler
publishes an event of type 5, and an async wildcard subscription with
`ok_handler`. -/
def mixed_table : List AegisEventSubscription :=
  [nest_entry,
    { event_type := 0, handler := some ok_handler, ctx := 0, is_sync := FALSE, priority := 0 }]

/-- The bus initialised with `mixed_table` and no log. -/
def mixed_bus : AegisDomainEventBus :=
  (aegis_domain_event_bus_init storage_bus none (some mixed_table) 2).2

/-- The event `nest_handler` publishes when it runs for the copy of
`demo_event` published on `mixed_bus`. -/
def mixed_inner : AegisDomainEvent := { (publish_enter mixed_bus demo_event).1 with type := 5 }

/-! ## The bus seen without the priority bytes -/

/-- The subscription with its priority byte cleared. -/
def strip_priority (sub : AegisEventSubscription) : AegisEventSubscription :=
  { sub with priority := 0 }

/-- The bus seen without the priority bytes of its subscription table. -/
def bus_strip (b : AegisDomainEventBus) : AegisDomainEventBus :=
  { b with subscriptions := b.subscriptions.map (List.map strip_priority) }

/-- What a call returned, the bus seen without the priority bytes. -/
def ret_strip {α : Type} (r : α × AegisDomainEventBus × List BusObs) :
    α × AegisDomainEventBus × List BusObs :=
  (r.1, bus_strip r.2.1, r.2.2)

/-- The table `fanout_table` with other priority bytes. -/
def fanout_table_reprioritised : List AegisEventSubscription :=
  fanout_table.map fun s => { s with priority := 200 - s.priority }

/-! ## Handlers used to instantiate the statements about execute -/

/-- A query handler that stores an error status in the response and reports
`ERR_OK`, as the failure paths of `handle_get_charger` in
`tests/application/test_app_command.c` do. -/
def masking_query_handler : AppQueryHandler := fun _ resp _ =>
  (ERR_OK, { resp with result := ERR_NOT_FOUND, payload_size := 0 })

/-- The query dispatcher after `init` with `masking_query_handler` registered
for type 1 with context 5. -/
def masking_dispatcher : AegisAppQueryDispatcher :=
  (aegis_app_query_register_handler (aegis_app_query_init (table_init 0 0)).2 1
    (some masking_query_handler) 5).2

/-- A query of type 1 for entity 7. -/
def demo_query : AegisQueryRequest := { demo_req with type := 1 }

/-- A command handler that stores `ERR_OK` and a created entity in the result
and reports `ERR_APP_CMD_FAILED`. -/
def failing_cmd_handler : AppCmdHandler := fun cmd result _ =>
  (ERR_APP_CMD_FAILED, { result with result := ERR_OK, created_id := cmd.entity_id })

/-- The command service after `init` with `failing_cmd_handler` registered for
type 1 with context 5. -/
def failing_service : AegisAppCmdService :=
  (aegis_app_cmd_service_register_handler (aegis_app_cmd_service_init (table_init 0 0)).2 1
    (some failing_cmd_handler) 5).2

/-- The entry of `failing_service` for type 1. -/
def failing_entry : HandlerEntry AppCmdHandler :=
  { type := 1, handler := some failing_cmd_handler, ctx := 5 }

/-- The entry of `masking_dispatcher` for type 1. -/
def masking_entry : HandlerEntry AppQueryHandler :=
  { type := 1, handler := some masking_query_handler, ctx := 5 }

/-! ## Static memory pool (`framework/src/common/mem_pool.c`)

Addresses are natural numbers and `NULL` is 0.  The pool object lives at some
address; `buffer_addr` is the address of its array `buffer` (it is not a field
of the C record).  A store or load through a pointer into the array acts on the
cell at the pointer's distance from `buffer_addr`. -/

/-- The constant `MEM_MAGIC_HEAD`. -/
def MEM_MAGIC_HEAD : Nat := 0xDEAD

/-- The constant `MEM_MAGIC_TAIL`. -/
def MEM_MAGIC_TAIL : Nat := 0xBEEF

/-- The constant `MEM_MAGIC_SIZE`. -/
def MEM_MAGIC_SIZE : Nat := 2

/-- The constant `FREE_LIST_END`. -/
def FREE_LIST_END : Nat := 0xFF

/-- The constant `MEM_POOL_SMALL_SIZE`. -/
def MEM_POOL_SMALL_SIZE : Nat := 32

/-- The constant `MEM_POOL_SMALL_COUNT`. -/
def MEM_POOL_SMALL_COUNT : Nat := 16

/-- The constant `MEM_POOL_MEDIUM_SIZE`. -/
def MEM_POOL_MEDIUM_SIZE : Nat := 64

/-- The constant `MEM_POOL_MEDIUM_COUNT`. -/
def MEM_POOL_MEDIUM_COUNT : Nat := 8

/-- The constant `MEM_POOL_LARGE_SIZE`. -/
def MEM_POOL_LARGE_SIZE : Nat := 128

/-- The constant `MEM_POOL_LARGE_COUNT`. -/
def MEM_POOL_LARGE_COUNT : Nat := 4

/-- The constant `MEM_POOL_XLARGE_SIZE`. -/
def MEM_POOL_XLARGE_SIZE : Nat := 256

/-- The constant `MEM_POOL_XLARGE_COUNT`. -/
def MEM_POOL_XLARGE_COUNT : Nat := 2

/-- The constant `MEM_POOL_TOTAL_SIZE`. -/
def MEM_POOL_TOTAL_SIZE : Nat :=
  MEM_POOL_SMALL_SIZE * MEM_POOL_SMALL_COUNT + MEM_POOL_MEDIUM_SIZE * MEM_POOL_MEDIUM_COUNT +
    MEM_POOL_LARGE_SIZE * MEM_POOL_LARGE_COUNT + MEM_POOL_XLARGE_SIZE * MEM_POOL_XLARGE_COUNT

/-- The constant `MEM_POOL_TOTAL_BLOCKS`. -/
def MEM_POOL_TOTAL_BLOCKS : Nat :=
  MEM_POOL_SMALL_COUNT + MEM_POOL_MEDIUM_COUNT + MEM_POOL_LARGE_COUNT + MEM_POOL_XLARGE_COUNT

/-- The trace event type `TRACE_EVENT_MEM_ALLOC`. -/
def TRACE_EVENT_MEM_ALLOC : Nat := 3

/-- The trace event type `TRACE_EVENT_MEM_FREE`. -/
def TRACE_EVENT_MEM_FREE : Nat := 4

/-- The record `AegisMemPoolStats` (all fields `uint8_t`). -/
structure AegisMemPoolStats where
  total_blocks : Nat
  used_blocks : Nat
  free_blocks : Nat
  peak_usage : Nat
  small_used : Nat
  medium_used : Nat
  large_used : Nat
  xlarge_used : Nat
deriving DecidableEq, Repr

/-- The record `AegisMemPoolBlockMeta`; `alloc_file` is `none` for `NULL`. -/
structure AegisMemPoolBlockMeta where
  is_used : Nat
  block_type : Nat
  alloc_file : Option String
  alloc_line : Nat
deriving DecidableEq, Repr

/-- The record `AegisMemPoolRegion`; `start_addr` is an address. -/
structure AegisMemPoolRegion where
  start_addr : Nat
  block_size : Nat
  block_count : Nat
  used_count : Nat
  peak_usage : Nat
  free_list_head : Nat
deriving DecidableEq, Repr

/-- The record `AegisMemPool`, with the address of its array `buffer`. -/
structure AegisMemPool where
  buffer_addr : Nat
  buffer : List Nat
  meta : List AegisMemPoolBlockMeta
  regions : List AegisMemPoolRegion
  is_initialized : Nat
  peak_usage : Nat
  trace : Option AegisTraceLog

/-- A region record of zero bytes. -/
def zero_region : AegisMemPoolRegion :=
  { start_addr := 0, block_size := 0, block_count := 0, used_count := 0, peak_usage := 0,
    free_list_head := 0 }

/-- A block record of zero bytes. -/
def zero_meta : AegisMemPoolBlockMeta :=
  { is_used := FALSE, block_type := 0, alloc_file := none, alloc_line := 0 }

/-- The element `pool->regions[r]`. -/
def pool_region (pool : AegisMemPool) (r : Nat) : AegisMemPoolRegion :=
  pool.regions.getD r zero_region

/-- An assignment to fields of `pool->regions[r]`. -/
def pool_set_region (pool : AegisMemPool) (r : Nat) (reg : AegisMemPoolRegion) : AegisMemPool :=
  { pool with regions := pool.regions.set r reg }

/-- The load `*addr` of a byte of the pool's array. -/
def pool_load (pool : AegisMemPool) (addr : Nat) : Nat :=
  if pool.buffer_addr ≤ addr then pool.buffer.getD (addr - pool.buffer_addr) 0 else 0

/-- The store `*addr = v` of a byte of the pool's array. -/
def pool_store (pool : AegisMemPool) (addr v : Nat) : AegisMemPool :=
  if pool.buffer_addr ≤ addr then
    { pool with buffer := pool.buffer.set (addr - pool.buffer_addr) v }
  else pool

/-- The function `write_magic_numbers`: the two `memcpy` calls store the object
representation of the `uint16_t` magic values (little-endian). -/
def write_magic_numbers (pool : AegisMemPool) (block_start block_size : Nat) : AegisMemPool :=
  let p1 := pool_store pool block_start (MEM_MAGIC_HEAD % 256)
  let p2 := pool_store p1 (block_start + 1) (MEM_MAGIC_HEAD / 256)
  let p3 := pool_store p2 (block_start + block_size - MEM_MAGIC_SIZE) (MEM_MAGIC_TAIL % 256)
  pool_store p3 (block_start + block_size - MEM_MAGIC_SIZE + 1) (MEM_MAGIC_TAIL / 256)

/-- The function `check_magic_numbers`. -/
def check_magic_numbers (pool : AegisMemPool) (block_start block_size : Nat) : Nat :=
  let magic_head := pool_load pool block_start + 256 * pool_load pool (block_start + 1)
  if magic_head ≠ MEM_MAGIC_HEAD then FALSE
  else
    let magic_tail :=
      pool_load pool (block_start + block_size - MEM_MAGIC_SIZE) +
        256 * pool_load pool (block_start + block_size - MEM_MAGIC_SIZE + 1)
    if magic_tail ≠ MEM_MAGIC_TAIL then FALSE else TRUE

/-- The loop of `find_block_region` over the regions `rs`. -/
def find_block_region_in (pool : AegisMemPool) (p : Nat) : List Nat → Option (Nat × Nat)
  | [] => none
  | r :: rs =>
    let region_start := (pool_region pool r).start_addr
    let region_size :=
      ((pool_region pool r).block_size * (pool_region pool r).block_count) % 4294967296
    let region_end := region_start + region_size
    if p ≥ region_start ∧ p < region_end then
      let offset := (p - region_start) % 4294967296
      some (r, (offset / (pool_region pool r).block_size) % 256)
    else find_block_region_in pool p rs

/-- The function `find_block_region` on a non-null pool: the region index and
the block index stored through `block_idx`, or `none` for the result `-1`. -/
def find_block_region (pool : AegisMemPool) (p : Nat) : Option (Nat × Nat) :=
  find_block_region_in pool p [0, 1, 2, 3]

/-- The function `get_meta_index` on a non-null pool (`uint8_t` arithmetic). -/
def get_meta_index (pool : AegisMemPool) (region block_idx : Nat) : Nat :=
  ((List.range region).foldl (fun acc r => (acc + (pool_region pool r).block_count) % 256) 0 +
      block_idx) % 256

/-- The address of block `i` of a region:
`start_addr + (uint32_t)i * (uint32_t)block_size`. -/
def block_address (pool : AegisMemPool) (region i : Nat) : Nat :=
  (pool_region pool region).start_addr + (i * (pool_region pool region).block_size) % 4294967296

/-- The function `init_free_list` on a non-null pool. -/
def init_free_list (pool : AegisMemPool) (region : Nat) : AegisMemPool :=
  let linked :=
    (List.range (pool_region pool region).block_count).foldl
      (fun (p : AegisMemPool) (i : Nat) =>
        if (i : Int) < ((pool_region p region).block_count : Int) - 1 then
          pool_store p (block_address p region i) ((i + 1) % 256)
        else pool_store p (block_address p region i) FREE_LIST_END)
      pool
  pool_set_region linked region { pool_region linked region with free_list_head := 0 }

/-- The function `alloc_from_free_list` on a non-null pool: the block index
returned and the pool afterwards. -/
def alloc_from_free_list (pool : AegisMemPool) (region : Nat) : Nat × AegisMemPool :=
  let block_idx := (pool_region pool region).free_list_head
  if block_idx ≠ FREE_LIST_END then
    (block_idx,
      pool_set_region pool region
        { pool_region pool region with
          free_list_head := pool_load pool (block_address pool region block_idx) })
  else (block_idx, pool)

/-- The function `free_to_list` on a non-null pool. -/
def free_to_list (pool : AegisMemPool) (region block_idx : Nat) : AegisMemPool :=
  let stored :=
    pool_store pool (block_address pool region block_idx) (pool_region pool region).free_list_head
  pool_set_region stored region { pool_region stored region with free_list_head := block_idx }

/-- The sum `total_used` of the four `used_count` fields, narrowed to `uint8_t`. -/
def pool_total_used (pool : AegisMemPool) : Nat :=
  ((pool_region pool 0).used_count + (pool_region pool 1).used_count +
      (pool_region pool 2).used_count + (pool_region pool 3).used_count) % 256

/-- The first part of `aegis_mem_pool_init`: the pool after the `memset`, the
assignment of `trace`, the four region descriptors and the loop that clears
the block records. -/
def mem_pool_described (pool : AegisMemPool) (trace : Option AegisTraceLog) : AegisMemPool :=
  let a0 := pool.buffer_addr
  let a1 := a0 + (MEM_POOL_SMALL_SIZE * MEM_POOL_SMALL_COUNT) % 4294967296
  let a2 := a1 + (MEM_POOL_MEDIUM_SIZE * MEM_POOL_MEDIUM_COUNT) % 4294967296
  let a3 := a2 + (MEM_POOL_LARGE_SIZE * MEM_POOL_LARGE_COUNT) % 4294967296
  { buffer_addr := pool.buffer_addr
    buffer := List.replicate MEM_POOL_TOTAL_SIZE 0
    meta := List.replicate MEM_POOL_TOTAL_BLOCKS zero_meta
    regions :=
      [{ zero_region with
          start_addr := a0, block_size := MEM_POOL_SMALL_SIZE,
          block_count := MEM_POOL_SMALL_COUNT },
        { zero_region with
          start_addr := a1, block_size := MEM_POOL_MEDIUM_SIZE,
          block_count := MEM_POOL_MEDIUM_COUNT },
        { zero_region with
          start_addr := a2, block_size := MEM_POOL_LARGE_SIZE,
          block_count := MEM_POOL_LARGE_COUNT },
        { zero_region with
          start_addr := a3, block_size := MEM_POOL_XLARGE_SIZE,
          block_count := MEM_POOL_XLARGE_COUNT }]
    is_initialized := 0
    peak_usage := 0
    trace := trace }

/-- The function `aegis_mem_pool_init` on a non-null pool; `trace` is `none`
for `NULL`. -/
def aegis_mem_pool_init (pool : AegisMemPool) (trace : Option AegisTraceLog) :
    AegisErrorCode × AegisMemPool :=
  let listed := [0, 1, 2, 3].foldl init_free_list (mem_pool_described pool trace)
  (ERR_OK, { listed with peak_usage := 0, is_initialized := TRUE })

/-- The body of the region loop of `aegis_mem_pool_alloc` once a block of
`region` was taken from the free list: the user pointer and the pool. -/
def alloc_take (pool : AegisMemPool) (region block_idx : Nat) (file : Option String)
    (line : Nat) : Nat × AegisMemPool :=
  let meta_idx := get_meta_index pool region block_idx
  let marked : AegisMemPool :=
    { pool with
      meta :=
        pool.meta.set meta_idx
          { is_used := TRUE, block_type := region, alloc_file := file, alloc_line := line } }
  let block_start := block_address marked region block_idx
  let guarded := write_magic_numbers marked block_start (pool_region marked region).block_size
  let user_ptr := block_start + MEM_MAGIC_SIZE
  let used := ((pool_region guarded region).used_count + 1) % 256
  let counted :=
    pool_set_region guarded region
      { pool_region guarded region with
        used_count := used
        peak_usage :=
          if used > (pool_region guarded region).peak_usage then used
          else (pool_region guarded region).peak_usage }
  let total_used := pool_total_used counted
  (user_ptr,
    if total_used > counted.peak_usage then { counted with peak_usage := total_used }
    else counted)

/-- The region loop of `aegis_mem_pool_alloc` over the regions `rs`, smallest
first; the pointer is 0 when no region gave a block. -/
def alloc_regions (pool : AegisMemPool) (size : Nat) (file : Option String) (line : Nat) :
    List Nat → Nat × AegisMemPool
  | [] => (0, pool)
  | region :: rs =>
    if size ≤ ((pool_region pool region).block_size + 4294967296 - 2 * MEM_MAGIC_SIZE) %
        4294967296 then
      if (alloc_from_free_list pool region).1 ≠ FREE_LIST_END then
        alloc_take (alloc_from_free_list pool region).2 region
          (alloc_from_free_list pool region).1 file line
      else alloc_regions (alloc_from_free_list pool region).2 size file line rs
    else alloc_regions pool size file line rs

/-- The function `aegis_mem_pool_alloc` on a non-null pool: the pointer
returned (0 for `NULL`) and the pool afterwards. -/
def aegis_mem_pool_alloc (pool : AegisMemPool) (size : Nat) (file : Option String)
    (line : Nat) : Nat × AegisMemPool :=
  if pool.is_initialized = 0 then (0, pool)
  else if size = 0 then (0, pool)
  else
    let r := alloc_regions pool size file line [0, 1, 2, 3]
    if r.1 ≠ 0 then
      (r.1,
        { r.2 with
          trace :=
            aegis_trace_log_event r.2.trace TRACE_EVENT_MEM_ALLOC "MEM-ALLOC" (r.1 % 4294967296)
              size })
    else r

/-- The function `aegis_mem_pool_free` on a non-null pool; `ptr` is 0 for
`NULL`. -/
def aegis_mem_pool_free (pool : AegisMemPool) (ptr : Nat) : AegisErrorCode × AegisMemPool :=
  if ptr = 0 then (ERR_NULL_PTR, pool)
  else if pool.is_initialized = 0 then (ERR_NOT_INITIALIZED, pool)
  else if ptr < MEM_MAGIC_SIZE then (ERR_MEM_POOL_INVALID, pool)
  else
    let block_start := ptr - MEM_MAGIC_SIZE
    match find_block_region pool block_start with
    | none => (ERR_MEM_POOL_INVALID, pool)
    | some (region, block_idx) =>
      let expected_user_ptr := block_address pool region block_idx + MEM_MAGIC_SIZE
      if ptr ≠ expected_user_ptr then (ERR_MEM_POOL_INVALID, pool)
      else
        let meta_idx := get_meta_index pool region block_idx
        if (pool.meta.getD meta_idx zero_meta).is_used ≠ 0 then
          if check_magic_numbers pool block_start (pool_region pool region).block_size = 0 then
            (ERR_MEM_POOL_INVALID,
              { pool with
                trace :=
                  aegis_trace_log_event pool.trace TRACE_EVENT_MEM_FREE "MEM-CORRUPT"
                    (ptr % 4294967296) 0 })
          else
            let cleared : AegisMemPool :=
              { pool with
                meta :=
                  pool.meta.set meta_idx
                    { pool.meta.getD meta_idx zero_meta with
                      is_used := FALSE, alloc_file := none, alloc_line := 0 } }
            let listed := free_to_list cleared region block_idx
            let counted :=
              pool_set_region listed region
                { pool_region listed region with
                  used_count := ((pool_region listed region).used_count + 255) % 256 }
            (ERR_OK,
              { counted with
                trace :=
                  aegis_trace_log_event counted.trace TRACE_EVENT_MEM_FREE "MEM-FREE"
                    (ptr % 4294967296) 0 })
        else (ERR_MEM_POOL_DOUBLE_FREE, pool)

/-- The function `aegis_mem_pool_get_stats` on a non-null pool; `stats` is
`none` for `NULL`, otherwise the record the pointer designates. -/
def aegis_mem_pool_get_stats (pool : AegisMemPool) (stats : Option AegisMemPoolStats) :
    AegisErrorCode × Option AegisMemPoolStats :=
  match stats with
  | none => (ERR_NULL_PTR, none)
  | some s =>
    if pool.is_initialized = 0 then (ERR_NOT_INITIALIZED, some s)
    else
      (ERR_OK,
        some
          { total_blocks := MEM_POOL_TOTAL_BLOCKS
            used_blocks := pool_total_used pool
            free_blocks := (MEM_POOL_TOTAL_BLOCKS + 256 - pool_total_used pool) % 256
            peak_usage := pool.peak_usage
            small_used := (pool_region pool 0).used_count
            medium_used := (pool_region pool 1).used_count
            large_used := (pool_region pool 2).used_count
            xlarge_used := (pool_region pool 3).used_count })

/-- The function `aegis_mem_pool_check_magic` on a non-null pool; `ptr` is 0
for `NULL`. -/
def aegis_mem_pool_check_magic (pool : AegisMemPool) (ptr : Nat) : AegisErrorCode :=
  if ptr = 0 then ERR_NULL_PTR
  else if pool.is_initialized = 0 then ERR_NOT_INITIALIZED
  else if ptr < MEM_MAGIC_SIZE then ERR_MEM_POOL_INVALID
  else
    let block_start := ptr - MEM_MAGIC_SIZE
    match find_block_region pool block_start with
    | none => ERR_MEM_POOL_INVALID
    | some (region, block_idx) =>
      let expected_user_ptr := block_address pool region block_idx + MEM_MAGIC_SIZE
      if ptr ≠ expected_user_ptr then ERR_MEM_POOL_INVALID
      else if check_magic_numbers pool block_start (pool_region pool region).block_size ≠ 0 then
        ERR_OK
      else ERR_MEM_POOL_INVALID

/-- The storage of a pool before initialisation, all zero, placed so that its
array starts at address 4096. -/
def storage_pool : AegisMemPool :=
  { buffer_addr := 4096, buffer := List.replicate MEM_POOL_TOTAL_SIZE 0,
    meta := List.replicate MEM_POOL_TOTAL_BLOCKS zero_meta,
    regions := List.replicate 4 zero_region, is_initialized := 0, peak_usage := 0, trace := none }

/-- The zeroed statistics record. -/
def zero_stats : AegisMemPoolStats :=
  { total_blocks := 0, used_blocks := 0, free_blocks := 0, peak_usage := 0, small_used := 0,
    medium_used := 0, large_used := 0, xlarge_used := 0 }

/-- The layout `aegis_mem_pool_init` sets up and no later call changes: the
pool is initialised, its arrays have their declared lengths, the four regions
follow each other in `buffer` with their block sizes and counts, and no region
counts more used blocks than it has. -/
def PoolLayout (pool : AegisMemPool) : Prop :=
  pool.is_initialized ≠ 0 ∧ pool.buffer.length = MEM_POOL_TOTAL_SIZE ∧
    pool.meta.length = MEM_POOL_TOTAL_BLOCKS ∧ pool.regions.length = 4 ∧
    ((pool_region pool 0).start_addr = pool.buffer_addr ∧
      (pool_region pool 0).block_size = MEM_POOL_SMALL_SIZE ∧
      (pool_region pool 0).block_count = MEM_POOL_SMALL_COUNT ∧
      (pool_region pool 0).used_count ≤ MEM_POOL_SMALL_COUNT) ∧
    ((pool_region pool 1).start_addr =
        pool.buffer_addr + MEM_POOL_SMALL_SIZE * MEM_POOL_SMALL_COUNT ∧
      (pool_region pool 1).block_size = MEM_POOL_MEDIUM_SIZE ∧
      (pool_region pool 1).block_count = MEM_POOL_MEDIUM_COUNT ∧
      (pool_region pool 1).used_count ≤ MEM_POOL_MEDIUM_COUNT) ∧
    ((pool_region pool 2).start_addr =
        pool.buffer_addr + MEM_POOL_SMALL_SIZE * MEM_POOL_SMALL_COUNT +
          MEM_POOL_MEDIUM_SIZE * MEM_POOL_MEDIUM_COUNT ∧
      (pool_region pool 2).block_size = MEM_POOL_LARGE_SIZE ∧
      (pool_region pool 2).block_count = MEM_POOL_LARGE_COUNT ∧
      (pool_region pool 2).used_count ≤ MEM_POOL_LARGE_COUNT) ∧
    (pool_region pool 3).start_addr =
        pool.buffer_addr + MEM_POOL_SMALL_SIZE * MEM_POOL_SMALL_COUNT +
          MEM_POOL_MEDIUM_SIZE * MEM_POOL_MEDIUM_COUNT +
          MEM_POOL_LARGE_SIZE * MEM_POOL_LARGE_COUNT ∧
      (pool_region pool 3).block_size = MEM_POOL_XLARGE_SIZE ∧
      (pool_region pool 3).block_count = MEM_POOL_XLARGE_COUNT ∧
      (pool_region pool 3).used_count ≤ MEM_POOL_XLARGE_COUNT

/-- Block `k` of the small region is allocated and its guard bytes are intact:
the pool has the layout of `PoolLayout`, `k` is a block index of region 0, its
`is_used` flag is set and the four guard cells hold the two magic values. -/
def BlockLive (pool : AegisMemPool) (k : Nat) : Prop :=
  PoolLayout pool ∧ k < MEM_POOL_SMALL_COUNT ∧ (pool.meta.getD k zero_meta).is_used ≠ 0 ∧
    pool.buffer.getD (32 * k) 0 = 173 ∧ pool.buffer.getD (32 * k + 1) 0 = 222 ∧
    pool.buffer.getD (32 * k + 30) 0 = 239 ∧ pool.buffer.getD (32 * k + 31) 0 = 190

/-! ## Payload helpers of results and query requests (`app_command.c`, `app_query.c`) -/

/-- The function `aegis_app_cmd_result_payload_write` on a non-null result;
`payload` is `none` for `NULL`. -/
def aegis_app_cmd_result_payload_write (result : AegisCommandResult)
    (payload : Option (List Nat)) (size : Nat) : AegisErrorCode × AegisCommandResult :=
  if size > APP_CMD_RESULT_PAYLOAD_MAX then (ERR_OUT_OF_RANGE, result)
  else
    match payload with
    | none =>
      if size > 0 then (ERR_NULL_PTR, result) else (ERR_OK, { result with payload_size := size })
    | some p =>
      (ERR_OK, { result with payload_size := size, payload := memcpy result.payload 0 p 0 size })

/-- The function `aegis_app_cmd_result_payload_read` on non-null arguments: the
status and the cells of `out` afterwards. -/
def aegis_app_cmd_result_payload_read (result : AegisCommandResult) (out : List Nat)
    (expected_size : Nat) : AegisErrorCode × List Nat :=
  if result.payload_size ≠ expected_size then (ERR_OUT_OF_RANGE, out)
  else if expected_size > APP_CMD_RESULT_PAYLOAD_MAX then (ERR_OUT_OF_RANGE, out)
  else (ERR_OK, memcpy out 0 result.payload 0 expected_size)

/-- The function `aegis_app_query_payload_write` on a non-null request;
`payload` is `none` for `NULL`. -/
def aegis_app_query_payload_write (req : AegisQueryRequest) (payload : Option (List Nat))
    (size : Nat) : AegisErrorCode × AegisQueryRequest :=
  if size > APP_QUERY_PAYLOAD_MAX then (ERR_OUT_OF_RANGE, req)
  else
    match payload with
    | none =>
      if size > 0 then (ERR_NULL_PTR, req) else (ERR_OK, { req with payload_size := size })
    | some p =>
      (ERR_OK, { req with payload_size := size, payload := memcpy req.payload 0 p 0 size })

/-- The function `aegis_app_query_payload_read` on non-null arguments: the
status and the cells of `out` afterwards. -/
def aegis_app_query_payload_read (req : AegisQueryRequest) (out : List Nat)
    (expected_size : Nat) : AegisErrorCode × List Nat :=
  if req.payload_size ≠ expected_size then (ERR_OUT_OF_RANGE, out)
  else if expected_size > APP_QUERY_PAYLOAD_MAX then (ERR_OUT_OF_RANGE, out)
  else (ERR_OK, memcpy out 0 req.payload 0 expected_size)

/-! ## Caller-side use of the zero-copy interface and the store the ring implements -/

/-- The caller-side write through the zero-copy interface: ask for the
writable region with `aegis_ring_buffer_get_write_ptr`, copy the first `n`
bytes of `d` to the address it returned (nothing is copied through `NULL`),
then call `aegis_ring_buffer_commit_write(n)`. -/
def zero_copy_write (rb : AegisRingBuffer) (d : List Nat) (n : Nat) :
    AegisErrorCode × AegisRingBuffer :=
  match (aegis_ring_buffer_get_write_ptr rb true).2 with
  | none => aegis_ring_buffer_commit_write rb n
  | some off => aegis_ring_buffer_commit_write { rb with buffer := memcpy rb.buffer off d 0 n } n

/-- The caller-side read through the zero-copy interface: ask for the readable
region with `aegis_ring_buffer_get_read_ptr`, copy `n` bytes from the address
it returned to the first cells of `out` (nothing is copied from `NULL`), then
call `aegis_ring_buffer_commit_read(n)`.  Returns the result of the commit, the
ring and the caller's array. -/
def zero_copy_read (rb : AegisRingBuffer) (out : List Nat) (n : Nat) :
    AegisErrorCode × AegisRingBuffer × List Nat :=
  match (aegis_ring_buffer_get_read_ptr rb true).2 with
  | none => ((aegis_ring_buffer_commit_read rb n).1, (aegis_ring_buffer_commit_read rb n).2, out)
  | some off =>
    ((aegis_ring_buffer_commit_read rb n).1, (aegis_ring_buffer_commit_read rb n).2,
      memcpy out 0 rb.buffer off n)

/-- The bytes a bounded first-in first-out store of capacity `rb.size` holds
after one call of the ring interface, given the bytes `held` it held before:
`put` and `write` append what they accept, `get` and `read` remove what they
deliver from the front, `commit_write` appends the bytes of the region it
commits (the cells of the backing array from `head` on), `commit_read` removes
the bytes it releases, `clear` empties the store.  A source byte beyond the end
of the caller's array reads as 0, as in `memcpy`. -/
def fifo_step (rb : AegisRingBuffer) (held : List Nat) : RingOp → List Nat
  | .put d => if held.length ≥ rb.size then held else held ++ [d]
  | .get none => held
  | .get (some _) => held.drop 1
  | .write none _ => held
  | .write (some d) len =>
    held ++ (List.range (min len (rb.size - held.length))).map fun i => d.getD i 0
  | .read none _ => held
  | .read (some _) len => held.drop len
  | .commit_write len =>
    if len > rb.size - held.length then held
    else held ++ (List.range len).map fun i => rb.buffer.getD ((rb.head + i) % rb.size) 0
  | .commit_read len => if len > held.length then held else held.drop len
  | .clear => []

/-- The bytes held after a sequence of calls, the ring being stepped along. -/
def fifo_run (rb : AegisRingBuffer) (held : List Nat) : List RingOp → List Nat
  | [] => held
  | op :: ops => fifo_run (ring_step rb op) (fifo_step rb held op) ops

/-! ## Ring lemmas -/

theorem mod_wrap (x n : Nat) (h : x < 2 * n) : x % n = if x < n then x else x - n := by
  split
  · exact Nat.mod_eq_of_lt (by assumption)
  · rw [Nat.mod_eq_sub_mod (by omega)]
    exact Nat.mod_eq_of_lt (by omega)

theorem MIN_eq_min (a b : Nat) : MIN a b = min a b := by
  unfold MIN
  split <;> omega


theorem mod_mod_u16 (x n : Nat) (hn : 0 < n) (h : n < 65536) : (x % n) % 65536 = x % n := by
  have := Nat.mod_lt x hn
  omega

theorem ring_step_size (rb : AegisRingBuffer) (op : RingOp) :
    (ring_step rb op).size = rb.size := by
  cases op with
  | put d => simp only [ring_step, aegis_ring_buffer_put]; split <;> rfl
  | get d =>
    cases d <;> simp only [ring_step, aegis_ring_buffer_get]
    split <;> rfl
  | write d len =>
    cases d <;> simp only [ring_step, aegis_ring_buffer_write]
    split
    · rfl
    · split <;> rfl
  | read d len =>
    cases d <;> simp only [ring_step, aegis_ring_buffer_read]
    split
    · rfl
    · split <;> rfl
  | commit_write len => simp only [ring_step, aegis_ring_buffer_commit_write]; split <;> rfl
  | commit_read len => simp only [ring_step, aegis_ring_buffer_commit_read]; split <;> rfl
  | clear => rfl

theorem ringInv_step (rb : AegisRingBuffer) (op : RingOp) (hs : rb.size < 65536)
    (h : RingInv rb) : RingInv (ring_step rb op) := by
  obtain ⟨hc, hh, ht, hf⟩ := h
  have hpos : 0 < rb.size := by omega
  simp only [aegis_ring_buffer_get_free, aegis_ring_buffer_get_count] at hf
  cases op with
  | put d =>
    simp only [ring_step, aegis_ring_buffer_put]
    have := Nat.mod_lt (rb.head + 1) hpos
    split <;> refine ⟨?_, ?_, ?_, ?_⟩ <;>
      (try simp only [aegis_ring_buffer_get_free, aegis_ring_buffer_get_count]) <;> omega
  | get d =>
    have := Nat.mod_lt (rb.tail + 1) hpos
    cases d <;> simp only [ring_step, aegis_ring_buffer_get]
    · refine ⟨?_, ?_, ?_, ?_⟩ <;>
        (try simp only [aegis_ring_buffer_get_free, aegis_ring_buffer_get_count]) <;> omega
    · split <;> refine ⟨?_, ?_, ?_, ?_⟩ <;>
        (try simp only [aegis_ring_buffer_get_free, aegis_ring_buffer_get_count]) <;> omega
  | write d len =>
    cases d <;> simp only [ring_step, aegis_ring_buffer_write]
    · refine ⟨?_, ?_, ?_, ?_⟩ <;>
        (try simp only [aegis_ring_buffer_get_free, aegis_ring_buffer_get_count]) <;> omega
    · have := Nat.mod_lt (rb.head + MIN len ((rb.size + 65536 - rb.count) % 65536)) hpos
      have hm := MIN_eq_min len ((rb.size + 65536 - rb.count) % 65536)
      split
      · refine ⟨?_, ?_, ?_, ?_⟩ <;>
          (try simp only [aegis_ring_buffer_get_free, aegis_ring_buffer_get_count]) <;> omega
      · split <;> refine ⟨?_, ?_, ?_, ?_⟩ <;>
          (try simp only [aegis_ring_buffer_get_free, aegis_ring_buffer_get_count]) <;> omega
  | read d len =>
    cases d <;> simp only [ring_step, aegis_ring_buffer_read]
    · refine ⟨?_, ?_, ?_, ?_⟩ <;>
        (try simp only [aegis_ring_buffer_get_free, aegis_ring_buffer_get_count]) <;> omega
    · have := Nat.mod_lt (rb.tail + MIN len rb.count) hpos
      have hm := MIN_eq_min len rb.count
      split
      · refine ⟨?_, ?_, ?_, ?_⟩ <;>
          (try simp only [aegis_ring_buffer_get_free, aegis_ring_buffer_get_count]) <;> omega
      · split <;> refine ⟨?_, ?_, ?_, ?_⟩ <;>
          (try simp only [aegis_ring_buffer_get_free, aegis_ring_buffer_get_count]) <;> omega
  | commit_write len =>
    simp only [ring_step, aegis_ring_buffer_commit_write]
    have := Nat.mod_lt (rb.head + len) hpos
    split <;> refine ⟨?_, ?_, ?_, ?_⟩ <;>
      (try simp only [aegis_ring_buffer_get_free, aegis_ring_buffer_get_count]) <;> omega
  | commit_read len =>
    simp only [ring_step, aegis_ring_buffer_commit_read]
    have := Nat.mod_lt (rb.tail + len) hpos
    split <;> refine ⟨?_, ?_, ?_, ?_⟩ <;>
      (try simp only [aegis_ring_buffer_get_free, aegis_ring_buffer_get_count]) <;> omega
  | clear =>
    simp only [ring_step, aegis_ring_buffer_clear]
    refine ⟨?_, ?_, ?_, ?_⟩ <;>
      (try simp only [aegis_ring_buffer_get_free, aegis_ring_buffer_get_count]) <;> omega

theorem ringInv_run (ops : List RingOp) (rb : AegisRingBuffer) (hs : rb.size < 65536)
    (h : RingInv rb) : RingInv (ring_run rb ops) ∧ (ring_run rb ops).size = rb.size := by
  induction ops generalizing rb with
  | nil => exact ⟨h, rfl⟩
  | cons op ops ih =>
    have hsz := ring_step_size rb op
    have := ih (ring_step rb op) (by omega) (ringInv_step rb op hs h)
    simp only [ring_run, List.foldl_cons] at this ⊢
    exact ⟨this.1, by omega⟩

theorem memcpy_length (dst : List Nat) (off : Nat) (src : List Nat) (soff n : Nat) :
    (memcpy dst off src soff n).length = dst.length := by
  simp [memcpy]

theorem memcpy_getD (dst : List Nat) (off : Nat) (src : List Nat) (soff n i : Nat)
    (hi : i < dst.length) :
    (memcpy dst off src soff n).getD i 0 =
      if off ≤ i ∧ i < off + n then src.getD (soff + (i - off)) 0 else dst.getD i 0 := by
  unfold memcpy
  rw [List.getD_eq_getElem?_getD, List.getElem?_map, List.getElem?_range hi]
  rfl

theorem list_ext_getD (l₁ l₂ : List Nat) (hl : l₁.length = l₂.length)
    (h : ∀ i, i < l₁.length → l₁.getD i 0 = l₂.getD i 0) : l₁ = l₂ := by
  apply List.ext_getElem hl
  intro i h₁ h₂
  have := h i h₁
  rw [List.getD_eq_getElem _ _ h₁, List.getD_eq_getElem _ _ h₂] at this
  exact this

theorem ring_contents_length (rb : AegisRingBuffer) : (ring_contents rb).length = rb.count := by
  simp [ring_contents]

theorem ring_contents_getD (rb : AegisRingBuffer) (k : Nat) (hk : k < rb.count) :
    (ring_contents rb).getD k 0 = rb.buffer.getD ((rb.tail + k) % rb.size) 0 := by
  unfold ring_contents
  rw [List.getD_eq_getElem?_getD, List.getElem?_map, List.getElem?_range hk]
  rfl

theorem take_getD (l : List Nat) (n i : Nat) (hi : i < n) : (l.take n).getD i 0 = l.getD i 0 := by
  rw [List.getD_eq_getElem?_getD, List.getD_eq_getElem?_getD, List.getElem?_take_of_lt hi]

theorem write_spec (rb : AegisRingBuffer) (data : List Nat) (len : Nat) (hwf : RingWF rb)
    (hlen : 1 ≤ len) :
    (aegis_ring_buffer_write rb (some data) len).1 = min len (rb.size - rb.count) ∧
    (aegis_ring_buffer_write rb (some data) len).2.size = rb.size ∧
    (aegis_ring_buffer_write rb (some data) len).2.tail = rb.tail ∧
    (aegis_ring_buffer_write rb (some data) len).2.count =
      rb.count + min len (rb.size - rb.count) ∧
    (aegis_ring_buffer_write rb (some data) len).2.head =
      (rb.head + min len (rb.size - rb.count)) % rb.size ∧
    (aegis_ring_buffer_write rb (some data) len).2.buffer.length = rb.size ∧
    ∀ j, j < rb.size →
      (aegis_ring_buffer_write rb (some data) len).2.buffer.getD j 0 =
        if (j + rb.size - rb.head) % rb.size < min len (rb.size - rb.count) then
          data.getD ((j + rb.size - rb.head) % rb.size) 0
        else rb.buffer.getD j 0 := by
  obtain ⟨hs, hb, hc, hh, ht⟩ := hwf
  have hfree : (rb.size + 65536 - rb.count) % 65536 = rb.size - rb.count := by omega
  have hend : (rb.size + 65536 - rb.head) % 65536 = rb.size - rb.head := by omega
  have hpos : 0 < rb.size := by omega
  simp only [aegis_ring_buffer_write, MIN_eq_min, hfree, hend]
  rw [if_neg (by omega)]
  by_cases hw : min len (rb.size - rb.count) > 0
  · rw [if_pos hw]
    have hm := mod_mod_u16 (rb.head + min len (rb.size - rb.count)) rb.size hpos hs
    refine ⟨rfl, rfl, rfl, by simp only; omega, by simp only; omega, ?_, ?_⟩
    · simp only
      split <;> simp [memcpy_length, hb]
    · intro j hj
      simp only
      rw [mod_wrap (j + rb.size - rb.head) rb.size (by omega)]
      by_cases h1 : min len (rb.size - rb.count) ≤ rb.size - rb.head
      · rw [if_pos h1, memcpy_getD _ _ _ _ _ _ (by omega)]
        split_ifs <;> first | omega | rfl | (congr 1; omega)
      · have h2 : (min len (rb.size - rb.count) + 65536 - (rb.size - rb.head)) % 65536 =
            min len (rb.size - rb.count) - (rb.size - rb.head) := by omega
        rw [if_neg h1, h2, memcpy_getD _ _ _ _ _ _ (by rw [memcpy_length]; omega),
          memcpy_getD _ _ _ _ _ _ (by omega)]
        split_ifs <;> first | omega | rfl | (congr 1; omega)
  · rw [if_neg hw]
    have h0 : min len (rb.size - rb.count) = 0 := by omega
    rw [h0]
    refine ⟨rfl, rfl, rfl, rfl, ?_, hb, ?_⟩
    · rw [Nat.add_zero, Nat.mod_eq_of_lt hh]
    · intro j hj
      rw [if_neg (Nat.not_lt_zero _)]

theorem read_spec (rb : AegisRingBuffer) (out : List Nat) (len : Nat) (hwf : RingWF rb)
    (hlen : 1 ≤ len) :
    (aegis_ring_buffer_read rb (some out) len).1 = min len rb.count ∧
    (aegis_ring_buffer_read rb (some out) len).2.1.size = rb.size ∧
    (aegis_ring_buffer_read rb (some out) len).2.1.head = rb.head ∧
    (aegis_ring_buffer_read rb (some out) len).2.1.buffer = rb.buffer ∧
    (aegis_ring_buffer_read rb (some out) len).2.1.count = rb.count - min len rb.count ∧
    (aegis_ring_buffer_read rb (some out) len).2.1.tail = (rb.tail + min len rb.count) % rb.size ∧
    ∃ out', (aegis_ring_buffer_read rb (some out) len).2.2 = some out' ∧
      out'.length = out.length ∧
      ∀ i, i < out.length →
        out'.getD i 0 =
          if i < min len rb.count then rb.buffer.getD ((rb.tail + i) % rb.size) 0
          else out.getD i 0 := by
  obtain ⟨hs, hb, hc, hh, ht⟩ := hwf
  have hend : (rb.size + 65536 - rb.tail) % 65536 = rb.size - rb.tail := by omega
  have hpos : 0 < rb.size := by omega
  simp only [aegis_ring_buffer_read, MIN_eq_min, hend]
  rw [if_neg (by omega)]
  by_cases hw : min len rb.count > 0
  · rw [if_pos hw]
    have hm := mod_mod_u16 (rb.tail + min len rb.count) rb.size hpos hs
    refine ⟨rfl, rfl, rfl, rfl, by simp only; omega, by simp only; omega, _, rfl, ?_, ?_⟩
    · split <;> simp [memcpy_length]
    · intro i hi
      by_cases h1 : min len rb.count ≤ rb.size - rb.tail
      · rw [if_pos h1, memcpy_getD _ _ _ _ _ _ hi]
        by_cases h3 : i < min len rb.count
        · rw [mod_wrap (rb.tail + i) rb.size (by omega)]
          split_ifs <;> first | omega | rfl | (congr 1; omega)
        · split_ifs <;> first | omega | rfl | (congr 1; omega)
      · have h2 : (min len rb.count + 65536 - (rb.size - rb.tail)) % 65536 =
            min len rb.count - (rb.size - rb.tail) := by omega
        rw [if_neg h1, h2, memcpy_getD _ _ _ _ _ _ (by rw [memcpy_length]; omega),
          memcpy_getD _ _ _ _ _ _ hi]
        by_cases h3 : i < min len rb.count
        · rw [mod_wrap (rb.tail + i) rb.size (by omega)]
          split_ifs <;> first | omega | rfl | (congr 1; omega)
        · split_ifs <;> first | omega | rfl | (congr 1; omega)
  · rw [if_neg hw]
    have h0 : min len rb.count = 0 := by omega
    rw [h0]
    refine ⟨rfl, rfl, rfl, rfl, rfl, ?_, _, rfl, rfl, ?_⟩
    · rw [Nat.add_zero, Nat.mod_eq_of_lt ht]
    · intro i hi
      rw [if_neg (Nat.not_lt_zero _)]

theorem drop_getD (l : List Nat) (n i : Nat) : (l.drop n).getD i 0 = l.getD (n + i) 0 := by
  rw [List.getD_eq_getElem?_getD, List.getD_eq_getElem?_getD, List.getElem?_drop]

theorem write_contents (rb : AegisRingBuffer) (data : List Nat) (len : Nat)
    (hco : RingCoherent rb) (hlen : 1 ≤ len) (hdata : len ≤ data.length) :
    ring_contents (aegis_ring_buffer_write rb (some data) len).2 =
        ring_contents rb ++ data.take (min len (rb.size - rb.count)) ∧
      RingCoherent (aegis_ring_buffer_write rb (some data) len).2 := by
  obtain ⟨hwf, hhead⟩ := hco
  obtain ⟨h1, h2, h3, h4, h5, h6, h7⟩ := write_spec rb data len hwf hlen
  obtain ⟨hs, hb, hc, hh, ht⟩ := hwf
  have hpos : 0 < rb.size := by omega
  have hhead2 : (rb.tail + rb.count < rb.size ∧ rb.head = rb.tail + rb.count) ∨
      (rb.size ≤ rb.tail + rb.count ∧ rb.head + rb.size = rb.tail + rb.count) := by
    rw [mod_wrap _ _ (by omega)] at hhead
    split_ifs at hhead <;> omega
  constructor
  · apply list_ext_getD
    · rw [ring_contents_length, List.length_append, ring_contents_length, List.length_take, h4]
      omega
    · intro k hk
      rw [ring_contents_length, h4] at hk
      rw [ring_contents_getD _ _ (by rw [h4]; exact hk), h2, h3,
        h7 _ (Nat.mod_lt _ hpos), mod_wrap (rb.tail + k) rb.size (by omega)]
      by_cases hkc : k < rb.count
      · rw [List.getD_append _ _ _ _ (by rw [ring_contents_length]; exact hkc),
          ring_contents_getD _ _ hkc, mod_wrap (rb.tail + k) rb.size (by omega),
          mod_wrap _ rb.size (by split_ifs <;> omega)]
        split_ifs <;> first | omega | rfl
      · rw [List.getD_append_right _ _ _ _ (by rw [ring_contents_length]; omega),
          ring_contents_length, take_getD _ _ _ (by omega),
          mod_wrap _ rb.size (by split_ifs <;> omega)]
        split_ifs <;> first | omega | (congr 1; omega)
  · refine ⟨⟨by omega, h6.trans h2.symm, by omega, ?_, by omega⟩, ?_⟩
    · rw [h5, h2]
      exact Nat.mod_lt _ hpos
    · rw [h5, h2, h3, h4, mod_wrap _ _ (by omega), mod_wrap _ _ (by omega)]
      split_ifs <;> omega

theorem read_contents (rb : AegisRingBuffer) (out : List Nat) (len : Nat)
    (hwf : RingWF rb) (hlen : 1 ≤ len) (hout : len ≤ out.length) :
    ((aegis_ring_buffer_read rb (some out) len).2.2.getD []).take
        (aegis_ring_buffer_read rb (some out) len).1 =
        (ring_contents rb).take (min len rb.count) ∧
      ((aegis_ring_buffer_read rb (some out) len).2.2.getD []).drop
        (aegis_ring_buffer_read rb (some out) len).1 = out.drop (min len rb.count) ∧
      ring_contents (aegis_ring_buffer_read rb (some out) len).2.1 =
        (ring_contents rb).drop (min len rb.count) ∧
      RingWF (aegis_ring_buffer_read rb (some out) len).2.1 := by
  obtain ⟨h1, h2, h3, h4, h5, h6, out', h7, h8, h9⟩ := read_spec rb out len hwf hlen
  obtain ⟨hs, hb, hc, hh, ht⟩ := hwf
  have hpos : 0 < rb.size := by omega
  refine ⟨?_, ?_, ?_, ?_⟩
  · rw [h7, h1, Option.getD_some]
    apply list_ext_getD
    · rw [List.length_take, List.length_take, ring_contents_length]
      omega
    · intro k hk
      rw [List.length_take] at hk
      rw [take_getD _ _ _ (by omega), take_getD _ _ _ (by omega), h9 _ (by omega),
        if_pos (by omega), ring_contents_getD _ _ (by omega)]
  · rw [h7, h1, Option.getD_some]
    apply list_ext_getD
    · rw [List.length_drop, List.length_drop, h8]
    · intro k hk
      rw [List.length_drop] at hk
      rw [drop_getD, drop_getD, h9 _ (by omega), if_neg (by omega)]
  · apply list_ext_getD
    · rw [ring_contents_length, List.length_drop, ring_contents_length, h5]
    · intro k hk
      rw [ring_contents_length, h5] at hk
      rw [ring_contents_getD _ _ (by rw [h5]; exact hk), drop_getD,
        ring_contents_getD _ _ (by omega), h2, h4, h6, mod_wrap (rb.tail + _) _ (by omega),
        mod_wrap (rb.tail + _) _ (by omega), mod_wrap _ rb.size (by split_ifs <;> omega)]
      split_ifs <;> first | omega | (congr 1; omega)
  · refine ⟨by omega, by rw [h4, h2]; exact hb, by omega, by omega, ?_⟩
    rw [h6, h2]
    exact Nat.mod_lt _ hpos

theorem read_coherent (rb : AegisRingBuffer) (out : List Nat) (len : Nat)
    (hco : RingCoherent rb) (hlen : 1 ≤ len) (hout : len ≤ out.length) :
    RingCoherent (aegis_ring_buffer_read rb (some out) len).2.1 := by
  obtain ⟨hwf, hhead⟩ := hco
  refine ⟨(read_contents rb out len hwf hlen hout).2.2.2, ?_⟩
  obtain ⟨h1, h2, h3, h4, h5, h6, -⟩ := read_spec rb out len hwf hlen
  obtain ⟨hs, hb, hc, hh, ht⟩ := hwf
  rw [mod_wrap _ _ (by omega)] at hhead
  rw [h3, h2, h5, h6, mod_wrap (rb.tail + _) _ (by omega),
    mod_wrap _ rb.size (by split_ifs <;> omega)]
  split_ifs at hhead ⊢ <;> omega

theorem write_positions (rb : AegisRingBuffer) (data : List Nat) (len : Nat) (hwf : RingWF rb)
    (hlen : 1 ≤ len) :
    (∀ i, i < min len (rb.size - rb.count) →
      (aegis_ring_buffer_write rb (some data) len).2.buffer.getD ((rb.head + i) % rb.size) 0 =
        data.getD i 0) ∧
    (∀ j, j < rb.size → (∀ i, i < min len (rb.size - rb.count) → j ≠ (rb.head + i) % rb.size) →
      (aegis_ring_buffer_write rb (some data) len).2.buffer.getD j 0 = rb.buffer.getD j 0) := by
  obtain ⟨-, -, -, -, -, -, h7⟩ := write_spec rb data len hwf hlen
  obtain ⟨hs, hb, hc, hh, ht⟩ := hwf
  have hpos : 0 < rb.size := by omega
  constructor
  · intro i hi
    have hidx : ((rb.head + i) % rb.size + rb.size - rb.head) % rb.size = i := by
      rw [mod_wrap (rb.head + i) _ (by omega), mod_wrap _ rb.size (by split_ifs <;> omega)]
      split_ifs <;> omega
    rw [h7 _ (Nat.mod_lt _ hpos), hidx, if_pos hi]
  · intro j hj hne
    rw [h7 j hj, if_neg]
    intro hlt
    apply hne _ hlt
    rw [mod_wrap (j + rb.size - rb.head) _ (by omega),
      mod_wrap _ rb.size (by split_ifs <;> omega)]
    split_ifs <;> omega

theorem bulk_run_spec (ops : List BulkOp) (rb : AegisRingBuffer) (hco : RingCoherent rb)
    (hfit : bulk_fits rb ops = true) :
    (bulk_run rb ops).1 ++ ring_contents (bulk_run rb ops).2 =
        ring_contents rb ++ bulk_written ops ∧
      RingCoherent (bulk_run rb ops).2 := by
  induction ops generalizing rb with
  | nil => simp [bulk_run, bulk_written, hco]
  | cons op ops ih =>
    have hwf := hco.1
    obtain ⟨hs, hb, hc, hh, ht⟩ := hwf
    cases op with
    | write d =>
      simp only [bulk_fits, Bool.and_eq_true, decide_eq_true_eq] at hfit
      obtain ⟨hfree, hrest⟩ := hfit
      simp only [aegis_ring_buffer_get_free] at hfree
      simp only [bulk_run, bulk_written]
      by_cases hd : d.length = 0
      · have hnil : d = [] := List.length_eq_zero.mp hd
        have hsame : (aegis_ring_buffer_write rb (some d) d.length).2 = rb := by
          simp [aegis_ring_buffer_write, hd]
        rw [hsame] at hrest ⊢
        have := ih rb hco hrest
        rw [hnil]
        simpa using this
      · obtain ⟨hc1, hc2⟩ := write_contents rb d d.length hco (by omega) (le_refl _)
        obtain ⟨ih1, ih2⟩ := ih _ hc2 hrest
        refine ⟨?_, ih2⟩
        rw [ih1, hc1, Nat.min_eq_left (by omega), List.take_length, List.append_assoc]
    | read len =>
      simp only [bulk_fits, Bool.and_eq_true, decide_eq_true_eq] at hfit
      obtain ⟨hcnt, hrest⟩ := hfit
      simp only [aegis_ring_buffer_get_count] at hcnt
      simp only [bulk_run, bulk_written]
      by_cases hl : len = 0
      · subst hl
        have hsame : aegis_ring_buffer_read rb (some (List.replicate 0 0)) 0 =
            (0, rb, some (List.replicate 0 0)) := by
          simp [aegis_ring_buffer_read]
        rw [hsame] at hrest ⊢
        have := ih rb hco hrest
        simpa using this
      · obtain ⟨hr1, -, hr3, -⟩ := read_contents rb (List.replicate len 0) len hco.1
          (by omega) (by simp)
        have hr4 := read_coherent rb (List.replicate len 0) len hco (by omega) (by simp)
        obtain ⟨ih1, ih2⟩ := ih _ hr4 hrest
        refine ⟨?_, ih2⟩
        rw [List.append_assoc, ih1, hr1, hr3, ← List.append_assoc, List.take_append_drop]

theorem bulk_run_append (pre post : List BulkOp) (rb : AegisRingBuffer) :
    bulk_run rb (pre ++ post) =
      ((bulk_run rb pre).1 ++ (bulk_run (bulk_run rb pre).2 post).1,
        (bulk_run (bulk_run rb pre).2 post).2) := by
  induction pre generalizing rb with
  | nil => simp [bulk_run]
  | cons op pre ih =>
    cases op with
    | write d =>
      simp only [List.cons_append, bulk_run, List.append_eq]
      rw [ih]
    | read len =>
      simp only [List.cons_append, bulk_run, List.append_eq]
      rw [ih]
      simp only [List.append_assoc]

theorem bulk_fits_append (pre post : List BulkOp) (rb : AegisRingBuffer) :
    bulk_fits rb (pre ++ post) = (bulk_fits rb pre && bulk_fits (bulk_run rb pre).2 post) := by
  induction pre generalizing rb with
  | nil => simp [bulk_run, bulk_fits]
  | cons op pre ih =>
    cases op with
    | write d =>
      simp only [List.cons_append, bulk_run, bulk_fits, List.append_eq]
      rw [ih, Bool.and_assoc]
    | read len =>
      simp only [List.cons_append, bulk_run, bulk_fits, List.append_eq]
      rw [ih, Bool.and_assoc]

/-- Every call of a fitting sequence of bulk transfers returns the length it
was asked for, so the reads deliver as many bytes as they requested. -/
theorem bulk_run_returns (ops : List BulkOp) (rb : AegisRingBuffer) (hco : RingCoherent rb)
    (hfit : bulk_fits rb ops = true) :
    bulk_returns rb ops = ops.map bulk_len ∧
      (bulk_run rb ops).1.length = bulk_requested ops := by
  induction ops generalizing rb with
  | nil => simp [bulk_run, bulk_returns, bulk_requested]
  | cons op ops ih =>
    have hwf := hco.1
    obtain ⟨hs, hb, hc, hh, ht⟩ := hwf
    cases op with
    | write d =>
      simp only [bulk_fits, Bool.and_eq_true, decide_eq_true_eq] at hfit
      obtain ⟨hfree, hrest⟩ := hfit
      simp only [aegis_ring_buffer_get_free] at hfree
      simp only [bulk_run, bulk_returns, bulk_requested, List.map_cons, bulk_len]
      by_cases hd : d.length = 0
      · have hsame : aegis_ring_buffer_write rb (some d) d.length = (0, rb) := by
          simp [aegis_ring_buffer_write, hd]
        rw [hsame] at hrest ⊢
        obtain ⟨ih1, ih2⟩ := ih rb hco hrest
        simp only
        rw [ih1, ih2, hd]
        exact ⟨rfl, rfl⟩
      · obtain ⟨-, hc2⟩ := write_contents rb d d.length hco (by omega) (le_refl _)
        obtain ⟨w1, -⟩ := write_spec rb d d.length hco.1 (by omega)
        obtain ⟨ih1, ih2⟩ := ih _ hc2 hrest
        rw [ih1, ih2, w1, Nat.min_eq_left (by omega)]
        exact ⟨rfl, rfl⟩
    | read len =>
      simp only [bulk_fits, Bool.and_eq_true, decide_eq_true_eq] at hfit
      obtain ⟨hcnt, hrest⟩ := hfit
      simp only [aegis_ring_buffer_get_count] at hcnt
      simp only [bulk_run, bulk_returns, bulk_requested, List.map_cons, bulk_len]
      by_cases hl : len = 0
      · subst hl
        have hsame : aegis_ring_buffer_read rb (some (List.replicate 0 0)) 0 =
            (0, rb, some (List.replicate 0 0)) := by
          simp [aegis_ring_buffer_read]
        rw [hsame] at hrest ⊢
        obtain ⟨ih1, ih2⟩ := ih rb hco hrest
        simp only
        rw [ih1]
        refine ⟨rfl, ?_⟩
        simp [ih2]
      · obtain ⟨r1, -, -, -, -, -, out', r7, r8, -⟩ := read_spec rb (List.replicate len 0) len
          hco.1 (by omega)
        have hr4 := read_coherent rb (List.replicate len 0) len hco (by omega) (by simp)
        obtain ⟨ih1, ih2⟩ := ih _ hr4 hrest
        rw [ih1, r1, Nat.min_eq_left hcnt]
        refine ⟨rfl, ?_⟩
        rw [List.length_append, ih2, r7, Option.getD_some, List.length_take, r8,
          List.length_replicate, Nat.min_self]

/-- In a fitting sequence of bulk transfers on a ring that starts empty, each
read returns the length asked for and fills the first `len` cells of its
destination with the oldest bytes written and not yet read. -/
theorem bulk_read_delivers (pre post : List BulkOp) (len : Nat) (rb : AegisRingBuffer)
    (hco : RingCoherent rb) (hempty : rb.count = 0)
    (hfit : bulk_fits rb (pre ++ BulkOp.read len :: post) = true) :
    (aegis_ring_buffer_read (bulk_run rb pre).2 (some (List.replicate len 0)) len).1 = len ∧
      ((aegis_ring_buffer_read (bulk_run rb pre).2 (some (List.replicate len 0)) len).2.2.getD
          []).take len =
        ((bulk_written pre).drop (bulk_requested pre)).take len ∧
      len ≤ ((bulk_written pre).drop (bulk_requested pre)).length := by
  rw [bulk_fits_append, Bool.and_eq_true] at hfit
  obtain ⟨hpre, hpost⟩ := hfit
  simp only [bulk_fits, Bool.and_eq_true, decide_eq_true_eq, aegis_ring_buffer_get_count] at hpost
  obtain ⟨hcnt, -⟩ := hpost
  obtain ⟨s1, s2⟩ := bulk_run_spec pre rb hco hpre
  obtain ⟨-, t2⟩ := bulk_run_returns pre rb hco hpre
  have h0 : ring_contents rb = [] := by
    apply List.length_eq_zero.mp
    rw [ring_contents_length, hempty]
  rw [h0, List.nil_append] at s1
  have hheld : ring_contents (bulk_run rb pre).2 =
      (bulk_written pre).drop (bulk_requested pre) := by
    rw [← s1, ← t2, List.drop_left]
  have hlen : len ≤ ((bulk_written pre).drop (bulk_requested pre)).length := by
    rw [← hheld, ring_contents_length]
    exact hcnt
  by_cases hl : len = 0
  · subst hl
    refine ⟨?_, ?_, Nat.zero_le _⟩
    · simp [aegis_ring_buffer_read]
    · simp
  · obtain ⟨r1, -⟩ := read_spec (bulk_run rb pre).2 (List.replicate len 0) len s2.1 (by omega)
    obtain ⟨c1, -⟩ := read_contents (bulk_run rb pre).2 (List.replicate len 0) len s2.1
      (by omega) (by simp)
    rw [r1, Nat.min_eq_left hcnt] at c1 ⊢
    rw [c1, hheld]
    exact ⟨rfl, rfl, hlen⟩

/-! ## Event representation lemmas -/

theorem le_bytes_length (k n : Nat) : (le_bytes k n).length = k := by
  induction k generalizing n with
  | zero => rfl
  | succ k ih => simp [le_bytes, ih]

theorem le_value_le_bytes (k n : Nat) : le_value (le_bytes k n) = n % 256 ^ k := by
  induction k generalizing n with
  | zero => simp [le_bytes, le_value, Nat.mod_one]
  | succ k ih =>
    simp only [le_bytes, le_value, ih]
    rw [pow_succ', Nat.mod_mul]

theorem event_bytes_length (e : AegisDomainEvent) :
    (event_bytes e).length = sizeof_AegisDomainEvent := by
  simp [event_bytes, le_bytes_length, DOMAIN_EVENT_CUSTOM_DATA_MAX, sizeof_AegisDomainEvent]

theorem event_bytes_split (e : AegisDomainEvent) :
    event_bytes e =
      le_bytes 2 e.event_id ++ ([0, 0] ++ (le_bytes 4 e.type ++ (le_bytes 2 e.aggregate_id ++
        ([0, 0] ++ (le_bytes 4 e.timestamp ++ (le_bytes 8 e.aegis_trace_id ++
          (List.range DOMAIN_EVENT_CUSTOM_DATA_MAX).map fun i => e.data.getD i 0)))))) := by
  simp [event_bytes]

theorem take_append_exact (l₁ l₂ : List Nat) (n : Nat) (h : l₁.length = n) :
    (l₁ ++ l₂).take n = l₁ := by
  subst h
  simp

theorem drop_append_exact (l₁ l₂ : List Nat) (n : Nat) (h : l₁.length = n) :
    (l₁ ++ l₂).drop n = l₂ := by
  subst h
  simp

theorem drop_append_more (l₁ l₂ : List Nat) (n m : Nat) (h : l₁.length = n) :
    (l₁ ++ l₂).drop (n + m) = l₂.drop m := by
  subst h
  rw [← List.drop_drop, List.drop_left]

theorem event_memcpy_eq (e : AegisDomainEvent) :
    event_memcpy e =
      { event_id := e.event_id % 65536
        type := e.type % 4294967296
        aggregate_id := e.aggregate_id % 65536
        timestamp := e.timestamp % 4294967296
        aegis_trace_id := e.aegis_trace_id % 18446744073709551616
        data := (List.range DOMAIN_EVENT_CUSTOM_DATA_MAX).map fun i => e.data.getD i 0 } := by
  have h1 : (event_bytes e).take 2 = le_bytes 2 e.event_id := by
    rw [event_bytes_split, take_append_exact _ _ _ (le_bytes_length _ _)]
  have h2 : ((event_bytes e).drop 4).take 4 = le_bytes 4 e.type := by
    rw [event_bytes_split, drop_append_more _ _ 2 2 (le_bytes_length _ _),
      drop_append_exact [0, 0] _ 2 rfl, take_append_exact _ _ _ (le_bytes_length _ _)]
  have h3 : ((event_bytes e).drop 8).take 2 = le_bytes 2 e.aggregate_id := by
    rw [event_bytes_split, drop_append_more _ _ 2 6 (le_bytes_length _ _),
      drop_append_more [0, 0] _ 2 4 rfl, drop_append_exact _ _ 4 (le_bytes_length _ _),
      take_append_exact _ _ _ (le_bytes_length _ _)]
  have h4 : ((event_bytes e).drop 12).take 4 = le_bytes 4 e.timestamp := by
    rw [event_bytes_split, drop_append_more _ _ 2 10 (le_bytes_length _ _),
      drop_append_more [0, 0] _ 2 8 rfl, drop_append_more _ _ 4 4 (le_bytes_length _ _),
      drop_append_more _ _ 2 2 (le_bytes_length _ _), drop_append_exact [0, 0] _ 2 rfl,
      take_append_exact _ _ _ (le_bytes_length _ _)]
  have h5 : ((event_bytes e).drop 16).take 8 = le_bytes 8 e.aegis_trace_id := by
    rw [event_bytes_split, drop_append_more _ _ 2 14 (le_bytes_length _ _),
      drop_append_more [0, 0] _ 2 12 rfl, drop_append_more _ _ 4 8 (le_bytes_length _ _),
      drop_append_more _ _ 2 6 (le_bytes_length _ _), drop_append_more [0, 0] _ 2 4 rfl,
      drop_append_exact _ _ 4 (le_bytes_length _ _),
      take_append_exact _ _ _ (le_bytes_length _ _)]
  have h6 : ∀ i, i < DOMAIN_EVENT_CUSTOM_DATA_MAX →
      (event_bytes e).getD (24 + i) 0 = e.data.getD i 0 := by
    intro i hi
    rw [← drop_getD, event_bytes_split, drop_append_more _ _ 2 22 (le_bytes_length _ _),
      drop_append_more [0, 0] _ 2 20 rfl, drop_append_more _ _ 4 16 (le_bytes_length _ _),
      drop_append_more _ _ 2 14 (le_bytes_length _ _), drop_append_more [0, 0] _ 2 12 rfl,
      drop_append_more _ _ 4 8 (le_bytes_length _ _),
      drop_append_exact _ _ 8 (le_bytes_length _ _), List.getD_eq_getElem?_getD,
      List.getElem?_map, List.getElem?_range hi]
    rfl
  have p2 : ∀ n, le_value (le_bytes 2 n) = n % 65536 := by
    intro n
    rw [le_value_le_bytes]
    norm_num
  have p4 : ∀ n, le_value (le_bytes 4 n) = n % 4294967296 := by
    intro n
    rw [le_value_le_bytes]
    norm_num
  have p8 : ∀ n, le_value (le_bytes 8 n) = n % 18446744073709551616 := by
    intro n
    rw [le_value_le_bytes]
    norm_num
  unfold event_memcpy event_of_bytes
  rw [h1, h2, h3, h4, h5, p2, p2, p4, p4, p8, AegisDomainEvent.mk.injEq]
  refine ⟨rfl, rfl, rfl, rfl, rfl, ?_⟩
  apply List.map_congr_left
  intro i hi
  exact h6 i (List.mem_range.mp hi)

theorem event_memcpy_of_wf (e : AegisDomainEvent) (h : EventWF e) : event_memcpy e = e := by
  obtain ⟨h1, h2, h3, h4, h5, h6⟩ := h
  rw [event_memcpy_eq, Nat.mod_eq_of_lt h1, Nat.mod_eq_of_lt h2, Nat.mod_eq_of_lt h3,
    Nat.mod_eq_of_lt h4, Nat.mod_eq_of_lt h5]
  have hd : ((List.range DOMAIN_EVENT_CUSTOM_DATA_MAX).map fun i => e.data.getD i 0) = e.data := by
    apply list_ext_getD
    · simp [h6]
    · intro i hi
      simp only [List.length_map, List.length_range] at hi
      rw [List.getD_eq_getElem?_getD, List.getElem?_map, List.getElem?_range hi]
      rfl
  rw [hd]

theorem event_memcpy_wf (e : AegisDomainEvent) : EventWF (event_memcpy e) := by
  rw [event_memcpy_eq]
  refine ⟨Nat.mod_lt _ (by norm_num), Nat.mod_lt _ (by norm_num), Nat.mod_lt _ (by norm_num),
    Nat.mod_lt _ (by norm_num), Nat.mod_lt _ (by norm_num), ?_⟩
  simp

/-! ## Async queue and history lemmas -/

@[simp] theorem obs_published_append (a b : List BusObs) :
    obs_published (a ++ b) = obs_published a ++ obs_published b := by
  induction a with
  | nil => rfl
  | cons x a ih => cases x <;> simp [obs_published, ih]

@[simp] theorem obs_enqueued_append (a b : List BusObs) :
    obs_enqueued (a ++ b) = obs_enqueued a ++ obs_enqueued b := by
  induction a with
  | nil => rfl
  | cons x a ih => cases x <;> simp [obs_enqueued, ih]

@[simp] theorem obs_dropped_append (a b : List BusObs) :
    obs_dropped (a ++ b) = obs_dropped a ++ obs_dropped b := by
  induction a with
  | nil => rfl
  | cons x a ih => cases x <;> simp [obs_dropped, ih]

@[simp] theorem obs_dequeued_append (a b : List BusObs) :
    obs_dequeued (a ++ b) = obs_dequeued a ++ obs_dequeued b := by
  induction a with
  | nil => rfl
  | cons x a ih => cases x <;> simp [obs_dequeued, ih]

@[simp] theorem obs_calls_append (a b : List BusObs) :
    obs_calls (a ++ b) = obs_calls a ++ obs_calls b := by
  induction a with
  | nil => rfl
  | cons x a ih => cases x <;> simp [obs_calls, ih]

@[simp] theorem obs_refused_append (a b : List BusObs) :
    obs_refused (a ++ b) = obs_refused a ++ obs_refused b := by
  induction a with
  | nil => rfl
  | cons x a ih => cases x <;> simp [obs_refused, ih]

@[simp] theorem calls_at_append (d : Nat) (a b : List BusObs) :
    calls_at d (a ++ b) = calls_at d a ++ calls_at d b := by
  simp [calls_at, List.filterMap_append]

theorem encode_events_length (evs : List AegisDomainEvent) :
    (encode_events evs).length = sizeof_AegisDomainEvent * evs.length := by
  induction evs with
  | nil => rfl
  | cons e es ih =>
    simp only [encode_events, List.length_append, event_bytes_length, ih, List.length_cons]
    ring

theorem encode_events_append (a b : List AegisDomainEvent) :
    encode_events (a ++ b) = encode_events a ++ encode_events b := by
  induction a with
  | nil => rfl
  | cons e es ih => simp [encode_events, ih]

theorem decode_encode (evs : List AegisDomainEvent) (h : ∀ e ∈ evs, EventWF e) :
    decode_events evs.length (encode_events evs) = evs := by
  induction evs with
  | nil => rfl
  | cons e es ih =>
    simp only [List.length_cons, decode_events, encode_events]
    rw [take_append_exact _ _ _ (event_bytes_length e),
      drop_append_exact _ _ _ (event_bytes_length e), ih (fun x hx => h x (List.mem_cons_of_mem _ hx))]
    have : event_of_bytes (event_bytes e) = e := event_memcpy_of_wf e (h e (List.mem_cons_self _ _))
    rw [this]

theorem queueWF_count (q : AegisRingBuffer) (evs : List AegisDomainEvent) (h : QueueWF q evs) :
    q.count = sizeof_AegisDomainEvent * evs.length := by
  obtain ⟨-, -, hc, -⟩ := h
  rw [← ring_contents_length, hc, encode_events_length]

theorem queueWF_pending (bus : AegisDomainEventBus) (evs : List AegisDomainEvent)
    (h : QueueWF bus.async_queue evs) : pending_events bus = evs := by
  unfold pending_events
  rw [queueWF_count _ _ h, h.2.2.1, Nat.mul_div_cancel_left _ (by decide)]
  exact decode_encode evs h.2.2.2

theorem queueWF_length_le (q : AegisRingBuffer) (evs : List AegisDomainEvent)
    (h : QueueWF q evs) : evs.length ≤ DOMAIN_EVENT_QUEUE_SIZE := by
  have hc := queueWF_count q evs h
  obtain ⟨⟨⟨-, -, hle, -, -⟩, -⟩, hs, -, -⟩ := h
  rw [hs, hc] at hle
  exact Nat.le_of_mul_le_mul_left hle (by decide)
theorem sizeof_event_eq : sizeof_AegisDomainEvent = 88 := rfl

theorem queue_size_eq : DOMAIN_EVENT_QUEUE_SIZE = 32 := rfl

theorem enqueue_ok (bus : AegisDomainEventBus) (evs : List AegisDomainEvent)
    (e : AegisDomainEvent) (hq : QueueWF bus.async_queue evs) (he : EventWF e)
    (hlen : evs.length < DOMAIN_EVENT_QUEUE_SIZE) :
    event_queue_enqueue bus e =
        (ERR_OK,
          { bus with
            async_queue :=
              (aegis_ring_buffer_write bus.async_queue (some (event_bytes e))
                sizeof_AegisDomainEvent).2 }) ∧
      QueueWF
        (aegis_ring_buffer_write bus.async_queue (some (event_bytes e)) sizeof_AegisDomainEvent).2
        (evs ++ [e]) := by
  have hcount := queueWF_count _ _ hq
  obtain ⟨hco, hs, hc, hwf⟩ := hq
  have hle := hco.1.2.2.1
  obtain ⟨h1, h2, -, -, -, -, -⟩ :=
    write_spec bus.async_queue (event_bytes e) sizeof_AegisDomainEvent hco.1 (by decide)
  obtain ⟨w1, w2⟩ := write_contents bus.async_queue (event_bytes e) sizeof_AegisDomainEvent hco
    (by decide) (by rw [event_bytes_length])
  have hS := sizeof_event_eq
  have hQ := queue_size_eq
  have hs' := hs
  rw [hQ, hS] at hs'
  rw [hS] at hcount
  rw [hQ] at hlen
  have hmin : min sizeof_AegisDomainEvent (bus.async_queue.size - bus.async_queue.count) =
      sizeof_AegisDomainEvent := by omega
  rw [hmin] at h1 w1
  have hfree : (bus.async_queue.size + 65536 - bus.async_queue.count) % 65536 =
      bus.async_queue.size - bus.async_queue.count := by omega
  have hroom : 88 ≤ bus.async_queue.size - bus.async_queue.count := by omega
  constructor
  · unfold event_queue_enqueue
    simp only [aegis_ring_buffer_get_free]
    rw [hfree, if_neg (by omega), h1]
    simp
  · refine ⟨w2, by rw [h2, hs], ?_, ?_⟩
    · rw [w1, hc, encode_events_append]
      have : (event_bytes e).take sizeof_AegisDomainEvent = event_bytes e := by
        apply List.take_of_length_le
        rw [event_bytes_length]
      rw [this]
      simp [encode_events]
    · intro x hx
      rcases List.mem_append.mp hx with hx | hx
      · exact hwf x hx
      · rw [List.mem_singleton.mp hx]
        exact he

theorem enqueue_full (bus : AegisDomainEventBus) (evs : List AegisDomainEvent)
    (e : AegisDomainEvent) (hq : QueueWF bus.async_queue evs)
    (hlen : evs.length = DOMAIN_EVENT_QUEUE_SIZE) :
    event_queue_enqueue bus e =
      (ERR_CMD_QUEUE_FULL,
        { bus with dropped_events := (bus.dropped_events + 1) % 4294967296 }) := by
  have hcount := queueWF_count _ _ hq
  obtain ⟨hco, hs, hc, hwf⟩ := hq
  have hS := sizeof_event_eq
  have hQ := queue_size_eq
  rw [hQ, hS] at hs
  rw [hS] at hcount
  rw [hQ] at hlen
  unfold event_queue_enqueue
  simp only [aegis_ring_buffer_get_free]
  rw [if_pos (by omega)]

theorem dequeue_some (bus : AegisDomainEventBus) (e out : AegisDomainEvent)
    (evs : List AegisDomainEvent) (hq : QueueWF bus.async_queue (e :: evs)) :
    event_queue_dequeue bus out =
        (ERR_OK,
          { bus with
            async_queue :=
              (aegis_ring_buffer_read bus.async_queue (some (event_bytes out))
                sizeof_AegisDomainEvent).2.1 }, e) ∧
      QueueWF
        (aegis_ring_buffer_read bus.async_queue (some (event_bytes out))
          sizeof_AegisDomainEvent).2.1 evs := by
  have hcount := queueWF_count _ _ hq
  obtain ⟨hco, hs, hc, hwf⟩ := hq
  obtain ⟨h1, h2, -, -, -, -, out', h7, h8, -⟩ :=
    read_spec bus.async_queue (event_bytes out) sizeof_AegisDomainEvent hco.1 (by decide)
  obtain ⟨r1, -, r3, -⟩ := read_contents bus.async_queue (event_bytes out)
    sizeof_AegisDomainEvent hco.1 (by decide) (by rw [event_bytes_length])
  have r4 := read_coherent bus.async_queue (event_bytes out) sizeof_AegisDomainEvent hco
    (by decide) (by rw [event_bytes_length])
  rw [event_bytes_length] at h8
  have hS := sizeof_event_eq
  rw [List.length_cons, hS] at hcount
  have hmin : min sizeof_AegisDomainEvent bus.async_queue.count = sizeof_AegisDomainEvent := by
    omega
  rw [hmin] at h1 r1 r3
  rw [h7, h1, Option.getD_some, List.take_of_length_le (by omega), hc, encode_events,
    take_append_exact _ _ _ (event_bytes_length e)] at r1
  constructor
  · unfold event_queue_dequeue
    simp only [aegis_ring_buffer_get_count]
    rw [if_neg (by omega), h1, h7, Option.getD_some, r1]
    have : event_of_bytes (event_bytes e) = e :=
      event_memcpy_of_wf e (hwf e (List.mem_cons_self _ _))
    rw [this]
    simp
  · refine ⟨r4, by rw [h2, hs], ?_, fun x hx => hwf x (List.mem_cons_of_mem _ hx)⟩
    rw [r3, hc, encode_events, drop_append_exact _ _ _ (event_bytes_length e)]

theorem dequeue_none (bus : AegisDomainEventBus) (out : AegisDomainEvent)
    (hq : QueueWF bus.async_queue []) :
    event_queue_dequeue bus out = (ERR_EMPTY, bus, out) := by
  have hcount := queueWF_count _ _ hq
  have hS := sizeof_event_eq
  rw [List.length_nil, hS] at hcount
  unfold event_queue_dequeue
  simp only [aegis_ring_buffer_get_count]
  rw [if_pos (by omega)]
theorem hist_size_eq : DOMAIN_EVENT_HISTORY_SIZE = 16 := rfl

theorem hist_list_length (bus : AegisDomainEventBus) :
    (hist_list bus).length = bus.history.count := by
  simp [hist_list]

theorem hist_list_getElem? (bus : AegisDomainEventBus) (i : Nat) :
    (hist_list bus)[i]? =
      if i < bus.history.count then
        some (bus.history.history.getD ((bus.history.head + 16 - 1 - i) % 16) zero_event)
      else none := by
  unfold hist_list
  rw [List.getElem?_map]
  split
  · rw [List.getElem?_range (by assumption)]
    rfl
  · rw [List.getElem?_eq_none (by simp; omega)]
    rfl

theorem hist_add_spec (bus : AegisDomainEventBus) (e : AegisDomainEvent)
    (h : HistWF bus.history) :
    HistWF (event_history_add bus e).history ∧
      hist_list (event_history_add bus e) =
        (event_memcpy e :: hist_list bus).take DOMAIN_EVENT_HISTORY_SIZE := by
  obtain ⟨h1, h2, h3⟩ := h
  rw [hist_size_eq] at h1 h2 h3 ⊢
  constructor
  · refine ⟨?_, ?_, ?_⟩ <;> simp only [event_history_add, hist_size_eq]
    · simp [h1]
    · omega
    · split <;> omega
  · apply List.ext_getElem?
    intro i
    rw [hist_list_getElem?, List.getElem?_take]
    simp only [event_history_add, hist_size_eq]
    cases i with
    | zero =>
      have hidx : (((bus.history.head + 1) % 16) % 256 + 16 - 1 - 0) % 16 = bus.history.head := by
        omega
      rw [hidx]
      simp [h1, h2]
      split <;> omega
    | succ i =>
      rw [List.getElem?_cons_succ, hist_list_getElem?]
      by_cases hi : i < bus.history.count
      · by_cases h16 : i + 1 < 16
        · have hidx : (((bus.history.head + 1) % 16) % 256 + 16 - 1 - (i + 1)) % 16 =
              (bus.history.head + 16 - 1 - i) % 16 := by omega
          have hne : ¬ bus.history.head = (bus.history.head + 16 - 1 - i) % 16 := by omega
          rw [hidx, if_pos h16, if_pos hi, if_pos (by split <;> omega),
            List.getD_eq_getElem?_getD, List.getD_eq_getElem?_getD, List.getElem?_set, if_neg hne]
        · rw [if_neg h16, if_neg (by split <;> omega)]
      · rw [if_neg hi, if_neg (by split <;> omega)]
        simp

theorem get_history_eq (bus : AegisDomainEventBus) (i : Nat) (hi : bus.is_initialized ≠ 0)
    (h : HistWF bus.history) :
    aegis_domain_event_get_history bus i = (hist_list bus)[i]? := by
  obtain ⟨h1, h2, h3⟩ := h
  rw [hist_size_eq] at h1 h2 h3
  unfold aegis_domain_event_get_history
  rw [if_neg hi, hist_list_getElem?]
  simp only [hist_size_eq]
  by_cases hc : i ≥ bus.history.count
  · rw [if_pos hc, if_neg (show ¬ i < bus.history.count by omega)]
  · rw [if_neg hc, if_pos (show i < bus.history.count by omega)]
    have hidx : (if bus.history.head > i then (bus.history.head + 65536 - i - 1) % 256
        else (16 + bus.history.head + 65536 - i - 1) % 256) =
        (bus.history.head + 16 - 1 - i) % 16 := by
      split <;> omega
    have hlt : (bus.history.head + 16 - 1 - i) % 16 < bus.history.history.length := by omega
    show bus.history.history[(if bus.history.head > i then (bus.history.head + 65536 - i - 1) % 256
        else (16 + bus.history.head + 65536 - i - 1) % 256)]? = _
    rw [hidx, List.getD_eq_getElem?_getD, List.getElem?_eq_getElem hlt]
    rfl

/-! ## Effect of publish on the bus, for arbitrary handlers -/

@[simp] theorem obs_inputs_append (a b : List BusObs) :
    obs_inputs (a ++ b) = obs_inputs a ++ obs_inputs b := by
  induction a with
  | nil => rfl
  | cons x a ih => cases x <;> simp [obs_inputs, ih]

@[simp] theorem obs_handled_append (p : Nat) (a b : List BusObs) :
    obs_handled p (a ++ b) = obs_handled p a + obs_handled p b := by
  induction a with
  | nil => simp [obs_handled]
  | cons x a ih => cases x <;> simp [obs_handled, ih, Nat.add_assoc]

theorem pending_congr (b b' : AegisDomainEventBus) (hq : b'.async_queue = b.async_queue) :
    pending_events b' = pending_events b := by
  unfold pending_events
  rw [hq]

theorem hist_congr (b b' : AegisDomainEventBus) (hh : b'.history = b.history) :
    hist_list b' = hist_list b := by
  unfold hist_list
  rw [hh]

theorem busWF_congr (b b' : AegisDomainEventBus) (h : BusWF b)
    (hq : b'.async_queue = b.async_queue) (hh : b'.history = b.history)
    (hn : b'.next_event_id = b.next_event_id) (ht : TraceWF b'.trace)
    (hc : b'.subscription_count = b.subscription_count)
    (h1 : b'.total_published < 4294967296) (h2 : b'.total_processed < 4294967296)
    (h3 : b'.dropped_events < 4294967296) (h4 : b'.sync_handled < 4294967296)
    (h5 : b'.async_handled < 4294967296) : BusWF b' := by
  obtain ⟨g1, g2, g3, -, g5, -⟩ := h
  exact ⟨by rw [hq, pending_congr b b' hq]; exact g1, by rw [hh]; exact g2, by rw [hn]; exact g3,
    ht, by rw [hc]; exact g5, h1, h2, h3, h4, h5⟩

theorem hist_list_take (b : AegisDomainEventBus) (h : BusWF b) :
    (hist_list b).take DOMAIN_EVENT_HISTORY_SIZE = hist_list b := by
  apply List.take_of_length_le
  rw [hist_list_length]
  exact h.2.1.2.2

theorem traceWF_timestamp (log : AegisTraceLog) (h : TraceWF (some log)) :
    TraceWF (some (aegis_trace_get_timestamp log).2) ∧
      (aegis_trace_get_timestamp log).1 < 4294967296 := by
  have h0 := h log rfl
  unfold aegis_trace_get_timestamp
  cases log.clock_now with
  | none =>
    refine ⟨?_, h0⟩
    intro l hl
    simp only [Option.some.injEq] at hl
    subst hl
    exact Nat.mod_lt _ (by norm_num)
  | some now =>
    refine ⟨?_, Nat.mod_lt _ (by norm_num)⟩
    intro l hl
    simp only [Option.some.injEq] at hl
    subst hl
    exact h0

theorem traceWF_log_event (t : Option AegisTraceLog) (ty : Nat) (id : String) (p1 p2 : Nat)
    (h : TraceWF t) :
    TraceWF (aegis_trace_log_event t ty id p1 p2) ∧
      (aegis_trace_log_event t ty id p1 p2).isSome = t.isSome := by
  cases t with
  | none => exact ⟨h, rfl⟩
  | some log =>
    unfold aegis_trace_log_event
    simp only
    have ht := (traceWF_timestamp log h).1 _ rfl
    split
    · exact ⟨h, rfl⟩
    · split
      · refine ⟨?_, rfl⟩
        intro l hl
        simp only [Option.some.injEq] at hl
        subst hl
        exact ht
      · refine ⟨?_, rfl⟩
        intro l hl
        simp only [Option.some.injEq] at hl
        subst hl
        exact ht

theorem take_append_take (n : Nat) (a b : List AegisDomainEvent) :
    (a ++ b.take n).take n = (a ++ b).take n := by
  rw [List.take_append_eq_append_take, List.take_append_eq_append_take, List.take_take,
    Nat.min_eq_left (Nat.sub_le _ _)]

/-- A change of the bus that touches none of the queue, the history, the
identifier counter or the statistics, under observations that record no
publication and no queue traffic. -/
theorem Eff.frame (b b' : AegisDomainEventBus) (o : List BusObs) (h : BusWF b)
    (hs : b'.subscriptions = b.subscriptions) (hc : b'.subscription_count = b.subscription_count)
    (hi : b'.is_initialized = b.is_initialized) (hd : b'.recursion_depth = b.recursion_depth)
    (hq : b'.async_queue = b.async_queue) (hh : b'.history = b.history)
    (hn : b'.next_event_id = b.next_event_id) (ht : TraceWF b'.trace)
    (htn : b'.trace.isSome = b.trace.isSome)
    (h1 : b'.total_published = b.total_published) (h2 : b'.total_processed = b.total_processed)
    (h3 : b'.dropped_events = b.dropped_events) (h4 : b'.sync_handled < 4294967296)
    (h5 : b'.async_handled < 4294967296)
    (o1 : obs_published o = []) (o2 : obs_enqueued o = []) (o3 : obs_dropped o = [])
    (o4 : obs_dequeued o = []) (o5 : ∀ x ∈ o, ObsDepthOK b.recursion_depth x)
    (o6 : ∀ x ∈ o, CopyOK x) : Eff b b' o where
  subs := hs
  cnt := hc
  init := hi
  depth := hd
  tnull := htn
  wf := by
    have g := h
    obtain ⟨-, -, -, -, -, g1, g2, g3, -, -⟩ := g
    exact busWF_congr b b' h hq hh hn ht hc (by omega) (by omega) (by omega) h4 h5
  queue := by simp [o2, o4, pending_congr b b' hq]
  hist := by simp [o1, hist_congr b b' hh, hist_list_take b h]
  next_id := by simp [o1, hn, Nat.mod_eq_of_lt h.2.2.1]
  ids := by simp [o1]
  tp := by
    have := h.2.2.2.2.2.1
    simp only [o1, List.length_nil]
    omega
  dr := by
    have := h.2.2.2.2.2.2.2.1
    simp only [o3, List.length_nil]
    omega
  pr := by
    have := h.2.2.2.2.2.2.1
    simp only [o4, List.length_nil]
    omega
  evwf := by simp [o1]
  copies := o6
  depths := o5

theorem Eff.refl (b : AegisDomainEventBus) (h : BusWF b) : Eff b b [] :=
  Eff.frame b b [] h rfl rfl rfl rfl rfl rfl rfl h.2.2.2.1 rfl rfl rfl rfl h.2.2.2.2.2.2.2.2.1
    h.2.2.2.2.2.2.2.2.2 rfl rfl rfl rfl (by simp) (by simp)

theorem Eff.trans {a b c : AegisDomainEventBus} {o₁ o₂ : List BusObs} (h₁ : Eff a b o₁)
    (h₂ : Eff b c o₂) : Eff a c (o₁ ++ o₂) where
  subs := h₂.subs.trans h₁.subs
  cnt := h₂.cnt.trans h₁.cnt
  init := h₂.init.trans h₁.init
  depth := h₂.depth.trans h₁.depth
  tnull := h₂.tnull.trans h₁.tnull
  wf := h₂.wf
  queue := by
    rw [obs_dequeued_append, obs_enqueued_append, List.append_assoc, h₂.queue,
      ← List.append_assoc, h₁.queue, List.append_assoc]
  hist := by
    rw [h₂.hist, h₁.hist, obs_published_append, List.reverse_append, List.append_assoc,
      take_append_take]
  next_id := by
    rw [h₂.next_id, h₁.next_id, obs_published_append, List.length_append]
    omega
  ids := by
    rw [obs_published_append, List.map_append, h₁.ids, h₂.ids, h₁.next_id, List.length_append,
      List.range_add, List.map_append, List.map_map]
    congr 1
    apply List.map_congr_left
    intro k _
    simp only [Function.comp]
    omega
  tp := by
    rw [h₂.tp, h₁.tp, obs_published_append, List.length_append]
    omega
  dr := by
    rw [h₂.dr, h₁.dr, obs_dropped_append, List.length_append]
    omega
  pr := by
    rw [h₂.pr, h₁.pr, obs_dequeued_append, List.length_append]
    omega
  evwf := by
    intro e he
    rw [obs_published_append] at he
    rcases List.mem_append.mp he with he | he
    · exact h₁.evwf e he
    · exact h₂.evwf e he
  copies := by
    intro x hx
    rcases List.mem_append.mp hx with hx | hx
    · exact h₁.copies x hx
    · exact h₂.copies x hx
  depths := by
    intro x hx
    rcases List.mem_append.mp hx with hx | hx
    · exact h₁.depths x hx
    · have := h₂.depths x hx
      rw [h₁.depth] at this
      exact this

theorem ObsClosed.nil : ObsClosed [] := by
  simp [ObsClosed, obs_dequeued, obs_published, obs_enqueued, obs_dropped]

theorem ObsClosed.append {o₁ o₂ : List BusObs} (h₁ : ObsClosed o₁) (h₂ : ObsClosed o₂) :
    ObsClosed (o₁ ++ o₂) := by
  obtain ⟨a1, a2⟩ := h₁
  obtain ⟨b1, b2⟩ := h₂
  constructor
  · rw [obs_dequeued_append, a1, b1]
    rfl
  · simp only [obs_published_append, obs_enqueued_append, obs_dropped_append, List.length_append]
    omega
theorem max_depth_eq : MAX_EVENT_RECURSION_DEPTH = 3 := rfl

theorem obsDepthOK_mono (d d' : Nat) (x : BusObs) (h : d ≤ d') (hx : ObsDepthOK d' x) :
    ObsDepthOK d x := by
  cases x <;> simp only [ObsDepthOK] at hx ⊢ <;> omega

theorem run_handler_spec (pub : PublishFn) (hp : PubSpec pub) (es : List AegisDomainEvent) :
    ∀ b b' o, BusWF b → b.is_initialized ≠ 0 → run_handler pub b es = some (b', o) →
      Eff b b' o ∧ ObsClosed o := by
  induction es with
  | nil =>
    intro b b' o hwf _ h
    simp only [run_handler, Option.some.injEq, Prod.mk.injEq] at h
    obtain ⟨rfl, rfl⟩ := h
    exact ⟨Eff.refl b hwf, ObsClosed.nil⟩
  | cons e es ih =>
    intro b b' o hwf hi h
    simp only [run_handler] at h
    cases hpub : pub b e with
    | none => simp [hpub] at h
    | some r =>
      obtain ⟨c, b1, o1⟩ := r
      obtain ⟨-, e1, c1⟩ := hp b e _ hwf hi hpub
      cases hrest : run_handler pub b1 es with
      | none => simp [hpub, hrest] at h
      | some r2 =>
        obtain ⟨b2, o2⟩ := r2
        simp only [hpub, hrest, Option.some.injEq, Prod.mk.injEq] at h
        obtain ⟨rfl, rfl⟩ := h
        obtain ⟨e2, c2⟩ := ih b1 b2 o2 e1.wf (by rw [e1.init]; exact hi) hrest
        exact ⟨e1.trans e2, c1.append c2⟩

theorem Eff.call (b b2 : AegisDomainEventBus) (o : List BusObs) (i p : Nat)
    (e : AegisDomainEvent) (r : AegisEventHandlerResult)
    (hd : b.recursion_depth < MAX_EVENT_RECURSION_DEPTH)
    (hin : Eff { b with recursion_depth := (b.recursion_depth + 1) % 256 } b2 o) :
    Eff b { b2 with recursion_depth := (b2.recursion_depth + 255) % 256 }
      (BusObs.call i p e b.recursion_depth r :: o) where
  subs := hin.subs
  cnt := hin.cnt
  init := hin.init
  depth := by
    have := hin.depth
    rw [max_depth_eq] at hd
    simp only at this ⊢
    omega
  tnull := hin.tnull
  wf := by
    have g := hin.wf
    obtain ⟨-, -, -, g0, -, g1, g2, g3, g4, g5⟩ := g
    exact busWF_congr b2 _ hin.wf rfl rfl rfl g0 rfl g1 g2 g3 g4 g5
  queue := hin.queue
  hist := hin.hist
  next_id := hin.next_id
  ids := hin.ids
  tp := hin.tp
  dr := hin.dr
  pr := hin.pr
  evwf := hin.evwf
  copies := by
    intro x hx
    rcases List.mem_cons.mp hx with rfl | hx
    · trivial
    · exact hin.copies x hx
  depths := by
    intro x hx
    rcases List.mem_cons.mp hx with rfl | hx
    · exact ⟨le_refl _, hd⟩
    · have := hin.depths x hx
      rw [max_depth_eq] at hd
      have hd1 : (b.recursion_depth + 1) % 256 = b.recursion_depth + 1 := by omega
      simp only [hd1] at this
      exact obsDepthOK_mono _ _ x (Nat.le_succ _) this

theorem Eff.trace_log (b : AegisDomainEventBus) (o : List BusObs) (ty : Nat) (id : String)
    (p1 p2 : Nat) (h : BusWF b)
    (o1 : obs_published o = []) (o2 : obs_enqueued o = []) (o3 : obs_dropped o = [])
    (o4 : obs_dequeued o = []) (o5 : ∀ x ∈ o, ObsDepthOK b.recursion_depth x)
    (o6 : ∀ x ∈ o, CopyOK x) :
    Eff b (bus_trace_log b ty id p1 p2) o :=
  Eff.frame b _ o h rfl rfl rfl rfl rfl rfl rfl (traceWF_log_event _ _ _ _ _ h.2.2.2.1).1
    (traceWF_log_event _ _ _ _ _ h.2.2.2.1).2 rfl rfl rfl h.2.2.2.2.2.2.2.2.1
    h.2.2.2.2.2.2.2.2.2 o1 o2 o3 o4 o5 o6

theorem invoke_spec (pub : PublishFn) (hp : PubSpec pub) (b b' : AegisDomainEventBus)
    (i p : Nat) (sub : AegisEventSubscription) (e : AegisDomainEvent)
    (r : AegisEventHandlerResult) (o : List BusObs) (hwf : BusWF b)
    (hi : b.is_initialized ≠ 0)
    (h : invoke_handler_with_recursion pub b i p sub e = some (r, b', o)) :
    Eff b b' o ∧ ObsClosed o := by
  unfold invoke_handler_with_recursion at h
  cases hh : sub.handler with
  | none =>
    simp only [hh, Option.some.injEq, Prod.mk.injEq] at h
    obtain ⟨-, rfl, rfl⟩ := h
    exact ⟨Eff.refl b hwf, ObsClosed.nil⟩
  | some handler =>
    simp only [hh] at h
    by_cases hd : b.recursion_depth ≥ MAX_EVENT_RECURSION_DEPTH
    · rw [if_pos hd] at h
      simp only [Option.some.injEq, Prod.mk.injEq] at h
      obtain ⟨-, rfl, rfl⟩ := h
      refine ⟨Eff.trace_log b _ _ _ _ _ hwf rfl rfl rfl rfl ?_ ?_, ?_⟩
      · intro x hx
        rw [List.mem_singleton.mp hx]
        exact ⟨le_refl _, hd⟩
      · intro x hx
        rw [List.mem_singleton.mp hx]
        trivial
      · simp [ObsClosed, obs_dequeued, obs_published, obs_enqueued, obs_dropped]
    · rw [if_neg hd] at h
      cases hrun : run_handler pub { b with recursion_depth := (b.recursion_depth + 1) % 256 }
          (handler e sub.ctx).publishes with
      | none => simp [hrun] at h
      | some r2 =>
        obtain ⟨b2, o2⟩ := r2
        simp only [hrun, Option.some.injEq, Prod.mk.injEq] at h
        obtain ⟨-, rfl, rfl⟩ := h
        have hwf1 : BusWF { b with recursion_depth := (b.recursion_depth + 1) % 256 } := by
          have g := hwf
          obtain ⟨-, -, -, g0, -, g1, g2, g3, g4, g5⟩ := g
          exact busWF_congr b _ hwf rfl rfl rfl g0 rfl g1 g2 g3 g4 g5
        obtain ⟨e2, c2⟩ := run_handler_spec pub hp _ _ b2 o2 hwf1 hi hrun
        refine ⟨Eff.call b b2 o2 i p e _ (by omega) e2, ?_⟩
        obtain ⟨c3, c4⟩ := c2
        exact ⟨by simpa [obs_dequeued] using c3, by simpa [obs_published, obs_enqueued, obs_dropped] using c4⟩
theorem dispatch_loop_spec (pub : PublishFn) (hp : PubSpec pub) (e : AegisDomainEvent)
    (p : Nat) (idxs : List Nat) :
    ∀ b n n' b' o, BusWF b → b.is_initialized ≠ 0 →
      dispatch_loop pub e p idxs b n = some (n', b', o) → Eff b b' o ∧ ObsClosed o := by
  induction idxs with
  | nil =>
    intro b n n' b' o hwf _ h
    simp only [dispatch_loop, Option.some.injEq, Prod.mk.injEq] at h
    obtain ⟨-, rfl, rfl⟩ := h
    exact ⟨Eff.refl b hwf, ObsClosed.nil⟩
  | cons i rest ih =>
    intro b n n' b' o hwf hi h
    simp only [dispatch_loop] at h
    cases hsub : (b.subscriptions.getD [])[i]? with
    | none =>
      simp only [hsub] at h
      exact ih b n n' b' o hwf hi h
    | some sub =>
      simp only [hsub] at h
      by_cases h1 : sub.is_sync ≠ p
      · rw [if_pos h1] at h
        exact ih b n n' b' o hwf hi h
      · rw [if_neg h1] at h
        by_cases h2 : sub.event_type ≠ 0 ∧ sub.event_type ≠ e.type
        · rw [if_pos h2] at h
          exact ih b n n' b' o hwf hi h
        · rw [if_neg h2] at h
          cases hinv : invoke_handler_with_recursion pub b i p sub e with
          | none => simp [hinv] at h
          | some r =>
            obtain ⟨res, b1, o1⟩ := r
            simp only [hinv] at h
            obtain ⟨e1, c1⟩ := invoke_spec pub hp b b1 i p sub e res o1 hwf hi hinv
            have e2 : Eff b1
                (if res = AegisEventHandlerResult.EVENT_HANDLER_ERROR then
                  bus_trace_log b1 TRACE_EVENT_APP_ERROR "REQ-EVENT-009" e.type i
                else b1) [] := by
              split
              · exact Eff.trace_log b1 [] _ _ _ _ e1.wf rfl rfl rfl rfl (by simp) (by simp)
              · exact Eff.refl b1 e1.wf
            cases hrest : dispatch_loop pub e p rest
                (if res = AegisEventHandlerResult.EVENT_HANDLER_ERROR then
                  bus_trace_log b1 TRACE_EVENT_APP_ERROR "REQ-EVENT-009" e.type i
                else b1)
                (if res = AegisEventHandlerResult.EVENT_HANDLER_OK then (n + 1) % 256 else n) with
            | none => simp [hrest] at h
            | some r3 =>
              obtain ⟨n3, b3, o3⟩ := r3
              simp only [hrest, Option.some.injEq, Prod.mk.injEq] at h
              obtain ⟨-, rfl, rfl⟩ := h
              obtain ⟨e3, c3⟩ := ih _ _ n3 b3 o3 e2.wf
                (by rw [e2.init, e1.init]; exact hi) hrest
              have := (e1.trans e2).trans e3
              rw [List.append_nil] at this
              exact ⟨this, c1.append c3⟩

theorem dispatch_spec (pub : PublishFn) (hp : PubSpec pub) (e : AegisDomainEvent)
    (p : Nat) (b b' : AegisDomainEventBus) (n : Nat) (o : List BusObs) (hwf : BusWF b)
    (hi : b.is_initialized ≠ 0) (h : dispatch_to_subscribers pub b e p = some (n, b', o)) :
    Eff b b' o ∧ ObsClosed o :=
  dispatch_loop_spec pub hp e p _ b 0 n b' o hwf hi h

theorem publish_enter_wf (b : AegisDomainEventBus) (e : AegisDomainEvent) (hwf : BusWF b) :
    EventWF (publish_enter b e).1 ∧ (publish_enter b e).1.event_id = b.next_event_id := by
  obtain ⟨a1, a2, a3, a4, a5, a6⟩ := event_memcpy_wf e
  have hn := hwf.2.2.1
  unfold publish_enter
  simp only
  split
  · cases ht : b.trace with
    | none => exact ⟨⟨hn, a2, a3, a4, a5, a6⟩, rfl⟩
    | some log =>
      have := (traceWF_timestamp log (by rw [← ht]; exact hwf.2.2.2.1)).2
      exact ⟨⟨hn, a2, a3, this, a5, a6⟩, rfl⟩
  · exact ⟨⟨hn, a2, a3, a4, a5, a6⟩, rfl⟩
theorem publish_enter_shape (b : AegisDomainEventBus) (e : AegisDomainEvent) :
    ∃ t' : Option AegisTraceLog,
      (publish_enter b e).2 =
        { b with
          next_event_id := (b.next_event_id + 1) % 65536
          trace := t'
          history := (event_history_add b (publish_enter b e).1).history
          total_published := (b.total_published + 1) % 4294967296 } ∧
      (TraceWF b.trace → TraceWF t') ∧ t'.isSome = b.trace.isSome := by
  unfold publish_enter
  simp only
  split
  · cases ht : b.trace with
    | none => exact ⟨none, rfl, fun h => h, rfl⟩
    | some log =>
      exact ⟨some (aegis_trace_get_timestamp log).2, rfl,
        fun h => (traceWF_timestamp log h).1, rfl⟩
  · exact ⟨b.trace, rfl, fun h => h, rfl⟩

theorem publish_enter_copy (b : AegisDomainEventBus) (e : AegisDomainEvent) :
    IsCopy e (publish_enter b e).1 := by
  unfold publish_enter IsCopy
  simp only
  split
  · cases b.trace with
    | none => exact ⟨rfl, fun h => absurd (by assumption) h⟩
    | some log => exact ⟨rfl, fun h => absurd (by assumption) h⟩
  · exact ⟨rfl, fun _ => rfl⟩

theorem publish_enter_eff (b : AegisDomainEventBus) (e : AegisDomainEvent) (hwf : BusWF b) :
    Eff b (publish_enter b e).2 [BusObs.published e (publish_enter b e).1] := by
  obtain ⟨hev, hid⟩ := publish_enter_wf b e hwf
  obtain ⟨t', hshape, ht1, ht2⟩ := publish_enter_shape b e
  obtain ⟨hh1, hh2⟩ := hist_add_spec b (publish_enter b e).1 hwf.2.1
  rw [event_memcpy_of_wf _ hev] at hh2
  have g := hwf
  obtain ⟨g1, g2, g3, g4, g5, g6, g7, g8, g9, g10⟩ := g
  have hq : (publish_enter b e).2.async_queue = b.async_queue := by rw [hshape]
  have hh : (publish_enter b e).2.history =
      (event_history_add b (publish_enter b e).1).history := by rw [hshape]
  exact
    { subs := by rw [hshape]
      cnt := by rw [hshape]
      init := by rw [hshape]
      depth := by rw [hshape]
      tnull := by rw [hshape]; exact ht2
      wf := by
        refine ⟨?_, ?_, ?_, ?_, ?_, ?_, ?_, ?_, ?_, ?_⟩
        · rw [hq, pending_congr b _ hq]
          exact g1
        · rw [hh]
          exact hh1
        · rw [hshape]
          exact Nat.mod_lt _ (by norm_num)
        · rw [hshape]
          exact ht1 g4
        · rw [hshape]
          exact g5
        · rw [hshape]
          exact Nat.mod_lt _ (by norm_num)
        · rw [hshape]
          exact g7
        · rw [hshape]
          exact g8
        · rw [hshape]
          exact g9
        · rw [hshape]
          exact g10
      queue := by simp [obs_dequeued, obs_enqueued, pending_congr b _ hq]
      hist := by
        rw [hist_congr _ _ hh, hh2]
        simp [obs_published]
      next_id := by rw [hshape]; simp [obs_published]
      ids := by simp [obs_published, hid, List.range_succ, Nat.mod_eq_of_lt g3]
      tp := by rw [hshape]; simp [obs_published]
      dr := by
        rw [hshape]
        simp only [obs_dropped, List.length_nil]
        omega
      pr := by
        rw [hshape]
        simp only [obs_dequeued, List.length_nil]
        omega
      evwf := by
        intro x hx
        simp only [obs_published, List.mem_singleton] at hx
        rw [hx]
        exact hev
      copies := by
        intro x hx
        rw [List.mem_singleton.mp hx]
        exact publish_enter_copy b e
      depths := by
        intro x hx
        rw [List.mem_singleton.mp hx]
        trivial }

theorem publish_exit_eff (b : AegisDomainEventBus) (ec : AegisDomainEvent) (n : Nat)
    (hwf : BusWF b) (hev : EventWF ec) :
    Eff b (publish_exit b ec n).1 (publish_exit b ec n).2 ∧
      ((pending_events b).length < DOMAIN_EVENT_QUEUE_SIZE →
        (publish_exit b ec n).2 = [BusObs.enqueued ec]) ∧
      ((pending_events b).length = DOMAIN_EVENT_QUEUE_SIZE →
        (publish_exit b ec n).2 = [BusObs.dropped ec]) := by
  have g := hwf
  obtain ⟨g1, g2, g3, g4, g5, g6, g7, g8, g9, g10⟩ := g
  have hle := queueWF_length_le _ _ g1
  have g1' : QueueWF
      ({ b with sync_handled := (b.sync_handled + n) % 4294967296 } :
        AegisDomainEventBus).async_queue (pending_events b) := g1
  by_cases hlen : (pending_events b).length < DOMAIN_EVENT_QUEUE_SIZE
  · obtain ⟨q1, q2⟩ := enqueue_ok _ _ ec g1' hev hlen
    have hx : publish_exit b ec n =
        ({ b with
            sync_handled := (b.sync_handled + n) % 4294967296
            async_queue := (aegis_ring_buffer_write b.async_queue (some (event_bytes ec))
              sizeof_AegisDomainEvent).2 }, [BusObs.enqueued ec]) := by
      unfold publish_exit
      simp only [q1, ne_eq, not_true_eq_false, if_false]
    rw [hx]
    have hp := queueWF_pending
      ({ b with
          sync_handled := (b.sync_handled + n) % 4294967296
          async_queue := (aegis_ring_buffer_write b.async_queue (some (event_bytes ec))
            sizeof_AegisDomainEvent).2 } : AegisDomainEventBus) _ q2
    refine ⟨?_, fun _ => rfl, fun h => by omega⟩
    exact
      { subs := rfl
        cnt := rfl
        init := rfl
        depth := rfl
        tnull := rfl
        wf := ⟨by rw [hp]; exact q2, g2, g3, g4, g5, g6, g7, g8, Nat.mod_lt _ (by norm_num), g10⟩
        queue := by simp [obs_dequeued, obs_enqueued, hp]
        hist := by
          simp only [obs_published, List.reverse_nil, List.nil_append]
          rw [hist_list_take b hwf]
          rfl
        next_id := by simp [obs_published, Nat.mod_eq_of_lt g3]
        ids := by simp [obs_published]
        tp := by
          simp only [obs_published, List.length_nil]
          omega
        dr := by
          simp only [obs_dropped, List.length_nil]
          omega
        pr := by
          simp only [obs_dequeued, List.length_nil]
          omega
        evwf := by simp [obs_published]
        copies := by
          intro x hx
          rw [List.mem_singleton.mp hx]
          trivial
        depths := by
          intro x hx
          rw [List.mem_singleton.mp hx]
          trivial }
  · have hfull : (pending_events b).length = DOMAIN_EVENT_QUEUE_SIZE := by omega
    have q1 := enqueue_full _ _ ec g1' hfull
    have hx : publish_exit b ec n =
        (bus_trace_log
            { b with
              sync_handled := (b.sync_handled + n) % 4294967296
              dropped_events := (b.dropped_events + 1) % 4294967296 }
            TRACE_EVENT_DOMAIN_ERR "REQ-EVENT-010" ec.type b.async_queue.count,
          [BusObs.dropped ec]) := by
      unfold publish_exit
      simp only [q1, ne_eq]
      rw [if_pos (by decide)]
    rw [hx]
    have ht := traceWF_log_event b.trace TRACE_EVENT_DOMAIN_ERR "REQ-EVENT-010" ec.type
      b.async_queue.count g4
    refine ⟨?_, fun h => by omega, fun _ => rfl⟩
    exact
      { subs := rfl
        cnt := rfl
        init := rfl
        depth := rfl
        tnull := ht.2
        wf := ⟨g1, g2, g3, ht.1, g5, g6, g7, Nat.mod_lt _ (by norm_num),
          Nat.mod_lt _ (by norm_num), g10⟩
        queue := by
          simp only [obs_dequeued, obs_enqueued, List.nil_append, List.append_nil]
          rfl
        hist := by
          simp only [obs_published, List.reverse_nil, List.nil_append]
          rw [hist_list_take b hwf]
          rfl
        next_id := by simp [obs_published, bus_trace_log, Nat.mod_eq_of_lt g3]
        ids := by simp [obs_published]
        tp := by
          simp only [obs_published, List.length_nil, bus_trace_log]
          omega
        dr := by simp [obs_dropped, bus_trace_log]
        pr := by
          simp only [obs_dequeued, List.length_nil, bus_trace_log]
          omega
        evwf := by simp [obs_published]
        copies := by
          intro x hx
          rw [List.mem_singleton.mp hx]
          trivial
        depths := by
          intro x hx
          rw [List.mem_singleton.mp hx]
          trivial }

theorem closed_publish (e ec : AegisDomainEvent) (o x : List BusObs) (ho : ObsClosed o)
    (hx : x = [BusObs.enqueued ec] ∨ x = [BusObs.dropped ec]) :
    ObsClosed (BusObs.published e ec :: o ++ x) := by
  obtain ⟨h1, h2⟩ := ho
  have hsplit : BusObs.published e ec :: o ++ x = [BusObs.published e ec] ++ (o ++ x) := rfl
  rw [hsplit]
  rcases hx with rfl | rfl
  · constructor
    · rw [obs_dequeued_append, obs_dequeued_append, h1]
      rfl
    · rw [obs_published_append, obs_published_append, obs_enqueued_append, obs_enqueued_append,
        obs_dropped_append, obs_dropped_append]
      simp only [obs_published, obs_enqueued, obs_dropped, List.length_cons, List.length_append,
        List.length_nil]
      omega
  · constructor
    · rw [obs_dequeued_append, obs_dequeued_append, h1]
      rfl
    · rw [obs_published_append, obs_published_append, obs_enqueued_append, obs_enqueued_append,
        obs_dropped_append, obs_dropped_append]
      simp only [obs_published, obs_enqueued, obs_dropped, List.length_cons, List.length_append,
        List.length_nil]
      omega

theorem publish_body_spec (pub : PublishFn) (hp : PubSpec pub) : PubSpec (publish_body pub) := by
  intro b e r hwf hi h
  unfold publish_body at h
  rw [if_neg hi] at h
  have e1 := publish_enter_eff b e hwf
  obtain ⟨hev, -⟩ := publish_enter_wf b e hwf
  cases hd : dispatch_to_subscribers pub (publish_enter b e).2 (publish_enter b e).1 TRUE with
  | none => simp [hd] at h
  | some x =>
    obtain ⟨n, b4, o⟩ := x
    simp only [hd, Option.some.injEq] at h
    subst h
    obtain ⟨e2, c2⟩ := dispatch_spec pub hp _ _ _ b4 n o e1.wf (by rw [e1.init]; exact hi) hd
    obtain ⟨e3, x1, x2⟩ := publish_exit_eff b4 (publish_enter b e).1 n e2.wf hev
    refine ⟨rfl, ?_, ?_⟩
    · have := (e1.trans e2).trans e3
      simpa using this
    · apply closed_publish _ _ _ _ c2
      have hle := queueWF_length_le _ _ e2.wf.1
      by_cases hlen : (pending_events b4).length < DOMAIN_EVENT_QUEUE_SIZE
      · exact Or.inl (x1 hlen)
      · exact Or.inr (x2 (by omega))

theorem publish_spec (fuel : Nat) : PubSpec (aegis_domain_event_publish fuel) := by
  induction fuel with
  | zero =>
    intro b e r _ _ h
    simp [aegis_domain_event_publish] at h
  | succ fuel ih => exact publish_body_spec _ ih

/-! ## Termination of publish and the calls a dispatch makes itself -/

theorem busWF_depth (b : AegisDomainEventBus) (d : Nat) (h : BusWF b) :
    BusWF { b with recursion_depth := d } := by
  have g := h
  obtain ⟨-, -, -, g0, -, g1, g2, g3, g4, g5⟩ := g
  exact busWF_congr b _ h rfl rfl rfl g0 rfl g1 g2 g3 g4 g5

theorem run_handler_total (pub : PublishFn) (hp : PubSpec pub) (d : Nat)
    (ht : PubTotalAt pub d) (es : List AegisDomainEvent) :
    ∀ b, BusWF b → b.is_initialized ≠ 0 → b.recursion_depth = d →
      (run_handler pub b es).isSome = true := by
  induction es with
  | nil =>
    intro b _ _ _
    rfl
  | cons e es ih =>
    intro b hwf hi hd
    have h1 := ht b e hwf hi hd
    cases hpub : pub b e with
    | none => rw [hpub] at h1; cases h1
    | some r =>
      obtain ⟨c, b1, o1⟩ := r
      obtain ⟨-, e1, -⟩ := hp b e _ hwf hi hpub
      have h2 := ih b1 e1.wf (by rw [e1.init]; exact hi) (by rw [e1.depth]; exact hd)
      cases hrest : run_handler pub b1 es with
      | none => rw [hrest] at h2; cases h2
      | some r2 => simp [run_handler, hpub, hrest]

theorem invoke_total (pub : PublishFn) (hp : PubSpec pub) (b : AegisDomainEventBus)
    (i p : Nat) (sub : AegisEventSubscription) (e : AegisDomainEvent) (hwf : BusWF b)
    (hi : b.is_initialized ≠ 0)
    (ht : b.recursion_depth < MAX_EVENT_RECURSION_DEPTH → PubTotalAt pub (b.recursion_depth + 1)) :
    (invoke_handler_with_recursion pub b i p sub e).isSome = true := by
  unfold invoke_handler_with_recursion
  cases hh : sub.handler with
  | none => rfl
  | some handler =>
    simp only
    by_cases hd : b.recursion_depth ≥ MAX_EVENT_RECURSION_DEPTH
    · rw [if_pos hd]
      rfl
    · rw [if_neg hd]
      have hd3 : b.recursion_depth < 3 := by
        rw [max_depth_eq] at hd
        omega
      have h1 := run_handler_total pub hp _ (ht (by rw [max_depth_eq]; exact hd3))
        (handler e sub.ctx).publishes { b with recursion_depth := (b.recursion_depth + 1) % 256 }
        (busWF_depth b _ hwf) hi (by simp only; omega)
      cases hrun : run_handler pub { b with recursion_depth := (b.recursion_depth + 1) % 256 }
          (handler e sub.ctx).publishes with
      | none => rw [hrun] at h1; cases h1
      | some r2 => rfl

theorem dispatch_loop_total (pub : PublishFn) (hp : PubSpec pub) (e : AegisDomainEvent)
    (p d : Nat) (ht : d < MAX_EVENT_RECURSION_DEPTH → PubTotalAt pub (d + 1)) (idxs : List Nat) :
    ∀ b n, BusWF b → b.is_initialized ≠ 0 → b.recursion_depth = d →
      (dispatch_loop pub e p idxs b n).isSome = true := by
  induction idxs with
  | nil =>
    intro b n _ _ _
    rfl
  | cons i rest ih =>
    intro b n hwf hi hd
    simp only [dispatch_loop]
    cases hsub : (b.subscriptions.getD [])[i]? with
    | none => exact ih b n hwf hi hd
    | some sub =>
      simp only
      by_cases h1 : sub.is_sync ≠ p
      · rw [if_pos h1]
        exact ih b n hwf hi hd
      · rw [if_neg h1]
        by_cases h2 : sub.event_type ≠ 0 ∧ sub.event_type ≠ e.type
        · rw [if_pos h2]
          exact ih b n hwf hi hd
        · rw [if_neg h2]
          have h3 := invoke_total pub hp b i p sub e hwf hi (by rw [hd]; exact ht)
          cases hinv : invoke_handler_with_recursion pub b i p sub e with
          | none => rw [hinv] at h3; cases h3
          | some r =>
            obtain ⟨res, b1, o1⟩ := r
            simp only
            obtain ⟨e1, -⟩ := invoke_spec pub hp b b1 i p sub e res o1 hwf hi hinv
            have e2 : Eff b1
                (if res = AegisEventHandlerResult.EVENT_HANDLER_ERROR then
                  bus_trace_log b1 TRACE_EVENT_APP_ERROR "REQ-EVENT-009" e.type i
                else b1) [] := by
              split
              · exact Eff.trace_log b1 [] _ _ _ _ e1.wf rfl rfl rfl rfl (by simp) (by simp)
              · exact Eff.refl b1 e1.wf
            have h4 := ih _ (if res = AegisEventHandlerResult.EVENT_HANDLER_OK then (n + 1) % 256
              else n) e2.wf (by rw [e2.init, e1.init]; exact hi)
              (by rw [e2.depth, e1.depth]; exact hd)
            cases hrest : dispatch_loop pub e p rest
                (if res = AegisEventHandlerResult.EVENT_HANDLER_ERROR then
                  bus_trace_log b1 TRACE_EVENT_APP_ERROR "REQ-EVENT-009" e.type i
                else b1)
                (if res = AegisEventHandlerResult.EVENT_HANDLER_OK then (n + 1) % 256 else n) with
            | none => rw [hrest] at h4; cases h4
            | some r3 => rfl

theorem publish_body_total (pub : PublishFn) (hp : PubSpec pub) (b : AegisDomainEventBus)
    (e : AegisDomainEvent) (hwf : BusWF b)
    (ht : b.recursion_depth < MAX_EVENT_RECURSION_DEPTH → PubTotalAt pub (b.recursion_depth + 1)) :
    (publish_body pub b e).isSome = true := by
  unfold publish_body
  by_cases hi : b.is_initialized = 0
  · rw [if_pos hi]
    rfl
  · rw [if_neg hi]
    have e1 := publish_enter_eff b e hwf
    have h1 := dispatch_loop_total pub hp (publish_enter b e).1 TRUE b.recursion_depth ht
      (List.range (publish_enter b e).2.subscription_count) (publish_enter b e).2 0 e1.wf
      (by rw [e1.init]; exact hi) e1.depth
    cases hd : dispatch_to_subscribers pub (publish_enter b e).2 (publish_enter b e).1 TRUE with
    | none =>
      unfold dispatch_to_subscribers at hd
      rw [hd] at h1
      cases h1
    | some x => rfl

/-- Publish always returns: on a well-formed bus, fuel for as many nested
publish levels as the recursion guard still admits is enough. -/
theorem publish_total (fuel : Nat) :
    ∀ b e, BusWF b → 1 ≤ fuel → MAX_EVENT_RECURSION_DEPTH + 1 ≤ fuel + b.recursion_depth →
      (aegis_domain_event_publish fuel b e).isSome = true := by
  induction fuel with
  | zero =>
    intro b e _ h
    omega
  | succ fuel ih =>
    intro b e hwf _ hf
    apply publish_body_total _ (publish_spec fuel) b e hwf
    intro hd b1 e1 hwf1 _ hd1
    rw [max_depth_eq] at hd hf
    exact ih b1 e1 hwf1 (by omega) (by rw [hd1, max_depth_eq]; omega)
theorem calls_at_deeper (d : Nat) (o : List BusObs) (h : ∀ x ∈ o, ObsDepthOK (d + 1) x) :
    calls_at d o = [] := by
  induction o with
  | nil => rfl
  | cons x o ih =>
    have hx := h x (List.mem_cons_self _ _)
    have ho := ih (fun y hy => h y (List.mem_cons_of_mem _ hy))
    unfold calls_at at ho ⊢
    cases x with
    | call i p e d' r =>
      simp only [ObsDepthOK] at hx
      simp only [obs_calls, List.filterMap_cons]
      rw [if_neg (by omega)]
      exact ho
    | published _ _ => exact ho
    | refused _ _ _ _ => exact ho
    | enqueued _ => exact ho
    | dropped _ => exact ho
    | dequeued _ => exact ho

theorem sub_matches_iff (p : Nat) (e : AegisDomainEvent) (sub : AegisEventSubscription) :
    sub_matches p e sub = true ↔
      ¬ sub.is_sync ≠ p ∧ ¬ (sub.event_type ≠ 0 ∧ sub.event_type ≠ e.type) := by
  unfold sub_matches
  simp only [Bool.and_eq_true, Bool.or_eq_true, decide_eq_true_eq]
  constructor
  · rintro ⟨h1, h2⟩
    refine ⟨fun h => h h1, ?_⟩
    rintro ⟨h3, h4⟩
    rcases h2 with h2 | h2
    · exact h3 h2
    · exact h4 h2
  · rintro ⟨h1, h2⟩
    refine ⟨not_not.mp h1, ?_⟩
    by_cases h3 : sub.event_type = 0
    · exact Or.inl h3
    · by_cases h4 : sub.event_type = e.type
      · exact Or.inr h4
      · exact absurd ⟨h3, h4⟩ h2

theorem eligible_eq (tbl : List AegisEventSubscription) (n p : Nat) (e : AegisDomainEvent) :
    eligible tbl n p e = (List.range n).filter (eligible_at tbl p e) := rfl

theorem invoke_calls (pub : PublishFn) (hp : PubSpec pub) (b b' : AegisDomainEventBus)
    (i p : Nat) (sub : AegisEventSubscription) (e : AegisDomainEvent)
    (r : AegisEventHandlerResult) (o : List BusObs) (hwf : BusWF b)
    (hi : b.is_initialized ≠ 0) (hd : b.recursion_depth < MAX_EVENT_RECURSION_DEPTH)
    (h : invoke_handler_with_recursion pub b i p sub e = some (r, b', o)) :
    calls_at b.recursion_depth o = if sub.handler.isSome then [(i, e)] else [] := by
  unfold invoke_handler_with_recursion at h
  cases hh : sub.handler with
  | none =>
    simp only [hh, Option.some.injEq, Prod.mk.injEq] at h
    obtain ⟨-, -, rfl⟩ := h
    rfl
  | some handler =>
    simp only [hh] at h
    rw [if_neg (by omega)] at h
    cases hrun : run_handler pub { b with recursion_depth := (b.recursion_depth + 1) % 256 }
        (handler e sub.ctx).publishes with
    | none => simp [hrun] at h
    | some r2 =>
      obtain ⟨b2, o2⟩ := r2
      simp only [hrun, Option.some.injEq, Prod.mk.injEq] at h
      obtain ⟨-, -, rfl⟩ := h
      obtain ⟨e2, -⟩ := run_handler_spec pub hp _ _ b2 o2
        (busWF_depth b ((b.recursion_depth + 1) % 256) hwf) hi hrun
      have hdeep : calls_at b.recursion_depth o2 = [] := by
        apply calls_at_deeper
        intro x hx
        have := e2.depths x hx
        rw [max_depth_eq] at hd
        have hd1 : (b.recursion_depth + 1) % 256 = b.recursion_depth + 1 := by omega
        simp only [hd1] at this
        exact this
      have hsplit : BusObs.call i p e b.recursion_depth (handler e sub.ctx).result :: o2 =
          [BusObs.call i p e b.recursion_depth (handler e sub.ctx).result] ++ o2 := rfl
      rw [hsplit, calls_at_append, hdeep]
      simp [calls_at, obs_calls]

theorem dispatch_loop_calls (pub : PublishFn) (hp : PubSpec pub) (e : AegisDomainEvent)
    (p d : Nat) (tbl : List AegisEventSubscription) (hd : d < MAX_EVENT_RECURSION_DEPTH)
    (idxs : List Nat) :
    ∀ b n n' b' o, BusWF b → b.is_initialized ≠ 0 → b.recursion_depth = d →
      b.subscriptions.getD [] = tbl → dispatch_loop pub e p idxs b n = some (n', b', o) →
      calls_at d o = (idxs.filter (eligible_at tbl p e)).map fun i => (i, e) := by
  induction idxs with
  | nil =>
    intro b n n' b' o _ _ _ _ h
    simp only [dispatch_loop, Option.some.injEq, Prod.mk.injEq] at h
    obtain ⟨-, -, rfl⟩ := h
    rfl
  | cons i rest ih =>
    intro b n n' b' o hwf hi hdb htbl h
    simp only [dispatch_loop] at h
    rw [htbl] at h
    cases hsub : tbl[i]? with
    | none =>
      simp only [hsub] at h
      rw [List.filter_cons_of_neg (by simp [eligible_at, hsub])]
      exact ih b n n' b' o hwf hi hdb htbl h
    | some sub =>
      simp only [hsub] at h
      by_cases h1 : sub.is_sync ≠ p
      · rw [if_pos h1] at h
        have hm : sub_matches p e sub = false := by
          rw [Bool.eq_false_iff]
          intro hc
          exact ((sub_matches_iff p e sub).mp hc).1 h1
        rw [List.filter_cons_of_neg (by simp [eligible_at, hsub, hm])]
        exact ih b n n' b' o hwf hi hdb htbl h
      · rw [if_neg h1] at h
        by_cases h2 : sub.event_type ≠ 0 ∧ sub.event_type ≠ e.type
        · rw [if_pos h2] at h
          have hm : sub_matches p e sub = false := by
            rw [Bool.eq_false_iff]
            intro hc
            exact ((sub_matches_iff p e sub).mp hc).2 h2
          rw [List.filter_cons_of_neg (by simp [eligible_at, hsub, hm])]
          exact ih b n n' b' o hwf hi hdb htbl h
        · rw [if_neg h2] at h
          have hm : sub_matches p e sub = true := (sub_matches_iff p e sub).mpr ⟨h1, h2⟩
          cases hinv : invoke_handler_with_recursion pub b i p sub e with
          | none => simp [hinv] at h
          | some r =>
            obtain ⟨res, b1, o1⟩ := r
            simp only [hinv] at h
            obtain ⟨e1, -⟩ := invoke_spec pub hp b b1 i p sub e res o1 hwf hi hinv
            have hc1 := invoke_calls pub hp b b1 i p sub e res o1 hwf hi (by rw [hdb]; exact hd) hinv
            rw [hdb] at hc1
            have e2 : Eff b1
                (if res = AegisEventHandlerResult.EVENT_HANDLER_ERROR then
                  bus_trace_log b1 TRACE_EVENT_APP_ERROR "REQ-EVENT-009" e.type i
                else b1) [] := by
              split
              · exact Eff.trace_log b1 [] _ _ _ _ e1.wf rfl rfl rfl rfl (by simp) (by simp)
              · exact Eff.refl b1 e1.wf
            cases hrest : dispatch_loop pub e p rest
                (if res = AegisEventHandlerResult.EVENT_HANDLER_ERROR then
                  bus_trace_log b1 TRACE_EVENT_APP_ERROR "REQ-EVENT-009" e.type i
                else b1)
                (if res = AegisEventHandlerResult.EVENT_HANDLER_OK then (n + 1) % 256 else n) with
            | none => simp [hrest] at h
            | some r3 =>
              obtain ⟨n3, b3, o3⟩ := r3
              simp only [hrest, Option.some.injEq, Prod.mk.injEq] at h
              obtain ⟨-, -, rfl⟩ := h
              have hc3 := ih _ _ n3 b3 o3 e2.wf (by rw [e2.init, e1.init]; exact hi)
                (by rw [e2.depth, e1.depth]; exact hdb)
                (by rw [e2.subs, e1.subs]; exact htbl) hrest
              rw [calls_at_append, hc1, hc3]
              cases hh : sub.handler with
              | none =>
                rw [List.filter_cons_of_neg (by simp [eligible_at, hsub, hm, hh])]
                simp
              | some hdl =>
                rw [List.filter_cons_of_pos (by simp [eligible_at, hsub, hm, hh])]
                simp

theorem publish_calls (fuel : Nat) (b b' : AegisDomainEventBus) (e : AegisDomainEvent)
    (c : AegisErrorCode) (o : List BusObs) (tbl : List AegisEventSubscription) (hwf : BusWF b)
    (hi : b.is_initialized ≠ 0) (hd : b.recursion_depth < MAX_EVENT_RECURSION_DEPTH)
    (htbl : b.subscriptions.getD [] = tbl)
    (h : aegis_domain_event_publish fuel b e = some (c, b', o)) :
    calls_at b.recursion_depth o =
      (eligible tbl b.subscription_count TRUE (publish_enter b e).1).map fun i =>
        (i, (publish_enter b e).1) := by
  cases fuel with
  | zero => simp [aegis_domain_event_publish] at h
  | succ fuel =>
    simp only [aegis_domain_event_publish, publish_body] at h
    rw [if_neg hi] at h
    have e1 := publish_enter_eff b e hwf
    cases hdis : dispatch_to_subscribers (aegis_domain_event_publish fuel) (publish_enter b e).2
        (publish_enter b e).1 TRUE with
    | none => simp [hdis] at h
    | some x =>
      obtain ⟨n, b4, o4⟩ := x
      simp only [hdis, Option.some.injEq, Prod.mk.injEq] at h
      obtain ⟨-, -, rfl⟩ := h
      have hc := dispatch_loop_calls _ (publish_spec fuel) (publish_enter b e).1 TRUE
        b.recursion_depth tbl hd _ _ 0 n b4 o4 e1.wf (by rw [e1.init]; exact hi) e1.depth
        (by rw [e1.subs]; exact htbl) hdis
      rw [e1.cnt] at hc
      have hsplit : BusObs.published e (publish_enter b e).1 :: o4 ++
          (publish_exit b4 (publish_enter b e).1 n).2 =
          [BusObs.published e (publish_enter b e).1] ++ o4 ++
            (publish_exit b4 (publish_enter b e).1 n).2 := rfl
      have hx : calls_at b.recursion_depth (publish_exit b4 (publish_enter b e).1 n).2 = [] := by
        unfold publish_exit
        simp only
        split <;> rfl
      rw [hsplit, calls_at_append, calls_at_append, hc, hx, eligible_eq]
      simp [calls_at, obs_calls]

/-! ## Dispatch, publish and process when the handlers called do not publish -/

theorem depth_restore (d : Nat) (h : d < MAX_EVENT_RECURSION_DEPTH) :
    ((d + 1) % 256 + 255) % 256 = d := by
  rw [max_depth_eq] at h
  omega

theorem invoke_quiet (pub : PublishFn) (b : AegisDomainEventBus) (i p : Nat)
    (sub : AegisEventSubscription) (e : AegisDomainEvent) (h : DomainEventHandler)
    (hh : sub.handler = some h) (hq : (h e sub.ctx).publishes = [])
    (hd : b.recursion_depth < MAX_EVENT_RECURSION_DEPTH) :
    invoke_handler_with_recursion pub b i p sub e =
      some ((h e sub.ctx).result, b, [BusObs.call i p e b.recursion_depth (h e sub.ctx).result]) := by
  unfold invoke_handler_with_recursion
  simp only [hh]
  rw [if_neg (by omega), hq]
  simp only [run_handler, depth_restore _ hd]

theorem invoke_null (pub : PublishFn) (b : AegisDomainEventBus) (i p : Nat)
    (sub : AegisEventSubscription) (e : AegisDomainEvent) (hh : sub.handler = none) :
    invoke_handler_with_recursion pub b i p sub e =
      some (AegisEventHandlerResult.EVENT_HANDLER_ERROR, b, []) := by
  unfold invoke_handler_with_recursion
  simp only [hh]

theorem trace_log_isSome (t : Option AegisTraceLog) (ty : Nat) (id : String) (p1 p2 : Nat) :
    (aegis_trace_log_event t ty id p1 p2).isSome = t.isSome := by
  cases t with
  | none => rfl
  | some log =>
    unfold aegis_trace_log_event
    simp only
    split
    · rfl
    · split <;> rfl

theorem dispatch_loop_quiet (pub : PublishFn) (e : AegisDomainEvent) (p : Nat)
    (tbl : List AegisEventSubscription) (hq : QuietFor tbl p e) (idxs : List Nat) :
    ∀ b n, b.subscriptions.getD [] = tbl → b.recursion_depth < MAX_EVENT_RECURSION_DEPTH →
      n < 256 →
      ∃ t', dispatch_loop pub e p idxs b n =
          some ((n + obs_handled p (dispatch_obs tbl idxs p e b.recursion_depth)) % 256,
            set_trace b t', dispatch_obs tbl idxs p e b.recursion_depth) ∧
        (TraceWF b.trace → TraceWF t') ∧ t'.isSome = b.trace.isSome := by
  induction idxs with
  | nil =>
    intro b n _ _ hn
    refine ⟨b.trace, ?_, fun h => h, rfl⟩
    simp only [dispatch_loop, dispatch_obs, List.filterMap_nil, obs_handled, Nat.add_zero,
      Nat.mod_eq_of_lt hn]
    rfl
  | cons i rest ih =>
    intro b n htbl hd hn
    simp only [dispatch_loop]
    rw [htbl]
    cases hsub : tbl[i]? with
    | none =>
      have hobs : dispatch_obs tbl (i :: rest) p e b.recursion_depth =
          dispatch_obs tbl rest p e b.recursion_depth := by
        simp [dispatch_obs, hsub]
      rw [hobs]
      exact ih b n htbl hd hn
    | some sub =>
      simp only
      by_cases hm : sub_matches p e sub = true
      · obtain ⟨h1, h2⟩ := (sub_matches_iff p e sub).mp hm
        rw [if_neg h1, if_neg h2]
        cases hh : sub.handler with
        | none =>
          have hobs : dispatch_obs tbl (i :: rest) p e b.recursion_depth =
              dispatch_obs tbl rest p e b.recursion_depth := by
            simp [dispatch_obs, hsub, hm, hh]
          rw [hobs, invoke_null pub b i p sub e hh]
          simp only
          rw [if_pos trivial, if_neg (show ¬ AegisEventHandlerResult.EVENT_HANDLER_ERROR =
              AegisEventHandlerResult.EVENT_HANDLER_OK by decide)]
          obtain ⟨t', h3, h4, h5⟩ := ih
            (bus_trace_log b TRACE_EVENT_APP_ERROR "REQ-EVENT-009" e.type i) n htbl hd hn
          have ht := fun hw => traceWF_log_event b.trace TRACE_EVENT_APP_ERROR "REQ-EVENT-009"
            e.type i hw
          refine ⟨t', ?_, fun hw => h4 (ht hw).1, ?_⟩
          · rw [h3]
            rfl
          · rw [h5]
            exact trace_log_isSome _ _ _ _ _
        | some h =>
          have hmem : sub ∈ tbl := List.getElem?_mem hsub
          have hnp := hq sub hmem hm h hh
          have hobs : dispatch_obs tbl (i :: rest) p e b.recursion_depth =
              BusObs.call i p e b.recursion_depth (h e sub.ctx).result ::
                dispatch_obs tbl rest p e b.recursion_depth := by
            simp [dispatch_obs, hsub, hm, hh]
          rw [hobs, invoke_quiet pub b i p sub e h hh hnp hd]
          simp only
          have ht := fun hw => traceWF_log_event b.trace TRACE_EVENT_APP_ERROR "REQ-EVENT-009"
            e.type i hw
          cases hres : (h e sub.ctx).result with
          | EVENT_HANDLER_OK =>
            rw [if_pos (rfl : AegisEventHandlerResult.EVENT_HANDLER_OK = _),
              if_neg (show ¬ AegisEventHandlerResult.EVENT_HANDLER_OK =
                AegisEventHandlerResult.EVENT_HANDLER_ERROR by decide)]
            obtain ⟨t', h3, h4, h5⟩ := ih b ((n + 1) % 256) htbl hd (Nat.mod_lt _ (by norm_num))
            refine ⟨t', ?_, h4, h5⟩
            rw [h3]
            simp only [obs_handled, and_self, if_true, List.singleton_append, Option.some.injEq,
              Prod.mk.injEq, and_true]
            omega
          | EVENT_HANDLER_ERROR =>
            rw [if_neg (show ¬ AegisEventHandlerResult.EVENT_HANDLER_ERROR =
                AegisEventHandlerResult.EVENT_HANDLER_OK by decide),
              if_pos (rfl : AegisEventHandlerResult.EVENT_HANDLER_ERROR = _)]
            obtain ⟨t', h3, h4, h5⟩ := ih
              (bus_trace_log b TRACE_EVENT_APP_ERROR "REQ-EVENT-009" e.type i) n htbl hd hn
            refine ⟨t', ?_, fun hw => h4 (ht hw).1, ?_⟩
            · rw [h3]
              simp only [obs_handled, List.singleton_append, Option.some.injEq, Prod.mk.injEq]
              refine ⟨?_, rfl, rfl⟩
              simp [bus_trace_log]
            · rw [h5]
              exact trace_log_isSome _ _ _ _ _
          | EVENT_HANDLER_RETRY =>
            rw [if_neg (show ¬ AegisEventHandlerResult.EVENT_HANDLER_RETRY =
                AegisEventHandlerResult.EVENT_HANDLER_OK by decide),
              if_neg (show ¬ AegisEventHandlerResult.EVENT_HANDLER_RETRY =
                AegisEventHandlerResult.EVENT_HANDLER_ERROR by decide)]
            obtain ⟨t', h3, h4, h5⟩ := ih b n htbl hd hn
            refine ⟨t', ?_, h4, h5⟩
            rw [h3]
            simp [obs_handled]
      · have hobs : dispatch_obs tbl (i :: rest) p e b.recursion_depth =
            dispatch_obs tbl rest p e b.recursion_depth := by
          simp [dispatch_obs, hsub, hm]
        rw [hobs]
        by_cases h1 : sub.is_sync ≠ p
        · rw [if_pos h1]
          exact ih b n htbl hd hn
        · rw [if_neg h1]
          have h2 : sub.event_type ≠ 0 ∧ sub.event_type ≠ e.type := by
            by_contra hc
            exact hm ((sub_matches_iff p e sub).mpr ⟨h1, hc⟩)
          rw [if_pos h2]
          exact ih b n htbl hd hn
theorem obs_handled_le_length (p : Nat) (o : List BusObs) : obs_handled p o ≤ o.length := by
  induction o with
  | nil => simp [obs_handled]
  | cons x o ih =>
    cases x <;> simp only [obs_handled, List.length_cons] <;> (try split) <;> omega

theorem dispatch_obs_handled_le (tbl : List AegisEventSubscription) (idxs : List Nat)
    (p : Nat) (e : AegisDomainEvent) (d : Nat) :
    obs_handled p (dispatch_obs tbl idxs p e d) ≤ idxs.length :=
  Nat.le_trans (obs_handled_le_length _ _) (List.length_filterMap_le _ _)

theorem publish_quiet_aux (fuel : Nat) (b bus3 : AegisDomainEventBus) (e ec : AegisDomainEvent)
    (tbl : List AegisEventSubscription) (hpe : publish_enter b e = (ec, bus3)) (hwf : BusWF b)
    (hi : b.is_initialized ≠ 0)
    (hd : b.recursion_depth < MAX_EVENT_RECURSION_DEPTH) (htbl : b.subscriptions.getD [] = tbl)
    (hq : QuietFor tbl TRUE ec) :
    ∃ t', aegis_domain_event_publish (fuel + 1) b e =
        some (ERR_OK,
          (publish_exit (set_trace bus3 t') ec
            (obs_handled TRUE
              (dispatch_obs tbl (List.range b.subscription_count) TRUE ec b.recursion_depth))).1,
          BusObs.published e ec ::
            dispatch_obs tbl (List.range b.subscription_count) TRUE ec b.recursion_depth ++
            [if (pending_events b).length < DOMAIN_EVENT_QUEUE_SIZE then BusObs.enqueued ec
            else BusObs.dropped ec]) := by
  have e1 : Eff b bus3 [BusObs.published e ec] := by
    have := publish_enter_eff b e hwf
    rw [hpe] at this
    exact this
  have hev : EventWF ec := by
    have := (publish_enter_wf b e hwf).1
    rw [hpe] at this
    exact this
  obtain ⟨t', h1, h2, h3⟩ := dispatch_loop_quiet (aegis_domain_event_publish fuel)
    ec TRUE tbl hq (List.range bus3.subscription_count)
    bus3 0 (by rw [e1.subs]; exact htbl) (by rw [e1.depth]; exact hd)
    (by norm_num)
  rw [e1.depth, e1.cnt] at h1
  have hk := dispatch_obs_handled_le tbl (List.range b.subscription_count) TRUE
    ec b.recursion_depth
  rw [List.length_range] at hk
  have hcnt : b.subscription_count ≤ 16 := hwf.2.2.2.2.1
  rw [Nat.zero_add, Nat.mod_eq_of_lt (by omega)] at h1
  have hwf4 : BusWF (set_trace bus3 t') := by
    have g := e1.wf
    obtain ⟨-, -, -, g0, -, g1, g2, g3, g4, g5⟩ := g
    exact busWF_congr bus3 (set_trace bus3 t') e1.wf rfl rfl rfl (h2 g0) rfl g1 g2 g3 g4 g5
  have hp4 : pending_events (set_trace bus3 t') = pending_events b := by
    have := e1.queue
    simp only [obs_dequeued, obs_enqueued, List.nil_append, List.append_nil] at this
    rw [← this]
    rfl
  obtain ⟨-, x1, x2⟩ := publish_exit_eff (set_trace bus3 t') ec
    (obs_handled TRUE (dispatch_obs tbl (List.range b.subscription_count) TRUE
      ec b.recursion_depth)) hwf4 hev
  rw [hp4] at x1 x2
  have hle := queueWF_length_le _ _ hwf.1
  refine ⟨t', ?_⟩
  simp only [aegis_domain_event_publish, publish_body]
  rw [if_neg hi]
  unfold dispatch_to_subscribers
  rw [hpe]
  simp only
  rw [e1.cnt, h1]
  simp only
  by_cases hlen : (pending_events b).length < DOMAIN_EVENT_QUEUE_SIZE
  · rw [x1 hlen, if_pos hlen]
  · rw [x2 (by omega), if_neg hlen]
theorem process_count_step (max processed len : Nat) (hc : processed < max ∨ max = 0) :
    process_count max processed (len + 1) = process_count max (processed + 1) len + 1 := by
  unfold process_count
  split
  · rfl
  · omega

theorem process_count_zero (max processed : Nat) : process_count max processed 0 = 0 := by
  unfold process_count
  split <;> simp

theorem process_count_stop (max processed len : Nat) (hc : ¬ (processed < max ∨ max = 0)) :
    process_count max processed len = 0 := by
  unfold process_count
  rw [if_neg (by omega)]
  omega

theorem process_loop_quiet (pub : PublishFn) (tbl : List AegisEventSubscription) (max : Nat) :
    ∀ fuel evs b ev processed, BusWF b → b.recursion_depth = 0 →
      b.subscriptions.getD [] = tbl → pending_events b = evs →
      (∀ e ∈ evs, QuietFor tbl FALSE e) →
      process_count max processed evs.length + 1 ≤ fuel →
      processed + process_count max processed evs.length < 256 →
      ∃ b' , process_loop pub max fuel b ev processed =
          some (processed + process_count max processed evs.length, b',
            process_obs tbl b.subscription_count
              (evs.take (process_count max processed evs.length))) ∧
        BusWF b' ∧
        pending_events b' = evs.drop (process_count max processed evs.length) ∧
        b'.total_processed =
          (b.total_processed + process_count max processed evs.length) % 4294967296 ∧
        b'.async_handled =
          (b.async_handled + obs_handled FALSE
            (process_obs tbl b.subscription_count
              (evs.take (process_count max processed evs.length)))) % 4294967296 ∧
        b'.subscriptions = b.subscriptions ∧
        b'.subscription_count = b.subscription_count ∧
        b'.is_initialized = b.is_initialized ∧ b'.recursion_depth = b.recursion_depth := by
  intro fuel
  induction fuel with
  | zero =>
    intro evs b ev processed _ _ _ _ _ hf _
    omega
  | succ fuel ih =>
    intro evs b ev processed hwf hd htbl hpend hq hf hp
    have g := hwf
    obtain ⟨g1, g2, g3, g4, g5, g6, g7, g8, g9, g10⟩ := g
    simp only [process_loop]
    by_cases hc : processed < max ∨ max = 0
    · rw [if_pos hc]
      cases evs with
      | nil =>
        rw [hpend] at g1
        rw [dequeue_none b ev g1]
        simp only [List.length_nil, process_count_zero, List.take_nil, List.drop_nil, process_obs,
          obs_handled, Nat.add_zero]
        rw [if_pos (by decide)]
        exact ⟨b, rfl, hwf, hpend, (Nat.mod_eq_of_lt g7).symm, (Nat.mod_eq_of_lt g10).symm, rfl,
          rfl, rfl, rfl⟩
      | cons e rest =>
        rw [hpend] at g1
        obtain ⟨q1, q2⟩ := dequeue_some b e ev rest g1
        obtain ⟨bD, hbD⟩ : ∃ bD : AegisDomainEventBus, bD =
            { b with
              async_queue := (aegis_ring_buffer_read b.async_queue (some (event_bytes ev))
                sizeof_AegisDomainEvent).2.1 } := ⟨_, rfl⟩
        rw [← hbD] at q1
        have hqD : QueueWF bD.async_queue rest := by rw [hbD]; exact q2
        have hpD : pending_events bD = rest := queueWF_pending bD rest hqD
        have hwfD : BusWF bD :=
          ⟨by rw [hpD]; exact hqD, by rw [hbD]; exact g2, by rw [hbD]; exact g3,
            by rw [hbD]; exact g4, by rw [hbD]; exact g5, by rw [hbD]; exact g6,
            by rw [hbD]; exact g7, by rw [hbD]; exact g8, by rw [hbD]; exact g9,
            by rw [hbD]; exact g10⟩
        have hdD : bD.recursion_depth = 0 := by rw [hbD]; exact hd
        have hcD : bD.subscription_count = b.subscription_count := by rw [hbD]
        obtain ⟨t', h1, h2, h3⟩ := dispatch_loop_quiet pub e FALSE tbl
          (hq e (List.mem_cons_self _ _)) (List.range bD.subscription_count) bD 0
          (by rw [hbD]; exact htbl) (by rw [hdD]; decide) (by norm_num)
        have hk := dispatch_obs_handled_le tbl (List.range b.subscription_count) FALSE e 0
        rw [List.length_range] at hk
        have hcnt : b.subscription_count ≤ 16 := g5
        rw [hdD, hcD, Nat.zero_add, Nat.mod_eq_of_lt (by omega)] at h1
        obtain ⟨b2, hb2⟩ : ∃ b2 : AegisDomainEventBus, b2 =
            { set_trace bD t' with
              async_handled := ((set_trace bD t').async_handled +
                obs_handled FALSE (dispatch_obs tbl (List.range b.subscription_count) FALSE e 0)) %
                  4294967296
              total_processed := ((set_trace bD t').total_processed + 1) % 4294967296 } :=
          ⟨_, rfl⟩
        have hwf2 : BusWF b2 := by
          rw [hb2]
          exact busWF_congr bD _ hwfD rfl rfl rfl (h2 hwfD.2.2.2.1) rfl hwfD.2.2.2.2.2.1
            (Nat.mod_lt _ (by norm_num)) hwfD.2.2.2.2.2.2.2.1 hwfD.2.2.2.2.2.2.2.2.1
            (Nat.mod_lt _ (by norm_num))
        have hp2 : pending_events b2 = rest := by
          rw [← hpD, hb2]
          rfl
        have hstep := process_count_step max processed rest.length hc
        rw [List.length_cons] at hf hp ⊢
        rw [hstep] at hf hp ⊢
        have hproc : (processed + 1) % 256 = processed + 1 := by omega
        obtain ⟨b', r1, r2, r3, r4, r5, r6, r7, r8, r9⟩ := ih rest b2 e (processed + 1) hwf2
          (by rw [hb2]; exact hdD) (by rw [hb2]; rw [hbD]; exact htbl) hp2
          (fun x hx => hq x (List.mem_cons_of_mem _ hx)) (by omega) (by omega)
        have hc2 : b2.subscription_count = b.subscription_count := by rw [hb2]; exact hcD
        rw [hc2] at r1 r5
        refine ⟨b', ?_, r2, ?_, ?_, ?_, ?_, ?_, ?_, ?_⟩
        · rw [q1]
          simp only
          rw [if_neg (by simp)]
          unfold dispatch_to_subscribers
          rw [hcD, h1]
          simp only
          rw [← hb2, hproc, r1]
          simp only [List.take_succ_cons, process_obs, Option.some.injEq, Prod.mk.injEq,
            List.cons_append, List.append_assoc, and_true]
          omega
        · rw [r3]
          rfl
        · rw [r4, hb2]
          simp only [set_trace]
          rw [hbD]
          simp only
          omega
        · rw [r5, hb2]
          simp only [set_trace, List.take_succ_cons, process_obs]
          rw [hbD]
          simp only
          have hsplit : BusObs.dequeued e ::
              dispatch_obs tbl (List.range b.subscription_count) FALSE e 0 ++
                process_obs tbl b.subscription_count
                  (rest.take (process_count max (processed + 1) rest.length)) =
              [BusObs.dequeued e] ++
                dispatch_obs tbl (List.range b.subscription_count) FALSE e 0 ++
                process_obs tbl b.subscription_count
                  (rest.take (process_count max (processed + 1) rest.length)) := rfl
          rw [hsplit, obs_handled_append, obs_handled_append]
          simp only [obs_handled]
          omega
        · rw [r6, hb2, hbD]
          rfl
        · rw [r7, hb2, hbD]
          rfl
        · rw [r8, hb2, hbD]
          rfl
        · rw [r9, hb2, hbD]
          rfl
    · rw [if_neg hc, process_count_stop max processed _ hc]
      simp only [List.take_zero, List.drop_zero, process_obs, obs_handled, Nat.add_zero]
      exact ⟨b, rfl, hwf, hpend, (Nat.mod_eq_of_lt g7).symm, (Nat.mod_eq_of_lt g10).symm, rfl,
        rfl, rfl, rfl⟩

/-! ## The bus after initialisation -/

theorem bus_init_shape (storage : AegisDomainEventBus) (trace : Option AegisTraceLog)
    (subs : Option (List AegisEventSubscription)) (count : Nat)
    (h1 : ¬ (subs.isNone ∧ count > 0)) (h2 : count ≤ MAX_EVENT_SUBSCRIPTIONS) :
    aegis_domain_event_bus_init storage trace subs count =
      (ERR_OK,
        { subscriptions := subs, subscription_count := count,
          async_queue :=
            { buffer := List.replicate (DOMAIN_EVENT_QUEUE_SIZE * sizeof_AegisDomainEvent) 0,
              size := DOMAIN_EVENT_QUEUE_SIZE * sizeof_AegisDomainEvent,
              head := 0, tail := 0, count := 0 },
          history :=
            { history := List.replicate DOMAIN_EVENT_HISTORY_SIZE zero_event, head := 0,
              count := 0 },
          next_event_id := 1, total_published := 0, total_processed := 0, sync_handled := 0,
          async_handled := 0, dropped_events := 0, recursion_depth := 0, is_initialized := TRUE,
          trace := aegis_trace_log_event trace TRACE_EVENT_SYSTEM_INIT "REQ-EVENT-001" count 0 }) := by
  unfold aegis_domain_event_bus_init
  rw [if_neg h1, if_neg (by omega)]
  have hsz : (DOMAIN_EVENT_QUEUE_SIZE * sizeof_AegisDomainEvent) % 65536 =
      DOMAIN_EVENT_QUEUE_SIZE * sizeof_AegisDomainEvent := by
    rw [queue_size_eq, sizeof_event_eq]
  have hnz : ¬ DOMAIN_EVENT_QUEUE_SIZE * sizeof_AegisDomainEvent = 0 := by
    rw [queue_size_eq, sizeof_event_eq]
    decide
  simp only [aegis_ring_buffer_init, hsz, if_neg hnz, ne_eq, not_true_eq_false, if_false]

theorem bus_init_wf (storage : AegisDomainEventBus) (trace : Option AegisTraceLog)
    (subs : Option (List AegisEventSubscription)) (count : Nat)
    (h1 : ¬ (subs.isNone ∧ count > 0)) (h2 : count ≤ MAX_EVENT_SUBSCRIPTIONS)
    (ht : TraceWF trace) :
    BusWF (aegis_domain_event_bus_init storage trace subs count).2 ∧
      pending_events (aegis_domain_event_bus_init storage trace subs count).2 = [] ∧
      hist_list (aegis_domain_event_bus_init storage trace subs count).2 = [] := by
  rw [bus_init_shape storage trace subs count h1 h2]
  simp only
  have hp : pending_events
      { subscriptions := subs, subscription_count := count,
        async_queue :=
          { buffer := List.replicate (DOMAIN_EVENT_QUEUE_SIZE * sizeof_AegisDomainEvent) 0,
            size := DOMAIN_EVENT_QUEUE_SIZE * sizeof_AegisDomainEvent,
            head := 0, tail := 0, count := 0 },
        history :=
          { history := List.replicate DOMAIN_EVENT_HISTORY_SIZE zero_event, head := 0,
            count := 0 },
        next_event_id := 1, total_published := 0, total_processed := 0, sync_handled := 0,
        async_handled := 0, dropped_events := 0, recursion_depth := 0, is_initialized := TRUE,
        trace := aegis_trace_log_event trace TRACE_EVENT_SYSTEM_INIT "REQ-EVENT-001" count 0 } =
      [] := by
    simp [pending_events, decode_events]
  refine ⟨⟨?_, ?_, by norm_num, (traceWF_log_event _ _ _ _ _ ht).1, h2, by norm_num, by norm_num,
    by norm_num, by norm_num, by norm_num⟩, hp, ?_⟩
  · rw [hp]
    refine ⟨⟨⟨?_, ?_, ?_, ?_, ?_⟩, ?_⟩, rfl, ?_, ?_⟩
    · simp only [queue_size_eq, sizeof_event_eq]
      norm_num
    · simp
    · simp
    · simp only [queue_size_eq, sizeof_event_eq]
      norm_num
    · simp only [queue_size_eq, sizeof_event_eq]
      norm_num
    · simp
    · simp [ring_contents, encode_events]
    · simp
  · refine ⟨?_, ?_, ?_⟩
    · simp
    · simp only [hist_size_eq]
      norm_num
    · simp
  · simp [hist_list]

/-! ## Effect of process and of sequences of top-level calls -/

theorem Eff.dequeued (b bD b1 : AegisDomainEventBus) (e : AegisDomainEvent)
    (rest : List AegisDomainEvent) (o : List BusObs) (k : Nat)
    (hpend : pending_events b = e :: rest) (hpD : pending_events bD = rest)
    (hbD : bD = { b with async_queue := bD.async_queue }) (hin : Eff bD b1 o) :
    Eff b
      { b1 with
        async_handled := (b1.async_handled + k) % 4294967296
        total_processed := (b1.total_processed + 1) % 4294967296 }
      (BusObs.dequeued e :: o) where
  subs := by rw [hbD] at hin; exact hin.subs
  cnt := by rw [hbD] at hin; exact hin.cnt
  init := by rw [hbD] at hin; exact hin.init
  depth := by rw [hbD] at hin; exact hin.depth
  tnull := by rw [hbD] at hin; exact hin.tnull
  wf := by
    have g := hin.wf
    obtain ⟨-, -, -, g0, -, g1, g2, g3, g4, g5⟩ := g
    exact busWF_congr b1 _ hin.wf rfl rfl rfl g0 rfl g1 (Nat.mod_lt _ (by norm_num)) g3 g4
      (Nat.mod_lt _ (by norm_num))
  queue := by
    have := hin.queue
    rw [hpD] at this
    have hp : pending_events
        { b1 with
          async_handled := (b1.async_handled + k) % 4294967296
          total_processed := (b1.total_processed + 1) % 4294967296 } = pending_events b1 := rfl
    rw [hp, hpend]
    simp only [obs_dequeued, obs_enqueued, List.cons_append]
    rw [this]
  hist := by
    have := hin.hist
    have hh : hist_list bD = hist_list b := by
      apply hist_congr
      rw [hbD]
    rw [hh] at this
    exact this
  next_id := by
    have := hin.next_id
    have hn : bD.next_event_id = b.next_event_id := by rw [hbD]
    rw [hn] at this
    exact this
  ids := by
    have := hin.ids
    have hn : bD.next_event_id = b.next_event_id := by rw [hbD]
    rw [hn] at this
    exact this
  tp := by
    have := hin.tp
    have hn : bD.total_published = b.total_published := by rw [hbD]
    rw [hn] at this
    exact this
  dr := by
    have := hin.dr
    have hn : bD.dropped_events = b.dropped_events := by rw [hbD]
    rw [hn] at this
    exact this
  pr := by
    have := hin.pr
    have hn : bD.total_processed = b.total_processed := by rw [hbD]
    rw [hn] at this
    simp only [obs_dequeued, List.length_cons]
    rw [this]
    omega
  evwf := hin.evwf
  copies := by
    intro x hx
    rcases List.mem_cons.mp hx with rfl | hx
    · trivial
    · exact hin.copies x hx
  depths := by
    intro x hx
    rcases List.mem_cons.mp hx with rfl | hx
    · trivial
    · have := hin.depths x hx
      have hn : bD.recursion_depth = b.recursion_depth := by rw [hbD]
      rw [hn] at this
      exact this

theorem process_loop_spec (pub : PublishFn) (hp : PubSpec pub) (max : Nat) :
    ∀ fuel b ev processed n b' o, BusWF b → b.is_initialized ≠ 0 →
      process_loop pub max fuel b ev processed = some (n, b', o) → Eff b b' o := by
  intro fuel
  induction fuel with
  | zero =>
    intro b ev processed n b' o _ _ h
    simp [process_loop] at h
  | succ fuel ih =>
    intro b ev processed n b' o hwf hi h
    simp only [process_loop] at h
    by_cases hc : processed < max ∨ max = 0
    · rw [if_pos hc] at h
      cases hpend : pending_events b with
      | nil =>
        have g1 := hwf.1
        rw [hpend] at g1
        rw [dequeue_none b ev g1] at h
        simp only at h
        rw [if_pos (by decide)] at h
        simp only [Option.some.injEq, Prod.mk.injEq] at h
        obtain ⟨-, rfl, rfl⟩ := h
        exact Eff.refl b hwf
      | cons e rest =>
        have g := hwf
        obtain ⟨g1, g2, g3, g4, g5, g6, g7, g8, g9, g10⟩ := g
        rw [hpend] at g1
        obtain ⟨q1, q2⟩ := dequeue_some b e ev rest g1
        obtain ⟨bD, hbD⟩ : ∃ bD : AegisDomainEventBus, bD =
            { b with
              async_queue := (aegis_ring_buffer_read b.async_queue (some (event_bytes ev))
                sizeof_AegisDomainEvent).2.1 } := ⟨_, rfl⟩
        rw [← hbD] at q1
        have hqD : QueueWF bD.async_queue rest := by rw [hbD]; exact q2
        have hpD : pending_events bD = rest := queueWF_pending bD rest hqD
        have hwfD : BusWF bD :=
          ⟨by rw [hpD]; exact hqD, by rw [hbD]; exact g2, by rw [hbD]; exact g3,
            by rw [hbD]; exact g4, by rw [hbD]; exact g5, by rw [hbD]; exact g6,
            by rw [hbD]; exact g7, by rw [hbD]; exact g8, by rw [hbD]; exact g9,
            by rw [hbD]; exact g10⟩
        have hiD : bD.is_initialized ≠ 0 := by rw [hbD]; exact hi
        have hfix : bD = { b with async_queue := bD.async_queue } := by rw [hbD]
        rw [q1] at h
        simp only at h
        rw [if_neg (by simp)] at h
        cases hdis : dispatch_to_subscribers pub bD e FALSE with
        | none => simp [hdis] at h
        | some r =>
          obtain ⟨k, b1, o1⟩ := r
          simp only [hdis] at h
          obtain ⟨e1, -⟩ := dispatch_spec pub hp e FALSE bD b1 k o1 hwfD hiD hdis
          have e2 := Eff.dequeued b bD b1 e rest o1 k hpend hpD hfix e1
          cases hrest : process_loop pub max fuel
              { b1 with
                async_handled := (b1.async_handled + k) % 4294967296
                total_processed := (b1.total_processed + 1) % 4294967296 }
              e ((processed + 1) % 256) with
          | none => simp [hrest] at h
          | some r3 =>
            obtain ⟨n3, b3, o3⟩ := r3
            simp only [hrest, Option.some.injEq, Prod.mk.injEq] at h
            obtain ⟨-, rfl, rfl⟩ := h
            have e3 := ih _ _ _ n3 b3 o3 e2.wf (by rw [e2.init]; exact hi) hrest
            exact e2.trans e3
    · rw [if_neg hc] at h
      simp only [Option.some.injEq, Prod.mk.injEq] at h
      obtain ⟨-, rfl, rfl⟩ := h
      exact Eff.refl b hwf

theorem process_spec (fuel : Nat) (b b' : AegisDomainEventBus) (max n : Nat) (o : List BusObs)
    (hwf : BusWF b) (h : aegis_domain_event_process fuel b max = some (n, b', o)) :
    Eff b b' o := by
  unfold aegis_domain_event_process at h
  by_cases hi : b.is_initialized = 0
  · rw [if_pos hi] at h
    simp only [Option.some.injEq, Prod.mk.injEq] at h
    obtain ⟨-, rfl, rfl⟩ := h
    exact Eff.refl b hwf
  · rw [if_neg hi] at h
    exact process_loop_spec _ (publish_spec fuel) max fuel b zero_event 0 n b' o hwf hi h

theorem bus_run_spec (fuel : Nat) (cs : List BusCall) :
    ∀ b rs b' o, BusWF b → b.is_initialized ≠ 0 → bus_run fuel b cs = some (rs, b', o) →
      Eff b b' o := by
  induction cs with
  | nil =>
    intro b rs b' o hwf _ h
    simp only [bus_run, Option.some.injEq, Prod.mk.injEq] at h
    obtain ⟨-, rfl, rfl⟩ := h
    exact Eff.refl b hwf
  | cons c cs ih =>
    intro b rs b' o hwf hi h
    cases c with
    | publish e =>
      simp only [bus_run] at h
      cases hpub : aegis_domain_event_publish fuel b e with
      | none => simp [hpub] at h
      | some r =>
        obtain ⟨c1, b1, o1⟩ := r
        obtain ⟨-, e1, -⟩ := publish_spec fuel b e _ hwf hi hpub
        cases hrest : bus_run fuel b1 cs with
        | none => simp [hpub, hrest] at h
        | some r2 =>
          obtain ⟨rs2, b2, o2⟩ := r2
          simp only [hpub, hrest, Option.some.injEq, Prod.mk.injEq] at h
          obtain ⟨-, rfl, rfl⟩ := h
          exact e1.trans (ih b1 rs2 b2 o2 e1.wf (by rw [e1.init]; exact hi) hrest)
    | process m =>
      simp only [bus_run] at h
      cases hpr : aegis_domain_event_process fuel b m with
      | none => simp [hpr] at h
      | some r =>
        obtain ⟨n1, b1, o1⟩ := r
        have e1 := process_spec fuel b b1 m n1 o1 hwf hpr
        cases hrest : bus_run fuel b1 cs with
        | none => simp [hpr, hrest] at h
        | some r2 =>
          obtain ⟨rs2, b2, o2⟩ := r2
          simp only [hpr, hrest, Option.some.injEq, Prod.mk.injEq] at h
          obtain ⟨-, rfl, rfl⟩ := h
          exact e1.trans (ih b1 rs2 b2 o2 e1.wf (by rw [e1.init]; exact hi) hrest)

/-! ## Dispatch without nested publishes, and sequences of publishes -/

theorem dispatch_obs_mem (tbl : List AegisEventSubscription) (idxs : List Nat) (p : Nat)
    (e : AegisDomainEvent) (d : Nat) (x : BusObs) (hx : x ∈ dispatch_obs tbl idxs p e d) :
    ∃ i r, x = BusObs.call i p e d r ∧ i ∈ idxs ∧ eligible_at tbl p e i = true := by
  unfold dispatch_obs at hx
  rw [List.mem_filterMap] at hx
  obtain ⟨i, hi, hx⟩ := hx
  cases hsub : tbl[i]? with
  | none => simp [hsub] at hx
  | some sub =>
    by_cases hm : sub_matches p e sub = true
    · cases hh : sub.handler with
      | none => simp [hsub, hm, hh] at hx
      | some h =>
        simp only [hsub, hm, hh, if_true, Option.some.injEq] at hx
        exact ⟨i, _, hx.symm, hi, by simp [eligible_at, hsub, hm, hh]⟩
    · simp [hsub, hm] at hx

theorem obs_of_calls (o : List BusObs) (h : ∀ x ∈ o, ∃ i p e d r, x = BusObs.call i p e d r) :
    obs_published o = [] ∧ obs_inputs o = [] ∧ obs_enqueued o = [] ∧ obs_dropped o = [] ∧
      obs_dequeued o = [] ∧ obs_refused o = [] := by
  induction o with
  | nil => exact ⟨rfl, rfl, rfl, rfl, rfl, rfl⟩
  | cons x o ih =>
    obtain ⟨i, p, e, d, r, rfl⟩ := h x (List.mem_cons_self _ _)
    exact ih fun y hy => h y (List.mem_cons_of_mem _ hy)

theorem dispatch_obs_proj (tbl : List AegisEventSubscription) (idxs : List Nat) (p : Nat)
    (e : AegisDomainEvent) (d : Nat) :
    obs_published (dispatch_obs tbl idxs p e d) = [] ∧
      obs_inputs (dispatch_obs tbl idxs p e d) = [] ∧
      obs_enqueued (dispatch_obs tbl idxs p e d) = [] ∧
      obs_dropped (dispatch_obs tbl idxs p e d) = [] ∧
      obs_dequeued (dispatch_obs tbl idxs p e d) = [] ∧
      obs_refused (dispatch_obs tbl idxs p e d) = [] :=
  obs_of_calls _ fun x hx => by
    obtain ⟨i, r, rfl, -, -⟩ := dispatch_obs_mem tbl idxs p e d x hx
    exact ⟨i, p, e, d, r, rfl⟩

theorem dispatch_obs_calls (tbl : List AegisEventSubscription) (p : Nat)
    (e : AegisDomainEvent) (d : Nat) (idxs : List Nat) :
    (obs_calls (dispatch_obs tbl idxs p e d)).map (fun c => (c.1, c.2.1, c.2.2.1)) =
      (idxs.filter (eligible_at tbl p e)).map fun i => (i, e, d) := by
  induction idxs with
  | nil => rfl
  | cons i rest ih =>
    cases hsub : tbl[i]? with
    | none =>
      have hobs : dispatch_obs tbl (i :: rest) p e d = dispatch_obs tbl rest p e d := by
        simp [dispatch_obs, hsub]
      have hel : eligible_at tbl p e i = false := by simp [eligible_at, hsub]
      rw [hobs, ih, List.filter_cons_of_neg (by simp [hel])]
    | some sub =>
      by_cases hm : sub_matches p e sub = true
      · cases hh : sub.handler with
        | none =>
          have hobs : dispatch_obs tbl (i :: rest) p e d = dispatch_obs tbl rest p e d := by
            simp [dispatch_obs, hsub, hm, hh]
          have hel : eligible_at tbl p e i = false := by simp [eligible_at, hsub, hh]
          rw [hobs, ih, List.filter_cons_of_neg (by simp [hel])]
        | some h =>
          have hobs : dispatch_obs tbl (i :: rest) p e d =
              BusObs.call i p e d (h e sub.ctx).result :: dispatch_obs tbl rest p e d := by
            simp [dispatch_obs, hsub, hm, hh]
          have hel : eligible_at tbl p e i = true := by simp [eligible_at, hsub, hm, hh]
          rw [hobs, List.filter_cons_of_pos hel]
          simp only [obs_calls, List.map_cons, ih]
      · have hobs : dispatch_obs tbl (i :: rest) p e d = dispatch_obs tbl rest p e d := by
          simp [dispatch_obs, hsub, hm]
        have hel : eligible_at tbl p e i = false := by simp [eligible_at, hsub, hm]
        rw [hobs, ih, List.filter_cons_of_neg (by simp [hel])]

theorem noPublish_quiet (tbl : List AegisEventSubscription) (h : NoPublish tbl) (p : Nat)
    (e : AegisDomainEvent) : QuietFor tbl p e :=
  fun sub hs _ hd hh => h sub hs hd hh e sub.ctx

theorem copies_paired (o : List BusObs) (h : ∀ x ∈ o, CopyOK x) :
    List.Forall₂ IsCopy (obs_inputs o) (obs_published o) := by
  induction o with
  | nil => exact List.Forall₂.nil
  | cons x o ih =>
    have ih2 := ih fun y hy => h y (List.mem_cons_of_mem _ hy)
    have hx := h x (List.mem_cons_self _ _)
    cases x with
    | published e ec => exact List.Forall₂.cons hx ih2
    | call i p e d r => exact ih2
    | refused i p e d => exact ih2
    | enqueued e => exact ih2
    | dropped e => exact ih2
    | dequeued e => exact ih2

theorem newest_first_getElem? (P : List AegisDomainEvent) (n i : Nat) :
    (P.reverse.take n)[i]? = if i < min P.length n then P[P.length - 1 - i]? else none := by
  rw [List.getElem?_take]
  by_cases h1 : i < n
  · rw [if_pos h1]
    by_cases h2 : i < P.length
    · rw [if_pos (by omega), List.getElem?_reverse h2]
    · rw [if_neg (by omega), List.getElem?_eq_none (by simp; omega)]
  · rw [if_neg h1, if_neg (by omega)]

theorem publish_exit_full (b : AegisDomainEventBus) (ec : AegisDomainEvent) (n : Nat)
    (evs : List AegisDomainEvent) (hq : QueueWF b.async_queue evs)
    (hfull : evs.length = DOMAIN_EVENT_QUEUE_SIZE) :
    (publish_exit b ec n).1.async_queue = b.async_queue := by
  have hfq := enqueue_full ({ b with sync_handled := (b.sync_handled + n) % 4294967296 })
    evs ec hq hfull
  unfold publish_exit
  simp only [hfq]
  rw [if_pos (by decide)]
  rfl

theorem publish_quiet (fuel : Nat) (b : AegisDomainEventBus) (e : AegisDomainEvent)
    (tbl : List AegisEventSubscription) (hwf : BusWF b) (hi : b.is_initialized ≠ 0)
    (hd : b.recursion_depth < MAX_EVENT_RECURSION_DEPTH) (htbl : b.subscriptions.getD [] = tbl)
    (hq : ∀ ev, QuietFor tbl TRUE ev) :
    ∃ b', aegis_domain_event_publish (fuel + 1) b e =
        some (ERR_OK, b',
          BusObs.published e (publish_enter b e).1 ::
            dispatch_obs tbl (List.range b.subscription_count) TRUE (publish_enter b e).1
              b.recursion_depth ++
            [if (pending_events b).length < DOMAIN_EVENT_QUEUE_SIZE then
              BusObs.enqueued (publish_enter b e).1
            else BusObs.dropped (publish_enter b e).1]) ∧
      ((pending_events b).length = DOMAIN_EVENT_QUEUE_SIZE → b'.async_queue = b.async_queue) := by
  obtain ⟨t2, hshape, -, -⟩ := publish_enter_shape b e
  have hq3 : (publish_enter b e).2.async_queue = b.async_queue := by rw [hshape]
  have hpe : publish_enter b e = ((publish_enter b e).1, (publish_enter b e).2) :=
    (@Prod.mk.eta _ _ (publish_enter b e)).symm
  generalize (publish_enter b e).2 = bus3 at hq3 hpe
  generalize (publish_enter b e).1 = ec at hpe
  obtain ⟨t', h⟩ := publish_quiet_aux fuel b bus3 e ec tbl hpe hwf hi hd htbl (hq _)
  refine ⟨_, h, fun hfull => ?_⟩
  rw [publish_exit_full (set_trace bus3 t') ec _ (pending_events b)
    (by show QueueWF bus3.async_queue _; rw [hq3]; exact hwf.1) hfull]
  exact hq3

theorem publish_obs_proj (e ec : AegisDomainEvent) (dobs : List BusObs) (x : BusObs)
    (h : obs_published dobs = [] ∧ obs_inputs dobs = [] ∧ obs_enqueued dobs = [] ∧
      obs_dropped dobs = [] ∧ obs_dequeued dobs = [] ∧ obs_refused dobs = []) :
    obs_published (BusObs.published e ec :: dobs ++ [x]) = ec :: obs_published [x] ∧
      obs_inputs (BusObs.published e ec :: dobs ++ [x]) = e :: obs_inputs [x] ∧
      obs_enqueued (BusObs.published e ec :: dobs ++ [x]) = obs_enqueued [x] ∧
      obs_dropped (BusObs.published e ec :: dobs ++ [x]) = obs_dropped [x] ∧
      obs_dequeued (BusObs.published e ec :: dobs ++ [x]) = obs_dequeued [x] := by
  obtain ⟨h1, h2, h3, h4, h5, -⟩ := h
  refine ⟨?_, ?_, ?_, ?_, ?_⟩
  · show obs_published ([BusObs.published e ec] ++ (dobs ++ [x])) = _
    rw [obs_published_append, obs_published_append, h1]
    rfl
  · show obs_inputs ([BusObs.published e ec] ++ (dobs ++ [x])) = _
    rw [obs_inputs_append, obs_inputs_append, h2]
    rfl
  · show obs_enqueued ([BusObs.published e ec] ++ (dobs ++ [x])) = _
    rw [obs_enqueued_append, obs_enqueued_append, h3]
    rfl
  · show obs_dropped ([BusObs.published e ec] ++ (dobs ++ [x])) = _
    rw [obs_dropped_append, obs_dropped_append, h4]
    rfl
  · show obs_dequeued ([BusObs.published e ec] ++ (dobs ++ [x])) = _
    rw [obs_dequeued_append, obs_dequeued_append, h5]
    rfl

theorem publish_run_quiet (fuel : Nat) (tbl : List AegisEventSubscription)
    (hq : ∀ ev, QuietFor tbl TRUE ev) (es : List AegisDomainEvent) :
    ∀ b, BusWF b → b.is_initialized ≠ 0 → b.recursion_depth < MAX_EVENT_RECURSION_DEPTH →
      b.subscriptions.getD [] = tbl →
      ∃ b' o, bus_run (fuel + 1) b (es.map BusCall.publish) =
          some (List.replicate es.length (BusRet.code ERR_OK), b', o) ∧
        Eff b b' o ∧ obs_inputs o = es ∧ (obs_published o).length = es.length ∧
        obs_dequeued o = [] ∧
        obs_enqueued o =
          (obs_published o).take (DOMAIN_EVENT_QUEUE_SIZE - (pending_events b).length) ∧
        obs_dropped o =
          (obs_published o).drop (DOMAIN_EVENT_QUEUE_SIZE - (pending_events b).length) := by
  induction es with
  | nil =>
    intro b hwf _ _ _
    exact ⟨b, [], rfl, Eff.refl b hwf, rfl, rfl, rfl, by simp [obs_enqueued, obs_published],
      by simp [obs_dropped, obs_published]⟩
  | cons e es ih =>
    intro b hwf hi hd htbl
    obtain ⟨b1, hpub, -⟩ := publish_quiet fuel b e tbl hwf hi hd htbl hq
    obtain ⟨-, e1, -⟩ := publish_spec (fuel + 1) b e _ hwf hi hpub
    simp only at e1
    have hproj := dispatch_obs_proj tbl (List.range b.subscription_count)
      TRUE (publish_enter b e).1 b.recursion_depth
    have hle := queueWF_length_le _ _ hwf.1
    have hQ := queue_size_eq
    rw [hQ] at hle
    obtain ⟨b2, o2, hrun, e2, i1, i2, i3, i4, i5⟩ := ih b1 e1.wf (by rw [e1.init]; exact hi)
      (by rw [e1.depth]; exact hd) (by rw [e1.subs]; exact htbl)
    by_cases hL : (pending_events b).length < DOMAIN_EVENT_QUEUE_SIZE
    · rw [if_pos hL] at hpub e1
      obtain ⟨q1, q2, q3, q4, q5⟩ := publish_obs_proj e (publish_enter b e).1 _
        (BusObs.enqueued (publish_enter b e).1) hproj
      have hq1 := e1.queue
      rw [q5, q3] at hq1
      have hq2 : pending_events b1 = pending_events b ++ [(publish_enter b e).1] := hq1
      have hlen1 : (pending_events b1).length = (pending_events b).length + 1 := by
        rw [hq2, List.length_append, List.length_singleton]
      rw [hQ] at hL
      refine ⟨b2, _, ?_, e1.trans e2, ?_, ?_, ?_, ?_, ?_⟩
      · simp only [List.map_cons, bus_run, hpub, hrun, List.length_cons, List.replicate_succ]
      · rw [obs_inputs_append, q2, i1]
        rfl
      · rw [obs_published_append, q1, List.length_append, i2]
        simp [obs_published]
        omega
      · rw [obs_dequeued_append, q5, i3]
        rfl
      · rw [obs_enqueued_append, obs_published_append, q3, q1, i4, hlen1, hQ]
        rw [show 32 - (pending_events b).length = (32 - ((pending_events b).length + 1)) + 1 by
          omega]
        rfl
      · rw [obs_dropped_append, obs_published_append, q4, q1, i5, hlen1, hQ]
        rw [show 32 - (pending_events b).length = (32 - ((pending_events b).length + 1)) + 1 by
          omega]
        rfl
    · rw [if_neg hL] at hpub e1
      obtain ⟨q1, q2, q3, q4, q5⟩ := publish_obs_proj e (publish_enter b e).1 _
        (BusObs.dropped (publish_enter b e).1) hproj
      have hq1 := e1.queue
      rw [q5, q3] at hq1
      have hq2 : pending_events b1 = pending_events b ++ [] := hq1
      have hlen1 : (pending_events b1).length = (pending_events b).length := by
        rw [hq2, List.append_nil]
      rw [hQ] at hL
      have hL2 : (pending_events b).length = 32 := by omega
      refine ⟨b2, _, ?_, e1.trans e2, ?_, ?_, ?_, ?_, ?_⟩
      · simp only [List.map_cons, bus_run, hpub, hrun, List.length_cons, List.replicate_succ]
      · rw [obs_inputs_append, q2, i1]
        rfl
      · rw [obs_published_append, q1, List.length_append, i2]
        simp [obs_published]
        omega
      · rw [obs_dequeued_append, q5, i3]
        rfl
      · rw [obs_enqueued_append, obs_published_append, q3, q1, i4, hlen1, hQ, hL2]
        rfl
      · rw [obs_dropped_append, obs_published_append, q4, q1, i5, hlen1, hQ, hL2]
        rfl

theorem publish_run_total (fuel : Nat) (hf : MAX_EVENT_RECURSION_DEPTH + 1 ≤ fuel)
    (es : List AegisDomainEvent) :
    ∀ b, BusWF b → b.is_initialized ≠ 0 →
      ∃ b' o, bus_run fuel b (es.map BusCall.publish) =
        some (List.replicate es.length (BusRet.code ERR_OK), b', o) := by
  induction es with
  | nil => exact fun b _ _ => ⟨b, [], rfl⟩
  | cons e es ih =>
    intro b hwf hi
    have ht := publish_total fuel b e hwf (by rw [max_depth_eq] at hf; omega) (by omega)
    cases hpub : aegis_domain_event_publish fuel b e with
    | none => rw [hpub] at ht; exact absurd ht (by decide)
    | some r =>
      obtain ⟨c1, b1, o1⟩ := r
      obtain ⟨hc, e1, -⟩ := publish_spec fuel b e _ hwf hi hpub
      simp only at hc e1
      obtain ⟨b2, o2, hrun⟩ := ih b1 e1.wf (by rw [e1.init]; exact hi)
      exact ⟨b2, o1 ++ o2, by
        simp only [List.map_cons, bus_run, hpub, hrun, List.length_cons, List.replicate_succ, hc]⟩

theorem bus_init_ok (storage : AegisDomainEventBus) (trace : Option AegisTraceLog)
    (subs : Option (List AegisEventSubscription)) (count : Nat)
    (h : (aegis_domain_event_bus_init storage trace subs count).1 = ERR_OK) :
    ¬ (subs.isNone ∧ count > 0) ∧ count ≤ MAX_EVENT_SUBSCRIPTIONS := by
  unfold aegis_domain_event_bus_init at h
  by_cases h1 : subs.isNone ∧ count > 0
  · rw [if_pos h1] at h
    exact absurd h (show ¬ ERR_NULL_PTR = ERR_OK by decide)
  · rw [if_neg h1] at h
    by_cases h2 : count > MAX_EVENT_SUBSCRIPTIONS
    · rw [if_pos h2] at h
      exact absurd h (show ¬ ERR_OUT_OF_RANGE = ERR_OK by decide)
    · exact ⟨h1, by omega⟩

theorem bus_init_fields (storage : AegisDomainEventBus) (trace : Option AegisTraceLog)
    (subs : Option (List AegisEventSubscription)) (count : Nat)
    (h1 : ¬ (subs.isNone ∧ count > 0)) (h2 : count ≤ MAX_EVENT_SUBSCRIPTIONS) :
    (aegis_domain_event_bus_init storage trace subs count).2.is_initialized = TRUE ∧
      (aegis_domain_event_bus_init storage trace subs count).2.recursion_depth = 0 ∧
      (aegis_domain_event_bus_init storage trace subs count).2.subscriptions = subs ∧
      (aegis_domain_event_bus_init storage trace subs count).2.subscription_count = count ∧
      (aegis_domain_event_bus_init storage trace subs count).2.next_event_id = 1 ∧
      (aegis_domain_event_bus_init storage trace subs count).2.dropped_events = 0 ∧
      (aegis_domain_event_bus_init storage trace subs count).2.total_published = 0 ∧
      (aegis_domain_event_bus_init storage trace subs count).2.total_processed = 0 := by
  rw [bus_init_shape storage trace subs count h1 h2]
  exact ⟨rfl, rfl, rfl, rfl, rfl, rfl, rfl, rfl⟩

theorem process_obs_dequeued (tbl : List AegisEventSubscription) (n : Nat)
    (evs : List AegisDomainEvent) :
    obs_dequeued (process_obs tbl n evs) = evs ∧ obs_published (process_obs tbl n evs) = [] ∧
      obs_enqueued (process_obs tbl n evs) = [] := by
  induction evs with
  | nil => exact ⟨rfl, rfl, rfl⟩
  | cons e evs ih =>
    obtain ⟨p1, -, p3, -, p5, -⟩ := dispatch_obs_proj tbl (List.range n) FALSE e 0
    obtain ⟨i1, i2, i3⟩ := ih
    refine ⟨?_, ?_, ?_⟩
    · show obs_dequeued ([BusObs.dequeued e] ++
        (dispatch_obs tbl (List.range n) FALSE e 0 ++ process_obs tbl n evs)) = _
      rw [obs_dequeued_append, obs_dequeued_append, p5, i1]
      rfl
    · show obs_published ([BusObs.dequeued e] ++
        (dispatch_obs tbl (List.range n) FALSE e 0 ++ process_obs tbl n evs)) = _
      rw [obs_published_append, obs_published_append, p1, i2]
      rfl
    · show obs_enqueued ([BusObs.dequeued e] ++
        (dispatch_obs tbl (List.range n) FALSE e 0 ++ process_obs tbl n evs)) = _
      rw [obs_enqueued_append, obs_enqueued_append, p3, i3]
      rfl

theorem publish_uninitialised (fuel : Nat) (b : AegisDomainEventBus) (e : AegisDomainEvent)
    (h : b.is_initialized = 0) :
    aegis_domain_event_publish (fuel + 1) b e = some (ERR_NOT_INITIALIZED, b, []) := by
  show publish_body _ b e = _
  unfold publish_body
  rw [if_pos h]

theorem eligible_at_iff (tbl : List AegisEventSubscription) (p : Nat) (e : AegisDomainEvent)
    (i : Nat) :
    eligible_at tbl p e i = true ↔
      ∃ sub, tbl[i]? = some sub ∧ sub.is_sync = p ∧
        (sub.event_type = 0 ∨ sub.event_type = e.type) ∧ sub.handler.isSome = true := by
  unfold eligible_at
  cases hsub : tbl[i]? with
  | none => simp
  | some sub =>
    simp only [Bool.and_eq_true, sub_matches, Bool.or_eq_true, decide_eq_true_eq,
      Option.some.injEq, exists_eq_left']
    tauto

theorem mem_eligible (tbl : List AegisEventSubscription) (n p : Nat) (e : AegisDomainEvent)
    (i : Nat) :
    i ∈ eligible tbl n p e ↔
      i < n ∧ ∃ sub, tbl[i]? = some sub ∧ sub.is_sync = p ∧
        (sub.event_type = 0 ∨ sub.event_type = e.type) ∧ sub.handler.isSome = true := by
  unfold eligible
  rw [List.mem_filter, List.mem_range, eligible_at_iff]

theorem eligible_sorted (tbl : List AegisEventSubscription) (n p : Nat) (e : AegisDomainEvent) :
    (eligible tbl n p e).Pairwise (fun i j => i < j) :=
  List.Pairwise.sublist (List.filter_sublist _) (List.pairwise_lt_range n)

theorem publish_obs_calls (e ec : AegisDomainEvent) (dobs : List BusObs) (x : BusObs)
    (hx : obs_calls [x] = []) :
    obs_calls (BusObs.published e ec :: dobs ++ [x]) = obs_calls dobs := by
  show obs_calls ([BusObs.published e ec] ++ (dobs ++ [x])) = _
  rw [obs_calls_append, obs_calls_append, hx, List.append_nil]
  rfl

theorem publish_quiet_calls (fuel : Nat) (b : AegisDomainEventBus) (e : AegisDomainEvent)
    (tbl : List AegisEventSubscription) (hwf : BusWF b) (hi : b.is_initialized ≠ 0)
    (hd : b.recursion_depth < MAX_EVENT_RECURSION_DEPTH) (htbl : b.subscriptions.getD [] = tbl)
    (hq : ∀ ev, QuietFor tbl TRUE ev) :
    ∃ b' o, aegis_domain_event_publish (fuel + 1) b e = some (ERR_OK, b', o) ∧
      (obs_calls o).map (fun c => (c.1, c.2.1, c.2.2.1)) =
        (eligible tbl b.subscription_count TRUE (publish_enter b e).1).map fun i =>
          (i, (publish_enter b e).1, b.recursion_depth) := by
  obtain ⟨b1, hpub, -⟩ := publish_quiet fuel b e tbl hwf hi hd htbl hq
  refine ⟨b1, _, hpub, ?_⟩
  rw [publish_obs_calls _ _ _ _ (by split_ifs <;> rfl)]
  exact dispatch_obs_calls tbl TRUE _ _ _

theorem publish_exit_obs (b : AegisDomainEventBus) (ec : AegisDomainEvent) (n : Nat) :
    (publish_exit b ec n).2 = [BusObs.enqueued ec] ∨
      (publish_exit b ec n).2 = [BusObs.dropped ec] := by
  unfold publish_exit
  simp only
  split
  · exact Or.inr rfl
  · exact Or.inl rfl

theorem dispatch_single (pub : PublishFn) (b : AegisDomainEventBus) (e : AegisDomainEvent)
    (p : Nat) (sub : AegisEventSubscription)
    (hsubs : b.subscriptions.getD [] = [sub]) (hcnt : b.subscription_count = 1)
    (hm : sub_matches p e sub = true) :
    dispatch_to_subscribers pub b e p =
      match invoke_handler_with_recursion pub b 0 p sub e with
      | none => none
      | some (result, bus1, o1) =>
        some (if result = AegisEventHandlerResult.EVENT_HANDLER_OK then 1 else 0,
          if result = AegisEventHandlerResult.EVENT_HANDLER_ERROR then
            bus_trace_log bus1 TRACE_EVENT_APP_ERROR "REQ-EVENT-009" e.type 0
          else bus1, o1) := by
  obtain ⟨h1, h2⟩ := (sub_matches_iff p e sub).mp hm
  unfold dispatch_to_subscribers
  rw [hcnt]
  show dispatch_loop pub e p [0] b 0 = _
  simp only [dispatch_loop, hsubs, List.getElem?_cons_zero, if_neg h1, if_neg h2]
  cases invoke_handler_with_recursion pub b 0 p sub e with
  | none => rfl
  | some r =>
    obtain ⟨result, bus1, o1⟩ := r
    simp only [List.append_nil]

theorem invoke_refused (pub : PublishFn) (b : AegisDomainEventBus) (i p : Nat)
    (sub : AegisEventSubscription) (e : AegisDomainEvent) (h : DomainEventHandler)
    (hh : sub.handler = some h) (hd : b.recursion_depth ≥ MAX_EVENT_RECURSION_DEPTH) :
    invoke_handler_with_recursion pub b i p sub e =
      some (AegisEventHandlerResult.EVENT_HANDLER_ERROR,
        bus_trace_log b TRACE_EVENT_DOMAIN_ERR "REQ-EVENT-008" e.type b.recursion_depth,
        [BusObs.refused i p e b.recursion_depth]) := by
  unfold invoke_handler_with_recursion
  simp only [hh, if_pos hd]

theorem invoke_one_publish (pub : PublishFn) (b : AegisDomainEventBus) (i p : Nat)
    (sub : AegisEventSubscription) (e e' : AegisDomainEvent) (h : DomainEventHandler)
    (hh : sub.handler = some h) (hone : (h e sub.ctx).publishes = [e'])
    (hd : b.recursion_depth < MAX_EVENT_RECURSION_DEPTH) :
    invoke_handler_with_recursion pub b i p sub e =
      match pub { b with recursion_depth := (b.recursion_depth + 1) % 256 } e' with
      | none => none
      | some (_, b2, o) =>
        some ((h e sub.ctx).result,
          { b2 with recursion_depth := (b2.recursion_depth + 255) % 256 },
          BusObs.call i p e b.recursion_depth (h e sub.ctx).result :: o) := by
  unfold invoke_handler_with_recursion
  simp only [hh, if_neg (show ¬ b.recursion_depth ≥ MAX_EVENT_RECURSION_DEPTH by omega), hone,
    run_handler]
  cases pub { b with recursion_depth := (b.recursion_depth + 1) % 256 } e' with
  | none => rfl
  | some r =>
    obtain ⟨c, b2, o⟩ := r
    simp only [List.append_nil]

/-! ## Enqueue order against publish order -/

theorem enqInOrder_nil : EnqInOrder [] := List.Sublist.refl _

theorem enqInOrder_append (o1 o2 : List BusObs) (h1 : EnqInOrder o1) (h2 : EnqInOrder o2) :
    EnqInOrder (o1 ++ o2) := by
  unfold EnqInOrder
  rw [obs_enqueued_append, obs_published_append]
  exact List.Sublist.append h1 h2

theorem publish_order_quiet (fuel : Nat) (tbl : List AegisEventSubscription)
    (hq : ∀ ev, QuietFor tbl TRUE ev) (b : AegisDomainEventBus) (e : AegisDomainEvent)
    (r : AegisErrorCode × AegisDomainEventBus × List BusObs) (hwf : BusWF b)
    (hi : b.is_initialized ≠ 0) (hd : b.recursion_depth < MAX_EVENT_RECURSION_DEPTH)
    (htbl : b.subscriptions.getD [] = tbl) (h : aegis_domain_event_publish fuel b e = some r) :
    EnqInOrder r.2.2 := by
  cases fuel with
  | zero => exact absurd h (by simp [aegis_domain_event_publish])
  | succ f =>
    obtain ⟨b1, hpub, -⟩ := publish_quiet f b e tbl hwf hi hd htbl hq
    rw [hpub] at h
    simp only [Option.some.injEq] at h
    subst h
    have hproj := dispatch_obs_proj tbl (List.range b.subscription_count) TRUE
      (publish_enter b e).1 b.recursion_depth
    unfold EnqInOrder
    by_cases hL : (pending_events b).length < DOMAIN_EVENT_QUEUE_SIZE
    · simp only [if_pos hL]
      obtain ⟨q1, -, q3, -, -⟩ := publish_obs_proj e (publish_enter b e).1 _
        (BusObs.enqueued (publish_enter b e).1) hproj
      rw [q1, q3]
      exact List.Sublist.refl _
    · simp only [if_neg hL]
      obtain ⟨q1, -, q3, -, -⟩ := publish_obs_proj e (publish_enter b e).1 _
        (BusObs.dropped (publish_enter b e).1) hproj
      rw [q1, q3]
      exact List.nil_sublist _

theorem run_handler_order (fuel : Nat) (tbl : List AegisEventSubscription)
    (hq : ∀ ev, QuietFor tbl TRUE ev) (es : List AegisDomainEvent) :
    ∀ b b' o, BusWF b → b.is_initialized ≠ 0 →
      b.recursion_depth < MAX_EVENT_RECURSION_DEPTH → b.subscriptions.getD [] = tbl →
      run_handler (aegis_domain_event_publish fuel) b es = some (b', o) → EnqInOrder o := by
  induction es with
  | nil =>
    intro b b' o _ _ _ _ h
    simp only [run_handler, Option.some.injEq, Prod.mk.injEq] at h
    obtain ⟨-, rfl⟩ := h
    exact enqInOrder_nil
  | cons e es ih =>
    intro b b' o hwf hi hd htbl h
    simp only [run_handler] at h
    cases hpub : aegis_domain_event_publish fuel b e with
    | none => simp [hpub] at h
    | some r =>
      obtain ⟨c1, b1, o1⟩ := r
      simp only [hpub] at h
      have q1 := publish_order_quiet fuel tbl hq b e _ hwf hi hd htbl hpub
      obtain ⟨-, e1, -⟩ := publish_spec fuel b e _ hwf hi hpub
      simp only at q1 e1
      cases hrest : run_handler (aegis_domain_event_publish fuel) b1 es with
      | none => simp [hrest] at h
      | some r2 =>
        obtain ⟨b2, o2⟩ := r2
        simp only [hrest, Option.some.injEq, Prod.mk.injEq] at h
        obtain ⟨-, rfl⟩ := h
        exact enqInOrder_append _ _ q1 (ih b1 b2 o2 e1.wf (by rw [e1.init]; exact hi)
          (by rw [e1.depth]; exact hd) (by rw [e1.subs]; exact htbl) hrest)

theorem invoke_order (fuel : Nat) (tbl : List AegisEventSubscription)
    (hq : ∀ ev, QuietFor tbl TRUE ev) (b b' : AegisDomainEventBus) (i p : Nat)
    (sub : AegisEventSubscription) (e : AegisDomainEvent) (r : AegisEventHandlerResult)
    (o : List BusObs) (hwf : BusWF b) (hi : b.is_initialized ≠ 0)
    (hd : b.recursion_depth + 1 < MAX_EVENT_RECURSION_DEPTH)
    (htbl : b.subscriptions.getD [] = tbl)
    (h : invoke_handler_with_recursion (aegis_domain_event_publish fuel) b i p sub e =
      some (r, b', o)) : EnqInOrder o := by
  have hM := max_depth_eq
  unfold invoke_handler_with_recursion at h
  cases hh : sub.handler with
  | none =>
    simp only [hh, Option.some.injEq, Prod.mk.injEq] at h
    obtain ⟨-, -, rfl⟩ := h
    exact enqInOrder_nil
  | some handler =>
    simp only [hh] at h
    rw [if_neg (by omega)] at h
    cases hrun : run_handler (aegis_domain_event_publish fuel)
        { b with recursion_depth := (b.recursion_depth + 1) % 256 }
        (handler e sub.ctx).publishes with
    | none => simp [hrun] at h
    | some r2 =>
      obtain ⟨b2, o2⟩ := r2
      simp only [hrun, Option.some.injEq, Prod.mk.injEq] at h
      obtain ⟨-, -, rfl⟩ := h
      exact run_handler_order fuel tbl hq _
        { b with recursion_depth := (b.recursion_depth + 1) % 256 } b2 o2
        (busWF_depth b ((b.recursion_depth + 1) % 256) hwf) hi
        (by show (b.recursion_depth + 1) % 256 < MAX_EVENT_RECURSION_DEPTH; omega) htbl hrun

theorem dispatch_loop_order (fuel : Nat) (tbl : List AegisEventSubscription)
    (hq : ∀ ev, QuietFor tbl TRUE ev) (e : AegisDomainEvent) (p : Nat) (idxs : List Nat) :
    ∀ b n n' b' o, BusWF b → b.is_initialized ≠ 0 →
      b.recursion_depth + 1 < MAX_EVENT_RECURSION_DEPTH → b.subscriptions.getD [] = tbl →
      dispatch_loop (aegis_domain_event_publish fuel) e p idxs b n = some (n', b', o) →
      EnqInOrder o := by
  induction idxs with
  | nil =>
    intro b n n' b' o _ _ _ _ h
    simp only [dispatch_loop, Option.some.injEq, Prod.mk.injEq] at h
    obtain ⟨-, -, rfl⟩ := h
    exact enqInOrder_nil
  | cons i rest ih =>
    intro b n n' b' o hwf hi hd htbl h
    simp only [dispatch_loop] at h
    cases hsub : (b.subscriptions.getD [])[i]? with
    | none =>
      simp only [hsub] at h
      exact ih b n n' b' o hwf hi hd htbl h
    | some sub =>
      simp only [hsub] at h
      by_cases h1 : sub.is_sync ≠ p
      · rw [if_pos h1] at h
        exact ih b n n' b' o hwf hi hd htbl h
      · rw [if_neg h1] at h
        by_cases h2 : sub.event_type ≠ 0 ∧ sub.event_type ≠ e.type
        · rw [if_pos h2] at h
          exact ih b n n' b' o hwf hi hd htbl h
        · rw [if_neg h2] at h
          cases hinv : invoke_handler_with_recursion (aegis_domain_event_publish fuel) b i p
              sub e with
          | none => simp [hinv] at h
          | some r =>
            obtain ⟨res, b1, o1⟩ := r
            simp only [hinv] at h
            obtain ⟨e1, -⟩ := invoke_spec _ (publish_spec fuel) b b1 i p sub e res o1 hwf hi hinv
            have q1 := invoke_order fuel tbl hq b b1 i p sub e res o1 hwf hi hd htbl hinv
            have e2 : Eff b1
                (if res = AegisEventHandlerResult.EVENT_HANDLER_ERROR then
                  bus_trace_log b1 TRACE_EVENT_APP_ERROR "REQ-EVENT-009" e.type i
                else b1) [] := by
              split
              · exact Eff.trace_log b1 [] _ _ _ _ e1.wf rfl rfl rfl rfl (by simp) (by simp)
              · exact Eff.refl b1 e1.wf
            cases hrest : dispatch_loop (aegis_domain_event_publish fuel) e p rest
                (if res = AegisEventHandlerResult.EVENT_HANDLER_ERROR then
                  bus_trace_log b1 TRACE_EVENT_APP_ERROR "REQ-EVENT-009" e.type i
                else b1)
                (if res = AegisEventHandlerResult.EVENT_HANDLER_OK then (n + 1) % 256 else n) with
            | none => simp [hrest] at h
            | some r3 =>
              obtain ⟨n3, b3, o3⟩ := r3
              simp only [hrest, Option.some.injEq, Prod.mk.injEq] at h
              obtain ⟨-, -, rfl⟩ := h
              exact enqInOrder_append _ _ q1 (ih _ _ n3 b3 o3 e2.wf (by rw [e2.init, e1.init]; exact hi)
                (by rw [e2.depth, e1.depth]; exact hd)
                (by rw [e2.subs, e1.subs]; exact htbl) hrest)
theorem process_loop_order (fuelP : Nat) (tbl : List AegisEventSubscription)
    (hq : ∀ ev, QuietFor tbl TRUE ev) (max : Nat) :
    ∀ fuel b ev processed n b' o, BusWF b → b.is_initialized ≠ 0 →
      b.recursion_depth + 1 < MAX_EVENT_RECURSION_DEPTH → b.subscriptions.getD [] = tbl →
      process_loop (aegis_domain_event_publish fuelP) max fuel b ev processed = some (n, b', o) →
      EnqInOrder o := by
  intro fuel
  induction fuel with
  | zero =>
    intro b ev processed n b' o _ _ _ _ h
    simp [process_loop] at h
  | succ fuel ih =>
    intro b ev processed n b' o hwf hi hd htbl h
    simp only [process_loop] at h
    by_cases hc : processed < max ∨ max = 0
    · rw [if_pos hc] at h
      cases hpend : pending_events b with
      | nil =>
        have g1 := hwf.1
        rw [hpend] at g1
        rw [dequeue_none b ev g1] at h
        simp only at h
        rw [if_pos (by decide)] at h
        simp only [Option.some.injEq, Prod.mk.injEq] at h
        obtain ⟨-, -, rfl⟩ := h
        exact enqInOrder_nil
      | cons e rest =>
        have g := hwf
        obtain ⟨g1, g2, g3, g4, g5, g6, g7, g8, g9, g10⟩ := g
        rw [hpend] at g1
        obtain ⟨q1, q2⟩ := dequeue_some b e ev rest g1
        obtain ⟨bD, hbD⟩ : ∃ bD : AegisDomainEventBus, bD =
            { b with
              async_queue := (aegis_ring_buffer_read b.async_queue (some (event_bytes ev))
                sizeof_AegisDomainEvent).2.1 } := ⟨_, rfl⟩
        rw [← hbD] at q1
        have hqD : QueueWF bD.async_queue rest := by rw [hbD]; exact q2
        have hpD : pending_events bD = rest := queueWF_pending bD rest hqD
        have hwfD : BusWF bD :=
          ⟨by rw [hpD]; exact hqD, by rw [hbD]; exact g2, by rw [hbD]; exact g3,
            by rw [hbD]; exact g4, by rw [hbD]; exact g5, by rw [hbD]; exact g6,
            by rw [hbD]; exact g7, by rw [hbD]; exact g8, by rw [hbD]; exact g9,
            by rw [hbD]; exact g10⟩
        have hiD : bD.is_initialized ≠ 0 := by rw [hbD]; exact hi
        have hfix : bD = { b with async_queue := bD.async_queue } := by rw [hbD]
        rw [q1] at h
        simp only at h
        rw [if_neg (by simp)] at h
        cases hdis : dispatch_to_subscribers (aegis_domain_event_publish fuelP) bD e FALSE with
        | none => simp [hdis] at h
        | some r =>
          obtain ⟨k, b1, o1⟩ := r
          simp only [hdis] at h
          obtain ⟨e1, -⟩ := dispatch_spec _ (publish_spec fuelP) e FALSE bD b1 k o1 hwfD hiD hdis
          have d1 := dispatch_loop_order fuelP tbl hq e FALSE _ bD 0 k b1 o1 hwfD hiD
            (by rw [hbD]; exact hd) (by rw [hbD]; exact htbl) hdis
          have e2 := Eff.dequeued b bD b1 e rest o1 k hpend hpD hfix e1
          cases hrest : process_loop (aegis_domain_event_publish fuelP) max fuel
              { b1 with
                async_handled := (b1.async_handled + k) % 4294967296
                total_processed := (b1.total_processed + 1) % 4294967296 }
              e ((processed + 1) % 256) with
          | none => simp [hrest] at h
          | some r3 =>
            obtain ⟨n3, b3, o3⟩ := r3
            simp only [hrest, Option.some.injEq, Prod.mk.injEq] at h
            obtain ⟨-, -, rfl⟩ := h
            have d3 := ih _ _ _ n3 b3 o3 e2.wf (by rw [e2.init]; exact hi)
              (by rw [e2.depth]; exact hd) (by rw [e2.subs]; exact htbl) hrest
            exact (enqInOrder_append _ _ d1 d3 : EnqInOrder (o1 ++ o3))
    · rw [if_neg hc] at h
      simp only [Option.some.injEq, Prod.mk.injEq] at h
      obtain ⟨-, -, rfl⟩ := h
      exact enqInOrder_nil

theorem bus_run_order (fuel : Nat) (tbl : List AegisEventSubscription)
    (hq : ∀ ev, QuietFor tbl TRUE ev) (cs : List BusCall) :
    ∀ b rs b' o, BusWF b → b.is_initialized ≠ 0 → b.recursion_depth = 0 →
      b.subscriptions.getD [] = tbl → bus_run fuel b cs = some (rs, b', o) → EnqInOrder o := by
  have hM := max_depth_eq
  induction cs with
  | nil =>
    intro b rs b' o _ _ _ _ h
    simp only [bus_run, Option.some.injEq, Prod.mk.injEq] at h
    obtain ⟨-, -, rfl⟩ := h
    exact enqInOrder_nil
  | cons c cs ih =>
    intro b rs b' o hwf hi hd htbl h
    cases c with
    | publish e =>
      simp only [bus_run] at h
      cases hpub : aegis_domain_event_publish fuel b e with
      | none => simp [hpub] at h
      | some r =>
        obtain ⟨c1, b1, o1⟩ := r
        obtain ⟨-, e1, -⟩ := publish_spec fuel b e _ hwf hi hpub
        have q1 := publish_order_quiet fuel tbl hq b e _ hwf hi (by omega) htbl hpub
        cases hrest : bus_run fuel b1 cs with
        | none => simp [hpub, hrest] at h
        | some r2 =>
          obtain ⟨rs2, b2, o2⟩ := r2
          simp only [hpub, hrest, Option.some.injEq, Prod.mk.injEq] at h
          obtain ⟨-, -, rfl⟩ := h
          exact enqInOrder_append _ _ q1 (ih b1 rs2 b2 o2 e1.wf (by rw [e1.init]; exact hi)
            (by rw [e1.depth]; exact hd) (by rw [e1.subs]; exact htbl) hrest)
    | process m =>
      simp only [bus_run] at h
      cases hpr : aegis_domain_event_process fuel b m with
      | none => simp [hpr] at h
      | some r =>
        obtain ⟨n1, b1, o1⟩ := r
        have e1 := process_spec fuel b b1 m n1 o1 hwf hpr
        have q1 : EnqInOrder o1 := by
          unfold aegis_domain_event_process at hpr
          rw [if_neg hi] at hpr
          exact process_loop_order fuel tbl hq m fuel b zero_event 0 n1 b1 o1 hwf hi (by omega)
            htbl hpr
        cases hrest : bus_run fuel b1 cs with
        | none => simp [hpr, hrest] at h
        | some r2 =>
          obtain ⟨rs2, b2, o2⟩ := r2
          simp only [hpr, hrest, Option.some.injEq, Prod.mk.injEq] at h
          obtain ⟨-, -, rfl⟩ := h
          exact enqInOrder_append _ _ q1 (ih b1 rs2 b2 o2 e1.wf (by rw [e1.init]; exact hi)
            (by rw [e1.depth]; exact hd) (by rw [e1.subs]; exact htbl) hrest)

/-! ## Handlers that publish: the recursion guard at work -/

theorem reentrant_chain (sub : AegisEventSubscription) (h : DomainEventHandler)
    (hs0 : sub.event_type = 0) (hs1 : sub.is_sync = TRUE) (hh : sub.handler = some h)
    (hone : ∀ e ctx, ∃ e', (h e ctx).publishes = [e']) :
    ∀ k fuel b e, BusWF b → b.is_initialized ≠ 0 → b.subscriptions.getD [] = [sub] →
      b.subscription_count = 1 → b.recursion_depth + k = MAX_EVENT_RECURSION_DEPTH →
      k + 1 ≤ fuel →
      ∃ b' o, aegis_domain_event_publish fuel b e = some (ERR_OK, b', o) ∧
        (obs_calls o).map (fun c => (c.1, c.2.2.1)) =
          (List.range k).map (fun j => (0, b.recursion_depth + j)) ∧
        (obs_refused o).map (fun c => (c.1, c.2.2)) = [(0, MAX_EVENT_RECURSION_DEPTH)] ∧
        (obs_published o).length = k + 1 := by
  have hm : ∀ ev, sub_matches TRUE ev sub = true := by
    intro ev
    simp [sub_matches, hs0, hs1]
  intro k
  induction k with
  | zero =>
    intro fuel b e hwf hi hsubs hcnt hd hf
    obtain ⟨f, rfl⟩ : ∃ f, fuel = f + 1 := ⟨fuel - 1, by omega⟩
    obtain ⟨t2, hshape, -, -⟩ := publish_enter_shape b e
    have g1 : (publish_enter b e).2.subscriptions.getD [] = [sub] := by rw [hshape]; exact hsubs
    have g2 : (publish_enter b e).2.subscription_count = 1 := by rw [hshape]; exact hcnt
    have g3 : (publish_enter b e).2.recursion_depth = b.recursion_depth := by rw [hshape]
    have hpub : aegis_domain_event_publish (f + 1) b e =
        publish_body (aegis_domain_event_publish f) b e := rfl
    unfold publish_body at hpub
    rw [if_neg hi, dispatch_single _ _ _ _ sub g1 g2 (hm _),
      invoke_refused _ _ _ _ _ _ h hh (by rw [g3]; omega)] at hpub
    simp only [if_true] at hpub
    refine ⟨_, _, hpub, ?_⟩
    rw [g3]
    generalize hxe : (publish_exit _ (publish_enter b e).1 _).2 = x
    have hx : x = [BusObs.enqueued (publish_enter b e).1] ∨
        x = [BusObs.dropped (publish_enter b e).1] := by
      rw [← hxe]
      exact publish_exit_obs _ _ _
    rcases hx with rfl | rfl
    · refine ⟨rfl, ?_, rfl⟩
      rw [← hd]
      rfl
    · refine ⟨rfl, ?_, rfl⟩
      rw [← hd]
      rfl
  | succ k ih =>
    intro fuel b e hwf hi hsubs hcnt hd hf
    obtain ⟨f, rfl⟩ : ∃ f, fuel = f + 1 := ⟨fuel - 1, by omega⟩
    obtain ⟨t2, hshape, -, -⟩ := publish_enter_shape b e
    have g1 : (publish_enter b e).2.subscriptions.getD [] = [sub] := by rw [hshape]; exact hsubs
    have g2 : (publish_enter b e).2.subscription_count = 1 := by rw [hshape]; exact hcnt
    have g3 : (publish_enter b e).2.recursion_depth = b.recursion_depth := by rw [hshape]
    have g4 : (publish_enter b e).2.is_initialized = b.is_initialized := by rw [hshape]
    have hM := max_depth_eq
    have hlt : b.recursion_depth < MAX_EVENT_RECURSION_DEPTH := by omega
    have hwf3 := (publish_enter_eff b e hwf).wf
    have hmod : (b.recursion_depth + 1) % 256 = b.recursion_depth + 1 :=
      Nat.mod_eq_of_lt (by omega)
    have hpub : aegis_domain_event_publish (f + 1) b e =
        publish_body (aegis_domain_event_publish f) b e := rfl
    unfold publish_body at hpub
    rw [if_neg hi] at hpub
    clear hshape
    generalize (publish_enter b e).2 = bus3 at g1 g2 g3 g4 hwf3 hpub
    generalize (publish_enter b e).1 = ec at hpub
    obtain ⟨e', he'⟩ := hone ec sub.ctx
    obtain ⟨b2, o2, hnest, c1, c2, c3⟩ := ih f
      { bus3 with recursion_depth := (bus3.recursion_depth + 1) % 256 } e'
      (busWF_depth _ _ hwf3) (by rw [← g4] at hi; exact hi)
      g1 g2 (by show (bus3.recursion_depth + 1) % 256 + k = _; rw [g3, hmod]; omega)
      (by omega)
    have c1' : (obs_calls o2).map (fun c => (c.1, c.2.2.1)) =
        (List.range k).map (fun j => (0, b.recursion_depth + 1 + j)) := by
      rw [c1]
      show List.map (fun j => (0, (bus3.recursion_depth + 1) % 256 + j)) _ = _
      rw [g3, hmod]
    rw [dispatch_single _ _ _ _ sub g1 g2 (hm _),
      invoke_one_publish _ _ _ _ sub _ e' h hh he' (by rw [g3]; exact hlt), hnest] at hpub
    simp only at hpub
    refine ⟨_, _, hpub, ?_⟩
    rw [g3]
    generalize hxe : (publish_exit _ ec _).2 = x
    have hx : x = [BusObs.enqueued ec] ∨ x = [BusObs.dropped ec] := by
      rw [← hxe]
      exact publish_exit_obs _ _ _
    have hcx : obs_calls x = [] ∧ obs_refused x = [] ∧ obs_published x = [] := by
      rcases hx with rfl | rfl <;> exact ⟨rfl, rfl, rfl⟩
    obtain ⟨x1, x2, x3⟩ := hcx
    refine ⟨?_, ?_, ?_⟩
    · show List.map _ (obs_calls ([BusObs.published e ec,
        BusObs.call 0 TRUE ec b.recursion_depth (h ec sub.ctx).result] ++ (o2 ++ x))) = _
      rw [obs_calls_append, obs_calls_append, x1, List.append_nil, List.map_append, c1',
        List.range_succ_eq_map, List.map_cons, List.map_map]
      refine congrArg₂ List.cons rfl (List.map_congr_left fun j _ => ?_)
      show (0, b.recursion_depth + 1 + j) = (0, b.recursion_depth + (j + 1))
      rw [Nat.add_assoc, Nat.add_comm 1 j]
    · show List.map _ (obs_refused ([BusObs.published e ec,
        BusObs.call 0 TRUE ec b.recursion_depth (h ec sub.ctx).result] ++ (o2 ++ x))) = _
      rw [obs_refused_append, obs_refused_append, x2, List.append_nil, List.map_append, c2]
      rfl
    · show (obs_published ([BusObs.published e ec,
        BusObs.call 0 TRUE ec b.recursion_depth (h ec sub.ctx).result] ++ (o2 ++ x))).length = _
      rw [obs_published_append, obs_published_append, x3, List.append_nil, List.length_append, c3]
      show 1 + (k + 1) = k + 1 + 1
      omega

theorem mem_obs_calls (o : List BusObs)
    (c : Nat × AegisDomainEvent × Nat × AegisEventHandlerResult) (h : c ∈ obs_calls o) :
    ∃ p, BusObs.call c.1 p c.2.1 c.2.2.1 c.2.2.2 ∈ o := by
  induction o with
  | nil => exact absurd h (List.not_mem_nil _)
  | cons x o ih =>
    cases x with
    | call i p e d r =>
      rcases List.mem_cons.mp h with rfl | h2
      · exact ⟨p, List.mem_cons_self _ _⟩
      · obtain ⟨q, hq⟩ := ih h2
        exact ⟨q, List.mem_cons_of_mem _ hq⟩
    | published e ec =>
      obtain ⟨q, hq⟩ := ih h
      exact ⟨q, List.mem_cons_of_mem _ hq⟩
    | refused i p e d =>
      obtain ⟨q, hq⟩ := ih h
      exact ⟨q, List.mem_cons_of_mem _ hq⟩
    | enqueued e =>
      obtain ⟨q, hq⟩ := ih h
      exact ⟨q, List.mem_cons_of_mem _ hq⟩
    | dropped e =>
      obtain ⟨q, hq⟩ := ih h
      exact ⟨q, List.mem_cons_of_mem _ hq⟩
    | dequeued e =>
      obtain ⟨q, hq⟩ := ih h
      exact ⟨q, List.mem_cons_of_mem _ hq⟩

theorem mem_obs_refused (o : List BusObs) (c : Nat × AegisDomainEvent × Nat)
    (h : c ∈ obs_refused o) : ∃ p, BusObs.refused c.1 p c.2.1 c.2.2 ∈ o := by
  induction o with
  | nil => exact absurd h (List.not_mem_nil _)
  | cons x o ih =>
    cases x with
    | refused i p e d =>
      rcases List.mem_cons.mp h with rfl | h2
      · exact ⟨p, List.mem_cons_self _ _⟩
      · obtain ⟨q, hq⟩ := ih h2
        exact ⟨q, List.mem_cons_of_mem _ hq⟩
    | published e ec =>
      obtain ⟨q, hq⟩ := ih h
      exact ⟨q, List.mem_cons_of_mem _ hq⟩
    | call i p e d r =>
      obtain ⟨q, hq⟩ := ih h
      exact ⟨q, List.mem_cons_of_mem _ hq⟩
    | enqueued e =>
      obtain ⟨q, hq⟩ := ih h
      exact ⟨q, List.mem_cons_of_mem _ hq⟩
    | dropped e =>
      obtain ⟨q, hq⟩ := ih h
      exact ⟨q, List.mem_cons_of_mem _ hq⟩
    | dequeued e =>
      obtain ⟨q, hq⟩ := ih h
      exact ⟨q, List.mem_cons_of_mem _ hq⟩

theorem publish_depths (fuel : Nat) (b : AegisDomainEventBus) (e : AegisDomainEvent)
    (hwf : BusWF b) (hi : b.is_initialized ≠ 0)
    (hf : MAX_EVENT_RECURSION_DEPTH + 1 ≤ fuel) :
    ∃ b' o, aegis_domain_event_publish fuel b e = some (ERR_OK, b', o) ∧ Eff b b' o ∧
      (∀ c ∈ obs_calls o, b.recursion_depth ≤ c.2.2.1 ∧ c.2.2.1 < MAX_EVENT_RECURSION_DEPTH) ∧
      ∀ c ∈ obs_refused o, b.recursion_depth ≤ c.2.2 ∧ MAX_EVENT_RECURSION_DEPTH ≤ c.2.2 := by
  have ht := publish_total fuel b e hwf (by rw [max_depth_eq] at hf; omega) (by omega)
  cases hpub : aegis_domain_event_publish fuel b e with
  | none => rw [hpub] at ht; exact absurd ht (by decide)
  | some r =>
    obtain ⟨c1, b1, o1⟩ := r
    obtain ⟨hc, e1, -⟩ := publish_spec fuel b e _ hwf hi hpub
    simp only at hc e1
    subst hc
    refine ⟨b1, o1, rfl, e1, fun c hc => ?_, fun c hc => ?_⟩
    · obtain ⟨p, hp⟩ := mem_obs_calls o1 c hc
      exact e1.depths _ hp
    · obtain ⟨p, hp⟩ := mem_obs_refused o1 c hc
      exact e1.depths _ hp

theorem copy_type (e ec : AegisDomainEvent) (h : IsCopy e ec) :
    ec.type = (event_memcpy e).type ∧ (EventWF e → ec.type = e.type) := by
  have h1 : ec.type = (event_memcpy e).type := by
    have := congrArg AegisDomainEvent.type h.1
    exact this
  exact ⟨h1, fun hw => by rw [h1, event_memcpy_of_wf e hw]⟩
theorem relay_quiet (ev : AegisDomainEvent) : QuietFor relay_table TRUE ev := by
  intro sub hs hm
  simp only [relay_table, List.mem_singleton] at hs
  subst hs
  simp [sub_matches, TRUE, FALSE] at hm

theorem relay_dispatch (f : Nat) (bD : AegisDomainEventBus) (e : AegisDomainEvent)
    (hwf : BusWF bD) (hi : bD.is_initialized ≠ 0) (hd : bD.recursion_depth = 0)
    (hsubs : bD.subscriptions.getD [] = relay_table) (hcnt : bD.subscription_count = 1)
    (hlen : (pending_events bD).length < DOMAIN_EVENT_QUEUE_SIZE) :
    ∃ k b1 o1, dispatch_to_subscribers (aegis_domain_event_publish (f + 1)) bD e FALSE =
        some (k, b1, o1) ∧ (obs_enqueued o1).length = 1 := by
  have hM := max_depth_eq
  obtain ⟨b2, hpub, -⟩ := publish_quiet f
    { bD with recursion_depth := (bD.recursion_depth + 1) % 256 } e relay_table
    (busWF_depth _ _ hwf) hi (by show (bD.recursion_depth + 1) % 256 < _; rw [hd, hM]; decide)
    hsubs relay_quiet
  have hp : pending_events { bD with recursion_depth := (bD.recursion_depth + 1) % 256 } =
      pending_events bD := rfl
  rw [hp, if_pos hlen] at hpub
  have henq : ∀ (ec : AegisDomainEvent) (dobs : List BusObs),
      (obs_published dobs = [] ∧ obs_inputs dobs = [] ∧ obs_enqueued dobs = [] ∧
        obs_dropped dobs = [] ∧ obs_dequeued dobs = [] ∧ obs_refused dobs = []) →
      (obs_enqueued (BusObs.published e ec :: dobs ++ [BusObs.enqueued ec])).length = 1 :=
    fun ec dobs hpr => by
      rw [(publish_obs_proj e ec dobs _ hpr).2.2.1]
      rfl
  obtain ⟨o2, hpub2, ho2⟩ : ∃ o2, aegis_domain_event_publish (f + 1)
      { bD with recursion_depth := (bD.recursion_depth + 1) % 256 } e = some (ERR_OK, b2, o2) ∧
      (obs_enqueued o2).length = 1 := ⟨_, hpub, henq _ _ (dispatch_obs_proj _ _ _ _ _)⟩
  rw [dispatch_single _ _ _ _
      { event_type := 0, handler := some republish_handler, ctx := 0, is_sync := FALSE,
        priority := 0 } hsubs hcnt (by simp [sub_matches]),
    invoke_one_publish _ _ _ _ _ _ e republish_handler rfl rfl (by rw [hd, hM]; decide), hpub2]
  refine ⟨_, _, _, rfl, ?_⟩
  show (obs_enqueued ([BusObs.call 0 FALSE e bD.recursion_depth
    (republish_handler e 0).result] ++ o2)).length = 1
  rw [obs_enqueued_append]
  exact ho2

theorem relay_process_diverges (fuelP : Nat) :
    ∀ n b ev processed, BusWF b → b.is_initialized ≠ 0 → b.recursion_depth = 0 →
      b.subscriptions.getD [] = relay_table → b.subscription_count = 1 →
      (pending_events b).length = DOMAIN_EVENT_QUEUE_SIZE →
      process_loop (aegis_domain_event_publish fuelP) 0 n b ev processed = none := by
  intro n
  induction n with
  | zero =>
    intro b ev processed _ _ _ _ _ _
    rfl
  | succ n ih =>
    intro b ev processed hwf hi hd hsubs hcnt hlen
    have hQ := queue_size_eq
    simp only [process_loop]
    rw [if_pos (Or.inr trivial)]
    cases hpend : pending_events b with
    | nil =>
      rw [hpend, hQ] at hlen
      exact absurd hlen (by decide)
    | cons e rest =>
      have g := hwf
      obtain ⟨g1, g2, g3, g4, g5, g6, g7, g8, g9, g10⟩ := g
      rw [hpend] at g1
      obtain ⟨q1, q2⟩ := dequeue_some b e ev rest g1
      obtain ⟨bD, hbD⟩ : ∃ bD : AegisDomainEventBus, bD =
          { b with
            async_queue := (aegis_ring_buffer_read b.async_queue (some (event_bytes ev))
              sizeof_AegisDomainEvent).2.1 } := ⟨_, rfl⟩
      rw [← hbD] at q1
      have hqD : QueueWF bD.async_queue rest := by rw [hbD]; exact q2
      have hpD : pending_events bD = rest := queueWF_pending bD rest hqD
      have hwfD : BusWF bD :=
        ⟨by rw [hpD]; exact hqD, by rw [hbD]; exact g2, by rw [hbD]; exact g3,
          by rw [hbD]; exact g4, by rw [hbD]; exact g5, by rw [hbD]; exact g6,
          by rw [hbD]; exact g7, by rw [hbD]; exact g8, by rw [hbD]; exact g9,
          by rw [hbD]; exact g10⟩
      have hiD : bD.is_initialized ≠ 0 := by rw [hbD]; exact hi
      have hfix : bD = { b with async_queue := bD.async_queue } := by rw [hbD]
      have hrl : rest.length + 1 = 32 := by
        rw [hpend, hQ] at hlen
        exact hlen
      rw [q1]
      simp only
      rw [if_neg (by simp)]
      cases fuelP with
      | zero =>
        have hnone : dispatch_to_subscribers (aegis_domain_event_publish 0) bD e FALSE = none := by
          rw [dispatch_single _ _ _ _
              { event_type := 0, handler := some republish_handler, ctx := 0, is_sync := FALSE,
                priority := 0 } (by rw [hbD]; exact hsubs) (by rw [hbD]; exact hcnt)
              (by simp [sub_matches]),
            invoke_one_publish _ _ _ _ _ _ e republish_handler rfl rfl
              (by rw [hbD]; show b.recursion_depth < _; rw [hd, max_depth_eq]; decide)]
          rfl
        rw [hnone]
      | succ f =>
        obtain ⟨k, b1, o1, hdis, henq⟩ := relay_dispatch f bD e hwfD hiD
          (by rw [hbD]; exact hd) (by rw [hbD]; exact hsubs) (by rw [hbD]; exact hcnt)
          (by rw [hpD, hQ]; omega)
        obtain ⟨e1, c1⟩ := dispatch_spec _ (publish_spec (f + 1)) e FALSE bD b1 k o1 hwfD hiD hdis
        have e2 := Eff.dequeued b bD b1 e rest o1 k hpend hpD hfix e1
        rw [hdis]
        simp only
        rw [ih _ e ((processed + 1) % 256) e2.wf (by rw [e2.init]; exact hi)
          (by rw [e2.depth]; exact hd) (by rw [e2.subs]; exact hsubs)
          (by rw [e2.cnt]; exact hcnt) ?_]
        have hq := e2.queue
        rw [hpend] at hq
        have hq2 : obs_dequeued (BusObs.dequeued e :: o1) = e :: obs_dequeued o1 := rfl
        have hq3 : obs_enqueued (BusObs.dequeued e :: o1) = obs_enqueued o1 := rfl
        rw [hq2, hq3, c1.1] at hq
        have hl := congrArg List.length hq
        simp only [List.length_append, List.length_cons, List.length_nil] at hl
        rw [hQ]
        omega

theorem fanout_quiet : NoPublish fanout_table := by
  intro sub hs h hh ev ctx
  simp only [fanout_table, List.mem_cons, List.mem_singleton, List.not_mem_nil, or_false] at hs
  rcases hs with rfl | rfl | rfl | rfl <;>
    · simp only [Option.some.injEq] at hh
      subst hh
      rfl

theorem fanout_bus_pending_spec :
    BusWF fanout_bus_pending ∧ fanout_bus_pending.is_initialized ≠ 0 ∧
      fanout_bus_pending.recursion_depth = 0 ∧
      fanout_bus_pending.subscriptions.getD [] = fanout_table := by
  have hwf0 := (bus_init_wf storage_bus none (some fanout_table) 4 (by decide) (by decide)
    (fun _ h => nomatch h)).1
  unfold fanout_bus_pending
  cases hpub : aegis_domain_event_publish 1 fanout_bus demo_event with
  | none => exact ⟨hwf0, by decide, by decide, rfl⟩
  | some r =>
    obtain ⟨-, e1, -⟩ := publish_spec 1 fanout_bus demo_event r hwf0 (by decide) hpub
    exact ⟨e1.wf, by rw [e1.init]; decide, by rw [e1.depth]; decide, by rw [e1.subs]; rfl⟩

set_option maxRecDepth 100000 in
theorem nest_publish_eval :
    (aegis_domain_event_publish 4 nest_bus demo_event).map
      (fun r => (r.1, (obs_published r.2.2).map AegisDomainEvent.event_id,
        (obs_enqueued r.2.2).map AegisDomainEvent.event_id, obs_dropped r.2.2)) =
      some (ERR_OK, [1, 2], [2, 1], []) := by
  decide

theorem nest_async_quiet (ev : AegisDomainEvent) : QuietFor nest_table FALSE ev := by
  intro sub hs hm
  simp only [nest_table, List.mem_singleton] at hs
  subst hs
  simp [sub_matches, TRUE, FALSE] at hm

/-! ## Circular transport: round trip, invariant, truncation -/

/-- C1 (ring round trip): on a ring of capacity `size ≥ 1` that is empty with
`head = tail` at any offset, for every interleaving of bulk writes and reads in
which each write fits the free space and each read asks for at most the held
count: every call returns the full length it was asked for; each read fills
the first `len` cells of its destination with the oldest `len` bytes written
and not yet read; so the bytes the reads deliver, concatenated, are exactly the
first `bulk_requested ops` bytes written, in write order; followed by the bytes
still held they are all the bytes written, and they are all the bytes written
once the ring is empty again. -/
theorem ring_round_trip (rb : AegisRingBuffer) (ops : List BulkOp)
    (hsize : 1 ≤ rb.size) (hu16 : rb.size < 65536) (hbuf : rb.buffer.length = rb.size)
    (hempty : rb.count = 0) (hoff : rb.head = rb.tail) (htail : rb.tail < rb.size)
    (hfit : bulk_fits rb ops = true) :
    (bulk_run rb ops).1 ++ ring_contents (bulk_run rb ops).2 = bulk_written ops ∧
      (bulk_run rb ops).1 <+: bulk_written ops ∧
      ((bulk_run rb ops).2.count = 0 → (bulk_run rb ops).1 = bulk_written ops) ∧
      bulk_returns rb ops = ops.map bulk_len ∧
      (bulk_run rb ops).1.length = bulk_requested ops ∧
      (bulk_run rb ops).1 = (bulk_written ops).take (bulk_requested ops) ∧
      ring_contents (bulk_run rb ops).2 = (bulk_written ops).drop (bulk_requested ops) ∧
      ∀ pre len post, ops = pre ++ BulkOp.read len :: post →
        (aegis_ring_buffer_read (bulk_run rb pre).2 (some (List.replicate len 0)) len).1 = len ∧
          ((aegis_ring_buffer_read (bulk_run rb pre).2 (some (List.replicate len 0))
              len).2.2.getD []).take len =
            ((bulk_written pre).drop (bulk_requested pre)).take len ∧
          len ≤ ((bulk_written pre).drop (bulk_requested pre)).length := by
  have hco : RingCoherent rb := by
    refine ⟨⟨hu16, hbuf, by omega, by omega, htail⟩, ?_⟩
    rw [hempty, Nat.add_zero, Nat.mod_eq_of_lt htail, hoff]
  obtain ⟨h1, -⟩ := bulk_run_spec ops rb hco hfit
  obtain ⟨t1, t2⟩ := bulk_run_returns ops rb hco hfit
  have h0 : ring_contents rb = [] := by
    apply List.length_eq_zero.mp
    rw [ring_contents_length, hempty]
  rw [h0, List.nil_append] at h1
  refine ⟨h1, ⟨_, h1⟩, ?_, t1, t2, ?_, ?_, ?_⟩
  · intro hc
    have h2 : ring_contents (bulk_run rb ops).2 = [] := by
      apply List.length_eq_zero.mp
      rw [ring_contents_length, hc]
    rw [h2, List.append_nil] at h1
    exact h1
  · rw [← h1, ← t2, List.take_left]
  · rw [← h1, ← t2, List.drop_left]
  · intro pre len post hops
    rw [hops] at hfit
    exact bulk_read_delivers pre post len rb hco hempty hfit

theorem ring_round_trip_witness :
    (1 ≤ ring_demo.size ∧ ring_demo.size < 65536 ∧ ring_demo.buffer.length = ring_demo.size ∧
      ring_demo.count = 0 ∧ ring_demo.head = ring_demo.tail ∧ ring_demo.tail < ring_demo.size ∧
      bulk_fits ring_demo ring_demo_ops = true ∧
      bulk_returns ring_demo ring_demo_ops = [3, 2, 3, 4] ∧
      (bulk_run ring_demo ring_demo_ops).1 = [11, 12, 13, 14, 15, 16]) ∧
    ((bulk_run ring_demo ring_demo_ops).1 ++ ring_contents (bulk_run ring_demo ring_demo_ops).2 =
        bulk_written ring_demo_ops ∧
      (bulk_run ring_demo ring_demo_ops).1 <+: bulk_written ring_demo_ops ∧
      ((bulk_run ring_demo ring_demo_ops).2.count = 0 →
        (bulk_run ring_demo ring_demo_ops).1 = bulk_written ring_demo_ops) ∧
      bulk_returns ring_demo ring_demo_ops = ring_demo_ops.map bulk_len ∧
      (bulk_run ring_demo ring_demo_ops).1.length = bulk_requested ring_demo_ops ∧
      (bulk_run ring_demo ring_demo_ops).1 =
        (bulk_written ring_demo_ops).take (bulk_requested ring_demo_ops) ∧
      ring_contents (bulk_run ring_demo ring_demo_ops).2 =
        (bulk_written ring_demo_ops).drop (bulk_requested ring_demo_ops) ∧
      ∀ pre len post, ring_demo_ops = pre ++ BulkOp.read len :: post →
        (aegis_ring_buffer_read (bulk_run ring_demo pre).2 (some (List.replicate len 0))
            len).1 = len ∧
          ((aegis_ring_buffer_read (bulk_run ring_demo pre).2 (some (List.replicate len 0))
              len).2.2.getD []).take len =
            ((bulk_written pre).drop (bulk_requested pre)).take len ∧
          len ≤ ((bulk_written pre).drop (bulk_requested pre)).length) :=
  ⟨by decide, ring_round_trip ring_demo ring_demo_ops (by decide) (by decide) (by decide)
    (by decide) (by decide) (by decide) (by decide)⟩

/-- C2 (ring invariant): after a successful `aegis_ring_buffer_init` (which
requires `size ≥ 1`), every sequence of put, get, write, read, commit_write,
commit_read and clear calls, with any arguments and whether or not the calls
succeed, leaves `0 ≤ count ≤ size`, `head < size`, `tail < size` and
`get_free + get_count = size`, the capacity being the one given to init. -/
theorem ring_invariant_after_calls (rb0 : AegisRingBuffer) (buffer : Option (List Nat))
    (size : Nat) (ops : List RingOp) (hu16 : size < 65536)
    (hinit : (aegis_ring_buffer_init rb0 buffer size).1 = ERR_OK) :
    (ring_run (aegis_ring_buffer_init rb0 buffer size).2 ops).size = size ∧
      1 ≤ size ∧
      0 ≤ (ring_run (aegis_ring_buffer_init rb0 buffer size).2 ops).count ∧
      (ring_run (aegis_ring_buffer_init rb0 buffer size).2 ops).count ≤
        (ring_run (aegis_ring_buffer_init rb0 buffer size).2 ops).size ∧
      (ring_run (aegis_ring_buffer_init rb0 buffer size).2 ops).head <
        (ring_run (aegis_ring_buffer_init rb0 buffer size).2 ops).size ∧
      (ring_run (aegis_ring_buffer_init rb0 buffer size).2 ops).tail <
        (ring_run (aegis_ring_buffer_init rb0 buffer size).2 ops).size ∧
      aegis_ring_buffer_get_free (ring_run (aegis_ring_buffer_init rb0 buffer size).2 ops) +
          aegis_ring_buffer_get_count (ring_run (aegis_ring_buffer_init rb0 buffer size).2 ops) =
        (ring_run (aegis_ring_buffer_init rb0 buffer size).2 ops).size := by
  cases buffer with
  | none => simp [aegis_ring_buffer_init] at hinit
  | some buf =>
    by_cases h0 : size = 0
    · simp [aegis_ring_buffer_init, h0] at hinit
    · have hrb : (aegis_ring_buffer_init rb0 (some buf) size).2 =
          { buffer := buf, size := size, head := 0, tail := 0, count := 0 } := by
        simp [aegis_ring_buffer_init, h0]
      rw [hrb]
      have hinv : RingInv { buffer := buf, size := size, head := 0, tail := 0, count := 0 } := by
        refine ⟨?_, ?_, ?_, ?_⟩ <;>
          (try simp only [aegis_ring_buffer_get_free, aegis_ring_buffer_get_count]) <;> omega
      obtain ⟨⟨h1, h2, h3, h4⟩, h5⟩ := ringInv_run ops _ hu16 hinv
      exact ⟨h5, by omega, Nat.zero_le _, h1, h2, h3, h4⟩

theorem ring_invariant_after_calls_witness :
    (3 < 65536 ∧
      (aegis_ring_buffer_init ring_demo (some [0, 0, 0]) 3).1 = ERR_OK) ∧
    ((ring_run (aegis_ring_buffer_init ring_demo (some [0, 0, 0]) 3).2 ring_calls_demo).size = 3 ∧
      1 ≤ 3 ∧
      0 ≤ (ring_run (aegis_ring_buffer_init ring_demo (some [0, 0, 0]) 3).2 ring_calls_demo).count ∧
      (ring_run (aegis_ring_buffer_init ring_demo (some [0, 0, 0]) 3).2 ring_calls_demo).count ≤
        (ring_run (aegis_ring_buffer_init ring_demo (some [0, 0, 0]) 3).2 ring_calls_demo).size ∧
      (ring_run (aegis_ring_buffer_init ring_demo (some [0, 0, 0]) 3).2 ring_calls_demo).head <
        (ring_run (aegis_ring_buffer_init ring_demo (some [0, 0, 0]) 3).2 ring_calls_demo).size ∧
      (ring_run (aegis_ring_buffer_init ring_demo (some [0, 0, 0]) 3).2 ring_calls_demo).tail <
        (ring_run (aegis_ring_buffer_init ring_demo (some [0, 0, 0]) 3).2 ring_calls_demo).size ∧
      aegis_ring_buffer_get_free
            (ring_run (aegis_ring_buffer_init ring_demo (some [0, 0, 0]) 3).2 ring_calls_demo) +
          aegis_ring_buffer_get_count
            (ring_run (aegis_ring_buffer_init ring_demo (some [0, 0, 0]) 3).2 ring_calls_demo) =
        (ring_run (aegis_ring_buffer_init ring_demo (some [0, 0, 0]) 3).2 ring_calls_demo).size) :=
  ⟨by decide,
    ring_invariant_after_calls ring_demo (some [0, 0, 0]) 3 ring_calls_demo (by decide)
      (by decide)⟩

/-- C3 (bulk truncation): on a ring satisfying the invariant, a write of
`len ≥ 1` bytes from a non-null `data` returns exactly `min len (size - count)`
(so exactly the free space when `len` exceeds it, and 0 only when the ring is
full), stores exactly that many leading bytes of `data` at offsets
`head, head+1, …` (wrapping at `size`) and nothing else, advances `head` and
grows `count` by that amount, leaving `tail`; when `head` is where the held
bytes end the held bytes become the old ones followed by those leading bytes.
A read of `len ≥ 1` bytes returns exactly `min len count`, delivers the oldest
that many held bytes to the first cells of the destination (the others keep
their bytes), leaves the array and `head`, and shrinks `count` by that amount,
the held bytes being the remaining ones. -/
theorem bulk_truncation (rb rbw rbr : AegisRingBuffer) (data out : List Nat)
    (out' : Option (List Nat)) (len w n : Nat)
    (hwf : RingWF rb) (hlen : 1 ≤ len) (hdata : data.length = len) (hout : len ≤ out.length)
    (hw : aegis_ring_buffer_write rb (some data) len = (w, rbw))
    (hr : aegis_ring_buffer_read rb (some out) len = (n, rbr, out')) :
    (w = min len (rb.size - rb.count) ∧
      (rb.size - rb.count < len → w = rb.size - rb.count) ∧
      (w = 0 ↔ rb.count = rb.size) ∧
      rbw.count = rb.count + w ∧ rbw.size = rb.size ∧ rbw.tail = rb.tail ∧
      rbw.head = (rb.head + w) % rb.size ∧
      (∀ i, i < w → rbw.buffer.getD ((rb.head + i) % rb.size) 0 = data.getD i 0) ∧
      (∀ j, j < rb.size → (∀ i, i < w → j ≠ (rb.head + i) % rb.size) →
        rbw.buffer.getD j 0 = rb.buffer.getD j 0) ∧
      (rb.head = (rb.tail + rb.count) % rb.size →
        ring_contents rbw = ring_contents rb ++ data.take w)) ∧
    (n = min len rb.count ∧
      rbr.count = rb.count - n ∧ rbr.size = rb.size ∧ rbr.head = rb.head ∧
      rbr.tail = (rb.tail + n) % rb.size ∧ rbr.buffer = rb.buffer ∧
      (out'.getD []).take n = (ring_contents rb).take n ∧
      (out'.getD []).drop n = out.drop n ∧
      ring_contents rbr = (ring_contents rb).drop n) := by
  have hw1 : w = (aegis_ring_buffer_write rb (some data) len).1 := by rw [hw]
  have hw2 : rbw = (aegis_ring_buffer_write rb (some data) len).2 := by rw [hw]
  have hr1 : n = (aegis_ring_buffer_read rb (some out) len).1 := by rw [hr]
  have hr2 : rbr = (aegis_ring_buffer_read rb (some out) len).2.1 := by rw [hr]
  have hr3 : out' = (aegis_ring_buffer_read rb (some out) len).2.2 := by rw [hr]
  obtain ⟨a1, a2, a3, a4, a5, -, -⟩ := write_spec rb data len hwf hlen
  obtain ⟨p1, p2⟩ := write_positions rb data len hwf hlen
  obtain ⟨b1, b2, b3, b4, b5, b6, -⟩ := read_spec rb out len hwf hlen
  obtain ⟨c1, c2, c3, -⟩ := read_contents rb out len hwf hlen hout
  rw [← hw1] at a1
  rw [← hr1] at b1
  rw [← a1] at a4 a5 p1 p2
  rw [← b1] at b5 b6 c1 c2 c3
  rw [← hw2] at a2 a3 a4 a5 p1 p2
  rw [← hr2] at b2 b3 b4 b5 b6 c3
  rw [← hr3, ← hr1] at c1 c2
  have hsz := hwf.2.2.1
  refine ⟨⟨a1, by omega, by omega, a4, a2, a3, a5, p1, p2, ?_⟩,
    ⟨b1, b5, b2, b3, b6, b4, c1, c2, c3⟩⟩
  intro hco
  rw [hw2, a1]
  exact (write_contents rb data len ⟨hwf, hco⟩ hlen (by omega)).1

theorem bulk_truncation_witness :
    (RingWF ring_wrapped ∧ 1 ≤ 3 ∧ [21, 22, 23].length = 3 ∧ 3 ≤ [0, 0, 0].length ∧
      aegis_ring_buffer_write ring_wrapped (some [21, 22, 23]) 3 = (2, ring_wrapped_written) ∧
      aegis_ring_buffer_read ring_wrapped (some [0, 0, 0]) 3 =
        (2, ring_wrapped_read, some [7, 8, 0])) ∧
    (2 = min 3 (ring_wrapped.size - ring_wrapped.count) ∧ 2 = min 3 ring_wrapped.count) :=
  ⟨⟨by decide, by decide, by decide, by decide, by decide, by decide⟩,
    (bulk_truncation ring_wrapped ring_wrapped_written ring_wrapped_read [21, 22, 23] [0, 0, 0]
      (some [7, 8, 0]) 3 2 2 (by decide) (by decide) (by decide) (by decide) (by decide)
      (by decide)).1.1,
    (bulk_truncation ring_wrapped ring_wrapped_written ring_wrapped_read [21, 22, 23] [0, 0, 0]
      (some [7, 8, 0]) 3 2 2 (by decide) (by decide) (by decide) (by decide) (by decide)
      (by decide)).2.1⟩

/-! ## Domain event bus: fan-out, delivery, backpressure, history, recursion, order, status -/

/-- C4 (synchronous fan-out), with the invocations made by nested publishes set
apart: on an initialised bus at recursion depth 0, publishing `e` returns
`ERR_OK`, and the handler calls the publish makes itself (those at depth 0) are
made with the copy of `e`, one for each table index `i` below
`subscription_count` whose entry has a handler, `is_sync == TRUE` and an
`event_type` that is 0 or the type of the event, in increasing index order and
before the publish returns.  When no synchronous handler publishes, these are
all the handler calls made during the publish. -/
theorem sync_fanout (fuel : Nat) (b : AegisDomainEventBus) (e : AegisDomainEvent)
    (tbl : List AegisEventSubscription) (hwf : BusWF b) (hi : b.is_initialized ≠ 0)
    (hd : b.recursion_depth = 0) (htbl : b.subscriptions.getD [] = tbl)
    (hfuel : MAX_EVENT_RECURSION_DEPTH + 1 ≤ fuel) :
    ∃ b' o, aegis_domain_event_publish fuel b e = some (ERR_OK, b', o) ∧
      IsCopy e (publish_enter b e).1 ∧
      (EventWF e → (publish_enter b e).1.type = e.type) ∧
      calls_at 0 o =
        (eligible tbl b.subscription_count TRUE (publish_enter b e).1).map
          (fun i => (i, (publish_enter b e).1)) ∧
      (eligible tbl b.subscription_count TRUE (publish_enter b e).1).Pairwise
        (fun i j => i < j) ∧
      (∀ i, i ∈ eligible tbl b.subscription_count TRUE (publish_enter b e).1 ↔
        i < b.subscription_count ∧ ∃ sub, tbl[i]? = some sub ∧ sub.is_sync = TRUE ∧
          (sub.event_type = 0 ∨ sub.event_type = (publish_enter b e).1.type) ∧
          sub.handler.isSome = true) ∧
      ((∀ ev, QuietFor tbl TRUE ev) →
        (obs_calls o).map (fun c => (c.1, c.2.1, c.2.2.1)) =
          (eligible tbl b.subscription_count TRUE (publish_enter b e).1).map
            (fun i => (i, (publish_enter b e).1, 0))) := by
  have hM := max_depth_eq
  obtain ⟨b', o, hpub, -, -, -⟩ := publish_depths fuel b e hwf hi hfuel
  have hcalls := publish_calls fuel b b' e ERR_OK o tbl hwf hi (by rw [hd, hM]; omega) htbl hpub
  rw [hd] at hcalls
  refine ⟨b', o, hpub, publish_enter_copy b e, (copy_type _ _ (publish_enter_copy b e)).2, hcalls,
    eligible_sorted _ _ _ _, fun i => mem_eligible _ _ _ _ i, fun hq => ?_⟩
  obtain ⟨f, rfl⟩ : ∃ f, fuel = f + 1 := ⟨fuel - 1, by omega⟩
  obtain ⟨b2, o2, hpub2, hc2⟩ := publish_quiet_calls f b e tbl hwf hi (by rw [hd, hM]; omega)
    htbl hq
  rw [hpub] at hpub2
  simp only [Option.some.injEq, Prod.mk.injEq, true_and] at hpub2
  obtain ⟨-, rfl⟩ := hpub2
  rw [hc2, hd]

theorem sync_fanout_witness :
    ∃ b' o, aegis_domain_event_publish 4 fanout_bus demo_event = some (ERR_OK, b', o) ∧
      IsCopy demo_event (publish_enter fanout_bus demo_event).1 ∧
      (EventWF demo_event → (publish_enter fanout_bus demo_event).1.type = demo_event.type) ∧
      calls_at 0 o =
        (eligible fanout_table fanout_bus.subscription_count TRUE
          (publish_enter fanout_bus demo_event).1).map
          (fun i => (i, (publish_enter fanout_bus demo_event).1)) ∧
      (eligible fanout_table fanout_bus.subscription_count TRUE
        (publish_enter fanout_bus demo_event).1).Pairwise (fun i j => i < j) ∧
      (∀ i, i ∈ eligible fanout_table fanout_bus.subscription_count TRUE
          (publish_enter fanout_bus demo_event).1 ↔
        i < fanout_bus.subscription_count ∧ ∃ sub, fanout_table[i]? = some sub ∧
          sub.is_sync = TRUE ∧
          (sub.event_type = 0 ∨
            sub.event_type = (publish_enter fanout_bus demo_event).1.type) ∧
          sub.handler.isSome = true) ∧
      ((∀ ev, QuietFor fanout_table TRUE ev) →
        (obs_calls o).map (fun c => (c.1, c.2.1, c.2.2.1)) =
          (eligible fanout_table fanout_bus.subscription_count TRUE
            (publish_enter fanout_bus demo_event).1).map
            (fun i => (i, (publish_enter fanout_bus demo_event).1, 0))) :=
  sync_fanout 4 fanout_bus demo_event fanout_table
    (bus_init_wf storage_bus none (some fanout_table) 4 (by decide) (by decide)
      (fun _ h => nomatch h)).1
    (by decide) (by decide) rfl (by decide)

/-- Counterexample to C4 as stated: on the bus whose only subscription is a sync
wildcard handler that republishes the event it receives, a bus that is
initialised and at depth 0, one publish returns `ERR_OK` after subscription 0
was called three times, at depths 0, 1 and 2, and not exactly once. -/
theorem sync_fanout_counterexample :
    reentrant_bus.is_initialized = TRUE ∧ reentrant_bus.recursion_depth = 0 ∧
      reentrant_bus.subscriptions = some reentrant_table ∧
      ∃ b' o, aegis_domain_event_publish 4 reentrant_bus demo_event = some (ERR_OK, b', o) ∧
        (obs_calls o).map (fun c => (c.1, c.2.2.1)) = [(0, 0), (0, 1), (0, 2)] := by
  refine ⟨by decide, by decide, rfl, ?_⟩
  obtain ⟨b', o, hpub, c1, -, -⟩ := reentrant_chain
    { event_type := 0, handler := some republish_handler, ctx := 0, is_sync := TRUE,
      priority := 0 }
    republish_handler rfl rfl rfl (fun ev _ => ⟨ev, rfl⟩) 3 4 reentrant_bus demo_event
    (bus_init_wf storage_bus none (some reentrant_table) 1 (by decide) (by decide)
      (fun _ h => nomatch h)).1
    (by decide) rfl (by decide) (by decide) (by decide)
  exact ⟨b', o, hpub, c1⟩

/-- C5 (deferred delivery): on an initialised bus whose handlers do not
publish, with `P` events pending, a top-level publish returns `ERR_OK` and
calls only subscriptions with `is_sync == TRUE`; `aegis_domain_event_process(bus, max)`
returns `P` for `max == 0` and `min(max, P)` otherwise, removes exactly that many
events from the front of the queue, dispatches each removed event, in queue
order, once to every subscription with `is_sync == FALSE` whose filter matches
(in table order; an entry whose handler is `NULL` has nothing to call), adds
the returned count to `total_processed` and the number of handler calls that
returned `EVENT_HANDLER_OK` to `async_handled`. -/
theorem deferred_delivery (fuel : Nat) (b : AegisDomainEventBus)
    (tbl : List AegisEventSubscription) (e : AegisDomainEvent) (max : Nat)
    (hwf : BusWF b) (hi : b.is_initialized ≠ 0) (hd : b.recursion_depth = 0)
    (htbl : b.subscriptions.getD [] = tbl) (hnp : NoPublish tbl) (hmax : max < 256)
    (hfuel : DOMAIN_EVENT_QUEUE_SIZE + 1 ≤ fuel) :
    (∃ b1 o1, aegis_domain_event_publish fuel b e = some (ERR_OK, b1, o1) ∧
        ∀ c ∈ obs_calls o1, ∃ sub, tbl[c.1]? = some sub ∧ sub.is_sync = TRUE) ∧
      process_count max 0 (pending_events b).length =
        (if max = 0 then (pending_events b).length else min max (pending_events b).length) ∧
      (∃ b2, aegis_domain_event_process fuel b max =
          some (process_count max 0 (pending_events b).length, b2,
            process_obs tbl b.subscription_count
              ((pending_events b).take (process_count max 0 (pending_events b).length))) ∧
        pending_events b2 =
          (pending_events b).drop (process_count max 0 (pending_events b).length) ∧
        b2.total_processed =
          (b.total_processed + process_count max 0 (pending_events b).length) % 4294967296 ∧
        b2.async_handled =
          (b.async_handled + obs_handled FALSE
            (process_obs tbl b.subscription_count
              ((pending_events b).take (process_count max 0 (pending_events b).length)))) %
            4294967296) ∧
      ∀ ev, (obs_calls (dispatch_obs tbl (List.range b.subscription_count) FALSE ev 0)).map
          (fun c => (c.1, c.2.1, c.2.2.1)) =
        (eligible tbl b.subscription_count FALSE ev).map fun i => (i, ev, 0) := by
  have hQ := queue_size_eq
  have hle := queueWF_length_le _ _ hwf.1
  rw [hQ] at hle hfuel
  obtain ⟨f, rfl⟩ : ∃ f, fuel = f + 1 := ⟨fuel - 1, by omega⟩
  have hcount : process_count max 0 (pending_events b).length =
      (if max = 0 then (pending_events b).length else min max (pending_events b).length) := by
    unfold process_count
    rw [Nat.sub_zero]
  have hcle : process_count max 0 (pending_events b).length ≤ 32 := by
    rw [hcount]
    split_ifs <;> omega
  refine ⟨?_, hcount, ?_, fun ev => dispatch_obs_calls tbl FALSE ev 0 _⟩
  · obtain ⟨b1, o1, hpub, hcalls⟩ := publish_quiet_calls f b e tbl hwf hi
      (by rw [hd, max_depth_eq]; omega) htbl (fun ev => noPublish_quiet tbl hnp TRUE ev)
    refine ⟨b1, o1, hpub, fun c hc => ?_⟩
    have hm : (c.1, c.2.1, c.2.2.1) ∈ (obs_calls o1).map (fun c => (c.1, c.2.1, c.2.2.1)) :=
      List.mem_map_of_mem _ hc
    rw [hcalls, List.mem_map] at hm
    obtain ⟨i, hi2, hieq⟩ := hm
    obtain ⟨-, sub, hs1, hs2, -, -⟩ := (mem_eligible _ _ _ _ _).mp hi2
    have : i = c.1 := congrArg Prod.fst hieq
    subst this
    exact ⟨sub, hs1, hs2⟩
  · obtain ⟨b2, hpl, -, hpend, htp, hah, -⟩ := process_loop_quiet
      (aegis_domain_event_publish (f + 1)) tbl max (f + 1) (pending_events b) b zero_event 0 hwf hd
      htbl rfl (fun ev _ => noPublish_quiet tbl hnp FALSE ev) (by omega) (by omega)
    rw [Nat.zero_add] at hpl
    refine ⟨b2, ?_, hpend, htp, hah⟩
    unfold aegis_domain_event_process
    rw [if_neg hi]
    exact hpl

theorem deferred_delivery_witness :
    (∃ b1 o1, aegis_domain_event_publish 33 fanout_bus_pending demo_event =
          some (ERR_OK, b1, o1) ∧
        ∀ c ∈ obs_calls o1, ∃ sub, fanout_table[c.1]? = some sub ∧ sub.is_sync = TRUE) ∧
      process_count 1 0 (pending_events fanout_bus_pending).length =
        (if 1 = 0 then (pending_events fanout_bus_pending).length
        else min 1 (pending_events fanout_bus_pending).length) ∧
      (∃ b2, aegis_domain_event_process 33 fanout_bus_pending 1 =
          some (process_count 1 0 (pending_events fanout_bus_pending).length, b2,
            process_obs fanout_table fanout_bus_pending.subscription_count
              ((pending_events fanout_bus_pending).take
                (process_count 1 0 (pending_events fanout_bus_pending).length))) ∧
        pending_events b2 =
          (pending_events fanout_bus_pending).drop
            (process_count 1 0 (pending_events fanout_bus_pending).length) ∧
        b2.total_processed =
          (fanout_bus_pending.total_processed +
            process_count 1 0 (pending_events fanout_bus_pending).length) % 4294967296 ∧
        b2.async_handled =
          (fanout_bus_pending.async_handled + obs_handled FALSE
            (process_obs fanout_table fanout_bus_pending.subscription_count
              ((pending_events fanout_bus_pending).take
                (process_count 1 0 (pending_events fanout_bus_pending).length)))) %
            4294967296) ∧
      ∀ ev, (obs_calls (dispatch_obs fanout_table
            (List.range fanout_bus_pending.subscription_count) FALSE ev 0)).map
          (fun c => (c.1, c.2.1, c.2.2.1)) =
        (eligible fanout_table fanout_bus_pending.subscription_count FALSE ev).map
          fun i => (i, ev, 0) :=
  deferred_delivery 33 fanout_bus_pending fanout_table demo_event 1
    fanout_bus_pending_spec.1 fanout_bus_pending_spec.2.1 fanout_bus_pending_spec.2.2.1
    fanout_bus_pending_spec.2.2.2 fanout_quiet (by decide) (by decide)

/-- C6 (queue-full backpressure), for handlers that do not publish: from a bus
just initialised by `aegis_domain_event_bus_init`, publishing `N > 32` events
with no processing in between returns `ERR_OK` every time; the copies of the
first 32 events are the content of the async queue and the others are dropped,
`dropped_events` ending at `N - 32`; every publish after the 32nd leaves
`async_queue` as it was and adds one to `dropped_events`; the following
`aegis_domain_event_process(bus, 0)` returns 32, dequeues exactly the 32 accepted
copies in order and empties the queue. -/
theorem queue_full_backpressure (fuel : Nat) (storage : AegisDomainEventBus)
    (trace : Option AegisTraceLog) (subs : Option (List AegisEventSubscription)) (count : Nat)
    (tbl : List AegisEventSubscription) (es : List AegisDomainEvent)
    (hinit : (aegis_domain_event_bus_init storage trace subs count).1 = ERR_OK)
    (ht : TraceWF trace) (htbl : subs.getD [] = tbl) (hnp : NoPublish tbl)
    (hN : DOMAIN_EVENT_QUEUE_SIZE < es.length) (hfuel : DOMAIN_EVENT_QUEUE_SIZE + 1 ≤ fuel) :
    ∃ b' o b'',
      bus_run fuel (aegis_domain_event_bus_init storage trace subs count).2
          (es.map BusCall.publish) =
        some (List.replicate es.length (BusRet.code ERR_OK), b', o) ∧
      List.Forall₂ IsCopy es (obs_published o) ∧
      pending_events b' = (obs_published o).take DOMAIN_EVENT_QUEUE_SIZE ∧
      obs_enqueued o = (obs_published o).take DOMAIN_EVENT_QUEUE_SIZE ∧
      obs_dropped o = (obs_published o).drop DOMAIN_EVENT_QUEUE_SIZE ∧
      b'.dropped_events = (es.length - DOMAIN_EVENT_QUEUE_SIZE) % 4294967296 ∧
      (∀ k e, DOMAIN_EVENT_QUEUE_SIZE ≤ k → es[k]? = some e →
        ∃ rs bk ok bk1 ok1,
          bus_run fuel (aegis_domain_event_bus_init storage trace subs count).2
              ((es.take k).map BusCall.publish) = some (rs, bk, ok) ∧
            aegis_domain_event_publish fuel bk e = some (ERR_OK, bk1, ok1) ∧
            bk1.async_queue = bk.async_queue ∧
            bk1.dropped_events = (bk.dropped_events + 1) % 4294967296) ∧
      aegis_domain_event_process fuel b' 0 =
        some (DOMAIN_EVENT_QUEUE_SIZE, b'',
          process_obs tbl count ((obs_published o).take DOMAIN_EVENT_QUEUE_SIZE)) ∧
      obs_dequeued (process_obs tbl count ((obs_published o).take DOMAIN_EVENT_QUEUE_SIZE)) =
        (obs_published o).take DOMAIN_EVENT_QUEUE_SIZE ∧
      pending_events b'' = [] := by
  obtain ⟨h1, h2⟩ := bus_init_ok storage trace subs count hinit
  obtain ⟨hwf, hp0, -⟩ := bus_init_wf storage trace subs count h1 h2 ht
  obtain ⟨f1, f2, f3, f4, -, f6, -, -⟩ := bus_init_fields storage trace subs count h1 h2
  generalize (aegis_domain_event_bus_init storage trace subs count).2 = b0 at hwf hp0 f1 f2 f3 f4 f6
  have hi : b0.is_initialized ≠ 0 := by
    rw [f1]
    decide
  have hQ := queue_size_eq
  rw [hQ] at hN hfuel ⊢
  obtain ⟨f, rfl⟩ : ∃ f, fuel = f + 1 := ⟨fuel - 1, by omega⟩
  have hd0 : b0.recursion_depth < MAX_EVENT_RECURSION_DEPTH := by
    rw [f2, max_depth_eq]
    omega
  have htbl0 : b0.subscriptions.getD [] = tbl := by rw [f3]; exact htbl
  have hq : ∀ ev, QuietFor tbl TRUE ev := fun ev => noPublish_quiet tbl hnp TRUE ev
  obtain ⟨b', o, hrun, e1, i1, i2, i3, i4, i5⟩ := publish_run_quiet f tbl hq es b0 hwf hi hd0 htbl0
  rw [hp0, List.length_nil, Nat.sub_zero, hQ] at i4 i5
  have hpend : pending_events b' = (obs_published o).take 32 := by
    have := e1.queue
    rw [i3, hp0, i4] at this
    exact this
  have hplen : (pending_events b').length = 32 := by
    rw [hpend, List.length_take, i2]
    omega
  obtain ⟨b'', hpl, -, hpend2, -, -, -⟩ := process_loop_quiet
    (aegis_domain_event_publish (f + 1)) tbl 0 (f + 1) (pending_events b') b' zero_event 0 e1.wf
    (by rw [e1.depth]; exact f2) (by rw [e1.subs]; exact htbl0) rfl
    (fun ev _ => noPublish_quiet tbl hnp FALSE ev)
    (by unfold process_count; rw [if_pos rfl, hplen]; omega)
    (by unfold process_count; rw [if_pos rfl, hplen]; omega)
  have hpc : process_count 0 0 (pending_events b').length = 32 := by
    unfold process_count
    rw [if_pos rfl, hplen]
  rw [hpc, Nat.zero_add, e1.cnt, f4, List.take_of_length_le (by omega), hpend] at hpl
  rw [hpc, List.drop_of_length_le (by omega)] at hpend2
  refine ⟨b', o, b'', hrun, ?_, hpend, i4, i5, ?_, ?_, ?_, (process_obs_dequeued _ _ _).1, hpend2⟩
  · have := copies_paired o e1.copies
    rw [i1] at this
    exact this
  · rw [e1.dr, f6, i5, List.length_drop, i2, Nat.zero_add]
  · intro k e hk hek
    have hklt : k < es.length := by
      by_contra hc
      rw [List.getElem?_eq_none (by omega)] at hek
      exact absurd hek (by simp)
    obtain ⟨bk, ok, hrunk, ek, -, j2, j3, j4, -⟩ :=
      publish_run_quiet f tbl hq (es.take k) b0 hwf hi hd0 htbl0
    rw [hp0, List.length_nil, Nat.sub_zero, hQ] at j4
    rw [List.length_take] at j2
    have hpk : pending_events bk = (obs_published ok).take 32 := by
      have := ek.queue
      rw [j3, hp0, j4] at this
      exact this
    have hpklen : (pending_events bk).length = 32 := by
      rw [hpk, List.length_take, j2]
      omega
    have hik : bk.is_initialized ≠ 0 := by rw [ek.init]; exact hi
    obtain ⟨bk1, hpub, hfull⟩ := publish_quiet f bk e tbl ek.wf hik
      (by rw [ek.depth]; exact hd0) (by rw [ek.subs]; exact htbl0) hq
    obtain ⟨-, ek1, -⟩ := publish_spec (f + 1) bk e _ ek.wf hik hpub
    simp only at ek1
    have hdr := ek1.dr
    rw [if_neg (by rw [hpklen, hQ]; omega)] at hpub hdr
    obtain ⟨-, -, -, q4, -⟩ := publish_obs_proj e (publish_enter bk e).1 _
      (BusObs.dropped (publish_enter bk e).1)
      (dispatch_obs_proj tbl (List.range bk.subscription_count) TRUE (publish_enter bk e).1
        bk.recursion_depth)
    rw [q4] at hdr
    exact ⟨_, bk, ok, bk1, _, hrunk, hpub, hfull (by rw [hpklen, hQ]), hdr⟩
  · unfold aegis_domain_event_process
    rw [if_neg (by rw [e1.init]; exact hi)]
    exact hpl

theorem queue_full_backpressure_witness :
    ∃ b' o b'',
      bus_run 33 (aegis_domain_event_bus_init storage_bus none none 0).2
          ((List.replicate 40 demo_event).map BusCall.publish) =
        some (List.replicate (List.replicate 40 demo_event).length (BusRet.code ERR_OK), b', o) ∧
      List.Forall₂ IsCopy (List.replicate 40 demo_event) (obs_published o) ∧
      pending_events b' = (obs_published o).take DOMAIN_EVENT_QUEUE_SIZE ∧
      obs_enqueued o = (obs_published o).take DOMAIN_EVENT_QUEUE_SIZE ∧
      obs_dropped o = (obs_published o).drop DOMAIN_EVENT_QUEUE_SIZE ∧
      b'.dropped_events =
        ((List.replicate 40 demo_event).length - DOMAIN_EVENT_QUEUE_SIZE) % 4294967296 ∧
      (∀ k e, DOMAIN_EVENT_QUEUE_SIZE ≤ k → (List.replicate 40 demo_event)[k]? = some e →
        ∃ rs bk ok bk1 ok1,
          bus_run 33 (aegis_domain_event_bus_init storage_bus none none 0).2
              (((List.replicate 40 demo_event).take k).map BusCall.publish) = some (rs, bk, ok) ∧
            aegis_domain_event_publish 33 bk e = some (ERR_OK, bk1, ok1) ∧
            bk1.async_queue = bk.async_queue ∧
            bk1.dropped_events = (bk.dropped_events + 1) % 4294967296) ∧
      aegis_domain_event_process 33 b' 0 =
        some (DOMAIN_EVENT_QUEUE_SIZE, b'',
          process_obs [] 0 ((obs_published o).take DOMAIN_EVENT_QUEUE_SIZE)) ∧
      obs_dequeued (process_obs [] 0 ((obs_published o).take DOMAIN_EVENT_QUEUE_SIZE)) =
        (obs_published o).take DOMAIN_EVENT_QUEUE_SIZE ∧
      pending_events b'' = [] :=
  queue_full_backpressure 33 storage_bus none none 0 [] (List.replicate 40 demo_event)
    (by decide) (fun _ h => nomatch h) rfl (fun _ h => nomatch h) (by decide) (by decide)

/-- Counterexample to C6 as stated: on the freshly initialised bus whose only
subscription is an async wildcard handler that republishes the event it
receives, 33 publishes return `ERR_OK`, and the following
`aegis_domain_event_process(bus, 0)` does not return 32: every event it
dequeues is published again and refills the queue, so the loop never ends,
whatever the fuel. -/
theorem queue_full_backpressure_counterexample :
    (aegis_domain_event_bus_init storage_bus none (some relay_table) 1).1 = ERR_OK ∧
      ∃ b' o, bus_run 4 relay_bus ((List.replicate 33 demo_event).map BusCall.publish) =
          some (List.replicate 33 (BusRet.code ERR_OK), b', o) ∧
        ∀ fuel, aegis_domain_event_process fuel b' 0 = none := by
  refine ⟨by decide, ?_⟩
  have hwf0 := (bus_init_wf storage_bus none (some relay_table) 1 (by decide) (by decide)
    (fun _ h => nomatch h))
  obtain ⟨b', o, hrun, e1, -, i2, i3, i4, -⟩ := publish_run_quiet 3 relay_table relay_quiet
    (List.replicate 33 demo_event) relay_bus hwf0.1 (by decide) (by decide) rfl
  rw [List.length_replicate] at hrun i2
  refine ⟨b', o, hrun, fun fuel => ?_⟩
  have hp0 : pending_events relay_bus = [] := hwf0.2.1
  rw [hp0, List.length_nil, Nat.sub_zero] at i4
  have hq := e1.queue
  rw [i3, hp0, i4] at hq
  have hlen : (pending_events b').length = DOMAIN_EVENT_QUEUE_SIZE := by
    have hl := congrArg List.length hq
    simp only [List.nil_append, List.length_take, i2] at hl
    rw [hl, queue_size_eq]
    rfl
  unfold aegis_domain_event_process
  rw [if_neg (by rw [e1.init]; decide)]
  exact relay_process_diverges fuel fuel b' zero_event 0 e1.wf (by rw [e1.init]; decide)
    (by rw [e1.depth]; rfl) (by rw [e1.subs]; rfl) (by rw [e1.cnt]; rfl) hlen

/-- C8 (recursion refusal and termination): on an initialised bus whose only
subscription is a sync wildcard handler that publishes once on every
invocation, a top-level publish returns `ERR_OK`; the handler is invoked exactly
`MAX_EVENT_RECURSION_DEPTH` (3) times, at depths 0, 1 and 2; the one invocation
attempted at depth 3 is refused without a call; 4 events are published and
`total_published` grows by 4.  On any initialised bus, with any handlers,
publish returns `ERR_OK`, restores the recursion depth, calls handlers only at
depths below `MAX_EVENT_RECURSION_DEPTH` and refuses at that depth. -/
theorem recursion_refusal (fuel : Nat) (b : AegisDomainEventBus) (e : AegisDomainEvent)
    (sub : AegisEventSubscription) (h : DomainEventHandler)
    (hwf : BusWF b) (hi : b.is_initialized ≠ 0) (hd : b.recursion_depth = 0)
    (hsubs : b.subscriptions = some [sub]) (hcnt : b.subscription_count = 1)
    (hs0 : sub.event_type = 0) (hs1 : sub.is_sync = TRUE) (hh : sub.handler = some h)
    (hone : ∀ ev ctx, ∃ e', (h ev ctx).publishes = [e'])
    (hfuel : MAX_EVENT_RECURSION_DEPTH + 1 ≤ fuel) :
    (∃ b' o, aegis_domain_event_publish fuel b e = some (ERR_OK, b', o) ∧
        (obs_calls o).map (fun c => (c.1, c.2.2.1)) = [(0, 0), (0, 1), (0, 2)] ∧
        (obs_refused o).map (fun c => (c.1, c.2.2)) = [(0, 3)] ∧
        (obs_published o).length = 4 ∧
        b'.total_published = (b.total_published + 4) % 4294967296 ∧
        b'.recursion_depth = 0) ∧
      ∀ b2 e2, BusWF b2 → b2.is_initialized ≠ 0 →
        ∃ b3 o3, aegis_domain_event_publish fuel b2 e2 = some (ERR_OK, b3, o3) ∧
          b3.recursion_depth = b2.recursion_depth ∧
          (∀ c ∈ obs_calls o3, c.2.2.1 < MAX_EVENT_RECURSION_DEPTH) ∧
          ∀ c ∈ obs_refused o3, MAX_EVENT_RECURSION_DEPTH ≤ c.2.2 := by
  constructor
  · obtain ⟨b', o, hpub, c1, c2, c3⟩ := reentrant_chain sub h hs0 hs1 hh hone 3 fuel b e hwf hi
      (by rw [hsubs]; rfl) hcnt (by rw [hd]; rfl) (by rw [max_depth_eq] at hfuel; omega)
    obtain ⟨-, e1, -⟩ := publish_spec fuel b e _ hwf hi hpub
    simp only at e1
    refine ⟨b', o, hpub, ?_, c2, c3, ?_, ?_⟩
    · rw [c1, hd]
      rfl
    · rw [e1.tp, c3]
    · rw [e1.depth, hd]
  · intro b2 e2 hwf2 hi2
    obtain ⟨b3, o3, hpub, e1, d1, d2⟩ := publish_depths fuel b2 e2 hwf2 hi2 hfuel
    exact ⟨b3, o3, hpub, e1.depth, fun c hc => (d1 c hc).2, fun c hc => (d2 c hc).2⟩

theorem recursion_refusal_witness :
    (∃ b' o, aegis_domain_event_publish 4 reentrant_bus demo_event = some (ERR_OK, b', o) ∧
        (obs_calls o).map (fun c => (c.1, c.2.2.1)) = [(0, 0), (0, 1), (0, 2)] ∧
        (obs_refused o).map (fun c => (c.1, c.2.2)) = [(0, 3)] ∧
        (obs_published o).length = 4 ∧
        b'.total_published = (reentrant_bus.total_published + 4) % 4294967296 ∧
        b'.recursion_depth = 0) ∧
      ∀ b2 e2, BusWF b2 → b2.is_initialized ≠ 0 →
        ∃ b3 o3, aegis_domain_event_publish 4 b2 e2 = some (ERR_OK, b3, o3) ∧
          b3.recursion_depth = b2.recursion_depth ∧
          (∀ c ∈ obs_calls o3, c.2.2.1 < MAX_EVENT_RECURSION_DEPTH) ∧
          ∀ c ∈ obs_refused o3, MAX_EVENT_RECURSION_DEPTH ≤ c.2.2 :=
  recursion_refusal 4 reentrant_bus demo_event
    { event_type := 0, handler := some republish_handler, ctx := 0, is_sync := TRUE,
      priority := 0 }
    republish_handler
    (bus_init_wf storage_bus none (some reentrant_table) 1 (by decide) (by decide)
      (fun _ h => nomatch h)).1
    (by decide) (by decide) rfl (by decide) rfl rfl rfl (fun ev _ => ⟨ev, rfl⟩)
    (by decide)

/-- C10 (publish fails only on misuse): `aegis_domain_event_publish` returns,
and its status is `ERR_NULL_PTR` exactly when the bus or the event is `NULL`,
`ERR_NOT_INITIALIZED` exactly when both are given and the bus is not
initialised, and `ERR_OK` in every other case.  Nothing is assumed on the fill
level of the queue, on the handlers and their results, or on the recursion
depth of the bus. -/
theorem publish_fails_only_on_misuse (fuel : Nat) (bus : Option AegisDomainEventBus)
    (event : Option AegisDomainEvent)
    (hwf : ∀ b, bus = some b → b.is_initialized ≠ 0 → BusWF b)
    (hfuel : MAX_EVENT_RECURSION_DEPTH + 1 ≤ fuel) :
    ∃ code bus' o, aegis_domain_event_publish_nullable fuel bus event = some (code, bus', o) ∧
      (code = ERR_NULL_PTR ↔ bus = none ∨ event = none) ∧
      (code = ERR_NOT_INITIALIZED ↔
        ∃ b e, bus = some b ∧ event = some e ∧ b.is_initialized = 0) ∧
      (code = ERR_OK ↔ ∃ b e, bus = some b ∧ event = some e ∧ b.is_initialized ≠ 0) := by
  cases bus with
  | none =>
    refine ⟨ERR_NULL_PTR, none, [], ?_, ?_, ?_, ?_⟩
    · cases event <;> rfl
    · simp
    · simp
    · simp
  | some b =>
    cases event with
    | none =>
      refine ⟨ERR_NULL_PTR, some b, [], rfl, ?_, ?_, ?_⟩
      · simp
      · simp
      · simp
    | some e =>
      obtain ⟨f, rfl⟩ : ∃ f, fuel = f + 1 := ⟨fuel - 1, by rw [max_depth_eq] at hfuel; omega⟩
      by_cases hi : b.is_initialized = 0
      · refine ⟨ERR_NOT_INITIALIZED, some b, [], ?_, ?_, ?_, ?_⟩
        · simp only [aegis_domain_event_publish_nullable, publish_uninitialised f b e hi,
            Option.map_some']
        · simp
        · simp [hi]
        · simp [hi]
      · have hw := hwf b rfl hi
        have ht := publish_total (f + 1) b e hw (by omega) (by omega)
        cases hpub : aegis_domain_event_publish (f + 1) b e with
        | none => rw [hpub] at ht; exact absurd ht (by decide)
        | some r =>
          obtain ⟨c1, b1, o1⟩ := r
          obtain ⟨hc, -, -⟩ := publish_spec (f + 1) b e _ hw hi hpub
          simp only at hc
          subst hc
          refine ⟨ERR_OK, some b1, o1, ?_, ?_, ?_, ?_⟩
          · simp only [aegis_domain_event_publish_nullable, hpub, Option.map_some']
          · simp
          · simp [hi]
          · simp [hi]

theorem publish_fails_only_on_misuse_witness :
    ∃ code bus' o,
      aegis_domain_event_publish_nullable 4 (some reentrant_bus) (some demo_event) =
        some (code, bus', o) ∧
      (code = ERR_NULL_PTR ↔ some reentrant_bus = none ∨ some demo_event = none) ∧
      (code = ERR_NOT_INITIALIZED ↔
        ∃ b e, some reentrant_bus = some b ∧ some demo_event = some e ∧ b.is_initialized = 0) ∧
      (code = ERR_OK ↔
        ∃ b e, some reentrant_bus = some b ∧ some demo_event = some e ∧ b.is_initialized ≠ 0) :=
  publish_fails_only_on_misuse 4 (some reentrant_bus) (some demo_event)
    (fun b hb _ => Option.some.inj hb ▸
      (bus_init_wf storage_bus none (some reentrant_table) 1 (by decide) (by decide)
        (fun _ h => nomatch h)).1)
    (by decide)

/-! ## Command records and their representation -/

theorem cmd_bytes_length (c : AegisCommand) : (cmd_bytes c).length = sizeof_AegisCommand := by
  simp [cmd_bytes, le_bytes_length, APP_CMD_PAYLOAD_MAX, sizeof_AegisCommand]

theorem cmd_bytes_split (c : AegisCommand) :
    cmd_bytes c =
      le_bytes 2 c.type ++ ([0, 0] ++ (le_bytes 4 c.timestamp ++ (le_bytes 2 c.entity_id ++
        (le_bytes 2 c.payload_size ++
          (List.range APP_CMD_PAYLOAD_MAX).map fun i => c.payload.getD i 0)))) := by
  simp [cmd_bytes]

theorem cmd_memcpy_eq (c : AegisCommand) :
    cmd_memcpy c =
      { type := c.type % 65536
        timestamp := c.timestamp % 4294967296
        entity_id := c.entity_id % 65536
        payload_size := c.payload_size % 65536
        payload := (List.range APP_CMD_PAYLOAD_MAX).map fun i => c.payload.getD i 0 } := by
  have h1 : (cmd_bytes c).take 2 = le_bytes 2 c.type := by
    rw [cmd_bytes_split, take_append_exact _ _ _ (le_bytes_length _ _)]
  have h2 : ((cmd_bytes c).drop 4).take 4 = le_bytes 4 c.timestamp := by
    rw [cmd_bytes_split, drop_append_more _ _ 2 2 (le_bytes_length _ _),
      drop_append_exact [0, 0] _ 2 rfl, take_append_exact _ _ _ (le_bytes_length _ _)]
  have h3 : ((cmd_bytes c).drop 8).take 2 = le_bytes 2 c.entity_id := by
    rw [cmd_bytes_split, drop_append_more _ _ 2 6 (le_bytes_length _ _),
      drop_append_more [0, 0] _ 2 4 rfl, drop_append_exact _ _ 4 (le_bytes_length _ _),
      take_append_exact _ _ _ (le_bytes_length _ _)]
  have h4 : ((cmd_bytes c).drop 10).take 2 = le_bytes 2 c.payload_size := by
    rw [cmd_bytes_split, drop_append_more _ _ 2 8 (le_bytes_length _ _),
      drop_append_more [0, 0] _ 2 6 rfl, drop_append_more _ _ 4 2 (le_bytes_length _ _),
      drop_append_exact _ _ 2 (le_bytes_length _ _),
      take_append_exact _ _ _ (le_bytes_length _ _)]
  have h5 : ∀ i, i < APP_CMD_PAYLOAD_MAX → (cmd_bytes c).getD (12 + i) 0 = c.payload.getD i 0 := by
    intro i hi
    rw [← drop_getD, cmd_bytes_split, drop_append_more _ _ 2 10 (le_bytes_length _ _),
      drop_append_more [0, 0] _ 2 8 rfl, drop_append_more _ _ 4 4 (le_bytes_length _ _),
      drop_append_more _ _ 2 2 (le_bytes_length _ _),
      drop_append_exact _ _ 2 (le_bytes_length _ _), List.getD_eq_getElem?_getD,
      List.getElem?_map, List.getElem?_range hi]
    rfl
  have p2 : ∀ n, le_value (le_bytes 2 n) = n % 65536 := by
    intro n
    rw [le_value_le_bytes]
    norm_num
  have p4 : ∀ n, le_value (le_bytes 4 n) = n % 4294967296 := by
    intro n
    rw [le_value_le_bytes]
    norm_num
  unfold cmd_memcpy cmd_of_bytes
  rw [h1, h2, h3, h4, p2, p2, p2, p4, AegisCommand.mk.injEq]
  refine ⟨rfl, rfl, rfl, rfl, ?_⟩
  apply List.map_congr_left
  intro i hi
  exact h5 i (List.mem_range.mp hi)

theorem cmd_memcpy_of_wf (c : AegisCommand) (h : CmdWF c) : cmd_memcpy c = c := by
  obtain ⟨h1, h2, h3, h4, h5⟩ := h
  rw [cmd_memcpy_eq, Nat.mod_eq_of_lt h1, Nat.mod_eq_of_lt h2, Nat.mod_eq_of_lt h3,
    Nat.mod_eq_of_lt h4]
  have hd : ((List.range APP_CMD_PAYLOAD_MAX).map fun i => c.payload.getD i 0) = c.payload := by
    apply list_ext_getD
    · simp [h5]
    · intro i hi
      simp only [List.length_map, List.length_range] at hi
      rw [List.getD_eq_getElem?_getD, List.getElem?_map, List.getElem?_range hi]
      rfl
  rw [hd]

theorem cmd_memcpy_wf (c : AegisCommand) : CmdWF (cmd_memcpy c) := by
  rw [cmd_memcpy_eq]
  refine ⟨Nat.mod_lt _ (by norm_num), Nat.mod_lt _ (by norm_num), Nat.mod_lt _ (by norm_num),
    Nat.mod_lt _ (by norm_num), ?_⟩
  simp

theorem encode_cmds_length (cs : List AegisCommand) :
    (encode_cmds cs).length = sizeof_AegisCommand * cs.length := by
  induction cs with
  | nil => rfl
  | cons c cs ih =>
    simp only [encode_cmds, List.length_append, cmd_bytes_length, ih, List.length_cons]
    ring

theorem encode_cmds_append (a b : List AegisCommand) :
    encode_cmds (a ++ b) = encode_cmds a ++ encode_cmds b := by
  induction a with
  | nil => rfl
  | cons c cs ih => simp [encode_cmds, ih]

theorem decode_encode_cmds (cs : List AegisCommand) (h : ∀ c ∈ cs, CmdWF c) :
    decode_cmds cs.length (encode_cmds cs) = cs := by
  induction cs with
  | nil => rfl
  | cons c cs ih =>
    simp only [List.length_cons, decode_cmds, encode_cmds]
    rw [take_append_exact _ _ _ (cmd_bytes_length c),
      drop_append_exact _ _ _ (cmd_bytes_length c), ih (fun x hx => h x (List.mem_cons_of_mem _ hx))]
    have : cmd_of_bytes (cmd_bytes c) = c := cmd_memcpy_of_wf c (h c (List.mem_cons_self _ _))
    rw [this]

theorem cmdRingWF_count (r : AegisRingBuffer) (cs : List AegisCommand) (h : CmdRingWF r cs) :
    r.count = sizeof_AegisCommand * cs.length := by
  obtain ⟨-, -, hc, -⟩ := h
  rw [← ring_contents_length, hc, encode_cmds_length]

theorem cmdRingWF_pending (q : AegisAppCmdQueue) (cs : List AegisCommand)
    (h : CmdRingWF q.ring cs) : pending_cmds q = cs := by
  unfold pending_cmds
  rw [cmdRingWF_count _ _ h, h.2.2.1, Nat.mul_div_cancel_left _ (by decide)]
  exact decode_encode_cmds cs h.2.2.2

theorem sizeof_cmd_eq : sizeof_AegisCommand = 44 := rfl

theorem cmd_queue_size_eq : CMD_QUEUE_SIZE = 16 := rfl

theorem cmdRingWF_length_le (r : AegisRingBuffer) (cs : List AegisCommand)
    (h : CmdRingWF r cs) : cs.length ≤ CMD_QUEUE_SIZE := by
  have hc := cmdRingWF_count r cs h
  obtain ⟨⟨⟨-, -, hle, -, -⟩, -⟩, hs, -, -⟩ := h
  rw [hs, hc] at hle
  exact Nat.le_of_mul_le_mul_left hle (by decide)


/-! ## The command queue on well-formed states -/

theorem ring_free_eq (r : AegisRingBuffer) (h : RingWF r) :
    aegis_ring_buffer_get_free r = r.size - r.count := by
  obtain ⟨h1, -, h3, -, -⟩ := h
  unfold aegis_ring_buffer_get_free
  omega

theorem cmd_enqueue_full (q : AegisAppCmdQueue) (c : AegisCommand)
    (hi : q.is_initialized ≠ 0) (ht : c.type ≠ CMD_TYPE_INVALID)
    (hfree : aegis_ring_buffer_get_free q.ring < sizeof_AegisCommand) :
    aegis_app_cmd_enqueue q c = (ERR_OUT_OF_RANGE, q) := by
  unfold aegis_app_cmd_enqueue
  rw [if_neg hi, if_neg ht, if_pos hfree]

theorem cmd_enqueue_room (q : AegisAppCmdQueue) (c : AegisCommand)
    (hi : q.is_initialized ≠ 0) (ht : c.type ≠ CMD_TYPE_INVALID) (hwf : RingWF q.ring)
    (hfree : ¬ aegis_ring_buffer_get_free q.ring < sizeof_AegisCommand) :
    aegis_app_cmd_enqueue q c =
      (ERR_OK,
        { q with
          ring := (aegis_ring_buffer_write q.ring
            (some (cmd_bytes { cmd_memcpy c with timestamp := (enqueue_stamp q.trace c).1 }))
            sizeof_AegisCommand).2
          trace := (enqueue_stamp q.trace c).2 }) ∧
      (aegis_ring_buffer_write q.ring
        (some (cmd_bytes { cmd_memcpy c with timestamp := (enqueue_stamp q.trace c).1 }))
        sizeof_AegisCommand).2.count = q.ring.count + sizeof_AegisCommand := by
  have hS := sizeof_cmd_eq
  have hf := ring_free_eq q.ring hwf
  rw [hf, hS] at hfree
  obtain ⟨h1, -, -, h4, -, -, -⟩ := write_spec q.ring
    (cmd_bytes { cmd_memcpy c with timestamp := (enqueue_stamp q.trace c).1 })
    sizeof_AegisCommand hwf (by decide)
  have hmin : min sizeof_AegisCommand (q.ring.size - q.ring.count) = sizeof_AegisCommand := by
    omega
  rw [hmin] at h1 h4
  refine ⟨?_, h4⟩
  unfold aegis_app_cmd_enqueue
  rw [if_neg hi, if_neg ht, hf, if_neg (by omega)]
  cases htr : q.trace with
  | none =>
    simp only [enqueue_stamp, htr] at h1 ⊢
    rw [h1]
    simp [aegis_trace_log_event]
  | some log =>
    simp only [enqueue_stamp, htr] at h1 ⊢
    rw [h1]
    simp

theorem cmd_dequeue_empty (q : AegisAppCmdQueue) (out : AegisCommand)
    (hi : q.is_initialized ≠ 0)
    (hc : aegis_ring_buffer_get_count q.ring < sizeof_AegisCommand) :
    aegis_app_cmd_dequeue q out = (ERR_EMPTY, q, out) := by
  unfold aegis_app_cmd_dequeue
  rw [if_neg hi, if_pos hc]

theorem cmd_dequeue_room (q : AegisAppCmdQueue) (out : AegisCommand)
    (hi : q.is_initialized ≠ 0) (hwf : RingWF q.ring)
    (hc : ¬ aegis_ring_buffer_get_count q.ring < sizeof_AegisCommand) :
    aegis_app_cmd_dequeue q out =
      (ERR_OK,
        { q with
          ring := (aegis_ring_buffer_read q.ring (some (cmd_bytes out)) sizeof_AegisCommand).2.1 },
        cmd_of_bytes ((ring_contents q.ring).take sizeof_AegisCommand)) ∧
      (aegis_ring_buffer_read q.ring (some (cmd_bytes out)) sizeof_AegisCommand).2.1.count +
        sizeof_AegisCommand = q.ring.count ∧
      ring_contents
          (aegis_ring_buffer_read q.ring (some (cmd_bytes out)) sizeof_AegisCommand).2.1 =
        (ring_contents q.ring).drop sizeof_AegisCommand := by
  have hS := sizeof_cmd_eq
  unfold aegis_ring_buffer_get_count at hc
  rw [hS] at hc
  obtain ⟨h1, -, -, -, h5, -, out', h7, h8, -⟩ :=
    read_spec q.ring (cmd_bytes out) sizeof_AegisCommand hwf (by decide)
  obtain ⟨r1, -, r3, -⟩ := read_contents q.ring (cmd_bytes out) sizeof_AegisCommand hwf
    (by decide) (by rw [cmd_bytes_length])
  rw [cmd_bytes_length] at h8
  have hmin : min sizeof_AegisCommand q.ring.count = sizeof_AegisCommand := by omega
  rw [hmin] at h1 r1 r3 h5
  rw [h7, h1, Option.getD_some, List.take_of_length_le (by omega)] at r1
  refine ⟨?_, by rw [h5, hS]; omega, r3⟩
  unfold aegis_app_cmd_dequeue
  simp only [aegis_ring_buffer_get_count]
  rw [if_neg hi, if_neg (by omega), h1, h7, Option.getD_some, r1]
  simp
theorem enqueue_stamp_wf (t : Option AegisTraceLog) (c : AegisCommand) (h : TraceWF t) :
    (enqueue_stamp t c).1 < 4294967296 ∧ TraceWF (enqueue_stamp t c).2 := by
  cases t with
  | none => exact ⟨Nat.zero_lt_succ _, h⟩
  | some log =>
    obtain ⟨h1, h2⟩ := traceWF_timestamp log h
    exact ⟨h2, (traceWF_log_event _ _ _ _ _ h1).1⟩

theorem cmd_enqueue_ok (q : AegisAppCmdQueue) (c : AegisCommand) (hq : CmdQueueWF q)
    (ht : c.type ≠ CMD_TYPE_INVALID) (hlen : (pending_cmds q).length < CMD_QUEUE_SIZE) :
    (aegis_app_cmd_enqueue q c).1 = ERR_OK ∧ CmdQueueWF (aegis_app_cmd_enqueue q c).2 ∧
      pending_cmds (aegis_app_cmd_enqueue q c).2 =
        pending_cmds q ++ [{ cmd_memcpy c with timestamp := (enqueue_stamp q.trace c).1 }] ∧
      (aegis_app_cmd_enqueue q c).2.trace = (enqueue_stamp q.trace c).2 := by
  obtain ⟨hi, hr, htr⟩ := hq
  have hcount := cmdRingWF_count _ _ hr
  obtain ⟨hco, hs, hc, hwf⟩ := hr
  have hS := sizeof_cmd_eq
  have hQ := cmd_queue_size_eq
  have hs' := hs
  rw [hQ, hS] at hs'
  rw [hS] at hcount
  rw [hQ] at hlen
  have hf := ring_free_eq q.ring hco.1
  obtain ⟨e1, -⟩ := cmd_enqueue_room q c hi ht hco.1 (by rw [hf, hS]; omega)
  obtain ⟨s1, s2⟩ := enqueue_stamp_wf q.trace c htr
  obtain ⟨-, w2, -, -, -, -, -⟩ := write_spec q.ring
    (cmd_bytes { cmd_memcpy c with timestamp := (enqueue_stamp q.trace c).1 })
    sizeof_AegisCommand hco.1 (by decide)
  obtain ⟨w1, w3⟩ := write_contents q.ring
    (cmd_bytes { cmd_memcpy c with timestamp := (enqueue_stamp q.trace c).1 })
    sizeof_AegisCommand hco (by decide) (by rw [cmd_bytes_length])
  have hmin : min sizeof_AegisCommand (q.ring.size - q.ring.count) = sizeof_AegisCommand := by
    omega
  rw [hmin, List.take_of_length_le (by rw [cmd_bytes_length])] at w1
  have hcw : CmdWF { cmd_memcpy c with timestamp := (enqueue_stamp q.trace c).1 } := by
    obtain ⟨a1, -, a3, a4, a5⟩ := cmd_memcpy_wf c
    exact ⟨a1, s1, a3, a4, a5⟩
  have hring : CmdRingWF
      (aegis_ring_buffer_write q.ring
        (some (cmd_bytes { cmd_memcpy c with timestamp := (enqueue_stamp q.trace c).1 }))
        sizeof_AegisCommand).2
      (pending_cmds q ++ [{ cmd_memcpy c with timestamp := (enqueue_stamp q.trace c).1 }]) := by
    refine ⟨w3, by rw [w2, hs], ?_, ?_⟩
    · rw [w1, hc, encode_cmds_append]
      simp [encode_cmds]
    · intro x hx
      rcases List.mem_append.mp hx with hx | hx
      · exact hwf x hx
      · rw [List.mem_singleton.mp hx]
        exact hcw
  rw [e1]
  have hp := cmdRingWF_pending
    { q with
      ring := (aegis_ring_buffer_write q.ring
        (some (cmd_bytes { cmd_memcpy c with timestamp := (enqueue_stamp q.trace c).1 }))
        sizeof_AegisCommand).2
      trace := (enqueue_stamp q.trace c).2 } _ hring
  exact ⟨rfl, ⟨hi, by rw [hp]; exact hring, s2⟩, hp, rfl⟩

theorem cmd_enqueue_reject (q : AegisAppCmdQueue) (c : AegisCommand) (hq : CmdQueueWF q)
    (ht : c.type ≠ CMD_TYPE_INVALID) (hlen : (pending_cmds q).length = CMD_QUEUE_SIZE) :
    aegis_app_cmd_enqueue q c = (ERR_OUT_OF_RANGE, q) := by
  obtain ⟨hi, hr, -⟩ := hq
  have hcount := cmdRingWF_count _ _ hr
  have hf := ring_free_eq q.ring hr.1.1
  have hs := hr.2.1
  rw [cmd_queue_size_eq, sizeof_cmd_eq] at hs
  rw [hlen, cmd_queue_size_eq, sizeof_cmd_eq] at hcount
  exact cmd_enqueue_full q c hi ht (by rw [hf, sizeof_cmd_eq]; omega)

theorem cmd_dequeue_some (q : AegisAppCmdQueue) (out c : AegisCommand)
    (cs : List AegisCommand) (hq : CmdQueueWF q) (hp : pending_cmds q = c :: cs) :
    aegis_app_cmd_dequeue q out = ((ERR_OK, (aegis_app_cmd_dequeue q out).2.1, c)) ∧
      CmdQueueWF (aegis_app_cmd_dequeue q out).2.1 ∧
      pending_cmds (aegis_app_cmd_dequeue q out).2.1 = cs ∧
      (aegis_app_cmd_dequeue q out).2.1.trace = q.trace := by
  obtain ⟨hi, hr, htr⟩ := hq
  rw [hp] at hr
  have hcount := cmdRingWF_count _ _ hr
  obtain ⟨hco, hs, hc, hwf⟩ := hr
  have hS := sizeof_cmd_eq
  rw [List.length_cons, hS] at hcount
  obtain ⟨d1, -, d3⟩ := cmd_dequeue_room q out hi hco.1
    (by unfold aegis_ring_buffer_get_count; rw [hS]; omega)
  have r4 := read_coherent q.ring (cmd_bytes out) sizeof_AegisCommand hco
    (by decide) (by rw [cmd_bytes_length])
  obtain ⟨-, h2, -, -, -, -, -⟩ :=
    read_spec q.ring (cmd_bytes out) sizeof_AegisCommand hco.1 (by decide)
  rw [hc, encode_cmds, take_append_exact _ _ _ (cmd_bytes_length c)] at d1
  rw [hc, encode_cmds, drop_append_exact _ _ _ (cmd_bytes_length c)] at d3
  have hcc : cmd_of_bytes (cmd_bytes c) = c := cmd_memcpy_of_wf c (hwf c (List.mem_cons_self _ _))
  rw [hcc] at d1
  have hring : CmdRingWF
      (aegis_ring_buffer_read q.ring (some (cmd_bytes out)) sizeof_AegisCommand).2.1 cs :=
    ⟨r4, by rw [h2, hs], d3, fun x hx => hwf x (List.mem_cons_of_mem _ hx)⟩
  rw [d1]
  have hpd := cmdRingWF_pending
    { q with
      ring := (aegis_ring_buffer_read q.ring (some (cmd_bytes out)) sizeof_AegisCommand).2.1 }
    cs hring
  exact ⟨rfl, ⟨hi, by rw [hpd]; exact hring, htr⟩, hpd, rfl⟩

theorem cmd_dequeue_none (q : AegisAppCmdQueue) (out : AegisCommand) (hq : CmdQueueWF q)
    (hp : pending_cmds q = []) : aegis_app_cmd_dequeue q out = (ERR_EMPTY, q, out) := by
  obtain ⟨hi, hr, -⟩ := hq
  rw [hp] at hr
  have hcount := cmdRingWF_count _ _ hr
  rw [List.length_nil] at hcount
  exact cmd_dequeue_empty q out hi
    (by unfold aegis_ring_buffer_get_count; rw [hcount, sizeof_cmd_eq]; decide)

theorem cmd_clear_ok (q : AegisAppCmdQueue) (hq : CmdQueueWF q) :
    (aegis_app_cmd_clear q).1 = ERR_OK ∧ CmdQueueWF (aegis_app_cmd_clear q).2 ∧
      pending_cmds (aegis_app_cmd_clear q).2 = [] := by
  obtain ⟨hi, hr, htr⟩ := hq
  obtain ⟨⟨⟨g1, g2, -, -, -⟩, -⟩, hs, -, -⟩ := hr
  have hs' := hs
  rw [cmd_queue_size_eq, sizeof_cmd_eq] at hs'
  unfold aegis_app_cmd_clear
  rw [if_neg hi]
  have hring : CmdRingWF (aegis_ring_buffer_clear q.ring) [] := by
    refine ⟨⟨⟨g1, g2, ?_, ?_, ?_⟩, ?_⟩, hs, rfl, fun _ h => absurd h (List.not_mem_nil _)⟩
    · exact Nat.zero_le _
    · show 0 < q.ring.size
      omega
    · show 0 < q.ring.size
      omega
    · show 0 = (0 + 0) % q.ring.size
      simp
  have hpd := cmdRingWF_pending
    { q with
      ring := aegis_ring_buffer_clear q.ring
      trace := aegis_trace_log_event q.trace TRACE_EVENT_CMD_EXEC "CMD-CLEAR" 0 0 } [] hring
  exact ⟨rfl, ⟨hi, by rw [hpd]; exact hring, (traceWF_log_event _ _ _ _ _ htr).1⟩, hpd⟩

theorem cmd_init_ring (storage : AegisAppCmdQueue) (trace : Option AegisTraceLog) :
    (aegis_app_cmd_init storage trace).2.ring =
      { buffer := List.replicate 704 0, size := 704, head := 0, tail := 0, count := 0 } := rfl

theorem cmd_init_wf (storage : AegisAppCmdQueue) (trace : Option AegisTraceLog)
    (ht : TraceWF trace) :
    (aegis_app_cmd_init storage trace).1 = ERR_OK ∧
      CmdQueueWF (aegis_app_cmd_init storage trace).2 ∧
      pending_cmds (aegis_app_cmd_init storage trace).2 = [] ∧
      (aegis_app_cmd_init storage trace).2.trace = trace := by
  have hring : CmdRingWF (aegis_app_cmd_init storage trace).2.ring [] := by
    rw [cmd_init_ring]
    refine ⟨⟨⟨?_, ?_, ?_, ?_, ?_⟩, ?_⟩, ?_, ?_, fun _ h => absurd h (List.not_mem_nil _)⟩
    · show 704 < 65536
      omega
    · exact List.length_replicate _ _
    · exact Nat.zero_le _
    · exact Nat.zero_lt_succ _
    · exact Nat.zero_lt_succ _
    · rfl
    · rfl
    · rfl
  have hpd := cmdRingWF_pending _ [] hring
  exact ⟨rfl, ⟨Nat.succ_ne_zero 0, by rw [hpd]; exact hring, ht⟩, hpd, rfl⟩


/-! ## Runs of calls on the command queue -/

theorem cmd_run_append (q : AegisAppCmdQueue) (a b : List CmdOp) :
    cmd_run q (a ++ b) =
      ((cmd_run q a).1 ++ (cmd_run (cmd_run q a).2 b).1, (cmd_run (cmd_run q a).2 b).2) := by
  induction a generalizing q with
  | nil => rfl
  | cons op ops ih =>
    cases op with
    | enqueue c =>
      rw [List.cons_append]
      simp only [cmd_run]
      rw [ih]
      rfl
    | dequeue out =>
      rw [List.cons_append]
      simp only [cmd_run]
      rw [ih]
      rfl
    | clear =>
      rw [List.cons_append]
      simp only [cmd_run]
      rw [ih]
      rfl

theorem stamped_cmds_length (t : Option AegisTraceLog) (cs : List AegisCommand) :
    (stamped_cmds t cs).length = cs.length := by
  induction cs generalizing t with
  | nil => rfl
  | cons c cs ih => simp [stamped_cmds, ih]

theorem cmd_enqueue_invalid (q : AegisAppCmdQueue) (c : AegisCommand)
    (hi : q.is_initialized ≠ 0) (ht : c.type = CMD_TYPE_INVALID) :
    aegis_app_cmd_enqueue q c = (ERR_INVALID_PARAM, q) := by
  unfold aegis_app_cmd_enqueue
  rw [if_neg hi, if_pos ht]

theorem cmd_get_count_wf (q : AegisAppCmdQueue) (hq : CmdQueueWF q) :
    aegis_app_cmd_get_count q = (ERR_OK, some (pending_cmds q).length) ∧
      q.ring.count = sizeof_AegisCommand * (pending_cmds q).length := by
  obtain ⟨hi, hr, -⟩ := hq
  have hc := cmdRingWF_count _ _ hr
  have hl := cmdRingWF_length_le _ _ hr
  rw [cmd_queue_size_eq] at hl
  refine ⟨?_, hc⟩
  unfold aegis_app_cmd_get_count aegis_ring_buffer_get_count
  rw [if_neg hi, hc, Nat.mul_div_cancel_left _ (by decide), Nat.mod_eq_of_lt (by omega)]

/-- Accepted enqueues of well-formed commands append their stamped copies. -/
theorem enqueue_run (cs : List AegisCommand) (q : AegisAppCmdQueue) (hq : CmdQueueWF q)
    (hcs : ∀ c ∈ cs, CmdWF c ∧ c.type ≠ CMD_TYPE_INVALID)
    (hlen : (pending_cmds q).length + cs.length ≤ CMD_QUEUE_SIZE) :
    (cmd_run q (cs.map CmdOp.enqueue)).1 = cs.map (fun _ => (ERR_OK, none)) ∧
      CmdQueueWF (cmd_run q (cs.map CmdOp.enqueue)).2 ∧
      pending_cmds (cmd_run q (cs.map CmdOp.enqueue)).2 =
        pending_cmds q ++ stamped_cmds q.trace cs := by
  induction cs generalizing q with
  | nil => exact ⟨rfl, hq, by simp [cmd_run, stamped_cmds]⟩
  | cons c cs ih =>
    obtain ⟨hw, ht⟩ := hcs c (List.mem_cons_self _ _)
    rw [List.length_cons] at hlen
    obtain ⟨e1, e2, e3, e4⟩ := cmd_enqueue_ok q c hq ht (by omega)
    rw [cmd_memcpy_of_wf c hw] at e3
    obtain ⟨i1, i2, i3⟩ := ih (aegis_app_cmd_enqueue q c).2 e2
      (fun x hx => hcs x (List.mem_cons_of_mem _ hx))
      (by rw [e3, List.length_append, List.length_singleton]; omega)
    simp only [List.map_cons, cmd_run]
    refine ⟨by rw [i1, e1], i2, ?_⟩
    rw [i3, e3, e4]
    simp [stamped_cmds]

/-- Enqueues that fit are all accepted, whatever the fields of the commands. -/
theorem enqueue_run_status (cs : List AegisCommand) (q : AegisAppCmdQueue) (hq : CmdQueueWF q)
    (hcs : ∀ c ∈ cs, c.type ≠ CMD_TYPE_INVALID)
    (hlen : (pending_cmds q).length + cs.length ≤ CMD_QUEUE_SIZE) :
    (cmd_run q (cs.map CmdOp.enqueue)).1 = cs.map (fun _ => (ERR_OK, none)) ∧
      CmdQueueWF (cmd_run q (cs.map CmdOp.enqueue)).2 ∧
      (pending_cmds (cmd_run q (cs.map CmdOp.enqueue)).2).length =
        (pending_cmds q).length + cs.length := by
  induction cs generalizing q with
  | nil => exact ⟨rfl, hq, rfl⟩
  | cons c cs ih =>
    have ht := hcs c (List.mem_cons_self _ _)
    rw [List.length_cons] at hlen
    obtain ⟨e1, e2, e3, -⟩ := cmd_enqueue_ok q c hq ht (by omega)
    have e5 : (pending_cmds (aegis_app_cmd_enqueue q c).2).length =
        (pending_cmds q).length + 1 := by
      rw [e3, List.length_append, List.length_singleton]
    obtain ⟨i1, i2, i3⟩ := ih (aegis_app_cmd_enqueue q c).2 e2
      (fun x hx => hcs x (List.mem_cons_of_mem _ hx)) (by rw [e5]; omega)
    simp only [List.map_cons, cmd_run]
    refine ⟨by rw [i1, e1], i2, ?_⟩
    rw [i3, e5, List.length_cons]
    omega

/-- Dequeues from a queue that holds enough records deliver them oldest first. -/
theorem dequeue_run (cs : List AegisCommand) (q : AegisAppCmdQueue) (rest : List AegisCommand)
    (outs : List AegisCommand) (hq : CmdQueueWF q) (hp : pending_cmds q = cs ++ rest)
    (hlen : outs.length = cs.length) :
    (cmd_run q (outs.map CmdOp.dequeue)).1 = cs.map (fun c => (ERR_OK, some c)) ∧
      CmdQueueWF (cmd_run q (outs.map CmdOp.dequeue)).2 ∧
      pending_cmds (cmd_run q (outs.map CmdOp.dequeue)).2 = rest ∧
      (cmd_run q (outs.map CmdOp.dequeue)).2.trace = q.trace := by
  induction cs generalizing q outs with
  | nil =>
    have : outs = [] := List.length_eq_zero.mp hlen
    subst this
    exact ⟨rfl, hq, by simpa using hp, rfl⟩
  | cons c cs ih =>
    cases outs with
    | nil => simp at hlen
    | cons out outs =>
      obtain ⟨d1, d2, d3, d4⟩ := cmd_dequeue_some q out c (cs ++ rest) hq hp
      obtain ⟨i1, i2, i3, i4⟩ := ih (aegis_app_cmd_dequeue q out).2.1 outs d2 d3
        (by simpa using hlen)
      have r1 : (aegis_app_cmd_dequeue q out).1 = ERR_OK := by rw [d1]
      have r2 : (aegis_app_cmd_dequeue q out).2.2 = c := by rw [d1]
      simp only [List.map_cons, cmd_run]
      refine ⟨?_, i2, i3, by rw [i4, d4]⟩
      rw [i1, r1, r2, if_pos rfl]

/-- Every run of calls keeps the queue well formed, and the number of records
held follows the statuses of the calls. -/
theorem cmd_run_wf (ops : List CmdOp) (q : AegisAppCmdQueue) (hq : CmdQueueWF q) :
    CmdQueueWF (cmd_run q ops).2 ∧
      (pending_cmds (cmd_run q ops).2).length =
        cmd_net (pending_cmds q).length ops ((cmd_run q ops).1.map Prod.fst) := by
  induction ops generalizing q with
  | nil => exact ⟨hq, rfl⟩
  | cons op ops ih =>
    cases op with
    | enqueue c =>
      simp only [cmd_run, List.map_cons, cmd_net]
      by_cases ht : c.type = CMD_TYPE_INVALID
      · rw [cmd_enqueue_invalid q c hq.1 ht]
        exact ih q hq
      · have hl := cmdRingWF_length_le _ _ hq.2.1
        by_cases hlt : (pending_cmds q).length < CMD_QUEUE_SIZE
        · obtain ⟨e1, e2, e3, -⟩ := cmd_enqueue_ok q c hq ht hlt
          obtain ⟨i1, i2⟩ := ih _ e2
          refine ⟨i1, ?_⟩
          rw [i2, e1, if_pos rfl, e3, List.length_append, List.length_singleton]
        · rw [cmd_enqueue_reject q c hq ht (by omega)]
          exact ih q hq
    | dequeue out =>
      simp only [cmd_run, List.map_cons, cmd_net]
      cases hp : pending_cmds q with
      | nil =>
        rw [cmd_dequeue_none q out hq hp]
        have := ih q hq
        rw [hp] at this
        exact this
      | cons c cs =>
        obtain ⟨d1, d2, d3, -⟩ := cmd_dequeue_some q out c cs hq hp
        obtain ⟨i1, i2⟩ := ih _ d2
        have r1 : (aegis_app_cmd_dequeue q out).1 = ERR_OK := by rw [d1]
        refine ⟨i1, ?_⟩
        rw [i2, r1, if_pos rfl, d3]
        rfl
    | clear =>
      simp only [cmd_run, List.map_cons, cmd_net]
      obtain ⟨c1, c2, c3⟩ := cmd_clear_ok q hq
      obtain ⟨i1, i2⟩ := ih _ c2
      refine ⟨i1, ?_⟩
      rw [i2, c3]
      rfl

/-- In every run of calls on an initialised queue each call returns a status
and every clear returns `ERR_OK`. -/
theorem cmd_run_clears (ops : List CmdOp) (q : AegisAppCmdQueue) (hq : CmdQueueWF q) :
    ((cmd_run q ops).1.map Prod.fst).length = ops.length ∧
      clear_statuses ops ((cmd_run q ops).1.map Prod.fst) := by
  induction ops generalizing q with
  | nil => exact ⟨rfl, trivial⟩
  | cons op ops ih =>
    cases op with
    | enqueue c =>
      obtain ⟨i1, i2⟩ := ih _ (cmd_run_wf [CmdOp.enqueue c] q hq).1
      exact ⟨congrArg Nat.succ i1, i2⟩
    | dequeue out =>
      obtain ⟨i1, i2⟩ := ih _ (cmd_run_wf [CmdOp.dequeue out] q hq).1
      exact ⟨congrArg Nat.succ i1, i2⟩
    | clear =>
      obtain ⟨c1, c2, -⟩ := cmd_clear_ok q hq
      obtain ⟨i1, i2⟩ := ih _ c2
      exact ⟨congrArg Nat.succ i1, c1, i2⟩

theorem enqueue_stamp_fst (t : Option AegisTraceLog) (c : AegisCommand) :
    (enqueue_stamp t c).1 =
      match t with
      | some log => (aegis_trace_get_timestamp log).1
      | none => 0 := by
  cases t <;> rfl

theorem stamped_cmds_none (cs : List AegisCommand) :
    ∀ r ∈ stamped_cmds none cs, r.timestamp = 0 := by
  induction cs with
  | nil => intro r hr; exact absurd hr (List.not_mem_nil _)
  | cons c cs ih =>
    intro r hr
    rcases List.mem_cons.mp hr with h | h
    · rw [h]; rfl
    · exact ih r h

/-- The record the `i`-th accepted enqueue leaves in the queue: the command
with the timestamp read from the log as the earlier enqueues left it. -/
theorem stamped_cmds_getElem (cs : List AegisCommand) (q : AegisAppCmdQueue)
    (hq : CmdQueueWF q) (hcs : ∀ c ∈ cs, c.type ≠ CMD_TYPE_INVALID)
    (hlen : (pending_cmds q).length + cs.length ≤ CMD_QUEUE_SIZE) (i : Nat) (c : AegisCommand)
    (hi : cs[i]? = some c) :
    (stamped_cmds q.trace cs)[i]? =
      some { c with
        timestamp :=
          (enqueue_stamp (cmd_run q ((cs.take i).map CmdOp.enqueue)).2.trace c).1 } := by
  induction cs generalizing q i with
  | nil => simp at hi
  | cons c0 cs ih =>
    cases i with
    | zero =>
      simp only [List.getElem?_cons_zero, Option.some.injEq] at hi
      subst hi
      simp [stamped_cmds, cmd_run]
    | succ j =>
      rw [List.getElem?_cons_succ] at hi
      rw [List.length_cons] at hlen
      obtain ⟨-, e2, e3, e4⟩ :=
        cmd_enqueue_ok q c0 hq (hcs c0 (List.mem_cons_self _ _)) (by omega)
      have := ih (aegis_app_cmd_enqueue q c0).2 e2
        (fun x hx => hcs x (List.mem_cons_of_mem _ hx))
        (by rw [e3, List.length_append, List.length_singleton]; omega) j hi
      rw [e4] at this
      simp only [stamped_cmds, List.getElem?_cons_succ, List.take_succ_cons, List.map_cons,
        cmd_run]
      exact this

/-- One enqueue more than the queue has room for: the enqueues that fit are
accepted and the last one is refused. -/
theorem enqueue_overflow_run (cs : List AegisCommand) (q : AegisAppCmdQueue)
    (hq : CmdQueueWF q) (hcs : ∀ c ∈ cs, c.type ≠ CMD_TYPE_INVALID)
    (hlen : (pending_cmds q).length + cs.length = CMD_QUEUE_SIZE + 1) :
    ((cmd_run q (cs.map CmdOp.enqueue)).1.map Prod.fst) =
      List.replicate (cs.length - 1) ERR_OK ++ [ERR_OUT_OF_RANGE] := by
  have hl := cmdRingWF_length_le _ _ hq.2.1
  have hpos : 0 < cs.length := by omega
  have hsplit : cs = cs.take (cs.length - 1) ++ cs.drop (cs.length - 1) :=
    (List.take_append_drop _ _).symm
  have hdl : (cs.drop (cs.length - 1)).length = 1 := by
    rw [List.length_drop]; omega
  obtain ⟨x, hx⟩ := List.length_eq_one.mp hdl
  have htl : (cs.take (cs.length - 1)).length = cs.length - 1 := by
    rw [List.length_take]; omega
  obtain ⟨r1, r2, r3⟩ := enqueue_run_status (cs.take (cs.length - 1)) q hq
    (fun c hc => hcs c (List.mem_of_mem_take hc)) (by rw [htl]; omega)
  have hxm : x ∈ cs := by
    apply List.mem_of_mem_drop
    rw [hx]
    exact List.mem_singleton_self x
  have hrej := cmd_enqueue_reject _ x r2 (hcs x hxm) (by rw [r3, htl]; omega)
  have hrun : (cmd_run q (cs.map CmdOp.enqueue)).1 =
      (cs.take (cs.length - 1)).map (fun _ => (ERR_OK, none)) ++ [(ERR_OUT_OF_RANGE, none)] := by
    conv_lhs => rw [hsplit]
    rw [List.map_append, cmd_run_append, r1, hx]
    simp only [List.map_cons, List.map_nil, cmd_run, hrej]
  rw [hrun, List.map_append, List.map_map]
  congr 1
  rw [List.eq_replicate_iff]
  refine ⟨by rw [List.length_map, htl], ?_⟩
  intro b hb
  simp only [List.mem_map] at hb
  obtain ⟨_, _, rfl⟩ := hb
  rfl

/-- Enqueues into an empty queue followed by as many dequeues: every call
succeeds and the dequeues deliver the stamped copies in the order of the
enqueues, leaving the queue empty. -/
theorem round_trip_run (cs outs : List AegisCommand) (q : AegisAppCmdQueue)
    (hq : CmdQueueWF q) (he : pending_cmds q = [])
    (hcs : ∀ c ∈ cs, CmdWF c ∧ c.type ≠ CMD_TYPE_INVALID) (hn : cs.length ≤ CMD_QUEUE_SIZE)
    (ho : outs.length = cs.length) :
    (cmd_run q (cs.map CmdOp.enqueue ++ outs.map CmdOp.dequeue)).1 =
        cs.map (fun _ => (ERR_OK, none)) ++
          (stamped_cmds q.trace cs).map (fun c => (ERR_OK, some c)) ∧
      CmdQueueWF (cmd_run q (cs.map CmdOp.enqueue ++ outs.map CmdOp.dequeue)).2 ∧
      pending_cmds (cmd_run q (cs.map CmdOp.enqueue ++ outs.map CmdOp.dequeue)).2 = [] := by
  obtain ⟨e1, e2, e3⟩ := enqueue_run cs q hq hcs (by rw [he]; simpa using hn)
  rw [he, List.nil_append] at e3
  obtain ⟨d1, d2, d3, -⟩ := dequeue_run (stamped_cmds q.trace cs) _ [] outs e2
    (by rw [e3, List.append_nil]) (by rw [ho, stamped_cmds_length])
  rw [cmd_run_append, e1, d1]
  exact ⟨rfl, d2, d3⟩


/-! ## The example command queue -/

theorem demo_trace_wf : TraceWF (some demo_trace) := by
  intro log h
  cases h
  exact Nat.lt_of_sub_eq_succ rfl

theorem demo_cmd_queue_wf : CmdQueueWF demo_cmd_queue :=
  (cmd_init_wf storage_cmd_queue (some demo_trace) demo_trace_wf).2.1

theorem demo_cmd_queue_empty : pending_cmds demo_cmd_queue = [] :=
  (cmd_init_wf storage_cmd_queue (some demo_trace) demo_trace_wf).2.2.1

set_option maxRecDepth 1000000 in
/-- The run `cmd_count_demo_ops` evaluated on `demo_cmd_queue`: the four calls
return `ERR_OK` and one command is held at the end, the one enqueued after the
clear. -/
theorem cmd_count_demo_eval :
    aegis_app_cmd_get_count (cmd_run demo_cmd_queue cmd_count_demo_ops).2 = (ERR_OK, some 1) ∧
      (cmd_run demo_cmd_queue cmd_count_demo_ops).1.map Prod.fst =
        [ERR_OK, ERR_OK, ERR_OK, ERR_OK] := by
  decide


/-! ## Handler tables: lookup, registration and execution -/

theorem find_slot_range_some {H : Type} (hs : List (HandlerEntry H)) (t : Nat) (m k i : Nat) :
    find_handler_slot hs t (List.range' k m) = some i ↔
      k ≤ i ∧ i < k + m ∧ (∃ e, hs[i]? = some e ∧ e.type = t) ∧
        ∀ j, k ≤ j → j < i → ∀ e, hs[j]? = some e → e.type ≠ t := by
  induction m generalizing k with
  | zero =>
    simp only [List.range'_zero, find_handler_slot]
    constructor
    · intro h; exact absurd h (by simp)
    · rintro ⟨h1, h2, -⟩; omega
  | succ m ih =>
    rw [List.range'_succ]
    have hstep : ∀ (hk : ∀ e, hs[k]? = some e → e.type ≠ t),
        (find_handler_slot hs t (List.range' (k + 1) m) = some i ↔
          k ≤ i ∧ i < k + (m + 1) ∧ (∃ e, hs[i]? = some e ∧ e.type = t) ∧
            ∀ j, k ≤ j → j < i → ∀ e, hs[j]? = some e → e.type ≠ t) := by
      intro hk
      rw [ih (k + 1)]
      constructor
      · rintro ⟨h1, h2, h3, h4⟩
        refine ⟨by omega, by omega, h3, fun j hj1 hj2 e he => ?_⟩
        rcases Nat.eq_or_lt_of_le hj1 with hjk | hjk
        · rw [← hjk] at he
          exact hk e he
        · exact h4 j hjk hj2 e he
      · rintro ⟨h1, h2, ⟨e, he, het⟩, h4⟩
        have hne : k ≠ i := by
          intro hki
          rw [← hki] at he
          exact hk e he het
        exact ⟨by omega, by omega, ⟨e, he, het⟩, fun j hj1 hj2 => h4 j (by omega) hj2⟩
    simp only [find_handler_slot]
    cases hke : hs[k]? with
    | none =>
      simp only
      exact hstep (fun e he => by rw [hke] at he; exact absurd he (by simp))
    | some e0 =>
      simp only
      by_cases ht : e0.type = t
      · rw [if_pos ht]
        constructor
        · intro h
          have hik : k = i := Option.some.inj h
          subst hik
          exact ⟨le_refl _, by omega, ⟨e0, hke, ht⟩, fun j hj1 hj2 => by omega⟩
        · rintro ⟨h1, -, -, h4⟩
          rcases Nat.eq_or_lt_of_le h1 with hki | hki
          · rw [hki]
          · exact absurd ht (h4 k (le_refl _) hki e0 hke)
      · rw [if_neg ht]
        exact hstep (fun e he => by
          rw [hke] at he
          rw [← Option.some.inj he]
          exact ht)

theorem find_slot_some_iff {H : Type} (hs : List (HandlerEntry H)) (t n i : Nat) :
    find_handler_slot hs t (List.range n) = some i ↔
      i < n ∧ (∃ e, hs[i]? = some e ∧ e.type = t) ∧
        ∀ j, j < i → ∀ e, hs[j]? = some e → e.type ≠ t := by
  rw [List.range_eq_range', find_slot_range_some]
  constructor
  · rintro ⟨-, h2, h3, h4⟩
    exact ⟨by omega, h3, fun j hj => h4 j (Nat.zero_le _) hj⟩
  · rintro ⟨h2, h3, h4⟩
    exact ⟨Nat.zero_le _, by omega, h3, fun j _ hj => h4 j hj⟩

/-- Among the indices below `n` at which an entry of type `t` stands there is a
first one. -/
theorem first_match_exists {H : Type} (hs : List (HandlerEntry H)) (t n : Nat)
    (h : ∃ i, i < n ∧ ∃ e, hs[i]? = some e ∧ e.type = t) :
    ∃ i, i < n ∧ (∃ e, hs[i]? = some e ∧ e.type = t) ∧
      ∀ j, j < i → ∀ e, hs[j]? = some e → e.type ≠ t := by
  classical
  have hex : ∃ i, i < n ∧ ∃ e, hs[i]? = some e ∧ e.type = t := h
  refine ⟨Nat.find hex, (Nat.find_spec hex).1, (Nat.find_spec hex).2, ?_⟩
  intro j hj e he het
  exact Nat.find_min hex hj ⟨lt_trans hj (Nat.find_spec hex).1, e, he, het⟩

theorem find_slot_none_iff {H : Type} (hs : List (HandlerEntry H)) (t n : Nat) :
    find_handler_slot hs t (List.range n) = none ↔
      ∀ j, j < n → ∀ e, hs[j]? = some e → e.type ≠ t := by
  constructor
  · intro h j hj e he het
    obtain ⟨i, hi1, hi2, hi3⟩ := first_match_exists hs t n ⟨j, hj, e, he, het⟩
    rw [(find_slot_some_iff hs t n i).mpr ⟨hi1, hi2, hi3⟩] at h
    exact absurd h (by simp)
  · intro h
    cases hf : find_handler_slot hs t (List.range n) with
    | none => rfl
    | some i =>
      obtain ⟨h1, ⟨e, he, het⟩, -⟩ := (find_slot_some_iff hs t n i).mp hf
      exact absurd het (h i h1 e he)

theorem registered_iff {H : Type} (table : HandlerTable H) (t : Nat) :
    registered table t ↔
      ∃ i, find_handler_slot table.handlers t (List.range table.handler_count) = some i := by
  constructor
  · rintro ⟨i, e, hi, he, het⟩
    obtain ⟨k, hk1, hk2, hk3⟩ :=
      first_match_exists table.handlers t table.handler_count ⟨i, hi, e, he, het⟩
    exact ⟨k, (find_slot_some_iff _ _ _ _).mpr ⟨hk1, hk2, hk3⟩⟩
  · rintro ⟨i, hi⟩
    obtain ⟨h1, ⟨e, he, het⟩, -⟩ := (find_slot_some_iff _ _ _ _).mp hi
    exact ⟨i, e, h1, he, het⟩

theorem not_registered_iff {H : Type} (table : HandlerTable H) (t : Nat) :
    ¬ registered table t ↔
      find_handler_slot table.handlers t (List.range table.handler_count) = none := by
  rw [registered_iff]
  cases find_handler_slot table.handlers t (List.range table.handler_count) <;> simp

theorem lookup_of_first {H : Type} (table : HandlerTable H) (t i : Nat) (e : HandlerEntry H)
    (h : H) (hi : i < table.handler_count) (he : table.handlers[i]? = some e)
    (ht : e.type = t)
    (hfirst : ∀ j, j < i → ∀ x, table.handlers[j]? = some x → x.type ≠ t)
    (hh : e.handler = some h) : lookup_handler table t = some (i, h, e.ctx) := by
  unfold lookup_handler
  rw [(find_slot_some_iff _ _ _ _).mpr ⟨hi, ⟨e, he, ht⟩, hfirst⟩]
  simp only [he, hh, Option.map_some']

theorem lookup_not_registered {H : Type} (table : HandlerTable H) (t : Nat)
    (h : ¬ registered table t) : lookup_handler table t = none := by
  unfold lookup_handler
  rw [(not_registered_iff table t).mp h]
theorem getElem?_lt_of_some {α : Type} (l : List α) (i : Nat) (a : α) (h : l[i]? = some a) :
    i < l.length := by
  by_contra hn
  rw [List.getElem?_eq_none (by omega)] at h
  exact absurd h (by simp)

theorem set_getElem?_self {α : Type} (l : List α) (i : Nat) (a : α) (h : i < l.length) :
    (l.set i a)[i]? = some a := by
  simp [List.getElem?_set, h]

theorem set_getElem?_other {α : Type} (l : List α) (i j : Nat) (a : α) (h : i ≠ j) :
    (l.set i a)[j]? = l[j]? := by
  simp [List.getElem?_set, h]

/-- Registration of a type that is already registered: the first slot with the
type gets the handler and the context, and a lookup of the type then finds
them. -/
theorem register_spec_update {H : Type} (cap : Nat) (table : HandlerTable H) (t : Nat) (h : H)
    (c : Nat) (hreg : registered table t) :
    ∃ i e, i < table.handler_count ∧ table.handlers[i]? = some e ∧ e.type = t ∧
      (∀ j, j < i → ∀ x, table.handlers[j]? = some x → x.type ≠ t) ∧
      register_handler cap table t (some h) c =
        (ERR_OK,
          { table with handlers := table.handlers.set i { e with handler := some h, ctx := c } }) ∧
      lookup_handler
          { table with handlers := table.handlers.set i { e with handler := some h, ctx := c } }
          t = some (i, h, c) := by
  obtain ⟨i, hf⟩ := (registered_iff table t).mp hreg
  obtain ⟨h1, ⟨e, he, het⟩, h3⟩ := (find_slot_some_iff _ _ _ _).mp hf
  refine ⟨i, e, h1, he, het, h3, ?_, ?_⟩
  · unfold register_handler
    simp only [hf, he]
  · have hlt := getElem?_lt_of_some _ _ _ he
    exact lookup_of_first
      { table with handlers := table.handlers.set i { e with handler := some h, ctx := c } }
      t i { e with handler := some h, ctx := c } h h1
      (set_getElem?_self _ _ _ hlt) het
      (fun j hj x hx => h3 j hj x (by
        rw [← hx]
        exact (set_getElem?_other _ _ _ _ (by omega)).symm))
      rfl

/-- Registration of a new type in a table with room: the entry is stored at
index `handler_count`, the count goes up by one, and a lookup of the type then
finds the handler and the context. -/
theorem register_spec_append {H : Type} (cap : Nat) (table : HandlerTable H) (t : Nat) (h : H)
    (c : Nat) (hwf : TableWF cap table) (hcap : cap ≤ 255) (hn : ¬ registered table t)
    (hlt : table.handler_count < cap) :
    register_handler cap table t (some h) c =
        (ERR_OK,
          { handlers :=
              table.handlers.set table.handler_count { type := t, handler := some h, ctx := c }
            handler_count := table.handler_count + 1 }) ∧
      lookup_handler
          { handlers :=
              table.handlers.set table.handler_count { type := t, handler := some h, ctx := c }
            handler_count := table.handler_count + 1 }
          t = some (table.handler_count, h, c) := by
  have hf := (not_registered_iff table t).mp hn
  constructor
  · unfold register_handler
    simp only [hf]
    rw [if_neg (by omega), Nat.mod_eq_of_lt (by omega)]
  · exact lookup_of_first
      { handlers :=
          table.handlers.set table.handler_count { type := t, handler := some h, ctx := c }
        handler_count := table.handler_count + 1 }
      t table.handler_count { type := t, handler := some h, ctx := c } h
      (Nat.lt_succ_self _)
      (set_getElem?_self _ _ _ (by rw [hwf.1]; exact hlt)) rfl
      (fun j hj x hx => (find_slot_none_iff _ _ _).mp hf j hj x (by
        rw [← hx]
        exact (set_getElem?_other _ _ _ _ (by omega)).symm))
      rfl

/-- Registration of a new type in a full table is refused. -/
theorem register_spec_full {H : Type} (cap : Nat) (table : HandlerTable H) (t : Nat) (h : H)
    (c : Nat) (hn : ¬ registered table t) (hge : ¬ table.handler_count < cap) :
    register_handler cap table t (some h) c = (ERR_OUT_OF_RANGE, table) := by
  unfold register_handler
  simp only [(not_registered_iff table t).mp hn]
  rw [if_pos (by omega)]

theorem register_wf {H : Type} (cap : Nat) (table : HandlerTable H) (t : Nat) (h : Option H)
    (c : Nat) (hwf : TableWF cap table) (hcap : cap ≤ 255) :
    TableWF cap (register_handler cap table t h c).2 := by
  cases h with
  | none => exact hwf
  | some h =>
    by_cases hreg : registered table t
    · obtain ⟨i, e, -, -, -, -, hr, -⟩ := register_spec_update cap table t h c hreg
      rw [hr]
      exact ⟨by simp [hwf.1], hwf.2⟩
    · by_cases hlt : table.handler_count < cap
      · rw [(register_spec_append cap table t h c hwf hcap hreg hlt).1]
        exact ⟨by simp [hwf.1], hlt⟩
      · rw [register_spec_full cap table t h c hreg hlt]
        exact hwf

theorem cmd_execute_found (service : AegisAppCmdService) (cmd : AegisCommand)
    (result : AegisCommandResult) (i : Nat) (h : AppCmdHandler) (c : Nat)
    (hl : lookup_handler service cmd.type = some (i, h, c)) :
    aegis_app_cmd_service_execute service cmd result =
      ((h cmd (cmd_result_defaults result) c).1,
        { (h cmd (cmd_result_defaults result) c).2 with
          result := (h cmd (cmd_result_defaults result) c).1 },
        [(i, c)]) := by
  unfold aegis_app_cmd_service_execute
  simp only [hl]

theorem cmd_execute_missing (service : AegisAppCmdService) (cmd : AegisCommand)
    (result : AegisCommandResult) (hl : lookup_handler service cmd.type = none) :
    aegis_app_cmd_service_execute service cmd result =
      (ERR_NOT_FOUND,
        { result with
          result := ERR_NOT_FOUND, created_id := ENTITY_ID_INVALID, payload_size := 0 }, []) := by
  unfold aegis_app_cmd_service_execute
  simp only [hl]
  rfl

theorem query_execute_found (dispatcher : AegisAppQueryDispatcher) (req : AegisQueryRequest)
    (resp : AegisQueryResponse) (i : Nat) (h : AppQueryHandler) (c : Nat)
    (ht : req.type ≠ QUERY_TYPE_INVALID)
    (hl : lookup_handler dispatcher req.type = some (i, h, c)) :
    aegis_app_query_execute dispatcher req resp =
      ((h req resp c).1, { (h req resp c).2 with result := (h req resp c).1 }, [(i, c)]) := by
  unfold aegis_app_query_execute
  rw [if_neg ht]
  simp only [hl]

theorem query_execute_missing (dispatcher : AegisAppQueryDispatcher) (req : AegisQueryRequest)
    (resp : AegisQueryResponse) (ht : req.type ≠ QUERY_TYPE_INVALID)
    (hl : lookup_handler dispatcher req.type = none) :
    aegis_app_query_execute dispatcher req resp =
      (ERR_NOT_FOUND, { resp with result := ERR_NOT_FOUND, payload_size := 0 }, []) := by
  unfold aegis_app_query_execute
  rw [if_neg ht]
  simp only [hl]

theorem query_execute_invalid (dispatcher : AegisAppQueryDispatcher) (req : AegisQueryRequest)
    (resp : AegisQueryResponse) (ht : req.type = QUERY_TYPE_INVALID) :
    aegis_app_query_execute dispatcher req resp =
      (ERR_INVALID_PARAM, { resp with result := ERR_INVALID_PARAM, payload_size := 0 }, []) := by
  unfold aegis_app_query_execute
  rw [if_pos ht]


/-! ## The count of handled synchronous subscribers -/

theorem run_handler_handled (pub : PublishFn) (hp : PubSpec pub) (hh : HandledSpec pub)
    (es : List AegisDomainEvent) :
    ∀ b b' o, BusWF b → b.is_initialized ≠ 0 → run_handler pub b es = some (b', o) →
      b'.sync_handled = (b.sync_handled + obs_handled TRUE o) % 4294967296 := by
  induction es with
  | nil =>
    intro b b' o hwf _ h
    simp only [run_handler, Option.some.injEq, Prod.mk.injEq] at h
    obtain ⟨rfl, rfl⟩ := h
    have := hwf.2.2.2.2.2.2.2.2.1
    simp only [obs_handled, Nat.add_zero]
    omega
  | cons e es ih =>
    intro b b' o hwf hi h
    simp only [run_handler] at h
    cases hpub : pub b e with
    | none => simp [hpub] at h
    | some r =>
      obtain ⟨c, b1, o1⟩ := r
      obtain ⟨-, e1, -⟩ := hp b e _ hwf hi hpub
      have s1 := hh b e _ hwf hi hpub
      cases hrest : run_handler pub b1 es with
      | none => simp [hpub, hrest] at h
      | some r2 =>
        obtain ⟨b2, o2⟩ := r2
        simp only [hpub, hrest, Option.some.injEq, Prod.mk.injEq] at h
        obtain ⟨rfl, rfl⟩ := h
        have s2 := ih b1 b2 o2 e1.wf (by rw [e1.init]; exact hi) hrest
        simp only at s1
        rw [obs_handled_append, s2, s1]
        omega

theorem invoke_handled (pub : PublishFn) (hp : PubSpec pub) (hh : HandledSpec pub)
    (b b' : AegisDomainEventBus) (i : Nat) (sub : AegisEventSubscription)
    (e : AegisDomainEvent) (r : AegisEventHandlerResult) (o : List BusObs) (hwf : BusWF b)
    (hi : b.is_initialized ≠ 0)
    (h : invoke_handler_with_recursion pub b i TRUE sub e = some (r, b', o)) :
    (b'.sync_handled + (if r = EVENT_HANDLER_OK then 1 else 0)) % 4294967296 =
      (b.sync_handled + obs_handled TRUE o) % 4294967296 := by
  unfold invoke_handler_with_recursion at h
  cases hhd : sub.handler with
  | none =>
    simp only [hhd, Option.some.injEq, Prod.mk.injEq] at h
    obtain ⟨rfl, rfl, rfl⟩ := h
    simp [obs_handled]
  | some handler =>
    simp only [hhd] at h
    by_cases hd : b.recursion_depth ≥ MAX_EVENT_RECURSION_DEPTH
    · rw [if_pos hd] at h
      simp only [Option.some.injEq, Prod.mk.injEq] at h
      obtain ⟨rfl, rfl, rfl⟩ := h
      simp [obs_handled, bus_trace_log]
    · rw [if_neg hd] at h
      cases hrun : run_handler pub { b with recursion_depth := (b.recursion_depth + 1) % 256 }
          (handler e sub.ctx).publishes with
      | none => simp [hrun] at h
      | some r2 =>
        obtain ⟨b2, o2⟩ := r2
        simp only [hrun, Option.some.injEq, Prod.mk.injEq] at h
        obtain ⟨rfl, rfl, rfl⟩ := h
        have hwf1 : BusWF { b with recursion_depth := (b.recursion_depth + 1) % 256 } := by
          have g := hwf
          obtain ⟨-, -, -, g0, -, g1, g2, g3, g4, g5⟩ := g
          exact busWF_congr b _ hwf rfl rfl rfl g0 rfl g1 g2 g3 g4 g5
        have s2 := run_handler_handled pub hp hh _ _ b2 o2 hwf1 hi hrun
        simp only [obs_handled, true_and] at s2 ⊢
        rw [s2]
        split <;> omega

theorem dispatch_loop_handled (pub : PublishFn) (hp : PubSpec pub) (hh : HandledSpec pub)
    (e : AegisDomainEvent) (idxs : List Nat) :
    ∀ b n n' b' o, BusWF b → b.is_initialized ≠ 0 → n + idxs.length < 256 →
      dispatch_loop pub e TRUE idxs b n = some (n', b', o) →
      n ≤ n' ∧ n' ≤ n + idxs.length ∧
        (b'.sync_handled + (n' - n)) % 4294967296 =
          (b.sync_handled + obs_handled TRUE o) % 4294967296 := by
  induction idxs with
  | nil =>
    intro b n n' b' o hwf _ _ h
    simp only [dispatch_loop, Option.some.injEq, Prod.mk.injEq] at h
    obtain ⟨rfl, rfl, rfl⟩ := h
    simp [obs_handled]
  | cons i rest ih =>
    intro b n n' b' o hwf hi hn h
    rw [List.length_cons] at hn
    have hskip : dispatch_loop pub e TRUE rest b n = some (n', b', o) →
        n ≤ n' ∧ n' ≤ n + (i :: rest).length ∧
          (b'.sync_handled + (n' - n)) % 4294967296 =
            (b.sync_handled + obs_handled TRUE o) % 4294967296 := by
      intro h'
      obtain ⟨a1, a2, a3⟩ := ih b n n' b' o hwf hi (by omega) h'
      exact ⟨a1, by rw [List.length_cons]; omega, a3⟩
    simp only [dispatch_loop] at h
    cases hsub : (b.subscriptions.getD [])[i]? with
    | none =>
      simp only [hsub] at h
      exact hskip h
    | some sub =>
      simp only [hsub] at h
      by_cases h1 : sub.is_sync ≠ TRUE
      · rw [if_pos h1] at h
        exact hskip h
      · rw [if_neg h1] at h
        by_cases h2 : sub.event_type ≠ 0 ∧ sub.event_type ≠ e.type
        · rw [if_pos h2] at h
          exact hskip h
        · rw [if_neg h2] at h
          cases hinv : invoke_handler_with_recursion pub b i TRUE sub e with
          | none => simp [hinv] at h
          | some r =>
            obtain ⟨res, b1, o1⟩ := r
            simp only [hinv] at h
            obtain ⟨e1, -⟩ := invoke_spec pub hp b b1 i TRUE sub e res o1 hwf hi hinv
            have s1 := invoke_handled pub hp hh b b1 i sub e res o1 hwf hi hinv
            have e2 : Eff b1
                (if res = AegisEventHandlerResult.EVENT_HANDLER_ERROR then
                  bus_trace_log b1 TRACE_EVENT_APP_ERROR "REQ-EVENT-009" e.type i
                else b1) [] := by
              split
              · exact Eff.trace_log b1 [] _ _ _ _ e1.wf rfl rfl rfl rfl (by simp) (by simp)
              · exact Eff.refl b1 e1.wf
            have hs2 : (if res = AegisEventHandlerResult.EVENT_HANDLER_ERROR then
                  bus_trace_log b1 TRACE_EVENT_APP_ERROR "REQ-EVENT-009" e.type i
                else b1).sync_handled = b1.sync_handled := by
              split <;> rfl
            cases hrest : dispatch_loop pub e TRUE rest
                (if res = AegisEventHandlerResult.EVENT_HANDLER_ERROR then
                  bus_trace_log b1 TRACE_EVENT_APP_ERROR "REQ-EVENT-009" e.type i
                else b1)
                (if res = AegisEventHandlerResult.EVENT_HANDLER_OK then (n + 1) % 256 else n) with
            | none => simp [hrest] at h
            | some r3 =>
              obtain ⟨n3, b3, o3⟩ := r3
              simp only [hrest, Option.some.injEq, Prod.mk.injEq] at h
              obtain ⟨rfl, rfl, rfl⟩ := h
              obtain ⟨a1, a2, a3⟩ := ih _ _ n3 b3 o3 e2.wf
                (by rw [e2.init, e1.init]; exact hi) (by split <;> omega) hrest
              rw [hs2] at a3
              rw [obs_handled_append, List.length_cons]
              have hb1 := e1.wf.2.2.2.2.2.2.2.2.1
              by_cases hok : res = AegisEventHandlerResult.EVENT_HANDLER_OK
              · rw [if_pos hok] at a1 a2 a3 s1
                omega
              · rw [if_neg hok] at a1 a2 a3 s1
                omega

theorem publish_exit_handled (b : AegisDomainEventBus) (ec : AegisDomainEvent) (n : Nat) :
    (publish_exit b ec n).1.sync_handled = (b.sync_handled + n) % 4294967296 := by
  unfold publish_exit event_queue_enqueue
  simp only
  split <;> split <;> (try split) <;> rfl

theorem obs_handled_exit (b : AegisDomainEventBus) (ec : AegisDomainEvent) (n p : Nat) :
    obs_handled p (publish_exit b ec n).2 = 0 := by
  rcases publish_exit_obs b ec n with h | h <;> rw [h] <;> rfl

theorem publish_body_handled (pub : PublishFn) (hp : PubSpec pub) (hh : HandledSpec pub) :
    HandledSpec (publish_body pub) := by
  intro b e r hwf hi h
  unfold publish_body at h
  rw [if_neg hi] at h
  have e1 := publish_enter_eff b e hwf
  obtain ⟨t2, hshape, -, -⟩ := publish_enter_shape b e
  have hs3 : (publish_enter b e).2.sync_handled = b.sync_handled := by rw [hshape]
  cases hd : dispatch_to_subscribers pub (publish_enter b e).2 (publish_enter b e).1 TRUE with
  | none => simp [hd] at h
  | some x =>
    obtain ⟨n, b4, o⟩ := x
    simp only [hd, Option.some.injEq] at h
    subst h
    have hcnt := e1.wf.2.2.2.2.1
    rw [show MAX_EVENT_SUBSCRIPTIONS = 16 from rfl] at hcnt
    obtain ⟨a1, a2, a3⟩ := dispatch_loop_handled pub hp hh (publish_enter b e).1 _ _ 0 n b4 o
      e1.wf (by rw [e1.init]; exact hi) (by rw [List.length_range]; omega) hd
    rw [hs3] at a3
    show (publish_exit b4 (publish_enter b e).1 n).1.sync_handled =
      (b.sync_handled + obs_handled TRUE ([BusObs.published e (publish_enter b e).1] ++
        (o ++ (publish_exit b4 (publish_enter b e).1 n).2))) % 4294967296
    rw [publish_exit_handled, obs_handled_append, obs_handled_append, obs_handled_exit]
    simp only [obs_handled, Nat.add_zero, Nat.zero_add]
    omega

theorem publish_handled (fuel : Nat) : HandledSpec (aegis_domain_event_publish fuel) := by
  induction fuel with
  | zero =>
    intro b e r _ _ h
    simp [aegis_domain_event_publish] at h
  | succ fuel ih => exact publish_body_handled _ (publish_spec fuel) ih


/-! ## The shape of a publish and the calls of the synchronous pass -/

/-- The observations of a completed publish: the publication, what the
synchronous dispatch observed, and the enqueue of the copy when the queue had
room for it at that point, its drop otherwise. -/
theorem publish_shape (fuel : Nat) (b b' : AegisDomainEventBus) (e : AegisDomainEvent)
    (c : AegisErrorCode) (o : List BusObs) (hwf : BusWF b) (hi : b.is_initialized ≠ 0)
    (h : aegis_domain_event_publish fuel b e = some (c, b', o)) :
    ∃ mid, o = BusObs.published e (publish_enter b e).1 :: mid ++
        [if (pending_events b).length + (obs_enqueued mid).length < DOMAIN_EVENT_QUEUE_SIZE then
          BusObs.enqueued (publish_enter b e).1
        else BusObs.dropped (publish_enter b e).1] := by
  cases fuel with
  | zero => simp [aegis_domain_event_publish] at h
  | succ fuel =>
    simp only [aegis_domain_event_publish, publish_body] at h
    rw [if_neg hi] at h
    have e1 := publish_enter_eff b e hwf
    obtain ⟨hev, -⟩ := publish_enter_wf b e hwf
    cases hdis : dispatch_to_subscribers (aegis_domain_event_publish fuel) (publish_enter b e).2
        (publish_enter b e).1 TRUE with
    | none => simp [hdis] at h
    | some x =>
      obtain ⟨n, b4, o4⟩ := x
      simp only [hdis, Option.some.injEq, Prod.mk.injEq] at h
      obtain ⟨-, -, rfl⟩ := h
      obtain ⟨e2, c2⟩ := dispatch_spec _ (publish_spec fuel) _ _ _ b4 n o4 e1.wf
        (by rw [e1.init]; exact hi) hdis
      obtain ⟨-, x1, x2⟩ := publish_exit_eff b4 (publish_enter b e).1 n e2.wf hev
      have hq1 := e1.queue
      have hq2 := e2.queue
      rw [c2.1, List.nil_append] at hq2
      simp only [obs_dequeued, obs_enqueued, List.nil_append, List.append_nil] at hq1
      have hlen : (pending_events b4).length =
          (pending_events b).length + (obs_enqueued o4).length := by
        rw [hq2, List.length_append, hq1]
      have hle := queueWF_length_le _ _ e2.wf.1
      refine ⟨o4, ?_⟩
      congr 2
      by_cases hroom : (pending_events b).length + (obs_enqueued o4).length <
          DOMAIN_EVENT_QUEUE_SIZE
      · rw [if_pos hroom]
        exact x1 (by rw [hlen]; exact hroom)
      · rw [if_neg hroom]
        exact x2 (by omega)

theorem publish_pending (fuel : Nat) (b b' : AegisDomainEventBus) (e : AegisDomainEvent)
    (c : AegisErrorCode) (o : List BusObs) (hwf : BusWF b) (hi : b.is_initialized ≠ 0)
    (h : aegis_domain_event_publish fuel b e = some (c, b', o)) :
    pending_events b' = pending_events b ++ obs_enqueued o := by
  obtain ⟨-, e1, c1⟩ := publish_spec fuel b e _ hwf hi h
  have hq := e1.queue
  simp only at hq c1
  rw [c1.1, List.nil_append] at hq
  exact hq
/-- Every handler call observed during a publish belongs to the synchronous
dispatch. -/
theorem run_handler_sync (pub : PublishFn)
    (hs : ∀ b e r, pub b e = some r → ∀ i p ev d res, BusObs.call i p ev d res ∈ r.2.2 → p = TRUE)
    (es : List AegisDomainEvent) :
    ∀ b b' o, run_handler pub b es = some (b', o) →
      ∀ i p ev d res, BusObs.call i p ev d res ∈ o → p = TRUE := by
  induction es with
  | nil =>
    intro b b' o h
    simp only [run_handler, Option.some.injEq, Prod.mk.injEq] at h
    obtain ⟨-, rfl⟩ := h
    intro i p ev d res hm
    exact absurd hm (List.not_mem_nil _)
  | cons e es ih =>
    intro b b' o h
    simp only [run_handler] at h
    cases hpub : pub b e with
    | none => simp [hpub] at h
    | some r =>
      obtain ⟨c, b1, o1⟩ := r
      cases hrest : run_handler pub b1 es with
      | none => simp [hpub, hrest] at h
      | some r2 =>
        obtain ⟨b2, o2⟩ := r2
        simp only [hpub, hrest, Option.some.injEq, Prod.mk.injEq] at h
        obtain ⟨-, rfl⟩ := h
        intro i p ev d res hm
        rcases List.mem_append.mp hm with hm | hm
        · exact hs b e _ hpub i p ev d res hm
        · exact ih b1 b2 o2 hrest i p ev d res hm

theorem invoke_sync (pub : PublishFn)
    (hs : ∀ b e r, pub b e = some r → ∀ i p ev d res, BusObs.call i p ev d res ∈ r.2.2 → p = TRUE)
    (b b' : AegisDomainEventBus) (k : Nat) (sub : AegisEventSubscription)
    (e : AegisDomainEvent) (r : AegisEventHandlerResult) (o : List BusObs)
    (h : invoke_handler_with_recursion pub b k TRUE sub e = some (r, b', o)) :
    ∀ i p ev d res, BusObs.call i p ev d res ∈ o → p = TRUE := by
  unfold invoke_handler_with_recursion at h
  cases hhd : sub.handler with
  | none =>
    simp only [hhd, Option.some.injEq, Prod.mk.injEq] at h
    obtain ⟨-, -, rfl⟩ := h
    intro i p ev d res hm
    exact absurd hm (List.not_mem_nil _)
  | some handler =>
    simp only [hhd] at h
    by_cases hd : b.recursion_depth ≥ MAX_EVENT_RECURSION_DEPTH
    · rw [if_pos hd] at h
      simp only [Option.some.injEq, Prod.mk.injEq] at h
      obtain ⟨-, -, rfl⟩ := h
      intro i p ev d res hm
      simp at hm
    · rw [if_neg hd] at h
      cases hrun : run_handler pub { b with recursion_depth := (b.recursion_depth + 1) % 256 }
          (handler e sub.ctx).publishes with
      | none => simp [hrun] at h
      | some r2 =>
        obtain ⟨b2, o2⟩ := r2
        simp only [hrun, Option.some.injEq, Prod.mk.injEq] at h
        obtain ⟨-, -, rfl⟩ := h
        intro i p ev d res hm
        rcases List.mem_cons.mp hm with hm | hm
        · cases hm
          rfl
        · exact run_handler_sync pub hs _ _ b2 o2 hrun i p ev d res hm

theorem dispatch_loop_sync (pub : PublishFn)
    (hs : ∀ b e r, pub b e = some r → ∀ i p ev d res, BusObs.call i p ev d res ∈ r.2.2 → p = TRUE)
    (e : AegisDomainEvent) (idxs : List Nat) :
    ∀ b n n' b' o, dispatch_loop pub e TRUE idxs b n = some (n', b', o) →
      ∀ i p ev d res, BusObs.call i p ev d res ∈ o → p = TRUE := by
  induction idxs with
  | nil =>
    intro b n n' b' o h
    simp only [dispatch_loop, Option.some.injEq, Prod.mk.injEq] at h
    obtain ⟨-, -, rfl⟩ := h
    intro i p ev d res hm
    exact absurd hm (List.not_mem_nil _)
  | cons k rest ih =>
    intro b n n' b' o h
    simp only [dispatch_loop] at h
    cases hsub : (b.subscriptions.getD [])[k]? with
    | none =>
      simp only [hsub] at h
      exact ih b n n' b' o h
    | some sub =>
      simp only [hsub] at h
      by_cases h1 : sub.is_sync ≠ TRUE
      · rw [if_pos h1] at h
        exact ih b n n' b' o h
      · rw [if_neg h1] at h
        by_cases h2 : sub.event_type ≠ 0 ∧ sub.event_type ≠ e.type
        · rw [if_pos h2] at h
          exact ih b n n' b' o h
        · rw [if_neg h2] at h
          cases hinv : invoke_handler_with_recursion pub b k TRUE sub e with
          | none => simp [hinv] at h
          | some r =>
            obtain ⟨res, b1, o1⟩ := r
            simp only [hinv] at h
            cases hrest : dispatch_loop pub e TRUE rest
                (if res = AegisEventHandlerResult.EVENT_HANDLER_ERROR then
                  bus_trace_log b1 TRACE_EVENT_APP_ERROR "REQ-EVENT-009" e.type k
                else b1)
                (if res = AegisEventHandlerResult.EVENT_HANDLER_OK then (n + 1) % 256 else n) with
            | none => simp [hrest] at h
            | some r3 =>
              obtain ⟨n3, b3, o3⟩ := r3
              simp only [hrest, Option.some.injEq, Prod.mk.injEq] at h
              obtain ⟨-, -, rfl⟩ := h
              intro i p ev d res' hm
              rcases List.mem_append.mp hm with hm | hm
              · exact invoke_sync pub hs b b1 k sub e res o1 hinv i p ev d res' hm
              · exact ih _ _ n3 b3 o3 hrest i p ev d res' hm

theorem publish_sync (fuel : Nat) :
    ∀ b e r, aegis_domain_event_publish fuel b e = some r →
      ∀ i p ev d res, BusObs.call i p ev d res ∈ r.2.2 → p = TRUE := by
  induction fuel with
  | zero =>
    intro b e r h
    simp [aegis_domain_event_publish] at h
  | succ fuel ih =>
    intro b e r h
    simp only [aegis_domain_event_publish, publish_body] at h
    by_cases hi : b.is_initialized = 0
    · rw [if_pos hi] at h
      simp only [Option.some.injEq] at h
      subst h
      intro i p ev d res hm
      exact absurd hm (List.not_mem_nil _)
    · rw [if_neg hi] at h
      cases hdis : dispatch_to_subscribers (aegis_domain_event_publish fuel)
          (publish_enter b e).2 (publish_enter b e).1 TRUE with
      | none => simp [hdis] at h
      | some x =>
        obtain ⟨n, b4, o4⟩ := x
        simp only [hdis, Option.some.injEq] at h
        subst h
        intro i p ev d res hm
        simp only [List.cons_append, List.mem_cons, List.mem_append, reduceCtorEq,
          false_or] at hm
        rcases hm with hm | hm
        · exact dispatch_loop_sync _ ih _ _ _ _ _ _ _ hdis i p ev d res hm
        · rcases publish_exit_obs b4 (publish_enter b e).1 n with hx | hx <;>
            · rw [hx] at hm
              simp at hm

/-- When every call observed belongs to the synchronous dispatch, the calls
counted as handled are the calls that returned `EVENT_HANDLER_OK`. -/
theorem obs_handled_count (o : List BusObs)
    (h : ∀ i p ev d res, BusObs.call i p ev d res ∈ o → p = TRUE) :
    obs_handled TRUE o =
      (obs_calls o).countP
        (fun c => decide (c.2.2.2 = AegisEventHandlerResult.EVENT_HANDLER_OK)) := by
  induction o with
  | nil => rfl
  | cons x o ih =>
    have ih' := ih (fun i p ev d res hm => h i p ev d res (List.mem_cons_of_mem _ hm))
    cases x with
    | call i p ev d res =>
      have hp := h i p ev d res (List.mem_cons_self _ _)
      subst hp
      simp only [obs_handled, obs_calls, List.countP_cons, true_and, ih']
      by_cases hr : res = AegisEventHandlerResult.EVENT_HANDLER_OK
      · simp [hr]
        omega
      · simp [hr]
    | published a c => simpa [obs_handled, obs_calls] using ih'
    | refused i p ev d => simpa [obs_handled, obs_calls] using ih'
    | enqueued a => simpa [obs_handled, obs_calls] using ih'
    | dropped a => simpa [obs_handled, obs_calls] using ih'
    | dequeued a => simpa [obs_handled, obs_calls] using ih'

theorem isolation_quiet (ev : AegisDomainEvent) : QuietFor isolation_table TRUE ev := by
  intro sub hs _ h hh
  simp only [isolation_table, List.mem_cons, List.mem_singleton, List.not_mem_nil, or_false] at hs
  rcases hs with rfl | rfl <;>
    · simp only [Option.some.injEq] at hh
      subst hh
      rfl

theorem isolation_dispatch (ec : AegisDomainEvent) (d : Nat) (h : ec.type = 1) :
    dispatch_obs isolation_table (List.range 2) TRUE ec d =
      [BusObs.call 0 TRUE ec d AegisEventHandlerResult.EVENT_HANDLER_ERROR,
        BusObs.call 1 TRUE ec d AegisEventHandlerResult.EVENT_HANDLER_OK] := by
  simp [dispatch_obs, isolation_table, sub_matches, h, List.range, List.range.loop,
    error_handler, ok_handler]

theorem published_ids (o : List BusObs) (n : Nat)
    (h : (obs_published o).map AegisDomainEvent.event_id =
      (List.range (obs_published o).length).map fun k => (n + k) % 65536)
    (k : Nat) (ec : AegisDomainEvent) (hk : (obs_published o)[k]? = some ec) :
    ec.event_id = (n + k) % 65536 := by
  have hlt : k < (obs_published o).length := by
    by_contra hn
    rw [List.getElem?_eq_none (by omega)] at hk
    exact absurd hk (by simp)
  have h1 := congrArg (fun l => l[k]?) h
  simp only [List.getElem?_map, hk, Option.map_some', List.getElem?_range hlt] at h1
  exact Option.some.inj h1



/-! ## Claims about handler errors -/

/-- C11, amended (handler error isolation): on every initialised bus a publish
returns `ERR_OK` whatever its handlers return.  When it is entered below the
recursion limit, its dispatch calls every subscription that has a handler, is
synchronous and matches the type of the event, once each and in table order,
so that a handler returning `EVENT_HANDLER_ERROR` keeps no later subscriber
from being called.  `sync_handled` grows (as a `uint32_t`) by exactly the
number of handler calls made during the publish that returned
`EVENT_HANDLER_OK`.  The copy of the event is enqueued for async delivery when
the queue has room for one record after the synchronous dispatch, and dropped
otherwise; the events pending afterwards are those pending before followed by
the ones enqueued.  When no synchronous handler publishes, the observations are
the publication, one call per eligible subscription and the enqueue or drop of
the copy according to the room in the queue at entry. -/
theorem handler_error_isolation (fuel : Nat) (b : AegisDomainEventBus) (e : AegisDomainEvent)
    (tbl : List AegisEventSubscription) (hwf : BusWF b) (hi : b.is_initialized ≠ 0)
    (htbl : b.subscriptions.getD [] = tbl) (hf : MAX_EVENT_RECURSION_DEPTH + 1 ≤ fuel) :
    ∃ b' o, aegis_domain_event_publish fuel b e = some (ERR_OK, b', o) ∧
      (b.recursion_depth < MAX_EVENT_RECURSION_DEPTH →
        calls_at b.recursion_depth o =
          (eligible tbl b.subscription_count TRUE (publish_enter b e).1).map fun i =>
            (i, (publish_enter b e).1)) ∧
      b'.sync_handled =
        (b.sync_handled +
          (obs_calls o).countP
            (fun c => decide (c.2.2.2 = AegisEventHandlerResult.EVENT_HANDLER_OK))) %
          4294967296 ∧
      (∃ mid, o = BusObs.published e (publish_enter b e).1 :: mid ++
        [if (pending_events b).length + (obs_enqueued mid).length < DOMAIN_EVENT_QUEUE_SIZE then
          BusObs.enqueued (publish_enter b e).1
        else BusObs.dropped (publish_enter b e).1]) ∧
      pending_events b' = pending_events b ++ obs_enqueued o ∧
      (b.recursion_depth < MAX_EVENT_RECURSION_DEPTH → (∀ ev, QuietFor tbl TRUE ev) →
        o = BusObs.published e (publish_enter b e).1 ::
          dispatch_obs tbl (List.range b.subscription_count) TRUE (publish_enter b e).1
            b.recursion_depth ++
          [if (pending_events b).length < DOMAIN_EVENT_QUEUE_SIZE then
            BusObs.enqueued (publish_enter b e).1
          else BusObs.dropped (publish_enter b e).1]) := by
  obtain ⟨b', o, hpub, -, -, -⟩ := publish_depths fuel b e hwf hi hf
  refine ⟨b', o, hpub, fun hd => publish_calls fuel b b' e _ o tbl hwf hi hd htbl hpub, ?_,
    publish_shape fuel b b' e _ o hwf hi hpub, publish_pending fuel b b' e _ o hwf hi hpub,
    fun hd hq => ?_⟩
  · rw [← obs_handled_count o (publish_sync fuel b e _ hpub)]
    exact publish_handled fuel b e _ hwf hi hpub
  · cases fuel with
    | zero => simp [aegis_domain_event_publish] at hpub
    | succ f =>
      obtain ⟨b2, hpub2, -⟩ := publish_quiet f b e tbl hwf hi hd htbl hq
      rw [hpub] at hpub2
      simp only [Option.some.injEq, Prod.mk.injEq, true_and] at hpub2
      exact hpub2.2

theorem handler_error_isolation_witness :
    ∃ b' o, aegis_domain_event_publish 4 isolation_bus demo_event = some (ERR_OK, b', o) ∧
      (obs_calls o).map (fun c => (c.1, c.2.2.2)) =
        [(0, AegisEventHandlerResult.EVENT_HANDLER_ERROR),
          (1, AegisEventHandlerResult.EVENT_HANDLER_OK)] ∧
      b'.sync_handled = isolation_bus.sync_handled + 1 ∧
      (pending_events b').length = 1 := by
  have hw := bus_init_wf storage_bus none (some isolation_table) 2 (by decide) (by decide)
    (fun _ h => nomatch h)
  obtain ⟨b', o, hpub, -, hs, -, hp, hq⟩ :=
    handler_error_isolation 4 isolation_bus demo_event isolation_table hw.1 (by decide) rfl
      (by decide)
  have ho := hq (by decide) isolation_quiet
  have hp0 : pending_events isolation_bus = [] := hw.2.1
  have hty : (publish_enter isolation_bus demo_event).1.type = 1 :=
    ((copy_type demo_event _ (publish_enter_copy isolation_bus demo_event)).1).trans
      (by decide)
  have hcnt : isolation_bus.subscription_count = 2 := rfl
  have hdp : isolation_bus.recursion_depth = 0 := rfl
  rw [hp0, hcnt, hdp, isolation_dispatch _ 0 hty] at ho
  refine ⟨b', o, hpub, ?_, ?_, ?_⟩
  · rw [ho]
    rfl
  · rw [hs, ho]
    rfl
  · rw [hp, hp0, ho]
    rfl

/-- Counterexample to C11 as stated: on the bus initialised with an error
handler followed by an ok handler, 32 publishes fill the async queue; the next
publish on that initialised bus returns `ERR_OK` after both handlers were
called, but it does not enqueue the event: the copy is dropped and the pending
events are the 32 there were. -/
theorem handler_error_isolation_counterexample :
    ∃ rs b o, bus_run 4 isolation_bus ((List.replicate 32 demo_event).map BusCall.publish) =
        some (rs, b, o) ∧
      b.is_initialized = TRUE ∧ (pending_events b).length = 32 ∧
      ∃ b' o', aegis_domain_event_publish 4 b demo_event = some (ERR_OK, b', o') ∧
        (obs_calls o').map (fun c => (c.1, c.2.2.2)) =
          [(0, AegisEventHandlerResult.EVENT_HANDLER_ERROR),
            (1, AegisEventHandlerResult.EVENT_HANDLER_OK)] ∧
        obs_enqueued o' = [] ∧ obs_dropped o' = [(publish_enter b demo_event).1] ∧
        pending_events b' = pending_events b := by
  have hw := bus_init_wf storage_bus none (some isolation_table) 2 (by decide) (by decide)
    (fun _ h => nomatch h)
  have hp0 : pending_events isolation_bus = [] := hw.2.1
  obtain ⟨b, o, hrun, e1, -, i2, i3, i4, -⟩ := publish_run_quiet 3 isolation_table
    isolation_quiet (List.replicate 32 demo_event) isolation_bus hw.1 (by decide) (by decide) rfl
  rw [List.length_replicate] at hrun i2
  have hq := e1.queue
  rw [i3, List.nil_append, hp0, List.nil_append, i4, hp0] at hq
  have hlen : (pending_events b).length = 32 := by
    rw [hq, List.length_take, i2]
    rfl
  have hinit : b.is_initialized = TRUE := e1.init
  have hib : b.is_initialized ≠ 0 := by rw [hinit]; decide
  have hdb : b.recursion_depth = 0 := e1.depth
  have hcb : b.subscription_count = 2 := e1.cnt
  have htb : b.subscriptions.getD [] = isolation_table := by rw [e1.subs]; rfl
  obtain ⟨b', hpub, -⟩ := publish_quiet 3 b demo_event isolation_table e1.wf hib
    (by rw [hdb]; decide) htb isolation_quiet
  have hty : (publish_enter b demo_event).1.type = 1 :=
    ((copy_type demo_event _ (publish_enter_copy b demo_event)).1).trans (by decide)
  rw [hcb, hdb, isolation_dispatch _ 0 hty, hlen, if_neg (by decide)] at hpub
  have hp := publish_pending 4 b b' demo_event _ _ e1.wf hib hpub
  refine ⟨_, b, o, hrun, hinit, hlen, b', _, hpub, rfl, rfl, rfl, ?_⟩
  rw [hp]
  exact List.append_nil _


/-! ## Claims about the command channel -/

/-- C12 (command enqueue is all-or-nothing): on an initialised command queue
whose ring is well formed, for a command whose type is not `CMD_TYPE_INVALID`:
if the free space of the ring is less than `sizeof(AegisCommand)`,
`aegis_app_cmd_enqueue` returns `ERR_OUT_OF_RANGE` and the whole queue (head,
tail, count, buffer, log) is as before; otherwise it returns `ERR_OK` and
`count` has grown by exactly `sizeof(AegisCommand)`.  Hence on any empty
initialised queue, of `CMD_QUEUE_SIZE + 1` enqueues of valid commands the first
`CMD_QUEUE_SIZE` return `ERR_OK` and the last returns `ERR_OUT_OF_RANGE`. -/
theorem enqueue_all_or_nothing (q : AegisAppCmdQueue) (c : AegisCommand)
    (hi : q.is_initialized ≠ 0) (hwf : RingWF q.ring) (ht : c.type ≠ CMD_TYPE_INVALID) :
    (aegis_ring_buffer_get_free q.ring < sizeof_AegisCommand →
        aegis_app_cmd_enqueue q c = (ERR_OUT_OF_RANGE, q)) ∧
      (¬ aegis_ring_buffer_get_free q.ring < sizeof_AegisCommand →
        (aegis_app_cmd_enqueue q c).1 = ERR_OK ∧
          (aegis_app_cmd_enqueue q c).2.ring.count = q.ring.count + sizeof_AegisCommand) ∧
      ∀ (q0 : AegisAppCmdQueue) (cs : List AegisCommand), CmdQueueWF q0 →
        pending_cmds q0 = [] → cs.length = CMD_QUEUE_SIZE + 1 →
        (∀ x ∈ cs, x.type ≠ CMD_TYPE_INVALID) →
        (cmd_run q0 (cs.map CmdOp.enqueue)).1.map Prod.fst =
          List.replicate CMD_QUEUE_SIZE ERR_OK ++ [ERR_OUT_OF_RANGE] := by
  refine ⟨cmd_enqueue_full q c hi ht, fun hfree => ?_, ?_⟩
  · obtain ⟨h1, h2⟩ := cmd_enqueue_room q c hi ht hwf hfree
    rw [h1]
    exact ⟨rfl, h2⟩
  · intro q0 cs hq he hl hcs
    have := enqueue_overflow_run cs q0 hq hcs (by rw [he, hl]; rfl)
    rw [hl] at this
    exact this

theorem enqueue_all_or_nothing_witness :
    (aegis_ring_buffer_get_free demo_cmd_queue.ring < sizeof_AegisCommand →
        aegis_app_cmd_enqueue demo_cmd_queue demo_cmd = (ERR_OUT_OF_RANGE, demo_cmd_queue)) ∧
      (¬ aegis_ring_buffer_get_free demo_cmd_queue.ring < sizeof_AegisCommand →
        (aegis_app_cmd_enqueue demo_cmd_queue demo_cmd).1 = ERR_OK ∧
          (aegis_app_cmd_enqueue demo_cmd_queue demo_cmd).2.ring.count =
            demo_cmd_queue.ring.count + sizeof_AegisCommand) ∧
      ∀ (q0 : AegisAppCmdQueue) (cs : List AegisCommand), CmdQueueWF q0 →
        pending_cmds q0 = [] → cs.length = CMD_QUEUE_SIZE + 1 →
        (∀ x ∈ cs, x.type ≠ CMD_TYPE_INVALID) →
        (cmd_run q0 (cs.map CmdOp.enqueue)).1.map Prod.fst =
          List.replicate CMD_QUEUE_SIZE ERR_OK ++ [ERR_OUT_OF_RANGE] :=
  enqueue_all_or_nothing demo_cmd_queue demo_cmd (by decide) demo_cmd_queue_wf.2.1.1.1
    (by decide)

/-- C13 (command channel FIFO round trip): on an empty initialised queue, for
commands `c1..cn` with `n ≤ CMD_QUEUE_SIZE` and types other than
`CMD_TYPE_INVALID`, the `n` enqueues all return `ERR_OK` and the `n` dequeues
that follow all return `ERR_OK`; the `i`-th dequeue delivers a record with the
type, entity id, payload size and payload of `ci` and with the timestamp read
from the log at the enqueue of `ci` (the value `aegis_trace_get_timestamp`
returns on the log as the earlier enqueues left it, 0 without a log), whatever
timestamp the caller supplied; the dequeues deliver exactly `n` records, and
afterwards the queue is empty, so that a further dequeue returns `ERR_EMPTY`. -/
theorem cmd_fifo_round_trip (q : AegisAppCmdQueue) (cs outs : List AegisCommand)
    (hq : CmdQueueWF q) (he : pending_cmds q = []) (hn : cs.length ≤ CMD_QUEUE_SIZE)
    (hcs : ∀ c ∈ cs, CmdWF c ∧ c.type ≠ CMD_TYPE_INVALID) (ho : outs.length = cs.length) :
    (cmd_run q (cs.map CmdOp.enqueue ++ outs.map CmdOp.dequeue)).1 =
        cs.map (fun _ => (ERR_OK, none)) ++
          (stamped_cmds q.trace cs).map (fun c => (ERR_OK, some c)) ∧
      (stamped_cmds q.trace cs).length = cs.length ∧
      (∀ i c, cs[i]? = some c →
        ∃ r, (stamped_cmds q.trace cs)[i]? = some r ∧ r.type = c.type ∧
          r.entity_id = c.entity_id ∧ r.payload_size = c.payload_size ∧
          r.payload = c.payload ∧
          r.timestamp =
            match (cmd_run q ((cs.take i).map CmdOp.enqueue)).2.trace with
            | some log => (aegis_trace_get_timestamp log).1
            | none => 0) ∧
      (q.trace = none → ∀ r ∈ stamped_cmds q.trace cs, r.timestamp = 0) ∧
      pending_cmds (cmd_run q (cs.map CmdOp.enqueue ++ outs.map CmdOp.dequeue)).2 = [] ∧
      ∀ out,
        aegis_app_cmd_dequeue (cmd_run q (cs.map CmdOp.enqueue ++ outs.map CmdOp.dequeue)).2
            out =
          (ERR_EMPTY, (cmd_run q (cs.map CmdOp.enqueue ++ outs.map CmdOp.dequeue)).2, out) := by
  obtain ⟨r1, r2, r3⟩ := round_trip_run cs outs q hq he hcs hn ho
  refine ⟨r1, stamped_cmds_length _ _, ?_, ?_, r3, fun out => cmd_dequeue_none _ out r2 r3⟩
  · intro i c hi
    have hg := stamped_cmds_getElem cs q hq (fun x hx => (hcs x hx).2)
      (by rw [he]; simpa using hn) i c hi
    exact ⟨_, hg, rfl, rfl, rfl, rfl, enqueue_stamp_fst _ c⟩
  · intro hnone
    rw [hnone]
    exact stamped_cmds_none cs

theorem cmd_fifo_round_trip_witness :
    (cmd_run demo_cmd_queue
          ([demo_cmd, demo_cmd2].map CmdOp.enqueue ++ [zero_cmd, zero_cmd].map CmdOp.dequeue)).1 =
        [demo_cmd, demo_cmd2].map (fun _ => (ERR_OK, none)) ++
          (stamped_cmds demo_cmd_queue.trace [demo_cmd, demo_cmd2]).map
            (fun c => (ERR_OK, some c)) ∧
      (stamped_cmds demo_cmd_queue.trace [demo_cmd, demo_cmd2]).length =
        [demo_cmd, demo_cmd2].length ∧
      (∀ i c, [demo_cmd, demo_cmd2][i]? = some c →
        ∃ r, (stamped_cmds demo_cmd_queue.trace [demo_cmd, demo_cmd2])[i]? = some r ∧
          r.type = c.type ∧ r.entity_id = c.entity_id ∧ r.payload_size = c.payload_size ∧
          r.payload = c.payload ∧
          r.timestamp =
            match (cmd_run demo_cmd_queue
              (([demo_cmd, demo_cmd2].take i).map CmdOp.enqueue)).2.trace with
            | some log => (aegis_trace_get_timestamp log).1
            | none => 0) ∧
      (demo_cmd_queue.trace = none →
        ∀ r ∈ stamped_cmds demo_cmd_queue.trace [demo_cmd, demo_cmd2], r.timestamp = 0) ∧
      pending_cmds (cmd_run demo_cmd_queue
        ([demo_cmd, demo_cmd2].map CmdOp.enqueue ++
          [zero_cmd, zero_cmd].map CmdOp.dequeue)).2 = [] ∧
      ∀ out,
        aegis_app_cmd_dequeue (cmd_run demo_cmd_queue
            ([demo_cmd, demo_cmd2].map CmdOp.enqueue ++
              [zero_cmd, zero_cmd].map CmdOp.dequeue)).2 out =
          (ERR_EMPTY, (cmd_run demo_cmd_queue
            ([demo_cmd, demo_cmd2].map CmdOp.enqueue ++
              [zero_cmd, zero_cmd].map CmdOp.dequeue)).2, out) :=
  cmd_fifo_round_trip demo_cmd_queue [demo_cmd, demo_cmd2] [zero_cmd, zero_cmd]
    demo_cmd_queue_wf demo_cmd_queue_empty (by decide) (by decide) rfl

/-- C14 (command dequeue on empty): on an initialised command queue whose ring
is well formed, `aegis_app_cmd_dequeue` returns `ERR_EMPTY` exactly when fewer
than `sizeof(AegisCommand)` bytes are buffered, and then the queue and the
caller's output record are as before; otherwise it returns `ERR_OK`, the count
of buffered bytes has gone down by exactly `sizeof(AegisCommand)`, the bytes
left are the earlier ones without the first `sizeof(AegisCommand)`, and the
record delivered is the one those first bytes represent. -/
theorem dequeue_on_empty (q : AegisAppCmdQueue) (out : AegisCommand)
    (hi : q.is_initialized ≠ 0) (hwf : RingWF q.ring) :
    ((aegis_app_cmd_dequeue q out).1 = ERR_EMPTY ↔
        aegis_ring_buffer_get_count q.ring < sizeof_AegisCommand) ∧
      (aegis_ring_buffer_get_count q.ring < sizeof_AegisCommand →
        aegis_app_cmd_dequeue q out = (ERR_EMPTY, q, out)) ∧
      (¬ aegis_ring_buffer_get_count q.ring < sizeof_AegisCommand →
        (aegis_app_cmd_dequeue q out).1 = ERR_OK ∧
          (aegis_app_cmd_dequeue q out).2.1.ring.count + sizeof_AegisCommand = q.ring.count ∧
          ring_contents (aegis_app_cmd_dequeue q out).2.1.ring =
            (ring_contents q.ring).drop sizeof_AegisCommand ∧
          (aegis_app_cmd_dequeue q out).2.2 =
            cmd_of_bytes ((ring_contents q.ring).take sizeof_AegisCommand)) := by
  have hroom : ¬ aegis_ring_buffer_get_count q.ring < sizeof_AegisCommand →
      (aegis_app_cmd_dequeue q out).1 = ERR_OK ∧
        (aegis_app_cmd_dequeue q out).2.1.ring.count + sizeof_AegisCommand = q.ring.count ∧
        ring_contents (aegis_app_cmd_dequeue q out).2.1.ring =
          (ring_contents q.ring).drop sizeof_AegisCommand ∧
        (aegis_app_cmd_dequeue q out).2.2 =
          cmd_of_bytes ((ring_contents q.ring).take sizeof_AegisCommand) := by
    intro hc
    obtain ⟨h1, h2, h3⟩ := cmd_dequeue_room q out hi hwf hc
    rw [h1]
    exact ⟨rfl, h2, h3, rfl⟩
  refine ⟨⟨fun h => ?_, fun h => by rw [cmd_dequeue_empty q out hi h]⟩,
    cmd_dequeue_empty q out hi, hroom⟩
  by_contra hc
  rw [(hroom hc).1] at h
  exact absurd h (by decide)

theorem dequeue_on_empty_witness :
    ((aegis_app_cmd_dequeue demo_cmd_queue demo_cmd).1 = ERR_EMPTY ↔
        aegis_ring_buffer_get_count demo_cmd_queue.ring < sizeof_AegisCommand) ∧
      (aegis_ring_buffer_get_count demo_cmd_queue.ring < sizeof_AegisCommand →
        aegis_app_cmd_dequeue demo_cmd_queue demo_cmd = (ERR_EMPTY, demo_cmd_queue, demo_cmd)) ∧
      (¬ aegis_ring_buffer_get_count demo_cmd_queue.ring < sizeof_AegisCommand →
        (aegis_app_cmd_dequeue demo_cmd_queue demo_cmd).1 = ERR_OK ∧
          (aegis_app_cmd_dequeue demo_cmd_queue demo_cmd).2.1.ring.count + sizeof_AegisCommand =
            demo_cmd_queue.ring.count ∧
          ring_contents (aegis_app_cmd_dequeue demo_cmd_queue demo_cmd).2.1.ring =
            (ring_contents demo_cmd_queue.ring).drop sizeof_AegisCommand ∧
          (aegis_app_cmd_dequeue demo_cmd_queue demo_cmd).2.2 =
            cmd_of_bytes ((ring_contents demo_cmd_queue.ring).take sizeof_AegisCommand)) :=
  dequeue_on_empty demo_cmd_queue demo_cmd (by decide) demo_cmd_queue_wf.2.1.1.1

/-- C15 (command count): on an initialised command queue, `get_count` reports
the buffered byte count divided by `sizeof(AegisCommand)`, rounded down; after
every sequence of enqueue, dequeue and clear calls the buffered byte count is a
multiple of `sizeof(AegisCommand)` and the reported count is the number of
successful enqueues minus the number of successful dequeues since the last
clear call, or since the start (plus the number then held) when there was no
clear (`cmd_net`); every call returns a status and every clear returns
`ERR_OK`; a clear empties the queue: it returns `ERR_OK` and the count
reported afterwards is 0; a queue just initialised holds no byte, so from there
the count starts at 0; and on an empty queue the count is 1 after an enqueue
and 0 after the dequeue that follows. -/
theorem cmd_count_tracks_calls (q : AegisAppCmdQueue) (ops : List CmdOp) (hq : CmdQueueWF q) :
    aegis_app_cmd_get_count q =
        (ERR_OK, some (aegis_ring_buffer_get_count q.ring / sizeof_AegisCommand)) ∧
      sizeof_AegisCommand ∣ aegis_ring_buffer_get_count (cmd_run q ops).2.ring ∧
      aegis_app_cmd_get_count (cmd_run q ops).2 =
        (ERR_OK,
          some (cmd_net (aegis_ring_buffer_get_count q.ring / sizeof_AegisCommand) ops
            ((cmd_run q ops).1.map Prod.fst))) ∧
      ((cmd_run q ops).1.map Prod.fst).length = ops.length ∧
      clear_statuses ops ((cmd_run q ops).1.map Prod.fst) ∧
      (aegis_app_cmd_clear q).1 = ERR_OK ∧
      aegis_ring_buffer_get_count (aegis_app_cmd_clear q).2.ring = 0 ∧
      aegis_app_cmd_get_count (aegis_app_cmd_clear q).2 = (ERR_OK, some 0) ∧
      (∀ storage trace, TraceWF trace →
        CmdQueueWF (aegis_app_cmd_init storage trace).2 ∧
          aegis_ring_buffer_get_count (aegis_app_cmd_init storage trace).2.ring = 0) ∧
      ∀ c out, c.type ≠ CMD_TYPE_INVALID → aegis_ring_buffer_get_count q.ring = 0 →
        aegis_app_cmd_get_count (aegis_app_cmd_enqueue q c).2 = (ERR_OK, some 1) ∧
          aegis_app_cmd_get_count
            (aegis_app_cmd_dequeue (aegis_app_cmd_enqueue q c).2 out).2.1 = (ERR_OK, some 0) := by
  have hdiv : ∀ q1 : AegisAppCmdQueue, CmdQueueWF q1 →
      aegis_ring_buffer_get_count q1.ring / sizeof_AegisCommand = (pending_cmds q1).length := by
    intro q1 h1
    unfold aegis_ring_buffer_get_count
    rw [(cmd_get_count_wf q1 h1).2, Nat.mul_div_cancel_left _ (by decide)]
  obtain ⟨w1, w2⟩ := cmd_run_wf ops q hq
  obtain ⟨v1, v2⟩ := cmd_run_clears ops q hq
  obtain ⟨c1, c2, c3⟩ := cmd_clear_ok q hq
  refine ⟨by rw [hdiv q hq]; exact (cmd_get_count_wf q hq).1,
    ⟨_, (cmd_get_count_wf _ w1).2⟩, ?_, v1, v2, c1, ?_, ?_, ?_, ?_⟩
  · rw [(cmd_get_count_wf _ w1).1, w2, hdiv q hq]
  · show (aegis_app_cmd_clear q).2.ring.count = 0
    rw [(cmd_get_count_wf _ c2).2, c3]
    rfl
  · rw [(cmd_get_count_wf _ c2).1, c3]
    rfl
  · intro storage trace ht
    exact ⟨(cmd_init_wf storage trace ht).2.1, by rw [cmd_init_ring]; rfl⟩
  · intro c out ht h0
    have hp : (pending_cmds q).length = 0 := by
      rw [← hdiv q hq, h0]
      rfl
    obtain ⟨-, e2, e3, -⟩ := cmd_enqueue_ok q c hq ht (by rw [hp]; decide)
    rw [List.length_eq_zero.mp hp, List.nil_append] at e3
    obtain ⟨-, d2, d3, -⟩ := cmd_dequeue_some _ out _ [] e2 e3
    rw [(cmd_get_count_wf _ e2).1, (cmd_get_count_wf _ d2).1, e3, d3]
    exact ⟨rfl, rfl⟩

theorem cmd_count_tracks_calls_witness :
    (CmdQueueWF demo_cmd_queue ∧ aegis_app_cmd_get_count (cmd_run demo_cmd_queue
    cmd_count_demo_ops).2 = (ERR_OK, some 1) ∧ (cmd_run demo_cmd_queue
    cmd_count_demo_ops).1.map Prod.fst = [ERR_OK, ERR_OK, ERR_OK, ERR_OK]) ∧
    (aegis_app_cmd_get_count demo_cmd_queue = (ERR_OK,
    some (aegis_ring_buffer_get_count demo_cmd_queue.ring / sizeof_AegisCommand)) ∧
    sizeof_AegisCommand ∣ aegis_ring_buffer_get_count (cmd_run demo_cmd_queue
    cmd_count_demo_ops).2.ring ∧ aegis_app_cmd_get_count (cmd_run demo_cmd_queue
    cmd_count_demo_ops).2 = (ERR_OK, some (cmd_net (aegis_ring_buffer_get_count
    demo_cmd_queue.ring / sizeof_AegisCommand) cmd_count_demo_ops ((cmd_run demo_cmd_queue
    cmd_count_demo_ops).1.map Prod.fst))) ∧ ((cmd_run demo_cmd_queue cmd_count_demo_ops).1.map
    Prod.fst).length = cmd_count_demo_ops.length ∧ clear_statuses cmd_count_demo_ops ((cmd_run
    demo_cmd_queue cmd_count_demo_ops).1.map Prod.fst) ∧ (aegis_app_cmd_clear demo_cmd_queue).1 =
    ERR_OK ∧ aegis_ring_buffer_get_count (aegis_app_cmd_clear demo_cmd_queue).2.ring = 0 ∧
    aegis_app_cmd_get_count (aegis_app_cmd_clear demo_cmd_queue).2 = (ERR_OK, some 0) ∧ (∀ storage
    trace, TraceWF trace → CmdQueueWF (aegis_app_cmd_init storage trace).2 ∧
    aegis_ring_buffer_get_count (aegis_app_cmd_init storage trace).2.ring = 0) ∧ ∀ c out, c.type ≠
    CMD_TYPE_INVALID → aegis_ring_buffer_get_count demo_cmd_queue.ring = 0 →
    aegis_app_cmd_get_count (aegis_app_cmd_enqueue demo_cmd_queue c).2 = (ERR_OK, some 1) ∧
    aegis_app_cmd_get_count (aegis_app_cmd_dequeue (aegis_app_cmd_enqueue demo_cmd_queue c).2
    out).2.1 = (ERR_OK, some 0)) :=
  ⟨⟨demo_cmd_queue_wf, cmd_count_demo_eval.1, cmd_count_demo_eval.2⟩,
    cmd_count_tracks_calls demo_cmd_queue cmd_count_demo_ops demo_cmd_queue_wf⟩


/-! ## Claims about the handler tables -/

/-- C16 (handler registration, command and query tables): on a table with its
16 entries and `handler_count ≤ 16`, registering type `t` with a non-null
handler and a context does exactly one of three things.  (a) If `t` is
registered, the first slot `i` that has type `t` gets the handler and the
context, in place: the table returned differs from the old one in that slot
only, which keeps its type, `handler_count` is the same and the status is
`ERR_OK`, whether or not the table is full; a later execute of `t` calls the
handler just registered, once, with the new context, and no other handler.
(b) If `t` is not registered and `handler_count < 16`, the entry `(t, h, c)` is
stored at index `handler_count`, the count goes up by one and the status is
`ERR_OK`; a later execute of `t` calls that handler.  (c) Otherwise the status
is `ERR_OUT_OF_RANGE` and the table is as before.  The query dispatcher
rejects a request of type `QUERY_TYPE_INVALID` before the lookup: there the
execute of `t` calls the handler just registered when `t` is not
`QUERY_TYPE_INVALID`, and no handler at all when it is. -/
theorem handler_registration (service : AegisAppCmdService)
    (dispatcher : AegisAppQueryDispatcher) (t : Nat) (hc : AppCmdHandler)
    (hq : AppQueryHandler) (c : Nat) (hs : TableWF APP_CMD_SERVICE_MAX_HANDLERS service)
    (hd : TableWF APP_QUERY_MAX_HANDLERS dispatcher) :
    ((registered service t →
        ∃ i e, i < service.handler_count ∧ service.handlers[i]? = some e ∧ e.type = t ∧
          (∀ j, j < i → ∀ x, service.handlers[j]? = some x → x.type ≠ t) ∧
          aegis_app_cmd_service_register_handler service t (some hc) c =
            (ERR_OK,
              { service with
                handlers := service.handlers.set i { e with handler := some hc, ctx := c } }) ∧
          ∀ cmd result, cmd.type = t →
            aegis_app_cmd_service_execute
                (aegis_app_cmd_service_register_handler service t (some hc) c).2 cmd result =
              ((hc cmd (cmd_result_defaults result) c).1,
                { (hc cmd (cmd_result_defaults result) c).2 with
                  result := (hc cmd (cmd_result_defaults result) c).1 },
                [(i, c)])) ∧
      (¬ registered service t → service.handler_count < APP_CMD_SERVICE_MAX_HANDLERS →
        aegis_app_cmd_service_register_handler service t (some hc) c =
            (ERR_OK,
              { handlers :=
                  service.handlers.set service.handler_count
                    { type := t, handler := some hc, ctx := c }
                handler_count := service.handler_count + 1 }) ∧
          ∀ cmd result, cmd.type = t →
            aegis_app_cmd_service_execute
                (aegis_app_cmd_service_register_handler service t (some hc) c).2 cmd result =
              ((hc cmd (cmd_result_defaults result) c).1,
                { (hc cmd (cmd_result_defaults result) c).2 with
                  result := (hc cmd (cmd_result_defaults result) c).1 },
                [(service.handler_count, c)])) ∧
      (¬ registered service t → ¬ service.handler_count < APP_CMD_SERVICE_MAX_HANDLERS →
        aegis_app_cmd_service_register_handler service t (some hc) c =
          (ERR_OUT_OF_RANGE, service))) ∧
    ((registered dispatcher t →
        ∃ i e, i < dispatcher.handler_count ∧ dispatcher.handlers[i]? = some e ∧
          e.type = t ∧
          (∀ j, j < i → ∀ x, dispatcher.handlers[j]? = some x → x.type ≠ t) ∧
          aegis_app_query_register_handler dispatcher t (some hq) c =
            (ERR_OK,
              { dispatcher with
                handlers := dispatcher.handlers.set i { e with handler := some hq, ctx := c } }) ∧
          ∀ req resp, req.type = t →
            (t ≠ QUERY_TYPE_INVALID →
              aegis_app_query_execute
                  (aegis_app_query_register_handler dispatcher t (some hq) c).2 req resp =
                ((hq req resp c).1, { (hq req resp c).2 with result := (hq req resp c).1 },
                  [(i, c)])) ∧
            (t = QUERY_TYPE_INVALID →
              (aegis_app_query_execute
                (aegis_app_query_register_handler dispatcher t (some hq) c).2 req resp).2.2 =
                  [])) ∧
      (¬ registered dispatcher t → dispatcher.handler_count < APP_QUERY_MAX_HANDLERS →
        aegis_app_query_register_handler dispatcher t (some hq) c =
            (ERR_OK,
              { handlers :=
                  dispatcher.handlers.set dispatcher.handler_count
                    { type := t, handler := some hq, ctx := c }
                handler_count := dispatcher.handler_count + 1 }) ∧
          ∀ req resp, req.type = t →
            (t ≠ QUERY_TYPE_INVALID →
              aegis_app_query_execute
                  (aegis_app_query_register_handler dispatcher t (some hq) c).2 req resp =
                ((hq req resp c).1, { (hq req resp c).2 with result := (hq req resp c).1 },
                  [(dispatcher.handler_count, c)])) ∧
            (t = QUERY_TYPE_INVALID →
              (aegis_app_query_execute
                (aegis_app_query_register_handler dispatcher t (some hq) c).2 req resp).2.2 =
                  [])) ∧
      (¬ registered dispatcher t → ¬ dispatcher.handler_count < APP_QUERY_MAX_HANDLERS →
        aegis_app_query_register_handler dispatcher t (some hq) c =
          (ERR_OUT_OF_RANGE, dispatcher))) := by
  refine ⟨⟨fun hreg => ?_, fun hn hlt => ?_, fun hn hge => ?_⟩,
    ⟨fun hreg => ?_, fun hn hlt => ?_, fun hn hge => ?_⟩⟩
  · obtain ⟨i, e, h1, h2, h3, h4, h5, h6⟩ :=
      register_spec_update APP_CMD_SERVICE_MAX_HANDLERS service t hc c hreg
    refine ⟨i, e, h1, h2, h3, h4, h5, fun cmd result hty => ?_⟩
    unfold aegis_app_cmd_service_register_handler
    rw [h5]
    exact cmd_execute_found _ cmd result i hc c (by rw [hty]; exact h6)
  · obtain ⟨h5, h6⟩ :=
      register_spec_append APP_CMD_SERVICE_MAX_HANDLERS service t hc c hs (by decide) hn hlt
    refine ⟨h5, fun cmd result hty => ?_⟩
    unfold aegis_app_cmd_service_register_handler
    rw [h5]
    exact cmd_execute_found _ cmd result _ hc c (by rw [hty]; exact h6)
  · exact register_spec_full APP_CMD_SERVICE_MAX_HANDLERS service t hc c hn hge
  · obtain ⟨i, e, h1, h2, h3, h4, h5, h6⟩ :=
      register_spec_update APP_QUERY_MAX_HANDLERS dispatcher t hq c hreg
    refine ⟨i, e, h1, h2, h3, h4, h5, fun req resp hty => ⟨fun hne => ?_, fun hinv => ?_⟩⟩
    · unfold aegis_app_query_register_handler
      rw [h5]
      exact query_execute_found _ req resp i hq c (by rw [hty]; exact hne)
        (by rw [hty]; exact h6)
    · rw [query_execute_invalid _ req resp (by rw [hty]; exact hinv)]
  · obtain ⟨h5, h6⟩ :=
      register_spec_append APP_QUERY_MAX_HANDLERS dispatcher t hq c hd (by decide) hn hlt
    refine ⟨h5, fun req resp hty => ⟨fun hne => ?_, fun hinv => ?_⟩⟩
    · unfold aegis_app_query_register_handler
      rw [h5]
      exact query_execute_found _ req resp _ hq c (by rw [hty]; exact hne)
        (by rw [hty]; exact h6)
    · rw [query_execute_invalid _ req resp (by rw [hty]; exact hinv)]
  · exact register_spec_full APP_QUERY_MAX_HANDLERS dispatcher t hq c hn hge

theorem handler_registration_witness :
    ((registered demo_service 1 →
        ∃ i e, i < demo_service.handler_count ∧ demo_service.handlers[i]? = some e ∧
          e.type = 1 ∧
          (∀ j, j < i → ∀ x, demo_service.handlers[j]? = some x → x.type ≠ 1) ∧
          aegis_app_cmd_service_register_handler demo_service 1 (some create_cmd_handler) 9 =
            (ERR_OK,
              { demo_service with
                handlers :=
                  demo_service.handlers.set i
                    { e with handler := some create_cmd_handler, ctx := 9 } }) ∧
          ∀ cmd result, cmd.type = 1 →
            aegis_app_cmd_service_execute
                (aegis_app_cmd_service_register_handler demo_service 1
                  (some create_cmd_handler) 9).2 cmd result =
              ((create_cmd_handler cmd (cmd_result_defaults result) 9).1,
                { (create_cmd_handler cmd (cmd_result_defaults result) 9).2 with
                  result := (create_cmd_handler cmd (cmd_result_defaults result) 9).1 },
                [(i, 9)])) ∧
      (¬ registered demo_service 1 →
        demo_service.handler_count < APP_CMD_SERVICE_MAX_HANDLERS →
        aegis_app_cmd_service_register_handler demo_service 1 (some create_cmd_handler) 9 =
            (ERR_OK,
              { handlers :=
                  demo_service.handlers.set demo_service.handler_count
                    { type := 1, handler := some create_cmd_handler, ctx := 9 }
                handler_count := demo_service.handler_count + 1 }) ∧
          ∀ cmd result, cmd.type = 1 →
            aegis_app_cmd_service_execute
                (aegis_app_cmd_service_register_handler demo_service 1
                  (some create_cmd_handler) 9).2 cmd result =
              ((create_cmd_handler cmd (cmd_result_defaults result) 9).1,
                { (create_cmd_handler cmd (cmd_result_defaults result) 9).2 with
                  result := (create_cmd_handler cmd (cmd_result_defaults result) 9).1 },
                [(demo_service.handler_count, 9)])) ∧
      (¬ registered demo_service 1 →
        ¬ demo_service.handler_count < APP_CMD_SERVICE_MAX_HANDLERS →
        aegis_app_cmd_service_register_handler demo_service 1 (some create_cmd_handler) 9 =
          (ERR_OUT_OF_RANGE, demo_service))) ∧
    ((registered demo_dispatcher 1 →
        ∃ i e, i < demo_dispatcher.handler_count ∧ demo_dispatcher.handlers[i]? = some e ∧
          e.type = 1 ∧
          (∀ j, j < i → ∀ x, demo_dispatcher.handlers[j]? = some x → x.type ≠ 1) ∧
          aegis_app_query_register_handler demo_dispatcher 1 (some ok_query_handler) 9 =
            (ERR_OK,
              { demo_dispatcher with
                handlers :=
                  demo_dispatcher.handlers.set i
                    { e with handler := some ok_query_handler, ctx := 9 } }) ∧
          ∀ req resp, req.type = 1 →
            (1 ≠ QUERY_TYPE_INVALID →
              aegis_app_query_execute
                  (aegis_app_query_register_handler demo_dispatcher 1 (some ok_query_handler)
                    9).2 req resp =
                ((ok_query_handler req resp 9).1,
                  { (ok_query_handler req resp 9).2 with
                    result := (ok_query_handler req resp 9).1 },
                  [(i, 9)])) ∧
            (1 = QUERY_TYPE_INVALID →
              (aegis_app_query_execute
                (aegis_app_query_register_handler demo_dispatcher 1 (some ok_query_handler)
                  9).2 req resp).2.2 =
                  [])) ∧
      (¬ registered demo_dispatcher 1 → demo_dispatcher.handler_count < APP_QUERY_MAX_HANDLERS →
        aegis_app_query_register_handler demo_dispatcher 1 (some ok_query_handler) 9 =
            (ERR_OK,
              { handlers :=
                  demo_dispatcher.handlers.set demo_dispatcher.handler_count
                    { type := 1, handler := some ok_query_handler, ctx := 9 }
                handler_count := demo_dispatcher.handler_count + 1 }) ∧
          ∀ req resp, req.type = 1 →
            (1 ≠ QUERY_TYPE_INVALID →
              aegis_app_query_execute
                  (aegis_app_query_register_handler demo_dispatcher 1 (some ok_query_handler)
                    9).2 req resp =
                ((ok_query_handler req resp 9).1,
                  { (ok_query_handler req resp 9).2 with
                    result := (ok_query_handler req resp 9).1 },
                  [(demo_dispatcher.handler_count, 9)])) ∧
            (1 = QUERY_TYPE_INVALID →
              (aegis_app_query_execute
                (aegis_app_query_register_handler demo_dispatcher 1 (some ok_query_handler)
                  9).2 req resp).2.2 =
                  [])) ∧
      (¬ registered demo_dispatcher 1 → ¬ demo_dispatcher.handler_count < APP_QUERY_MAX_HANDLERS →
        aegis_app_query_register_handler demo_dispatcher 1 (some ok_query_handler) 9 =
          (ERR_OUT_OF_RANGE, demo_dispatcher))) :=
  handler_registration demo_service demo_dispatcher 1 create_cmd_handler ok_query_handler 9
    ⟨rfl, by decide⟩ ⟨rfl, by decide⟩

/-- C17, amended (command execute without a handler): when no entry among the
first `handler_count` of the table has the type of the command,
`aegis_app_cmd_service_execute` returns `ERR_NOT_FOUND` and calls no handler;
the result record then has `result = ERR_NOT_FOUND` and the defaults written
before the lookup, `created_id = ENTITY_ID_INVALID` and `payload_size = 0`, and
its payload bytes are as before.  The function only reads the table and has no
access to the command queue, so both are as before. -/
theorem execute_without_handler (service : AegisAppCmdService) (cmd : AegisCommand)
    (result : AegisCommandResult) (h : ¬ registered service cmd.type) :
    aegis_app_cmd_service_execute service cmd result =
        (ERR_NOT_FOUND,
          { result with
            result := ERR_NOT_FOUND, created_id := ENTITY_ID_INVALID, payload_size := 0 },
          []) ∧
      (aegis_app_cmd_service_execute service cmd result).2.1.payload = result.payload := by
  rw [cmd_execute_missing service cmd result (lookup_not_registered service cmd.type h)]
  exact ⟨rfl, rfl⟩

theorem execute_without_handler_witness :
    aegis_app_cmd_service_execute demo_service demo_cmd2 demo_result =
        (ERR_NOT_FOUND,
          { demo_result with
            result := ERR_NOT_FOUND, created_id := ENTITY_ID_INVALID, payload_size := 0 },
          []) ∧
      (aegis_app_cmd_service_execute demo_service demo_cmd2 demo_result).2.1.payload =
        demo_result.payload :=
  execute_without_handler demo_service demo_cmd2 demo_result
    (fun ⟨i, e, hi, he, ht⟩ => by
      have h0 : i = 0 := Nat.lt_one_iff.mp hi
      subst h0
      cases he
      exact absurd ht (by decide))

/-- Counterexample to C17 as stated: on the service just initialised, where no
type is registered, executing a command with a result record that holds
`created_id = 7` and `payload_size = 3` returns `ERR_NOT_FOUND` and leaves
`created_id = 65535` and `payload_size = 0` in the record: these two fields are
not as they were before the call. -/
theorem execute_without_handler_counterexample :
    (∀ t, ¬ registered empty_service t) ∧
      (aegis_app_cmd_service_execute empty_service demo_cmd demo_result).1 = ERR_NOT_FOUND ∧
      (aegis_app_cmd_service_execute empty_service demo_cmd demo_result).2.2 = [] ∧
      demo_result.created_id = 7 ∧ demo_result.payload_size = 3 ∧
      (aegis_app_cmd_service_execute empty_service demo_cmd demo_result).2.1.created_id =
        65535 ∧
      (aegis_app_cmd_service_execute empty_service demo_cmd demo_result).2.1.payload_size =
        0 := by
  refine ⟨?_, rfl, rfl, rfl, rfl, rfl, rfl⟩
  rintro t ⟨i, e, hi, -⟩
  exact absurd hi (Nat.not_lt_zero i)

/-- C18 (command execute defaults): when the first entry of the table with the
type of the command, at index `i`, holds the handler `h` and the context
`e.ctx`, `aegis_app_cmd_service_execute` calls exactly that handler, once, with
that context and with the result record in which `result = ERR_OK`,
`created_id = ENTITY_ID_INVALID` and `payload_size = 0` have been set; it
returns the status of the handler and stores it in `result.result`.  Hence for
a handler that returns status `r` and does not write to the result, the record
after execute has `created_id = ENTITY_ID_INVALID`, `payload_size = 0` and
`result = r`, whatever it held before. -/
theorem execute_defaults (service : AegisAppCmdService) (cmd : AegisCommand)
    (result : AegisCommandResult) (i : Nat) (e : HandlerEntry AppCmdHandler)
    (h : AppCmdHandler) (hi : i < service.handler_count) (he : service.handlers[i]? = some e)
    (ht : e.type = cmd.type)
    (hfirst : ∀ j, j < i → ∀ x, service.handlers[j]? = some x → x.type ≠ cmd.type)
    (hh : e.handler = some h) :
    (cmd_result_defaults result).result = ERR_OK ∧
      (cmd_result_defaults result).created_id = ENTITY_ID_INVALID ∧
      (cmd_result_defaults result).payload_size = 0 ∧
      (cmd_result_defaults result).payload = result.payload ∧
      aegis_app_cmd_service_execute service cmd result =
        ((h cmd (cmd_result_defaults result) e.ctx).1,
          { (h cmd (cmd_result_defaults result) e.ctx).2 with
            result := (h cmd (cmd_result_defaults result) e.ctx).1 },
          [(i, e.ctx)]) ∧
      ∀ r, h cmd (cmd_result_defaults result) e.ctx = (r, cmd_result_defaults result) →
        (aegis_app_cmd_service_execute service cmd result).1 = r ∧
          (aegis_app_cmd_service_execute service cmd result).2.1.result = r ∧
          (aegis_app_cmd_service_execute service cmd result).2.1.created_id =
            ENTITY_ID_INVALID ∧
          (aegis_app_cmd_service_execute service cmd result).2.1.payload_size = 0 := by
  have hx := cmd_execute_found service cmd result i h e.ctx
    (lookup_of_first service cmd.type i e h hi he ht hfirst hh)
  refine ⟨rfl, rfl, rfl, rfl, hx, fun r hr => ?_⟩
  rw [hx, hr]
  exact ⟨rfl, rfl, rfl, rfl⟩

theorem execute_defaults_witness :
    (cmd_result_defaults demo_result).result = ERR_OK ∧
      (cmd_result_defaults demo_result).created_id = ENTITY_ID_INVALID ∧
      (cmd_result_defaults demo_result).payload_size = 0 ∧
      (cmd_result_defaults demo_result).payload = demo_result.payload ∧
      aegis_app_cmd_service_execute demo_service demo_cmd demo_result =
        ((ok_cmd_handler demo_cmd (cmd_result_defaults demo_result) 5).1,
          { (ok_cmd_handler demo_cmd (cmd_result_defaults demo_result) 5).2 with
            result := (ok_cmd_handler demo_cmd (cmd_result_defaults demo_result) 5).1 },
          [(0, 5)]) ∧
      ∀ r, ok_cmd_handler demo_cmd (cmd_result_defaults demo_result) 5 =
          (r, cmd_result_defaults demo_result) →
        (aegis_app_cmd_service_execute demo_service demo_cmd demo_result).1 = r ∧
          (aegis_app_cmd_service_execute demo_service demo_cmd demo_result).2.1.result = r ∧
          (aegis_app_cmd_service_execute demo_service demo_cmd demo_result).2.1.created_id =
            ENTITY_ID_INVALID ∧
          (aegis_app_cmd_service_execute demo_service demo_cmd demo_result).2.1.payload_size =
            0 :=
  execute_defaults demo_service demo_cmd demo_result 0
    { type := 1, handler := some ok_cmd_handler, ctx := 5 } ok_cmd_handler (by decide) rfl rfl
    (fun j hj => absurd hj (Nat.not_lt_zero j)) rfl

/-- C19 (query miss): for every dispatcher, `aegis_app_query_execute` of a
request of type `QUERY_TYPE_INVALID` returns `ERR_INVALID_PARAM`, stores
`ERR_INVALID_PARAM` in `resp.result` and 0 in `resp.payload_size` and calls no
handler, also on the dispatcher in which a handler was just registered under
`QUERY_TYPE_INVALID`; of a request of another type that no entry among the
first `handler_count` has, it returns `ERR_NOT_FOUND`, stores `ERR_NOT_FOUND`
and 0 likewise and calls no handler.  The function only reads the dispatcher. -/
theorem query_miss (dispatcher : AegisAppQueryDispatcher) (req : AegisQueryRequest)
    (resp : AegisQueryResponse) :
    (req.type = QUERY_TYPE_INVALID →
        aegis_app_query_execute dispatcher req resp =
            (ERR_INVALID_PARAM, { resp with result := ERR_INVALID_PARAM, payload_size := 0 },
              []) ∧
          ∀ (h : AppQueryHandler) (c : Nat),
            (aegis_app_query_register_handler dispatcher QUERY_TYPE_INVALID (some h) c).1 =
                ERR_OK →
              aegis_app_query_execute
                  (aegis_app_query_register_handler dispatcher QUERY_TYPE_INVALID (some h) c).2
                  req resp =
                (ERR_INVALID_PARAM,
                  { resp with result := ERR_INVALID_PARAM, payload_size := 0 }, [])) ∧
      (req.type ≠ QUERY_TYPE_INVALID → ¬ registered dispatcher req.type →
        aegis_app_query_execute dispatcher req resp =
          (ERR_NOT_FOUND, { resp with result := ERR_NOT_FOUND, payload_size := 0 }, [])) :=
  ⟨fun ht => ⟨query_execute_invalid dispatcher req resp ht,
      fun _ _ _ => query_execute_invalid _ req resp ht⟩,
    fun ht hn => query_execute_missing dispatcher req resp ht
      (lookup_not_registered dispatcher req.type hn)⟩

theorem query_miss_witness :
    aegis_app_query_execute invalid_dispatcher { demo_req with type := QUERY_TYPE_INVALID }
          demo_resp =
        (ERR_INVALID_PARAM, { demo_resp with result := ERR_INVALID_PARAM, payload_size := 0 },
          []) ∧
      aegis_app_query_execute demo_dispatcher demo_req demo_resp =
        (ERR_NOT_FOUND, { demo_resp with result := ERR_NOT_FOUND, payload_size := 0 }, []) :=
  ⟨((query_miss invalid_dispatcher { demo_req with type := QUERY_TYPE_INVALID } demo_resp).1
      rfl).1,
    (query_miss demo_dispatcher demo_req demo_resp).2 (by decide)
      (fun ⟨i, e, hi, he, ht⟩ => by
        have h0 : i = 0 := Nat.lt_one_iff.mp hi
        subst h0
        cases he
        exact absurd ht (by decide))⟩


/-! ## Claims about event identifiers -/

/-- C20 (event identifiers): after `aegis_domain_event_bus_init` returned
`ERR_OK`, in every sequence of top-level publish and process calls the `k`-th
publish that enters (counting from 1, those made by handlers included, in the
order in which they enter) gives its copy the identifier `k mod 65536`, so the
first identifier is 1 and the 65536th is 0; the copies are the copies of the
events passed in, and a sequence of publishes always completes with `ERR_OK`.
For one publish on an initialised bus: it returns `ERR_OK`; the copy carries
`next_event_id` of the bus whatever identifier the caller's event holds; that
copy is the record stored as the newest history entry, the record every
handler called by the dispatch of this publish receives, and the record
written to the async queue when there is room (dropped otherwise).  The
caller's event is only read. -/
theorem event_identifiers (fuel : Nat) (storage : AegisDomainEventBus)
    (trace : Option AegisTraceLog) (subs : Option (List AegisEventSubscription)) (count : Nat)
    (cs : List BusCall)
    (hinit : (aegis_domain_event_bus_init storage trace subs count).1 = ERR_OK)
    (ht : TraceWF trace) :
    (∀ rs b' o,
      bus_run fuel (aegis_domain_event_bus_init storage trace subs count).2 cs = some (rs, b', o) →
        (∀ k ec, (obs_published o)[k]? = some ec → ec.event_id = (k + 1) % 65536) ∧
        List.Forall₂ IsCopy (obs_inputs o) (obs_published o) ∧
        b'.next_event_id = ((obs_published o).length + 1) % 65536) ∧
      (∀ es : List AegisDomainEvent, cs = es.map BusCall.publish →
        MAX_EVENT_RECURSION_DEPTH + 1 ≤ fuel →
        ∃ b' o,
          bus_run fuel (aegis_domain_event_bus_init storage trace subs count).2 cs =
            some (List.replicate es.length (BusRet.code ERR_OK), b', o)) ∧
      ∀ b e, BusWF b → b.is_initialized ≠ 0 → MAX_EVENT_RECURSION_DEPTH + 1 ≤ fuel →
        ∃ b' o, aegis_domain_event_publish fuel b e = some (ERR_OK, b', o) ∧
          IsCopy e (publish_enter b e).1 ∧
          (∀ x, (publish_enter b { e with event_id := x }).1.event_id = b.next_event_id) ∧
          hist_list (publish_enter b e).2 =
            ((publish_enter b e).1 :: hist_list b).take DOMAIN_EVENT_HISTORY_SIZE ∧
          (b.recursion_depth < MAX_EVENT_RECURSION_DEPTH →
            calls_at b.recursion_depth o =
              (eligible (b.subscriptions.getD []) b.subscription_count TRUE
                (publish_enter b e).1).map fun i => (i, (publish_enter b e).1)) ∧
          (∃ mid, o = BusObs.published e (publish_enter b e).1 :: mid ++
            [if (pending_events b).length + (obs_enqueued mid).length <
                DOMAIN_EVENT_QUEUE_SIZE then
              BusObs.enqueued (publish_enter b e).1
            else BusObs.dropped (publish_enter b e).1]) ∧
          pending_events b' = pending_events b ++ obs_enqueued o := by
  obtain ⟨h1, h2⟩ := bus_init_ok storage trace subs count hinit
  obtain ⟨hwf, -, hh⟩ := bus_init_wf storage trace subs count h1 h2 ht
  obtain ⟨f1, -, -, -, f5, -⟩ := bus_init_fields storage trace subs count h1 h2
  have hi : (aegis_domain_event_bus_init storage trace subs count).2.is_initialized ≠ 0 := by
    rw [f1]
    decide
  refine ⟨fun rs b' o hrun => ?_, fun es hcs hf => ?_, fun b e hwfb hib hf => ?_⟩
  · have e1 := bus_run_spec fuel cs _ rs b' o hwf hi hrun
    refine ⟨fun k ec hk => ?_, copies_paired o e1.copies, ?_⟩
    · have := published_ids o _ e1.ids k ec hk
      rw [f5, Nat.add_comm] at this
      exact this
    · rw [e1.next_id, f5, Nat.add_comm]
  · rw [hcs]
    exact publish_run_total fuel hf es _ hwf hi
  · obtain ⟨b', o, hpub, -, -, -⟩ := publish_depths fuel b e hwfb hib hf
    have e1 := publish_enter_eff b e hwfb
    refine ⟨b', o, hpub, publish_enter_copy b e,
      fun x => (publish_enter_wf b _ hwfb).2, ?_,
      fun hd => publish_calls fuel b b' e _ o _ hwfb hib hd rfl hpub,
      publish_shape fuel b b' e _ o hwfb hib hpub,
      publish_pending fuel b b' e _ o hwfb hib hpub⟩
    have := e1.hist
    simpa [obs_published] using this

theorem event_identifiers_witness :
    (∀ rs b' o,
      bus_run 4 (aegis_domain_event_bus_init storage_bus none (some nest_table) 1).2
          (List.replicate 3 (BusCall.publish demo_event)) = some (rs, b', o) →
        (∀ k ec, (obs_published o)[k]? = some ec → ec.event_id = (k + 1) % 65536) ∧
        List.Forall₂ IsCopy (obs_inputs o) (obs_published o) ∧
        b'.next_event_id = ((obs_published o).length + 1) % 65536) ∧
      (∀ es : List AegisDomainEvent,
        List.replicate 3 (BusCall.publish demo_event) = es.map BusCall.publish →
        MAX_EVENT_RECURSION_DEPTH + 1 ≤ 4 →
        ∃ b' o,
          bus_run 4 (aegis_domain_event_bus_init storage_bus none (some nest_table) 1).2
              (List.replicate 3 (BusCall.publish demo_event)) =
            some (List.replicate es.length (BusRet.code ERR_OK), b', o)) ∧
      ∀ b e, BusWF b → b.is_initialized ≠ 0 → MAX_EVENT_RECURSION_DEPTH + 1 ≤ 4 →
        ∃ b' o, aegis_domain_event_publish 4 b e = some (ERR_OK, b', o) ∧
          IsCopy e (publish_enter b e).1 ∧
          (∀ x, (publish_enter b { e with event_id := x }).1.event_id = b.next_event_id) ∧
          hist_list (publish_enter b e).2 =
            ((publish_enter b e).1 :: hist_list b).take DOMAIN_EVENT_HISTORY_SIZE ∧
          (b.recursion_depth < MAX_EVENT_RECURSION_DEPTH →
            calls_at b.recursion_depth o =
              (eligible (b.subscriptions.getD []) b.subscription_count TRUE
                (publish_enter b e).1).map fun i => (i, (publish_enter b e).1)) ∧
          (∃ mid, o = BusObs.published e (publish_enter b e).1 :: mid ++
            [if (pending_events b).length + (obs_enqueued mid).length <
                DOMAIN_EVENT_QUEUE_SIZE then
              BusObs.enqueued (publish_enter b e).1
            else BusObs.dropped (publish_enter b e).1]) ∧
          pending_events b' = pending_events b ++ obs_enqueued o :=
  event_identifiers 4 storage_bus none (some nest_table) 1
    (List.replicate 3 (BusCall.publish demo_event)) (by decide) (fun _ h => nomatch h)


/-! ## The checked copies agree with `memcpy` -/

theorem set_getD (l : List Nat) (k i v : Nat) (hk : k < l.length) :
    (l.set k v).getD i 0 = if k = i then v else l.getD i 0 := by
  rw [List.getD_eq_getElem?_getD, List.getElem?_set]
  by_cases h : k = i
  · subst h
    rw [if_pos rfl, if_pos rfl, if_pos hk]
    rfl
  · rw [if_neg h, if_neg h, List.getD_eq_getElem?_getD]

theorem memcpy_succ (dst : List Nat) (off : Nat) (src : List Nat) (soff n : Nat)
    (hd : off + (n + 1) ≤ dst.length) :
    memcpy dst off src soff (n + 1) =
      (memcpy dst off src soff n).set (off + n) (src.getD (soff + n) 0) := by
  apply list_ext_getD
  · simp [memcpy_length]
  · intro i hi
    rw [memcpy_length] at hi
    rw [memcpy_getD _ _ _ _ _ _ hi, set_getD _ _ _ _ (by rw [memcpy_length]; omega),
      memcpy_getD _ _ _ _ _ _ hi]
    by_cases hin : off + n = i
    · subst hin
      rw [if_pos ⟨by omega, by omega⟩, if_pos rfl]
      congr 2
      omega
    · rw [if_neg hin]
      by_cases h1 : off ≤ i ∧ i < off + n
      · rw [if_pos h1, if_pos ⟨h1.1, by omega⟩]
      · rw [if_neg h1, if_neg (by omega)]

theorem memcpy_zero (dst : List Nat) (off : Nat) (src : List Nat) (soff : Nat) :
    memcpy dst off src soff 0 = dst := by
  apply list_ext_getD
  · exact memcpy_length _ _ _ _ _
  · intro i hi
    rw [memcpy_length] at hi
    rw [memcpy_getD _ _ _ _ _ _ hi, if_neg (by omega)]

/-- A copy whose source and destination ranges lie inside their arrays makes no
access outside them: the checked copy succeeds, with the result of `memcpy`. -/
theorem memcpy_checked_eq (dst : List Nat) (off : Nat) (src : List Nat) (soff n : Nat)
    (hd : off + n ≤ dst.length) (hs : soff + n ≤ src.length) :
    memcpy_checked dst off src soff n = some (memcpy dst off src soff n) := by
  induction n with
  | zero => rw [memcpy_zero]; rfl
  | succ n ih =>
    have hlt : soff + n < src.length := by omega
    simp only [memcpy_checked, ih (by omega) (by omega), List.getElem?_eq_getElem hlt]
    rw [if_pos (by rw [memcpy_length]; omega), memcpy_succ _ _ _ _ _ hd,
      List.getD_eq_getElem _ _ hlt]

theorem put_checked_eq (rb : AegisRingBuffer) (d : Nat) (h : RingWF rb) :
    aegis_ring_buffer_put_checked rb d = some (aegis_ring_buffer_put rb d) := by
  obtain ⟨-, hb, -, hh, -⟩ := h
  unfold aegis_ring_buffer_put_checked aegis_ring_buffer_put
  split
  · rfl
  · rw [if_pos (by omega)]

theorem get_checked_eq (rb : AegisRingBuffer) (d : Option Nat) (h : RingWF rb) :
    aegis_ring_buffer_get_checked rb d = some (aegis_ring_buffer_get rb d) := by
  obtain ⟨-, hb, -, -, ht⟩ := h
  have hlt : rb.tail < rb.buffer.length := by omega
  cases d with
  | none => rfl
  | some old =>
    simp only [aegis_ring_buffer_get_checked, aegis_ring_buffer_get]
    split
    · rfl
    · simp only [List.getElem?_eq_getElem hlt, List.getD_eq_getElem _ _ hlt]

theorem write_checked_eq (rb : AegisRingBuffer) (data : List Nat) (len : Nat) (h : RingWF rb)
    (hlen : len ≤ data.length) :
    aegis_ring_buffer_write_checked rb (some data) len =
      some (aegis_ring_buffer_write rb (some data) len) := by
  obtain ⟨hs, hb, hc, hh, -⟩ := h
  simp only [aegis_ring_buffer_write_checked, aegis_ring_buffer_write]
  have hfree : (rb.size + 65536 - rb.count) % 65536 = rb.size - rb.count := by omega
  have hend : (rb.size + 65536 - rb.head) % 65536 = rb.size - rb.head := by omega
  rw [hfree, hend, MIN_eq_min]
  by_cases h0 : len = 0
  · rw [if_pos h0, if_pos h0]
  · rw [if_neg h0, if_neg h0]
    by_cases hw : min len (rb.size - rb.count) > 0
    · rw [if_pos hw, if_pos hw]
      by_cases h1 : min len (rb.size - rb.count) ≤ rb.size - rb.head
      · rw [if_pos h1, if_pos h1, memcpy_checked_eq _ _ _ _ _ (by omega) (by omega)]
        rfl
      · rw [if_neg h1, if_neg h1]
        have hch : (min len (rb.size - rb.count) + 65536 - (rb.size - rb.head)) % 65536 =
            min len (rb.size - rb.count) - (rb.size - rb.head) := by omega
        rw [hch, memcpy_checked_eq _ _ _ _ _ (by omega) (by omega)]
        simp only
        rw [memcpy_checked_eq _ _ _ _ _ (by rw [memcpy_length]; omega) (by omega)]
        rfl
    · rw [if_neg hw, if_neg hw]

theorem read_checked_eq (rb : AegisRingBuffer) (data : List Nat) (len : Nat) (h : RingWF rb)
    (hlen : len ≤ data.length) :
    aegis_ring_buffer_read_checked rb (some data) len =
      some (aegis_ring_buffer_read rb (some data) len) := by
  obtain ⟨hs, hb, hc, -, ht⟩ := h
  simp only [aegis_ring_buffer_read_checked, aegis_ring_buffer_read]
  have hend : (rb.size + 65536 - rb.tail) % 65536 = rb.size - rb.tail := by omega
  rw [hend, MIN_eq_min]
  by_cases h0 : len = 0
  · rw [if_pos h0, if_pos h0]
  · rw [if_neg h0, if_neg h0]
    by_cases hw : min len rb.count > 0
    · rw [if_pos hw, if_pos hw]
      by_cases h1 : min len rb.count ≤ rb.size - rb.tail
      · rw [if_pos h1, if_pos h1, memcpy_checked_eq _ _ _ _ _ (by omega) (by omega)]
        rfl
      · rw [if_neg h1, if_neg h1]
        have hch : (min len rb.count + 65536 - (rb.size - rb.tail)) % 65536 =
            min len rb.count - (rb.size - rb.tail) := by omega
        rw [hch, memcpy_checked_eq _ _ _ _ _ (by omega) (by omega)]
        simp only
        rw [memcpy_checked_eq _ _ _ _ _ (by rw [memcpy_length]; omega) (by omega)]
        rfl
    · rw [if_neg hw, if_neg hw]


/-! ## Clearing the queue, empty queues and the copy made by publish -/

theorem pending_of_empty (b : AegisDomainEventBus) (h : b.async_queue.count = 0) :
    pending_events b = [] := by
  unfold pending_events
  rw [h, Nat.zero_div]
  rfl

theorem clear_queue_wf (b : AegisDomainEventBus) (hwf : BusWF b) :
    BusWF { b with async_queue := aegis_ring_buffer_clear b.async_queue } := by
  obtain ⟨g1, g2, g3, g4, g5, g6, g7, g8, g9, g10⟩ := hwf
  obtain ⟨⟨⟨a1, a2, -, a4, -⟩, -⟩, hs, -, -⟩ := g1
  have hp : pending_events { b with async_queue := aegis_ring_buffer_clear b.async_queue } =
      [] := pending_of_empty _ rfl
  refine ⟨?_, g2, g3, g4, g5, g6, g7, g8, g9, g10⟩
  rw [hp]
  refine ⟨⟨⟨a1, a2, Nat.zero_le _, ?_, ?_⟩, ?_⟩, hs, rfl,
    fun _ h => absurd h (List.not_mem_nil _)⟩
  · show 0 < b.async_queue.size
    omega
  · show 0 < b.async_queue.size
    omega
  · show 0 = (0 + 0) % b.async_queue.size
    simp

theorem process_empty (fuel : Nat) (b : AegisDomainEventBus) (m : Nat)
    (h : aegis_ring_buffer_get_count b.async_queue < sizeof_AegisDomainEvent) :
    aegis_domain_event_process (fuel + 1) b m = some (0, b, []) := by
  unfold aegis_domain_event_process
  split
  · rfl
  · simp only [process_loop, event_queue_dequeue]
    rw [if_pos h]
    simp only
    split
    · rw [if_pos (by decide)]
    · rfl


/-- The copy `publish` makes, field by field, for an event that is a value of
the record type. -/
theorem publish_enter_fields (b : AegisDomainEventBus) (e : AegisDomainEvent)
    (he : EventWF e) :
    (publish_enter b e).1 =
      { e with
        event_id := b.next_event_id
        timestamp :=
          if e.timestamp = 0 then (aegis_trace_get_timestamp_nullable b.trace).1
          else e.timestamp } := by
  unfold publish_enter
  simp only [event_memcpy_of_wf e he]
  by_cases h0 : e.timestamp = 0
  · rw [if_pos h0, if_pos h0]
    cases ht : b.trace with
    | none =>
      simp only [aegis_trace_get_timestamp_nullable]
      rw [← h0]
    | some log => rfl
  · rw [if_neg h0, if_neg h0]


theorem run_handler_refusals (pub : PublishFn) (hp : PubSpec pub)
    (hr : ∀ b e r, BusWF b → b.is_initialized ≠ 0 →
      b.recursion_depth ≤ MAX_EVENT_RECURSION_DEPTH → pub b e = some r →
      ∀ i p ev d, BusObs.refused i p ev d ∈ r.2.2 → d = MAX_EVENT_RECURSION_DEPTH)
    (es : List AegisDomainEvent) :
    ∀ b b' o, BusWF b → b.is_initialized ≠ 0 →
      b.recursion_depth ≤ MAX_EVENT_RECURSION_DEPTH → run_handler pub b es = some (b', o) →
      ∀ i p ev d, BusObs.refused i p ev d ∈ o → d = MAX_EVENT_RECURSION_DEPTH := by
  induction es with
  | nil =>
    intro b b' o _ _ _ h
    simp only [run_handler, Option.some.injEq, Prod.mk.injEq] at h
    obtain ⟨-, rfl⟩ := h
    intro i p ev d hm
    exact absurd hm (List.not_mem_nil _)
  | cons e es ih =>
    intro b b' o hwf hi hd h
    simp only [run_handler] at h
    cases hpub : pub b e with
    | none => simp [hpub] at h
    | some r =>
      obtain ⟨c, b1, o1⟩ := r
      obtain ⟨-, e1, -⟩ := hp b e _ hwf hi hpub
      cases hrest : run_handler pub b1 es with
      | none => simp [hpub, hrest] at h
      | some r2 =>
        obtain ⟨b2, o2⟩ := r2
        simp only [hpub, hrest, Option.some.injEq, Prod.mk.injEq] at h
        obtain ⟨-, rfl⟩ := h
        intro i p ev d hm
        rcases List.mem_append.mp hm with hm | hm
        · exact hr b e _ hwf hi hd hpub i p ev d hm
        · exact ih b1 b2 o2 e1.wf (by rw [e1.init]; exact hi) (by rw [e1.depth]; exact hd)
            hrest i p ev d hm

theorem invoke_refusals (pub : PublishFn) (hp : PubSpec pub)
    (hr : ∀ b e r, BusWF b → b.is_initialized ≠ 0 →
      b.recursion_depth ≤ MAX_EVENT_RECURSION_DEPTH → pub b e = some r →
      ∀ i p ev d, BusObs.refused i p ev d ∈ r.2.2 → d = MAX_EVENT_RECURSION_DEPTH)
    (b b' : AegisDomainEventBus) (k q : Nat) (sub : AegisEventSubscription)
    (e : AegisDomainEvent) (r : AegisEventHandlerResult) (o : List BusObs) (hwf : BusWF b)
    (hi : b.is_initialized ≠ 0) (hd : b.recursion_depth ≤ MAX_EVENT_RECURSION_DEPTH)
    (h : invoke_handler_with_recursion pub b k q sub e = some (r, b', o)) :
    ∀ i p ev d, BusObs.refused i p ev d ∈ o → d = MAX_EVENT_RECURSION_DEPTH := by
  unfold invoke_handler_with_recursion at h
  cases hhd : sub.handler with
  | none =>
    simp only [hhd, Option.some.injEq, Prod.mk.injEq] at h
    obtain ⟨-, -, rfl⟩ := h
    intro i p ev d hm
    exact absurd hm (List.not_mem_nil _)
  | some handler =>
    simp only [hhd] at h
    by_cases hge : b.recursion_depth ≥ MAX_EVENT_RECURSION_DEPTH
    · rw [if_pos hge] at h
      simp only [Option.some.injEq, Prod.mk.injEq] at h
      obtain ⟨-, -, rfl⟩ := h
      intro i p ev d hm
      simp only [List.mem_singleton, BusObs.refused.injEq] at hm
      obtain ⟨-, -, -, rfl⟩ := hm
      omega
    · rw [if_neg hge] at h
      cases hrun : run_handler pub { b with recursion_depth := (b.recursion_depth + 1) % 256 }
          (handler e sub.ctx).publishes with
      | none => simp [hrun] at h
      | some r2 =>
        obtain ⟨b2, o2⟩ := r2
        simp only [hrun, Option.some.injEq, Prod.mk.injEq] at h
        obtain ⟨-, -, rfl⟩ := h
        have hM := max_depth_eq
        have hwf1 := busWF_depth b ((b.recursion_depth + 1) % 256) hwf
        intro i p ev d hm
        rcases List.mem_cons.mp hm with hm | hm
        · cases hm
        · exact run_handler_refusals pub hp hr _ _ b2 o2 hwf1 hi
            (by show (b.recursion_depth + 1) % 256 ≤ MAX_EVENT_RECURSION_DEPTH; omega) hrun
            i p ev d hm

theorem dispatch_loop_refusals (pub : PublishFn) (hp : PubSpec pub)
    (hr : ∀ b e r, BusWF b → b.is_initialized ≠ 0 →
      b.recursion_depth ≤ MAX_EVENT_RECURSION_DEPTH → pub b e = some r →
      ∀ i p ev d, BusObs.refused i p ev d ∈ r.2.2 → d = MAX_EVENT_RECURSION_DEPTH)
    (e : AegisDomainEvent) (q : Nat) (idxs : List Nat) :
    ∀ b n n' b' o, BusWF b → b.is_initialized ≠ 0 →
      b.recursion_depth ≤ MAX_EVENT_RECURSION_DEPTH →
      dispatch_loop pub e q idxs b n = some (n', b', o) →
      ∀ i p ev d, BusObs.refused i p ev d ∈ o → d = MAX_EVENT_RECURSION_DEPTH := by
  induction idxs with
  | nil =>
    intro b n n' b' o _ _ _ h
    simp only [dispatch_loop, Option.some.injEq, Prod.mk.injEq] at h
    obtain ⟨-, -, rfl⟩ := h
    intro i p ev d hm
    exact absurd hm (List.not_mem_nil _)
  | cons k rest ih =>
    intro b n n' b' o hwf hi hd h
    simp only [dispatch_loop] at h
    cases hsub : (b.subscriptions.getD [])[k]? with
    | none =>
      simp only [hsub] at h
      exact ih b n n' b' o hwf hi hd h
    | some sub =>
      simp only [hsub] at h
      by_cases h1 : sub.is_sync ≠ q
      · rw [if_pos h1] at h
        exact ih b n n' b' o hwf hi hd h
      · rw [if_neg h1] at h
        by_cases h2 : sub.event_type ≠ 0 ∧ sub.event_type ≠ e.type
        · rw [if_pos h2] at h
          exact ih b n n' b' o hwf hi hd h
        · rw [if_neg h2] at h
          cases hinv : invoke_handler_with_recursion pub b k q sub e with
          | none => simp [hinv] at h
          | some r =>
            obtain ⟨res, b1, o1⟩ := r
            simp only [hinv] at h
            obtain ⟨e1, -⟩ := invoke_spec pub hp b b1 k q sub e res o1 hwf hi hinv
            have e2 : Eff b1
                (if res = AegisEventHandlerResult.EVENT_HANDLER_ERROR then
                  bus_trace_log b1 TRACE_EVENT_APP_ERROR "REQ-EVENT-009" e.type k
                else b1) [] := by
              split
              · exact Eff.trace_log b1 [] _ _ _ _ e1.wf rfl rfl rfl rfl (by simp) (by simp)
              · exact Eff.refl b1 e1.wf
            cases hrest : dispatch_loop pub e q rest
                (if res = AegisEventHandlerResult.EVENT_HANDLER_ERROR then
                  bus_trace_log b1 TRACE_EVENT_APP_ERROR "REQ-EVENT-009" e.type k
                else b1)
                (if res = AegisEventHandlerResult.EVENT_HANDLER_OK then (n + 1) % 256 else n) with
            | none => simp [hrest] at h
            | some r3 =>
              obtain ⟨n3, b3, o3⟩ := r3
              simp only [hrest, Option.some.injEq, Prod.mk.injEq] at h
              obtain ⟨-, -, rfl⟩ := h
              intro i p ev d hm
              rcases List.mem_append.mp hm with hm | hm
              · exact invoke_refusals pub hp hr b b1 k q sub e res o1 hwf hi hd hinv i p ev d hm
              · exact ih _ _ n3 b3 o3 e2.wf (by rw [e2.init, e1.init]; exact hi)
                  (by rw [e2.depth, e1.depth]; exact hd) hrest i p ev d hm

theorem publish_refusals (fuel : Nat) :
    ∀ b e r, BusWF b → b.is_initialized ≠ 0 →
      b.recursion_depth ≤ MAX_EVENT_RECURSION_DEPTH →
      aegis_domain_event_publish fuel b e = some r →
      ∀ i p ev d, BusObs.refused i p ev d ∈ r.2.2 → d = MAX_EVENT_RECURSION_DEPTH := by
  induction fuel with
  | zero =>
    intro b e r _ _ _ h
    simp [aegis_domain_event_publish] at h
  | succ fuel ih =>
    intro b e r hwf hi hd h
    simp only [aegis_domain_event_publish, publish_body] at h
    rw [if_neg hi] at h
    have e1 := publish_enter_eff b e hwf
    cases hdis : dispatch_to_subscribers (aegis_domain_event_publish fuel)
        (publish_enter b e).2 (publish_enter b e).1 TRUE with
    | none => simp [hdis] at h
    | some x =>
      obtain ⟨n, b4, o4⟩ := x
      simp only [hdis, Option.some.injEq] at h
      subst h
      intro i p ev d hm
      simp only [List.cons_append, List.mem_cons, List.mem_append, reduceCtorEq,
        false_or] at hm
      rcases hm with hm | hm
      · exact dispatch_loop_refusals _ (publish_spec fuel) ih _ _ _ _ _ _ _ _ e1.wf
          (by rw [e1.init]; exact hi) (by rw [e1.depth]; exact hd) hdis i p ev d hm
      · rcases publish_exit_obs b4 (publish_enter b e).1 n with hx | hx <;>
          · rw [hx] at hm
            simp at hm

theorem process_loop_refusals (pub : PublishFn) (hp : PubSpec pub)
    (hr : ∀ b e r, BusWF b → b.is_initialized ≠ 0 →
      b.recursion_depth ≤ MAX_EVENT_RECURSION_DEPTH → pub b e = some r →
      ∀ i p ev d, BusObs.refused i p ev d ∈ r.2.2 → d = MAX_EVENT_RECURSION_DEPTH)
    (max : Nat) :
    ∀ fuel b ev0 processed n b' o, BusWF b → b.is_initialized ≠ 0 →
      b.recursion_depth ≤ MAX_EVENT_RECURSION_DEPTH →
      process_loop pub max fuel b ev0 processed = some (n, b', o) →
      ∀ i p ev d, BusObs.refused i p ev d ∈ o → d = MAX_EVENT_RECURSION_DEPTH := by
  intro fuel
  induction fuel with
  | zero =>
    intro b ev0 processed n b' o _ _ _ h
    simp [process_loop] at h
  | succ fuel ih =>
    intro b ev0 processed n b' o hwf hi hd h
    simp only [process_loop] at h
    by_cases hc : processed < max ∨ max = 0
    · rw [if_pos hc] at h
      cases hpend : pending_events b with
      | nil =>
        have g1 := hwf.1
        rw [hpend] at g1
        rw [dequeue_none b ev0 g1] at h
        simp only at h
        rw [if_pos (by decide)] at h
        simp only [Option.some.injEq, Prod.mk.injEq] at h
        obtain ⟨-, -, rfl⟩ := h
        intro i p ev d hm
        exact absurd hm (List.not_mem_nil _)
      | cons e rest =>
        have g := hwf
        obtain ⟨g1, g2, g3, g4, g5, g6, g7, g8, g9, g10⟩ := g
        rw [hpend] at g1
        obtain ⟨q1, q2⟩ := dequeue_some b e ev0 rest g1
        obtain ⟨bD, hbD⟩ : ∃ bD : AegisDomainEventBus, bD =
            { b with
              async_queue := (aegis_ring_buffer_read b.async_queue (some (event_bytes ev0))
                sizeof_AegisDomainEvent).2.1 } := ⟨_, rfl⟩
        rw [← hbD] at q1
        have hqD : QueueWF bD.async_queue rest := by rw [hbD]; exact q2
        have hpD : pending_events bD = rest := queueWF_pending bD rest hqD
        have hwfD : BusWF bD :=
          ⟨by rw [hpD]; exact hqD, by rw [hbD]; exact g2, by rw [hbD]; exact g3,
            by rw [hbD]; exact g4, by rw [hbD]; exact g5, by rw [hbD]; exact g6,
            by rw [hbD]; exact g7, by rw [hbD]; exact g8, by rw [hbD]; exact g9,
            by rw [hbD]; exact g10⟩
        have hiD : bD.is_initialized ≠ 0 := by rw [hbD]; exact hi
        have hdD : bD.recursion_depth ≤ MAX_EVENT_RECURSION_DEPTH := by rw [hbD]; exact hd
        have hfix : bD = { b with async_queue := bD.async_queue } := by rw [hbD]
        rw [q1] at h
        simp only at h
        rw [if_neg (by simp)] at h
        cases hdis : dispatch_to_subscribers pub bD e FALSE with
        | none => simp [hdis] at h
        | some r =>
          obtain ⟨k, b1, o1⟩ := r
          simp only [hdis] at h
          obtain ⟨e1, -⟩ := dispatch_spec pub hp e FALSE bD b1 k o1 hwfD hiD hdis
          have e2 := Eff.dequeued b bD b1 e rest o1 k hpend hpD hfix e1
          cases hrest : process_loop pub max fuel
              { b1 with
                async_handled := (b1.async_handled + k) % 4294967296
                total_processed := (b1.total_processed + 1) % 4294967296 }
              e ((processed + 1) % 256) with
          | none => simp [hrest] at h
          | some r3 =>
            obtain ⟨n3, b3, o3⟩ := r3
            simp only [hrest, Option.some.injEq, Prod.mk.injEq] at h
            obtain ⟨-, -, rfl⟩ := h
            intro i p ev d hm
            simp only [List.cons_append, List.mem_cons, List.mem_append, reduceCtorEq,
              false_or] at hm
            rcases hm with hm | hm
            · exact dispatch_loop_refusals pub hp hr e FALSE _ bD 0 k b1 o1 hwfD hiD hdD hdis
                i p ev d hm
            · exact ih _ _ _ n3 b3 o3 e2.wf (by rw [e2.init]; exact hi)
                (by rw [e2.depth]; exact hd) hrest i p ev d hm
    · rw [if_neg hc] at h
      simp only [Option.some.injEq, Prod.mk.injEq] at h
      obtain ⟨-, -, rfl⟩ := h
      intro i p ev d hm
      exact absurd hm (List.not_mem_nil _)

theorem bus_run_refusals (fuel : Nat) (cs : List BusCall) :
    ∀ b rs b' o, BusWF b → b.is_initialized ≠ 0 →
      b.recursion_depth ≤ MAX_EVENT_RECURSION_DEPTH → bus_run fuel b cs = some (rs, b', o) →
      ∀ i p ev d, BusObs.refused i p ev d ∈ o → d = MAX_EVENT_RECURSION_DEPTH := by
  induction cs with
  | nil =>
    intro b rs b' o _ _ _ h
    simp only [bus_run, Option.some.injEq, Prod.mk.injEq] at h
    obtain ⟨-, -, rfl⟩ := h
    intro i p ev d hm
    exact absurd hm (List.not_mem_nil _)
  | cons c cs ih =>
    intro b rs b' o hwf hi hd h
    cases c with
    | publish e =>
      simp only [bus_run] at h
      cases hpub : aegis_domain_event_publish fuel b e with
      | none => simp [hpub] at h
      | some r =>
        obtain ⟨c1, b1, o1⟩ := r
        obtain ⟨-, e1, -⟩ := publish_spec fuel b e _ hwf hi hpub
        cases hrest : bus_run fuel b1 cs with
        | none => simp [hpub, hrest] at h
        | some r2 =>
          obtain ⟨rs2, b2, o2⟩ := r2
          simp only [hpub, hrest, Option.some.injEq, Prod.mk.injEq] at h
          obtain ⟨-, -, rfl⟩ := h
          intro i p ev d hm
          rcases List.mem_append.mp hm with hm | hm
          · exact publish_refusals fuel b e _ hwf hi hd hpub i p ev d hm
          · exact ih b1 rs2 b2 o2 e1.wf (by rw [e1.init]; exact hi)
              (by rw [e1.depth]; exact hd) hrest i p ev d hm
    | process m =>
      simp only [bus_run] at h
      cases hpr : aegis_domain_event_process fuel b m with
      | none => simp [hpr] at h
      | some r =>
        obtain ⟨n1, b1, o1⟩ := r
        have e1 := process_spec fuel b b1 m n1 o1 hwf hpr
        cases hrest : bus_run fuel b1 cs with
        | none => simp [hpr, hrest] at h
        | some r2 =>
          obtain ⟨rs2, b2, o2⟩ := r2
          simp only [hpr, hrest, Option.some.injEq, Prod.mk.injEq] at h
          obtain ⟨-, -, rfl⟩ := h
          intro i p ev d hm
          rcases List.mem_append.mp hm with hm | hm
          · unfold aegis_domain_event_process at hpr
            rw [if_neg hi] at hpr
            exact process_loop_refusals _ (publish_spec fuel) (publish_refusals fuel) m fuel b
              zero_event 0 n1 b1 o1 hwf hi hd hpr i p ev d hm
          · exact ih b1 rs2 b2 o2 e1.wf (by rw [e1.init]; exact hi)
              (by rw [e1.depth]; exact hd) hrest i p ev d hm


/-! ## The charger example: repository, bus and runtime lemmas -/

theorem find_entity_skip (pool : List AegisDomainEntity) (id : Nat) (l1 l2 : List Nat)
    (h : ∀ i ∈ l1, ∀ e, pool[i]? = some e → ¬ (e.base.id = id ∧ e.base.is_valid ≠ 0)) :
    find_entity_index pool id (l1 ++ l2) = find_entity_index pool id l2 := by
  induction l1 with
  | nil => rfl
  | cons i rest ih =>
    rw [List.cons_append]
    simp only [find_entity_index]
    have ih' := ih (fun j hj => h j (List.mem_cons_of_mem _ hj))
    cases hp : pool[i]? with
    | none => exact ih'
    | some e =>
      simp only
      rw [if_neg (h i (List.mem_cons_self _ _) e hp)]
      exact ih'

theorem find_entity_hit (pool : List AegisDomainEntity) (id k : Nat) (rest : List Nat)
    (e : AegisDomainEntity) (he : pool[k]? = some e) (h1 : e.base.id = id)
    (h2 : e.base.is_valid ≠ 0) : find_entity_index pool id (k :: rest) = some k := by
  simp only [find_entity_index, he]
  rw [if_pos ⟨h1, h2⟩]

theorem find_entity_set (pool : List AegisDomainEntity) (id k : Nat) (e' : AegisDomainEntity)
    (h1 : e'.base.id = id) (h2 : e'.base.is_valid ≠ 0) (hk : k < pool.length) (l : List Nat)
    (h : find_entity_index pool id l = some k) :
    find_entity_index (pool.set k e') id l = some k := by
  induction l with
  | nil => simp [find_entity_index] at h
  | cons i rest ih =>
    by_cases hik : i = k
    · subst hik
      exact find_entity_hit _ id i rest e' (by simp [hk]) h1 h2
    · simp only [find_entity_index] at h ⊢
      rw [List.getElem?_set_ne (fun hh => hik hh.symm)]
      cases hp : pool[i]? with
      | none =>
        rw [hp] at h
        exact ih h
      | some e =>
        rw [hp] at h
        simp only at h ⊢
        by_cases hm : e.base.id = id ∧ e.base.is_valid ≠ 0
        · rw [if_pos hm] at h
          exact absurd (Option.some.inj h) hik
        · rw [if_neg hm] at h ⊢
          exact ih h

theorem take_two_getD (bs : List Nat) (h : 2 ≤ bs.length) :
    bs.take 2 = [bs.getD 0 0, bs.getD 1 0] := by
  match bs, h with
  | a :: b :: rest, _ => rfl

theorem charger_state_round_trip (dst : List Nat) (s : DemoChargerState) (hd : 4 ≤ dst.length)
    (hm : s.charger_model < 65536) (hp : s.power_level < 256) :
    charger_state_of_bytes (memcpy dst 0 (charger_state_bytes s) 0 sizeof_DemoChargerState) = s := by
  have hl := memcpy_length dst 0 (charger_state_bytes s) 0 sizeof_DemoChargerState
  have g : ∀ i, i < 4 →
      (memcpy dst 0 (charger_state_bytes s) 0 sizeof_DemoChargerState).getD i 0 =
        (charger_state_bytes s).getD i 0 := by
    intro i hi
    rw [memcpy_getD _ _ _ _ _ _ (by omega)]
    rw [if_pos ⟨Nat.zero_le _, by show i < 0 + 4; omega⟩]
    simp
  unfold charger_state_of_bytes
  rw [take_two_getD _ (by rw [hl]; omega), g 0 (by omega), g 1 (by omega), g 2 (by omega)]
  cases s with
  | mk m p =>
    simp only [charger_state_bytes, le_bytes, le_value, List.cons_append, List.nil_append,
      List.getD_cons_zero, List.getD_cons_succ] at hm hp ⊢
    congr 1
    · omega
    · omega

theorem repo_now_ms_frame (r : AegisInfrastructureRepositoryInmem) :
    (repo_now_ms r).2.entity_pool = r.entity_pool ∧
      (repo_now_ms r).2.entity_count = r.entity_count ∧
      (repo_now_ms r).2.is_initialized = r.is_initialized ∧
      (repo_now_ms r).2.next_entity_id = r.next_entity_id := by
  unfold repo_now_ms
  cases r.now_ms with
  | none => exact ⟨rfl, rfl, rfl, rfl⟩
  | some now => exact ⟨rfl, rfl, rfl, rfl⟩

theorem repo_create_fresh (repo : AegisInfrastructureRepositoryInmem)
    (entity : AegisDomainEntity) (hf : RepoFresh repo)
    (hid : entity.base.id = ENTITY_ID_INVALID)
    (hp : entity.payload_size ≤ DOMAIN_ENTITY_PAYLOAD_MAX) :
    ∃ repo' stored, repository_create_impl repo entity = (ERR_OK, repo', stored) ∧
      stored.base.id = repo.next_entity_id ∧ stored.base.type = entity.base.type ∧
      stored.base.is_valid = TRUE ∧ stored.payload = entity.payload ∧
      stored.payload_size = entity.payload_size ∧
      repo'.is_initialized = repo.is_initialized ∧
      find_entity_index repo'.entity_pool repo.next_entity_id
        (List.range repo'.entity_count) = some repo.entity_count ∧
      repo'.entity_pool[repo.entity_count]? = some stored := by
  obtain ⟨h1, h2, h3, h4, h5⟩ := hf
  have hM : REPOSITORY_MAX_ENTITIES = 32 := rfl
  rw [hM] at h2 h3
  unfold repository_create_impl
  rw [if_neg h1, if_neg (by omega), if_neg (by rw [hM]; omega)]
  simp only [hid, if_true]
  obtain ⟨n1, n2, n3, -⟩ := repo_now_ms_frame (allocate_entity_id repo).2
  have a1 : (allocate_entity_id repo).1 = repo.next_entity_id := rfl
  have a2 : (allocate_entity_id repo).2.entity_pool = repo.entity_pool := rfl
  have a3 : (allocate_entity_id repo).2.entity_count = repo.entity_count := rfl
  have a4 : (allocate_entity_id repo).2.is_initialized = repo.is_initialized := rfl
  rw [a2] at n1
  rw [a3] at n2
  rw [a4] at n3
  refine ⟨_, _, rfl, a1, rfl, rfl, rfl, rfl, n3, ?_, ?_⟩
  · simp only [n1, n2]
    rw [Nat.mod_eq_of_lt (by omega), List.range_succ]
    rw [find_entity_skip _ _ _ _ ?_]
    · exact find_entity_hit _ _ _ _ _ (by rw [List.getElem?_set_self (by omega)]) a1
        (Nat.succ_ne_zero 0)
    · intro i hi e he
      rw [List.mem_range] at hi
      rw [List.getElem?_set_ne (by omega)] at he
      intro hm
      exact h5 i e hi he hm.2 hm.1
  · simp only [n1, n2]
    rw [List.getElem?_set_self (by omega)]

theorem holds_get (repo : AegisInfrastructureRepositoryInmem) (k id model power : Nat)
    (h : HoldsCharger repo k id model power) :
    repository_get_impl repo id = (ERR_OK, some k) := by
  obtain ⟨h1, h2, -⟩ := h
  unfold repository_get_impl
  rw [if_neg h1, h2]

theorem charger_state_raw (payload : List Nat) (h : 4 ≤ payload.length) :
    charger_state_of_bytes
        (memcpy (List.replicate sizeof_DemoChargerState 0) 0 payload 0 sizeof_DemoChargerState) =
      charger_state_of_bytes payload ∧
    ∀ i, i < 4 →
      (memcpy (List.replicate sizeof_DemoChargerState 0) 0 payload 0
        sizeof_DemoChargerState).getD i 0 = payload.getD i 0 := by
  have g : ∀ i, i < 4 →
      (memcpy (List.replicate sizeof_DemoChargerState 0) 0 payload 0
        sizeof_DemoChargerState).getD i 0 = payload.getD i 0 := by
    intro i hi
    rw [memcpy_getD _ _ _ _ _ _ (by show i < (List.replicate 4 0).length; simp; omega)]
    rw [if_pos ⟨Nat.zero_le _, by show i < 0 + 4; omega⟩]
    simp
  refine ⟨?_, g⟩
  unfold charger_state_of_bytes
  rw [take_two_getD _ (by rw [memcpy_length]; decide), take_two_getD _ (by omega), g 0 (by omega),
    g 1 (by omega), g 2 (by omega)]

theorem set_power_spec (pub : PublishFn) (repo : AegisInfrastructureRepositoryInmem)
    (b b' : AegisDomainEventBus) (c : AegisErrorCode) (o : List BusObs)
    (k id model p new : Nat) (h : HoldsCharger repo k id model p) (hnew : new ≤ 100)
    (hne : p ≠ new)
    (hpub : pub b (power_changed_event id p new) = some (c, b', o)) :
    ∃ repo',
      demo_domain_charger_set_power_level pub (some repo) (some b) id new =
        some { ret := ERR_OK, repo := some repo', bus := some b', out_id := id, obs := o } ∧
      HoldsCharger repo' k id model new := by
  have hget := holds_get repo k id model p h
  obtain ⟨h1, h2, e, he, e1, e2, e3, e4, e5, e6⟩ := h
  have hk := getElem?_lt_of_some _ _ _ he
  have hgd : repo.entity_pool.getD k zero_entity = e := by
    rw [List.getD_eq_getElem?_getD, he]
    rfl
  have hS : sizeof_DemoChargerState = 4 := rfl
  have hP : DOMAIN_ENTITY_PAYLOAD_MAX = 64 := rfl
  obtain ⟨hraw, hrawg⟩ := charger_state_raw e.payload (by rw [e5, hP]; omega)
  obtain ⟨raw, hrw⟩ : ∃ raw : List Nat, raw =
      memcpy (List.replicate sizeof_DemoChargerState 0) 0 e.payload 0 sizeof_DemoChargerState :=
    ⟨_, rfl⟩
  rw [← hrw] at hraw hrawg
  have hrl : raw.length = 4 := by rw [hrw, memcpy_length]; rfl
  obtain ⟨e', he'⟩ : ∃ e' : AegisDomainEntity, e' =
      { e with
        payload_size := sizeof_DemoChargerState
        payload := memcpy e.payload 0 (raw.set 2 (new % 256)) 0 sizeof_DemoChargerState } :=
    ⟨_, rfl⟩
  have hset : aegis_domain_entity_payload_set e (some (raw.set 2 (new % 256)))
      sizeof_DemoChargerState = (ERR_OK, e') := by
    unfold aegis_domain_entity_payload_set
    rw [if_neg (by decide), if_neg (by decide), he']
  have hid' : e'.base.id = id := by rw [he']; exact e1
  have hv' : e'.base.is_valid ≠ 0 := by
    rw [he']
    show e.base.is_valid ≠ 0
    rw [e3]
    decide
  have hps' : e'.payload_size = 4 := by rw [he']; rfl
  have hf1 := find_entity_set repo.entity_pool id k e' hid' hv' hk _ h2
  obtain ⟨t1, t2, t3, -⟩ := repo_now_ms_frame { repo with entity_pool := repo.entity_pool.set k e' }
  obtain ⟨u, hu⟩ : ∃ u : AegisDomainEntity, u =
      { e' with
        base :=
          { e'.base with
            created_at := ((repo.entity_pool.set k e').getD k zero_entity).base.created_at
            is_valid := TRUE
            updated_at :=
              (repo_now_ms { repo with entity_pool := repo.entity_pool.set k e' }).1 } } :=
    ⟨_, rfl⟩
  have hupd : repository_update_impl { repo with entity_pool := repo.entity_pool.set k e' } e' =
      (ERR_OK,
        { (repo_now_ms { repo with entity_pool := repo.entity_pool.set k e' }).2 with
          entity_pool :=
            (repo_now_ms { repo with entity_pool := repo.entity_pool.set k e' }).2.entity_pool.set
              k u },
        u) := by
    unfold repository_update_impl
    rw [if_neg h1, if_neg (by rw [hps', hP]; omega)]
    have hf1' : find_entity_index (repo.entity_pool.set k e') e'.base.id
        (List.range repo.entity_count) = some k := by rw [hid']; exact hf1
    simp only [hf1']
    rw [hu]
  have hst : (charger_state_of_bytes raw).power_level = p := by rw [hraw, e6]
  refine ⟨{ (repo_now_ms { repo with entity_pool := repo.entity_pool.set k e' }).2 with
    entity_pool :=
      ((repo_now_ms { repo with entity_pool := repo.entity_pool.set k e' }).2.entity_pool.set
        k u).set k u }, ?_, ?_⟩
  · unfold demo_domain_charger_set_power_level
    simp only
    rw [if_neg (by unfold validate_power_level; rw [if_neg (by omega)]; decide)]
    rw [hget]
    simp only [hgd, aegis_domain_entity_payload_get]
    rw [if_neg (by decide), if_neg (by rw [e4]; decide), ← hrw, hst]
    rw [if_neg hne, hset]
    simp only
    rw [if_neg (by decide), hupd]
    simp only
    rw [if_neg (by decide)]
    simp only [publish_power_changed, hpub, Option.map_some']
  · have hk2 : k < (repo.entity_pool.set k e').length := by rw [List.length_set]; exact hk
    have hk3 : k < ((repo.entity_pool.set k e').set k u).length := by
      rw [List.length_set]
      exact hk2
    have hidu : u.base.id = id := by rw [hu]; exact hid'
    have hvu : u.base.is_valid ≠ 0 := by rw [hu]; exact Nat.succ_ne_zero 0
    have t1' : (repo_now_ms { repo with entity_pool := repo.entity_pool.set k e' }).2.entity_pool =
        repo.entity_pool.set k e' := t1
    have t2' : (repo_now_ms { repo with entity_pool := repo.entity_pool.set k e' }).2.entity_count =
        repo.entity_count := t2
    have t3' : (repo_now_ms
        { repo with entity_pool := repo.entity_pool.set k e' }).2.is_initialized =
        repo.is_initialized := t3
    refine ⟨?_, ?_, u, ?_, hidu, ?_, ?_, ?_, ?_, ?_⟩
    · show (repo_now_ms { repo with entity_pool := repo.entity_pool.set k e' }).2.is_initialized ≠ 0
      rw [t3']
      exact h1
    · show find_entity_index
        (((repo_now_ms { repo with entity_pool := repo.entity_pool.set k e' }).2.entity_pool.set
          k u).set k u) id
        (List.range
          (repo_now_ms { repo with entity_pool := repo.entity_pool.set k e' }).2.entity_count) =
        some k
      rw [t1', t2']
      exact find_entity_set _ id k u hidu hvu hk3 _ (find_entity_set _ id k u hidu hvu hk2 _ hf1)
    · show (((repo_now_ms { repo with entity_pool := repo.entity_pool.set k e' }).2.entity_pool.set
          k u).set k u)[k]? = some u
      rw [t1', List.getElem?_set_self hk3]
    · rw [hu, he']
      exact e2
    · rw [hu]
    · rw [hu, he']
    · rw [hu, he']
      show (memcpy e.payload 0 _ 0 _).length = _
      rw [memcpy_length]
      exact e5
    · rw [hu, he']
      show charger_state_of_bytes
        (memcpy e.payload 0 (raw.set 2 (new % 256)) 0 sizeof_DemoChargerState) = _
      have g : ∀ i, i < 4 →
          (memcpy e.payload 0 (raw.set 2 (new % 256)) 0 sizeof_DemoChargerState).getD i 0 =
            (raw.set 2 (new % 256)).getD i 0 := by
        intro i hi
        rw [memcpy_getD _ _ _ _ _ _ (by rw [e5, hP]; omega)]
        rw [if_pos ⟨Nat.zero_le _, by show i < 0 + 4; omega⟩]
        simp
      have e6' := e6
      unfold charger_state_of_bytes at e6' ⊢
      rw [take_two_getD _ (by rw [e5, hP]; omega)] at e6'
      rw [take_two_getD _ (by rw [memcpy_length, e5, hP]; omega), g 0 (by omega), g 1 (by omega),
        g 2 (by omega), set_getD _ _ _ _ (by omega), set_getD _ _ _ _ (by omega),
        set_getD _ _ _ _ (by omega), if_neg (by decide), if_neg (by decide), if_pos rfl,
        hrawg 0 (by omega), hrawg 1 (by omega)]
      have hmodel := congrArg DemoChargerState.charger_model e6'
      simp only at hmodel
      rw [hmodel, Nat.mod_eq_of_lt (by omega)]

theorem charger_dispatch_obs (tbl : List AegisEventSubscription) (hs : ChargerSubscribers tbl)
    (ec : AegisDomainEvent) (k : Nat)
    (hk : ec.type = DOMAIN_EVENT_ENTITY_CREATED ∧ k = 0 ∨
      ec.type = DEMO_EVENT_POWER_LEVEL_CHANGED ∧ k = 1) :
    ∃ res, dispatch_obs tbl (List.range 2) TRUE ec 0 = [BusObs.call k TRUE ec 0 res] := by
  obtain ⟨s0, s1, h0, h1, rfl, a1, a2, a3, -, b1, b2, b3, -⟩ := hs
  have hr : List.range 2 = [0, 1] := rfl
  rcases hk with ⟨ht, rfl⟩ | ⟨ht, rfl⟩
  · refine ⟨(h0 ec s0.ctx).result, ?_⟩
    simp [dispatch_obs, hr, sub_matches, a1, a2, a3, b1, b2, b3, ht, DOMAIN_EVENT_ENTITY_CREATED,
      DEMO_EVENT_POWER_LEVEL_CHANGED, DOMAIN_EVENT_USER_BASE]
  · refine ⟨(h1 ec s1.ctx).result, ?_⟩
    simp [dispatch_obs, hr, sub_matches, a1, a2, a3, b1, b2, b3, ht, DOMAIN_EVENT_ENTITY_CREATED,
      DEMO_EVENT_POWER_LEVEL_CHANGED, DOMAIN_EVENT_USER_BASE]

theorem charger_quiet (tbl : List AegisEventSubscription) (hs : ChargerSubscribers tbl)
    (p : Nat) (ev : AegisDomainEvent) : QuietFor tbl p ev := by
  obtain ⟨s0, s1, h0, h1, rfl, -, -, a3, a4, -, -, b3, b4⟩ := hs
  intro sub hsub _ h hh
  simp only [List.mem_cons, List.mem_singleton, List.not_mem_nil, or_false] at hsub
  rcases hsub with rfl | rfl
  · rw [a3] at hh
    cases hh
    exact a4 ev
  · rw [b3] at hh
    cases hh
    exact b4 ev

theorem charger_async_obs (tbl : List AegisEventSubscription) (hs : ChargerSubscribers tbl)
    (e : AegisDomainEvent) : dispatch_obs tbl (List.range 2) FALSE e 0 = [] := by
  obtain ⟨s0, s1, h0, h1, rfl, a1, a2, a3, -, b1, b2, b3, -⟩ := hs
  have hr : List.range 2 = [0, 1] := rfl
  simp [dispatch_obs, hr, sub_matches, a2, b2, TRUE, FALSE]

theorem charger_process_obs (tbl : List AegisEventSubscription) (hs : ChargerSubscribers tbl)
    (evs : List AegisDomainEvent) : process_obs tbl 2 evs = evs.map BusObs.dequeued := by
  induction evs with
  | nil => rfl
  | cons e evs ih =>
    simp only [process_obs, charger_async_obs tbl hs e, List.nil_append, ih, List.map_cons]
    rfl

theorem charger_publish (fuel : Nat) (b : AegisDomainEventBus) (e : AegisDomainEvent) (k : Nat)
    (hwf : BusWF b) (hi : b.is_initialized ≠ 0) (hd : b.recursion_depth = 0)
    (hcnt : b.subscription_count = 2) (hs : ChargerSubscribers (b.subscriptions.getD []))
    (he : EventWF e)
    (hk : e.type = DOMAIN_EVENT_ENTITY_CREATED ∧ k = 0 ∨
      e.type = DEMO_EVENT_POWER_LEVEL_CHANGED ∧ k = 1) :
    ∃ b' res x,
      aegis_domain_event_publish (fuel + 1) b e =
        some (ERR_OK, b',
          [BusObs.published e (publish_enter b e).1,
            BusObs.call k TRUE (publish_enter b e).1 0 res, x]) ∧
      (x = BusObs.enqueued (publish_enter b e).1 ∨ x = BusObs.dropped (publish_enter b e).1) ∧
      Eff b b'
        [BusObs.published e (publish_enter b e).1,
          BusObs.call k TRUE (publish_enter b e).1 0 res, x] := by
  have hM := max_depth_eq
  obtain ⟨b', hpub, -⟩ := publish_quiet fuel b e _ hwf hi (by rw [hd, hM]; omega) rfl
    (fun ev => charger_quiet _ hs TRUE ev)
  have hty : (publish_enter b e).1.type = e.type := by rw [publish_enter_fields b e he]
  obtain ⟨res, hres⟩ := charger_dispatch_obs _ hs (publish_enter b e).1 k (by rw [hty]; exact hk)
  rw [hcnt, hd, hres] at hpub
  obtain ⟨-, e1, -⟩ := publish_spec (fuel + 1) b e _ hwf hi hpub
  refine ⟨b', res, _, hpub, ?_, e1⟩
  split
  · exact Or.inl rfl
  · exact Or.inr rfl

theorem entity_created_event_wf (id ty : Nat) (h : id < 65536) :
    EventWF (entity_created_event id ty) := by
  refine ⟨Nat.zero_lt_succ _, ?_, h, Nat.zero_lt_succ _, ?_, ?_⟩
  · show (1 : Nat) < 4294967296
    omega
  · show (4096 : Nat) < 18446744073709551616
    omega
  · show (memcpy zero_event.data 0 (le_bytes 2 ty) 0 2).length = _
    rw [memcpy_length]
    rfl

theorem power_changed_event_wf (id old new : Nat) (h : id < 65536) :
    EventWF (power_changed_event id old new) := by
  refine ⟨Nat.zero_lt_succ _, ?_, h, Nat.zero_lt_succ _, ?_, ?_⟩
  · show (1001 : Nat) < 4294967296
    omega
  · show (4128 : Nat) < 18446744073709551616
    omega
  · show (memcpy zero_event.data 0 _ 0 _).length = _
    rw [memcpy_length]
    rfl

theorem publish_copy_fields (b : AegisDomainEventBus) (e : AegisDomainEvent) (he : EventWF e) :
    ∃ n t, (publish_enter b e).1 = { e with event_id := n, timestamp := t } :=
  ⟨_, _, publish_enter_fields b e he⟩

theorem charger_create_spec (fuel : Nat) (repo : AegisInfrastructureRepositoryInmem)
    (b : AegisDomainEventBus) (model power : Nat) (hm : model < 65536) (hp : power ≤ 100)
    (hf : RepoFresh repo) (hwf : BusWF b) (hi : b.is_initialized ≠ 0)
    (hd : b.recursion_depth = 0) (hcnt : b.subscription_count = 2)
    (hs : ChargerSubscribers (b.subscriptions.getD [])) :
    ∃ repo' b' ec1 ec2 res1 res2 x1 x2,
      demo_domain_charger_create (aegis_domain_event_publish (fuel + 1)) (some repo) (some b)
          model power ENTITY_ID_INVALID =
        some
          { ret := ERR_OK, repo := some repo', bus := some b', out_id := repo.next_entity_id,
            obs :=
              [BusObs.published
                  (entity_created_event repo.next_entity_id DEMO_ENTITY_TYPE_CHARGER) ec1,
                BusObs.call 0 TRUE ec1 0 res1, x1,
                BusObs.published (power_changed_event repo.next_entity_id 0 power) ec2,
                BusObs.call 1 TRUE ec2 0 res2, x2] } ∧
      Eff b b'
        [BusObs.published (entity_created_event repo.next_entity_id DEMO_ENTITY_TYPE_CHARGER)
            ec1,
          BusObs.call 0 TRUE ec1 0 res1, x1,
          BusObs.published (power_changed_event repo.next_entity_id 0 power) ec2,
          BusObs.call 1 TRUE ec2 0 res2, x2] ∧
      HoldsCharger repo' repo.entity_count repo.next_entity_id model power ∧
      (∃ n t, ec1 =
        { entity_created_event repo.next_entity_id DEMO_ENTITY_TYPE_CHARGER with
          event_id := n, timestamp := t }) ∧
      (∃ n t, ec2 =
        { power_changed_event repo.next_entity_id 0 power with event_id := n, timestamp := t }) ∧
      (x1 = BusObs.enqueued ec1 ∨ x1 = BusObs.dropped ec1) ∧
      (x2 = BusObs.enqueued ec2 ∨ x2 = BusObs.dropped ec2) := by
  have hid : repo.next_entity_id < 65536 := by
    have := hf.2.2.2.1
    have hI : ENTITY_ID_INVALID = 65535 := rfl
    omega
  obtain ⟨ent, hent⟩ : ∃ ent : AegisDomainEntity, ent =
      { zero_entity with
        base :=
          (aegis_domain_entity_init zero_entity.base ENTITY_ID_INVALID
            DEMO_ENTITY_TYPE_CHARGER).2
        payload_size := sizeof_DemoChargerState
        payload := memcpy zero_entity.payload 0
          (charger_state_bytes { charger_model := model, power_level := power }) 0
          sizeof_DemoChargerState } := ⟨_, rfl⟩
  have hset : aegis_domain_entity_payload_set
      { zero_entity with
        base :=
          (aegis_domain_entity_init zero_entity.base ENTITY_ID_INVALID
            DEMO_ENTITY_TYPE_CHARGER).2 }
      (some (charger_state_bytes { charger_model := model, power_level := power }))
      sizeof_DemoChargerState = (ERR_OK, ent) := by
    unfold aegis_domain_entity_payload_set
    rw [if_neg (by decide), if_neg (by decide), hent]
  obtain ⟨repo', stored, hcr, s1, s2, s3, s4, s5, s6, s7, s8⟩ :=
    repo_create_fresh repo ent hf (by rw [hent]; rfl)
      (by rw [hent]; exact (by decide : sizeof_DemoChargerState ≤ DOMAIN_ENTITY_PAYLOAD_MAX))
  have e1wf := entity_created_event_wf repo.next_entity_id DEMO_ENTITY_TYPE_CHARGER hid
  have e2wf := power_changed_event_wf repo.next_entity_id 0 power hid
  obtain ⟨b1, res1, x1, hp1, hx1, eff1⟩ := charger_publish fuel b
    (entity_created_event repo.next_entity_id DEMO_ENTITY_TYPE_CHARGER) 0 hwf hi hd hcnt hs e1wf
    (Or.inl ⟨rfl, rfl⟩)
  obtain ⟨b2, res2, x2, hp2, hx2, eff2⟩ := charger_publish fuel b1
    (power_changed_event repo.next_entity_id 0 power) 1 eff1.wf (by rw [eff1.init]; exact hi)
    (by rw [eff1.depth]; exact hd) (by rw [eff1.cnt]; exact hcnt) (by rw [eff1.subs]; exact hs)
    e2wf (Or.inr ⟨rfl, rfl⟩)
  have hty : stored.base.type = DEMO_ENTITY_TYPE_CHARGER := by rw [s2, hent]; rfl
  refine ⟨repo', b2, _, _, res1, res2, x1, x2, ?_, Eff.trans eff1 eff2, ?_,
    publish_copy_fields b _ e1wf, publish_copy_fields b1 _ e2wf, hx1, hx2⟩
  · unfold demo_domain_charger_create
    simp only
    rw [if_neg (by unfold validate_power_level; rw [if_neg (by omega)]; decide), hset]
    simp only
    rw [if_neg (by decide), hcr]
    simp only
    rw [if_neg (by decide)]
    simp only [publish_entity_created, publish_power_changed, s1, hty, hp1, hp2,
      Option.map_some', List.cons_append, List.nil_append]
  · have hk := getElem?_lt_of_some _ _ _ s8
    refine ⟨by rw [s6]; exact hf.1, s7, stored, s8, s1, hty, s3, by rw [s5, hent], ?_, ?_⟩
    · rw [s4, hent]
      show (memcpy zero_entity.payload 0 _ 0 _).length = _
      rw [memcpy_length]
      rfl
    · rw [s4, hent]
      exact charger_state_round_trip zero_entity.payload _ (by decide) hm
        (show power < 256 by omega)

theorem cmdQueueWF_trace (q : AegisAppCmdQueue) (t : Option AegisTraceLog) (h : CmdQueueWF q)
    (ht : TraceWF t) : CmdQueueWF { q with trace := t } :=
  ⟨h.1, h.2.1, ht⟩

theorem busWF_trace (b : AegisDomainEventBus) (t : Option AegisTraceLog) (h : BusWF b)
    (ht : TraceWF t) : BusWF { b with trace := t } :=
  busWF_congr b _ h rfl rfl rfl ht rfl h.2.2.2.2.2.1 h.2.2.2.2.2.2.1 h.2.2.2.2.2.2.2.1
    h.2.2.2.2.2.2.2.2.1 h.2.2.2.2.2.2.2.2.2

theorem dequeued_obs_views (evs : List AegisDomainEvent) :
    obs_calls (evs.map BusObs.dequeued) = [] ∧ obs_published (evs.map BusObs.dequeued) = [] ∧
      obs_refused (evs.map BusObs.dequeued) = [] := by
  induction evs with
  | nil => exact ⟨rfl, rfl, rfl⟩
  | cons e evs ih => exact ih

theorem ready_enqueue (fuel : Nat) (rt : AegisEntryRuntime) (cs : List AegisCommand)
    (repo : AegisInfrastructureRepositoryInmem) (c : AegisCommand)
    (h : ChargerReady fuel rt cs repo) (hc : CmdWF c) (ht : c.type ≠ CMD_TYPE_INVALID)
    (hlen : cs.length < CMD_QUEUE_SIZE) :
    ∃ rt' ts, runtime_enqueue rt c = (ERR_OK, rt') ∧
      ChargerReady fuel rt' (cs ++ [{ c with timestamp := ts }]) repo := by
  obtain ⟨h1, h2, h3, h4, h5, h6, h7, h8, h9, h10, h11, h12, h13⟩ := h
  have hp0 : pending_cmds (app_queue rt.app) = cs := h4
  obtain ⟨q1, q2, q3, -⟩ := cmd_enqueue_ok (app_queue rt.app) c h3 ht (by rw [hp0]; exact hlen)
  rw [cmd_memcpy_of_wf c hc, hp0] at q3
  refine ⟨_, _, Prod.ext q1 rfl, h1, h2, q2, q3, ?_, h6, h7, h8, h9, h10, h11, h12, h13⟩
  exact busWF_trace (app_bus rt.app) _ h5 q2.2.2

theorem ready_loop (fuel : Nat) (rt : AegisEntryRuntime) (c : AegisCommand)
    (cs : List AegisCommand) (repo repo' : AegisInfrastructureRepositoryInmem)
    (result res : AegisCommandResult) (ret : AegisErrorCode) (b' : AegisDomainEventBus)
    (o : List BusObs) (hf : 5 ≤ fuel) (h : ChargerReady fuel rt (c :: cs) repo)
    (hexec : aegis_app_cmd_service_execute_deps rt.app.cmd_service c result
      { repo := some repo, bus := some (app_bus rt.app) } =
        some (ret, res, { repo := some repo', bus := some b' }, o))
    (heff : Eff (app_bus rt.app) b' o) :
    ∃ rt' po,
      aegis_entry_main_loop_once fuel rt result =
        some (ERR_OK, rt', { executed := some (c, ret, res), handler_obs := o, process_obs := po }) ∧
      ChargerReady fuel rt' cs repo' ∧ obs_calls po = [] ∧ obs_published po = [] := by
  obtain ⟨h1, h2, h3, h4, h5, h6, h7, h8, h9, h10, h11, h12, h13⟩ := h
  have hp0 : pending_cmds (app_queue rt.app) = c :: cs := h4
  obtain ⟨g1, -⟩ := cmd_get_count_wf (app_queue rt.app) h3
  rw [hp0] at g1
  obtain ⟨d1, d2, d3, d4⟩ := cmd_dequeue_some (app_queue rt.app) zero_cmd c cs h3 hp0
  obtain ⟨q2, hq2⟩ : ∃ q2, q2 = (aegis_app_cmd_dequeue (app_queue rt.app) zero_cmd).2.1 := ⟨_, rfl⟩
  rw [← hq2] at d1 d2 d3 d4
  have d4' : q2.trace = rt.app.trace := d4
  have hdeps : app_deps (app_store_queue rt.app q2) =
      { repo := some repo, bus := some (app_bus rt.app) } := by
    unfold app_deps app_store_queue app_bus
    simp only [d4', h13]
  -- the log after the command was executed
  obtain ⟨t2, ht2⟩ : ∃ t2 : Option AegisTraceLog, t2 =
      (if ret ≠ ERR_OK then
        aegis_trace_log_event
          (aegis_trace_log_event b'.trace TRACE_EVENT_CMD_EXEC "CMD-EXEC" c.type
            (error_code_value ret))
          TRACE_EVENT_CMD_EXEC "CMD-EXEC-ERR" (error_code_value ret) 0
      else
        aegis_trace_log_event b'.trace TRACE_EVENT_CMD_EXEC "CMD-EXEC" c.type
          (error_code_value ret)) := ⟨_, rfl⟩
  have hb'wf := heff.wf
  have htw1 := (traceWF_log_event b'.trace TRACE_EVENT_CMD_EXEC "CMD-EXEC" c.type
    (error_code_value ret) hb'wf.2.2.2.1).1
  have htw2 : TraceWF t2 := by
    rw [ht2]
    split
    · exact (traceWF_log_event _ _ _ _ _ htw1).1
    · exact htw1
  have hwf3 : BusWF { b' with trace := t2 } := busWF_trace b' t2 hb'wf htw2
  have hsubs : ({ b' with trace := t2 } : AegisDomainEventBus).subscriptions.getD [] =
      rt.app.event_bus.subscriptions.getD [] := by
    show b'.subscriptions.getD [] = _
    rw [heff.subs]
    rfl
  have hcnt : b'.subscription_count = 2 := by rw [heff.cnt]; exact h8
  have hdep : b'.recursion_depth = 0 := by rw [heff.depth]; exact h7
  have hini : b'.is_initialized ≠ 0 := by rw [heff.init]; exact h6
  have hQ := queue_size_eq
  have hlen : (pending_events ({ b' with trace := t2 } : AegisDomainEventBus)).length ≤
      DOMAIN_EVENT_QUEUE_SIZE := queueWF_length_le _ _ hwf3.1
  have hpc : process_count 4 0
      (pending_events ({ b' with trace := t2 } : AegisDomainEventBus)).length ≤ 4 := by
    unfold process_count
    rw [if_neg (by decide)]
    omega
  obtain ⟨b3, p1, p2, -, -, -, p6, p7, p8, p9⟩ := process_loop_quiet
    (aegis_domain_event_publish fuel) _ 4 fuel _ { b' with trace := t2 } zero_event 0 hwf3 hdep
    hsubs rfl (fun e _ => charger_quiet _ h9 FALSE e) (by omega) (by omega)
  have hobs : process_obs (rt.app.event_bus.subscriptions.getD [])
      ({ b' with trace := t2 } : AegisDomainEventBus).subscription_count
      (List.take
        (process_count 4 0
          (pending_events ({ b' with trace := t2 } : AegisDomainEventBus)).length)
        (pending_events ({ b' with trace := t2 } : AegisDomainEventBus))) =
      List.map BusObs.dequeued
        (List.take
          (process_count 4 0
            (pending_events ({ b' with trace := t2 } : AegisDomainEventBus)).length)
          (pending_events ({ b' with trace := t2 } : AegisDomainEventBus))) := by
    show process_obs _ b'.subscription_count _ = _
    rw [hcnt]
    exact charger_process_obs _ h9 _
  rw [Nat.zero_add, hobs] at p1
  have hproc : ∀ app : AegisAppRuntime, app.is_initialized ≠ 0 →
      app_bus app = { b' with trace := t2 } →
      aegis_app_init_process_domain_events fuel app 4 =
        some (process_count 4 0
            (pending_events ({ b' with trace := t2 } : AegisDomainEventBus)).length,
          app_store_bus app b3,
          List.map BusObs.dequeued
            (List.take
              (process_count 4 0
                (pending_events ({ b' with trace := t2 } : AegisDomainEventBus)).length)
              (pending_events ({ b' with trace := t2 } : AegisDomainEventBus)))) := by
    intro app ha hb
    unfold aegis_app_init_process_domain_events
    rw [if_neg ha, hb]
    unfold aegis_domain_event_process
    rw [if_neg (show ({ b' with trace := t2 } : AegisDomainEventBus).is_initialized ≠ 0 from hini),
      p1]
    rfl
  refine ⟨{ rt with
      app := app_store_bus
        { app_store_deps (app_store_queue rt.app q2) { repo := some repo', bus := some b' } with
          trace := t2 } b3 },
    List.map BusObs.dequeued
      (List.take
        (process_count 4 0
          (pending_events ({ b' with trace := t2 } : AegisDomainEventBus)).length)
        (pending_events ({ b' with trace := t2 } : AegisDomainEventBus))),
    ?_, ?_, (dequeued_obs_views _).1, (dequeued_obs_views _).2.1⟩
  · unfold aegis_entry_main_loop_once
    rw [if_neg h1, g1]
    simp only [List.length_cons]
    rw [if_neg (by decide), if_pos (by show 0 < cs.length + 1; omega), d1]
    dsimp only
    rw [if_pos rfl, hdeps]
    have hsvc : (app_store_queue rt.app q2).cmd_service = rt.app.cmd_service := rfl
    rw [hsvc, hexec]
    dsimp only
    have happ2 : (app_store_deps (app_store_queue rt.app q2)
        { repo := some repo', bus := some b' }).trace = b'.trace := rfl
    rw [happ2, ← ht2, hproc]
    · exact h2
    · rfl
  · refine ⟨h1, h2, ?_, d3, p2, ?_, ?_, ?_, ?_, h10, h11, h12, rfl⟩
    · exact cmdQueueWF_trace q2 _ d2 p2.2.2.2.1
    · show b3.is_initialized ≠ 0
      rw [p8]
      exact hini
    · show b3.recursion_depth = 0
      rw [p9]
      exact hdep
    · show b3.subscription_count = 2
      rw [p7]
      exact hcnt
    · show ChargerSubscribers (b3.subscriptions.getD [])
      rw [p6]
      show ChargerSubscribers (b'.subscriptions.getD [])
      rw [heff.subs]
      exact h9

theorem create_execute (f : Nat) (rt : AegisEntryRuntime) (c : AegisCommand)
    (cs : List AegisCommand) (repo : AegisInfrastructureRepositoryInmem)
    (result : AegisCommandResult) (h : ChargerReady (f + 1) rt (c :: cs) repo)
    (hty : c.type = DEMO_CMD_CREATE_CHARGER)
    (hsz : c.payload_size = sizeof_DemoCreateChargerCmd)
    (hpl : c.payload = (create_charger_cmd 1001 10).payload) (hfresh : RepoFresh repo) :
    ∃ repo' b' ec1 ec2 res1 res2 x1 x2,
      aegis_app_cmd_service_execute_deps rt.app.cmd_service c result
          { repo := some repo, bus := some (app_bus rt.app) } =
        some (ERR_OK,
          { cmd_result_defaults result with
            created_id := repo.next_entity_id, result := ERR_OK },
          { repo := some repo', bus := some b' },
          [BusObs.published
              (entity_created_event repo.next_entity_id DEMO_ENTITY_TYPE_CHARGER) ec1,
            BusObs.call 0 TRUE ec1 0 res1, x1,
            BusObs.published (power_changed_event repo.next_entity_id 0 10) ec2,
            BusObs.call 1 TRUE ec2 0 res2, x2]) ∧
      Eff (app_bus rt.app) b'
        [BusObs.published (entity_created_event repo.next_entity_id DEMO_ENTITY_TYPE_CHARGER)
            ec1,
          BusObs.call 0 TRUE ec1 0 res1, x1,
          BusObs.published (power_changed_event repo.next_entity_id 0 10) ec2,
          BusObs.call 1 TRUE ec2 0 res2, x2] ∧
      HoldsCharger repo' repo.entity_count repo.next_entity_id 1001 10 ∧
      (∃ n t, ec1 =
        { entity_created_event repo.next_entity_id DEMO_ENTITY_TYPE_CHARGER with
          event_id := n, timestamp := t }) ∧
      (∃ n t, ec2 =
        { power_changed_event repo.next_entity_id 0 10 with event_id := n, timestamp := t }) ∧
      (x1 = BusObs.enqueued ec1 ∨ x1 = BusObs.dropped ec1) ∧
      (x2 = BusObs.enqueued ec2 ∨ x2 = BusObs.dropped ec2) := by
  obtain ⟨-, -, -, -, h5, h6, h7, h8, h9, ⟨i, ctx, hctx, hl⟩, -, -, -⟩ := h
  obtain ⟨repo', b', ec1, ec2, res1, res2, x1, x2, hspec, rest⟩ :=
    charger_create_spec f repo (app_bus rt.app) 1001 10 (by decide) (by decide) hfresh h5 h6 h7 h8
      h9
  refine ⟨repo', b', ec1, ec2, res1, res2, x1, x2, ?_, rest⟩
  have hread : aegis_app_cmd_payload_read c (List.replicate sizeof_DemoCreateChargerCmd 0)
      sizeof_DemoCreateChargerCmd = (ERR_OK, [233, 3, 10, 0]) := by
    unfold aegis_app_cmd_payload_read
    rw [if_neg (not_not.mpr hsz), if_neg (by decide), hpl]
    rfl
  have hm : (create_cmd_of_bytes [233, 3, 10, 0]).charger_model = 1001 := rfl
  have hp : (create_cmd_of_bytes [233, 3, 10, 0]).initial_power_level = 10 := rfl
  unfold aegis_app_cmd_service_execute_deps
  rw [hty]
  simp only [hl]
  unfold handle_create_charger
  rw [if_neg hctx, hread]
  dsimp only
  rw [if_neg (by decide), hm, hp, hspec]

theorem set_power_execute (f : Nat) (rt : AegisEntryRuntime) (c : AegisCommand)
    (cs : List AegisCommand) (repo : AegisInfrastructureRepositoryInmem)
    (result : AegisCommandResult) (k id : Nat) (h : ChargerReady (f + 1) rt (c :: cs) repo)
    (hty : c.type = DEMO_CMD_SET_POWER_LEVEL) (hid : c.entity_id = id) (hlt : id < 65535)
    (hsz : c.payload_size = sizeof_DemoSetPowerCmd)
    (hpl : c.payload = (set_power_cmd id 55).payload)
    (hh : HoldsCharger repo k id 1001 10) :
    ∃ repo' b' ec res x,
      aegis_app_cmd_service_execute_deps rt.app.cmd_service c result
          { repo := some repo, bus := some (app_bus rt.app) } =
        some (ERR_OK, { cmd_result_defaults result with result := ERR_OK },
          { repo := some repo', bus := some b' },
          [BusObs.published (power_changed_event id 10 55) ec, BusObs.call 1 TRUE ec 0 res, x]) ∧
      Eff (app_bus rt.app) b'
        [BusObs.published (power_changed_event id 10 55) ec, BusObs.call 1 TRUE ec 0 res, x] ∧
      HoldsCharger repo' k id 1001 55 ∧
      (∃ n t, ec = { power_changed_event id 10 55 with event_id := n, timestamp := t }) ∧
      (x = BusObs.enqueued ec ∨ x = BusObs.dropped ec) := by
  obtain ⟨-, -, -, -, h5, h6, h7, h8, h9, -, ⟨i, ctx, hctx, hl⟩, -, -⟩ := h
  have hI : ENTITY_ID_INVALID = 65535 := rfl
  have ewf := power_changed_event_wf id 10 55 (by omega)
  obtain ⟨b', res, x, hpub, hx, eff⟩ := charger_publish f (app_bus rt.app)
    (power_changed_event id 10 55) 1 h5 h6 h7 h8 h9 ewf (Or.inr ⟨rfl, rfl⟩)
  obtain ⟨repo', hspec, hh'⟩ := set_power_spec (aegis_domain_event_publish (f + 1)) repo
    (app_bus rt.app) b' ERR_OK _ k id 1001 10 55 hh (by decide) (by decide) hpub
  refine ⟨repo', b', _, res, x, ?_, eff, hh', publish_copy_fields _ _ ewf, hx⟩
  have hread : aegis_app_cmd_payload_read c (List.replicate sizeof_DemoSetPowerCmd 0)
      sizeof_DemoSetPowerCmd = (ERR_OK, [55]) := by
    unfold aegis_app_cmd_payload_read
    rw [if_neg (not_not.mpr hsz), if_neg (by decide), hpl]
    rfl
  unfold aegis_app_cmd_service_execute_deps
  rw [hty]
  simp only [hl]
  unfold handle_set_power
  rw [if_neg hctx, if_neg (by rw [hid, hI]; omega), hread]
  dsimp only
  rw [if_neg (by decide), hid]
  have h55 : [55].getD 0 0 = 55 := rfl
  rw [h55, hspec]

theorem drop_two_take_two (bs : List Nat) (h : 4 ≤ bs.length) :
    (bs.drop 2).take 2 = [bs.getD 2 0, bs.getD 3 0] := by
  match bs, h with
  | a :: b :: c :: d :: rest, _ => rfl

theorem charger_dto_round_trip (dst : List Nat) (d : DemoChargerDto) (hd : 6 ≤ dst.length)
    (hi : d.id < 65536) (hm : d.charger_model < 65536) (hp : d.power_level < 256) :
    charger_dto_of_bytes (memcpy dst 0 (charger_dto_bytes d) 0 sizeof_DemoChargerDto) = d := by
  have hl := memcpy_length dst 0 (charger_dto_bytes d) 0 sizeof_DemoChargerDto
  have g : ∀ i, i < 6 →
      (memcpy dst 0 (charger_dto_bytes d) 0 sizeof_DemoChargerDto).getD i 0 =
        (charger_dto_bytes d).getD i 0 := by
    intro i hi
    rw [memcpy_getD _ _ _ _ _ _ (by omega)]
    rw [if_pos ⟨Nat.zero_le _, by show i < 0 + 6; omega⟩]
    simp
  unfold charger_dto_of_bytes
  rw [take_two_getD _ (by rw [hl]; omega), drop_two_take_two _ (by rw [hl]; omega),
    g 0 (by omega), g 1 (by omega), g 2 (by omega), g 3 (by omega), g 4 (by omega)]
  cases d with
  | mk a m p =>
    simp only [charger_dto_bytes, le_bytes, le_value, List.cons_append, List.nil_append,
      List.getD_cons_zero, List.getD_cons_succ] at hi hm hp ⊢
    congr 1
    · omega
    · omega
    · omega

theorem charger_query (fuel : Nat) (rt : AegisEntryRuntime) (cs : List AegisCommand)
    (repo : AegisInfrastructureRepositoryInmem) (k id model power : Nat)
    (h : ChargerReady fuel rt cs repo) (hh : HoldsCharger repo k id model power)
    (hlt : id < 65535) (hm : model < 65536) (hp : power < 256) :
    ∃ resp, runtime_query rt (get_charger_query id) zero_response = (ERR_OK, resp) ∧
      resp.result = ERR_OK ∧ resp.payload_size = sizeof_DemoChargerDto ∧
      charger_dto_of_bytes resp.payload =
        { id := id, charger_model := model, power_level := power } := by
  obtain ⟨-, -, -, -, -, -, -, -, -, -, -, ⟨i, ctx, hctx, hl⟩, h13⟩ := h
  have hget := holds_get repo k id model power hh
  obtain ⟨-, -, e, he, -, -, -, e4, -, e6⟩ := hh
  have hgd : repo.entity_pool.getD k zero_entity = e := by
    rw [List.getD_eq_getElem?_getD, he]
    rfl
  have hI : ENTITY_ID_INVALID = 65535 := rfl
  have hdom : demo_domain_charger_get (some repo) id { charger_model := 0, power_level := 0 } =
      (ERR_OK, { charger_model := model, power_level := power }) := by
    unfold demo_domain_charger_get
    simp only [hget, hgd, aegis_domain_entity_payload_get]
    rw [if_neg (by decide), if_neg (not_not.mpr e4), e6]
  refine ⟨{ zero_response with
      payload_size := sizeof_DemoChargerDto
      payload := memcpy zero_response.payload 0
        (charger_dto_bytes { id := id, charger_model := model, power_level := power }) 0
        sizeof_DemoChargerDto
      result := ERR_OK }, ?_, rfl, rfl, ?_⟩
  · unfold runtime_query aegis_app_query_execute_deps
    have hty : (get_charger_query id).type = DEMO_QUERY_GET_CHARGER := rfl
    rw [hty, if_neg (show ¬ DEMO_QUERY_GET_CHARGER = QUERY_TYPE_INVALID by decide)]
    simp only [hl]
    have hdeps : (app_deps rt.app).repo = some repo := h13
    have hhandler : handle_get_charger (get_charger_query id) zero_response ctx (app_deps rt.app) =
        (ERR_OK,
          { zero_response with
            payload_size := sizeof_DemoChargerDto
            payload := memcpy zero_response.payload 0
              (charger_dto_bytes { id := id, charger_model := model, power_level := power }) 0
              sizeof_DemoChargerDto
            result := ERR_OK }) := by
      unfold handle_get_charger
      rw [if_neg hctx]
      have heid : (get_charger_query id).entity_id = id := rfl
      rw [heid, if_neg (by rw [hI]; omega), hdeps, hdom]
      dsimp only
      rw [if_neg (not_not.mpr rfl)]
      unfold aegis_app_query_result_payload_write
      rw [if_neg (show ¬ sizeof_DemoChargerDto > APP_QUERY_RESULT_PAYLOAD_MAX by decide)]
      dsimp only
      rw [if_neg (not_not.mpr rfl)]
    rw [hhandler]
  · exact charger_dto_round_trip _ _ (by decide) (by show id < 65536; omega) hm hp

theorem charger_app_shape (fuel : Nat) :
    charger_app fuel =
      { trace :=
          (aegis_domain_event_bus_init zero_bus (some demo_trace) (some charger_table) 2).2.trace,
        write_repo := some (repository_init_impl storage_repo).2,
        event_bus :=
          (aegis_domain_event_bus_init zero_bus (some demo_trace) (some charger_table) 2).2,
        cmd_queue :=
          (aegis_app_cmd_init zero_cmd_queue
            (aegis_domain_event_bus_init zero_bus (some demo_trace) (some charger_table)
              2).2.trace).2,
        cmd_service :=
          (register_handlers APP_CMD_SERVICE_MAX_HANDLERS
            (table_init APP_CMD_SERVICE_MAX_HANDLERS CMD_TYPE_INVALID)
            [{ type := DEMO_CMD_CREATE_CHARGER,
                handler := some (handle_create_charger (aegis_domain_event_publish fuel)),
                ctx := 1024 },
              { type := DEMO_CMD_SET_POWER_LEVEL,
                handler := some (handle_set_power (aegis_domain_event_publish fuel)),
                ctx := 1024 }]).2,
        query :=
          (register_handlers APP_QUERY_MAX_HANDLERS
            (table_init APP_QUERY_MAX_HANDLERS QUERY_TYPE_INVALID)
            [{ type := DEMO_QUERY_GET_CHARGER, handler := some handle_get_charger,
                ctx := 1024 }]).2,
        is_initialized := TRUE } := by
  have hb := bus_init_shape zero_bus (some demo_trace) (some charger_table) 2 (by decide)
    (by decide)
  have hinit : aegis_app_init_all storage_app
      { trace := some demo_trace, write_repo := some storage_repo,
        event_subscriptions := some charger_table, event_subscription_count := 2 } =
      (ERR_OK,
        { trace :=
            (aegis_domain_event_bus_init zero_bus (some demo_trace) (some charger_table)
              2).2.trace,
          write_repo := some (repository_init_impl storage_repo).2,
          event_bus :=
            (aegis_domain_event_bus_init zero_bus (some demo_trace) (some charger_table) 2).2,
          cmd_queue :=
            (aegis_app_cmd_init zero_cmd_queue
              (aegis_domain_event_bus_init zero_bus (some demo_trace) (some charger_table)
                2).2.trace).2,
          cmd_service := table_init APP_CMD_SERVICE_MAX_HANDLERS CMD_TYPE_INVALID,
          query := table_init APP_QUERY_MAX_HANDLERS QUERY_TYPE_INVALID,
          is_initialized := TRUE }) := by
    unfold aegis_app_init_all
    dsimp only
    rw [if_neg (by rw [hb]; decide)]
    rfl
  unfold charger_app
  rw [hinit]
  rfl

theorem charger_runtime_ready (fuel : Nat) :
    ChargerReady fuel (charger_runtime fuel) [] (repository_init_impl storage_repo).2 ∧
      RepoFresh (repository_init_impl storage_repo).2 := by
  have h1 : ¬ ((some charger_table).isNone ∧ 2 > 0) := by decide
  have h2 : 2 ≤ MAX_EVENT_SUBSCRIPTIONS := by decide
  obtain ⟨bwf, -, -⟩ := bus_init_wf zero_bus (some demo_trace) (some charger_table) 2 h1 h2
    demo_trace_wf
  obtain ⟨f1, f2, f3, f4, -⟩ := bus_init_fields zero_bus (some demo_trace) (some charger_table) 2
    h1 h2
  obtain ⟨-, c2, c3, -⟩ := cmd_init_wf zero_cmd_queue
    (aegis_domain_event_bus_init zero_bus (some demo_trace) (some charger_table) 2).2.trace
    bwf.2.2.2.1
  constructor
  · unfold ChargerReady charger_runtime
    dsimp only
    rw [charger_app_shape fuel]
    refine ⟨Nat.succ_ne_zero 0, Nat.succ_ne_zero 0, c2, c3, bwf, ?_, f2, f4, ?_,
      ⟨0, 1024, by decide, rfl⟩, ⟨1, 1024, by decide, rfl⟩, ⟨0, 1024, by decide, rfl⟩, rfl⟩
    · show (aegis_domain_event_bus_init zero_bus (some demo_trace) (some charger_table)
        2).2.is_initialized ≠ 0
      rw [f1]
      decide
    · show ChargerSubscribers ((aegis_domain_event_bus_init zero_bus (some demo_trace)
        (some charger_table) 2).2.subscriptions.getD [])
      rw [f3]
      exact ⟨_, _, ok_handler, ok_handler, rfl, rfl, rfl, rfl, fun _ => rfl, rfl, rfl, rfl,
        fun _ => rfl⟩
  · refine ⟨Nat.succ_ne_zero 0, rfl, by decide, by decide, ?_⟩
    intro i e hi
    exact absurd hi (Nat.not_lt_zero _)


/-! ## Single-byte calls, the zero-copy path and index coherence -/

theorem put_eq_write (rb : AegisRingBuffer) (d : Nat) (h : RingWF rb) (hc : rb.count < rb.size) :
    aegis_ring_buffer_put rb d = (ERR_OK, (aegis_ring_buffer_write rb (some [d]) 1).2) ∧
      (aegis_ring_buffer_write rb (some [d]) 1).1 = 1 := by
  obtain ⟨hs, hb, -, hh, ht⟩ := h
  have hfree : (rb.size + 65536 - rb.count) % 65536 = rb.size - rb.count := by omega
  have hend : (rb.size + 65536 - rb.head) % 65536 = rb.size - rb.head := by omega
  have hm : MIN 1 (rb.size - rb.count) = 1 := by rw [MIN_eq_min]; omega
  have hcopy : memcpy rb.buffer rb.head [d] 0 1 = rb.buffer.set rb.head d := by
    rw [memcpy_succ _ _ _ _ _ (by omega), memcpy_zero]
    rfl
  simp only [aegis_ring_buffer_put, aegis_ring_buffer_write, hfree, hend, hm]
  rw [if_neg (by omega), if_neg (by decide), if_pos (by decide), if_pos (by omega), hcopy]
  exact ⟨rfl, rfl⟩

theorem get_eq_read (rb : AegisRingBuffer) (old : Nat) (h : RingWF rb) (hc : 0 < rb.count) :
    aegis_ring_buffer_get rb (some old) =
        (ERR_OK, (aegis_ring_buffer_read rb (some [old]) 1).2.1,
          some (rb.buffer.getD rb.tail 0)) ∧
      (aegis_ring_buffer_read rb (some [old]) 1).1 = 1 ∧
      (aegis_ring_buffer_read rb (some [old]) 1).2.2 = some [rb.buffer.getD rb.tail 0] := by
  obtain ⟨hs, hb, hcs, hh, ht⟩ := h
  have hend : (rb.size + 65536 - rb.tail) % 65536 = rb.size - rb.tail := by omega
  have hm : MIN 1 rb.count = 1 := by rw [MIN_eq_min]; omega
  have hcnt : (rb.count + 65535) % 65536 = (rb.count + 65536 - 1) % 65536 := rfl
  have hcopy : memcpy [old] 0 rb.buffer rb.tail 1 = [rb.buffer.getD rb.tail 0] := by
    rw [memcpy_succ _ _ _ _ _ (Nat.le_refl 1), memcpy_zero]
    rfl
  simp only [aegis_ring_buffer_get, aegis_ring_buffer_read, hend, hm]
  rw [if_neg (by omega), if_neg (by decide), if_pos (by decide), if_pos (by omega), hcopy, hcnt]
  exact ⟨rfl, rfl, rfl⟩

theorem zero_copy_write_eq (rb : AegisRingBuffer) (d : List Nat) (n : Nat) (h : RingWF rb)
    (hn : n ≤ (aegis_ring_buffer_get_write_ptr rb true).1) :
    aegis_ring_buffer_write rb (some d) n = (n, (zero_copy_write rb d n).2) ∧
      (zero_copy_write rb d n).1 = ERR_OK := by
  obtain ⟨hs, hb, hc, hh, ht⟩ := h
  have hpos : 0 < rb.size := by omega
  have hfree : (rb.size + 65536 - rb.count) % 65536 = rb.size - rb.count := by omega
  have hend : (rb.size + 65536 - rb.head) % 65536 = rb.size - rb.head := by omega
  have hlen : (aegis_ring_buffer_get_write_ptr rb true).1 =
      min (rb.size - rb.count) (rb.size - rb.head) := by
    simp only [aegis_ring_buffer_get_write_ptr, hfree, hend, MIN_eq_min]
    rw [if_neg (by decide)]
    split <;> rfl
  rw [hlen] at hn
  have hcmp : ¬ (n : Int) > (rb.size : Int) - (rb.count : Int) := by omega
  have hcnt : (rb.count + n) % 65536 = rb.count + n := by omega
  have hhd : ((rb.head + n) % rb.size) % 65536 = (rb.head + n) % rb.size :=
    mod_mod_u16 _ _ hpos hs
  by_cases h0 : n = 0
  · subst h0
    have hw : aegis_ring_buffer_write rb (some d) 0 = (0, rb) := rfl
    have hcw : ∀ r : AegisRingBuffer, r.size = rb.size → r.count = rb.count → r.head = rb.head →
        aegis_ring_buffer_commit_write r 0 = (ERR_OK, r) := by
      intro r h1 h2 h3
      unfold aegis_ring_buffer_commit_write
      rw [if_neg (by rw [h1, h2]; omega)]
      have e1 : ((r.head + 0) % r.size) % 65536 = r.head := by
        rw [h1, h3, Nat.add_zero, Nat.mod_eq_of_lt hh]; omega
      have e2 : (r.count + 0) % 65536 = r.count := by rw [h2]; omega
      rw [e1, e2]
    rw [hw]
    unfold zero_copy_write
    split
    · rw [hcw rb rfl rfl rfl]
      exact ⟨rfl, rfl⟩
    · rw [memcpy_zero, hcw _ rfl rfl rfl]
      exact ⟨rfl, rfl⟩
  · have hnpos : 0 < n := Nat.pos_of_ne_zero h0
    have hptr : (aegis_ring_buffer_get_write_ptr rb true).2 = some rb.head := by
      simp only [aegis_ring_buffer_get_write_ptr, hfree, hend, MIN_eq_min]
      rw [if_neg (by decide), if_pos (by omega)]
    have hm : MIN n (rb.size - rb.count) = n := by rw [MIN_eq_min]; omega
    unfold zero_copy_write
    rw [hptr]
    simp only [aegis_ring_buffer_write, aegis_ring_buffer_commit_write, hfree, hend, hm]
    rw [if_neg h0, if_pos hnpos, if_pos (by omega), if_neg hcmp]
    exact ⟨rfl, rfl⟩

theorem zero_copy_read_eq (rb : AegisRingBuffer) (out : List Nat) (n : Nat) (h : RingWF rb)
    (hn : n ≤ (aegis_ring_buffer_get_read_ptr rb true).1) :
    aegis_ring_buffer_read rb (some out) n =
        (n, (zero_copy_read rb out n).2.1, some (zero_copy_read rb out n).2.2) ∧
      (zero_copy_read rb out n).1 = ERR_OK := by
  obtain ⟨hs, hb, hc, hh, ht⟩ := h
  have hpos : 0 < rb.size := by omega
  have hend : (rb.size + 65536 - rb.tail) % 65536 = rb.size - rb.tail := by omega
  have hlen : (aegis_ring_buffer_get_read_ptr rb true).1 = min rb.count (rb.size - rb.tail) := by
    simp only [aegis_ring_buffer_get_read_ptr, hend, MIN_eq_min]
    rw [if_neg (by decide)]
    split <;> rfl
  rw [hlen] at hn
  by_cases h0 : n = 0
  · subst h0
    have hr : aegis_ring_buffer_read rb (some out) 0 = (0, rb, some out) := rfl
    have hcr : aegis_ring_buffer_commit_read rb 0 = (ERR_OK, rb) := by
      unfold aegis_ring_buffer_commit_read
      rw [if_neg (by omega)]
      have e1 : ((rb.tail + 0) % rb.size) % 65536 = rb.tail := by
        rw [Nat.add_zero, Nat.mod_eq_of_lt ht]; omega
      have e2 : (rb.count + 65536 - 0) % 65536 = rb.count := by omega
      rw [e1, e2]
    rw [hr]
    unfold zero_copy_read
    split
    · rw [hcr]
      exact ⟨rfl, rfl⟩
    · rw [hcr, memcpy_zero]
      exact ⟨rfl, rfl⟩
  · have hnpos : 0 < n := Nat.pos_of_ne_zero h0
    have hptr : (aegis_ring_buffer_get_read_ptr rb true).2 = some rb.tail := by
      simp only [aegis_ring_buffer_get_read_ptr, hend, MIN_eq_min]
      rw [if_neg (by decide), if_pos (by omega)]
    have hm : MIN n rb.count = n := by rw [MIN_eq_min]; omega
    unfold zero_copy_read
    rw [hptr]
    simp only [aegis_ring_buffer_read, aegis_ring_buffer_commit_read, hend, hm]
    rw [if_neg h0, if_pos hnpos, if_pos (by omega), if_neg (by omega)]
    exact ⟨rfl, rfl⟩

theorem range_map_getD (f : Nat → Nat) (m i : Nat) (hi : i < m) :
    ((List.range m).map f).getD i 0 = f i := by
  rw [List.getD_eq_getElem?_getD, List.getElem?_map, List.getElem?_range hi]
  rfl

/-- Advancing the write index by `m ≤ size - count` over cells that may have
been overwritten appends those `m` cells to the held bytes. -/
theorem contents_append (rb rb' : AegisRingBuffer) (m : Nat) (hco : RingCoherent rb)
    (hm : m ≤ rb.size - rb.count) (hsz : rb'.size = rb.size) (htl : rb'.tail = rb.tail)
    (hcnt : rb'.count = rb.count + m) (hhd : rb'.head = (rb.head + m) % rb.size)
    (hlen : rb'.buffer.length = rb.size)
    (hbuf : ∀ j, j < rb.size → m ≤ (j + rb.size - rb.head) % rb.size →
      rb'.buffer.getD j 0 = rb.buffer.getD j 0) :
    ring_contents rb' =
        ring_contents rb ++
          (List.range m).map (fun i => rb'.buffer.getD ((rb.head + i) % rb.size) 0) ∧
      RingCoherent rb' := by
  obtain ⟨hwf, hhead⟩ := hco
  obtain ⟨hs, hb, hc, hh, ht⟩ := hwf
  have hpos : 0 < rb.size := by omega
  have hhead2 : (rb.tail + rb.count < rb.size ∧ rb.head = rb.tail + rb.count) ∨
      (rb.size ≤ rb.tail + rb.count ∧ rb.head + rb.size = rb.tail + rb.count) := by
    rw [mod_wrap _ _ (by omega)] at hhead
    split_ifs at hhead <;> omega
  constructor
  · apply list_ext_getD
    · rw [ring_contents_length, List.length_append, ring_contents_length, List.length_map,
        List.length_range, hcnt]
    · intro k hk
      rw [ring_contents_length, hcnt] at hk
      rw [ring_contents_getD _ _ (by rw [hcnt]; exact hk), hsz, htl]
      by_cases hkc : k < rb.count
      · rw [List.getD_append _ _ _ _ (by rw [ring_contents_length]; exact hkc),
          ring_contents_getD _ _ hkc]
        apply hbuf _ (Nat.mod_lt _ hpos)
        rw [mod_wrap (rb.tail + k) rb.size (by omega),
          mod_wrap _ rb.size (by split_ifs <;> omega)]
        split_ifs <;> omega
      · rw [List.getD_append_right _ _ _ _ (by rw [ring_contents_length]; omega),
          ring_contents_length, range_map_getD _ _ _ (by omega)]
        congr 1
        rw [mod_wrap (rb.tail + k) rb.size (by omega), mod_wrap _ rb.size (by omega)]
        split_ifs <;> omega
  · refine ⟨⟨by omega, hlen.trans hsz.symm, by omega, ?_, by omega⟩, ?_⟩
    · rw [hhd, hsz]
      exact Nat.mod_lt _ hpos
    · rw [hhd, hsz, htl, hcnt, mod_wrap _ _ (by omega), mod_wrap _ _ (by omega)]
      split_ifs <;> omega

/-- Advancing the read index by `m ≤ count` removes the `m` oldest held bytes. -/
theorem contents_drop (rb rb' : AegisRingBuffer) (m : Nat) (hco : RingCoherent rb)
    (hm : m ≤ rb.count) (hsz : rb'.size = rb.size) (hhd : rb'.head = rb.head)
    (hcnt : rb'.count = rb.count - m) (htl : rb'.tail = (rb.tail + m) % rb.size)
    (hbuf : rb'.buffer = rb.buffer) :
    ring_contents rb' = (ring_contents rb).drop m ∧ RingCoherent rb' := by
  obtain ⟨hwf, hhead⟩ := hco
  obtain ⟨hs, hb, hc, hh, ht⟩ := hwf
  have hpos : 0 < rb.size := by omega
  constructor
  · apply list_ext_getD
    · rw [ring_contents_length, List.length_drop, ring_contents_length, hcnt]
    · intro k hk
      rw [ring_contents_length, hcnt] at hk
      rw [ring_contents_getD _ _ (by rw [hcnt]; exact hk), drop_getD,
        ring_contents_getD _ _ (by omega), hsz, hbuf, htl, mod_wrap (rb.tail + _) _ (by omega),
        mod_wrap (rb.tail + _) _ (by omega), mod_wrap _ rb.size (by split_ifs <;> omega)]
      split_ifs <;> first | omega | (congr 1; omega)
  · refine ⟨⟨by omega, by rw [hbuf, hsz]; exact hb, by omega, by omega, ?_⟩, ?_⟩
    · rw [htl, hsz]
      exact Nat.mod_lt _ hpos
    · rw [mod_wrap _ _ (by omega)] at hhead
      rw [hhd, hsz, hcnt, htl, mod_wrap (rb.tail + _) _ (by omega),
        mod_wrap _ rb.size (by split_ifs <;> omega)]
      split_ifs at hhead ⊢ <;> omega

theorem fifo_step_spec (rb : AegisRingBuffer) (op : RingOp) (hco : RingCoherent rb) :
    ring_contents (ring_step rb op) = fifo_step rb (ring_contents rb) op ∧
      RingCoherent (ring_step rb op) := by
  have hco' := hco
  obtain ⟨hwf, hhead⟩ := hco'
  have hwf' := hwf
  obtain ⟨hs, hb, hc, hh, ht⟩ := hwf'
  have hpos : 0 < rb.size := by omega
  cases op with
  | put d =>
    by_cases hfull : rb.count ≥ rb.size
    · have e : aegis_ring_buffer_put rb d = (ERR_OUT_OF_RANGE, rb) := by
        unfold aegis_ring_buffer_put
        rw [if_pos hfull]
      simp only [ring_step, fifo_step, e, ring_contents_length]
      rw [if_pos hfull]
      exact ⟨rfl, hco⟩
    · have e : (aegis_ring_buffer_put rb d).2 =
          { rb with
            buffer := rb.buffer.set rb.head d
            head := (rb.head + 1) % rb.size
            count := rb.count + 1 } := by
        unfold aegis_ring_buffer_put
        rw [if_neg hfull, mod_mod_u16 _ _ hpos hs, Nat.mod_eq_of_lt (by omega : rb.count + 1 < 65536)]
      simp only [ring_step, fifo_step, e, ring_contents_length]
      rw [if_neg hfull]
      have := contents_append rb
        { rb with
          buffer := rb.buffer.set rb.head d
          head := (rb.head + 1) % rb.size
          count := rb.count + 1 } 1 hco (by omega) rfl rfl rfl rfl
        (by show (rb.buffer.set rb.head d).length = rb.size; rw [List.length_set]; exact hb)
        (by
          intro j hj hge
          show (rb.buffer.set rb.head d).getD j 0 = rb.buffer.getD j 0
          rw [set_getD _ _ _ _ (by omega), if_neg]
          intro hEq
          rw [← hEq, mod_wrap _ rb.size (by omega)] at hge
          split_ifs at hge <;> omega)
      refine ⟨?_, this.2⟩
      rw [this.1]
      congr 1
      show [(rb.buffer.set rb.head d).getD ((rb.head + 0) % rb.size) 0] = [d]
      rw [Nat.add_zero, Nat.mod_eq_of_lt hh, set_getD _ _ _ _ (by omega), if_pos rfl]
  | get data =>
    cases data with
    | none => exact ⟨rfl, hco⟩
    | some old =>
      by_cases hempty : rb.count = 0
      · have e : aegis_ring_buffer_get rb (some old) = (ERR_OUT_OF_RANGE, rb, some old) := by
          simp only [aegis_ring_buffer_get]
          rw [if_pos hempty]
        simp only [ring_step, fifo_step, e]
        refine ⟨?_, hco⟩
        rw [List.drop_eq_nil_of_le (by rw [ring_contents_length]; omega)]
        apply List.length_eq_zero.mp
        rw [ring_contents_length, hempty]
      · have e : (aegis_ring_buffer_get rb (some old)).2.1 =
            { rb with tail := (rb.tail + 1) % rb.size, count := rb.count - 1 } := by
          simp only [aegis_ring_buffer_get]
          rw [if_neg hempty, mod_mod_u16 _ _ hpos hs,
            (by omega : (rb.count + 65535) % 65536 = rb.count - 1)]
        simp only [ring_step, fifo_step, e]
        exact contents_drop rb _ 1 hco (by omega) rfl rfl rfl rfl rfl
  | write data len =>
    cases data with
    | none => exact ⟨rfl, hco⟩
    | some d =>
      by_cases hl : len = 0
      · subst hl
        have e : aegis_ring_buffer_write rb (some d) 0 = (0, rb) := rfl
        simp only [ring_step, fifo_step, e]
        refine ⟨?_, hco⟩
        rw [Nat.zero_min]
        exact (List.append_nil _).symm
      · have hlen : 1 ≤ len := Nat.pos_of_ne_zero hl
        obtain ⟨h1, h2, h3, h4, h5, h6, h7⟩ := write_spec rb d len hwf hlen
        obtain ⟨p1, -⟩ := write_positions rb d len hwf hlen
        have := contents_append rb (aegis_ring_buffer_write rb (some d) len).2
          (min len (rb.size - rb.count)) hco (by omega) h2 h3 h4 h5 h6
          (by
            intro j hj hge
            rw [h7 j hj, if_neg (by omega)])
        simp only [ring_step, fifo_step, ring_contents_length]
        refine ⟨?_, this.2⟩
        rw [this.1]
        congr 1
        apply List.map_congr_left
        intro i hi
        exact p1 i (List.mem_range.mp hi)
  | read data len =>
    cases data with
    | none => exact ⟨rfl, hco⟩
    | some out =>
      by_cases hl : len = 0
      · subst hl
        exact ⟨rfl, hco⟩
      · have hlen : 1 ≤ len := Nat.pos_of_ne_zero hl
        obtain ⟨h1, h2, h3, h4, h5, h6, -⟩ := read_spec rb out len hwf hlen
        have := contents_drop rb (aegis_ring_buffer_read rb (some out) len).2.1
          (min len rb.count) hco (by omega) h2 h3 h5 h6 h4
        simp only [ring_step, fifo_step]
        refine ⟨?_, this.2⟩
        rw [this.1]
        by_cases hle : len ≤ rb.count
        · rw [Nat.min_eq_left hle]
        · rw [Nat.min_eq_right (by omega),
            List.drop_eq_nil_of_le (by rw [ring_contents_length]),
            List.drop_eq_nil_of_le (by rw [ring_contents_length]; omega)]
  | commit_write len =>
    by_cases hgt : len > rb.size - rb.count
    · have e : aegis_ring_buffer_commit_write rb len = (ERR_OUT_OF_RANGE, rb) := by
        unfold aegis_ring_buffer_commit_write
        rw [if_pos (by omega)]
      simp only [ring_step, fifo_step, e, ring_contents_length]
      rw [if_pos hgt]
      exact ⟨rfl, hco⟩
    · have e : (aegis_ring_buffer_commit_write rb len).2 =
          { rb with head := (rb.head + len) % rb.size, count := rb.count + len } := by
        unfold aegis_ring_buffer_commit_write
        rw [if_neg (by omega), mod_mod_u16 _ _ hpos hs,
          Nat.mod_eq_of_lt (by omega : rb.count + len < 65536)]
      simp only [ring_step, fifo_step, e, ring_contents_length]
      rw [if_neg hgt]
      exact contents_append rb _ len hco (by omega) rfl rfl rfl rfl hb (fun _ _ _ => rfl)
  | commit_read len =>
    by_cases hgt : len > rb.count
    · have e : aegis_ring_buffer_commit_read rb len = (ERR_OUT_OF_RANGE, rb) := by
        unfold aegis_ring_buffer_commit_read
        rw [if_pos hgt]
      simp only [ring_step, fifo_step, e, ring_contents_length]
      rw [if_pos hgt]
      exact ⟨rfl, hco⟩
    · have e : (aegis_ring_buffer_commit_read rb len).2 =
          { rb with tail := (rb.tail + len) % rb.size, count := rb.count - len } := by
        unfold aegis_ring_buffer_commit_read
        rw [if_neg hgt, mod_mod_u16 _ _ hpos hs,
          (by omega : (rb.count + 65536 - len) % 65536 = rb.count - len)]
      simp only [ring_step, fifo_step, e, ring_contents_length]
      rw [if_neg hgt]
      exact contents_drop rb _ len hco (by omega) rfl rfl rfl rfl rfl
  | clear =>
    refine ⟨rfl, ⟨hs, hb, Nat.zero_le _, hpos, hpos⟩, ?_⟩
    show 0 = (0 + 0) % rb.size
    rw [Nat.zero_mod]

theorem fifo_run_spec (ops : List RingOp) (rb : AegisRingBuffer) (hco : RingCoherent rb) :
    ring_contents (ring_run rb ops) = fifo_run rb (ring_contents rb) ops ∧
      RingCoherent (ring_run rb ops) := by
  induction ops generalizing rb with
  | nil => exact ⟨rfl, hco⟩
  | cons op ops ih =>
    obtain ⟨h1, h2⟩ := fifo_step_spec rb op hco
    have := ih (ring_step rb op) h2
    simp only [ring_run, List.foldl_cons, fifo_run] at this ⊢
    rw [← h1]
    exact this

/-! ## Copies through a payload array -/

/-- Copying `n` bytes of `p` into an array and `n` bytes of that array into
`out` delivers `p` to the first `n` cells of `out` and leaves the others. -/
theorem memcpy_round_trip (arr out p : List Nat) (n : Nat) (hp : p.length = n)
    (harr : n ≤ arr.length) (hout : n ≤ out.length) :
    (memcpy out 0 (memcpy arr 0 p 0 n) 0 n).take n = p ∧
      (memcpy out 0 (memcpy arr 0 p 0 n) 0 n).drop n = out.drop n := by
  constructor
  · apply list_ext_getD
    · rw [List.length_take, memcpy_length]
      omega
    · intro i hi
      rw [List.length_take, memcpy_length] at hi
      rw [take_getD _ _ _ (by omega), memcpy_getD _ _ _ _ _ _ (by omega),
        if_pos ⟨Nat.zero_le _, by omega⟩, Nat.zero_add, Nat.sub_zero,
        memcpy_getD _ _ _ _ _ _ (by omega), if_pos ⟨Nat.zero_le _, by omega⟩, Nat.zero_add,
        Nat.sub_zero]
  · apply list_ext_getD
    · rw [List.length_drop, List.length_drop, memcpy_length]
    · intro i hi
      rw [List.length_drop, memcpy_length] at hi
      rw [drop_getD, drop_getD, memcpy_getD _ _ _ _ _ _ (by omega), if_neg (by omega)]

/-! ## The memory pool: one allocation from the small region and its release -/

theorem pool_region_set_same (p : AegisMemPool) (r : Nat) (reg : AegisMemPoolRegion)
    (h : r < p.regions.length) : pool_region (pool_set_region p r reg) r = reg := by
  unfold pool_region pool_set_region
  rw [List.getD_eq_getElem?_getD, List.getElem?_set_self h]
  rfl

theorem pool_region_set_other (p : AegisMemPool) (r r' : Nat) (reg : AegisMemPoolRegion)
    (h : r ≠ r') : pool_region (pool_set_region p r reg) r' = pool_region p r' := by
  unfold pool_region pool_set_region
  rw [List.getD_eq_getElem?_getD, List.getD_eq_getElem?_getD, List.getElem?_set_ne h]

theorem pool_store_frame (p : AegisMemPool) (a v : Nat) :
    (pool_store p a v).buffer_addr = p.buffer_addr ∧ (pool_store p a v).meta = p.meta ∧
      (pool_store p a v).regions = p.regions ∧
      (pool_store p a v).is_initialized = p.is_initialized ∧
      (pool_store p a v).peak_usage = p.peak_usage ∧ (pool_store p a v).trace = p.trace ∧
      (pool_store p a v).buffer.length = p.buffer.length := by
  unfold pool_store
  split
  · exact ⟨rfl, rfl, rfl, rfl, rfl, rfl, List.length_set _ _ _⟩
  · exact ⟨rfl, rfl, rfl, rfl, rfl, rfl, rfl⟩

theorem pool_store_buffer (p : AegisMemPool) (a v : Nat) (h : p.buffer_addr ≤ a) :
    (pool_store p a v).buffer = p.buffer.set (a - p.buffer_addr) v := by
  unfold pool_store
  rw [if_pos h]

theorem find_small_block (p : AegisMemPool) (k : Nat) (hl : PoolLayout p)
    (hk : k < MEM_POOL_SMALL_COUNT) :
    find_block_region p (p.buffer_addr + 32 * k + 2 - MEM_MAGIC_SIZE) = some (0, k) ∧
      block_address p 0 k = p.buffer_addr + 32 * k ∧ get_meta_index p 0 k = k := by
  obtain ⟨-, -, -, -, ⟨a0, a1, a2, -⟩, -⟩ := hl
  simp only [MEM_POOL_SMALL_COUNT, MEM_POOL_SMALL_SIZE] at hk a1 a2
  refine ⟨?_, ?_, ?_⟩
  · rw [find_block_region, find_block_region_in]
    simp only [a0, a1, a2, MEM_MAGIC_SIZE]
    rw [if_pos ⟨by omega, by omega⟩]
    congr 2
    omega
  · unfold block_address
    rw [a0, a1]
    omega
  · unfold get_meta_index
    show (0 + k) % 256 = k
    omega

theorem live_magic (p : AegisMemPool) (k : Nat) (h : BlockLive p k) :
    check_magic_numbers p (p.buffer_addr + 32 * k) 32 = TRUE := by
  obtain ⟨-, -, -, m0, m1, m2, m3⟩ := h
  have e0 : pool_load p (p.buffer_addr + 32 * k) = 173 := by
    unfold pool_load
    rw [if_pos (by omega), (by omega : p.buffer_addr + 32 * k - p.buffer_addr = 32 * k), m0]
  have e1 : pool_load p (p.buffer_addr + 32 * k + 1) = 222 := by
    unfold pool_load
    rw [if_pos (by omega), (by omega : p.buffer_addr + 32 * k + 1 - p.buffer_addr = 32 * k + 1),
      m1]
  have e2 : pool_load p (p.buffer_addr + 32 * k + 32 - MEM_MAGIC_SIZE) = 239 := by
    unfold pool_load MEM_MAGIC_SIZE
    rw [if_pos (by omega),
      (by omega : p.buffer_addr + 32 * k + 32 - 2 - p.buffer_addr = 32 * k + 30), m2]
  have e3 : pool_load p (p.buffer_addr + 32 * k + 32 - MEM_MAGIC_SIZE + 1) = 190 := by
    unfold pool_load MEM_MAGIC_SIZE
    rw [if_pos (by omega),
      (by omega : p.buffer_addr + 32 * k + 32 - 2 + 1 - p.buffer_addr = 32 * k + 31), m3]
  unfold check_magic_numbers
  simp only [e0, e1, e2, e3]
  rfl

theorem check_magic_live (p : AegisMemPool) (k : Nat) (h : BlockLive p k) :
    aegis_mem_pool_check_magic p (p.buffer_addr + 32 * k + 2) = ERR_OK := by
  have hm := live_magic p k h
  obtain ⟨hl, hk, -⟩ := h
  obtain ⟨f1, f2, f3⟩ := find_small_block p k hl hk
  have hbs : (pool_region p 0).block_size = 32 := hl.2.2.2.2.1.2.1
  have hini := hl.1
  unfold aegis_mem_pool_check_magic
  rw [if_neg (by omega), if_neg hini, if_neg (by unfold MEM_MAGIC_SIZE; omega)]
  dsimp only
  rw [f1]
  simp only [f2, hbs]
  rw [if_neg (not_not.mpr (by unfold MEM_MAGIC_SIZE; omega)),
    (by unfold MEM_MAGIC_SIZE; omega :
      p.buffer_addr + 32 * k + 2 - MEM_MAGIC_SIZE = p.buffer_addr + 32 * k), hm,
    if_pos (by decide)]

theorem double_free_small (p : AegisMemPool) (k : Nat) (hl : PoolLayout p)
    (hk : k < MEM_POOL_SMALL_COUNT) (hfree : (p.meta.getD k zero_meta).is_used = 0) :
    aegis_mem_pool_free p (p.buffer_addr + 32 * k + 2) = (ERR_MEM_POOL_DOUBLE_FREE, p) := by
  obtain ⟨f1, f2, f3⟩ := find_small_block p k hl hk
  have hini := hl.1
  unfold aegis_mem_pool_free
  rw [if_neg (by omega), if_neg hini, if_neg (by unfold MEM_MAGIC_SIZE; omega)]
  dsimp only
  rw [f1]
  simp only [f2, f3]
  rw [if_neg (not_not.mpr (by unfold MEM_MAGIC_SIZE; omega)), if_neg (not_not.mpr hfree)]

theorem layout_transfer (p q : AegisMemPool) (hl : PoolLayout p)
    (h1 : q.is_initialized = p.is_initialized) (h2 : q.buffer.length = p.buffer.length)
    (h3 : q.meta.length = p.meta.length) (h4 : q.regions.length = p.regions.length)
    (h5 : q.buffer_addr = p.buffer_addr) (h6 : ∀ r, r ≠ 0 → pool_region q r = pool_region p r)
    (h7 : (pool_region q 0).start_addr = (pool_region p 0).start_addr)
    (h8 : (pool_region q 0).block_size = (pool_region p 0).block_size)
    (h9 : (pool_region q 0).block_count = (pool_region p 0).block_count)
    (h10 : (pool_region q 0).used_count ≤ MEM_POOL_SMALL_COUNT) : PoolLayout q := by
  obtain ⟨a, b, c, d, ⟨e0, e1, e2, -⟩, f, g, i⟩ := hl
  unfold PoolLayout
  rw [h1, h2, h3, h4, h5, h6 1 (by decide), h6 2 (by decide), h6 3 (by decide), h7, h8, h9]
  exact ⟨a, b, c, d, ⟨e0, e1, e2, h10⟩, f, g, i⟩

theorem set_region_frame (p : AegisMemPool) (r : Nat) (reg : AegisMemPoolRegion) :
    (pool_set_region p r reg).buffer_addr = p.buffer_addr ∧
      (pool_set_region p r reg).buffer = p.buffer ∧ (pool_set_region p r reg).meta = p.meta ∧
      (pool_set_region p r reg).is_initialized = p.is_initialized ∧
      (pool_set_region p r reg).peak_usage = p.peak_usage ∧
      (pool_set_region p r reg).trace = p.trace ∧
      (pool_set_region p r reg).regions.length = p.regions.length :=
  ⟨rfl, rfl, rfl, rfl, rfl, rfl, List.length_set _ _ _⟩

theorem pool_region_store (p : AegisMemPool) (a v r : Nat) :
    pool_region (pool_store p a v) r = pool_region p r := by
  unfold pool_region
  rw [(pool_store_frame p a v).2.2.1]

theorem magic_buffer (p : AegisMemPool) (k : Nat) :
    (write_magic_numbers p (p.buffer_addr + 32 * k) 32).buffer =
        (((p.buffer.set (32 * k) 173).set (32 * k + 1) 222).set (32 * k + 30) 239).set
          (32 * k + 31) 190 ∧
      (write_magic_numbers p (p.buffer_addr + 32 * k) 32).buffer_addr = p.buffer_addr ∧
      (write_magic_numbers p (p.buffer_addr + 32 * k) 32).meta = p.meta ∧
      (write_magic_numbers p (p.buffer_addr + 32 * k) 32).regions = p.regions ∧
      (write_magic_numbers p (p.buffer_addr + 32 * k) 32).is_initialized = p.is_initialized ∧
      (write_magic_numbers p (p.buffer_addr + 32 * k) 32).peak_usage = p.peak_usage ∧
      (write_magic_numbers p (p.buffer_addr + 32 * k) 32).trace = p.trace := by
  unfold write_magic_numbers
  dsimp only
  have s1 := pool_store_frame p (p.buffer_addr + 32 * k) (MEM_MAGIC_HEAD % 256)
  have b1 := pool_store_buffer p (p.buffer_addr + 32 * k) (MEM_MAGIC_HEAD % 256) (by omega)
  generalize pool_store p (p.buffer_addr + 32 * k) (MEM_MAGIC_HEAD % 256) = p1 at s1 b1 ⊢
  have s2 := pool_store_frame p1 (p.buffer_addr + 32 * k + 1) (MEM_MAGIC_HEAD / 256)
  have b2 := pool_store_buffer p1 (p.buffer_addr + 32 * k + 1) (MEM_MAGIC_HEAD / 256)
    (by rw [s1.1]; omega)
  generalize pool_store p1 (p.buffer_addr + 32 * k + 1) (MEM_MAGIC_HEAD / 256) = p2 at s2 b2 ⊢
  have s3 := pool_store_frame p2 (p.buffer_addr + 32 * k + 32 - MEM_MAGIC_SIZE)
    (MEM_MAGIC_TAIL % 256)
  have b3 := pool_store_buffer p2 (p.buffer_addr + 32 * k + 32 - MEM_MAGIC_SIZE)
    (MEM_MAGIC_TAIL % 256) (by rw [s2.1, s1.1]; unfold MEM_MAGIC_SIZE; omega)
  generalize pool_store p2 (p.buffer_addr + 32 * k + 32 - MEM_MAGIC_SIZE)
    (MEM_MAGIC_TAIL % 256) = p3 at s3 b3 ⊢
  have s4 := pool_store_frame p3 (p.buffer_addr + 32 * k + 32 - MEM_MAGIC_SIZE + 1)
    (MEM_MAGIC_TAIL / 256)
  have b4 := pool_store_buffer p3 (p.buffer_addr + 32 * k + 32 - MEM_MAGIC_SIZE + 1)
    (MEM_MAGIC_TAIL / 256) (by rw [s3.1, s2.1, s1.1]; unfold MEM_MAGIC_SIZE; omega)
  generalize pool_store p3 (p.buffer_addr + 32 * k + 32 - MEM_MAGIC_SIZE + 1)
    (MEM_MAGIC_TAIL / 256) = p4 at s4 b4 ⊢
  obtain ⟨s11, s12, s13, s14, s15, s16, -⟩ := s1
  obtain ⟨s21, s22, s23, s24, s25, s26, -⟩ := s2
  obtain ⟨s31, s32, s33, s34, s35, s36, -⟩ := s3
  obtain ⟨s41, s42, s43, s44, s45, s46, -⟩ := s4
  refine ⟨?_, by rw [s41, s31, s21, s11], by rw [s42, s32, s22, s12],
    by rw [s43, s33, s23, s13], by rw [s44, s34, s24, s14], by rw [s45, s35, s25, s15],
    by rw [s46, s36, s26, s16]⟩
  rw [b4, b3, b2, b1, s31, s21, s11]
  have e1 : p.buffer_addr + 32 * k - p.buffer_addr = 32 * k := by omega
  have e2 : p.buffer_addr + 32 * k + 1 - p.buffer_addr = 32 * k + 1 := by omega
  have e3 : p.buffer_addr + 32 * k + 32 - MEM_MAGIC_SIZE - p.buffer_addr = 32 * k + 30 := by
    unfold MEM_MAGIC_SIZE; omega
  have e4 : p.buffer_addr + 32 * k + 32 - MEM_MAGIC_SIZE + 1 - p.buffer_addr = 32 * k + 31 := by
    unfold MEM_MAGIC_SIZE; omega
  rw [e1, e2, e3, e4]
  rfl

theorem pool_ext (p q : AegisMemPool) (h1 : p.buffer_addr = q.buffer_addr)
    (h2 : p.buffer = q.buffer) (h3 : p.meta = q.meta) (h4 : p.regions = q.regions)
    (h5 : p.is_initialized = q.is_initialized) (h6 : p.peak_usage = q.peak_usage)
    (h7 : p.trace = q.trace) : p = q := by
  cases p
  cases q
  simp only at h1 h2 h3 h4 h5 h6 h7
  subst h1 h2 h3 h4 h5 h6 h7
  rfl

theorem set_set_same {α : Type} (l : List α) (i : Nat) (a b : α) :
    (l.set i a).set i b = l.set i b := by
  induction l generalizing i with
  | nil => rfl
  | cons x xs ih =>
    cases i with
    | zero => rfl
    | succ j => simp only [List.set_cons_succ, ih]

theorem ite_peak (c : Prop) [Decidable c] (p : AegisMemPool) (x : Nat) :
    (if c then { p with peak_usage := x } else p) =
      { p with peak_usage := if c then x else p.peak_usage } := by
  split <;> rfl

theorem alloc_take_small (q : AegisMemPool) (k : Nat) (file : Option String) (line : Nat)
    (hl : PoolLayout q) (hk : k < MEM_POOL_SMALL_COUNT) :
    ∃ pk0 pk,
      alloc_take q 0 k file line =
        (q.buffer_addr + 32 * k + 2,
          { q with
            buffer :=
              (((q.buffer.set (32 * k) 173).set (32 * k + 1) 222).set (32 * k + 30) 239).set
                (32 * k + 31) 190
            meta :=
              q.meta.set k
                { is_used := 1, block_type := 0, alloc_file := file, alloc_line := line }
            regions :=
              q.regions.set 0
                { pool_region q 0 with
                  used_count := ((pool_region q 0).used_count + 1) % 256
                  peak_usage := pk0 }
            peak_usage := pk }) := by
  obtain ⟨f1, f2, f3⟩ := find_small_block q k hl hk
  have hbs : (pool_region q 0).block_size = 32 := hl.2.2.2.2.1.2.1
  have hg := magic_buffer
    { q with
      meta :=
        q.meta.set k { is_used := TRUE, block_type := 0, alloc_file := file, alloc_line := line } }
    k
  unfold alloc_take
  dsimp only
  rw [f3]
  have hba : block_address
      { q with
        meta :=
          q.meta.set k
            { is_used := TRUE, block_type := 0, alloc_file := file, alloc_line := line } } 0 k =
      q.buffer_addr + 32 * k := f2
  have hbs2 : (pool_region
      { q with
        meta :=
          q.meta.set k
            { is_used := TRUE, block_type := 0, alloc_file := file, alloc_line := line } }
      0).block_size = 32 := hbs
  rw [hba, hbs2]
  have hg_eq : write_magic_numbers
      { q with
        meta :=
          q.meta.set k
            { is_used := TRUE, block_type := 0, alloc_file := file, alloc_line := line } }
      (q.buffer_addr + 32 * k) 32 =
      { q with
        buffer :=
          (((q.buffer.set (32 * k) 173).set (32 * k + 1) 222).set (32 * k + 30) 239).set
            (32 * k + 31) 190
        meta :=
          q.meta.set k
            { is_used := TRUE, block_type := 0, alloc_file := file, alloc_line := line } } :=
    pool_ext _ _ hg.2.1 hg.1 hg.2.2.1 hg.2.2.2.1 hg.2.2.2.2.1 hg.2.2.2.2.2.1 hg.2.2.2.2.2.2
  rw [hg_eq, ite_peak]
  exact ⟨_, _, rfl⟩

theorem alloc_small (p : AegisMemPool) (k size : Nat) (file : Option String) (line : Nat)
    (hl : PoolLayout p) (hk : (pool_region p 0).free_list_head = k)
    (hk16 : k < MEM_POOL_SMALL_COUNT) (h1 : 1 ≤ size) (h28 : size ≤ 28) :
    ∃ pk0 pk nxt t,
      aegis_mem_pool_alloc p size file line =
        (p.buffer_addr + 32 * k + 2,
          { p with
            buffer :=
              (((p.buffer.set (32 * k) 173).set (32 * k + 1) 222).set (32 * k + 30) 239).set
                (32 * k + 31) 190
            meta :=
              p.meta.set k
                { is_used := 1, block_type := 0, alloc_file := file, alloc_line := line }
            regions :=
              p.regions.set 0
                { pool_region p 0 with
                  used_count := ((pool_region p 0).used_count + 1) % 256
                  peak_usage := pk0
                  free_list_head := nxt }
            peak_usage := pk
            trace := t }) := by
  have hbs : (pool_region p 0).block_size = 32 := hl.2.2.2.2.1.2.1
  have hlen : 0 < p.regions.length := by rw [hl.2.2.2.1]; decide
  have hk255 : k ≠ FREE_LIST_END := by
    unfold FREE_LIST_END
    unfold MEM_POOL_SMALL_COUNT at hk16
    omega
  have hfl : alloc_from_free_list p 0 =
      (k,
        pool_set_region p 0
          { pool_region p 0 with free_list_head := pool_load p (block_address p 0 k) }) := by
    unfold alloc_from_free_list
    dsimp only
    rw [hk, if_pos hk255]
  have hl1 : PoolLayout
      (pool_set_region p 0
        { pool_region p 0 with free_list_head := pool_load p (block_address p 0 k) }) := by
    refine layout_transfer p _ hl rfl rfl rfl (List.length_set _ _ _) rfl
      (fun r hr => pool_region_set_other p 0 r _ (Ne.symm hr)) ?_ ?_ ?_ ?_
    · rw [pool_region_set_same p 0 _ hlen]
    · rw [pool_region_set_same p 0 _ hlen]
    · rw [pool_region_set_same p 0 _ hlen]
    · rw [pool_region_set_same p 0 _ hlen]
      exact hl.2.2.2.2.1.2.2.2
  obtain ⟨pk0, pk, htake⟩ := alloc_take_small _ k file line hl1 hk16
  rw [pool_region_set_same p 0 _ hlen] at htake
  have hsz : size ≠ 0 := by omega
  unfold aegis_mem_pool_alloc
  rw [if_neg hl.1, if_neg hsz]
  have hregs : alloc_regions p size file line [0, 1, 2, 3] =
      alloc_take
        (pool_set_region p 0
          { pool_region p 0 with free_list_head := pool_load p (block_address p 0 k) })
        0 k file line := by
    rw [alloc_regions, hbs, if_pos (by unfold MEM_MAGIC_SIZE; omega), hfl, if_pos hk255]
  dsimp only
  rw [hregs, htake]
  dsimp only
  rw [if_pos (by
    show (pool_set_region p 0 _).buffer_addr + 32 * k + 2 ≠ 0
    omega)]
  refine ⟨pk0, pk, pool_load p (block_address p 0 k),
    aegis_trace_log_event p.trace TRACE_EVENT_MEM_ALLOC "MEM-ALLOC"
      ((p.buffer_addr + 32 * k + 2) % 4294967296) size, ?_⟩
  refine Prod.ext rfl ?_
  apply pool_ext
  · rfl
  · rfl
  · rfl
  · show (p.regions.set 0 _).set 0 _ = _
    rw [set_set_same]
  · rfl
  · rfl
  · rfl

theorem pool_store_eq (p : AegisMemPool) (a v : Nat) (h : p.buffer_addr ≤ a) :
    pool_store p a v = { p with buffer := p.buffer.set (a - p.buffer_addr) v } := by
  unfold pool_store
  rw [if_pos h]

theorem free_live (p : AegisMemPool) (k : Nat) (h : BlockLive p k) :
    ∃ t,
      aegis_mem_pool_free p (p.buffer_addr + 32 * k + 2) =
        (ERR_OK,
          { p with
            buffer := p.buffer.set (32 * k) (pool_region p 0).free_list_head
            meta :=
              p.meta.set k
                { p.meta.getD k zero_meta with is_used := 0, alloc_file := none, alloc_line := 0 }
            regions :=
              p.regions.set 0
                { pool_region p 0 with
                  free_list_head := k
                  used_count := ((pool_region p 0).used_count + 255) % 256 }
            trace := t }) := by
  have hm := live_magic p k h
  obtain ⟨hl, hk, hused, -⟩ := h
  obtain ⟨f1, f2, f3⟩ := find_small_block p k hl hk
  have hbs : (pool_region p 0).block_size = 32 := hl.2.2.2.2.1.2.1
  have hlen : 0 < p.regions.length := by rw [hl.2.2.2.1]; decide
  have hini := hl.1
  have hsub : p.buffer_addr + 32 * k + 2 - MEM_MAGIC_SIZE = p.buffer_addr + 32 * k := by
    unfold MEM_MAGIC_SIZE; omega
  have hfl : ∀ q : AegisMemPool, q.buffer_addr = p.buffer_addr → q.regions = p.regions →
      free_to_list q 0 k =
        { q with
          buffer := q.buffer.set (32 * k) (pool_region p 0).free_list_head
          regions := p.regions.set 0 { pool_region p 0 with free_list_head := k } } := by
    intro q hq1 hq2
    have hr : pool_region q 0 = pool_region p 0 := by unfold pool_region; rw [hq2]
    have hb : block_address q 0 k = q.buffer_addr + 32 * k := by
      unfold block_address
      rw [hr, hq1]
      exact f2
    unfold free_to_list
    dsimp only
    rw [hb, hr, pool_store_eq _ _ _ (by omega),
      (by omega : q.buffer_addr + 32 * k - q.buffer_addr = 32 * k)]
    apply pool_ext
    · rfl
    · rfl
    · rfl
    · show q.regions.set 0 _ = _
      rw [hq2]
      rfl
    · rfl
    · rfl
    · rfl
  refine ⟨aegis_trace_log_event p.trace TRACE_EVENT_MEM_FREE "MEM-FREE"
    ((p.buffer_addr + 32 * k + 2) % 4294967296) 0, ?_⟩
  unfold aegis_mem_pool_free
  rw [if_neg (by omega), if_neg hini, if_neg (by unfold MEM_MAGIC_SIZE; omega)]
  dsimp only
  rw [f1]
  simp only [f2, f3, hbs]
  rw [if_neg (not_not.mpr (by unfold MEM_MAGIC_SIZE; omega)), if_pos hused, hsub, hm,
    if_neg (by decide),
    hfl
      { p with
        meta :=
          p.meta.set k
            { p.meta.getD k zero_meta with
              is_used := FALSE, alloc_file := none, alloc_line := 0 } }
      rfl rfl]
  refine Prod.ext rfl ?_
  apply pool_ext
  · rfl
  · rfl
  · rfl
  · show (p.regions.set 0 _).set 0 _ = _
    rw [set_set_same]
    simp only [pool_region, List.getD_eq_getElem?_getD, List.getElem?_set_self hlen,
      Option.getD_some]
    simp only [pool_region, List.getD_eq_getElem?_getD] at hbs
    rw [hbs]
  · rfl
  · rfl
  · rfl

theorem fold_store_frame (f : AegisMemPool → Nat → AegisMemPool)
    (hf : ∀ p i,
      (f p i).buffer_addr = p.buffer_addr ∧ (f p i).meta = p.meta ∧
        (f p i).regions = p.regions ∧ (f p i).is_initialized = p.is_initialized ∧
        (f p i).peak_usage = p.peak_usage ∧ (f p i).trace = p.trace ∧
        (f p i).buffer.length = p.buffer.length)
    (l : List Nat) (p : AegisMemPool) :
    (l.foldl f p).buffer_addr = p.buffer_addr ∧ (l.foldl f p).meta = p.meta ∧
      (l.foldl f p).regions = p.regions ∧ (l.foldl f p).is_initialized = p.is_initialized ∧
      (l.foldl f p).peak_usage = p.peak_usage ∧ (l.foldl f p).trace = p.trace ∧
      (l.foldl f p).buffer.length = p.buffer.length := by
  induction l generalizing p with
  | nil => exact ⟨rfl, rfl, rfl, rfl, rfl, rfl, rfl⟩
  | cons i l ih =>
    obtain ⟨a1, a2, a3, a4, a5, a6, a7⟩ := ih (f p i)
    obtain ⟨b1, b2, b3, b4, b5, b6, b7⟩ := hf p i
    rw [List.foldl_cons]
    exact ⟨a1.trans b1, a2.trans b2, a3.trans b3, a4.trans b4, a5.trans b5, a6.trans b6,
      a7.trans b7⟩

theorem init_free_list_frame (p : AegisMemPool) (r : Nat) :
    (init_free_list p r).buffer_addr = p.buffer_addr ∧ (init_free_list p r).meta = p.meta ∧
      (init_free_list p r).regions =
        p.regions.set r { pool_region p r with free_list_head := 0 } ∧
      (init_free_list p r).is_initialized = p.is_initialized ∧
      (init_free_list p r).peak_usage = p.peak_usage ∧ (init_free_list p r).trace = p.trace ∧
      (init_free_list p r).buffer.length = p.buffer.length := by
  have h := fold_store_frame
    (fun (q : AegisMemPool) (i : Nat) =>
      if (i : Int) < ((pool_region q r).block_count : Int) - 1 then
        pool_store q (block_address q r i) ((i + 1) % 256)
      else pool_store q (block_address q r i) FREE_LIST_END)
    (by
      intro q i
      dsimp only
      split
      · exact pool_store_frame _ _ _
      · exact pool_store_frame _ _ _)
    (List.range (pool_region p r).block_count) p
  unfold init_free_list
  dsimp only
  generalize (List.range (pool_region p r).block_count).foldl _ p = linked at h ⊢
  obtain ⟨h1, h2, h3, h4, h5, h6, h7⟩ := h
  have hr : pool_region linked r = pool_region p r := by
    unfold pool_region
    rw [h3]
  rw [hr]
  refine ⟨h1, h2, ?_, h4, h5, h6, h7⟩
  show linked.regions.set r _ = _
  rw [h3]

theorem mem_pool_init_spec (storage : AegisMemPool) (trace : Option AegisTraceLog) :
    (aegis_mem_pool_init storage trace).1 = ERR_OK ∧
      PoolLayout (aegis_mem_pool_init storage trace).2 ∧
      (aegis_mem_pool_init storage trace).2.buffer_addr = storage.buffer_addr ∧
      (aegis_mem_pool_init storage trace).2.trace = trace ∧
      (aegis_mem_pool_init storage trace).2.peak_usage = 0 ∧
      (∀ i, i < MEM_POOL_TOTAL_BLOCKS →
        (aegis_mem_pool_init storage trace).2.meta.getD i zero_meta = zero_meta) ∧
      ∀ r, r < 4 →
        (pool_region (aegis_mem_pool_init storage trace).2 r).free_list_head = 0 ∧
          (pool_region (aegis_mem_pool_init storage trace).2 r).used_count = 0 ∧
          (pool_region (aegis_mem_pool_init storage trace).2 r).peak_usage = 0 := by
  have hd : (mem_pool_described storage trace).regions =
      [{ start_addr := storage.buffer_addr, block_size := 32, block_count := 16, used_count := 0,
          peak_usage := 0, free_list_head := 0 },
        { start_addr := storage.buffer_addr + 512, block_size := 64, block_count := 8,
          used_count := 0, peak_usage := 0, free_list_head := 0 },
        { start_addr := storage.buffer_addr + 1024, block_size := 128, block_count := 4,
          used_count := 0, peak_usage := 0, free_list_head := 0 },
        { start_addr := storage.buffer_addr + 1536, block_size := 256, block_count := 2,
          used_count := 0, peak_usage := 0, free_list_head := 0 }] := rfl
  have hb : (mem_pool_described storage trace).buffer.length = MEM_POOL_TOTAL_SIZE :=
    List.length_replicate _ _
  have hm : (mem_pool_described storage trace).meta = List.replicate MEM_POOL_TOTAL_BLOCKS zero_meta :=
    rfl
  have ha : (mem_pool_described storage trace).buffer_addr = storage.buffer_addr := rfl
  have ht : (mem_pool_described storage trace).trace = trace := rfl
  unfold aegis_mem_pool_init
  dsimp only
  simp only [List.foldl_cons, List.foldl_nil]
  generalize mem_pool_described storage trace = c0 at hd hb hm ha ht ⊢
  obtain ⟨a1, a2, a3, -, -, a6, a7⟩ := init_free_list_frame c0 0
  generalize init_free_list c0 0 = c1 at a1 a2 a3 a6 a7 ⊢
  obtain ⟨b1, b2, b3, -, -, b6, b7⟩ := init_free_list_frame c1 1
  generalize init_free_list c1 1 = c2 at b1 b2 b3 b6 b7 ⊢
  obtain ⟨d1, d2, d3, -, -, d6, d7⟩ := init_free_list_frame c2 2
  generalize init_free_list c2 2 = c3 at d1 d2 d3 d6 d7 ⊢
  obtain ⟨e1, e2, e3, -, -, e6, e7⟩ := init_free_list_frame c3 3
  generalize init_free_list c3 3 = c4 at e1 e2 e3 e6 e7 ⊢
  have hregs : c4.regions =
      [{ start_addr := storage.buffer_addr, block_size := 32, block_count := 16, used_count := 0,
          peak_usage := 0, free_list_head := 0 },
        { start_addr := storage.buffer_addr + 512, block_size := 64, block_count := 8,
          used_count := 0, peak_usage := 0, free_list_head := 0 },
        { start_addr := storage.buffer_addr + 1024, block_size := 128, block_count := 4,
          used_count := 0, peak_usage := 0, free_list_head := 0 },
        { start_addr := storage.buffer_addr + 1536, block_size := 256, block_count := 2,
          used_count := 0, peak_usage := 0, free_list_head := 0 }] := by
    rw [e3]
    unfold pool_region
    rw [d3]
    unfold pool_region
    rw [b3]
    unfold pool_region
    rw [a3]
    unfold pool_region
    rw [hd]
    rfl
  refine ⟨trivial, ?_, ?_, ?_, trivial, ?_, ?_⟩
  · unfold PoolLayout pool_region
    dsimp only
    rw [hregs, e7, d7, b7, a7, hb, e2, d2, b2, a2, hm, e1, d1, b1, a1, ha]
    refine ⟨by decide, rfl, List.length_replicate _ _, rfl, ⟨rfl, rfl, rfl, Nat.zero_le _⟩,
      ⟨rfl, rfl, rfl, Nat.zero_le _⟩, ⟨rfl, rfl, rfl, Nat.zero_le _⟩, rfl, rfl, rfl,
      Nat.zero_le _⟩
  · show c4.buffer_addr = _
    rw [e1, d1, b1, a1, ha]
  · show c4.trace = _
    rw [e6, d6, b6, a6, ht]
  · intro i hi
    show c4.meta.getD i zero_meta = zero_meta
    rw [e2, d2, b2, a2, hm, List.getD_eq_getElem?_getD, List.getElem?_replicate, if_pos hi]
    rfl
  · intro r hr
    unfold pool_region
    dsimp only
    rw [hregs]
    have hcases : r = 0 ∨ r = 1 ∨ r = 2 ∨ r = 3 := by omega
    rcases hcases with h | h | h | h <;> subst h <;> exact ⟨rfl, rfl, rfl⟩

theorem meta_set_getD (m : List AegisMemPoolBlockMeta) (k : Nat) (v : AegisMemPoolBlockMeta)
    (h : k < m.length) : (m.set k v).getD k zero_meta = v := by
  rw [List.getD_eq_getElem?_getD, List.getElem?_set_self h]
  rfl

theorem alloc_small_live (p : AegisMemPool) (k size : Nat) (file : Option String) (line : Nat)
    (hl : PoolLayout p) (hk : (pool_region p 0).free_list_head = k)
    (hk16 : k < MEM_POOL_SMALL_COUNT)
    (hu : (pool_region p 0).used_count < MEM_POOL_SMALL_COUNT) (h1 : 1 ≤ size)
    (h28 : size ≤ 28) :
    (aegis_mem_pool_alloc p size file line).1 = p.buffer_addr + 32 * k + 2 ∧
      BlockLive (aegis_mem_pool_alloc p size file line).2 k ∧
      (aegis_mem_pool_alloc p size file line).2.buffer_addr = p.buffer_addr ∧
      (pool_region (aegis_mem_pool_alloc p size file line).2 0).used_count =
        (pool_region p 0).used_count + 1 ∧
      ∀ r, r ≠ 0 →
        pool_region (aegis_mem_pool_alloc p size file line).2 r = pool_region p r := by
  obtain ⟨pk0, pk, nxt, t, ha⟩ := alloc_small p k size file line hl hk hk16 h1 h28
  rw [ha]
  have hlen : 0 < p.regions.length := by rw [hl.2.2.2.1]; decide
  have hbuf := hl.2.1
  have hmeta := hl.2.2.1
  unfold MEM_POOL_SMALL_COUNT at hk16 hu
  unfold MEM_POOL_TOTAL_SIZE MEM_POOL_SMALL_SIZE MEM_POOL_SMALL_COUNT MEM_POOL_MEDIUM_SIZE
    MEM_POOL_MEDIUM_COUNT MEM_POOL_LARGE_SIZE MEM_POOL_LARGE_COUNT MEM_POOL_XLARGE_SIZE
    MEM_POOL_XLARGE_COUNT at hbuf
  unfold MEM_POOL_TOTAL_BLOCKS MEM_POOL_SMALL_COUNT MEM_POOL_MEDIUM_COUNT MEM_POOL_LARGE_COUNT
    MEM_POOL_XLARGE_COUNT at hmeta
  generalize hX : ({ pool_region p 0 with
    used_count := ((pool_region p 0).used_count + 1) % 256
    peak_usage := pk0
    free_list_head := nxt } : AegisMemPoolRegion) = X
  have hX1 : X.start_addr = (pool_region p 0).start_addr := by rw [← hX]
  have hX2 : X.block_size = (pool_region p 0).block_size := by rw [← hX]
  have hX3 : X.block_count = (pool_region p 0).block_count := by rw [← hX]
  have hX4 : X.used_count = (pool_region p 0).used_count + 1 := by
    rw [← hX]
    show ((pool_region p 0).used_count + 1) % 256 = _
    omega
  have hr0 : ∀ q : AegisMemPool, q.regions = p.regions.set 0 X → pool_region q 0 = X := by
    intro q hq
    unfold pool_region
    rw [hq, List.getD_eq_getElem?_getD, List.getElem?_set_self hlen]
    rfl
  have hrn : ∀ q : AegisMemPool, q.regions = p.regions.set 0 X → ∀ r, r ≠ 0 →
      pool_region q r = pool_region p r := by
    intro q hq r hr
    unfold pool_region
    rw [hq, List.getD_eq_getElem?_getD, List.getD_eq_getElem?_getD,
      List.getElem?_set_ne (Ne.symm hr)]
  refine ⟨rfl, ⟨?_, hk16, ?_, ?_, ?_, ?_, ?_⟩, rfl, ?_, ?_⟩
  · refine layout_transfer p _ hl rfl ?_ ?_ ?_ rfl (hrn _ rfl) ?_ ?_ ?_ ?_
    · simp only [List.length_set]
    · simp only [List.length_set]
    · simp only [List.length_set]
    · rw [hr0 _ rfl, hX1]
    · rw [hr0 _ rfl, hX2]
    · rw [hr0 _ rfl, hX3]
    · rw [hr0 _ rfl, hX4]
      unfold MEM_POOL_SMALL_COUNT
      omega
  · show ((p.meta.set k _).getD k zero_meta).is_used ≠ 0
    rw [meta_set_getD _ _ _ (by omega)]
    exact Nat.succ_ne_zero 0
  · show ((((p.buffer.set (32 * k) 173).set (32 * k + 1) 222).set (32 * k + 30) 239).set
      (32 * k + 31) 190).getD (32 * k) 0 = 173
    rw [set_getD _ _ _ _ (by simp only [List.length_set]; omega), if_neg (by omega),
      set_getD _ _ _ _ (by simp only [List.length_set]; omega), if_neg (by omega),
      set_getD _ _ _ _ (by simp only [List.length_set]; omega), if_neg (by omega),
      set_getD _ _ _ _ (by omega), if_pos rfl]
  · show ((((p.buffer.set (32 * k) 173).set (32 * k + 1) 222).set (32 * k + 30) 239).set
      (32 * k + 31) 190).getD (32 * k + 1) 0 = 222
    rw [set_getD _ _ _ _ (by simp only [List.length_set]; omega), if_neg (by omega),
      set_getD _ _ _ _ (by simp only [List.length_set]; omega), if_neg (by omega),
      set_getD _ _ _ _ (by simp only [List.length_set]; omega), if_pos rfl]
  · show ((((p.buffer.set (32 * k) 173).set (32 * k + 1) 222).set (32 * k + 30) 239).set
      (32 * k + 31) 190).getD (32 * k + 30) 0 = 239
    rw [set_getD _ _ _ _ (by simp only [List.length_set]; omega), if_neg (by omega),
      set_getD _ _ _ _ (by simp only [List.length_set]; omega), if_pos rfl]
  · show ((((p.buffer.set (32 * k) 173).set (32 * k + 1) 222).set (32 * k + 30) 239).set
      (32 * k + 31) 190).getD (32 * k + 31) 0 = 190
    rw [set_getD _ _ _ _ (by simp only [List.length_set]; omega), if_pos rfl]
  · rw [hr0 _ rfl, hX4]
  · exact hrn _ rfl

theorem free_live_spec (p : AegisMemPool) (k : Nat) (h : BlockLive p k)
    (hu : 1 ≤ (pool_region p 0).used_count) :
    (aegis_mem_pool_free p (p.buffer_addr + 32 * k + 2)).1 = ERR_OK ∧
      PoolLayout (aegis_mem_pool_free p (p.buffer_addr + 32 * k + 2)).2 ∧
      (aegis_mem_pool_free p (p.buffer_addr + 32 * k + 2)).2.buffer_addr = p.buffer_addr ∧
      ((aegis_mem_pool_free p (p.buffer_addr + 32 * k + 2)).2.meta.getD k zero_meta).is_used =
        0 ∧
      (pool_region (aegis_mem_pool_free p (p.buffer_addr + 32 * k + 2)).2 0).used_count =
        (pool_region p 0).used_count - 1 ∧
      ∀ r, r ≠ 0 →
        pool_region (aegis_mem_pool_free p (p.buffer_addr + 32 * k + 2)).2 r =
          pool_region p r := by
  obtain ⟨t, hf⟩ := free_live p k h
  rw [hf]
  obtain ⟨hl, hk16, -⟩ := h
  have hlen : 0 < p.regions.length := by rw [hl.2.2.2.1]; decide
  have hmeta := hl.2.2.1
  have hu0 := hl.2.2.2.2.1.2.2.2
  unfold MEM_POOL_SMALL_COUNT at hk16 hu0
  unfold MEM_POOL_TOTAL_BLOCKS MEM_POOL_SMALL_COUNT MEM_POOL_MEDIUM_COUNT MEM_POOL_LARGE_COUNT
    MEM_POOL_XLARGE_COUNT at hmeta
  generalize hX : ({ pool_region p 0 with
    free_list_head := k
    used_count := ((pool_region p 0).used_count + 255) % 256 } : AegisMemPoolRegion) = X
  have hX1 : X.start_addr = (pool_region p 0).start_addr := by rw [← hX]
  have hX2 : X.block_size = (pool_region p 0).block_size := by rw [← hX]
  have hX3 : X.block_count = (pool_region p 0).block_count := by rw [← hX]
  have hX4 : X.used_count = (pool_region p 0).used_count - 1 := by
    rw [← hX]
    show ((pool_region p 0).used_count + 255) % 256 = _
    omega
  have hr0 : ∀ q : AegisMemPool, q.regions = p.regions.set 0 X → pool_region q 0 = X := by
    intro q hq
    unfold pool_region
    rw [hq, List.getD_eq_getElem?_getD, List.getElem?_set_self hlen]
    rfl
  have hrn : ∀ q : AegisMemPool, q.regions = p.regions.set 0 X → ∀ r, r ≠ 0 →
      pool_region q r = pool_region p r := by
    intro q hq r hr
    unfold pool_region
    rw [hq, List.getD_eq_getElem?_getD, List.getD_eq_getElem?_getD,
      List.getElem?_set_ne (Ne.symm hr)]
  refine ⟨rfl, ?_, rfl, ?_, ?_, ?_⟩
  · refine layout_transfer p _ hl rfl ?_ ?_ ?_ rfl (hrn _ rfl) ?_ ?_ ?_ ?_
    · simp only [List.length_set]
    · simp only [List.length_set]
    · simp only [List.length_set]
    · rw [hr0 _ rfl, hX1]
    · rw [hr0 _ rfl, hX2]
    · rw [hr0 _ rfl, hX3]
    · rw [hr0 _ rfl, hX4]
      unfold MEM_POOL_SMALL_COUNT
      omega
  · show ((p.meta.set k _).getD k zero_meta).is_used = 0
    rw [meta_set_getD _ _ _ (by omega)]
  · rw [hr0 _ rfl, hX4]
  · exact hrn _ rfl

/-- Every publication observed during a process loop was followed by the
enqueue or the drop of its copy. -/
theorem process_loop_balanced (pub : PublishFn) (hp : PubSpec pub) (max : Nat) :
    ∀ fuel b ev processed n b' o, BusWF b → b.is_initialized ≠ 0 →
      process_loop pub max fuel b ev processed = some (n, b', o) →
      (obs_published o).length = (obs_enqueued o).length + (obs_dropped o).length := by
  intro fuel
  induction fuel with
  | zero =>
    intro b ev processed n b' o _ _ h
    simp [process_loop] at h
  | succ fuel ih =>
    intro b ev processed n b' o hwf hi h
    simp only [process_loop] at h
    by_cases hc : processed < max ∨ max = 0
    · rw [if_pos hc] at h
      cases hpend : pending_events b with
      | nil =>
        have g1 := hwf.1
        rw [hpend] at g1
        rw [dequeue_none b ev g1] at h
        simp only at h
        rw [if_pos (by decide)] at h
        simp only [Option.some.injEq, Prod.mk.injEq] at h
        obtain ⟨-, -, rfl⟩ := h
        rfl
      | cons e rest =>
        have g := hwf
        obtain ⟨g1, g2, g3, g4, g5, g6, g7, g8, g9, g10⟩ := g
        rw [hpend] at g1
        obtain ⟨q1, q2⟩ := dequeue_some b e ev rest g1
        obtain ⟨bD, hbD⟩ : ∃ bD : AegisDomainEventBus, bD =
            { b with
              async_queue := (aegis_ring_buffer_read b.async_queue (some (event_bytes ev))
                sizeof_AegisDomainEvent).2.1 } := ⟨_, rfl⟩
        rw [← hbD] at q1
        have hqD : QueueWF bD.async_queue rest := by rw [hbD]; exact q2
        have hpD : pending_events bD = rest := queueWF_pending bD rest hqD
        have hwfD : BusWF bD :=
          ⟨by rw [hpD]; exact hqD, by rw [hbD]; exact g2, by rw [hbD]; exact g3,
            by rw [hbD]; exact g4, by rw [hbD]; exact g5, by rw [hbD]; exact g6,
            by rw [hbD]; exact g7, by rw [hbD]; exact g8, by rw [hbD]; exact g9,
            by rw [hbD]; exact g10⟩
        have hiD : bD.is_initialized ≠ 0 := by rw [hbD]; exact hi
        have hfix : bD = { b with async_queue := bD.async_queue } := by rw [hbD]
        rw [q1] at h
        simp only at h
        rw [if_neg (by simp)] at h
        cases hdis : dispatch_to_subscribers pub bD e FALSE with
        | none => simp [hdis] at h
        | some r =>
          obtain ⟨k, b1, o1⟩ := r
          simp only [hdis] at h
          obtain ⟨e1, c1⟩ := dispatch_spec pub hp e FALSE bD b1 k o1 hwfD hiD hdis
          have e2 := Eff.dequeued b bD b1 e rest o1 k hpend hpD hfix e1
          cases hrest : process_loop pub max fuel
              { b1 with
                async_handled := (b1.async_handled + k) % 4294967296
                total_processed := (b1.total_processed + 1) % 4294967296 }
              e ((processed + 1) % 256) with
          | none => simp [hrest] at h
          | some r3 =>
            obtain ⟨n3, b3, o3⟩ := r3
            simp only [hrest, Option.some.injEq, Prod.mk.injEq] at h
            obtain ⟨-, -, rfl⟩ := h
            have e3 := ih _ _ _ n3 b3 o3 e2.wf (by rw [e2.init]; exact hi) hrest
            have c2 := c1.2
            show (obs_published ([BusObs.dequeued e] ++ (o1 ++ o3))).length =
              (obs_enqueued ([BusObs.dequeued e] ++ (o1 ++ o3))).length +
                (obs_dropped ([BusObs.dequeued e] ++ (o1 ++ o3))).length
            simp only [obs_published_append, obs_enqueued_append, obs_dropped_append,
              List.length_append]
            simp only [obs_published, obs_enqueued, obs_dropped, List.length_nil]
            omega
    · rw [if_neg hc] at h
      simp only [Option.some.injEq, Prod.mk.injEq] at h
      obtain ⟨-, -, rfl⟩ := h
      rfl

theorem bus_run_balanced (fuel : Nat) (cs : List BusCall) :
    ∀ b rs b' o, BusWF b → b.is_initialized ≠ 0 → bus_run fuel b cs = some (rs, b', o) →
      (obs_published o).length = (obs_enqueued o).length + (obs_dropped o).length := by
  induction cs with
  | nil =>
    intro b rs b' o _ _ h
    simp only [bus_run, Option.some.injEq, Prod.mk.injEq] at h
    obtain ⟨-, -, rfl⟩ := h
    rfl
  | cons c cs ih =>
    intro b rs b' o hwf hi h
    cases c with
    | publish e =>
      simp only [bus_run] at h
      cases hpub : aegis_domain_event_publish fuel b e with
      | none => simp [hpub] at h
      | some r =>
        obtain ⟨c1, b1, o1⟩ := r
        obtain ⟨-, e1, k1⟩ := publish_spec fuel b e _ hwf hi hpub
        cases hrest : bus_run fuel b1 cs with
        | none => simp [hpub, hrest] at h
        | some r2 =>
          obtain ⟨rs2, b2, o2⟩ := r2
          simp only [hpub, hrest, Option.some.injEq, Prod.mk.injEq] at h
          obtain ⟨-, -, rfl⟩ := h
          have k2 := ih b1 rs2 b2 o2 e1.wf (by rw [e1.init]; exact hi) hrest
          have k3 := k1.2
          simp only at k3
          simp only [obs_published_append, obs_enqueued_append, obs_dropped_append,
            List.length_append]
          omega
    | process m =>
      simp only [bus_run] at h
      cases hpr : aegis_domain_event_process fuel b m with
      | none => simp [hpr] at h
      | some r =>
        obtain ⟨n1, b1, o1⟩ := r
        have e1 := process_spec fuel b b1 m n1 o1 hwf hpr
        have k1 : (obs_published o1).length =
            (obs_enqueued o1).length + (obs_dropped o1).length := by
          unfold aegis_domain_event_process at hpr
          rw [if_neg hi] at hpr
          exact process_loop_balanced _ (publish_spec fuel) m fuel b zero_event 0 n1 b1 o1 hwf hi
            hpr
        cases hrest : bus_run fuel b1 cs with
        | none => simp [hpr, hrest] at h
        | some r2 =>
          obtain ⟨rs2, b2, o2⟩ := r2
          simp only [hpr, hrest, Option.some.injEq, Prod.mk.injEq] at h
          obtain ⟨-, -, rfl⟩ := h
          have k2 := ih b1 rs2 b2 o2 e1.wf (by rw [e1.init]; exact hi) hrest
          simp only [obs_published_append, obs_enqueued_append, obs_dropped_append,
            List.length_append]
          omega

/-! ## The priority byte is never read -/

theorem strip_getD (b : AegisDomainEventBus) :
    (bus_strip b).subscriptions.getD [] = (b.subscriptions.getD []).map strip_priority := by
  unfold bus_strip
  cases b.subscriptions with
  | none => rfl
  | some t => rfl

theorem strip_getElem? (b : AegisDomainEventBus) (i : Nat) :
    ((bus_strip b).subscriptions.getD [])[i]? =
      ((b.subscriptions.getD [])[i]?).map strip_priority := by
  rw [strip_getD, List.getElem?_map]

theorem run_handler_strip (pub : PublishFn)
    (hs : ∀ b e, pub (bus_strip b) e = (pub b e).map ret_strip) (es : List AegisDomainEvent) :
    ∀ b, run_handler pub (bus_strip b) es =
      (run_handler pub b es).map fun r => (bus_strip r.1, r.2) := by
  induction es with
  | nil => exact fun b => rfl
  | cons e es ih =>
    intro b
    simp only [run_handler]
    rw [hs b e]
    cases pub b e with
    | none => rfl
    | some r =>
      obtain ⟨c, b1, o1⟩ := r
      simp only [Option.map_some', ret_strip]
      rw [ih b1]
      cases run_handler pub b1 es with
      | none => rfl
      | some r2 => rfl

theorem invoke_strip (pub : PublishFn)
    (hs : ∀ b e, pub (bus_strip b) e = (pub b e).map ret_strip) (b : AegisDomainEventBus)
    (i p : Nat) (sub : AegisEventSubscription) (e : AegisDomainEvent) :
    invoke_handler_with_recursion pub (bus_strip b) i p (strip_priority sub) e =
      (invoke_handler_with_recursion pub b i p sub e).map ret_strip := by
  unfold invoke_handler_with_recursion
  have hh : (strip_priority sub).handler = sub.handler := rfl
  have hc : (strip_priority sub).ctx = sub.ctx := rfl
  rw [hh, hc]
  cases sub.handler with
  | none => rfl
  | some handler =>
    simp only
    have hd : (bus_strip b).recursion_depth = b.recursion_depth := rfl
    rw [hd]
    by_cases hdepth : b.recursion_depth ≥ MAX_EVENT_RECURSION_DEPTH
    · rw [if_pos hdepth, if_pos hdepth]
      rfl
    · rw [if_neg hdepth, if_neg hdepth]
      have h1 := run_handler_strip pub hs (handler e sub.ctx).publishes
        { b with recursion_depth := (b.recursion_depth + 1) % 256 }
      have h2 : bus_strip { b with recursion_depth := (b.recursion_depth + 1) % 256 } =
          { bus_strip b with recursion_depth := (b.recursion_depth + 1) % 256 } := rfl
      rw [h2] at h1
      rw [h1]
      cases run_handler pub { b with recursion_depth := (b.recursion_depth + 1) % 256 }
          (handler e sub.ctx).publishes with
      | none => rfl
      | some r2 => rfl

theorem dispatch_loop_strip (pub : PublishFn)
    (hs : ∀ b e, pub (bus_strip b) e = (pub b e).map ret_strip) (e : AegisDomainEvent)
    (p : Nat) (idxs : List Nat) :
    ∀ b n, dispatch_loop pub e p idxs (bus_strip b) n =
      (dispatch_loop pub e p idxs b n).map ret_strip := by
  induction idxs with
  | nil => exact fun b n => rfl
  | cons i rest ih =>
    intro b n
    simp only [dispatch_loop]
    rw [strip_getElem?]
    cases (b.subscriptions.getD [])[i]? with
    | none => exact ih b n
    | some sub =>
      simp only [Option.map_some']
      have h1 : (strip_priority sub).is_sync = sub.is_sync := rfl
      have h2 : (strip_priority sub).event_type = sub.event_type := rfl
      rw [h1, h2]
      by_cases c1 : sub.is_sync ≠ p
      · rw [if_pos c1, if_pos c1]
        exact ih b n
      · rw [if_neg c1, if_neg c1]
        by_cases c2 : sub.event_type ≠ 0 ∧ sub.event_type ≠ e.type
        · rw [if_pos c2, if_pos c2]
          exact ih b n
        · rw [if_neg c2, if_neg c2, invoke_strip pub hs b i p sub e]
          cases invoke_handler_with_recursion pub b i p sub e with
          | none => rfl
          | some r =>
            obtain ⟨res, b1, o1⟩ := r
            simp only [Option.map_some', ret_strip]
            have h3 : (if res = AegisEventHandlerResult.EVENT_HANDLER_ERROR then
                  bus_trace_log (bus_strip b1) TRACE_EVENT_APP_ERROR "REQ-EVENT-009" e.type i
                else bus_strip b1) =
                bus_strip (if res = AegisEventHandlerResult.EVENT_HANDLER_ERROR then
                  bus_trace_log b1 TRACE_EVENT_APP_ERROR "REQ-EVENT-009" e.type i
                else b1) := by
              split <;> rfl
            rw [h3, ih]
            cases dispatch_loop pub e p rest
                (if res = AegisEventHandlerResult.EVENT_HANDLER_ERROR then
                  bus_trace_log b1 TRACE_EVENT_APP_ERROR "REQ-EVENT-009" e.type i
                else b1)
                (if res = AegisEventHandlerResult.EVENT_HANDLER_OK then (n + 1) % 256 else n) with
            | none => rfl
            | some r3 => rfl

theorem dispatch_strip (pub : PublishFn)
    (hs : ∀ b e, pub (bus_strip b) e = (pub b e).map ret_strip) (b : AegisDomainEventBus)
    (e : AegisDomainEvent) (p : Nat) :
    dispatch_to_subscribers pub (bus_strip b) e p =
      (dispatch_to_subscribers pub b e p).map ret_strip := by
  unfold dispatch_to_subscribers
  exact dispatch_loop_strip pub hs e p _ b 0

theorem publish_enter_strip (b : AegisDomainEventBus) (e : AegisDomainEvent) :
    publish_enter (bus_strip b) e = ((publish_enter b e).1, bus_strip (publish_enter b e).2) := by
  unfold publish_enter
  simp only
  have ht : (bus_strip b).trace = b.trace := rfl
  have hn : (bus_strip b).next_event_id = b.next_event_id := rfl
  rw [hn]
  by_cases h0 : (event_memcpy e).timestamp = 0
  · simp only [h0, if_true, ht]
    cases b.trace with
    | none => rfl
    | some log => rfl
  · simp only [h0, if_false]
    rfl

theorem publish_exit_strip (b : AegisDomainEventBus) (ec : AegisDomainEvent) (n : Nat) :
    publish_exit (bus_strip b) ec n =
      (bus_strip (publish_exit b ec n).1, (publish_exit b ec n).2) := by
  unfold publish_exit event_queue_enqueue
  have hq : (bus_strip b).async_queue = b.async_queue := rfl
  simp only [hq]
  by_cases c1 : aegis_ring_buffer_get_free b.async_queue < sizeof_AegisDomainEvent
  · simp only [if_pos c1]
    rfl
  · simp only [if_neg c1]
    by_cases c2 : (aegis_ring_buffer_write b.async_queue (some (event_bytes ec))
        sizeof_AegisDomainEvent).1 ≠ sizeof_AegisDomainEvent
    · simp only [if_pos c2]
      rfl
    · simp only [if_neg c2]
      rfl

theorem publish_body_strip (pub : PublishFn)
    (hs : ∀ b e, pub (bus_strip b) e = (pub b e).map ret_strip) (b : AegisDomainEventBus)
    (e : AegisDomainEvent) :
    publish_body pub (bus_strip b) e = (publish_body pub b e).map ret_strip := by
  unfold publish_body
  have hi : (bus_strip b).is_initialized = b.is_initialized := rfl
  rw [hi]
  by_cases h0 : b.is_initialized = 0
  · rw [if_pos h0, if_pos h0]
    rfl
  · rw [if_neg h0, if_neg h0, publish_enter_strip]
    simp only
    rw [dispatch_strip pub hs]
    cases dispatch_to_subscribers pub (publish_enter b e).2 (publish_enter b e).1 TRUE with
    | none => rfl
    | some r =>
      obtain ⟨n, b4, o⟩ := r
      simp only [Option.map_some', ret_strip, publish_exit_strip]

theorem publish_strip (fuel : Nat) :
    ∀ b e, aegis_domain_event_publish fuel (bus_strip b) e =
      (aegis_domain_event_publish fuel b e).map ret_strip := by
  induction fuel with
  | zero => exact fun b e => rfl
  | succ fuel ih => exact fun b e => publish_body_strip _ ih b e

theorem dequeue_strip (b : AegisDomainEventBus) (ev : AegisDomainEvent) :
    event_queue_dequeue (bus_strip b) ev =
      ((event_queue_dequeue b ev).1, bus_strip (event_queue_dequeue b ev).2.1,
        (event_queue_dequeue b ev).2.2) := by
  unfold event_queue_dequeue
  have hq : (bus_strip b).async_queue = b.async_queue := rfl
  simp only [hq]
  by_cases c1 : aegis_ring_buffer_get_count b.async_queue < sizeof_AegisDomainEvent
  · simp only [if_pos c1]
  · simp only [if_neg c1]
    by_cases c2 : (aegis_ring_buffer_read b.async_queue (some (event_bytes ev))
        sizeof_AegisDomainEvent).1 ≠ sizeof_AegisDomainEvent
    · simp only [if_pos c2]
      rfl
    · simp only [if_neg c2]
      rfl

theorem process_loop_strip (pub : PublishFn)
    (hs : ∀ b e, pub (bus_strip b) e = (pub b e).map ret_strip) (max : Nat) :
    ∀ fuel b ev processed, process_loop pub max fuel (bus_strip b) ev processed =
      (process_loop pub max fuel b ev processed).map ret_strip := by
  intro fuel
  induction fuel with
  | zero => exact fun b ev processed => rfl
  | succ fuel ih =>
    intro b ev processed
    simp only [process_loop]
    by_cases hc : processed < max ∨ max = 0
    · rw [if_pos hc, if_pos hc, dequeue_strip]
      simp only
      by_cases hd : (event_queue_dequeue b ev).1 ≠ ERR_OK
      · rw [if_pos hd, if_pos hd]
        rfl
      · rw [if_neg hd, if_neg hd, dispatch_strip pub hs]
        cases dispatch_to_subscribers pub (event_queue_dequeue b ev).2.1
            (event_queue_dequeue b ev).2.2 FALSE with
        | none => rfl
        | some r =>
          obtain ⟨k, b1, o1⟩ := r
          simp only [Option.map_some', ret_strip]
          have h3 : ({ bus_strip b1 with
                async_handled := ((bus_strip b1).async_handled + k) % 4294967296
                total_processed := ((bus_strip b1).total_processed + 1) % 4294967296 } :
                AegisDomainEventBus) =
              bus_strip { b1 with
                async_handled := (b1.async_handled + k) % 4294967296
                total_processed := (b1.total_processed + 1) % 4294967296 } := rfl
          rw [h3, ih]
          cases process_loop pub max fuel
              { b1 with
                async_handled := (b1.async_handled + k) % 4294967296
                total_processed := (b1.total_processed + 1) % 4294967296 }
              (event_queue_dequeue b ev).2.2 ((processed + 1) % 256) with
          | none => rfl
          | some r3 => rfl
    · rw [if_neg hc, if_neg hc]
      rfl

theorem process_strip (fuel : Nat) (b : AegisDomainEventBus) (max : Nat) :
    aegis_domain_event_process fuel (bus_strip b) max =
      (aegis_domain_event_process fuel b max).map ret_strip := by
  unfold aegis_domain_event_process
  have hi : (bus_strip b).is_initialized = b.is_initialized := rfl
  rw [hi]
  by_cases h0 : b.is_initialized = 0
  · rw [if_pos h0, if_pos h0]
    rfl
  · rw [if_neg h0, if_neg h0]
    exact process_loop_strip _ (publish_strip fuel) max fuel b zero_event 0

theorem bus_run_strip (fuel : Nat) (cs : List BusCall) :
    ∀ b, bus_run fuel (bus_strip b) cs = (bus_run fuel b cs).map ret_strip := by
  induction cs with
  | nil => exact fun b => rfl
  | cons call cs ih =>
    intro b
    cases call with
    | publish e =>
      simp only [bus_run]
      rw [publish_strip]
      cases aegis_domain_event_publish fuel b e with
      | none => rfl
      | some r =>
        obtain ⟨c, b1, o1⟩ := r
        simp only [Option.map_some', ret_strip]
        rw [ih b1]
        cases bus_run fuel b1 cs with
        | none => rfl
        | some r2 => rfl
    | process m =>
      simp only [bus_run]
      rw [process_strip]
      cases aegis_domain_event_process fuel b m with
      | none => rfl
      | some r =>
        obtain ⟨n, b1, o1⟩ := r
        simp only [Option.map_some', ret_strip]
        rw [ih b1]
        cases bus_run fuel b1 cs with
        | none => rfl
        | some r2 => rfl

theorem bus_init_strip (storage : AegisDomainEventBus) (trace : Option AegisTraceLog)
    (t1 t2 : List AegisEventSubscription) (count : Nat)
    (h : t1.map strip_priority = t2.map strip_priority) :
    (aegis_domain_event_bus_init storage trace (some t1) count).1 =
        (aegis_domain_event_bus_init storage trace (some t2) count).1 ∧
      bus_strip (aegis_domain_event_bus_init storage trace (some t1) count).2 =
        bus_strip (aegis_domain_event_bus_init storage trace (some t2) count).2 := by
  unfold aegis_domain_event_bus_init
  have hn : ∀ t : List AegisEventSubscription, ¬ ((some t).isNone ∧ count > 0) :=
    fun t hh => Bool.noConfusion hh.1
  rw [if_neg (hn t1), if_neg (hn t2)]
  by_cases c1 : count > MAX_EVENT_SUBSCRIPTIONS
  · rw [if_pos c1, if_pos c1]
    exact ⟨rfl, rfl⟩
  · rw [if_neg c1, if_neg c1]
    simp only
    split
    · exact ⟨rfl, rfl⟩
    · refine ⟨rfl, ?_⟩
      unfold bus_strip
      simp only [Option.map_some', h]

/-! ## Termination of process and draining of the queue -/

/-- The process loop returns: with a positive budget `max` below 256, handlers
that may publish, and one unit of fuel per remaining iteration, it returns the
number `n ≤ max` of events it dequeued, and it stopped short of the budget
only on an empty queue. -/
theorem process_loop_total (pub : PublishFn) (hp : PubSpec pub) (max : Nat) (hmax0 : 0 < max)
    (hmax : max < 256) (ht : ∀ d, d < MAX_EVENT_RECURSION_DEPTH → PubTotalAt pub (d + 1)) :
    ∀ fuel b ev processed, BusWF b → b.is_initialized ≠ 0 → processed ≤ max →
      max - processed < fuel →
      ∃ n b' o, process_loop pub max fuel b ev processed = some (n, b', o) ∧ n ≤ max ∧
        n = processed + (obs_dequeued o).length ∧ (n < max → pending_events b' = []) := by
  intro fuel
  induction fuel with
  | zero =>
    intro b ev processed _ _ _ hf
    omega
  | succ fuel ih =>
    intro b ev processed hwf hi hle hf
    simp only [process_loop]
    by_cases hc : processed < max ∨ max = 0
    · rw [if_pos hc]
      cases hpend : pending_events b with
      | nil =>
        have g1 := hwf.1
        rw [hpend] at g1
        rw [dequeue_none b ev g1]
        simp only
        rw [if_pos (by decide)]
        exact ⟨_, _, _, rfl, hle, rfl, fun _ => hpend⟩
      | cons e rest =>
        have hlt : processed < max := by
          rcases hc with h | h
          · exact h
          · omega
        have g := hwf
        obtain ⟨g1, g2, g3, g4, g5, g6, g7, g8, g9, g10⟩ := g
        rw [hpend] at g1
        obtain ⟨q1, q2⟩ := dequeue_some b e ev rest g1
        obtain ⟨bD, hbD⟩ : ∃ bD : AegisDomainEventBus, bD =
            { b with
              async_queue := (aegis_ring_buffer_read b.async_queue (some (event_bytes ev))
                sizeof_AegisDomainEvent).2.1 } := ⟨_, rfl⟩
        rw [← hbD] at q1
        have hqD : QueueWF bD.async_queue rest := by rw [hbD]; exact q2
        have hpD : pending_events bD = rest := queueWF_pending bD rest hqD
        have hwfD : BusWF bD :=
          ⟨by rw [hpD]; exact hqD, by rw [hbD]; exact g2, by rw [hbD]; exact g3,
            by rw [hbD]; exact g4, by rw [hbD]; exact g5, by rw [hbD]; exact g6,
            by rw [hbD]; exact g7, by rw [hbD]; exact g8, by rw [hbD]; exact g9,
            by rw [hbD]; exact g10⟩
        have hiD : bD.is_initialized ≠ 0 := by rw [hbD]; exact hi
        have hfix : bD = { b with async_queue := bD.async_queue } := by rw [hbD]
        rw [q1]
        simp only
        rw [if_neg (by simp)]
        have h1 := dispatch_loop_total pub hp e FALSE bD.recursion_depth
          (ht bD.recursion_depth) (List.range bD.subscription_count) bD 0 hwfD hiD rfl
        cases hdis : dispatch_to_subscribers pub bD e FALSE with
        | none =>
          unfold dispatch_to_subscribers at hdis
          rw [hdis] at h1
          cases h1
        | some r =>
          obtain ⟨k, b1, o1⟩ := r
          simp only
          obtain ⟨e1, c1⟩ := dispatch_spec pub hp e FALSE bD b1 k o1 hwfD hiD hdis
          have e2 := Eff.dequeued b bD b1 e rest o1 k hpend hpD hfix e1
          have hmod : (processed + 1) % 256 = processed + 1 := Nat.mod_eq_of_lt (by omega)
          rw [hmod]
          obtain ⟨n3, b3, o3, hrest, hn3, hcount, hdrain⟩ := ih _ e (processed + 1) e2.wf
            (by rw [e2.init]; exact hi) (by omega) (by omega)
          rw [hrest]
          refine ⟨_, _, _, rfl, hn3, ?_, hdrain⟩
          show n3 = processed + (obs_dequeued ([BusObs.dequeued e] ++ (o1 ++ o3))).length
          simp only [obs_dequeued_append, List.length_append, c1.1]
          simp only [obs_dequeued, List.length_cons, List.length_nil]
          omega
    · rw [if_neg hc]
      refine ⟨_, _, _, rfl, hle, rfl, fun h => ?_⟩
      omega

/-- A process loop without a budget that returns has emptied the queue. -/
theorem process_loop_drained (pub : PublishFn) (hp : PubSpec pub) :
    ∀ fuel b ev processed n b' o, BusWF b → b.is_initialized ≠ 0 →
      process_loop pub 0 fuel b ev processed = some (n, b', o) → pending_events b' = [] := by
  intro fuel
  induction fuel with
  | zero =>
    intro b ev processed n b' o _ _ h
    simp [process_loop] at h
  | succ fuel ih =>
    intro b ev processed n b' o hwf hi h
    simp only [process_loop] at h
    rw [if_pos (Or.inr trivial)] at h
    cases hpend : pending_events b with
    | nil =>
      have g1 := hwf.1
      rw [hpend] at g1
      rw [dequeue_none b ev g1] at h
      simp only at h
      rw [if_pos (by decide)] at h
      simp only [Option.some.injEq, Prod.mk.injEq] at h
      obtain ⟨-, rfl, -⟩ := h
      exact hpend
    | cons e rest =>
      have g := hwf
      obtain ⟨g1, g2, g3, g4, g5, g6, g7, g8, g9, g10⟩ := g
      rw [hpend] at g1
      obtain ⟨q1, q2⟩ := dequeue_some b e ev rest g1
      obtain ⟨bD, hbD⟩ : ∃ bD : AegisDomainEventBus, bD =
          { b with
            async_queue := (aegis_ring_buffer_read b.async_queue (some (event_bytes ev))
              sizeof_AegisDomainEvent).2.1 } := ⟨_, rfl⟩
      rw [← hbD] at q1
      have hqD : QueueWF bD.async_queue rest := by rw [hbD]; exact q2
      have hpD : pending_events bD = rest := queueWF_pending bD rest hqD
      have hwfD : BusWF bD :=
        ⟨by rw [hpD]; exact hqD, by rw [hbD]; exact g2, by rw [hbD]; exact g3,
          by rw [hbD]; exact g4, by rw [hbD]; exact g5, by rw [hbD]; exact g6,
          by rw [hbD]; exact g7, by rw [hbD]; exact g8, by rw [hbD]; exact g9,
          by rw [hbD]; exact g10⟩
      have hiD : bD.is_initialized ≠ 0 := by rw [hbD]; exact hi
      have hfix : bD = { b with async_queue := bD.async_queue } := by rw [hbD]
      rw [q1] at h
      simp only at h
      rw [if_neg (by simp)] at h
      cases hdis : dispatch_to_subscribers pub bD e FALSE with
      | none => simp [hdis] at h
      | some r =>
        obtain ⟨k, b1, o1⟩ := r
        simp only [hdis] at h
        obtain ⟨e1, c1⟩ := dispatch_spec pub hp e FALSE bD b1 k o1 hwfD hiD hdis
        have e2 := Eff.dequeued b bD b1 e rest o1 k hpend hpD hfix e1
        cases hrest : process_loop pub 0 fuel
            { b1 with
              async_handled := (b1.async_handled + k) % 4294967296
              total_processed := (b1.total_processed + 1) % 4294967296 }
            e ((processed + 1) % 256) with
        | none => simp [hrest] at h
        | some r3 =>
          obtain ⟨n3, b3, o3⟩ := r3
          simp only [hrest, Option.some.injEq, Prod.mk.injEq] at h
          obtain ⟨-, rfl, -⟩ := h
          exact ih _ _ _ n3 b3 o3 e2.wf (by rw [e2.init]; exact hi) hrest

theorem burst_quiet (k : Nat) (ev : AegisDomainEvent) : QuietFor (burst_table k) TRUE ev := by
  intro sub hs hm
  simp only [burst_table, List.mem_singleton] at hs
  subst hs
  simp [sub_matches, TRUE, FALSE] at hm

theorem burst_async_quiet (k : Nat) (ev : AegisDomainEvent) (h : ev.type = 5) :
    QuietFor (burst_table k) FALSE ev := by
  intro sub hs hm
  simp only [burst_table, List.mem_singleton] at hs
  subst hs
  simp [sub_matches, h] at hm

theorem burst_pending_spec (k : Nat) :
    BusWF (burst_pending k) ∧ (burst_pending k).is_initialized ≠ 0 ∧
      (burst_pending k).recursion_depth = 0 ∧
      (burst_pending k).subscriptions.getD [] = burst_table k ∧
      (burst_pending k).subscription_count = 1 ∧ (burst_pending k).next_event_id = 2 ∧
      (burst_pending k).dropped_events = 0 ∧
      ∃ a, pending_events (burst_pending k) = [a] ∧ a.type = 1 ∧ a.event_id = 1 := by
  have hn : ¬ ((some (burst_table k)).isNone ∧ 1 > 0) := fun h => Bool.noConfusion h.1
  obtain ⟨hwf0, hp0, -⟩ := bus_init_wf storage_bus none (some (burst_table k)) 1 hn
    (by decide) (fun _ h => nomatch h)
  obtain ⟨f1, f2, f3, f4, f5, f6, -, -⟩ := bus_init_fields storage_bus none
    (some (burst_table k)) 1 hn (by decide)
  have hi0 : (burst_bus k).is_initialized ≠ 0 := by
    show (aegis_domain_event_bus_init storage_bus none (some (burst_table k)) 1).2.is_initialized
      ≠ 0
    rw [f1]
    decide
  have hd0 : (burst_bus k).recursion_depth = 0 := f2
  have hs0 : (burst_bus k).subscriptions = some (burst_table k) := f3
  have hc0 : (burst_bus k).subscription_count = 1 := f4
  have hn0 : (burst_bus k).next_event_id = 1 := f5
  have hr0 : (burst_bus k).dropped_events = 0 := f6
  obtain ⟨b1, hpub, -⟩ := publish_quiet 0 (burst_bus k) demo_event (burst_table k) hwf0
    hi0 (by rw [hd0]; decide) (by rw [hs0]; rfl) (burst_quiet k)
  have hp0c : pending_events (burst_bus k) = [] := hp0
  rw [hp0c, if_pos (by decide)] at hpub
  obtain ⟨-, e1, -⟩ := publish_spec 1 (burst_bus k) demo_event _ hwf0 hi0 hpub
  have hcp : burst_pending k = b1 := by
    unfold burst_pending
    rw [hpub]
    rfl
  have hP := (publish_obs_proj demo_event (publish_enter (burst_bus k) demo_event).1 _
    (BusObs.enqueued (publish_enter (burst_bus k) demo_event).1)
    (dispatch_obs_proj (burst_table k) (List.range (burst_bus k).subscription_count) TRUE
      (publish_enter (burst_bus k) demo_event).1 (burst_bus k).recursion_depth))
  rw [hcp]
  refine ⟨e1.wf, by rw [e1.init]; exact hi0, by rw [e1.depth]; exact hd0,
    by rw [e1.subs, hs0]; rfl, by rw [e1.cnt]; exact hc0, ?_, ?_,
    (publish_enter (burst_bus k) demo_event).1, ?_, ?_, ?_⟩
  · have h := e1.next_id
    simp only at h
    rw [hP.1, hn0] at h
    exact h
  · have h := e1.dr
    simp only at h
    rw [hP.2.2.2.1, hr0] at h
    exact h
  · have hq := e1.queue
    simp only at hq
    rw [hP.2.2.1, hP.2.2.2.2, hp0c] at hq
    exact hq
  · exact ((copy_type _ _ (publish_enter_copy (burst_bus k) demo_event)).2 (by decide)).trans rfl
  · have h := e1.ids
    simp only at h
    rw [hP.1, hn0] at h
    exact (List.cons.inj h).1

theorem run_handler_eq_run (fuel : Nat) (es : List AegisDomainEvent) :
    ∀ b, run_handler (aegis_domain_event_publish fuel) b es =
      (bus_run fuel b (es.map BusCall.publish)).map fun r => (r.2.1, r.2.2) := by
  induction es with
  | nil => exact fun b => rfl
  | cons e es ih =>
    intro b
    simp only [run_handler, List.map_cons, bus_run]
    cases aegis_domain_event_publish fuel b e with
    | none => rfl
    | some r =>
      obtain ⟨c, b1, o1⟩ := r
      simp only
      rw [ih b1]
      cases bus_run fuel b1 (es.map BusCall.publish) with
      | none => rfl
      | some r2 => rfl

theorem invoke_run (pub : PublishFn) (b : AegisDomainEventBus) (i p : Nat)
    (sub : AegisEventSubscription) (e : AegisDomainEvent) (h : DomainEventHandler)
    (hh : sub.handler = some h) (hd : b.recursion_depth < MAX_EVENT_RECURSION_DEPTH) :
    invoke_handler_with_recursion pub b i p sub e =
      match run_handler pub { b with recursion_depth := (b.recursion_depth + 1) % 256 }
          (h e sub.ctx).publishes with
      | none => none
      | some (b2, o) =>
        some ((h e sub.ctx).result,
          { b2 with recursion_depth := (b2.recursion_depth + 255) % 256 },
          BusObs.call i p e b.recursion_depth (h e sub.ctx).result :: o) := by
  unfold invoke_handler_with_recursion
  simp only [hh, if_neg (show ¬ b.recursion_depth ≥ MAX_EVENT_RECURSION_DEPTH by omega)]

theorem copies_type (t : Nat) (es cs : List AegisDomainEvent) (h : List.Forall₂ IsCopy es cs)
    (ht : ∀ e ∈ es, (event_memcpy e).type = t) : ∀ c ∈ cs, c.type = t := by
  induction h with
  | nil => exact fun c hc => nomatch hc
  | cons hx _ ih =>
    intro c hc
    rcases List.mem_cons.mp hc with rfl | hc
    · exact (copy_type _ _ hx).1.trans (ht _ (List.mem_cons_self _ _))
    · exact ih (fun e he => ht e (List.mem_cons_of_mem _ he)) c hc

/-- One iteration of the process loop on a queue that holds `e` first. -/
theorem process_loop_step (pub : PublishFn) (max fuel : Nat) (b : AegisDomainEventBus)
    (ev e : AegisDomainEvent) (processed : Nat) (rest : List AegisDomainEvent) (k : Nat)
    (b1 : AegisDomainEventBus) (o1 : List BusObs) (hc : processed < max ∨ max = 0)
    (hq : QueueWF b.async_queue (e :: rest))
    (hdis : dispatch_to_subscribers pub
      { b with
        async_queue := (aegis_ring_buffer_read b.async_queue (some (event_bytes ev))
          sizeof_AegisDomainEvent).2.1 } e FALSE = some (k, b1, o1)) :
    process_loop pub max (fuel + 1) b ev processed =
      match process_loop pub max fuel
          { b1 with
            async_handled := (b1.async_handled + k) % 4294967296
            total_processed := (b1.total_processed + 1) % 4294967296 }
          e ((processed + 1) % 256) with
      | none => none
      | some (n, bus3, o2) => some (n, bus3, BusObs.dequeued e :: o1 ++ o2) := by
  simp only [process_loop]
  rw [if_pos hc, (dequeue_some b e ev rest hq).1]
  simp only
  rw [if_neg (by simp), hdis]

theorem process_obs_dropped (tbl : List AegisEventSubscription) (n : Nat)
    (evs : List AegisDomainEvent) : obs_dropped (process_obs tbl n evs) = [] := by
  induction evs with
  | nil => rfl
  | cons e evs ih =>
    show obs_dropped ([BusObs.dequeued e] ++
      (dispatch_obs tbl (List.range n) FALSE e 0 ++ process_obs tbl n evs)) = _
    rw [obs_dropped_append, obs_dropped_append, (dispatch_obs_proj _ _ _ _ _).2.2.2.1, ih]
    rfl

/-- On a bus whose table is `burst_table k` and whose queue holds one event of
type 1, `process` without a budget handles that event, whose handler publishes
`k` events of type 5, and then those of the `k` that found room in the queue. -/
theorem burst_process (k f : Nat) (b : AegisDomainEventBus) (a : AegisDomainEvent)
    (hwf : BusWF b) (hi : b.is_initialized ≠ 0) (hd : b.recursion_depth = 0)
    (hsubs : b.subscriptions.getD [] = burst_table k) (hcnt : b.subscription_count = 1)
    (hpend : pending_events b = [a]) (ha : a.type = 1) :
    ∃ b' o, aegis_domain_event_process (f + 35) b 0 = some (1 + min k 32, b', o) ∧
      (obs_published o).length = k ∧ obs_enqueued o = (obs_published o).take 32 ∧
      obs_dropped o = (obs_published o).drop 32 ∧
      obs_dequeued o = a :: (obs_published o).take 32 ∧ pending_events b' = [] := by
  have hM := max_depth_eq
  have hQ := queue_size_eq
  unfold aegis_domain_event_process
  rw [if_neg hi]
  have g := hwf
  obtain ⟨g1, g2, g3, g4, g5, g6, g7, g8, g9, g10⟩ := g
  rw [hpend] at g1
  obtain ⟨q1, q2⟩ := dequeue_some b a zero_event [] g1
  obtain ⟨bD, hbD⟩ : ∃ bD : AegisDomainEventBus, bD =
      { b with
        async_queue := (aegis_ring_buffer_read b.async_queue (some (event_bytes zero_event))
          sizeof_AegisDomainEvent).2.1 } := ⟨_, rfl⟩
  rw [← hbD] at q1
  have hqD : QueueWF bD.async_queue [] := by rw [hbD]; exact q2
  have hpD : pending_events bD = [] := queueWF_pending bD [] hqD
  have hwfD : BusWF bD :=
    ⟨by rw [hpD]; exact hqD, by rw [hbD]; exact g2, by rw [hbD]; exact g3,
      by rw [hbD]; exact g4, by rw [hbD]; exact g5, by rw [hbD]; exact g6,
      by rw [hbD]; exact g7, by rw [hbD]; exact g8, by rw [hbD]; exact g9,
      by rw [hbD]; exact g10⟩
  have hiD : bD.is_initialized ≠ 0 := by rw [hbD]; exact hi
  have hdD : bD.recursion_depth = 0 := by rw [hbD]; exact hd
  have hfix : bD = { b with async_queue := bD.async_queue } := by rw [hbD]
  obtain ⟨b2, o2, hrun, e0, i1, i2, i3, i4, i5⟩ := publish_run_quiet (f + 34) (burst_table k)
    (burst_quiet k) (List.replicate k { a with type := 5 })
    { bD with recursion_depth := (bD.recursion_depth + 1) % 256 } (busWF_depth _ _ hwfD) hiD
    (by show (bD.recursion_depth + 1) % 256 < _; rw [hdD, hM]; decide)
    (by rw [hbD]; exact hsubs)
  have hp : pending_events { bD with recursion_depth := (bD.recursion_depth + 1) % 256 } =
      pending_events bD := rfl
  rw [hp, hpD, List.length_nil, Nat.sub_zero, hQ] at i4 i5
  rw [List.length_replicate] at i2
  have hrh : run_handler (aegis_domain_event_publish (f + 35))
      { bD with recursion_depth := (bD.recursion_depth + 1) % 256 }
      (List.replicate k { a with type := 5 }) = some (b2, o2) := by
    rw [run_handler_eq_run, hrun]
    rfl
  have hty : ∀ c ∈ obs_published o2, c.type = 5 :=
    copies_type 5 _ _ (copies_paired o2 e0.copies) fun e he => by
      rw [i1] at he
      rw [List.eq_of_mem_replicate he, event_memcpy_eq]
      rfl
  have hdis : dispatch_to_subscribers (aegis_domain_event_publish (f + 35)) bD a FALSE =
      some (1, { b2 with recursion_depth := (b2.recursion_depth + 255) % 256 },
        BusObs.call 0 FALSE a bD.recursion_depth (burst_handler k a 0).result :: o2) := by
    rw [dispatch_single _ _ _ _
        { event_type := 1, handler := some (burst_handler k), ctx := 0, is_sync := FALSE,
          priority := 0 } (by rw [hbD]; exact hsubs) (by rw [hbD]; exact hcnt)
        (by simp [sub_matches, ha]),
      invoke_run _ _ _ _ _ _ (burst_handler k) rfl (by rw [hdD, hM]; decide)]
    show (match
      (match run_handler (aegis_domain_event_publish (f + 35))
          { bD with recursion_depth := (bD.recursion_depth + 1) % 256 }
          (List.replicate k { a with type := 5 }) with
        | none => none
        | some (b2, o) =>
          some (AegisEventHandlerResult.EVENT_HANDLER_OK,
            { b2 with recursion_depth := (b2.recursion_depth + 255) % 256 },
            BusObs.call 0 FALSE a bD.recursion_depth
              AegisEventHandlerResult.EVENT_HANDLER_OK :: o)) with
      | none => none
      | some (result, bus1, o1) =>
        some (if result = AegisEventHandlerResult.EVENT_HANDLER_OK then 1 else 0,
          if result = AegisEventHandlerResult.EVENT_HANDLER_ERROR then
            bus_trace_log bus1 TRACE_EVENT_APP_ERROR "REQ-EVENT-009" a.type 0
          else bus1, o1)) = _
    rw [hrh]
    rfl
  obtain ⟨e1, c1⟩ := dispatch_spec _ (publish_spec (f + 35)) a FALSE bD _ 1 _ hwfD hiD hdis
  have e2 := Eff.dequeued b bD _ a [] _ 1 hpend hpD hfix e1
  have hq := e2.queue
  rw [hpend] at hq
  have hq2 : ∀ o : List BusObs, obs_dequeued (BusObs.dequeued a ::
      BusObs.call 0 FALSE a bD.recursion_depth (burst_handler k a 0).result :: o) =
        a :: obs_dequeued o := fun _ => rfl
  have hq3 : ∀ o : List BusObs, obs_enqueued (BusObs.dequeued a ::
      BusObs.call 0 FALSE a bD.recursion_depth (burst_handler k a 0).result :: o) =
        obs_enqueued o := fun _ => rfl
  rw [hq2, hq3, i3] at hq
  have hq5 := (List.cons.inj hq).2
  have hlen : (obs_enqueued o2).length = min k 32 := by
    rw [i4, List.length_take, i2, Nat.min_comm]
  obtain ⟨b3, hloop, -, hp3, -⟩ := process_loop_quiet (aegis_domain_event_publish (f + 35))
    (burst_table k) 0 (f + 34) (obs_enqueued o2) _ a ((0 + 1) % 256) e2.wf
    (by rw [e2.depth]; exact hd) (by rw [e2.subs]; exact hsubs) hq5
    (fun e he => by
      rw [i4] at he
      exact burst_async_quiet k e (hty e (List.mem_of_mem_take he)))
    (by
      simp only [process_count, if_pos]
      omega)
    (by
      simp only [process_count, if_pos]
      omega)
  have hpc : process_count 0 ((0 + 1) % 256) (obs_enqueued o2).length =
      (obs_enqueued o2).length := rfl
  rw [hpc] at hloop hp3
  rw [List.take_length, hlen] at hloop
  rw [List.drop_length] at hp3
  rw [process_loop_step _ 0 (f + 34) b zero_event a 0 [] 1 _ _ (Or.inr rfl) g1
    (by rw [← hbD]; exact hdis), hloop]
  have p1 : ∀ n evs, obs_dequeued (process_obs (burst_table k) n evs) = evs :=
    fun n evs => (process_obs_dequeued _ n evs).1
  have p2 : ∀ n evs, obs_published (process_obs (burst_table k) n evs) = [] :=
    fun n evs => (process_obs_dequeued _ n evs).2.1
  have p3 : ∀ n evs, obs_enqueued (process_obs (burst_table k) n evs) = [] :=
    fun n evs => (process_obs_dequeued _ n evs).2.2
  have p4 : ∀ n evs, obs_dropped (process_obs (burst_table k) n evs) = [] :=
    fun n evs => process_obs_dropped _ n evs
  have hpub : ∀ P : List BusObs, obs_published P = [] →
      obs_published ((BusObs.dequeued a ::
        BusObs.call 0 FALSE a bD.recursion_depth (burst_handler k a 0).result :: o2) ++ P) =
        obs_published o2 := fun P hP => by
    rw [obs_published_append, hP, List.append_nil]
    rfl
  have henq : ∀ P : List BusObs, obs_enqueued P = [] →
      obs_enqueued ((BusObs.dequeued a ::
        BusObs.call 0 FALSE a bD.recursion_depth (burst_handler k a 0).result :: o2) ++ P) =
        obs_enqueued o2 := fun P hP => by
    rw [obs_enqueued_append, hP, List.append_nil]
    rfl
  have hdrp : ∀ P : List BusObs, obs_dropped P = [] →
      obs_dropped ((BusObs.dequeued a ::
        BusObs.call 0 FALSE a bD.recursion_depth (burst_handler k a 0).result :: o2) ++ P) =
        obs_dropped o2 := fun P hP => by
    rw [obs_dropped_append, hP, List.append_nil]
    rfl
  have hdeq : ∀ P : List BusObs,
      obs_dequeued ((BusObs.dequeued a ::
        BusObs.call 0 FALSE a bD.recursion_depth (burst_handler k a 0).result :: o2) ++ P) =
        a :: obs_dequeued P := fun P => by
    rw [obs_dequeued_append, hq2, i3]
    rfl
  refine ⟨b3, _, rfl, ?_, ?_, ?_, ?_, hp3⟩
  · rw [hpub _ (p2 _ _)]
    exact i2
  · rw [hpub _ (p2 _ _), henq _ (p3 _ _)]
    exact i4
  · rw [hpub _ (p2 _ _), hdrp _ (p4 _ _)]
    exact i5
  · rw [hpub _ (p2 _ _), hdeq, p1, i4]

/-! ## Nested publishes: what a handler publishes and where it is enqueued -/

theorem mem_obs_published (o : List BusObs) (e ec : AegisDomainEvent)
    (h : BusObs.published e ec ∈ o) : ec ∈ obs_published o := by
  induction o with
  | nil => exact absurd h (List.not_mem_nil _)
  | cons x o ih =>
    rcases List.mem_cons.mp h with rfl | h2
    · exact List.mem_cons_self _ _
    · cases x with
      | published e' ec' => exact List.mem_cons_of_mem _ (ih h2)
      | call i p e' d r => exact ih h2
      | refused i p e' d => exact ih h2
      | enqueued e' => exact ih h2
      | dropped e' => exact ih h2
      | dequeued e' => exact ih h2

theorem mem_obs_enqueued (o : List BusObs) (ec : AegisDomainEvent)
    (h : BusObs.enqueued ec ∈ o) : ec ∈ obs_enqueued o := by
  induction o with
  | nil => exact absurd h (List.not_mem_nil _)
  | cons x o ih =>
    rcases List.mem_cons.mp h with rfl | h2
    · exact List.mem_cons_self _ _
    · cases x with
      | published e' ec' => exact ih h2
      | call i p e' d r => exact ih h2
      | refused i p e' d => exact ih h2
      | enqueued e' => exact List.mem_cons_of_mem _ (ih h2)
      | dropped e' => exact ih h2
      | dequeued e' => exact ih h2

theorem mem_obs_dropped (o : List BusObs) (ec : AegisDomainEvent)
    (h : BusObs.dropped ec ∈ o) : ec ∈ obs_dropped o := by
  induction o with
  | nil => exact absurd h (List.not_mem_nil _)
  | cons x o ih =>
    rcases List.mem_cons.mp h with rfl | h2
    · exact List.mem_cons_self _ _
    · cases x with
      | published e' ec' => exact ih h2
      | call i p e' d r => exact ih h2
      | refused i p e' d => exact ih h2
      | enqueued e' => exact ih h2
      | dropped e' => exact List.mem_cons_of_mem _ (ih h2)
      | dequeued e' => exact ih h2

/-- The parts of a completed publish: the synchronous dispatch of the copy on
the bus `publish_enter` left, then the enqueue of the copy when the queue had
room for it at that point, its drop otherwise. -/
theorem publish_parts (fuel : Nat) (b b' : AegisDomainEventBus) (e : AegisDomainEvent)
    (c : AegisErrorCode) (o : List BusObs) (hwf : BusWF b) (hi : b.is_initialized ≠ 0)
    (h : aegis_domain_event_publish fuel b e = some (c, b', o)) :
    ∃ f n b4 mid, fuel = f + 1 ∧
      dispatch_to_subscribers (aegis_domain_event_publish f) (publish_enter b e).2
        (publish_enter b e).1 TRUE = some (n, b4, mid) ∧
      o = BusObs.published e (publish_enter b e).1 :: mid ++
        [if (pending_events b).length + (obs_enqueued mid).length < DOMAIN_EVENT_QUEUE_SIZE then
          BusObs.enqueued (publish_enter b e).1
        else BusObs.dropped (publish_enter b e).1] := by
  cases fuel with
  | zero => simp [aegis_domain_event_publish] at h
  | succ fuel =>
    simp only [aegis_domain_event_publish, publish_body] at h
    rw [if_neg hi] at h
    have e1 := publish_enter_eff b e hwf
    obtain ⟨hev, -⟩ := publish_enter_wf b e hwf
    cases hdis : dispatch_to_subscribers (aegis_domain_event_publish fuel) (publish_enter b e).2
        (publish_enter b e).1 TRUE with
    | none => simp [hdis] at h
    | some x =>
      obtain ⟨n, b4, o4⟩ := x
      simp only [hdis, Option.some.injEq, Prod.mk.injEq] at h
      obtain ⟨-, -, rfl⟩ := h
      obtain ⟨e2, c2⟩ := dispatch_spec _ (publish_spec fuel) _ _ _ b4 n o4 e1.wf
        (by rw [e1.init]; exact hi) hdis
      obtain ⟨-, x1, x2⟩ := publish_exit_eff b4 (publish_enter b e).1 n e2.wf hev
      have hq1 := e1.queue
      have hq2 := e2.queue
      rw [c2.1, List.nil_append] at hq2
      simp only [obs_dequeued, obs_enqueued, List.nil_append, List.append_nil] at hq1
      have hlen : (pending_events b4).length =
          (pending_events b).length + (obs_enqueued o4).length := by
        rw [hq2, List.length_append, hq1]
      have hle := queueWF_length_le _ _ e2.wf.1
      refine ⟨fuel, n, b4, o4, rfl, hdis, ?_⟩
      congr 2
      by_cases hroom : (pending_events b).length + (obs_enqueued o4).length <
          DOMAIN_EVENT_QUEUE_SIZE
      · rw [if_pos hroom]
        exact x1 (by rw [hlen]; exact hroom)
      · rw [if_neg hroom]
        exact x2 (by omega)

/-- A completed publish observed the publication of a copy of its event and
then the enqueue or the drop of that copy. -/
theorem publish_block (fuel : Nat) (b : AegisDomainEventBus) (e : AegisDomainEvent)
    (r : AegisErrorCode × AegisDomainEventBus × List BusObs) (hwf : BusWF b)
    (hi : b.is_initialized ≠ 0) (h : aegis_domain_event_publish fuel b e = some r) :
    ∃ ec, IsCopy e ec ∧ BusObs.published e ec ∈ r.2.2 ∧
      (BusObs.enqueued ec ∈ r.2.2 ∨ BusObs.dropped ec ∈ r.2.2) := by
  obtain ⟨c, b', o⟩ := r
  obtain ⟨mid, rfl⟩ := publish_shape fuel b b' e c o hwf hi h
  refine ⟨(publish_enter b e).1, publish_enter_copy b e, List.mem_cons_self _ _, ?_⟩
  by_cases hroom : (pending_events b).length + (obs_enqueued mid).length <
      DOMAIN_EVENT_QUEUE_SIZE
  · rw [if_pos hroom]
    exact Or.inl (by simp)
  · rw [if_neg hroom]
    exact Or.inr (by simp)

/-- Every event a handler body publishes is observed as a publication of a
copy followed by the enqueue or the drop of that copy. -/
theorem run_handler_block (pub : PublishFn) (hp : PubSpec pub)
    (hb : ∀ b e r, BusWF b → b.is_initialized ≠ 0 → pub b e = some r →
      ∃ ec, IsCopy e ec ∧ BusObs.published e ec ∈ r.2.2 ∧
        (BusObs.enqueued ec ∈ r.2.2 ∨ BusObs.dropped ec ∈ r.2.2))
    (es : List AegisDomainEvent) :
    ∀ b b' o, BusWF b → b.is_initialized ≠ 0 → run_handler pub b es = some (b', o) →
      ∀ B ∈ es, ∃ Bc, IsCopy B Bc ∧ BusObs.published B Bc ∈ o ∧
        (BusObs.enqueued Bc ∈ o ∨ BusObs.dropped Bc ∈ o) := by
  induction es with
  | nil =>
    intro b b' o _ _ _ B hB
    exact absurd hB (List.not_mem_nil _)
  | cons e es ih =>
    intro b b' o hwf hi h
    simp only [run_handler] at h
    cases hpub : pub b e with
    | none => simp [hpub] at h
    | some r =>
      obtain ⟨c, b1, o1⟩ := r
      cases hrest : run_handler pub b1 es with
      | none => simp [hpub, hrest] at h
      | some r2 =>
        obtain ⟨b2, o2⟩ := r2
        simp only [hpub, hrest, Option.some.injEq, Prod.mk.injEq] at h
        obtain ⟨-, rfl⟩ := h
        obtain ⟨-, e1, -⟩ := hp b e _ hwf hi hpub
        intro B hB
        rcases List.mem_cons.mp hB with rfl | hB
        · obtain ⟨Bc, k1, k2, k3⟩ := hb b B _ hwf hi hpub
          exact ⟨Bc, k1, List.mem_append_left _ k2,
            k3.imp (List.mem_append_left _) (List.mem_append_left _)⟩
        · obtain ⟨Bc, k1, k2, k3⟩ := ih b1 b2 o2 e1.wf (by rw [e1.init]; exact hi) hrest B hB
          exact ⟨Bc, k1, List.mem_append_right _ k2,
            k3.imp (List.mem_append_right _) (List.mem_append_right _)⟩

theorem invoke_block (pub : PublishFn) (hp : PubSpec pub)
    (hb : ∀ b e r, BusWF b → b.is_initialized ≠ 0 → pub b e = some r →
      ∃ ec, IsCopy e ec ∧ BusObs.published e ec ∈ r.2.2 ∧
        (BusObs.enqueued ec ∈ r.2.2 ∨ BusObs.dropped ec ∈ r.2.2))
    (b b' : AegisDomainEventBus) (k p : Nat) (sub : AegisEventSubscription)
    (e : AegisDomainEvent) (r : AegisEventHandlerResult) (o : List BusObs)
    (h : DomainEventHandler) (hwf : BusWF b) (hi : b.is_initialized ≠ 0)
    (hd : b.recursion_depth < MAX_EVENT_RECURSION_DEPTH) (hh : sub.handler = some h)
    (hinv : invoke_handler_with_recursion pub b k p sub e = some (r, b', o)) :
    BusObs.call k p e b.recursion_depth (h e sub.ctx).result ∈ o ∧
      ∀ B ∈ (h e sub.ctx).publishes, ∃ Bc, IsCopy B Bc ∧ BusObs.published B Bc ∈ o ∧
        (BusObs.enqueued Bc ∈ o ∨ BusObs.dropped Bc ∈ o) := by
  rw [invoke_run pub b k p sub e h hh hd] at hinv
  cases hrun : run_handler pub { b with recursion_depth := (b.recursion_depth + 1) % 256 }
      (h e sub.ctx).publishes with
  | none => simp [hrun] at hinv
  | some r2 =>
    obtain ⟨b2, o2⟩ := r2
    simp only [hrun, Option.some.injEq, Prod.mk.injEq] at hinv
    obtain ⟨-, -, rfl⟩ := hinv
    refine ⟨List.mem_cons_self _ _, fun B hB => ?_⟩
    obtain ⟨Bc, k1, k2, k3⟩ := run_handler_block pub hp hb _
      { b with recursion_depth := (b.recursion_depth + 1) % 256 } b2 o2 (busWF_depth b _ hwf) hi
      hrun B hB
    exact ⟨Bc, k1, List.mem_cons_of_mem _ k2,
      k3.imp (List.mem_cons_of_mem _) (List.mem_cons_of_mem _)⟩

/-- A dispatch that visits the index of an eligible subscription with a
handler, below the recursion limit, calls the handler, and every event the
handler publishes is observed as a publication of a copy followed by the
enqueue or the drop of that copy. -/
theorem dispatch_loop_block (pub : PublishFn) (hp : PubSpec pub)
    (hb : ∀ b e r, BusWF b → b.is_initialized ≠ 0 → pub b e = some r →
      ∃ ec, IsCopy e ec ∧ BusObs.published e ec ∈ r.2.2 ∧
        (BusObs.enqueued ec ∈ r.2.2 ∨ BusObs.dropped ec ∈ r.2.2))
    (e : AegisDomainEvent) (p d : Nat) (tbl : List AegisEventSubscription)
    (hd : d < MAX_EVENT_RECURSION_DEPTH) (i : Nat) (sub : AegisEventSubscription)
    (h : DomainEventHandler) (hsub : tbl[i]? = some sub) (hm : sub_matches p e sub = true)
    (hh : sub.handler = some h) (idxs : List Nat) :
    ∀ b n n' b' o, BusWF b → b.is_initialized ≠ 0 → b.recursion_depth = d →
      b.subscriptions.getD [] = tbl → i ∈ idxs →
      dispatch_loop pub e p idxs b n = some (n', b', o) →
      BusObs.call i p e d (h e sub.ctx).result ∈ o ∧
        ∀ B ∈ (h e sub.ctx).publishes, ∃ Bc, IsCopy B Bc ∧ BusObs.published B Bc ∈ o ∧
          (BusObs.enqueued Bc ∈ o ∨ BusObs.dropped Bc ∈ o) := by
  obtain ⟨m1, m2⟩ := (sub_matches_iff p e sub).mp hm
  induction idxs with
  | nil =>
    intro b n n' b' o _ _ _ _ hi
    exact absurd hi (List.not_mem_nil _)
  | cons k rest ih =>
    intro b n n' b' o hwf hi hdb htbl hmem hrun
    simp only [dispatch_loop] at hrun
    by_cases hki : k = i
    · subst hki
      rw [htbl, hsub] at hrun
      simp only [if_neg m1, if_neg m2] at hrun
      cases hinv : invoke_handler_with_recursion pub b k p sub e with
      | none => simp [hinv] at hrun
      | some r =>
        obtain ⟨res, b1, o1⟩ := r
        simp only [hinv] at hrun
        cases hrest : dispatch_loop pub e p rest
            (if res = AegisEventHandlerResult.EVENT_HANDLER_ERROR then
              bus_trace_log b1 TRACE_EVENT_APP_ERROR "REQ-EVENT-009" e.type k
            else b1)
            (if res = AegisEventHandlerResult.EVENT_HANDLER_OK then (n + 1) % 256 else n) with
        | none => simp [hrest] at hrun
        | some r3 =>
          obtain ⟨n3, b3, o3⟩ := r3
          simp only [hrest, Option.some.injEq, Prod.mk.injEq] at hrun
          obtain ⟨-, -, rfl⟩ := hrun
          obtain ⟨k0, kk⟩ := invoke_block pub hp hb b b1 k p sub e res o1 h hwf hi
            (by rw [hdb]; exact hd) hh hinv
          rw [hdb] at k0
          refine ⟨List.mem_append_left _ k0, fun B hB => ?_⟩
          obtain ⟨Bc, k1, k2, k3⟩ := kk B hB
          exact ⟨Bc, k1, List.mem_append_left _ k2,
            k3.imp (List.mem_append_left _) (List.mem_append_left _)⟩
    · have hmem2 : i ∈ rest := by
        rcases List.mem_cons.mp hmem with h0 | h0
        · exact absurd h0.symm hki
        · exact h0
      cases hsubk : (b.subscriptions.getD [])[k]? with
      | none =>
        simp only [hsubk] at hrun
        exact ih b n n' b' o hwf hi hdb htbl hmem2 hrun
      | some subk =>
        simp only [hsubk] at hrun
        by_cases h1 : subk.is_sync ≠ p
        · rw [if_pos h1] at hrun
          exact ih b n n' b' o hwf hi hdb htbl hmem2 hrun
        · rw [if_neg h1] at hrun
          by_cases h2 : subk.event_type ≠ 0 ∧ subk.event_type ≠ e.type
          · rw [if_pos h2] at hrun
            exact ih b n n' b' o hwf hi hdb htbl hmem2 hrun
          · rw [if_neg h2] at hrun
            cases hinv : invoke_handler_with_recursion pub b k p subk e with
            | none => simp [hinv] at hrun
            | some r =>
              obtain ⟨res, b1, o1⟩ := r
              simp only [hinv] at hrun
              obtain ⟨e1, -⟩ := invoke_spec pub hp b b1 k p subk e res o1 hwf hi hinv
              have e2 : Eff b1
                  (if res = AegisEventHandlerResult.EVENT_HANDLER_ERROR then
                    bus_trace_log b1 TRACE_EVENT_APP_ERROR "REQ-EVENT-009" e.type k
                  else b1) [] := by
                split
                · exact Eff.trace_log b1 [] _ _ _ _ e1.wf rfl rfl rfl rfl (by simp) (by simp)
                · exact Eff.refl b1 e1.wf
              cases hrest : dispatch_loop pub e p rest
                  (if res = AegisEventHandlerResult.EVENT_HANDLER_ERROR then
                    bus_trace_log b1 TRACE_EVENT_APP_ERROR "REQ-EVENT-009" e.type k
                  else b1)
                  (if res = AegisEventHandlerResult.EVENT_HANDLER_OK then (n + 1) % 256
                    else n) with
              | none => simp [hrest] at hrun
              | some r3 =>
                obtain ⟨n3, b3, o3⟩ := r3
                simp only [hrest, Option.some.injEq, Prod.mk.injEq] at hrun
                obtain ⟨-, -, rfl⟩ := hrun
                obtain ⟨k0, kk⟩ := ih _ _ n3 b3 o3 e2.wf (by rw [e2.init, e1.init]; exact hi)
                  (by rw [e2.depth, e1.depth]; exact hdb)
                  (by rw [e2.subs, e1.subs]; exact htbl) hmem2 hrest
                refine ⟨List.mem_append_right _ k0, fun B hB => ?_⟩
                obtain ⟨Bc, k1, k2, k3⟩ := kk B hB
                exact ⟨Bc, k1, List.mem_append_right _ k2,
                  k3.imp (List.mem_append_right _) (List.mem_append_right _)⟩

/-- The handler calls a process loop makes itself: each dequeued event goes,
in the order of dequeueing, to the eligible asynchronous subscriptions in
table order. -/
theorem process_loop_calls (pub : PublishFn) (hp : PubSpec pub) (max : Nat)
    (tbl : List AegisEventSubscription) (cnt : Nat) :
    ∀ fuel b ev processed n b' o, BusWF b → b.is_initialized ≠ 0 → b.recursion_depth = 0 →
      b.subscriptions.getD [] = tbl → b.subscription_count = cnt →
      process_loop pub max fuel b ev processed = some (n, b', o) →
      calls_at 0 o =
        (obs_dequeued o).flatMap fun e => (eligible tbl cnt FALSE e).map fun i => (i, e) := by
  intro fuel
  induction fuel with
  | zero =>
    intro b ev processed n b' o _ _ _ _ _ h
    simp [process_loop] at h
  | succ fuel ih =>
    intro b ev processed n b' o hwf hi hd htbl hcnt h
    simp only [process_loop] at h
    by_cases hc : processed < max ∨ max = 0
    · rw [if_pos hc] at h
      cases hpend : pending_events b with
      | nil =>
        have g1 := hwf.1
        rw [hpend] at g1
        rw [dequeue_none b ev g1] at h
        simp only at h
        rw [if_pos (by decide)] at h
        simp only [Option.some.injEq, Prod.mk.injEq] at h
        obtain ⟨-, -, rfl⟩ := h
        rfl
      | cons e rest =>
        have g := hwf
        obtain ⟨g1, g2, g3, g4, g5, g6, g7, g8, g9, g10⟩ := g
        rw [hpend] at g1
        obtain ⟨q1, q2⟩ := dequeue_some b e ev rest g1
        obtain ⟨bD, hbD⟩ : ∃ bD : AegisDomainEventBus, bD =
            { b with
              async_queue := (aegis_ring_buffer_read b.async_queue (some (event_bytes ev))
                sizeof_AegisDomainEvent).2.1 } := ⟨_, rfl⟩
        rw [← hbD] at q1
        have hqD : QueueWF bD.async_queue rest := by rw [hbD]; exact q2
        have hpD : pending_events bD = rest := queueWF_pending bD rest hqD
        have hwfD : BusWF bD :=
          ⟨by rw [hpD]; exact hqD, by rw [hbD]; exact g2, by rw [hbD]; exact g3,
            by rw [hbD]; exact g4, by rw [hbD]; exact g5, by rw [hbD]; exact g6,
            by rw [hbD]; exact g7, by rw [hbD]; exact g8, by rw [hbD]; exact g9,
            by rw [hbD]; exact g10⟩
        have hiD : bD.is_initialized ≠ 0 := by rw [hbD]; exact hi
        have hfix : bD = { b with async_queue := bD.async_queue } := by rw [hbD]
        rw [q1] at h
        simp only at h
        rw [if_neg (by simp)] at h
        cases hdis : dispatch_to_subscribers pub bD e FALSE with
        | none => simp [hdis] at h
        | some r =>
          obtain ⟨k, b1, o1⟩ := r
          simp only [hdis] at h
          obtain ⟨e1, c1⟩ := dispatch_spec pub hp e FALSE bD b1 k o1 hwfD hiD hdis
          have e2 := Eff.dequeued b bD b1 e rest o1 k hpend hpD hfix e1
          have hcalls := dispatch_loop_calls pub hp e FALSE 0 tbl (by rw [max_depth_eq]; decide)
            (List.range bD.subscription_count) bD 0 k b1 o1 hwfD hiD (by rw [hbD]; exact hd)
            (by rw [hbD]; exact htbl) hdis
          have hcD : bD.subscription_count = cnt := by rw [hbD]; exact hcnt
          rw [hcD, ← eligible_eq] at hcalls
          cases hrest : process_loop pub max fuel
              { b1 with
                async_handled := (b1.async_handled + k) % 4294967296
                total_processed := (b1.total_processed + 1) % 4294967296 }
              e ((processed + 1) % 256) with
          | none => simp [hrest] at h
          | some r3 =>
            obtain ⟨n3, b3, o3⟩ := r3
            simp only [hrest, Option.some.injEq, Prod.mk.injEq] at h
            obtain ⟨-, -, rfl⟩ := h
            have e3 := ih _ _ _ n3 b3 o3 e2.wf (by rw [e2.init]; exact hi)
              (by rw [e2.depth]; exact hd) (by rw [e2.subs]; exact htbl)
              (by rw [e2.cnt]; exact hcnt) hrest
            show calls_at 0 ([BusObs.dequeued e] ++ (o1 ++ o3)) =
              (obs_dequeued ([BusObs.dequeued e] ++ (o1 ++ o3))).flatMap _
            rw [calls_at_append, calls_at_append, obs_dequeued_append, obs_dequeued_append,
              c1.1, hcalls, e3]
            rfl
    · rw [if_neg hc] at h
      simp only [Option.some.injEq, Prod.mk.injEq] at h
      obtain ⟨-, -, rfl⟩ := h
      rfl

theorem hist_recent (P H : List AegisDomainEvent) (n j : Nat) (h1 : j < P.length)
    (h2 : j < n) : ((P.reverse ++ H).take n)[j]? = P[P.length - 1 - j]? := by
  rw [List.getElem?_take_of_lt h2, List.getElem?_append_left (by rw [List.length_reverse]; exact h1),
    List.getElem?_reverse h1]

set_option maxRecDepth 100000 in
theorem wrap_publish_eval :
    (aegis_domain_event_publish 4 wrap_bus demo_event).map
      (fun r => (r.1, (obs_published r.2.2).map AegisDomainEvent.event_id,
        (obs_enqueued r.2.2).map AegisDomainEvent.event_id, obs_dropped r.2.2)) =
      some (ERR_OK, [65535, 0], [0, 65535], []) := by
  decide

set_option maxRecDepth 1000000 in
set_option maxHeartbeats 4000000 in
theorem crowd_publish_eval :
    (aegis_domain_event_publish 4 crowd_bus demo_event).map
      (fun r => (r.1, (obs_published r.2.2).map AegisDomainEvent.event_id,
        (obs_enqueued r.2.2).map AegisDomainEvent.event_id, obs_dropped r.2.2)) =
      some (ERR_OK, [1, 2, 3, 4, 5, 6, 7, 8, 9, 10, 11, 12, 13, 14, 15, 16, 17],
        [2, 3, 4, 5, 6, 7, 8, 9, 10, 11, 12, 13, 14, 15, 16, 17, 1], []) := by
  decide

set_option maxRecDepth 1000000 in
set_option maxHeartbeats 4000000 in
theorem crowd_history_eval :
    (aegis_domain_event_publish 4 crowd_bus demo_event).map
      (fun r => (List.range 17).map fun i =>
        (aegis_domain_event_get_history r.2.1 i).map AegisDomainEvent.event_id) =
      some [some 17, some 16, some 15, some 14, some 13, some 12, some 11, some 10, some 9,
        some 8, some 7, some 6, some 5, some 4, some 3, some 2, none] := by
  decide

/-! ## Publish calls and the history they leave -/

theorem call_events_publishes (es : List AegisDomainEvent) :
    call_events (es.map BusCall.publish) = es := by
  induction es with
  | nil => rfl
  | cons e es ih => simp only [List.map_cons, call_events, ih]

/-- Every publish call of a run on an initialised bus is observed: the events
handed to the top-level publish calls are, in call order, among the events
`publish` was entered with. -/
theorem bus_run_inputs (fuel : Nat) (cs : List BusCall) :
    ∀ b rs b' o, BusWF b → b.is_initialized ≠ 0 → bus_run fuel b cs = some (rs, b', o) →
      List.Sublist (call_events cs) (obs_inputs o) := by
  induction cs with
  | nil =>
    intro b rs b' o _ _ _
    exact List.nil_sublist _
  | cons c cs ih =>
    intro b rs b' o hwf hi h
    cases c with
    | publish e =>
      simp only [bus_run] at h
      cases hpub : aegis_domain_event_publish fuel b e with
      | none => simp [hpub] at h
      | some r =>
        obtain ⟨c1, b1, o1⟩ := r
        obtain ⟨-, e1, -⟩ := publish_spec fuel b e _ hwf hi hpub
        obtain ⟨mid, hmid⟩ := publish_shape fuel b b1 e c1 o1 hwf hi hpub
        cases hrest : bus_run fuel b1 cs with
        | none => simp [hpub, hrest] at h
        | some r2 =>
          obtain ⟨rs2, b2, o2⟩ := r2
          simp only [hpub, hrest, Option.some.injEq, Prod.mk.injEq] at h
          obtain ⟨-, -, rfl⟩ := h
          have i1 := ih b1 rs2 b2 o2 e1.wf (by rw [e1.init]; exact hi) hrest
          rw [hmid]
          simp only [call_events, List.cons_append, obs_inputs, List.append_eq,
            obs_inputs_append]
          exact List.Sublist.cons₂ _ (i1.trans (List.sublist_append_right _ _))
    | process m =>
      simp only [bus_run] at h
      cases hpr : aegis_domain_event_process fuel b m with
      | none => simp [hpr] at h
      | some r =>
        obtain ⟨n1, b1, o1⟩ := r
        have e1 := process_spec fuel b b1 m n1 o1 hwf hpr
        cases hrest : bus_run fuel b1 cs with
        | none => simp [hpr, hrest] at h
        | some r2 =>
          obtain ⟨rs2, b2, o2⟩ := r2
          simp only [hpr, hrest, Option.some.injEq, Prod.mk.injEq] at h
          obtain ⟨-, -, rfl⟩ := h
          have i1 := ih b1 rs2 b2 o2 e1.wf (by rw [e1.init]; exact hi) hrest
          simp only [call_events, obs_inputs_append]
          exact i1.trans (List.sublist_append_right _ _)

/-- Entry `k` of two lists paired by `IsCopy`. -/
theorem copies_getElem? (es cs : List AegisDomainEvent) (h : List.Forall₂ IsCopy es cs) :
    ∀ k, k < es.length → ∃ e c, es[k]? = some e ∧ cs[k]? = some c ∧ IsCopy e c := by
  induction h with
  | nil =>
    intro k hk
    exact absurd hk (Nat.not_lt_zero _)
  | cons hx _ ih =>
    intro k hk
    cases k with
    | zero => exact ⟨_, _, List.getElem?_cons_zero, List.getElem?_cons_zero, hx⟩
    | succ k =>
      obtain ⟨e, c, h1, h2, h3⟩ := ih k (by simpa using hk)
      exact ⟨e, c, by simpa using h1, by simpa using h2, h3⟩

/-- The history after `es` were published, one call each, on a bus whose
history was empty and whose synchronous handlers do not publish: entry `i`
below `min |es| 16` is the copy of the event of the `(|es| - i)`-th call and
carries the identifier that call assigned; later entries are absent. -/
theorem publish_run_history (fuel : Nat) (tbl : List AegisEventSubscription)
    (hq : ∀ ev, QuietFor tbl TRUE ev) (es : List AegisDomainEvent) (b : AegisDomainEventBus)
    (hwf : BusWF b) (hi : b.is_initialized ≠ 0) (hd : b.recursion_depth < MAX_EVENT_RECURSION_DEPTH)
    (htbl : b.subscriptions.getD [] = tbl) (hh : hist_list b = []) :
    ∃ b' o, bus_run (fuel + 1) b (es.map BusCall.publish) =
        some (List.replicate es.length (BusRet.code ERR_OK), b', o) ∧
      obs_inputs o = es ∧ (obs_published o).length = es.length ∧
      (∀ i, i < min es.length DOMAIN_EVENT_HISTORY_SIZE →
        ∃ e c, es[es.length - 1 - i]? = some e ∧ aegis_domain_event_get_history b' i = some c ∧
          IsCopy e c ∧ c.event_id = (b.next_event_id + (es.length - 1 - i)) % 65536) ∧
      ∀ i, min es.length DOMAIN_EVENT_HISTORY_SIZE ≤ i →
        aegis_domain_event_get_history b' i = none := by
  obtain ⟨b', o, hrun, e1, i1, i2, -⟩ := publish_run_quiet fuel tbl hq es b hwf hi hd htbl
  have hcp := copies_paired o e1.copies
  rw [i1] at hcp
  have hget : ∀ i, aegis_domain_event_get_history b' i =
      if i < min (obs_published o).length DOMAIN_EVENT_HISTORY_SIZE then
        (obs_published o)[(obs_published o).length - 1 - i]?
      else none := by
    intro i
    rw [get_history_eq b' i (by rw [e1.init]; exact hi) e1.wf.2.1, e1.hist, hh, List.append_nil]
    exact newest_first_getElem? _ _ i
  refine ⟨b', o, hrun, i1, i2, ?_, ?_⟩
  · intro i hlt
    obtain ⟨e, c, h1, h2, h3⟩ := copies_getElem? es _ hcp (es.length - 1 - i) (by omega)
    refine ⟨e, c, h1, ?_, h3, published_ids o b.next_event_id e1.ids _ c h2⟩
    rw [hget i, i2, if_pos hlt, h2]
  · intro i hge
    rw [hget i, i2, if_neg (by omega)]

/-! ## Deliveries to asynchronous subscriptions -/

theorem obs_async_calls_append (a b : List BusObs) :
    obs_async_calls (a ++ b) = obs_async_calls a ++ obs_async_calls b := by
  induction a with
  | nil => rfl
  | cons x a ih =>
    cases x with
    | call i p e d r =>
      by_cases hp : p = FALSE
      · show obs_async_calls (BusObs.call i p e d r :: (a ++ b)) = _
        simp only [obs_async_calls, if_pos hp, ih, List.cons_append]
      · show obs_async_calls (BusObs.call i p e d r :: (a ++ b)) = _
        simp only [obs_async_calls, if_neg hp, ih]
    | published _ _ => simpa only [List.cons_append, obs_async_calls] using ih
    | refused _ _ _ _ => simpa only [List.cons_append, obs_async_calls] using ih
    | enqueued _ => simpa only [List.cons_append, obs_async_calls] using ih
    | dropped _ => simpa only [List.cons_append, obs_async_calls] using ih
    | dequeued _ => simpa only [List.cons_append, obs_async_calls] using ih

/-- Observations whose handler calls all belong to the synchronous dispatch
hold no asynchronous delivery. -/
theorem obs_async_calls_sync (o : List BusObs)
    (h : ∀ i p ev d res, BusObs.call i p ev d res ∈ o → p = TRUE) : obs_async_calls o = [] := by
  induction o with
  | nil => rfl
  | cons x o ih =>
    have ih2 := ih fun i p ev d res hm => h i p ev d res (List.mem_cons_of_mem _ hm)
    cases x with
    | call i p e d r =>
      have hp : p = TRUE := h i p e d r (List.mem_cons_self _ _)
      subst hp
      simp only [obs_async_calls]
      rw [if_neg (by decide)]
      exact ih2
    | published _ _ => exact ih2
    | refused _ _ _ _ => exact ih2
    | enqueued _ => exact ih2
    | dropped _ => exact ih2
    | dequeued _ => exact ih2

theorem invoke_async (pub : PublishFn)
    (hs : ∀ b e r, pub b e = some r → ∀ i p ev d res, BusObs.call i p ev d res ∈ r.2.2 → p = TRUE)
    (b b' : AegisDomainEventBus) (i : Nat) (sub : AegisEventSubscription)
    (e : AegisDomainEvent) (r : AegisEventHandlerResult) (o : List BusObs)
    (hd : b.recursion_depth < MAX_EVENT_RECURSION_DEPTH)
    (h : invoke_handler_with_recursion pub b i FALSE sub e = some (r, b', o)) :
    obs_async_calls o = if sub.handler.isSome then [(i, e)] else [] := by
  unfold invoke_handler_with_recursion at h
  cases hh : sub.handler with
  | none =>
    simp only [hh, Option.some.injEq, Prod.mk.injEq] at h
    obtain ⟨-, -, rfl⟩ := h
    rfl
  | some handler =>
    simp only [hh] at h
    rw [if_neg (by omega)] at h
    cases hrun : run_handler pub { b with recursion_depth := (b.recursion_depth + 1) % 256 }
        (handler e sub.ctx).publishes with
    | none => simp [hrun] at h
    | some r2 =>
      obtain ⟨b2, o2⟩ := r2
      simp only [hrun, Option.some.injEq, Prod.mk.injEq] at h
      obtain ⟨-, -, rfl⟩ := h
      have hnest := obs_async_calls_sync o2 (run_handler_sync pub hs _ _ b2 o2 hrun)
      simp only [obs_async_calls, if_pos, hnest, Option.isSome_some]

/-- The asynchronous dispatch of `e` below the recursion limit delivers `e` to
the eligible asynchronous subscriptions, in table order, and to nothing else. -/
theorem dispatch_loop_async (pub : PublishFn) (hp : PubSpec pub)
    (hs : ∀ b e r, pub b e = some r → ∀ i p ev d res, BusObs.call i p ev d res ∈ r.2.2 → p = TRUE)
    (e : AegisDomainEvent) (d : Nat) (tbl : List AegisEventSubscription)
    (hd : d < MAX_EVENT_RECURSION_DEPTH) (idxs : List Nat) :
    ∀ b n n' b' o, BusWF b → b.is_initialized ≠ 0 → b.recursion_depth = d →
      b.subscriptions.getD [] = tbl → dispatch_loop pub e FALSE idxs b n = some (n', b', o) →
      obs_async_calls o = (idxs.filter (eligible_at tbl FALSE e)).map fun i => (i, e) := by
  induction idxs with
  | nil =>
    intro b n n' b' o _ _ _ _ h
    simp only [dispatch_loop, Option.some.injEq, Prod.mk.injEq] at h
    obtain ⟨-, -, rfl⟩ := h
    rfl
  | cons i rest ih =>
    intro b n n' b' o hwf hi hdb htbl h
    simp only [dispatch_loop] at h
    rw [htbl] at h
    cases hsub : tbl[i]? with
    | none =>
      simp only [hsub] at h
      rw [List.filter_cons_of_neg (by simp [eligible_at, hsub])]
      exact ih b n n' b' o hwf hi hdb htbl h
    | some sub =>
      simp only [hsub] at h
      by_cases h1 : sub.is_sync ≠ FALSE
      · rw [if_pos h1] at h
        have hm : sub_matches FALSE e sub = false := by
          rw [Bool.eq_false_iff]
          intro hc
          exact ((sub_matches_iff FALSE e sub).mp hc).1 h1
        rw [List.filter_cons_of_neg (by simp [eligible_at, hsub, hm])]
        exact ih b n n' b' o hwf hi hdb htbl h
      · rw [if_neg h1] at h
        by_cases h2 : sub.event_type ≠ 0 ∧ sub.event_type ≠ e.type
        · rw [if_pos h2] at h
          have hm : sub_matches FALSE e sub = false := by
            rw [Bool.eq_false_iff]
            intro hc
            exact ((sub_matches_iff FALSE e sub).mp hc).2 h2
          rw [List.filter_cons_of_neg (by simp [eligible_at, hsub, hm])]
          exact ih b n n' b' o hwf hi hdb htbl h
        · rw [if_neg h2] at h
          have hm : sub_matches FALSE e sub = true := (sub_matches_iff FALSE e sub).mpr ⟨h1, h2⟩
          cases hinv : invoke_handler_with_recursion pub b i FALSE sub e with
          | none => simp [hinv] at h
          | some r =>
            obtain ⟨res, b1, o1⟩ := r
            simp only [hinv] at h
            obtain ⟨e1, -⟩ := invoke_spec pub hp b b1 i FALSE sub e res o1 hwf hi hinv
            have hc1 := invoke_async pub hs b b1 i sub e res o1 (by rw [hdb]; exact hd) hinv
            have e2 : Eff b1
                (if res = AegisEventHandlerResult.EVENT_HANDLER_ERROR then
                  bus_trace_log b1 TRACE_EVENT_APP_ERROR "REQ-EVENT-009" e.type i
                else b1) [] := by
              split
              · exact Eff.trace_log b1 [] _ _ _ _ e1.wf rfl rfl rfl rfl (by simp) (by simp)
              · exact Eff.refl b1 e1.wf
            cases hrest : dispatch_loop pub e FALSE rest
                (if res = AegisEventHandlerResult.EVENT_HANDLER_ERROR then
                  bus_trace_log b1 TRACE_EVENT_APP_ERROR "REQ-EVENT-009" e.type i
                else b1)
                (if res = AegisEventHandlerResult.EVENT_HANDLER_OK then (n + 1) % 256 else n) with
            | none => simp [hrest] at h
            | some r3 =>
              obtain ⟨n3, b3, o3⟩ := r3
              simp only [hrest, Option.some.injEq, Prod.mk.injEq] at h
              obtain ⟨-, -, rfl⟩ := h
              have hc3 := ih _ _ n3 b3 o3 e2.wf (by rw [e2.init, e1.init]; exact hi)
                (by rw [e2.depth, e1.depth]; exact hdb)
                (by rw [e2.subs, e1.subs]; exact htbl) hrest
              rw [obs_async_calls_append, hc1, hc3]
              cases hh : sub.handler with
              | none =>
                rw [List.filter_cons_of_neg (by simp [eligible_at, hsub, hm, hh])]
                simp
              | some hdl =>
                rw [List.filter_cons_of_pos (by simp [eligible_at, hsub, hm, hh])]
                simp

/-- The deliveries of a process loop: each dequeued event goes, in the order
of dequeueing, to the eligible asynchronous subscriptions in table order, and
no asynchronous handler is called otherwise. -/
theorem process_loop_async (pub : PublishFn) (hp : PubSpec pub)
    (hs : ∀ b e r, pub b e = some r → ∀ i p ev d res, BusObs.call i p ev d res ∈ r.2.2 → p = TRUE)
    (max : Nat) (tbl : List AegisEventSubscription) (cnt : Nat) :
    ∀ fuel b ev processed n b' o, BusWF b → b.is_initialized ≠ 0 → b.recursion_depth = 0 →
      b.subscriptions.getD [] = tbl → b.subscription_count = cnt →
      process_loop pub max fuel b ev processed = some (n, b', o) →
      obs_async_calls o =
        (obs_dequeued o).flatMap fun e => (eligible tbl cnt FALSE e).map fun i => (i, e) := by
  intro fuel
  induction fuel with
  | zero =>
    intro b ev processed n b' o _ _ _ _ _ h
    simp [process_loop] at h
  | succ fuel ih =>
    intro b ev processed n b' o hwf hi hd htbl hcnt h
    simp only [process_loop] at h
    by_cases hc : processed < max ∨ max = 0
    · rw [if_pos hc] at h
      cases hpend : pending_events b with
      | nil =>
        have g1 := hwf.1
        rw [hpend] at g1
        rw [dequeue_none b ev g1] at h
        simp only at h
        rw [if_pos (by decide)] at h
        simp only [Option.some.injEq, Prod.mk.injEq] at h
        obtain ⟨-, -, rfl⟩ := h
        rfl
      | cons e rest =>
        have g := hwf
        obtain ⟨g1, g2, g3, g4, g5, g6, g7, g8, g9, g10⟩ := g
        rw [hpend] at g1
        obtain ⟨q1, q2⟩ := dequeue_some b e ev rest g1
        obtain ⟨bD, hbD⟩ : ∃ bD : AegisDomainEventBus, bD =
            { b with
              async_queue := (aegis_ring_buffer_read b.async_queue (some (event_bytes ev))
                sizeof_AegisDomainEvent).2.1 } := ⟨_, rfl⟩
        rw [← hbD] at q1
        have hqD : QueueWF bD.async_queue rest := by rw [hbD]; exact q2
        have hpD : pending_events bD = rest := queueWF_pending bD rest hqD
        have hwfD : BusWF bD :=
          ⟨by rw [hpD]; exact hqD, by rw [hbD]; exact g2, by rw [hbD]; exact g3,
            by rw [hbD]; exact g4, by rw [hbD]; exact g5, by rw [hbD]; exact g6,
            by rw [hbD]; exact g7, by rw [hbD]; exact g8, by rw [hbD]; exact g9,
            by rw [hbD]; exact g10⟩
        have hiD : bD.is_initialized ≠ 0 := by rw [hbD]; exact hi
        have hfix : bD = { b with async_queue := bD.async_queue } := by rw [hbD]
        rw [q1] at h
        simp only at h
        rw [if_neg (by simp)] at h
        cases hdis : dispatch_to_subscribers pub bD e FALSE with
        | none => simp [hdis] at h
        | some r =>
          obtain ⟨k, b1, o1⟩ := r
          simp only [hdis] at h
          obtain ⟨e1, c1⟩ := dispatch_spec pub hp e FALSE bD b1 k o1 hwfD hiD hdis
          have e2 := Eff.dequeued b bD b1 e rest o1 k hpend hpD hfix e1
          have hcalls := dispatch_loop_async pub hp hs e 0 tbl (by rw [max_depth_eq]; decide)
            (List.range bD.subscription_count) bD 0 k b1 o1 hwfD hiD (by rw [hbD]; exact hd)
            (by rw [hbD]; exact htbl) hdis
          have hcD : bD.subscription_count = cnt := by rw [hbD]; exact hcnt
          rw [hcD, ← eligible_eq] at hcalls
          cases hrest : process_loop pub max fuel
              { b1 with
                async_handled := (b1.async_handled + k) % 4294967296
                total_processed := (b1.total_processed + 1) % 4294967296 }
              e ((processed + 1) % 256) with
          | none => simp [hrest] at h
          | some r3 =>
            obtain ⟨n3, b3, o3⟩ := r3
            simp only [hrest, Option.some.injEq, Prod.mk.injEq] at h
            obtain ⟨-, -, rfl⟩ := h
            have e3 := ih _ _ _ n3 b3 o3 e2.wf (by rw [e2.init]; exact hi)
              (by rw [e2.depth]; exact hd) (by rw [e2.subs]; exact htbl)
              (by rw [e2.cnt]; exact hcnt) hrest
            show obs_async_calls ([BusObs.dequeued e] ++ (o1 ++ o3)) =
              (obs_dequeued ([BusObs.dequeued e] ++ (o1 ++ o3))).flatMap _
            rw [obs_async_calls_append, obs_async_calls_append, obs_dequeued_append,
              obs_dequeued_append, c1.1, hcalls, e3]
            rfl
    · rw [if_neg hc] at h
      simp only [Option.some.injEq, Prod.mk.injEq] at h
      obtain ⟨-, -, rfl⟩ := h
      rfl

/-- The deliveries of a run of top-level calls: asynchronous handlers are
called only by `process`, for each dequeued event in the order of dequeueing,
the eligible asynchronous subscriptions in table order. -/
theorem bus_run_async (fuel : Nat) (tbl : List AegisEventSubscription) (cnt : Nat)
    (cs : List BusCall) :
    ∀ b rs b' o, BusWF b → b.is_initialized ≠ 0 → b.recursion_depth = 0 →
      b.subscriptions.getD [] = tbl → b.subscription_count = cnt →
      bus_run fuel b cs = some (rs, b', o) →
      obs_async_calls o =
        (obs_dequeued o).flatMap fun e => (eligible tbl cnt FALSE e).map fun i => (i, e) := by
  induction cs with
  | nil =>
    intro b rs b' o _ _ _ _ _ h
    simp only [bus_run, Option.some.injEq, Prod.mk.injEq] at h
    obtain ⟨-, -, rfl⟩ := h
    rfl
  | cons c cs ih =>
    intro b rs b' o hwf hi hd htbl hcnt h
    cases c with
    | publish e =>
      simp only [bus_run] at h
      cases hpub : aegis_domain_event_publish fuel b e with
      | none => simp [hpub] at h
      | some r =>
        obtain ⟨c1, b1, o1⟩ := r
        obtain ⟨-, e1, c2⟩ := publish_spec fuel b e _ hwf hi hpub
        simp only at e1 c2
        have hnone := obs_async_calls_sync o1 (publish_sync fuel b e _ hpub)
        cases hrest : bus_run fuel b1 cs with
        | none => simp [hpub, hrest] at h
        | some r2 =>
          obtain ⟨rs2, b2, o2⟩ := r2
          simp only [hpub, hrest, Option.some.injEq, Prod.mk.injEq] at h
          obtain ⟨-, -, rfl⟩ := h
          have i1 := ih b1 rs2 b2 o2 e1.wf (by rw [e1.init]; exact hi)
            (by rw [e1.depth]; exact hd) (by rw [e1.subs]; exact htbl)
            (by rw [e1.cnt]; exact hcnt) hrest
          rw [obs_async_calls_append, obs_dequeued_append, hnone, c2.1, i1]
          rfl
    | process m =>
      simp only [bus_run] at h
      cases hpr : aegis_domain_event_process fuel b m with
      | none => simp [hpr] at h
      | some r =>
        obtain ⟨n1, b1, o1⟩ := r
        have e1 := process_spec fuel b b1 m n1 o1 hwf hpr
        have hpr2 := hpr
        unfold aegis_domain_event_process at hpr2
        rw [if_neg hi] at hpr2
        have hdel := process_loop_async _ (publish_spec fuel) (publish_sync fuel) m tbl cnt fuel
          b zero_event 0 n1 b1 o1 hwf hi hd htbl hcnt hpr2
        cases hrest : bus_run fuel b1 cs with
        | none => simp [hpr, hrest] at h
        | some r2 =>
          obtain ⟨rs2, b2, o2⟩ := r2
          simp only [hpr, hrest, Option.some.injEq, Prod.mk.injEq] at h
          obtain ⟨-, -, rfl⟩ := h
          have i1 := ih b1 rs2 b2 o2 e1.wf (by rw [e1.init]; exact hi)
            (by rw [e1.depth]; exact hd) (by rw [e1.subs]; exact htbl)
            (by rw [e1.cnt]; exact hcnt) hrest
          rw [obs_async_calls_append, obs_dequeued_append, hdel, i1, List.flatMap_append]

/-- A publish enqueues its event after its synchronous dispatch: when a
synchronous handler running for the copy `Ac` of `A` publishes `B` and neither
copy is dropped, a copy `Bc` of `B` is published after `Ac` and enqueued before
it, `Ac` being the last entry the call appends to the queue. -/
theorem nested_enqueue_order (fuel : Nat) (b b' : AegisDomainEventBus)
    (A B : AegisDomainEvent) (c : AegisErrorCode) (o : List BusObs) (i : Nat)
    (sub : AegisEventSubscription) (h : DomainEventHandler)
    (hwf : BusWF b) (hi : b.is_initialized ≠ 0)
    (hd : b.recursion_depth < MAX_EVENT_RECURSION_DEPTH)
    (hsub : (b.subscriptions.getD [])[i]? = some sub) (hic : i < b.subscription_count)
    (hm : sub_matches TRUE (publish_enter b A).1 sub = true) (hh : sub.handler = some h)
    (hB : B ∈ (h (publish_enter b A).1 sub.ctx).publishes)
    (hrun : aegis_domain_event_publish fuel b A = some (c, b', o))
    (hfitA : (publish_enter b A).1 ∉ obs_dropped o)
    (hfitB : ∀ Bc, IsCopy B Bc → Bc ∉ obs_dropped o) :
    ∃ Bc k q1 q2, IsCopy B Bc ∧ (obs_published o)[0]? = some (publish_enter b A).1 ∧ 0 < k ∧
      (obs_published o)[k]? = some Bc ∧
      obs_enqueued o = q1 ++ Bc :: q2 ++ [(publish_enter b A).1] ∧
      pending_events b' = pending_events b ++ q1 ++ Bc :: q2 ++ [(publish_enter b A).1] := by
  obtain ⟨f, n, b4, mid, rfl, hdis, ho⟩ := publish_parts fuel b b' A c o hwf hi hrun
  have e1 := publish_enter_eff b A hwf
  have hroom : (pending_events b).length + (obs_enqueued mid).length <
      DOMAIN_EVENT_QUEUE_SIZE := by
    by_contra hno
    rw [if_neg hno] at ho
    have hmem : BusObs.dropped (publish_enter b A).1 ∈ o := by
      rw [ho]
      simp
    exact hfitA (mem_obs_dropped o _ hmem)
  rw [if_pos hroom] at ho
  have hmid : ∀ x ∈ mid, x ∈ o := fun x hx => by
    rw [ho]
    exact List.mem_cons_of_mem _ (List.mem_append_left _ hx)
  unfold dispatch_to_subscribers at hdis
  obtain ⟨-, hblock⟩ := dispatch_loop_block _ (publish_spec f) (publish_block f)
    (publish_enter b A).1 TRUE b.recursion_depth (b.subscriptions.getD []) hd i sub h hsub hm hh
    (List.range (publish_enter b A).2.subscription_count) (publish_enter b A).2 0 n b4 mid
    e1.wf (by rw [e1.init]; exact hi) e1.depth (by rw [e1.subs])
    (by rw [e1.cnt]; exact List.mem_range.mpr hic) hdis
  obtain ⟨Bc, hcopy, hpubB, henqB⟩ := hblock B hB
  have henqB2 : BusObs.enqueued Bc ∈ mid := by
    rcases henqB with h1 | h1
    · exact h1
    · exact absurd (mem_obs_dropped o _ (hmid _ h1)) (hfitB Bc hcopy)
  obtain ⟨q1, q2, hq⟩ := List.append_of_mem (mem_obs_enqueued mid Bc henqB2)
  obtain ⟨k0, hk0⟩ := List.mem_iff_getElem?.mp (mem_obs_published mid B Bc hpubB)
  have hP : obs_published o = (publish_enter b A).1 :: obs_published mid := by
    rw [ho]
    show obs_published ([BusObs.published A (publish_enter b A).1] ++
      (mid ++ [BusObs.enqueued (publish_enter b A).1])) = _
    rw [obs_published_append, obs_published_append]
    simp [obs_published]
  have hE : obs_enqueued o = obs_enqueued mid ++ [(publish_enter b A).1] := by
    rw [ho]
    show obs_enqueued ([BusObs.published A (publish_enter b A).1] ++
      (mid ++ [BusObs.enqueued (publish_enter b A).1])) = _
    rw [obs_enqueued_append, obs_enqueued_append]
    simp [obs_enqueued]
  refine ⟨Bc, k0 + 1, q1, q2, hcopy, ?_, Nat.succ_pos _, ?_, ?_, ?_⟩
  · rw [hP, List.getElem?_cons_zero]
  · rw [hP, List.getElem?_cons_succ]
    exact hk0
  · rw [hE, hq]
  · rw [publish_pending (f + 1) b b' A c o hwf hi hrun, hE, hq]
    simp

/-- A process call without a budget on a bus whose asynchronous handlers do
not publish dequeues and dispatches all the pending events. -/
theorem drain_quiet (fuel : Nat) (tbl : List AegisEventSubscription) (b : AegisDomainEventBus)
    (hwf : BusWF b) (hi : b.is_initialized ≠ 0) (hd : b.recursion_depth = 0)
    (htbl : b.subscriptions.getD [] = tbl) (hq : ∀ ev, QuietFor tbl FALSE ev)
    (hf : (pending_events b).length + 1 ≤ fuel) (hlen : (pending_events b).length < 256) :
    ∃ b', aegis_domain_event_process fuel b 0 =
      some ((pending_events b).length, b',
        process_obs tbl b.subscription_count (pending_events b)) := by
  have hpc : process_count 0 0 (pending_events b).length = (pending_events b).length := by
    unfold process_count
    rw [if_pos rfl]
  obtain ⟨b', hpl, -⟩ := process_loop_quiet (aegis_domain_event_publish fuel) tbl 0 fuel
    (pending_events b) b zero_event 0 hwf hd htbl rfl (fun ev _ => hq ev)
    (by rw [hpc]; exact hf) (by rw [hpc]; omega)
  rw [hpc, Nat.zero_add, List.take_of_length_le (le_refl _)] at hpl
  refine ⟨b', ?_⟩
  unfold aegis_domain_event_process
  rw [if_neg hi]
  exact hpl

theorem bus_run_append (fuel : Nat) (cs1 cs2 : List BusCall) :
    ∀ b rs1 b1 o1 rs2 b2 o2, bus_run fuel b cs1 = some (rs1, b1, o1) →
      bus_run fuel b1 cs2 = some (rs2, b2, o2) →
      bus_run fuel b (cs1 ++ cs2) = some (rs1 ++ rs2, b2, o1 ++ o2) := by
  induction cs1 with
  | nil =>
    intro b rs1 b1 o1 rs2 b2 o2 h1 h2
    simp only [bus_run, Option.some.injEq, Prod.mk.injEq] at h1
    obtain ⟨rfl, rfl, rfl⟩ := h1
    exact h2
  | cons c cs1 ih =>
    intro b rs1 b1 o1 rs2 b2 o2 h1 h2
    cases c with
    | publish e =>
      simp only [bus_run] at h1
      cases hpub : aegis_domain_event_publish fuel b e with
      | none => simp [hpub] at h1
      | some r =>
        obtain ⟨c1, bm, om⟩ := r
        cases hrest : bus_run fuel bm cs1 with
        | none => simp [hpub, hrest] at h1
        | some r2 =>
          obtain ⟨rs3, b3, o3⟩ := r2
          simp only [hpub, hrest, Option.some.injEq, Prod.mk.injEq] at h1
          obtain ⟨rfl, rfl, rfl⟩ := h1
          have i1 := ih bm rs3 b3 o3 rs2 b2 o2 hrest h2
          show bus_run fuel b (BusCall.publish e :: (cs1 ++ cs2)) = _
          simp only [bus_run, hpub, i1, List.cons_append, List.append_assoc]
    | process m =>
      simp only [bus_run] at h1
      cases hpr : aegis_domain_event_process fuel b m with
      | none => simp [hpr] at h1
      | some r =>
        obtain ⟨n1, bm, om⟩ := r
        cases hrest : bus_run fuel bm cs1 with
        | none => simp [hpr, hrest] at h1
        | some r2 =>
          obtain ⟨rs3, b3, o3⟩ := r2
          simp only [hpr, hrest, Option.some.injEq, Prod.mk.injEq] at h1
          obtain ⟨rfl, rfl, rfl⟩ := h1
          have i1 := ih bm rs3 b3 o3 rs2 b2 o2 hrest h2
          show bus_run fuel b (BusCall.process m :: (cs1 ++ cs2)) = _
          simp only [bus_run, hpr, i1, List.cons_append, List.append_assoc]

set_option maxRecDepth 100000 in
theorem mixed_publish_eval :
    (aegis_domain_event_publish 4 mixed_bus demo_event).map
      (fun r => (r.1, (obs_published r.2.2).map AegisDomainEvent.event_id,
        (obs_enqueued r.2.2).map AegisDomainEvent.event_id, obs_dropped r.2.2)) =
      some (ERR_OK, [1, 2], [2, 1], []) := by
  decide

theorem mixed_async_quiet (ev : AegisDomainEvent) : QuietFor mixed_table FALSE ev := by
  intro sub hs hm h hh
  simp only [mixed_table, List.mem_cons, List.mem_singleton, List.not_mem_nil, or_false] at hs
  rcases hs with rfl | rfl
  · simp [sub_matches, nest_entry, TRUE, FALSE] at hm
  · simp only [Option.some.injEq] at hh
    subst hh
    rfl

theorem mixed_eligible (e : AegisDomainEvent) : eligible mixed_table 2 FALSE e = [1] := by
  simp [eligible, eligible_at, mixed_table, nest_entry, sub_matches, TRUE, FALSE, List.range,
    List.range.loop]

theorem fanout_async_quiet (ev : AegisDomainEvent) : QuietFor fanout_table FALSE ev :=
  noPublish_quiet _ fanout_quiet FALSE ev

theorem fanout_eligible (e : AegisDomainEvent) (h : e.type = 1) :
    eligible fanout_table 4 FALSE e = [3] := by
  simp [eligible, eligible_at, fanout_table, sub_matches, TRUE, FALSE, List.range,
    List.range.loop, h]

/-- When every event of `l` has the one eligible asynchronous subscription `j`,
the deliveries of `l` are the events of `l`, each to `j`. -/
theorem deliveries_single (tbl : List AegisEventSubscription) (cnt j : Nat)
    (l : List AegisDomainEvent) (h : ∀ e ∈ l, eligible tbl cnt FALSE e = [j]) :
    (l.flatMap fun e => (eligible tbl cnt FALSE e).map fun i => (i, e)) =
      l.map fun e => (j, e) := by
  induction l with
  | nil => rfl
  | cons e l ih =>
    rw [List.flatMap_cons, h e (List.mem_cons_self _ _),
      ih fun x hx => h x (List.mem_cons_of_mem _ hx)]
    rfl


/-! ## Claims about the zero-copy interface, bounds and clear -/

/-- C24 (zero-copy regions): on a ring that satisfies the invariant,
`aegis_ring_buffer_get_write_ptr` returns `min(size - count, size - head)` and
designates offset `head` of the backing array when that length is positive,
`NULL` when it is 0, which happens exactly when the ring is full;
`aegis_ring_buffer_get_read_ptr` returns `min(count, size - tail)` and
designates offset `tail` when that length is positive, `NULL` when it is 0,
which happens exactly when the ring is empty.  Both functions only read the
ring: they return no new ring state. -/
theorem zero_copy_regions (rb : AegisRingBuffer) (h : RingWF rb) :
    aegis_ring_buffer_get_write_ptr rb true =
        (min (rb.size - rb.count) (rb.size - rb.head),
          if 0 < min (rb.size - rb.count) (rb.size - rb.head) then some rb.head else none) ∧
      aegis_ring_buffer_get_read_ptr rb true =
        (min rb.count (rb.size - rb.tail),
          if 0 < min rb.count (rb.size - rb.tail) then some rb.tail else none) ∧
      ((aegis_ring_buffer_get_write_ptr rb true).1 = 0 ↔ rb.count = rb.size) ∧
      ((aegis_ring_buffer_get_read_ptr rb true).1 = 0 ↔ rb.count = 0) := by
  obtain ⟨hs, -, hc, hh, ht⟩ := h
  have hfree : (rb.size + 65536 - rb.count) % 65536 = rb.size - rb.count := by omega
  have hend : (rb.size + 65536 - rb.head) % 65536 = rb.size - rb.head := by omega
  have hendt : (rb.size + 65536 - rb.tail) % 65536 = rb.size - rb.tail := by omega
  have hw : aegis_ring_buffer_get_write_ptr rb true =
      (min (rb.size - rb.count) (rb.size - rb.head),
        if 0 < min (rb.size - rb.count) (rb.size - rb.head) then some rb.head else none) := by
    simp only [aegis_ring_buffer_get_write_ptr, hfree, hend, MIN_eq_min]
    rw [if_neg (by decide)]
    by_cases hp : min (rb.size - rb.count) (rb.size - rb.head) > 0
    · rw [if_pos hp, if_pos hp]
    · rw [if_neg hp, if_neg hp]
  have hr : aegis_ring_buffer_get_read_ptr rb true =
      (min rb.count (rb.size - rb.tail),
        if 0 < min rb.count (rb.size - rb.tail) then some rb.tail else none) := by
    simp only [aegis_ring_buffer_get_read_ptr, hendt, MIN_eq_min]
    rw [if_neg (by decide)]
    by_cases hp : min rb.count (rb.size - rb.tail) > 0
    · rw [if_pos hp, if_pos hp]
    · rw [if_neg hp, if_neg hp]
  refine ⟨hw, hr, ?_, ?_⟩
  · rw [hw]
    constructor <;> intro hx <;> simp only at hx ⊢ <;> omega
  · rw [hr]
    constructor <;> intro hx <;> simp only at hx ⊢ <;> omega

theorem zero_copy_regions_witness :
    aegis_ring_buffer_get_write_ptr ring_wrapped true =
        (min (ring_wrapped.size - ring_wrapped.count) (ring_wrapped.size - ring_wrapped.head),
          if 0 < min (ring_wrapped.size - ring_wrapped.count)
              (ring_wrapped.size - ring_wrapped.head) then
            some ring_wrapped.head
          else none) ∧
      aegis_ring_buffer_get_read_ptr ring_wrapped true =
        (min ring_wrapped.count (ring_wrapped.size - ring_wrapped.tail),
          if 0 < min ring_wrapped.count (ring_wrapped.size - ring_wrapped.tail) then
            some ring_wrapped.tail
          else none) ∧
      ((aegis_ring_buffer_get_write_ptr ring_wrapped true).1 = 0 ↔
        ring_wrapped.count = ring_wrapped.size) ∧
      ((aegis_ring_buffer_get_read_ptr ring_wrapped true).1 = 0 ↔ ring_wrapped.count = 0) :=
  zero_copy_regions ring_wrapped (by decide)

/-- C25 (commit): on a ring that satisfies the invariant,
`aegis_ring_buffer_commit_write(len)` with `len ≤ size - count` returns
`ERR_OK`, sets `head` to `(head + len) mod size` and `count` to `count + len`
and leaves `tail`, `size` and the backing array as they were, and with
`len > size - count` it returns `ERR_OUT_OF_RANGE` and leaves the ring as it
was; `aegis_ring_buffer_commit_read(len)` with `len ≤ count` returns `ERR_OK`,
sets `tail` to `(tail + len) mod size` and `count` to `count - len` and leaves
`head`, `size` and the backing array as they were, and with `len > count` it
returns `ERR_OUT_OF_RANGE` and leaves the ring as it was. -/
theorem commit_advances (rb : AegisRingBuffer) (len : Nat) (h : RingWF rb) :
    (len ≤ rb.size - rb.count →
        aegis_ring_buffer_commit_write rb len =
          (ERR_OK, { rb with head := (rb.head + len) % rb.size, count := rb.count + len })) ∧
      (len > rb.size - rb.count →
        aegis_ring_buffer_commit_write rb len = (ERR_OUT_OF_RANGE, rb)) ∧
      (len ≤ rb.count →
        aegis_ring_buffer_commit_read rb len =
          (ERR_OK, { rb with tail := (rb.tail + len) % rb.size, count := rb.count - len })) ∧
      (len > rb.count → aegis_ring_buffer_commit_read rb len = (ERR_OUT_OF_RANGE, rb)) := by
  obtain ⟨hs, -, hc, hh, ht⟩ := h
  have hpos : 0 < rb.size := by omega
  refine ⟨fun hl => ?_, fun hl => ?_, fun hl => ?_, fun hl => ?_⟩
  · have hl2 : len + rb.count ≤ rb.size := by omega
    have hcnt : (rb.count + len) % 65536 = rb.count + len := by omega
    have hcmp : ¬ (len : Int) > (rb.size : Int) - (rb.count : Int) := by omega
    unfold aegis_ring_buffer_commit_write
    rw [if_neg hcmp, mod_mod_u16 _ _ hpos hs, hcnt]
  · have hl2 : rb.size < len + rb.count := by omega
    have hcmp : (len : Int) > (rb.size : Int) - (rb.count : Int) := by omega
    unfold aegis_ring_buffer_commit_write
    rw [if_pos hcmp]
  · have hcnt : (rb.count + 65536 - len) % 65536 = rb.count - len := by omega
    unfold aegis_ring_buffer_commit_read
    rw [if_neg (by omega), mod_mod_u16 _ _ hpos hs, hcnt]
  · unfold aegis_ring_buffer_commit_read
    rw [if_pos hl]

theorem commit_advances_witness :
    (2 ≤ ring_wrapped.size - ring_wrapped.count →
        aegis_ring_buffer_commit_write ring_wrapped 2 =
          (ERR_OK,
            { ring_wrapped with
              head := (ring_wrapped.head + 2) % ring_wrapped.size
              count := ring_wrapped.count + 2 })) ∧
      (2 > ring_wrapped.size - ring_wrapped.count →
        aegis_ring_buffer_commit_write ring_wrapped 2 = (ERR_OUT_OF_RANGE, ring_wrapped)) ∧
      (2 ≤ ring_wrapped.count →
        aegis_ring_buffer_commit_read ring_wrapped 2 =
          (ERR_OK,
            { ring_wrapped with
              tail := (ring_wrapped.tail + 2) % ring_wrapped.size
              count := ring_wrapped.count - 2 })) ∧
      (2 > ring_wrapped.count →
        aegis_ring_buffer_commit_read ring_wrapped 2 = (ERR_OUT_OF_RANGE, ring_wrapped)) :=
  commit_advances ring_wrapped 2 (by decide)

/-- C26 (no overrun of the backing array): on a ring that satisfies the
invariant and whose backing array has `size` cells, `put`, `get`, `write` and
`read` with checked array accesses never take the out-of-bounds branch,
whatever their arguments: `put` and `get` succeed with the results of the
unchecked functions, and so do `write` and `read` of `len` bytes from or into a
caller array of at least `len` cells, for both segments of a wrapped transfer.
Hence every offset into the backing array lies in `[0, size)` and every offset
into the caller's array in `[0, len)`. -/
theorem no_overrun (rb : AegisRingBuffer) (h : RingWF rb) :
    (∀ d, aegis_ring_buffer_put_checked rb d = some (aegis_ring_buffer_put rb d)) ∧
      (∀ d, aegis_ring_buffer_get_checked rb d = some (aegis_ring_buffer_get rb d)) ∧
      (∀ data len, len ≤ data.length →
        aegis_ring_buffer_write_checked rb (some data) len =
          some (aegis_ring_buffer_write rb (some data) len)) ∧
      (∀ data len, len ≤ data.length →
        aegis_ring_buffer_read_checked rb (some data) len =
          some (aegis_ring_buffer_read rb (some data) len)) ∧
      (∀ len, aegis_ring_buffer_write_checked rb none len =
        some (aegis_ring_buffer_write rb none len)) ∧
      ∀ len, aegis_ring_buffer_read_checked rb none len =
        some (aegis_ring_buffer_read rb none len) :=
  ⟨fun d => put_checked_eq rb d h, fun d => get_checked_eq rb d h,
    fun data len hl => write_checked_eq rb data len h hl,
    fun data len hl => read_checked_eq rb data len h hl, fun _ => rfl, fun _ => rfl⟩

theorem no_overrun_witness :
    (∀ d, aegis_ring_buffer_put_checked ring_wrapped d =
        some (aegis_ring_buffer_put ring_wrapped d)) ∧
      (∀ d, aegis_ring_buffer_get_checked ring_wrapped d =
        some (aegis_ring_buffer_get ring_wrapped d)) ∧
      (∀ data len, len ≤ data.length →
        aegis_ring_buffer_write_checked ring_wrapped (some data) len =
          some (aegis_ring_buffer_write ring_wrapped (some data) len)) ∧
      (∀ data len, len ≤ data.length →
        aegis_ring_buffer_read_checked ring_wrapped (some data) len =
          some (aegis_ring_buffer_read ring_wrapped (some data) len)) ∧
      (∀ len, aegis_ring_buffer_write_checked ring_wrapped none len =
        some (aegis_ring_buffer_write ring_wrapped none len)) ∧
      ∀ len, aegis_ring_buffer_read_checked ring_wrapped none len =
        some (aegis_ring_buffer_read ring_wrapped none len) :=
  no_overrun ring_wrapped (by decide)

/-- C27 (ring clear): for every ring, `aegis_ring_buffer_clear` sets `head`,
`tail` and `count` to 0 and leaves `size` and the backing array, every byte of
it, as they were; afterwards `get_count` is 0, `get_free` is `size` (a
`uint16_t`), and a read of any length into any array returns 0 and changes
neither the ring nor the array. -/
theorem ring_clear_frame (rb : AegisRingBuffer) (hs : rb.size < 65536) :
    (aegis_ring_buffer_clear rb).head = 0 ∧ (aegis_ring_buffer_clear rb).tail = 0 ∧
      (aegis_ring_buffer_clear rb).count = 0 ∧ (aegis_ring_buffer_clear rb).size = rb.size ∧
      (aegis_ring_buffer_clear rb).buffer = rb.buffer ∧
      aegis_ring_buffer_get_count (aegis_ring_buffer_clear rb) = 0 ∧
      aegis_ring_buffer_get_free (aegis_ring_buffer_clear rb) = rb.size ∧
      ring_contents (aegis_ring_buffer_clear rb) = [] ∧
      ∀ data len,
        aegis_ring_buffer_read (aegis_ring_buffer_clear rb) data len =
          (0, aegis_ring_buffer_clear rb, data) := by
  refine ⟨rfl, rfl, rfl, rfl, rfl, rfl, ?_, rfl, fun data len => ?_⟩
  · show (rb.size + 65536 - 0) % 65536 = rb.size
    omega
  · cases data with
    | none => rfl
    | some d =>
      simp only [aegis_ring_buffer_read, aegis_ring_buffer_clear, MIN_eq_min]
      split
      · rfl
      · rw [if_neg (by omega)]
        simp

theorem ring_clear_frame_witness :
    (aegis_ring_buffer_clear ring_wrapped).head = 0 ∧
      (aegis_ring_buffer_clear ring_wrapped).tail = 0 ∧
      (aegis_ring_buffer_clear ring_wrapped).count = 0 ∧
      (aegis_ring_buffer_clear ring_wrapped).size = ring_wrapped.size ∧
      (aegis_ring_buffer_clear ring_wrapped).buffer = ring_wrapped.buffer ∧
      aegis_ring_buffer_get_count (aegis_ring_buffer_clear ring_wrapped) = 0 ∧
      aegis_ring_buffer_get_free (aegis_ring_buffer_clear ring_wrapped) = ring_wrapped.size ∧
      ring_contents (aegis_ring_buffer_clear ring_wrapped) = [] ∧
      ∀ data len,
        aegis_ring_buffer_read (aegis_ring_buffer_clear ring_wrapped) data len =
          (0, aegis_ring_buffer_clear ring_wrapped, data) :=
  ring_clear_frame ring_wrapped (by decide)


/-! ## Claims about the recursion counter, guards, clear, timestamps and initialisation -/

/-- C21 (recursion depth invariant): after `aegis_domain_event_bus_init`
succeeded the counter is 0, and for every sequence of top-level publish and
process calls that returns, with any handlers: `recursion_depth` is 0 again
and `aegis_domain_event_get_recursion_depth` returns 0; every handler was
called with the counter below `MAX_EVENT_RECURSION_DEPTH` before the increment
(so it ran at a depth of at most 3), and every refusal happened at depth 3
exactly.  For one invocation on a well-formed initialised bus whose counter is
at most 3: at 3 it is refused, no handler runs and only the trace log of the
bus can differ afterwards; below 3 the handler runs on the bus with the
counter one higher, the counter is one higher when the handler's publishes are
done, and the invocation leaves the counter at its entry value.  A publish or
process call that returns leaves the counter at its value at entry.  A
sequence of publishes always returns. -/
theorem recursion_depth_invariant (fuel : Nat) (storage : AegisDomainEventBus)
    (trace : Option AegisTraceLog) (subs : Option (List AegisEventSubscription)) (count : Nat)
    (cs : List BusCall)
    (hinit : (aegis_domain_event_bus_init storage trace subs count).1 = ERR_OK)
    (ht : TraceWF trace) :
    (aegis_domain_event_bus_init storage trace subs count).2.recursion_depth = 0 ∧
      (∀ rs b' o,
        bus_run fuel (aegis_domain_event_bus_init storage trace subs count).2 cs =
            some (rs, b', o) →
          b'.recursion_depth = 0 ∧ aegis_domain_event_get_recursion_depth b' = 0 ∧
          (∀ c ∈ obs_calls o, c.2.2.1 + 1 ≤ MAX_EVENT_RECURSION_DEPTH) ∧
          ∀ c ∈ obs_refused o, c.2.2 = MAX_EVENT_RECURSION_DEPTH) ∧
      (∀ (b b2 : AegisDomainEventBus) (i p : Nat) (sub : AegisEventSubscription)
          (e : AegisDomainEvent) (handler : DomainEventHandler) (r : AegisEventHandlerResult)
          (o2 : List BusObs),
        BusWF b → b.is_initialized ≠ 0 → b.recursion_depth ≤ MAX_EVENT_RECURSION_DEPTH →
        sub.handler = some handler →
        invoke_handler_with_recursion (aegis_domain_event_publish fuel) b i p sub e =
            some (r, b2, o2) →
          b2.recursion_depth = b.recursion_depth ∧
          (b.recursion_depth = MAX_EVENT_RECURSION_DEPTH →
            r = AegisEventHandlerResult.EVENT_HANDLER_ERROR ∧
            o2 = [BusObs.refused i p e MAX_EVENT_RECURSION_DEPTH] ∧
            { b2 with trace := b.trace } = b ∧ (b.trace = none → b2 = b)) ∧
          (b.recursion_depth < MAX_EVENT_RECURSION_DEPTH →
            ∃ b3 o3,
              run_handler (aegis_domain_event_publish fuel)
                  { b with recursion_depth := b.recursion_depth + 1 }
                  (handler e sub.ctx).publishes = some (b3, o3) ∧
                b3.recursion_depth = b.recursion_depth + 1 ∧
                b2 = { b3 with recursion_depth := b.recursion_depth } ∧
                r = (handler e sub.ctx).result ∧
                o2 = BusObs.call i p e b.recursion_depth r :: o3)) ∧
      (∀ (b : AegisDomainEventBus) (e : AegisDomainEvent)
          (r : AegisErrorCode × AegisDomainEventBus × List BusObs),
        BusWF b → aegis_domain_event_publish fuel b e = some r →
          r.2.1.recursion_depth = b.recursion_depth) ∧
      (∀ (b : AegisDomainEventBus) (m : Nat) (r : Nat × AegisDomainEventBus × List BusObs),
        BusWF b → aegis_domain_event_process fuel b m = some r →
          r.2.1.recursion_depth = b.recursion_depth) ∧
      (∀ es : List AegisDomainEvent, cs = es.map BusCall.publish →
        MAX_EVENT_RECURSION_DEPTH + 1 ≤ fuel →
        ∃ b' o,
          bus_run fuel (aegis_domain_event_bus_init storage trace subs count).2 cs =
            some (List.replicate es.length (BusRet.code ERR_OK), b', o)) := by
  obtain ⟨h1, h2⟩ := bus_init_ok storage trace subs count hinit
  obtain ⟨hwf, -, -⟩ := bus_init_wf storage trace subs count h1 h2 ht
  obtain ⟨f1, f2, -⟩ := bus_init_fields storage trace subs count h1 h2
  have hi : (aegis_domain_event_bus_init storage trace subs count).2.is_initialized ≠ 0 := by
    rw [f1]
    decide
  have hM := max_depth_eq
  refine ⟨f2, ?_, ?_, ?_, ?_, ?_⟩
  · intro rs b' o hrun
    have e1 := bus_run_spec fuel cs _ rs b' o hwf hi hrun
    have hd0 : b'.recursion_depth = 0 := by rw [e1.depth, f2]
    refine ⟨hd0, hd0, fun c hc => ?_, fun c hc => ?_⟩
    · obtain ⟨p, hp⟩ := mem_obs_calls o c hc
      have := e1.depths _ hp
      simp only [ObsDepthOK] at this
      omega
    · obtain ⟨p, hp⟩ := mem_obs_refused o c hc
      exact bus_run_refusals fuel cs _ rs b' o hwf hi (by rw [f2]; omega) hrun _ _ _ _ hp
  · intro b b2 i p sub e handler r o2 hwfb hib hdb hh hinv
    obtain ⟨e1, -⟩ := invoke_spec _ (publish_spec fuel) b b2 i p sub e r o2 hwfb hib hinv
    refine ⟨e1.depth, fun hmax => ?_, fun hlt => ?_⟩
    · unfold invoke_handler_with_recursion at hinv
      simp only [hh] at hinv
      rw [if_pos (by omega)] at hinv
      simp only [Option.some.injEq, Prod.mk.injEq] at hinv
      obtain ⟨rfl, rfl, rfl⟩ := hinv
      refine ⟨rfl, by rw [hmax], rfl, fun hn => ?_⟩
      simp only [bus_trace_log, hn, aegis_trace_log_event]
      rw [← hn]
    · unfold invoke_handler_with_recursion at hinv
      simp only [hh] at hinv
      rw [if_neg (by omega)] at hinv
      have hmod : (b.recursion_depth + 1) % 256 = b.recursion_depth + 1 := by omega
      rw [hmod] at hinv
      cases hrun : run_handler (aegis_domain_event_publish fuel)
          { b with recursion_depth := b.recursion_depth + 1 } (handler e sub.ctx).publishes with
      | none => simp [hrun] at hinv
      | some x =>
        obtain ⟨b3, o3⟩ := x
        simp only [hrun, Option.some.injEq, Prod.mk.injEq] at hinv
        obtain ⟨rfl, rfl, rfl⟩ := hinv
        obtain ⟨e3, -⟩ := run_handler_spec _ (publish_spec fuel) _ _ b3 o3
          (busWF_depth b (b.recursion_depth + 1) hwfb) hib hrun
        have hd3 : b3.recursion_depth = b.recursion_depth + 1 := e3.depth
        refine ⟨b3, o3, rfl, hd3, ?_, rfl, rfl⟩
        rw [hd3]
        have : (b.recursion_depth + 1 + 255) % 256 = b.recursion_depth := by omega
        rw [this]
  · intro b e r hwfb hpub
    by_cases hib : b.is_initialized = 0
    · cases fuel with
      | zero => simp [aegis_domain_event_publish] at hpub
      | succ f =>
        simp only [aegis_domain_event_publish, publish_body] at hpub
        rw [if_pos hib] at hpub
        simp only [Option.some.injEq] at hpub
        subst hpub
        rfl
    · exact (publish_spec fuel b e r hwfb hib hpub).2.1.depth
  · intro b m r hwfb hpr
    obtain ⟨n, b1, o1⟩ := r
    exact (process_spec fuel b b1 m n o1 hwfb hpr).depth
  · intro es hcs hf
    rw [hcs]
    exact publish_run_total fuel hf es _ hwf hi

theorem recursion_depth_invariant_witness :
    (aegis_domain_event_bus_init storage_bus none (some reentrant_table) 1).2.recursion_depth
        = 0 ∧
      (∀ rs b' o,
        bus_run 4 (aegis_domain_event_bus_init storage_bus none (some reentrant_table) 1).2
            (List.replicate 2 (BusCall.publish demo_event)) = some (rs, b', o) →
          b'.recursion_depth = 0 ∧ aegis_domain_event_get_recursion_depth b' = 0 ∧
          (∀ c ∈ obs_calls o, c.2.2.1 + 1 ≤ MAX_EVENT_RECURSION_DEPTH) ∧
          ∀ c ∈ obs_refused o, c.2.2 = MAX_EVENT_RECURSION_DEPTH) ∧
      (∀ (b b2 : AegisDomainEventBus) (i p : Nat) (sub : AegisEventSubscription)
          (e : AegisDomainEvent) (handler : DomainEventHandler) (r : AegisEventHandlerResult)
          (o2 : List BusObs),
        BusWF b → b.is_initialized ≠ 0 → b.recursion_depth ≤ MAX_EVENT_RECURSION_DEPTH →
        sub.handler = some handler →
        invoke_handler_with_recursion (aegis_domain_event_publish 4) b i p sub e =
            some (r, b2, o2) →
          b2.recursion_depth = b.recursion_depth ∧
          (b.recursion_depth = MAX_EVENT_RECURSION_DEPTH →
            r = AegisEventHandlerResult.EVENT_HANDLER_ERROR ∧
            o2 = [BusObs.refused i p e MAX_EVENT_RECURSION_DEPTH] ∧
            { b2 with trace := b.trace } = b ∧ (b.trace = none → b2 = b)) ∧
          (b.recursion_depth < MAX_EVENT_RECURSION_DEPTH →
            ∃ b3 o3,
              run_handler (aegis_domain_event_publish 4)
                  { b with recursion_depth := b.recursion_depth + 1 }
                  (handler e sub.ctx).publishes = some (b3, o3) ∧
                b3.recursion_depth = b.recursion_depth + 1 ∧
                b2 = { b3 with recursion_depth := b.recursion_depth } ∧
                r = (handler e sub.ctx).result ∧
                o2 = BusObs.call i p e b.recursion_depth r :: o3)) ∧
      (∀ (b : AegisDomainEventBus) (e : AegisDomainEvent)
          (r : AegisErrorCode × AegisDomainEventBus × List BusObs),
        BusWF b → aegis_domain_event_publish 4 b e = some r →
          r.2.1.recursion_depth = b.recursion_depth) ∧
      (∀ (b : AegisDomainEventBus) (m : Nat) (r : Nat × AegisDomainEventBus × List BusObs),
        BusWF b → aegis_domain_event_process 4 b m = some r →
          r.2.1.recursion_depth = b.recursion_depth) ∧
      (∀ es : List AegisDomainEvent,
        List.replicate 2 (BusCall.publish demo_event) = es.map BusCall.publish →
        MAX_EVENT_RECURSION_DEPTH + 1 ≤ 4 →
        ∃ b' o,
          bus_run 4 (aegis_domain_event_bus_init storage_bus none (some reentrant_table) 1).2
              (List.replicate 2 (BusCall.publish demo_event)) =
            some (List.replicate es.length (BusRet.code ERR_OK), b', o)) :=
  recursion_depth_invariant 4 storage_bus none (some reentrant_table) 1
    (List.replicate 2 (BusCall.publish demo_event)) (by decide) (fun _ h => nomatch h)

/-- The operations that check the flag: on a bus whose flag `is_initialized`
is `FALSE`, whatever its other fields hold, publish returns
`ERR_NOT_INITIALIZED`, process returns 0, `get_stats` and `clear_queue` return
`ERR_NOT_INITIALIZED` and `get_history` returns `NULL`; none of them calls a
handler or changes the bus. -/
theorem uninitialised_guards (fuel : Nat) (b : AegisDomainEventBus) (e : AegisDomainEvent)
    (m i : Nat) (h : b.is_initialized = 0) :
    aegis_domain_event_publish (fuel + 1) b e = some (ERR_NOT_INITIALIZED, b, []) ∧
      aegis_domain_event_process fuel b m = some (0, b, []) ∧
      aegis_domain_event_get_stats b = (ERR_NOT_INITIALIZED, none) ∧
      aegis_domain_event_clear_queue b = (ERR_NOT_INITIALIZED, b) ∧
      aegis_domain_event_get_history b i = none := by
  refine ⟨publish_uninitialised fuel b e h, ?_, ?_, ?_, ?_⟩
  · unfold aegis_domain_event_process
    rw [if_pos h]
  · unfold aegis_domain_event_get_stats
    rw [if_pos h]
  · unfold aegis_domain_event_clear_queue
    rw [if_pos h]
  · unfold aegis_domain_event_get_history
    rw [if_pos h]

/-- C22 (uninitialised bus fails fast), the code at the failing input: on
`stale_bus`, a bus object that was never initialised (`is_initialized` is
`FALSE`) and whose field `recursion_depth` holds a leftover 5, publish returns
`ERR_NOT_INITIALIZED`, process returns 0, `get_stats` and `clear_queue` return
`ERR_NOT_INITIALIZED` and `get_history` returns `NULL`, all leaving the bus as
it is, but `aegis_domain_event_get_recursion_depth`, which checks only for a
`NULL` bus, returns 5: a depth taken from the uninitialised state. -/
theorem uninitialised_depth_reported :
    stale_bus.is_initialized = FALSE ∧ stale_bus.recursion_depth = 5 ∧
      aegis_domain_event_publish 4 stale_bus demo_event =
        some (ERR_NOT_INITIALIZED, stale_bus, []) ∧
      aegis_domain_event_process 3 stale_bus 0 = some (0, stale_bus, []) ∧
      aegis_domain_event_get_stats stale_bus = (ERR_NOT_INITIALIZED, none) ∧
      aegis_domain_event_clear_queue stale_bus = (ERR_NOT_INITIALIZED, stale_bus) ∧
      aegis_domain_event_get_history stale_bus 0 = none ∧
      aegis_domain_event_get_recursion_depth stale_bus = 5 :=
  ⟨rfl, rfl, (uninitialised_guards 3 stale_bus demo_event 0 0 rfl).1,
    (uninitialised_guards 3 stale_bus demo_event 0 0 rfl).2.1,
    (uninitialised_guards 3 stale_bus demo_event 0 0 rfl).2.2.1,
    (uninitialised_guards 3 stale_bus demo_event 0 0 rfl).2.2.2.1,
    (uninitialised_guards 3 stale_bus demo_event 0 0 rfl).2.2.2.2, rfl⟩

/-- C28 (bus clear_queue frame): on every initialised bus
`aegis_domain_event_clear_queue` returns `ERR_OK` and changes the async queue
only, whose `head`, `tail` and `count` become 0: the history (entries, head,
count), the counters `total_published`, `total_processed`, `sync_handled`,
`async_handled` and `dropped_events`, `next_event_id`, `recursion_depth`, the
subscription table, the flag and the log are as before.  Afterwards no event is
pending, `get_stats` reports 0 pending events, and a following process, with
any limit, returns 0, observes no handler call and leaves the bus as it is, so
the discarded events are never delivered.  The representation invariant of the
bus is kept. -/
theorem clear_queue_frame (fuel : Nat) (b : AegisDomainEventBus) (m : Nat)
    (hi : b.is_initialized ≠ 0) :
    aegis_domain_event_clear_queue b =
        (ERR_OK, { b with async_queue := aegis_ring_buffer_clear b.async_queue }) ∧
      (aegis_domain_event_clear_queue b).2.async_queue.count = 0 ∧
      pending_events (aegis_domain_event_clear_queue b).2 = [] ∧
      aegis_domain_event_get_stats (aegis_domain_event_clear_queue b).2 =
        (ERR_OK, some (0, b.total_processed)) ∧
      aegis_domain_event_process (fuel + 1) (aegis_domain_event_clear_queue b).2 m =
        some (0, (aegis_domain_event_clear_queue b).2, []) ∧
      (aegis_domain_event_clear_queue b).2.history = b.history ∧
      (∀ i, aegis_domain_event_get_history (aegis_domain_event_clear_queue b).2 i =
        aegis_domain_event_get_history b i) ∧
      (aegis_domain_event_clear_queue b).2.total_published = b.total_published ∧
      (aegis_domain_event_clear_queue b).2.total_processed = b.total_processed ∧
      (aegis_domain_event_clear_queue b).2.sync_handled = b.sync_handled ∧
      (aegis_domain_event_clear_queue b).2.async_handled = b.async_handled ∧
      (aegis_domain_event_clear_queue b).2.dropped_events = b.dropped_events ∧
      (aegis_domain_event_clear_queue b).2.next_event_id = b.next_event_id ∧
      (aegis_domain_event_clear_queue b).2.recursion_depth = b.recursion_depth ∧
      (aegis_domain_event_clear_queue b).2.subscriptions = b.subscriptions ∧
      (aegis_domain_event_clear_queue b).2.subscription_count = b.subscription_count ∧
      (BusWF b → BusWF (aegis_domain_event_clear_queue b).2) := by
  have hc : aegis_domain_event_clear_queue b =
      (ERR_OK, { b with async_queue := aegis_ring_buffer_clear b.async_queue }) := by
    unfold aegis_domain_event_clear_queue
    rw [if_neg hi]
  rw [hc]
  have h0 : aegis_ring_buffer_get_count
      ({ b with async_queue := aegis_ring_buffer_clear b.async_queue } :
        AegisDomainEventBus).async_queue = 0 := rfl
  refine ⟨rfl, rfl, pending_of_empty _ rfl, ?_,
    process_empty fuel _ m (by rw [h0]; exact Nat.zero_lt_succ _), rfl, fun i => rfl, rfl, rfl,
    rfl, rfl, rfl, rfl, rfl, rfl, rfl, clear_queue_wf b⟩
  unfold aegis_domain_event_get_stats
  rw [if_neg hi, h0, Nat.zero_div]

theorem clear_queue_frame_witness :
    aegis_domain_event_clear_queue fanout_bus_pending =
        (ERR_OK,
          { fanout_bus_pending with
            async_queue := aegis_ring_buffer_clear fanout_bus_pending.async_queue }) ∧
      pending_events (aegis_domain_event_clear_queue fanout_bus_pending).2 = [] ∧
      aegis_domain_event_process 4 (aegis_domain_event_clear_queue fanout_bus_pending).2 0 =
        some (0, (aegis_domain_event_clear_queue fanout_bus_pending).2, []) ∧
      BusWF (aegis_domain_event_clear_queue fanout_bus_pending).2 :=
  ⟨(clear_queue_frame 3 fanout_bus_pending 0 fanout_bus_pending_spec.2.1).1,
    (clear_queue_frame 3 fanout_bus_pending 0 fanout_bus_pending_spec.2.1).2.2.1,
    (clear_queue_frame 3 fanout_bus_pending 0 fanout_bus_pending_spec.2.1).2.2.2.2.1,
    (clear_queue_frame 3 fanout_bus_pending 0
      fanout_bus_pending_spec.2.1).2.2.2.2.2.2.2.2.2.2.2.2.2.2.2.2 fanout_bus_pending_spec.1⟩

/-- C30 (bus initialisation): `aegis_domain_event_bus_init` returns
`ERR_NULL_PTR` for a null bus, and for a null table with `count > 0`; otherwise
it returns `ERR_OUT_OF_RANGE` for `count > MAX_EVENT_SUBSCRIPTIONS`; in these
cases the bus object is as before.  In every other case, a null table with
count 0 included, it returns `ERR_OK` and the bus is initialised with the given
table and count: no event is pending and `get_stats` reports 0 pending and 0
processed, the history is empty, the five counters and `recursion_depth` are 0,
`next_event_id` is 1, and the representation invariant holds when the tick of
the log is a `uint32_t`. -/
theorem bus_initialisation (storage : AegisDomainEventBus) (trace : Option AegisTraceLog)
    (subs : Option (List AegisEventSubscription)) (count : Nat) :
    aegis_domain_event_bus_init_nullable none trace subs count = (ERR_NULL_PTR, none) ∧
      aegis_domain_event_bus_init_nullable (some storage) trace subs count =
        ((aegis_domain_event_bus_init storage trace subs count).1,
          some (aegis_domain_event_bus_init storage trace subs count).2) ∧
      (subs.isNone ∧ count > 0 →
        aegis_domain_event_bus_init storage trace subs count = (ERR_NULL_PTR, storage)) ∧
      (¬ (subs.isNone ∧ count > 0) → count > MAX_EVENT_SUBSCRIPTIONS →
        aegis_domain_event_bus_init storage trace subs count = (ERR_OUT_OF_RANGE, storage)) ∧
      (¬ (subs.isNone ∧ count > 0) → count ≤ MAX_EVENT_SUBSCRIPTIONS →
        (aegis_domain_event_bus_init storage trace subs count).1 = ERR_OK ∧
          (aegis_domain_event_bus_init storage trace subs count).2.is_initialized = TRUE ∧
          (aegis_domain_event_bus_init storage trace subs count).2.subscriptions = subs ∧
          (aegis_domain_event_bus_init storage trace subs count).2.subscription_count = count ∧
          pending_events (aegis_domain_event_bus_init storage trace subs count).2 = [] ∧
          aegis_domain_event_get_stats (aegis_domain_event_bus_init storage trace subs count).2 =
            (ERR_OK, some (0, 0)) ∧
          (aegis_domain_event_bus_init storage trace subs count).2.history.count = 0 ∧
          (∀ i, aegis_domain_event_get_history
            (aegis_domain_event_bus_init storage trace subs count).2 i = none) ∧
          (aegis_domain_event_bus_init storage trace subs count).2.total_published = 0 ∧
          (aegis_domain_event_bus_init storage trace subs count).2.total_processed = 0 ∧
          (aegis_domain_event_bus_init storage trace subs count).2.sync_handled = 0 ∧
          (aegis_domain_event_bus_init storage trace subs count).2.async_handled = 0 ∧
          (aegis_domain_event_bus_init storage trace subs count).2.dropped_events = 0 ∧
          (aegis_domain_event_bus_init storage trace subs count).2.recursion_depth = 0 ∧
          (aegis_domain_event_bus_init storage trace subs count).2.next_event_id = 1 ∧
          (TraceWF trace → BusWF (aegis_domain_event_bus_init storage trace subs count).2)) := by
  refine ⟨rfl, rfl, fun h1 => ?_, fun h1 h2 => ?_, fun h1 h2 => ?_⟩
  · unfold aegis_domain_event_bus_init
    rw [if_pos h1]
  · unfold aegis_domain_event_bus_init
    rw [if_neg h1, if_pos h2]
  · have hsh := bus_init_shape storage trace subs count h1 h2
    have hp : pending_events (aegis_domain_event_bus_init storage trace subs count).2 = [] :=
      pending_of_empty _ (by rw [hsh])
    refine ⟨by rw [hsh], by rw [hsh], by rw [hsh], by rw [hsh], hp, ?_, by rw [hsh],
      fun i => ?_, by rw [hsh], by rw [hsh], by rw [hsh], by rw [hsh], by rw [hsh], by rw [hsh],
      by rw [hsh], fun ht => (bus_init_wf storage trace subs count h1 h2 ht).1⟩
    · rw [hsh]
      simp only [aegis_domain_event_get_stats, aegis_ring_buffer_get_count]
      rw [if_neg (by decide), Nat.zero_div]
    · rw [hsh]
      simp [aegis_domain_event_get_history]

theorem bus_initialisation_witness :
    aegis_domain_event_bus_init storage_bus none none 3 = (ERR_NULL_PTR, storage_bus) ∧
      aegis_domain_event_bus_init storage_bus none (some fanout_table) 17 =
        (ERR_OUT_OF_RANGE, storage_bus) ∧
      (aegis_domain_event_bus_init storage_bus none none 0).1 = ERR_OK ∧
      (aegis_domain_event_bus_init storage_bus none (some fanout_table) 4).1 = ERR_OK ∧
      (aegis_domain_event_bus_init storage_bus none (some fanout_table) 4).2.next_event_id = 1 ∧
      pending_events (aegis_domain_event_bus_init storage_bus none (some fanout_table) 4).2 =
        [] :=
  ⟨(bus_initialisation storage_bus none none 3).2.2.1 (by decide),
    (bus_initialisation storage_bus none (some fanout_table) 17).2.2.2.1 (by decide)
      (by decide),
    ((bus_initialisation storage_bus none none 0).2.2.2.2 (by decide) (by decide)).1,
    ((bus_initialisation storage_bus none (some fanout_table) 4).2.2.2.2 (by decide)
      (by decide)).1,
    ((bus_initialisation storage_bus none (some fanout_table) 4).2.2.2.2 (by decide)
      (by decide)).2.2.2.2.2.2.2.2.2.2.2.2.2.2.1,
    ((bus_initialisation storage_bus none (some fanout_table) 4).2.2.2.2 (by decide)
      (by decide)).2.2.2.2.1⟩



/-! ## Claim about the charger example end to end -/

/-- C23 (end-to-end charger scenario): on the example system at rest (the
handlers of `demo_application.c` registered, the in-memory repository with
room for a new entity, one synchronous subscriber for `ENTITY_CREATED` and one
for `POWER_CHANGED`, an empty command queue), enqueueing the create command
with payload `{model = 1001, power = 10}` succeeds, and the next pass of the
main loop takes it from the queue and executes it with status `ERR_OK`: the
result carries `ERR_OK` and a created identifier (the one the repository
allocates next) other than `ENTITY_ID_INVALID`, the repository then holds a
valid charger with that identifier, model 1001 and power level 10, and while
the command runs the bus publishes `ENTITY_CREATED` for that identifier and
calls subscriber 0 with the copy, then publishes `POWER_CHANGED {0, 10}` and
calls subscriber 1 with the copy, both in the synchronous pass; the
`process` call that ends the pass calls no handler and publishes nothing.
Enqueueing the set-power command for that identifier with value 55 and running
the loop once more executes it with `ERR_OK`, publishes exactly one event,
`POWER_CHANGED {10, 55}`, delivered to subscriber 1, and leaves the charger
with power level 55.  The get query for that identifier then returns `ERR_OK`
with `resp.result = ERR_OK` and a payload of `sizeof(DemoChargerDto)` bytes
that is the DTO `{id, 1001, 55}`. -/
theorem charger_scenario (fuel : Nat) (rt : AegisEntryRuntime)
    (repo : AegisInfrastructureRepositoryInmem) (result1 result2 : AegisCommandResult)
    (hf : 5 ≤ fuel) (hr : ChargerReady fuel rt [] repo) (hfresh : RepoFresh repo) :
    ∃ rt1 rt2 rt3 rt4 c1 c2 r1 r2 ec1 ec2 ec3 res1 res2 res3 x1 x2 x3 po1 po2 resp,
      runtime_enqueue rt (create_charger_cmd 1001 10) = (ERR_OK, rt1) ∧
      aegis_entry_main_loop_once fuel rt1 result1 =
        some (ERR_OK, rt2,
          { executed := some (c1, ERR_OK, r1),
            handler_obs :=
              [BusObs.published (entity_created_event r1.created_id DEMO_ENTITY_TYPE_CHARGER)
                  ec1,
                BusObs.call 0 TRUE ec1 0 res1, x1,
                BusObs.published (power_changed_event r1.created_id 0 10) ec2,
                BusObs.call 1 TRUE ec2 0 res2, x2],
            process_obs := po1 }) ∧
      c1.type = DEMO_CMD_CREATE_CHARGER ∧ r1.result = ERR_OK ∧
      r1.created_id = repo.next_entity_id ∧ r1.created_id ≠ ENTITY_ID_INVALID ∧
      (∃ repo2 k, rt2.app.write_repo = some repo2 ∧
        HoldsCharger repo2 k r1.created_id 1001 10) ∧
      ec1.type = DOMAIN_EVENT_ENTITY_CREATED ∧ ec1.aggregate_id = r1.created_id ∧
      ec2.type = DEMO_EVENT_POWER_LEVEL_CHANGED ∧ ec2.aggregate_id = r1.created_id ∧
      power_changed_of_bytes ec2.data = { old_power := 0, new_power := 10 } ∧
      (x1 = BusObs.enqueued ec1 ∨ x1 = BusObs.dropped ec1) ∧
      (x2 = BusObs.enqueued ec2 ∨ x2 = BusObs.dropped ec2) ∧
      obs_calls po1 = [] ∧ obs_published po1 = [] ∧
      runtime_enqueue rt2 (set_power_cmd r1.created_id 55) = (ERR_OK, rt3) ∧
      aegis_entry_main_loop_once fuel rt3 result2 =
        some (ERR_OK, rt4,
          { executed := some (c2, ERR_OK, r2),
            handler_obs :=
              [BusObs.published (power_changed_event r1.created_id 10 55) ec3,
                BusObs.call 1 TRUE ec3 0 res3, x3],
            process_obs := po2 }) ∧
      c2.type = DEMO_CMD_SET_POWER_LEVEL ∧ c2.entity_id = r1.created_id ∧
      r2.result = ERR_OK ∧
      ec3.type = DEMO_EVENT_POWER_LEVEL_CHANGED ∧ ec3.aggregate_id = r1.created_id ∧
      power_changed_of_bytes ec3.data = { old_power := 10, new_power := 55 } ∧
      (x3 = BusObs.enqueued ec3 ∨ x3 = BusObs.dropped ec3) ∧
      obs_calls po2 = [] ∧ obs_published po2 = [] ∧
      (∃ repo4 k, rt4.app.write_repo = some repo4 ∧
        HoldsCharger repo4 k r1.created_id 1001 55) ∧
      runtime_query rt4 (get_charger_query r1.created_id) zero_response = (ERR_OK, resp) ∧
      resp.result = ERR_OK ∧ resp.payload_size = sizeof_DemoChargerDto ∧
      charger_dto_of_bytes resp.payload =
        { id := r1.created_id, charger_model := 1001, power_level := 55 } := by
  obtain ⟨f, rfl⟩ : ∃ f, fuel = f + 1 := ⟨fuel - 1, by omega⟩
  have hI : ENTITY_ID_INVALID = 65535 := rfl
  have hid : repo.next_entity_id < 65535 := by
    have := hfresh.2.2.2.1
    omega
  -- the create command
  obtain ⟨rt1, ts1, henq1, hr1⟩ := ready_enqueue (f + 1) rt [] repo (create_charger_cmd 1001 10)
    hr (by decide) (by decide) (by decide)
  rw [List.nil_append] at hr1
  obtain ⟨repo2, b2, ec1, ec2, res1, res2, x1, x2, hexec1, heff1, hh2, hec1, hec2, hx1, hx2⟩ :=
    create_execute f rt1 _ [] repo result1 hr1 rfl rfl rfl hfresh
  obtain ⟨rt2, po1, hloop1, hr2, hpc1, hpp1⟩ := ready_loop (f + 1) rt1 _ [] repo repo2 result1 _
    ERR_OK b2 _ hf hr1 hexec1 heff1
  -- the set-power command
  have hwf2 : CmdWF (set_power_cmd repo.next_entity_id 55) := by
    refine ⟨?_, ?_, ?_, ?_, ?_⟩
    · show (2 : Nat) < 65536
      omega
    · show (0 : Nat) < 4294967296
      omega
    · show repo.next_entity_id < 65536
      omega
    · show (1 : Nat) < 65536
      omega
    · show (memcpy _ 0 _ 0 _).length = _
      rw [memcpy_length]
      rfl
  obtain ⟨rt3, ts2, henq2, hr3⟩ := ready_enqueue (f + 1) rt2 [] repo2
    (set_power_cmd repo.next_entity_id 55) hr2 hwf2
    (show DEMO_CMD_SET_POWER_LEVEL ≠ CMD_TYPE_INVALID by decide) (by decide)
  rw [List.nil_append] at hr3
  obtain ⟨repo4, b4, ec3, res3, x3, hexec2, heff2, hh4, hec3, hx3⟩ :=
    set_power_execute f rt3 _ [] repo2 result2 repo.entity_count repo.next_entity_id hr3 rfl rfl
      hid rfl rfl hh2
  obtain ⟨rt4, po2, hloop2, hr4, hpc2, hpp2⟩ := ready_loop (f + 1) rt3 _ [] repo2 repo4 result2 _
    ERR_OK b4 _ hf hr3 hexec2 heff2
  -- the query
  obtain ⟨resp, hq, hq1, hq2, hq3⟩ := charger_query (f + 1) rt4 [] repo4 repo.entity_count
    repo.next_entity_id 1001 55 hr4 hh4 hid (by decide) (by decide)
  obtain ⟨n1, t1, rfl⟩ := hec1
  obtain ⟨n2, t2, rfl⟩ := hec2
  obtain ⟨n3, t3, rfl⟩ := hec3
  exact ⟨rt1, rt2, rt3, rt4, _, _, _, _, _, _, _, res1, res2, res3, x1, x2, x3, po1, po2, resp,
    henq1, hloop1, rfl, rfl, rfl, by rw [hI]; exact Nat.ne_of_lt hid,
    ⟨repo2, _, hr2.2.2.2.2.2.2.2.2.2.2.2.2, hh2⟩, rfl, rfl, rfl, rfl, rfl, hx1, hx2, hpc1, hpp1,
    henq2, hloop2, rfl, rfl, rfl, rfl, rfl, rfl, hx3, hpc2, hpp2,
    ⟨repo4, _, hr4.2.2.2.2.2.2.2.2.2.2.2.2, hh4⟩, hq, hq1, hq2, hq3⟩

theorem charger_scenario_witness :
    ∃ rt1 rt2 rt3 rt4 c1 c2 r1 r2 ec1 ec2 ec3 res1 res2 res3 x1 x2 x3 po1 po2 resp,
      runtime_enqueue (charger_runtime 5) (create_charger_cmd 1001 10) = (ERR_OK, rt1) ∧
      aegis_entry_main_loop_once 5 rt1 zero_result =
        some (ERR_OK, rt2,
          { executed := some (c1, ERR_OK, r1),
            handler_obs :=
              [BusObs.published (entity_created_event r1.created_id DEMO_ENTITY_TYPE_CHARGER)
                  ec1,
                BusObs.call 0 TRUE ec1 0 res1, x1,
                BusObs.published (power_changed_event r1.created_id 0 10) ec2,
                BusObs.call 1 TRUE ec2 0 res2, x2],
            process_obs := po1 }) ∧
      c1.type = DEMO_CMD_CREATE_CHARGER ∧ r1.result = ERR_OK ∧
      r1.created_id = (repository_init_impl storage_repo).2.next_entity_id ∧
      r1.created_id ≠ ENTITY_ID_INVALID ∧
      (∃ repo2 k, rt2.app.write_repo = some repo2 ∧
        HoldsCharger repo2 k r1.created_id 1001 10) ∧
      ec1.type = DOMAIN_EVENT_ENTITY_CREATED ∧ ec1.aggregate_id = r1.created_id ∧
      ec2.type = DEMO_EVENT_POWER_LEVEL_CHANGED ∧ ec2.aggregate_id = r1.created_id ∧
      power_changed_of_bytes ec2.data = { old_power := 0, new_power := 10 } ∧
      (x1 = BusObs.enqueued ec1 ∨ x1 = BusObs.dropped ec1) ∧
      (x2 = BusObs.enqueued ec2 ∨ x2 = BusObs.dropped ec2) ∧
      obs_calls po1 = [] ∧ obs_published po1 = [] ∧
      runtime_enqueue rt2 (set_power_cmd r1.created_id 55) = (ERR_OK, rt3) ∧
      aegis_entry_main_loop_once 5 rt3 zero_result =
        some (ERR_OK, rt4,
          { executed := some (c2, ERR_OK, r2),
            handler_obs :=
              [BusObs.published (power_changed_event r1.created_id 10 55) ec3,
                BusObs.call 1 TRUE ec3 0 res3, x3],
            process_obs := po2 }) ∧
      c2.type = DEMO_CMD_SET_POWER_LEVEL ∧ c2.entity_id = r1.created_id ∧
      r2.result = ERR_OK ∧
      ec3.type = DEMO_EVENT_POWER_LEVEL_CHANGED ∧ ec3.aggregate_id = r1.created_id ∧
      power_changed_of_bytes ec3.data = { old_power := 10, new_power := 55 } ∧
      (x3 = BusObs.enqueued ec3 ∨ x3 = BusObs.dropped ec3) ∧
      obs_calls po2 = [] ∧ obs_published po2 = [] ∧
      (∃ repo4 k, rt4.app.write_repo = some repo4 ∧
        HoldsCharger repo4 k r1.created_id 1001 55) ∧
      runtime_query rt4 (get_charger_query r1.created_id) zero_response = (ERR_OK, resp) ∧
      resp.result = ERR_OK ∧ resp.payload_size = sizeof_DemoChargerDto ∧
      charger_dto_of_bytes resp.payload =
        { id := r1.created_id, charger_model := 1001, power_level := 55 } :=
  charger_scenario 5 (charger_runtime 5) (repository_init_impl storage_repo).2 zero_result
    zero_result (by decide) (charger_runtime_ready 5).1 (charger_runtime_ready 5).2

/-! ## Claims about index coherence, the zero-copy path and single-byte calls -/

/-- C34 (ring index coherence): after a successful `aegis_ring_buffer_init` on
a backing array of `size` cells, every sequence of put, get, write, read,
commit_write, commit_read and clear calls, with any arguments, ends in a state
with `head = (tail + count) mod size`; the `count` cells starting at offset
`tail`, wrapping at `size`, are exactly the bytes a first-in first-out store of
capacity `size` holds after the same calls (what was accepted and not yet
delivered, oldest first); and `head = tail` holds iff the ring is empty or
full. -/
theorem ring_index_coherence (rb0 : AegisRingBuffer) (buf : List Nat) (size : Nat)
    (ops : List RingOp) (hu16 : size < 65536) (hbuf : buf.length = size)
    (hinit : (aegis_ring_buffer_init rb0 (some buf) size).1 = ERR_OK) :
    (ring_run (aegis_ring_buffer_init rb0 (some buf) size).2 ops).head =
        ((ring_run (aegis_ring_buffer_init rb0 (some buf) size).2 ops).tail +
            (ring_run (aegis_ring_buffer_init rb0 (some buf) size).2 ops).count) %
          (ring_run (aegis_ring_buffer_init rb0 (some buf) size).2 ops).size ∧
      ring_contents (ring_run (aegis_ring_buffer_init rb0 (some buf) size).2 ops) =
        fifo_run (aegis_ring_buffer_init rb0 (some buf) size).2 [] ops ∧
      ((ring_run (aegis_ring_buffer_init rb0 (some buf) size).2 ops).head =
          (ring_run (aegis_ring_buffer_init rb0 (some buf) size).2 ops).tail ↔
        (ring_run (aegis_ring_buffer_init rb0 (some buf) size).2 ops).count = 0 ∨
          (ring_run (aegis_ring_buffer_init rb0 (some buf) size).2 ops).count =
            (ring_run (aegis_ring_buffer_init rb0 (some buf) size).2 ops).size) := by
  by_cases h0 : size = 0
  · simp [aegis_ring_buffer_init, h0] at hinit
  · have hrb : (aegis_ring_buffer_init rb0 (some buf) size).2 =
        { buffer := buf, size := size, head := 0, tail := 0, count := 0 } := by
      simp [aegis_ring_buffer_init, h0]
    rw [hrb]
    have hco : RingCoherent { buffer := buf, size := size, head := 0, tail := 0, count := 0 } :=
      ⟨⟨hu16, hbuf, Nat.zero_le _, Nat.pos_of_ne_zero h0, Nat.pos_of_ne_zero h0⟩,
        (Nat.zero_mod size).symm⟩
    obtain ⟨h1, ⟨hs, -, hc, hh, ht⟩, h2⟩ := fifo_run_spec ops _ hco
    refine ⟨h2, h1, ?_⟩
    rw [mod_wrap _ _ (by omega)] at h2
    split_ifs at h2 <;> omega

theorem ring_index_coherence_witness :
    (3 < 65536 ∧ [0, 0, 0].length = 3 ∧
      (aegis_ring_buffer_init ring_demo (some [0, 0, 0]) 3).1 = ERR_OK) ∧
    ((ring_run (aegis_ring_buffer_init ring_demo (some [0, 0, 0]) 3).2 ring_calls_demo).head =
        ((ring_run (aegis_ring_buffer_init ring_demo (some [0, 0, 0]) 3).2 ring_calls_demo).tail +
            (ring_run (aegis_ring_buffer_init ring_demo (some [0, 0, 0]) 3).2
              ring_calls_demo).count) %
          (ring_run (aegis_ring_buffer_init ring_demo (some [0, 0, 0]) 3).2 ring_calls_demo).size ∧
      ring_contents
          (ring_run (aegis_ring_buffer_init ring_demo (some [0, 0, 0]) 3).2 ring_calls_demo) =
        fifo_run (aegis_ring_buffer_init ring_demo (some [0, 0, 0]) 3).2 [] ring_calls_demo ∧
      ((ring_run (aegis_ring_buffer_init ring_demo (some [0, 0, 0]) 3).2 ring_calls_demo).head =
          (ring_run (aegis_ring_buffer_init ring_demo (some [0, 0, 0]) 3).2 ring_calls_demo).tail ↔
        (ring_run (aegis_ring_buffer_init ring_demo (some [0, 0, 0]) 3).2 ring_calls_demo).count =
            0 ∨
          (ring_run (aegis_ring_buffer_init ring_demo (some [0, 0, 0]) 3).2 ring_calls_demo).count =
            (ring_run (aegis_ring_buffer_init ring_demo (some [0, 0, 0]) 3).2
              ring_calls_demo).size)) :=
  ⟨by decide,
    ring_index_coherence ring_demo [0, 0, 0] 3 ring_calls_demo (by decide) (by decide)
      (by decide)⟩

/-- C35 (zero-copy path equals bulk path): on a ring that satisfies the
invariant, for every byte sequence `d` of length `n` with `n` at most the
length returned by `aegis_ring_buffer_get_write_ptr`, copying `d` to the
returned region and calling `aegis_ring_buffer_commit_write(n)` returns
`ERR_OK` and leaves exactly the ring (`head`, `tail`, `count`, `size` and every
byte of the array) that `aegis_ring_buffer_write(d, n)` leaves, which returns
`n`; and for `n` at most the length returned by `aegis_ring_buffer_get_read_ptr`,
copying `n` bytes from the returned region into `out` and calling
`aegis_ring_buffer_commit_read(n)` returns `ERR_OK` and leaves exactly the ring
and the array `out` that `aegis_ring_buffer_read(out, n)` leaves, which returns
`n`. -/
theorem zero_copy_equals_bulk (rb : AegisRingBuffer) (d out : List Nat) (n : Nat)
    (h : RingWF rb) :
    (d.length = n → n ≤ (aegis_ring_buffer_get_write_ptr rb true).1 →
        aegis_ring_buffer_write rb (some d) n = (n, (zero_copy_write rb d n).2) ∧
          (zero_copy_write rb d n).1 = ERR_OK) ∧
      (n ≤ out.length → n ≤ (aegis_ring_buffer_get_read_ptr rb true).1 →
        aegis_ring_buffer_read rb (some out) n =
            (n, (zero_copy_read rb out n).2.1, some (zero_copy_read rb out n).2.2) ∧
          (zero_copy_read rb out n).1 = ERR_OK) :=
  ⟨fun _ hn => zero_copy_write_eq rb d n h hn, fun _ hn => zero_copy_read_eq rb out n h hn⟩

theorem zero_copy_equals_bulk_witness :
    ([5].length = 1 → 1 ≤ (aegis_ring_buffer_get_write_ptr ring_wrapped true).1 →
        aegis_ring_buffer_write ring_wrapped (some [5]) 1 =
            (1, (zero_copy_write ring_wrapped [5] 1).2) ∧
          (zero_copy_write ring_wrapped [5] 1).1 = ERR_OK) ∧
      (1 ≤ [0, 0].length → 1 ≤ (aegis_ring_buffer_get_read_ptr ring_wrapped true).1 →
        aegis_ring_buffer_read ring_wrapped (some [0, 0]) 1 =
            (1, (zero_copy_read ring_wrapped [0, 0] 1).2.1,
              some (zero_copy_read ring_wrapped [0, 0] 1).2.2) ∧
          (zero_copy_read ring_wrapped [0, 0] 1).1 = ERR_OK) :=
  zero_copy_equals_bulk ring_wrapped [5] [0, 0] 1 (by decide)

/-- C40 (single-byte transfers): on a ring that satisfies the invariant,
`aegis_ring_buffer_put` on a full ring returns `ERR_OUT_OF_RANGE` and leaves
the ring as it was, and on a ring that is not full returns `ERR_OK` and leaves
the ring that `aegis_ring_buffer_write` of that one byte leaves (which returns
1); `aegis_ring_buffer_get` on an empty ring returns `ERR_OUT_OF_RANGE`, which
is not `ERR_EMPTY`, and leaves the ring and the output byte as they were, and
on a ring that holds bytes returns `ERR_OK`, stores the oldest held byte in the
output and leaves the ring that `aegis_ring_buffer_read` of length 1 leaves
(which returns 1 and delivers the same byte). -/
theorem single_byte_transfers (rb : AegisRingBuffer) (h : RingWF rb) :
    (∀ d, rb.count = rb.size → aegis_ring_buffer_put rb d = (ERR_OUT_OF_RANGE, rb)) ∧
      (∀ d, rb.count < rb.size →
        aegis_ring_buffer_put rb d = (ERR_OK, (aegis_ring_buffer_write rb (some [d]) 1).2) ∧
          (aegis_ring_buffer_write rb (some [d]) 1).1 = 1) ∧
      (∀ old, rb.count = 0 →
        aegis_ring_buffer_get rb (some old) = (ERR_OUT_OF_RANGE, rb, some old)) ∧
      ERR_OUT_OF_RANGE ≠ ERR_EMPTY ∧
      ∀ old, 0 < rb.count →
        aegis_ring_buffer_get rb (some old) =
            (ERR_OK, (aegis_ring_buffer_read rb (some [old]) 1).2.1,
              (ring_contents rb).head?) ∧
          (aegis_ring_buffer_read rb (some [old]) 1).1 = 1 ∧
          (aegis_ring_buffer_read rb (some [old]) 1).2.2 =
            (ring_contents rb).head?.map fun b => [b] := by
  refine ⟨fun d hc => ?_, fun d hc => put_eq_write rb d h hc, fun old hc => ?_, by decide,
    fun old hc => ?_⟩
  · unfold aegis_ring_buffer_put
    rw [if_pos (by omega)]
  · simp only [aegis_ring_buffer_get]
    rw [if_pos hc]
  · have hhd : (ring_contents rb).head? = some (rb.buffer.getD rb.tail 0) := by
      have hlen := ring_contents_length rb
      have h0 := ring_contents_getD rb 0 hc
      rw [Nat.add_zero, Nat.mod_eq_of_lt h.2.2.2.2] at h0
      cases hrc : ring_contents rb with
      | nil => rw [hrc] at hlen; simp at hlen; omega
      | cons a l => rw [hrc] at h0; exact congrArg some h0
    obtain ⟨h1, h2, h3⟩ := get_eq_read rb old h hc
    rw [hhd]
    exact ⟨h1, h2, h3⟩

theorem single_byte_transfers_witness :
    (∀ d, ring_wrapped.count = ring_wrapped.size →
        aegis_ring_buffer_put ring_wrapped d = (ERR_OUT_OF_RANGE, ring_wrapped)) ∧
      (∀ d, ring_wrapped.count < ring_wrapped.size →
        aegis_ring_buffer_put ring_wrapped d =
            (ERR_OK, (aegis_ring_buffer_write ring_wrapped (some [d]) 1).2) ∧
          (aegis_ring_buffer_write ring_wrapped (some [d]) 1).1 = 1) ∧
      (∀ old, ring_wrapped.count = 0 →
        aegis_ring_buffer_get ring_wrapped (some old) =
          (ERR_OUT_OF_RANGE, ring_wrapped, some old)) ∧
      ERR_OUT_OF_RANGE ≠ ERR_EMPTY ∧
      ∀ old, 0 < ring_wrapped.count →
        aegis_ring_buffer_get ring_wrapped (some old) =
            (ERR_OK, (aegis_ring_buffer_read ring_wrapped (some [old]) 1).2.1,
              (ring_contents ring_wrapped).head?) ∧
          (aegis_ring_buffer_read ring_wrapped (some [old]) 1).1 = 1 ∧
          (aegis_ring_buffer_read ring_wrapped (some [old]) 1).2.2 =
            (ring_contents ring_wrapped).head?.map fun b => [b] :=
  single_byte_transfers ring_wrapped (by decide)

/-! ## Claims about the payload helpers -/

/-- C31 (payload helpers round trip): for every command whose payload array has
`APP_CMD_PAYLOAD_MAX` cells and every byte sequence `p` of length
`n ≤ APP_CMD_PAYLOAD_MAX`, `aegis_app_cmd_payload_write(cmd, p, n)` returns
`ERR_OK` and sets `payload_size` to `n` (leaving the other fields), after which
`aegis_app_cmd_payload_read(cmd, out, n)` returns `ERR_OK` with the first `n`
cells of `out` equal to `p` and the others untouched, and a read with expected
size `m ≠ n` returns `ERR_OUT_OF_RANGE` and leaves `out` as it was; a write with
`n > APP_CMD_PAYLOAD_MAX` returns `ERR_OUT_OF_RANGE` and leaves the command as
it was, whatever the source pointer.  The same holds for the command-result,
query-request and query-response helpers with `APP_CMD_RESULT_PAYLOAD_MAX`,
`APP_QUERY_PAYLOAD_MAX` and `APP_QUERY_RESULT_PAYLOAD_MAX`. -/
theorem payload_round_trip (cmd : AegisCommand) (result : AegisCommandResult)
    (req : AegisQueryRequest) (resp : AegisQueryResponse) (p out : List Nat) (n m : Nat)
    (hp : p.length = n) (hout : n ≤ out.length) :
    (cmd.payload.length = APP_CMD_PAYLOAD_MAX → n ≤ APP_CMD_PAYLOAD_MAX →
        (aegis_app_cmd_payload_write cmd (some p) n).1 = ERR_OK ∧
          (aegis_app_cmd_payload_write cmd (some p) n).2.payload_size = n ∧
          (aegis_app_cmd_payload_write cmd (some p) n).2.type = cmd.type ∧
          (aegis_app_cmd_payload_write cmd (some p) n).2.timestamp = cmd.timestamp ∧
          (aegis_app_cmd_payload_write cmd (some p) n).2.entity_id = cmd.entity_id ∧
          (aegis_app_cmd_payload_read (aegis_app_cmd_payload_write cmd (some p) n).2 out n).1 =
            ERR_OK ∧
          (aegis_app_cmd_payload_read
              (aegis_app_cmd_payload_write cmd (some p) n).2 out n).2.take n = p ∧
          (aegis_app_cmd_payload_read
              (aegis_app_cmd_payload_write cmd (some p) n).2 out n).2.drop n = out.drop n ∧
          (m ≠ n →
            aegis_app_cmd_payload_read (aegis_app_cmd_payload_write cmd (some p) n).2 out m =
              (ERR_OUT_OF_RANGE, out))) ∧
      (∀ src, n > APP_CMD_PAYLOAD_MAX →
        aegis_app_cmd_payload_write cmd src n = (ERR_OUT_OF_RANGE, cmd)) ∧
      (result.payload.length = APP_CMD_RESULT_PAYLOAD_MAX → n ≤ APP_CMD_RESULT_PAYLOAD_MAX →
        (aegis_app_cmd_result_payload_write result (some p) n).1 = ERR_OK ∧
          (aegis_app_cmd_result_payload_write result (some p) n).2.payload_size = n ∧
          (aegis_app_cmd_result_payload_write result (some p) n).2.result = result.result ∧
          (aegis_app_cmd_result_payload_write result (some p) n).2.created_id =
            result.created_id ∧
          (aegis_app_cmd_result_payload_read
              (aegis_app_cmd_result_payload_write result (some p) n).2 out n).1 = ERR_OK ∧
          (aegis_app_cmd_result_payload_read
              (aegis_app_cmd_result_payload_write result (some p) n).2 out n).2.take n = p ∧
          (aegis_app_cmd_result_payload_read
              (aegis_app_cmd_result_payload_write result (some p) n).2 out n).2.drop n =
            out.drop n ∧
          (m ≠ n →
            aegis_app_cmd_result_payload_read
                (aegis_app_cmd_result_payload_write result (some p) n).2 out m =
              (ERR_OUT_OF_RANGE, out))) ∧
      (∀ src, n > APP_CMD_RESULT_PAYLOAD_MAX →
        aegis_app_cmd_result_payload_write result src n = (ERR_OUT_OF_RANGE, result)) ∧
      (req.payload.length = APP_QUERY_PAYLOAD_MAX → n ≤ APP_QUERY_PAYLOAD_MAX →
        (aegis_app_query_payload_write req (some p) n).1 = ERR_OK ∧
          (aegis_app_query_payload_write req (some p) n).2.payload_size = n ∧
          (aegis_app_query_payload_write req (some p) n).2.type = req.type ∧
          (aegis_app_query_payload_write req (some p) n).2.entity_id = req.entity_id ∧
          (aegis_app_query_payload_read
              (aegis_app_query_payload_write req (some p) n).2 out n).1 = ERR_OK ∧
          (aegis_app_query_payload_read
              (aegis_app_query_payload_write req (some p) n).2 out n).2.take n = p ∧
          (aegis_app_query_payload_read
              (aegis_app_query_payload_write req (some p) n).2 out n).2.drop n = out.drop n ∧
          (m ≠ n →
            aegis_app_query_payload_read (aegis_app_query_payload_write req (some p) n).2 out m =
              (ERR_OUT_OF_RANGE, out))) ∧
      (∀ src, n > APP_QUERY_PAYLOAD_MAX →
        aegis_app_query_payload_write req src n = (ERR_OUT_OF_RANGE, req)) ∧
      (resp.payload.length = APP_QUERY_RESULT_PAYLOAD_MAX → n ≤ APP_QUERY_RESULT_PAYLOAD_MAX →
        (aegis_app_query_result_payload_write resp (some p) n).1 = ERR_OK ∧
          (aegis_app_query_result_payload_write resp (some p) n).2.payload_size = n ∧
          (aegis_app_query_result_payload_write resp (some p) n).2.result = resp.result ∧
          (aegis_app_query_result_payload_read
              (aegis_app_query_result_payload_write resp (some p) n).2 out n).1 = ERR_OK ∧
          (aegis_app_query_result_payload_read
              (aegis_app_query_result_payload_write resp (some p) n).2 out n).2.take n = p ∧
          (aegis_app_query_result_payload_read
              (aegis_app_query_result_payload_write resp (some p) n).2 out n).2.drop n =
            out.drop n ∧
          (m ≠ n →
            aegis_app_query_result_payload_read
                (aegis_app_query_result_payload_write resp (some p) n).2 out m =
              (ERR_OUT_OF_RANGE, out))) ∧
      ∀ src, n > APP_QUERY_RESULT_PAYLOAD_MAX →
        aegis_app_query_result_payload_write resp src n = (ERR_OUT_OF_RANGE, resp) := by
  refine ⟨fun hl hn => ?_, fun src hn => ?_, fun hl hn => ?_, fun src hn => ?_, fun hl hn => ?_,
    fun src hn => ?_, fun hl hn => ?_, fun src hn => ?_⟩
  · have hw : aegis_app_cmd_payload_write cmd (some p) n =
        (ERR_OK, { cmd with payload_size := n, payload := memcpy cmd.payload 0 p 0 n }) := by
      unfold aegis_app_cmd_payload_write
      rw [if_neg (by omega)]
    obtain ⟨r1, r2⟩ := memcpy_round_trip cmd.payload out p n hp (by omega) hout
    rw [hw]
    refine ⟨rfl, rfl, rfl, rfl, rfl, ?_, ?_, ?_, fun hm => ?_⟩
    · simp only [aegis_app_cmd_payload_read]
      rw [if_neg (not_not.mpr rfl), if_neg (by omega)]
    · simp only [aegis_app_cmd_payload_read]
      rw [if_neg (not_not.mpr rfl), if_neg (by omega)]
      exact r1
    · simp only [aegis_app_cmd_payload_read]
      rw [if_neg (not_not.mpr rfl), if_neg (by omega)]
      exact r2
    · simp only [aegis_app_cmd_payload_read]
      rw [if_pos (Ne.symm hm)]
  · unfold aegis_app_cmd_payload_write
    rw [if_pos hn]
  · have hw : aegis_app_cmd_result_payload_write result (some p) n =
        (ERR_OK,
          { result with payload_size := n, payload := memcpy result.payload 0 p 0 n }) := by
      unfold aegis_app_cmd_result_payload_write
      rw [if_neg (by omega)]
    obtain ⟨r1, r2⟩ := memcpy_round_trip result.payload out p n hp (by omega) hout
    rw [hw]
    refine ⟨rfl, rfl, rfl, rfl, ?_, ?_, ?_, fun hm => ?_⟩
    · simp only [aegis_app_cmd_result_payload_read]
      rw [if_neg (not_not.mpr rfl), if_neg (by omega)]
    · simp only [aegis_app_cmd_result_payload_read]
      rw [if_neg (not_not.mpr rfl), if_neg (by omega)]
      exact r1
    · simp only [aegis_app_cmd_result_payload_read]
      rw [if_neg (not_not.mpr rfl), if_neg (by omega)]
      exact r2
    · simp only [aegis_app_cmd_result_payload_read]
      rw [if_pos (Ne.symm hm)]
  · unfold aegis_app_cmd_result_payload_write
    rw [if_pos hn]
  · have hw : aegis_app_query_payload_write req (some p) n =
        (ERR_OK, { req with payload_size := n, payload := memcpy req.payload 0 p 0 n }) := by
      unfold aegis_app_query_payload_write
      rw [if_neg (by omega)]
    obtain ⟨r1, r2⟩ := memcpy_round_trip req.payload out p n hp (by omega) hout
    rw [hw]
    refine ⟨rfl, rfl, rfl, rfl, ?_, ?_, ?_, fun hm => ?_⟩
    · simp only [aegis_app_query_payload_read]
      rw [if_neg (not_not.mpr rfl), if_neg (by omega)]
    · simp only [aegis_app_query_payload_read]
      rw [if_neg (not_not.mpr rfl), if_neg (by omega)]
      exact r1
    · simp only [aegis_app_query_payload_read]
      rw [if_neg (not_not.mpr rfl), if_neg (by omega)]
      exact r2
    · simp only [aegis_app_query_payload_read]
      rw [if_pos (Ne.symm hm)]
  · unfold aegis_app_query_payload_write
    rw [if_pos hn]
  · have hw : aegis_app_query_result_payload_write resp (some p) n =
        (ERR_OK, { resp with payload_size := n, payload := memcpy resp.payload 0 p 0 n }) := by
      unfold aegis_app_query_result_payload_write
      rw [if_neg (by omega)]
    obtain ⟨r1, r2⟩ := memcpy_round_trip resp.payload out p n hp (by omega) hout
    rw [hw]
    refine ⟨rfl, rfl, rfl, ?_, ?_, ?_, fun hm => ?_⟩
    · simp only [aegis_app_query_result_payload_read]
      rw [if_neg (not_not.mpr rfl), if_neg (by omega)]
    · simp only [aegis_app_query_result_payload_read]
      rw [if_neg (not_not.mpr rfl), if_neg (by omega)]
      exact r1
    · simp only [aegis_app_query_result_payload_read]
      rw [if_neg (not_not.mpr rfl), if_neg (by omega)]
      exact r2
    · simp only [aegis_app_query_result_payload_read]
      rw [if_pos (Ne.symm hm)]
  · unfold aegis_app_query_result_payload_write
    rw [if_pos hn]

theorem payload_round_trip_witness :
    ([9, 8, 7].length = 3 ∧ 3 ≤ [0, 0, 0, 0].length) ∧ ((demo_cmd.payload.length =
    APP_CMD_PAYLOAD_MAX → 3 ≤ APP_CMD_PAYLOAD_MAX → (aegis_app_cmd_payload_write demo_cmd (some
    [9, 8, 7]) 3).1 = ERR_OK ∧ (aegis_app_cmd_payload_write demo_cmd (some [9, 8, 7])
    3).2.payload_size = 3 ∧ (aegis_app_cmd_payload_write demo_cmd (some [9, 8, 7]) 3).2.type =
    demo_cmd.type ∧ (aegis_app_cmd_payload_write demo_cmd (some [9, 8, 7]) 3).2.timestamp =
    demo_cmd.timestamp ∧ (aegis_app_cmd_payload_write demo_cmd (some [9, 8, 7]) 3).2.entity_id =
    demo_cmd.entity_id ∧ (aegis_app_cmd_payload_read (aegis_app_cmd_payload_write demo_cmd (some
    [9, 8, 7]) 3).2 [0, 0, 0, 0] 3).1 = ERR_OK ∧ (aegis_app_cmd_payload_read
    (aegis_app_cmd_payload_write demo_cmd (some [9, 8, 7]) 3).2 [0, 0, 0, 0] 3).2.take 3 = [9, 8,
    7] ∧ (aegis_app_cmd_payload_read (aegis_app_cmd_payload_write demo_cmd (some [9, 8, 7]) 3).2
    [0, 0, 0, 0] 3).2.drop 3 = [0, 0, 0, 0].drop 3 ∧ (2 ≠ 3 → aegis_app_cmd_payload_read
    (aegis_app_cmd_payload_write demo_cmd (some [9, 8, 7]) 3).2 [0, 0, 0, 0] 2 =
    (ERR_OUT_OF_RANGE, [0, 0, 0, 0]))) ∧ (∀ src, 3 > APP_CMD_PAYLOAD_MAX →
    aegis_app_cmd_payload_write demo_cmd src 3 = (ERR_OUT_OF_RANGE, demo_cmd)) ∧
    (demo_result.payload.length = APP_CMD_RESULT_PAYLOAD_MAX → 3 ≤ APP_CMD_RESULT_PAYLOAD_MAX →
    (aegis_app_cmd_result_payload_write demo_result (some [9, 8, 7]) 3).1 = ERR_OK ∧
    (aegis_app_cmd_result_payload_write demo_result (some [9, 8, 7]) 3).2.payload_size = 3 ∧
    (aegis_app_cmd_result_payload_write demo_result (some [9, 8, 7]) 3).2.result =
    demo_result.result ∧ (aegis_app_cmd_result_payload_write demo_result (some [9, 8, 7])
    3).2.created_id = demo_result.created_id ∧ (aegis_app_cmd_result_payload_read
    (aegis_app_cmd_result_payload_write demo_result (some [9, 8, 7]) 3).2 [0, 0, 0, 0] 3).1 =
    ERR_OK ∧ (aegis_app_cmd_result_payload_read (aegis_app_cmd_result_payload_write demo_result
    (some [9, 8, 7]) 3).2 [0, 0, 0, 0] 3).2.take 3 = [9, 8, 7] ∧
    (aegis_app_cmd_result_payload_read (aegis_app_cmd_result_payload_write demo_result (some [9,
    8, 7]) 3).2 [0, 0, 0, 0] 3).2.drop 3 = [0, 0, 0, 0].drop 3 ∧ (2 ≠ 3 →
    aegis_app_cmd_result_payload_read (aegis_app_cmd_result_payload_write demo_result (some [9, 8,
    7]) 3).2 [0, 0, 0, 0] 2 = (ERR_OUT_OF_RANGE, [0, 0, 0, 0]))) ∧ (∀ src, 3 >
    APP_CMD_RESULT_PAYLOAD_MAX → aegis_app_cmd_result_payload_write demo_result src 3 =
    (ERR_OUT_OF_RANGE, demo_result)) ∧ (demo_req.payload.length = APP_QUERY_PAYLOAD_MAX → 3 ≤
    APP_QUERY_PAYLOAD_MAX → (aegis_app_query_payload_write demo_req (some [9, 8, 7]) 3).1 = ERR_OK
    ∧ (aegis_app_query_payload_write demo_req (some [9, 8, 7]) 3).2.payload_size = 3 ∧
    (aegis_app_query_payload_write demo_req (some [9, 8, 7]) 3).2.type = demo_req.type ∧
    (aegis_app_query_payload_write demo_req (some [9, 8, 7]) 3).2.entity_id = demo_req.entity_id ∧
    (aegis_app_query_payload_read (aegis_app_query_payload_write demo_req (some [9, 8, 7]) 3).2
    [0, 0, 0, 0] 3).1 = ERR_OK ∧ (aegis_app_query_payload_read (aegis_app_query_payload_write
    demo_req (some [9, 8, 7]) 3).2 [0, 0, 0, 0] 3).2.take 3 = [9, 8, 7] ∧
    (aegis_app_query_payload_read (aegis_app_query_payload_write demo_req (some [9, 8, 7]) 3).2
    [0, 0, 0, 0] 3).2.drop 3 = [0, 0, 0, 0].drop 3 ∧ (2 ≠ 3 → aegis_app_query_payload_read
    (aegis_app_query_payload_write demo_req (some [9, 8, 7]) 3).2 [0, 0, 0, 0] 2 =
    (ERR_OUT_OF_RANGE, [0, 0, 0, 0]))) ∧ (∀ src, 3 > APP_QUERY_PAYLOAD_MAX →
    aegis_app_query_payload_write demo_req src 3 = (ERR_OUT_OF_RANGE, demo_req)) ∧
    (demo_resp.payload.length = APP_QUERY_RESULT_PAYLOAD_MAX → 3 ≤ APP_QUERY_RESULT_PAYLOAD_MAX →
    (aegis_app_query_result_payload_write demo_resp (some [9, 8, 7]) 3).1 = ERR_OK ∧
    (aegis_app_query_result_payload_write demo_resp (some [9, 8, 7]) 3).2.payload_size = 3 ∧
    (aegis_app_query_result_payload_write demo_resp (some [9, 8, 7]) 3).2.result =
    demo_resp.result ∧ (aegis_app_query_result_payload_read (aegis_app_query_result_payload_write
    demo_resp (some [9, 8, 7]) 3).2 [0, 0, 0, 0] 3).1 = ERR_OK ∧
    (aegis_app_query_result_payload_read (aegis_app_query_result_payload_write demo_resp (some [9,
    8, 7]) 3).2 [0, 0, 0, 0] 3).2.take 3 = [9, 8, 7] ∧ (aegis_app_query_result_payload_read
    (aegis_app_query_result_payload_write demo_resp (some [9, 8, 7]) 3).2 [0, 0, 0, 0] 3).2.drop 3
    = [0, 0, 0, 0].drop 3 ∧ (2 ≠ 3 → aegis_app_query_result_payload_read
    (aegis_app_query_result_payload_write demo_resp (some [9, 8, 7]) 3).2 [0, 0, 0, 0] 2 =
    (ERR_OUT_OF_RANGE, [0, 0, 0, 0]))) ∧ ∀ src, 3 > APP_QUERY_RESULT_PAYLOAD_MAX →
    aegis_app_query_result_payload_write demo_resp src 3 = (ERR_OUT_OF_RANGE, demo_resp)) :=
  ⟨by decide, payload_round_trip demo_cmd demo_result demo_req demo_resp [9, 8, 7] [0, 0, 0, 0] 3 2 (by decide) (by decide)⟩


/-! ## Claims about the memory pool -/

/-- C33 (memory pool alloc and free): `aegis_mem_pool_init` returns `ERR_OK` and
leaves a pool with the region layout, block 0 at the head of the free list of
the small region and `used_blocks` 0.  On every pool with that layout whose
small region has block `k` at the head of its free list (so on the pool right
after init), for every size with `1 ≤ size ≤ 28`, `aegis_mem_pool_alloc`
returns a non-null pointer (two bytes into block `k` of the small region) and
increases `used_blocks` and the used count of the small region by one, leaving
the counts of the other regions; `aegis_mem_pool_check_magic` on the pointer
returns `ERR_OK`; `aegis_mem_pool_free` of the pointer returns `ERR_OK` and
restores `used_blocks` and the count of the small region; freeing the same
pointer again returns `ERR_MEM_POOL_DOUBLE_FREE` and leaves the pool, hence
every count, as it was. -/
theorem mem_pool_alloc_free (storage : AegisMemPool) (trace : Option AegisTraceLog)
    (pool : AegisMemPool) (k size : Nat) (file : Option String) (line : Nat)
    (stats : AegisMemPoolStats) (hl : PoolLayout pool)
    (hk : (pool_region pool 0).free_list_head = k) (hk16 : k < MEM_POOL_SMALL_COUNT)
    (hu : (pool_region pool 0).used_count < MEM_POOL_SMALL_COUNT) (h1 : 1 ≤ size)
    (h28 : size ≤ 28) :
    ((aegis_mem_pool_init storage trace).1 = ERR_OK ∧
        PoolLayout (aegis_mem_pool_init storage trace).2 ∧
        (pool_region (aegis_mem_pool_init storage trace).2 0).free_list_head = 0 ∧
        (pool_region (aegis_mem_pool_init storage trace).2 0).used_count = 0 ∧
        ∃ s,
          aegis_mem_pool_get_stats (aegis_mem_pool_init storage trace).2 (some stats) =
              (ERR_OK, some s) ∧
            s.used_blocks = 0) ∧
      ∃ s0 s1 s2,
        aegis_mem_pool_get_stats pool (some stats) = (ERR_OK, some s0) ∧
          (aegis_mem_pool_alloc pool size file line).1 ≠ 0 ∧
          (aegis_mem_pool_alloc pool size file line).1 = pool.buffer_addr + 32 * k + 2 ∧
          aegis_mem_pool_get_stats (aegis_mem_pool_alloc pool size file line).2 (some stats) =
            (ERR_OK, some s1) ∧
          s1.used_blocks = s0.used_blocks + 1 ∧
          s1.small_used = s0.small_used + 1 ∧
          s1.medium_used = s0.medium_used ∧
          s1.large_used = s0.large_used ∧
          s1.xlarge_used = s0.xlarge_used ∧
          aegis_mem_pool_check_magic (aegis_mem_pool_alloc pool size file line).2
              (aegis_mem_pool_alloc pool size file line).1 =
            ERR_OK ∧
          (aegis_mem_pool_free (aegis_mem_pool_alloc pool size file line).2
            (aegis_mem_pool_alloc pool size file line).1).1 =
            ERR_OK ∧
          aegis_mem_pool_get_stats
              (aegis_mem_pool_free (aegis_mem_pool_alloc pool size file line).2
            (aegis_mem_pool_alloc pool size file line).1).2
              (some stats) =
            (ERR_OK, some s2) ∧
          s2.used_blocks = s0.used_blocks ∧
          s2.small_used = s0.small_used ∧
          s2.medium_used = s0.medium_used ∧
          s2.large_used = s0.large_used ∧
          s2.xlarge_used = s0.xlarge_used ∧
          aegis_mem_pool_free
              (aegis_mem_pool_free (aegis_mem_pool_alloc pool size file line).2
            (aegis_mem_pool_alloc pool size file line).1).2
              (aegis_mem_pool_alloc pool size file line).1 =
            (ERR_MEM_POOL_DOUBLE_FREE,
              (aegis_mem_pool_free (aegis_mem_pool_alloc pool size file line).2
            (aegis_mem_pool_alloc pool size file line).1).2) := by
  have hstats : ∀ q : AegisMemPool, q.is_initialized ≠ 0 →
      aegis_mem_pool_get_stats q (some stats) =
        (ERR_OK,
          some
            { total_blocks := MEM_POOL_TOTAL_BLOCKS
              used_blocks := pool_total_used q
              free_blocks := (MEM_POOL_TOTAL_BLOCKS + 256 - pool_total_used q) % 256
              peak_usage := q.peak_usage
              small_used := (pool_region q 0).used_count
              medium_used := (pool_region q 1).used_count
              large_used := (pool_region q 2).used_count
              xlarge_used := (pool_region q 3).used_count }) := by
    intro q hq
    simp only [aegis_mem_pool_get_stats]
    rw [if_neg hq]
  obtain ⟨i1, i2, -, -, -, -, i7⟩ := mem_pool_init_spec storage trace
  obtain ⟨a1, a2, a3, a4, a5⟩ := alloc_small_live pool k size file line hl hk hk16 hu h1 h28
  have c1 := check_magic_live _ k a2
  obtain ⟨f1, f2, f3, f4, f5, f6⟩ := free_live_spec _ k a2 (by rw [a4]; omega)
  have d1 := double_free_small _ k f2 hk16 f4
  rw [a3, ← a1] at c1 f1 f2 f3 f4 f5 f6 d1
  rw [f3, ← a1] at d1
  have hu0 := hl.2.2.2.2.1.2.2.2
  have hu1 := hl.2.2.2.2.2.1.2.2.2
  have hu2 := hl.2.2.2.2.2.2.1.2.2.2
  have hu3 := hl.2.2.2.2.2.2.2.2.2.2
  unfold MEM_POOL_SMALL_COUNT at hu0 hu
  unfold MEM_POOL_MEDIUM_COUNT at hu1
  unfold MEM_POOL_LARGE_COUNT at hu2
  unfold MEM_POOL_XLARGE_COUNT at hu3
  refine ⟨⟨i1, i2, (i7 0 (by decide)).1, (i7 0 (by decide)).2.1, _, hstats _ i2.1, ?_⟩, _, _, _,
    hstats _ hl.1, ?_, a1, hstats _ a2.1.1, ?_, a4,
    congrArg AegisMemPoolRegion.used_count (a5 1 (by decide)),
    congrArg AegisMemPoolRegion.used_count (a5 2 (by decide)),
    congrArg AegisMemPoolRegion.used_count (a5 3 (by decide)), c1, f1, hstats _ f2.1, ?_, ?_,
    congrArg AegisMemPoolRegion.used_count ((f6 1 (by decide)).trans (a5 1 (by decide))),
    congrArg AegisMemPoolRegion.used_count ((f6 2 (by decide)).trans (a5 2 (by decide))),
    congrArg AegisMemPoolRegion.used_count ((f6 3 (by decide)).trans (a5 3 (by decide))), d1⟩
  · show pool_total_used _ = 0
    unfold pool_total_used
    rw [(i7 0 (by decide)).2.1, (i7 1 (by decide)).2.1, (i7 2 (by decide)).2.1,
      (i7 3 (by decide)).2.1]
  · rw [a1]
    omega
  · show pool_total_used _ = pool_total_used pool + 1
    unfold pool_total_used
    rw [a4, a5 1 (by decide), a5 2 (by decide), a5 3 (by decide)]
    omega
  · show pool_total_used _ = pool_total_used pool
    unfold pool_total_used
    rw [f5, f6 1 (by decide), f6 2 (by decide), f6 3 (by decide), a4, a5 1 (by decide),
      a5 2 (by decide), a5 3 (by decide)]
    omega
  · show (pool_region _ 0).used_count = (pool_region pool 0).used_count
    rw [f5, a4]
    omega

theorem mem_pool_alloc_free_witness :
    (PoolLayout (aegis_mem_pool_init storage_pool none).2 ∧ (pool_region (aegis_mem_pool_init
    storage_pool none).2 0).free_list_head = 0 ∧ 0 < MEM_POOL_SMALL_COUNT ∧ (pool_region
    (aegis_mem_pool_init storage_pool none).2 0).used_count < MEM_POOL_SMALL_COUNT ∧ 1 ≤ 16 ∧ 16 ≤
    28) ∧ (((aegis_mem_pool_init storage_pool none).1 = ERR_OK ∧ PoolLayout (aegis_mem_pool_init
    storage_pool none).2 ∧ (pool_region (aegis_mem_pool_init storage_pool none).2
    0).free_list_head = 0 ∧ (pool_region (aegis_mem_pool_init storage_pool none).2 0).used_count =
    0 ∧ ∃ s, aegis_mem_pool_get_stats (aegis_mem_pool_init storage_pool none).2 (some zero_stats)
    = (ERR_OK, some s) ∧ s.used_blocks = 0) ∧ ∃ s0 s1 s2, aegis_mem_pool_get_stats
    (aegis_mem_pool_init storage_pool none).2 (some zero_stats) = (ERR_OK, some s0) ∧
    (aegis_mem_pool_alloc (aegis_mem_pool_init storage_pool none).2 16 none 0).1 ≠ 0 ∧
    (aegis_mem_pool_alloc (aegis_mem_pool_init storage_pool none).2 16 none 0).1 =
    (aegis_mem_pool_init storage_pool none).2.buffer_addr + 32 * 0 + 2 ∧ aegis_mem_pool_get_stats
    (aegis_mem_pool_alloc (aegis_mem_pool_init storage_pool none).2 16 none 0).2 (some zero_stats)
    = (ERR_OK, some s1) ∧ s1.used_blocks = s0.used_blocks + 1 ∧ s1.small_used = s0.small_used + 1
    ∧ s1.medium_used = s0.medium_used ∧ s1.large_used = s0.large_used ∧ s1.xlarge_used =
    s0.xlarge_used ∧ aegis_mem_pool_check_magic (aegis_mem_pool_alloc (aegis_mem_pool_init
    storage_pool none).2 16 none 0).2 (aegis_mem_pool_alloc (aegis_mem_pool_init storage_pool
    none).2 16 none 0).1 = ERR_OK ∧ (aegis_mem_pool_free (aegis_mem_pool_alloc
    (aegis_mem_pool_init storage_pool none).2 16 none 0).2 (aegis_mem_pool_alloc
    (aegis_mem_pool_init storage_pool none).2 16 none 0).1).1 = ERR_OK ∧ aegis_mem_pool_get_stats
    (aegis_mem_pool_free (aegis_mem_pool_alloc (aegis_mem_pool_init storage_pool none).2 16 none
    0).2 (aegis_mem_pool_alloc (aegis_mem_pool_init storage_pool none).2 16 none 0).1).2 (some
    zero_stats) = (ERR_OK, some s2) ∧ s2.used_blocks = s0.used_blocks ∧ s2.small_used =
    s0.small_used ∧ s2.medium_used = s0.medium_used ∧ s2.large_used = s0.large_used ∧
    s2.xlarge_used = s0.xlarge_used ∧ aegis_mem_pool_free (aegis_mem_pool_free
    (aegis_mem_pool_alloc (aegis_mem_pool_init storage_pool none).2 16 none 0).2
    (aegis_mem_pool_alloc (aegis_mem_pool_init storage_pool none).2 16 none 0).1).2
    (aegis_mem_pool_alloc (aegis_mem_pool_init storage_pool none).2 16 none 0).1 =
    (ERR_MEM_POOL_DOUBLE_FREE, (aegis_mem_pool_free (aegis_mem_pool_alloc (aegis_mem_pool_init
    storage_pool none).2 16 none 0).2 (aegis_mem_pool_alloc (aegis_mem_pool_init storage_pool
    none).2 16 none 0).1).2)) :=
  ⟨⟨(mem_pool_init_spec storage_pool none).2.1,
      ((mem_pool_init_spec storage_pool none).2.2.2.2.2.2 0 (by decide)).1, by decide,
      lt_of_eq_of_lt ((mem_pool_init_spec storage_pool none).2.2.2.2.2.2 0 (by decide)).2.1
        (by decide),
      by decide, by decide⟩,
    mem_pool_alloc_free storage_pool none (aegis_mem_pool_init storage_pool none).2 0 16 none 0
      zero_stats (mem_pool_init_spec storage_pool none).2.1
      ((mem_pool_init_spec storage_pool none).2.2.2.2.2.2 0 (by decide)).1 (by decide)
      (lt_of_eq_of_lt ((mem_pool_init_spec storage_pool none).2.2.2.2.2.2 0 (by decide)).2.1
        (by decide))
      (by decide) (by decide)⟩


/-! ## Claims about the status execute reports -/

/-- C38 (execute reports the handler's return value): when the first entry of
the table with the type of the command (resp. of the request, which is not
`QUERY_TYPE_INVALID`) holds a handler, `aegis_app_cmd_service_execute` (resp.
`aegis_app_query_execute`) returns the value the handler returned and stores
that value in `result.result` (resp. `resp.result`), whatever the handler
itself stored there; every other field of the record is as the handler left
it.  So a query handler that stores an error in `resp.result` but returns
`ERR_OK` yields `resp.result = ERR_OK`. -/
theorem execute_reports_return (service : AegisAppCmdService) (cmd : AegisCommand)
    (result : AegisCommandResult) (i : Nat) (e : HandlerEntry AppCmdHandler)
    (h : AppCmdHandler) (dispatcher : AegisAppQueryDispatcher) (req : AegisQueryRequest)
    (resp : AegisQueryResponse) (j : Nat) (f : HandlerEntry AppQueryHandler)
    (g : AppQueryHandler) (hi : i < service.handler_count)
    (he : service.handlers[i]? = some e) (ht : e.type = cmd.type)
    (hfirst : ∀ k, k < i → ∀ x, service.handlers[k]? = some x → x.type ≠ cmd.type)
    (hh : e.handler = some h) (hv : req.type ≠ QUERY_TYPE_INVALID)
    (hj : j < dispatcher.handler_count) (hf : dispatcher.handlers[j]? = some f)
    (hft : f.type = req.type)
    (hffirst : ∀ k, k < j → ∀ x, dispatcher.handlers[k]? = some x → x.type ≠ req.type)
    (hg : f.handler = some g) :
    ((aegis_app_cmd_service_execute service cmd result).1 =
          (h cmd (cmd_result_defaults result) e.ctx).1 ∧
        (aegis_app_cmd_service_execute service cmd result).2.1.result =
          (h cmd (cmd_result_defaults result) e.ctx).1 ∧
        (aegis_app_cmd_service_execute service cmd result).2.1.created_id =
          (h cmd (cmd_result_defaults result) e.ctx).2.created_id ∧
        (aegis_app_cmd_service_execute service cmd result).2.1.payload_size =
          (h cmd (cmd_result_defaults result) e.ctx).2.payload_size ∧
        (aegis_app_cmd_service_execute service cmd result).2.1.payload =
          (h cmd (cmd_result_defaults result) e.ctx).2.payload ∧
        (aegis_app_cmd_service_execute service cmd result).2.2 = [(i, e.ctx)]) ∧
      ((aegis_app_query_execute dispatcher req resp).1 = (g req resp f.ctx).1 ∧
        (aegis_app_query_execute dispatcher req resp).2.1.result = (g req resp f.ctx).1 ∧
        (aegis_app_query_execute dispatcher req resp).2.1.payload_size =
          (g req resp f.ctx).2.payload_size ∧
        (aegis_app_query_execute dispatcher req resp).2.1.payload =
          (g req resp f.ctx).2.payload ∧
        (aegis_app_query_execute dispatcher req resp).2.2 = [(j, f.ctx)]) ∧
      ((g req resp f.ctx).1 = ERR_OK →
        (aegis_app_query_execute dispatcher req resp).1 = ERR_OK ∧
          (aegis_app_query_execute dispatcher req resp).2.1.result = ERR_OK) := by
  have hc := cmd_execute_found service cmd result i h e.ctx
    (lookup_of_first service cmd.type i e h hi he ht hfirst hh)
  have hq := query_execute_found dispatcher req resp j g f.ctx hv
    (lookup_of_first dispatcher req.type j f g hj hf hft hffirst hg)
  rw [hc, hq]
  exact ⟨⟨rfl, rfl, rfl, rfl, rfl, rfl⟩, ⟨rfl, rfl, rfl, rfl, rfl⟩, fun hok => ⟨hok, hok⟩⟩

theorem execute_reports_return_witness :
    ((aegis_app_cmd_service_execute failing_service demo_cmd demo_result).1 = (failing_cmd_handler
    demo_cmd (cmd_result_defaults demo_result) failing_entry.ctx).1 ∧
    (aegis_app_cmd_service_execute failing_service demo_cmd demo_result).2.1.result =
    (failing_cmd_handler demo_cmd (cmd_result_defaults demo_result) failing_entry.ctx).1 ∧
    (aegis_app_cmd_service_execute failing_service demo_cmd demo_result).2.1.created_id =
    (failing_cmd_handler demo_cmd (cmd_result_defaults demo_result)
    failing_entry.ctx).2.created_id ∧ (aegis_app_cmd_service_execute failing_service demo_cmd
    demo_result).2.1.payload_size = (failing_cmd_handler demo_cmd (cmd_result_defaults
    demo_result) failing_entry.ctx).2.payload_size ∧ (aegis_app_cmd_service_execute
    failing_service demo_cmd demo_result).2.1.payload = (failing_cmd_handler demo_cmd
    (cmd_result_defaults demo_result) failing_entry.ctx).2.payload ∧
    (aegis_app_cmd_service_execute failing_service demo_cmd demo_result).2.2 = [(0,
    failing_entry.ctx)]) ∧ ((aegis_app_query_execute masking_dispatcher demo_query demo_resp).1 =
    (masking_query_handler demo_query demo_resp masking_entry.ctx).1 ∧ (aegis_app_query_execute
    masking_dispatcher demo_query demo_resp).2.1.result = (masking_query_handler demo_query
    demo_resp masking_entry.ctx).1 ∧ (aegis_app_query_execute masking_dispatcher demo_query
    demo_resp).2.1.payload_size = (masking_query_handler demo_query demo_resp
    masking_entry.ctx).2.payload_size ∧ (aegis_app_query_execute masking_dispatcher demo_query
    demo_resp).2.1.payload = (masking_query_handler demo_query demo_resp
    masking_entry.ctx).2.payload ∧ (aegis_app_query_execute masking_dispatcher demo_query
    demo_resp).2.2 = [(0, masking_entry.ctx)]) ∧ ((masking_query_handler demo_query demo_resp
    masking_entry.ctx).1 = ERR_OK → (aegis_app_query_execute masking_dispatcher demo_query
    demo_resp).1 = ERR_OK ∧ (aegis_app_query_execute masking_dispatcher demo_query
    demo_resp).2.1.result = ERR_OK) :=
  execute_reports_return failing_service demo_cmd demo_result 0 failing_entry failing_cmd_handler
    masking_dispatcher demo_query demo_resp 0 masking_entry masking_query_handler (by decide)
    rfl rfl (fun k hk => absurd hk (Nat.not_lt_zero k)) rfl (by decide) (by decide) rfl rfl
    (fun k hk => absurd hk (Nat.not_lt_zero k)) rfl


/-! ## Claims about conservation, termination, nesting and priorities -/

/-- C37 (event conservation): for every sequence of top-level publish and
process calls (handlers may publish) on a bus since a successful
`aegis_domain_event_bus_init`, once the calls have returned and as long as
fewer than 2^32 events were published, `total_published` is the number of
publications made and equals `dropped_events + total_processed + pending`,
`pending` being the number of whole records in the async queue, which is what
`aegis_domain_event_get_stats` reports; the async queue holds exactly
`pending * sizeof(AegisDomainEvent)` bytes; and the history count equals
`min(total_published, DOMAIN_EVENT_HISTORY_SIZE)`. -/
theorem event_conservation (fuel : Nat) (storage : AegisDomainEventBus)
    (trace : Option AegisTraceLog) (subs : Option (List AegisEventSubscription)) (count : Nat)
    (cs : List BusCall) (rs : List BusRet) (b' : AegisDomainEventBus) (o : List BusObs)
    (hinit : (aegis_domain_event_bus_init storage trace subs count).1 = ERR_OK)
    (ht : TraceWF trace)
    (hrun : bus_run fuel (aegis_domain_event_bus_init storage trace subs count).2 cs =
      some (rs, b', o))
    (hwrap : (obs_published o).length < 4294967296) :
    b'.total_published = (obs_published o).length ∧
      b'.dropped_events = (obs_dropped o).length ∧
      b'.total_processed = (obs_dequeued o).length ∧
      b'.total_published =
        b'.dropped_events + b'.total_processed + (pending_events b').length ∧
      (pending_events b').length = b'.async_queue.count / sizeof_AegisDomainEvent ∧
      aegis_domain_event_get_stats b' =
        (ERR_OK, some ((pending_events b').length, b'.total_processed)) ∧
      b'.async_queue.count = (pending_events b').length * sizeof_AegisDomainEvent ∧
      b'.history.count = min b'.total_published DOMAIN_EVENT_HISTORY_SIZE := by
  obtain ⟨h1, h2⟩ := bus_init_ok storage trace subs count hinit
  obtain ⟨f1, -, -, -, -, f6, f7, f8⟩ := bus_init_fields storage trace subs count h1 h2
  obtain ⟨w1, w2, w3⟩ := bus_init_wf storage trace subs count h1 h2 ht
  have hi : (aegis_domain_event_bus_init storage trace subs count).2.is_initialized ≠ 0 := by
    rw [f1]; decide
  have e := bus_run_spec fuel cs _ rs b' o w1 hi hrun
  have hb := bus_run_balanced fuel cs _ rs b' o w1 hi hrun
  have hq := e.queue
  rw [w2, List.nil_append] at hq
  have hlen : (obs_dequeued o).length + (pending_events b').length = (obs_enqueued o).length := by
    rw [← hq, List.length_append]
  have htp := e.tp
  have hdr := e.dr
  have hpr := e.pr
  rw [f7, Nat.zero_add, Nat.mod_eq_of_lt hwrap] at htp
  rw [f6, Nat.zero_add, Nat.mod_eq_of_lt (by omega)] at hdr
  rw [f8, Nat.zero_add, Nat.mod_eq_of_lt (by omega)] at hpr
  have hcnt := queueWF_count _ _ e.wf.1
  have hle := queueWF_length_le _ _ e.wf.1
  rw [queue_size_eq] at hle
  have hdiv : b'.async_queue.count / sizeof_AegisDomainEvent = (pending_events b').length := by
    rw [hcnt, Nat.mul_div_cancel_left _ (by decide)]
  have hhist := congrArg List.length e.hist
  rw [hist_list_length, List.length_take, List.length_append, List.length_reverse, w3,
    List.length_nil, Nat.add_zero, ← htp] at hhist
  refine ⟨htp, hdr, hpr, by omega, hdiv.symm, ?_, by rw [hcnt, Nat.mul_comm], ?_⟩
  · unfold aegis_domain_event_get_stats
    rw [if_neg (by rw [e.init]; exact hi)]
    show (ERR_OK, some ((b'.async_queue.count / sizeof_AegisDomainEvent) % 256, _)) = _
    rw [hdiv, Nat.mod_eq_of_lt (by omega)]
  · rw [hhist, Nat.min_comm]

theorem event_conservation_witness :
    ∃ rs b' o,
      ((aegis_domain_event_bus_init storage_bus none (some nest_table) 1).1 = ERR_OK ∧
        TraceWF none ∧
        bus_run 4 (aegis_domain_event_bus_init storage_bus none (some nest_table) 1).2
            [BusCall.publish demo_event] = some (rs, b', o) ∧
        (obs_published o).length < 4294967296) ∧
      (b'.total_published = (obs_published o).length ∧
        b'.dropped_events = (obs_dropped o).length ∧
        b'.total_processed = (obs_dequeued o).length ∧
        b'.total_published =
          b'.dropped_events + b'.total_processed + (pending_events b').length ∧
        (pending_events b').length = b'.async_queue.count / sizeof_AegisDomainEvent ∧
        aegis_domain_event_get_stats b' =
          (ERR_OK, some ((pending_events b').length, b'.total_processed)) ∧
        b'.async_queue.count = (pending_events b').length * sizeof_AegisDomainEvent ∧
        b'.history.count = min b'.total_published DOMAIN_EVENT_HISTORY_SIZE) := by
  have hev := nest_publish_eval
  cases hpub : aegis_domain_event_publish 4 nest_bus demo_event with
  | none => simp [hpub] at hev
  | some r =>
    obtain ⟨c1, b1, o1⟩ := r
    simp only [hpub, Option.map_some', Option.some.injEq, Prod.mk.injEq] at hev
    obtain ⟨rfl, h1, -, -⟩ := hev
    have hrun : bus_run 4 (aegis_domain_event_bus_init storage_bus none (some nest_table) 1).2
        [BusCall.publish demo_event] = some ([BusRet.code ERR_OK], b1, o1 ++ []) := by
      have hp : aegis_domain_event_publish 4
          (aegis_domain_event_bus_init storage_bus none (some nest_table) 1).2 demo_event =
          some (ERR_OK, b1, o1) := hpub
      simp only [bus_run, hp]
    have hlen : (obs_published (o1 ++ [])).length < 4294967296 := by
      rw [List.append_nil, ← List.length_map (obs_published o1) AegisDomainEvent.event_id, h1]
      decide
    exact ⟨_, b1, _, ⟨by decide, (fun _ h => nomatch h), hrun, hlen⟩,
      event_conservation 4 storage_bus none (some nest_table) 1 [BusCall.publish demo_event] _ b1
        _ (by decide) (fun _ h => nomatch h) hrun hlen⟩

/-- C39 (termination of process, amended): on a well-formed initialised bus
outside any handler, with handlers that terminate and `fuel` for
`max_events + DOMAIN_EVENT_QUEUE_SIZE + 4` loop iterations and publish levels:
for `0 < max_events < 256` and arbitrary handlers (they may publish),
`aegis_domain_event_process` returns the number `n ≤ max_events` of events it
dequeued and dispatched, counted in `total_processed`, and it stopped before
the budget only on an empty queue; for `max_events == 0` with handlers that do
not publish it returns `P`, the number of events pending at the call
(`P ≤ DOMAIN_EVENT_QUEUE_SIZE`), having dequeued exactly those; and whenever a
`process(bus, 0)` call returns, whatever the handlers, the queue is empty and
the call dequeued the events pending at the call followed by every event that
was enqueued during the call, while each event published during the call was
either enqueued or dropped on a full queue and counted in `dropped_events`. -/
theorem process_terminates (fuel : Nat) (b : AegisDomainEventBus)
    (tbl : List AegisEventSubscription) (max : Nat)
    (hwf : BusWF b) (hi : b.is_initialized ≠ 0) (hd : b.recursion_depth = 0)
    (htbl : b.subscriptions.getD [] = tbl) (hmax : max < 256)
    (hfuel : max + DOMAIN_EVENT_QUEUE_SIZE + 4 ≤ fuel) :
    (0 < max → ∃ n b' o, aegis_domain_event_process fuel b max = some (n, b', o) ∧ n ≤ max ∧
        (obs_dequeued o).length = n ∧ (n < max → pending_events b' = []) ∧
        b'.total_processed = (b.total_processed + n) % 4294967296) ∧
      (NoPublish tbl → (pending_events b).length ≤ DOMAIN_EVENT_QUEUE_SIZE ∧
        ∃ b' o, aegis_domain_event_process fuel b 0 =
            some ((pending_events b).length, b', o) ∧
          obs_dequeued o = pending_events b ∧ obs_published o = [] ∧
          pending_events b' = []) ∧
      ∀ f n b' o, aegis_domain_event_process f b 0 = some (n, b', o) →
        pending_events b' = [] ∧ obs_dequeued o = pending_events b ++ obs_enqueued o ∧
          (obs_published o).length = (obs_enqueued o).length + (obs_dropped o).length ∧
          b'.dropped_events = (b.dropped_events + (obs_dropped o).length) % 4294967296 := by
  have hQ := queue_size_eq
  have hM := max_depth_eq
  have hle := queueWF_length_le _ _ hwf.1
  rw [hQ] at hle hfuel
  refine ⟨fun hpos => ?_, fun hnp => ⟨by rw [hQ]; exact hle, ?_⟩, fun f n b' o hrun => ?_⟩
  · obtain ⟨n, b', o, hrun, hn, hcount, hdrain⟩ := process_loop_total
      (aegis_domain_event_publish fuel) (publish_spec fuel) max hpos hmax
      (fun d hd3 b1 e1 hwf1 _ hd1 => publish_total fuel b1 e1 hwf1 (by omega)
        (by rw [hd1, hM]; omega))
      fuel b zero_event 0 hwf hi (Nat.zero_le _) (by omega)
    have hproc : aegis_domain_event_process fuel b max = some (n, b', o) := by
      unfold aegis_domain_event_process
      rw [if_neg hi]
      exact hrun
    have e1 := process_spec fuel b b' max n o hwf hproc
    rw [Nat.zero_add] at hcount
    exact ⟨n, b', o, hproc, hn, hcount.symm, hdrain, by rw [e1.pr, ← hcount]⟩
  · obtain ⟨f, rfl⟩ : ∃ f, fuel = f + 1 := ⟨fuel - 1, by omega⟩
    have hpc : process_count 0 0 (pending_events b).length = (pending_events b).length := rfl
    obtain ⟨b2, hpl, -, hpend, -⟩ := process_loop_quiet
      (aegis_domain_event_publish (f + 1)) tbl 0 (f + 1) (pending_events b) b zero_event 0 hwf hd
      htbl rfl (fun ev _ => noPublish_quiet tbl hnp FALSE ev) (by rw [hpc]; omega)
      (by rw [hpc]; omega)
    rw [hpc, Nat.zero_add, List.take_length] at hpl
    rw [hpc, List.drop_length] at hpend
    refine ⟨b2, process_obs tbl b.subscription_count (pending_events b), ?_,
      (process_obs_dequeued _ _ _).1, (process_obs_dequeued _ _ _).2.1, hpend⟩
    unfold aegis_domain_event_process
    rw [if_neg hi]
    exact hpl
  · have e1 := process_spec f b b' 0 n o hwf hrun
    have hrun2 := hrun
    unfold aegis_domain_event_process at hrun2
    rw [if_neg hi] at hrun2
    have hdr := process_loop_drained _ (publish_spec f) f b zero_event 0 n b' o hwf hi hrun2
    have hbal := process_loop_balanced _ (publish_spec f) 0 f b zero_event 0 n b' o hwf hi hrun2
    have hq := e1.queue
    rw [hdr, List.append_nil] at hq
    exact ⟨hdr, hq, hbal, e1.dr⟩

theorem process_terminates_witness :
    (∃ n b' o, aegis_domain_event_process 40 (burst_pending 1) 1 = some (n, b', o) ∧ n ≤ 1 ∧
        (obs_dequeued o).length = n ∧ (n < 1 → pending_events b' = []) ∧
        b'.total_processed = ((burst_pending 1).total_processed + n) % 4294967296) ∧
      (∃ b' o, aegis_domain_event_process 40 fanout_bus_pending 0 =
          some ((pending_events fanout_bus_pending).length, b', o) ∧
        obs_dequeued o = pending_events fanout_bus_pending ∧ obs_published o = [] ∧
        pending_events b' = []) ∧
      ∃ b' o, aegis_domain_event_process 40 (burst_pending 1) 0 = some (2, b', o) ∧
        (obs_published o).length = 1 ∧ (obs_enqueued o).length = 1 ∧
        pending_events b' = [] ∧
        obs_dequeued o = pending_events (burst_pending 1) ++ obs_enqueued o := by
  obtain ⟨w1, w2, w3, w4, w5, -, -, a, w6, w7, -⟩ := burst_pending_spec 1
  obtain ⟨v1, v2, v3, v4⟩ := fanout_bus_pending_spec
  obtain ⟨b', o, hrun, h1, h2, -, -, -⟩ := burst_process 1 5 (burst_pending 1) a w1 w2 w3 w4 w5
    w6 w7
  refine ⟨(process_terminates 40 (burst_pending 1) (burst_table 1) 1 w1 w2 w3 w4 (by decide)
      (by decide)).1 (by decide),
    ((process_terminates 40 fanout_bus_pending fanout_table 0 v1 v2 v3 v4 (by decide)
      (by decide)).2.1 fanout_quiet).2, b', o, hrun, h1, ?_, ?_⟩
  · rw [h2, List.length_take, h1]
    rfl
  · obtain ⟨g1, g2, -⟩ := (process_terminates 40 (burst_pending 1) (burst_table 1) 0 w1 w2 w3 w4
      (by decide) (by decide)).2.2 40 2 b' o hrun
    exact ⟨g1, g2⟩

/-- Counterexample to C39 as stated: on the initialised bus whose only
subscription is an asynchronous handler for type 1 that publishes 33 events of
type 5, with one event of type 1 pending, `aegis_domain_event_process(bus, 0)`
returns 33: it dequeues the pending event, whose handler publishes 33 events
into the empty queue of 32 places, and then the 32 that were accepted.  The
last event published by the asynchronous handler during the call, `c`, found
the queue full: it was dropped and counted in `dropped_events`, and the call
that returned with an empty queue never dequeued it. -/
theorem process_terminates_counterexample :
    (aegis_domain_event_bus_init storage_bus none (some (burst_table 33)) 1).1 = ERR_OK ∧
      ∃ b' o c, aegis_domain_event_process 40 (burst_pending 33) 0 = some (33, b', o) ∧
        (obs_published o).length = 33 ∧ (obs_dequeued o).length = 33 ∧
        c ∈ obs_published o ∧ c ∉ obs_dequeued o ∧ obs_dropped o = [c] ∧
        pending_events b' = [] ∧ b'.dropped_events = 1 := by
  refine ⟨rfl, ?_⟩
  obtain ⟨w1, w2, w3, w4, w5, wn, wd, a, w6, w7, w8⟩ := burst_pending_spec 33
  obtain ⟨b', o, hrun, h1, h2, h3, h4, h5⟩ := burst_process 33 5 (burst_pending 33) a w1 w2 w3
    w4 w5 w6 w7
  have e1 := process_spec 40 (burst_pending 33) b' 0 _ o w1 hrun
  have hids := e1.ids
  rw [h1, wn] at hids
  obtain ⟨c, hc⟩ : ∃ c, (obs_published o).drop 32 = [c] :=
    List.length_eq_one.mp (by rw [List.length_drop, h1])
  have hcid : c.event_id = 34 := by
    have h := congrArg (List.drop 32) hids
    rw [← List.map_drop, hc] at h
    exact (List.cons.inj h).1
  have hcm : c ∈ obs_published o :=
    List.mem_of_mem_drop (by rw [hc]; exact List.mem_singleton_self c)
  refine ⟨b', o, c, hrun, h1, ?_, hcm, ?_, by rw [h3, hc], h5, ?_⟩
  · rw [h4, List.length_cons, List.length_take, h1]
    rfl
  · rw [h4]
    intro hmem
    rcases List.mem_cons.mp hmem with rfl | hmem
    · rw [w8] at hcid
      exact absurd hcid (by decide)
    · have h := List.mem_map_of_mem AegisDomainEvent.event_id hmem
      rw [List.map_take, hids, hcid] at h
      revert h
      decide
  · rw [e1.dr, wd, h3, hc]
    rfl

/-- C36 (nested publish is enqueued inner-first, amended): on a well-formed
initialised bus below the recursion limit, let a completed
`aegis_domain_event_publish` of `A` have dropped neither the copy `Ac` of `A`
nor a copy of `B` (both fitted in the async queue), and let the synchronous
subscription `i` be eligible for `Ac`, with a handler that publishes `B` when
it runs for `Ac`.  Then the handler was called for `Ac`, a
copy `Bc` of `B` was published during the call, and `Bc` stands in the async
queue before `Ac`, which is the last entry.  `Ac` was published first: it
carries `next_event_id` of the bus, `Bc` the identifier `k` steps later
modulo 65536, which is the larger one unless the 16-bit counter wrapped in
between.  While `Ac` is still among the 16 history entries (at most 16
publications during the call), `get_history` returns `Bc` at a smaller index
than `Ac`.  A later top-level `process` dequeues in queue order and calls, for
each dequeued event in turn, the eligible asynchronous subscriptions in table
order, so `Bc` is delivered before `Ac`; with `max_events == 0` it dequeues all
the pending events, `Bc` before `Ac`. -/
theorem nested_publish_inner_first (fuel : Nat) (b b' : AegisDomainEventBus)
    (A B : AegisDomainEvent) (c : AegisErrorCode) (o : List BusObs) (i : Nat)
    (sub : AegisEventSubscription) (h : DomainEventHandler)
    (hwf : BusWF b) (hi : b.is_initialized ≠ 0)
    (hd : b.recursion_depth < MAX_EVENT_RECURSION_DEPTH)
    (hsub : (b.subscriptions.getD [])[i]? = some sub) (hic : i < b.subscription_count)
    (hm : sub_matches TRUE (publish_enter b A).1 sub = true) (hh : sub.handler = some h)
    (hB : B ∈ (h (publish_enter b A).1 sub.ctx).publishes)
    (hrun : aegis_domain_event_publish fuel b A = some (c, b', o))
    (hfitA : (publish_enter b A).1 ∉ obs_dropped o)
    (hfitB : ∀ Bc, IsCopy B Bc → Bc ∉ obs_dropped o) :
    ∃ Bc k q1 q2, IsCopy A (publish_enter b A).1 ∧ IsCopy B Bc ∧
      BusObs.call i TRUE (publish_enter b A).1 b.recursion_depth
        (h (publish_enter b A).1 sub.ctx).result ∈ o ∧
      BusObs.published B Bc ∈ o ∧
      pending_events b' = pending_events b ++ q1 ++ Bc :: q2 ++ [(publish_enter b A).1] ∧
      (obs_published o)[0]? = some (publish_enter b A).1 ∧ 0 < k ∧
      (obs_published o)[k]? = some Bc ∧
      (publish_enter b A).1.event_id = b.next_event_id ∧
      Bc.event_id = (b.next_event_id + k) % 65536 ∧
      (b.next_event_id + k < 65536 → (publish_enter b A).1.event_id < Bc.event_id) ∧
      ((obs_published o).length ≤ DOMAIN_EVENT_HISTORY_SIZE →
        aegis_domain_event_get_history b' ((obs_published o).length - 1) =
          some (publish_enter b A).1 ∧
        aegis_domain_event_get_history b' ((obs_published o).length - 1 - k) = some Bc ∧
        (obs_published o).length - 1 - k < (obs_published o).length - 1) ∧
      ∀ f max n b'' o', b.recursion_depth = 0 →
        aegis_domain_event_process f b' max = some (n, b'', o') →
        obs_dequeued o' ++ pending_events b'' =
          pending_events b ++ q1 ++ Bc :: q2 ++ [(publish_enter b A).1] ++ obs_enqueued o' ∧
        calls_at 0 o' = ((obs_dequeued o').flatMap fun e =>
          (eligible (b.subscriptions.getD []) b.subscription_count FALSE e).map fun j =>
            (j, e)) ∧
        (max = 0 → obs_dequeued o' =
          pending_events b ++ q1 ++ Bc :: q2 ++ [(publish_enter b A).1] ++ obs_enqueued o') := by
  have hQ := queue_size_eq
  have hH := hist_size_eq
  obtain ⟨f, n, b4, mid, rfl, hdis, ho⟩ := publish_parts fuel b b' A c o hwf hi hrun
  obtain ⟨-, e0, -⟩ := publish_spec (f + 1) b A _ hwf hi hrun
  simp only at e0
  have e1 := publish_enter_eff b A hwf
  -- the copy of A was enqueued, not dropped
  have hroom : (pending_events b).length + (obs_enqueued mid).length <
      DOMAIN_EVENT_QUEUE_SIZE := by
    by_contra hno
    rw [if_neg hno] at ho
    have hmem : BusObs.dropped (publish_enter b A).1 ∈ o := by
      rw [ho]
      simp
    exact hfitA (mem_obs_dropped o _ hmem)
  rw [if_pos hroom] at ho
  have hmid : ∀ x ∈ mid, x ∈ o := fun x hx => by
    rw [ho]
    exact List.mem_cons_of_mem _ (List.mem_append_left _ hx)
  -- the dispatch called the handler, which published B
  unfold dispatch_to_subscribers at hdis
  obtain ⟨hcall, hblock⟩ := dispatch_loop_block _ (publish_spec f) (publish_block f)
    (publish_enter b A).1 TRUE b.recursion_depth (b.subscriptions.getD []) hd i sub h hsub hm hh
    (List.range (publish_enter b A).2.subscription_count) (publish_enter b A).2 0 n b4 mid
    e1.wf (by rw [e1.init]; exact hi) e1.depth (by rw [e1.subs])
    (by rw [e1.cnt]; exact List.mem_range.mpr hic) hdis
  obtain ⟨Bc, hcopy, hpubB, henqB⟩ := hblock B hB
  have henqB2 : BusObs.enqueued Bc ∈ mid := by
    rcases henqB with h1 | h1
    · exact h1
    · exact absurd (mem_obs_dropped o _ (hmid _ h1)) (hfitB Bc hcopy)
  obtain ⟨q1, q2, hq⟩ := List.append_of_mem (mem_obs_enqueued mid Bc henqB2)
  obtain ⟨k0, hk0⟩ := List.mem_iff_getElem?.mp (mem_obs_published mid B Bc hpubB)
  have hP : obs_published o = (publish_enter b A).1 :: obs_published mid := by
    rw [ho]
    show obs_published ([BusObs.published A (publish_enter b A).1] ++
      (mid ++ [BusObs.enqueued (publish_enter b A).1])) = _
    rw [obs_published_append, obs_published_append]
    simp [obs_published]
  have hE : obs_enqueued o = obs_enqueued mid ++ [(publish_enter b A).1] := by
    rw [ho]
    show obs_enqueued ([BusObs.published A (publish_enter b A).1] ++
      (mid ++ [BusObs.enqueued (publish_enter b A).1])) = _
    rw [obs_enqueued_append, obs_enqueued_append]
    simp [obs_enqueued]
  have hpend : pending_events b' =
      pending_events b ++ q1 ++ Bc :: q2 ++ [(publish_enter b A).1] := by
    rw [publish_pending (f + 1) b b' A c o hwf hi hrun, hE, hq]
    simp
  have hPk : (obs_published o)[k0 + 1]? = some Bc := by
    rw [hP, List.getElem?_cons_succ]
    exact hk0
  have hP0 : (obs_published o)[0]? = some (publish_enter b A).1 := by
    rw [hP, List.getElem?_cons_zero]
  have hklt : k0 + 1 < (obs_published o).length := by
    by_contra hn
    rw [List.getElem?_eq_none (by omega)] at hPk
    exact absurd hPk (by simp)
  have hidA : (publish_enter b A).1.event_id = b.next_event_id := by
    rw [published_ids o b.next_event_id e0.ids 0 _ hP0, Nat.add_zero]
    exact Nat.mod_eq_of_lt hwf.2.2.1
  have hidB : Bc.event_id = (b.next_event_id + (k0 + 1)) % 65536 :=
    published_ids o b.next_event_id e0.ids (k0 + 1) _ hPk
  have hi' : b'.is_initialized ≠ 0 := by rw [e0.init]; exact hi
  refine ⟨Bc, k0 + 1, q1, q2, publish_enter_copy b A, hcopy, hmid _ hcall, hmid _ hpubB, hpend,
    hP0, Nat.succ_pos _, hPk, hidA, hidB, fun hw => ?_, fun hlen => ?_,
    fun f2 max n2 b'' o' hd0 hproc => ?_⟩
  · rw [hidA, hidB, Nat.mod_eq_of_lt hw]
    omega
  · rw [hH] at hlen
    refine ⟨?_, ?_, by omega⟩
    · rw [get_history_eq b' _ hi' e0.wf.2.1, e0.hist, hH,
        hist_recent _ _ 16 _ (by omega) (by omega)]
      rw [show (obs_published o).length - 1 - ((obs_published o).length - 1) = 0 by omega]
      exact hP0
    · rw [get_history_eq b' _ hi' e0.wf.2.1, e0.hist, hH,
        hist_recent _ _ 16 _ (by omega) (by omega)]
      rw [show (obs_published o).length - 1 - ((obs_published o).length - 1 - (k0 + 1)) =
        k0 + 1 by omega]
      exact hPk
  · have e2 := process_spec f2 b' b'' max n2 o' e0.wf hproc
    have hq2 := e2.queue
    rw [hpend] at hq2
    have hproc2 := hproc
    unfold aegis_domain_event_process at hproc2
    rw [if_neg hi'] at hproc2
    refine ⟨hq2, ?_, fun hmax => ?_⟩
    · exact process_loop_calls _ (publish_spec f2) max _ _ f2 b' zero_event 0 n2 b'' o' e0.wf
        hi' (by rw [e0.depth]; exact hd0) (by rw [e0.subs]) e0.cnt hproc2
    · subst hmax
      have hdr := process_loop_drained _ (publish_spec f2) f2 b' zero_event 0 n2 b'' o' e0.wf
        hi' hproc2
      rw [hdr, List.append_nil] at hq2
      exact hq2

theorem nested_publish_inner_first_witness :
    ∃ c b' o, (BusWF nest_bus ∧ nest_bus.is_initialized ≠ 0 ∧ nest_bus.recursion_depth <
    MAX_EVENT_RECURSION_DEPTH ∧ (nest_bus.subscriptions.getD [])[0]? = some nest_entry ∧ 0 <
    nest_bus.subscription_count ∧ sub_matches TRUE (publish_enter nest_bus demo_event).1
    nest_entry = true ∧ nest_entry.handler = some nest_handler ∧ nest_inner ∈ (nest_handler
    (publish_enter nest_bus demo_event).1 nest_entry.ctx).publishes ∧ aegis_domain_event_publish 4
    nest_bus demo_event = some (c, b', o) ∧ (publish_enter nest_bus demo_event).1 ∉ obs_dropped o ∧
    (∀ Bc, IsCopy nest_inner Bc → Bc ∉ obs_dropped o)) ∧ (∃ Bc k q1 q2, IsCopy demo_event
    (publish_enter nest_bus demo_event).1 ∧ IsCopy nest_inner Bc ∧ BusObs.call 0 TRUE
    (publish_enter nest_bus demo_event).1 nest_bus.recursion_depth (nest_handler (publish_enter
    nest_bus demo_event).1 nest_entry.ctx).result ∈ o ∧ BusObs.published nest_inner Bc ∈ o ∧
    pending_events b' = pending_events nest_bus ++ q1 ++ Bc :: q2 ++ [(publish_enter nest_bus
    demo_event).1] ∧ (obs_published o)[0]? = some (publish_enter nest_bus demo_event).1 ∧ 0 < k ∧
    (obs_published o)[k]? = some Bc ∧ (publish_enter nest_bus demo_event).1.event_id =
    nest_bus.next_event_id ∧ Bc.event_id = (nest_bus.next_event_id + k) % 65536 ∧
    (nest_bus.next_event_id + k < 65536 → (publish_enter nest_bus demo_event).1.event_id <
    Bc.event_id) ∧ ((obs_published o).length ≤ DOMAIN_EVENT_HISTORY_SIZE →
    aegis_domain_event_get_history b' ((obs_published o).length - 1) = some (publish_enter
    nest_bus demo_event).1 ∧ aegis_domain_event_get_history b' ((obs_published o).length - 1 - k)
    = some Bc ∧ (obs_published o).length - 1 - k < (obs_published o).length - 1) ∧ ∀ f max n b''
    o', nest_bus.recursion_depth = 0 → aegis_domain_event_process f b' max = some (n, b'', o') →
    obs_dequeued o' ++ pending_events b'' = pending_events nest_bus ++ q1 ++ Bc :: q2 ++
    [(publish_enter nest_bus demo_event).1] ++ obs_enqueued o' ∧ calls_at 0 o' = ((obs_dequeued
    o').flatMap fun e => (eligible (nest_bus.subscriptions.getD []) nest_bus.subscription_count
    FALSE e).map fun j => (j, e)) ∧ (max = 0 → obs_dequeued o' = pending_events nest_bus ++ q1 ++
    Bc :: q2 ++ [(publish_enter nest_bus demo_event).1] ++ obs_enqueued o')) := by
  have hev := nest_publish_eval
  have hwf := (bus_init_wf storage_bus none (some nest_table) 1 (by decide) (by decide)
    (fun _ h => nomatch h)).1
  cases hpub : aegis_domain_event_publish 4 nest_bus demo_event with
  | none => simp [hpub] at hev
  | some r =>
    obtain ⟨c1, b1, o1⟩ := r
    simp only [hpub, Option.map_some', Option.some.injEq, Prod.mk.injEq] at hev
    obtain ⟨-, -, -, hdrop⟩ := hev
    have hm : sub_matches TRUE (publish_enter nest_bus demo_event).1 nest_entry = true := by
      decide
    have hB : nest_inner ∈
        (nest_handler (publish_enter nest_bus demo_event).1 nest_entry.ctx).publishes :=
      List.mem_singleton.mpr rfl
    have hA : (publish_enter nest_bus demo_event).1 ∉ obs_dropped o1 := by
      rw [hdrop]
      exact List.not_mem_nil _
    have hBd : ∀ Bc, IsCopy nest_inner Bc → Bc ∉ obs_dropped o1 := fun Bc _ => by
      rw [hdrop]
      exact List.not_mem_nil _
    exact ⟨c1, b1, o1, ⟨hwf, by decide, by decide, rfl, by decide, hm, rfl, hB, rfl, hA, hBd⟩,
      nested_publish_inner_first 4 nest_bus b1 demo_event nest_inner c1 o1 0 nest_entry
        nest_handler hwf (by decide) (by decide) rfl (by decide) hm rfl hB hpub hA hBd⟩

/-- Counterexample to C36 as stated, in two runs where everything published
fits in the async queue.  On `wrap_bus`, the bus of `nest_bus` once its 16-bit
identifier counter stands at 65535, the publish of `A = demo_event` gives `A`
the identifier 65535 and the event `B` its synchronous handler publishes the
identifier 0: `B` is enqueued before `A`, but `A` does not have the smaller
identifier.  On `crowd_bus`, whose synchronous handler publishes 16 events
while it runs for `A`, these 16 are enqueued before `A` (identifier 1), and
when the publish returns the 16 history entries are the 16 nested events:
`get_history` returns `A` at no index. -/
theorem nested_publish_inner_first_counterexample :
    (BusWF wrap_bus ∧ wrap_bus.is_initialized ≠ 0 ∧ wrap_bus.recursion_depth = 0 ∧
      ∃ b1 o1, aegis_domain_event_publish 4 wrap_bus demo_event = some (ERR_OK, b1, o1) ∧
        (obs_published o1).map AegisDomainEvent.event_id = [65535, 0] ∧
        (obs_enqueued o1).map AegisDomainEvent.event_id = [0, 65535] ∧ obs_dropped o1 = []) ∧
      (aegis_domain_event_bus_init storage_bus none (some crowd_table) 1).1 = ERR_OK ∧
      ∃ b1 o1, aegis_domain_event_publish 4 crowd_bus demo_event = some (ERR_OK, b1, o1) ∧
        (obs_published o1).map AegisDomainEvent.event_id =
          [1, 2, 3, 4, 5, 6, 7, 8, 9, 10, 11, 12, 13, 14, 15, 16, 17] ∧
        (obs_enqueued o1).map AegisDomainEvent.event_id =
          [2, 3, 4, 5, 6, 7, 8, 9, 10, 11, 12, 13, 14, 15, 16, 17, 1] ∧
        obs_dropped o1 = [] ∧
        ∀ i, (aegis_domain_event_get_history b1 i).map AegisDomainEvent.event_id ≠ some 1 := by
  have hwf := (bus_init_wf storage_bus none (some nest_table) 1 (by decide) (by decide)
    (fun _ h => nomatch h)).1
  have hwfc := (bus_init_wf storage_bus none (some crowd_table) 1 (by decide) (by decide)
    (fun _ h => nomatch h)).1
  have hwfw : BusWF wrap_bus := by
    have g := hwf
    obtain ⟨g1, g2, -, g4, g5, g6, g7, g8, g9, g10⟩ := g
    exact ⟨g1, g2, by decide, g4, g5, g6, g7, g8, g9, g10⟩
  refine ⟨⟨hwfw, by decide, rfl, ?_⟩, by decide, ?_⟩
  · have hev := wrap_publish_eval
    cases hpub : aegis_domain_event_publish 4 wrap_bus demo_event with
    | none => simp [hpub] at hev
    | some r =>
      obtain ⟨c1, b1, o1⟩ := r
      simp only [hpub, Option.map_some', Option.some.injEq, Prod.mk.injEq] at hev
      obtain ⟨rfl, h1, h2, h3⟩ := hev
      exact ⟨b1, o1, rfl, h1, h2, h3⟩
  · have hev := crowd_publish_eval
    have hhist := crowd_history_eval
    cases hpub : aegis_domain_event_publish 4 crowd_bus demo_event with
    | none => simp [hpub] at hev
    | some r =>
      obtain ⟨c1, b1, o1⟩ := r
      simp only [hpub, Option.map_some', Option.some.injEq, Prod.mk.injEq] at hev hhist
      obtain ⟨rfl, h1, h2, h3⟩ := hev
      obtain ⟨-, e1, -⟩ := publish_spec 4 crowd_bus demo_event _ hwfc (by decide) hpub
      refine ⟨b1, o1, rfl, h1, h2, h3, fun i => ?_⟩
      by_cases hi17 : i < 17
      · have hmem : (aegis_domain_event_get_history b1 i).map AegisDomainEvent.event_id ∈
            (List.range 17).map fun i =>
              (aegis_domain_event_get_history b1 i).map AegisDomainEvent.event_id :=
          List.mem_map.mpr ⟨i, List.mem_range.mpr hi17, rfl⟩
        rw [hhist] at hmem
        intro hone
        rw [hone] at hmem
        revert hmem
        decide
      · have hlen := hist_list_length b1
        have hcount : b1.history.count ≤ 16 := e1.wf.2.1.2.2
        rw [get_history_eq b1 i (by rw [e1.init]; decide) e1.wf.2.1,
          List.getElem?_eq_none (by omega)]
        simp

/-- C32 (priority has no effect): let two subscription tables be equal except
for the priority bytes of their entries, and initialise a bus with each from
the same storage and log.  `aegis_domain_event_bus_init` returns the same
status, and every sequence of top-level publish and process calls with the
same events (the handlers are those of the tables) behaves alike on the two
buses: either neither run completes within the fuel, or both return the same
values and make the same observations in the same order (every handler call
with its subscription index, dispatch pass, event, depth and result, every
publication, enqueue, drop and dequeue), and the final buses differ at most in
the priority bytes of their tables: same counters, identifier counter, history,
async queue, recursion depth and log. -/
theorem priority_no_effect (fuel : Nat) (storage : AegisDomainEventBus)
    (trace : Option AegisTraceLog) (t1 t2 : List AegisEventSubscription) (count : Nat)
    (cs : List BusCall) (h : t1.map strip_priority = t2.map strip_priority) :
    (aegis_domain_event_bus_init storage trace (some t1) count).1 =
        (aegis_domain_event_bus_init storage trace (some t2) count).1 ∧
      ((bus_run fuel (aegis_domain_event_bus_init storage trace (some t1) count).2 cs).isSome =
        (bus_run fuel (aegis_domain_event_bus_init storage trace (some t2) count).2 cs).isSome) ∧
      ∀ rs b1 o,
        bus_run fuel (aegis_domain_event_bus_init storage trace (some t1) count).2 cs =
          some (rs, b1, o) →
        ∃ b2,
          bus_run fuel (aegis_domain_event_bus_init storage trace (some t2) count).2 cs =
            some (rs, b2, o) ∧
          bus_strip b2 = bus_strip b1 ∧
          b2.subscriptions.map (List.map strip_priority) =
            b1.subscriptions.map (List.map strip_priority) ∧
          b2.subscription_count = b1.subscription_count ∧
          b2.total_published = b1.total_published ∧
          b2.total_processed = b1.total_processed ∧ b2.sync_handled = b1.sync_handled ∧
          b2.async_handled = b1.async_handled ∧ b2.dropped_events = b1.dropped_events ∧
          b2.next_event_id = b1.next_event_id ∧ b2.history = b1.history ∧
          b2.async_queue = b1.async_queue ∧ b2.recursion_depth = b1.recursion_depth ∧
          b2.is_initialized = b1.is_initialized ∧ b2.trace = b1.trace := by
  obtain ⟨hc, hb⟩ := bus_init_strip storage trace t1 t2 count h
  have h1 := bus_run_strip fuel cs (aegis_domain_event_bus_init storage trace (some t1) count).2
  have h2 := bus_run_strip fuel cs (aegis_domain_event_bus_init storage trace (some t2) count).2
  rw [hb, h2] at h1
  refine ⟨hc, ?_, fun rs b1 o hrun => ?_⟩
  · have := congrArg Option.isSome h1
    simp only [Option.isSome_map'] at this
    exact this.symm
  · rw [hrun] at h1
    cases hrun2 : bus_run fuel (aegis_domain_event_bus_init storage trace (some t2) count).2
        cs with
    | none =>
      rw [hrun2] at h1
      cases h1
    | some r =>
      obtain ⟨rs2, b2, o2⟩ := r
      rw [hrun2] at h1
      simp only [Option.map_some', ret_strip, Option.some.injEq, Prod.mk.injEq] at h1
      obtain ⟨rfl, hbb, rfl⟩ := h1
      have fld : ∀ {α : Type} (f : AegisDomainEventBus → α),
          f (bus_strip b2) = f (bus_strip b1) := fun f => congrArg f hbb
      exact ⟨b2, rfl, hbb, fld AegisDomainEventBus.subscriptions,
        fld AegisDomainEventBus.subscription_count, fld AegisDomainEventBus.total_published,
        fld AegisDomainEventBus.total_processed, fld AegisDomainEventBus.sync_handled,
        fld AegisDomainEventBus.async_handled, fld AegisDomainEventBus.dropped_events,
        fld AegisDomainEventBus.next_event_id, fld AegisDomainEventBus.history,
        fld AegisDomainEventBus.async_queue, fld AegisDomainEventBus.recursion_depth,
        fld AegisDomainEventBus.is_initialized, fld AegisDomainEventBus.trace⟩

theorem priority_no_effect_witness :
    (fanout_table.map strip_priority = fanout_table_reprioritised.map strip_priority ∧
    fanout_table.map AegisEventSubscription.priority = [0, 1, 2, 3] ∧
    fanout_table_reprioritised.map AegisEventSubscription.priority = [200, 199, 198, 197] ∧ ∃ rs
    b1 o, bus_run 40 (aegis_domain_event_bus_init storage_bus none (some fanout_table) 4).2
    [BusCall.publish demo_event, BusCall.process 0] = some (rs, b1, o)) ∧
    ((aegis_domain_event_bus_init storage_bus none (some fanout_table) 4).1 =
    (aegis_domain_event_bus_init storage_bus none (some fanout_table_reprioritised) 4).1 ∧
    ((bus_run 40 (aegis_domain_event_bus_init storage_bus none (some fanout_table) 4).2
    [BusCall.publish demo_event, BusCall.process 0]).isSome = (bus_run 40
    (aegis_domain_event_bus_init storage_bus none (some fanout_table_reprioritised) 4).2
    [BusCall.publish demo_event, BusCall.process 0]).isSome) ∧ ∀ rs b1 o, bus_run 40
    (aegis_domain_event_bus_init storage_bus none (some fanout_table) 4).2 [BusCall.publish
    demo_event, BusCall.process 0] = some (rs, b1, o) → ∃ b2, bus_run 40
    (aegis_domain_event_bus_init storage_bus none (some fanout_table_reprioritised) 4).2
    [BusCall.publish demo_event, BusCall.process 0] = some (rs, b2, o) ∧ bus_strip b2 = bus_strip
    b1 ∧ b2.subscriptions.map (List.map strip_priority) = b1.subscriptions.map (List.map
    strip_priority) ∧ b2.subscription_count = b1.subscription_count ∧ b2.total_published =
    b1.total_published ∧ b2.total_processed = b1.total_processed ∧ b2.sync_handled =
    b1.sync_handled ∧ b2.async_handled = b1.async_handled ∧ b2.dropped_events = b1.dropped_events
    ∧ b2.next_event_id = b1.next_event_id ∧ b2.history = b1.history ∧ b2.async_queue =
    b1.async_queue ∧ b2.recursion_depth = b1.recursion_depth ∧ b2.is_initialized =
    b1.is_initialized ∧ b2.trace = b1.trace) := by
  have hwf0 := (bus_init_wf storage_bus none (some fanout_table) 4 (by decide) (by decide)
    (fun _ h => nomatch h)).1
  have hrun : ∃ rs b1 o,
      bus_run 40 (aegis_domain_event_bus_init storage_bus none (some fanout_table) 4).2
        [BusCall.publish demo_event, BusCall.process 0] = some (rs, b1, o) := by
    have ht := publish_total 40 fanout_bus demo_event hwf0 (by decide) (by decide)
    cases hpub : aegis_domain_event_publish 40 fanout_bus demo_event with
    | none => rw [hpub] at ht; cases ht
    | some r =>
      obtain ⟨c1, b1, o1⟩ := r
      obtain ⟨-, e1, -⟩ := publish_spec 40 fanout_bus demo_event _ hwf0 (by decide) hpub
      simp only at e1
      have hle := queueWF_length_le _ _ e1.wf.1
      rw [queue_size_eq] at hle
      have hpc : process_count 0 0 (pending_events b1).length = (pending_events b1).length := rfl
      obtain ⟨b2, hpl, -⟩ := process_loop_quiet (aegis_domain_event_publish 40) fanout_table 0
        40 (pending_events b1) b1 zero_event 0 e1.wf (by rw [e1.depth]; rfl)
        (by rw [e1.subs]; rfl) rfl (fun ev _ => noPublish_quiet _ fanout_quiet FALSE ev)
        (by rw [hpc]; omega) (by rw [hpc]; omega)
      have hproc : aegis_domain_event_process 40 b1 0 = some
          (0 + process_count 0 0 (pending_events b1).length, b2,
            process_obs fanout_table b1.subscription_count
              (List.take (process_count 0 0 (pending_events b1).length) (pending_events b1))) := by
        unfold aegis_domain_event_process
        rw [if_neg (by rw [e1.init]; decide)]
        exact hpl
      have hfb : aegis_domain_event_publish 40
          (aegis_domain_event_bus_init storage_bus none (some fanout_table) 4).2 demo_event =
          some (c1, b1, o1) := hpub
      have hr : bus_run 40 (aegis_domain_event_bus_init storage_bus none (some fanout_table) 4).2
          [BusCall.publish demo_event, BusCall.process 0] =
          some ([BusRet.code c1,
              BusRet.count (0 + process_count 0 0 (pending_events b1).length)], b2,
            o1 ++ (process_obs fanout_table b1.subscription_count
              (List.take (process_count 0 0 (pending_events b1).length) (pending_events b1)) ++
                [])) := by
        simp only [bus_run, hfb, hproc]
      exact ⟨_, _, _, hr⟩
  exact ⟨⟨rfl, rfl, rfl, hrun⟩,
    priority_no_effect 40 storage_bus none fanout_table fanout_table_reprioritised 4
      [BusCall.publish demo_event, BusCall.process 0] rfl⟩

/-! ## History indexing -/

/-- C7 (history indexing): on a bus initialised by `aegis_domain_event_bus_init`,
after any sequence of top-level calls during which `K` publishes happened
(those made by handlers included), `aegis_domain_event_get_history(bus, i)`
is, for `i < min(K, 16)`, the copy made of the `(K - i)`-th published event
(counting from 1), whether that copy was enqueued or dropped, and `NULL` for
`i ≥ min(K, 16)`; the `k`-th copy (from 0) carries the identifier
`(1 + k) mod 65536`.  `K` counts the calls: the events handed to the top-level
publish calls are, in call order, among the `K` events published, and the
counter `total_published` of the bus is `K mod 2^32`.  A sequence of publishes
always completes, every call returning `ERR_OK`.  When no synchronous handler
publishes, `K` is the number of publish calls: after the calls
`publish(es[0]), …, publish(es[K-1])`, `get_history(bus, i)` is for
`i < min(K, 16)` the copy of `es[K - 1 - i]` with the identifier
`(K - i) mod 65536`, and `NULL` for `i ≥ min(K, 16)`. -/
theorem history_indexing (fuel : Nat) (storage : AegisDomainEventBus)
    (trace : Option AegisTraceLog) (subs : Option (List AegisEventSubscription)) (count : Nat)
    (cs : List BusCall)
    (hinit : (aegis_domain_event_bus_init storage trace subs count).1 = ERR_OK)
    (ht : TraceWF trace) :
    (∀ rs b' o,
      bus_run fuel (aegis_domain_event_bus_init storage trace subs count).2 cs = some (rs, b', o) →
        List.Forall₂ IsCopy (obs_inputs o) (obs_published o) ∧
        (obs_published o).map AegisDomainEvent.event_id =
          (List.range (obs_published o).length).map (fun k => (1 + k) % 65536) ∧
        (∀ i, aegis_domain_event_get_history b' i =
          if i < min (obs_published o).length DOMAIN_EVENT_HISTORY_SIZE then
            (obs_published o)[(obs_published o).length - 1 - i]?
          else none) ∧
        List.Sublist (call_events cs) (obs_inputs o) ∧
        b'.total_published = (obs_published o).length % 4294967296) ∧
      (∀ es : List AegisDomainEvent, cs = es.map BusCall.publish → MAX_EVENT_RECURSION_DEPTH + 1 ≤ fuel →
        ∃ b' o,
          bus_run fuel (aegis_domain_event_bus_init storage trace subs count).2 cs =
            some (List.replicate es.length (BusRet.code ERR_OK), b', o)) ∧
      (∀ es : List AegisDomainEvent, cs = es.map BusCall.publish → 1 ≤ fuel →
        (∀ ev, QuietFor (subs.getD []) TRUE ev) →
        ∃ b' o,
          bus_run fuel (aegis_domain_event_bus_init storage trace subs count).2 cs =
            some (List.replicate es.length (BusRet.code ERR_OK), b', o) ∧
          obs_inputs o = es ∧ (obs_published o).length = es.length ∧
          (∀ i, i < min es.length DOMAIN_EVENT_HISTORY_SIZE →
            ∃ e c, es[es.length - 1 - i]? = some e ∧
              aegis_domain_event_get_history b' i = some c ∧ IsCopy e c ∧
              c.event_id = (es.length - i) % 65536) ∧
          ∀ i, min es.length DOMAIN_EVENT_HISTORY_SIZE ≤ i →
            aegis_domain_event_get_history b' i = none) := by
  obtain ⟨h1, h2⟩ := bus_init_ok storage trace subs count hinit
  obtain ⟨hwf, -, hh⟩ := bus_init_wf storage trace subs count h1 h2 ht
  obtain ⟨f1, f2, f3, -, f5, -, f7, -⟩ := bus_init_fields storage trace subs count h1 h2
  have hi : (aegis_domain_event_bus_init storage trace subs count).2.is_initialized ≠ 0 := by
    rw [f1]
    decide
  refine ⟨?_, ?_, ?_⟩
  · intro rs b' o hrun
    have e1 := bus_run_spec fuel cs _ rs b' o hwf hi hrun
    refine ⟨copies_paired o e1.copies, ?_, ?_, bus_run_inputs fuel cs _ rs b' o hwf hi hrun, ?_⟩
    · rw [e1.ids, f5]
    · intro i
      rw [get_history_eq b' i (by rw [e1.init]; exact hi) e1.wf.2.1, e1.hist, hh,
        List.append_nil]
      exact newest_first_getElem? _ _ i
    · rw [e1.tp, f7, Nat.zero_add]
  · intro es hcs hf
    rw [hcs]
    exact publish_run_total fuel hf es _ hwf hi
  · intro es hcs hf hq
    obtain ⟨f, rfl⟩ : ∃ f, fuel = f + 1 := ⟨fuel - 1, by omega⟩
    obtain ⟨b', o, hrun, i1, i2, i3, i4⟩ := publish_run_history f (subs.getD []) hq es _ hwf hi
      (by rw [f2]; decide) (by rw [f3]) hh
    rw [hcs]
    refine ⟨b', o, hrun, i1, i2, ?_, i4⟩
    intro i hlt
    obtain ⟨e, c, g1, g2, g3, g4⟩ := i3 i hlt
    refine ⟨e, c, g1, g2, g3, ?_⟩
    rw [g4, f5]
    congr 1
    omega

theorem history_indexing_witness :
    ((aegis_domain_event_bus_init storage_bus none (some fanout_table) 4).1 = ERR_OK ∧
      TraceWF none ∧ (List.replicate 20 demo_event).length = 20) ∧
    ∃ b' o,
      bus_run 1 (aegis_domain_event_bus_init storage_bus none (some fanout_table) 4).2
          ((List.replicate 20 demo_event).map BusCall.publish) =
        some (List.replicate 20 (BusRet.code ERR_OK), b', o) ∧
      obs_inputs o = List.replicate 20 demo_event ∧ (obs_published o).length = 20 ∧
      (∀ i, i < 16 →
        ∃ c, aegis_domain_event_get_history b' i = some c ∧ IsCopy demo_event c ∧
          c.event_id = 20 - i) ∧
      ∀ i, 16 ≤ i → aegis_domain_event_get_history b' i = none := by
  refine ⟨⟨by decide, (fun _ h => nomatch h), by decide⟩, ?_⟩
  obtain ⟨b', o, hrun, i1, i2, i3, i4⟩ :=
    (history_indexing 1 storage_bus none (some fanout_table) 4
      ((List.replicate 20 demo_event).map BusCall.publish) (by decide)
      (fun _ h => nomatch h)).2.2 (List.replicate 20 demo_event) rfl (le_refl _)
      (fun ev => noPublish_quiet _ fanout_quiet TRUE ev)
  rw [List.length_replicate] at hrun i2 i3 i4
  refine ⟨b', o, hrun, i1, i2, ?_, ?_⟩
  · intro i hlt
    obtain ⟨e, c, g1, g2, g3, g4⟩ := i3 i (by
      show i < min 20 16
      omega)
    have he : e = demo_event := by
      rw [List.getElem?_replicate] at g1
      split at g1
      · exact (Option.some.inj g1).symm
      · cases g1
    subst he
    refine ⟨c, g2, g3, ?_⟩
    rw [g4]
    omega
  · intro i hge
    exact i4 i (by
      show min 20 16 ≤ i
      omega)

/-! ## Order of the asynchronous queue -/

/-- C9 (async FIFO order), in the order of enqueueing: for every sequence of
top-level publish and process calls on an initialised bus, with any handlers,
the events dequeued, followed by those still pending, are the events that were
pending at the start followed by the accepted ones in the order in which they
were enqueued, so `aegis_domain_event_process` dequeues in strict FIFO order of
acceptance into the queue.  Asynchronous handlers are called by `process` only:
each dequeued event is delivered, in the order of dequeueing, to the eligible
asynchronous subscriptions in table order.  When no synchronous handler
publishes, the accepted events are a subsequence of the published ones, so
they are dequeued and delivered in the order in which they were published.
A publish enqueues its event after its synchronous dispatch: when a
synchronous handler running for the copy `Ac` of `A` publishes `B` and both
fit in the queue, a copy `Bc` of `B` is published after `Ac` (it is assigned
its identifier, `k` steps after that of `Ac` modulo 65536, and its history
slot later) but enqueued before it, and a later `process` dequeues and
delivers in that queue order, `Bc` before `Ac`. -/
theorem async_fifo (fuel : Nat) (b : AegisDomainEventBus) (cs : List BusCall)
    (rs : List BusRet) (b' : AegisDomainEventBus) (o : List BusObs) (hwf : BusWF b)
    (hi : b.is_initialized ≠ 0) (hrun : bus_run fuel b cs = some (rs, b', o)) :
    obs_dequeued o ++ pending_events b' = pending_events b ++ obs_enqueued o ∧
      (b.recursion_depth = 0 → (∀ ev, QuietFor (b.subscriptions.getD []) TRUE ev) →
        List.Sublist (obs_enqueued o) (obs_published o)) ∧
      (b.recursion_depth = 0 →
        obs_async_calls o = (obs_dequeued o).flatMap fun e =>
          (eligible (b.subscriptions.getD []) b.subscription_count FALSE e).map fun i =>
            (i, e)) ∧
      ∀ A B i sub h c1 b1 o1, b.recursion_depth < MAX_EVENT_RECURSION_DEPTH →
        (b.subscriptions.getD [])[i]? = some sub → i < b.subscription_count →
        sub_matches TRUE (publish_enter b A).1 sub = true → sub.handler = some h →
        B ∈ (h (publish_enter b A).1 sub.ctx).publishes →
        aegis_domain_event_publish fuel b A = some (c1, b1, o1) →
        (publish_enter b A).1 ∉ obs_dropped o1 → (∀ Bc, IsCopy B Bc → Bc ∉ obs_dropped o1) →
        ∃ Bc k q1 q2, IsCopy B Bc ∧ (obs_published o1)[0]? = some (publish_enter b A).1 ∧
          0 < k ∧ (obs_published o1)[k]? = some Bc ∧
          obs_enqueued o1 = q1 ++ Bc :: q2 ++ [(publish_enter b A).1] ∧
          pending_events b1 = pending_events b ++ q1 ++ Bc :: q2 ++ [(publish_enter b A).1] ∧
          (publish_enter b A).1.event_id = b.next_event_id ∧
          Bc.event_id = (b.next_event_id + k) % 65536 ∧
          ((obs_published o1).length ≤ DOMAIN_EVENT_HISTORY_SIZE →
            aegis_domain_event_get_history b1 ((obs_published o1).length - 1) =
              some (publish_enter b A).1 ∧
            aegis_domain_event_get_history b1 ((obs_published o1).length - 1 - k) = some Bc ∧
            (obs_published o1).length - 1 - k < (obs_published o1).length - 1) ∧
          ∀ f max n b2 o2, b.recursion_depth = 0 →
            aegis_domain_event_process f b1 max = some (n, b2, o2) →
            obs_dequeued o2 ++ pending_events b2 =
              pending_events b ++ q1 ++ Bc :: q2 ++ [(publish_enter b A).1] ++
                obs_enqueued o2 ∧
            obs_async_calls o2 = (obs_dequeued o2).flatMap fun e =>
              (eligible (b.subscriptions.getD []) b.subscription_count FALSE e).map fun j =>
                (j, e) := by
  refine ⟨(bus_run_spec fuel cs b rs b' o hwf hi hrun).queue,
    fun hd hq => bus_run_order fuel _ hq cs b rs b' o hwf hi hd rfl hrun,
    fun hd => bus_run_async fuel _ _ cs b rs b' o hwf hi hd rfl rfl hrun, ?_⟩
  intro A B i sub h c1 b1 o1 hd hsub hic hm hh hB hpub hfitA hfitB
  obtain ⟨Bc, k, q1, q2, n1, n2, n3, n4, n5, n6⟩ := nested_enqueue_order fuel b b1 A B c1 o1 i
    sub h hwf hi hd hsub hic hm hh hB hpub hfitA hfitB
  obtain ⟨-, e1, -⟩ := publish_spec fuel b A _ hwf hi hpub
  simp only at e1
  have hi1 : b1.is_initialized ≠ 0 := by rw [e1.init]; exact hi
  have hH := hist_size_eq
  have hklt : k < (obs_published o1).length := by
    by_contra hn
    rw [List.getElem?_eq_none (by omega)] at n4
    exact absurd n4 (by simp)
  have hidA : (publish_enter b A).1.event_id = b.next_event_id := by
    rw [published_ids o1 b.next_event_id e1.ids 0 _ n2, Nat.add_zero]
    exact Nat.mod_eq_of_lt hwf.2.2.1
  refine ⟨Bc, k, q1, q2, n1, n2, n3, n4, n5, n6, hidA,
    published_ids o1 b.next_event_id e1.ids k _ n4, fun hlen => ?_,
    fun f max n b2 o2 hd0 hproc => ?_⟩
  · rw [hH] at hlen
    refine ⟨?_, ?_, by omega⟩
    · rw [get_history_eq b1 _ hi1 e1.wf.2.1, e1.hist, hH,
        hist_recent _ _ 16 _ (by omega) (by omega)]
      rw [show (obs_published o1).length - 1 - ((obs_published o1).length - 1) = 0 by omega]
      exact n2
    · rw [get_history_eq b1 _ hi1 e1.wf.2.1, e1.hist, hH,
        hist_recent _ _ 16 _ (by omega) (by omega)]
      rw [show (obs_published o1).length - 1 - ((obs_published o1).length - 1 - k) = k by omega]
      exact n4
  have e2 := process_spec f b1 b2 max n o2 e1.wf hproc
  have hq2 := e2.queue
  rw [n6] at hq2
  refine ⟨hq2, ?_⟩
  unfold aegis_domain_event_process at hproc
  rw [if_neg hi1] at hproc
  exact process_loop_async _ (publish_spec f) (publish_sync f) max _ _ f b1 zero_event 0 n b2 o2
    e1.wf hi1 (by rw [e1.depth]; exact hd0) (by rw [e1.subs]) e1.cnt hproc

theorem async_fifo_witness :
    (∃ b' o, (BusWF mixed_bus ∧ mixed_bus.is_initialized ≠ 0 ∧ mixed_bus.recursion_depth = 0 ∧
        bus_run 4 mixed_bus [BusCall.publish demo_event, BusCall.process 0] =
          some ([BusRet.code ERR_OK, BusRet.count 2], b', o)) ∧
      (obs_published o).map AegisDomainEvent.event_id = [1, 2] ∧
      (obs_enqueued o).map AegisDomainEvent.event_id = [2, 1] ∧
      (obs_dequeued o).map AegisDomainEvent.event_id = [2, 1] ∧
      obs_async_calls o = (obs_dequeued o).map (fun e => (1, e)) ∧
      obs_dequeued o ++ pending_events b' = pending_events mixed_bus ++ obs_enqueued o ∧
      ∃ c1 b1 o1 Bc k q1 q2,
        aegis_domain_event_publish 4 mixed_bus demo_event = some (c1, b1, o1) ∧
        IsCopy mixed_inner Bc ∧
        (obs_published o1)[0]? = some (publish_enter mixed_bus demo_event).1 ∧ 0 < k ∧
        (obs_published o1)[k]? = some Bc ∧
        obs_enqueued o1 = q1 ++ Bc :: q2 ++ [(publish_enter mixed_bus demo_event).1] ∧
        (publish_enter mixed_bus demo_event).1.event_id = mixed_bus.next_event_id ∧
        Bc.event_id = (mixed_bus.next_event_id + k) % 65536) ∧
    ∃ b' o, (BusWF fanout_bus ∧ fanout_bus.is_initialized ≠ 0 ∧ fanout_bus.recursion_depth = 0 ∧
        (∀ ev, QuietFor (fanout_bus.subscriptions.getD []) TRUE ev) ∧
        bus_run 4 fanout_bus
            [BusCall.publish demo_event, BusCall.publish demo_event, BusCall.process 0] =
          some ([BusRet.code ERR_OK, BusRet.code ERR_OK, BusRet.count 2], b', o)) ∧
      (obs_published o).map AegisDomainEvent.event_id = [1, 2] ∧
      (obs_dequeued o).map AegisDomainEvent.event_id = [1, 2] ∧
      obs_async_calls o = (obs_dequeued o).map (fun e => (3, e)) ∧
      obs_dequeued o ++ pending_events b' = pending_events fanout_bus ++ obs_enqueued o ∧
      List.Sublist (obs_enqueued o) (obs_published o) := by
  constructor
  · have hwf0 := bus_init_wf storage_bus none (some mixed_table) 2 (by decide) (by decide)
      (fun _ h => nomatch h)
    have hwf : BusWF mixed_bus := hwf0.1
    have hp0 : pending_events mixed_bus = [] := hwf0.2.1
    have hev := mixed_publish_eval
    cases hpub : aegis_domain_event_publish 4 mixed_bus demo_event with
    | none => simp [hpub] at hev
    | some r =>
      obtain ⟨c1, b1, o1⟩ := r
      simp only [hpub, Option.map_some', Option.some.injEq, Prod.mk.injEq] at hev
      obtain ⟨rfl, h1, h2, h3⟩ := hev
      obtain ⟨-, e1, c2⟩ := publish_spec 4 mixed_bus demo_event _ hwf (by decide) hpub
      simp only at e1 c2
      have hq := e1.queue
      rw [c2.1, hp0] at hq
      have hq2 : pending_events b1 = obs_enqueued o1 := hq
      have hlen : (pending_events b1).length = 2 := by
        rw [hq2, ← List.length_map (obs_enqueued o1) AegisDomainEvent.event_id, h2]
        rfl
      obtain ⟨b2, hproc⟩ := drain_quiet 4 mixed_table b1 e1.wf (by rw [e1.init]; decide)
        (by rw [e1.depth]; rfl) (by rw [e1.subs]; rfl) mixed_async_quiet (by omega) (by omega)
      rw [hlen] at hproc
      have hrun : bus_run 4 mixed_bus [BusCall.publish demo_event, BusCall.process 0] =
          some ([BusRet.code ERR_OK, BusRet.count 2], b2,
            o1 ++ (process_obs mixed_table b1.subscription_count (pending_events b1) ++ [])) := by
        simp only [bus_run, hpub, hproc]
      obtain ⟨t1, -, t3, t4⟩ := async_fifo 4 mixed_bus _ _ b2 _ hwf (by decide) hrun
      obtain ⟨p1, p2, p3⟩ := process_obs_dequeued mixed_table b1.subscription_count
        (pending_events b1)
      have hdeq : obs_dequeued (o1 ++ (process_obs mixed_table b1.subscription_count
          (pending_events b1) ++ [])) = obs_enqueued o1 := by
        rw [obs_dequeued_append, obs_dequeued_append, c2.1, p1, hq2]
        simp [obs_dequeued]
      have hm : sub_matches TRUE (publish_enter mixed_bus demo_event).1 nest_entry = true := by
        decide
      have hB : mixed_inner ∈
          (nest_handler (publish_enter mixed_bus demo_event).1 nest_entry.ctx).publishes :=
        List.mem_singleton.mpr rfl
      obtain ⟨Bc, k, q1, q2, n1, n2, n3, n4, n5, -, n7, n8, -⟩ := t4 demo_event mixed_inner 0 nest_entry
        nest_handler ERR_OK b1 o1 (by decide) rfl (by decide) hm rfl hB hpub
        (by rw [h3]; exact List.not_mem_nil _) (fun Bc _ => by rw [h3]; exact List.not_mem_nil _)
      refine ⟨b2, _, ⟨hwf, by decide, rfl, hrun⟩, ?_, ?_, ?_, ?_, t1,
        ERR_OK, b1, o1, Bc, k, q1, q2, rfl, n1, n2, n3, n4, n5, n7, n8⟩
      · rw [obs_published_append, obs_published_append, p2]
        simpa [obs_published] using h1
      · rw [obs_enqueued_append, obs_enqueued_append, p3]
        simpa [obs_enqueued] using h2
      · rw [hdeq]
        exact h2
      · rw [t3 rfl]
        exact deliveries_single _ _ 1 _ fun e _ => mixed_eligible e
  · have hwf0 := bus_init_wf storage_bus none (some fanout_table) 4 (by decide) (by decide)
      (fun _ h => nomatch h)
    have hwf : BusWF fanout_bus := hwf0.1
    have hp0 : pending_events fanout_bus = [] := hwf0.2.1
    have hQ := queue_size_eq
    have hsq : ∀ ev, QuietFor (fanout_bus.subscriptions.getD []) TRUE ev :=
      fun ev => noPublish_quiet _ fanout_quiet TRUE ev
    obtain ⟨b1, o1, hrun1, e1, i1, i2, i3, i4, -⟩ := publish_run_quiet 3 fanout_table hsq
      [demo_event, demo_event] fanout_bus hwf (by decide) (by decide) rfl
    rw [hp0, List.length_nil, Nat.sub_zero, hQ, List.take_of_length_le (by rw [i2]; decide)]
      at i4
    have hq := e1.queue
    rw [i3, hp0, i4] at hq
    have hq2 : pending_events b1 = obs_published o1 := hq
    have hlen : (pending_events b1).length = 2 := by rw [hq2, i2]; rfl
    have hids : (obs_published o1).map AegisDomainEvent.event_id = [1, 2] := by
      rw [e1.ids, i2]
      rfl
    have htype : ∀ c ∈ obs_published o1, c.type = 1 := by
      have hcp := copies_paired o1 e1.copies
      rw [i1] at hcp
      refine copies_type 1 _ _ hcp fun e he => ?_
      simp only [List.mem_cons, List.mem_singleton, List.not_mem_nil, or_false, or_self] at he
      subst he
      rfl
    obtain ⟨b2, hproc⟩ := drain_quiet 4 fanout_table b1 e1.wf (by rw [e1.init]; decide)
      (by rw [e1.depth]; rfl) (by rw [e1.subs]; rfl) fanout_async_quiet (by omega) (by omega)
    rw [hlen] at hproc
    have hrun2 : bus_run 4 b1 [BusCall.process 0] =
        some ([BusRet.count 2], b2,
          process_obs fanout_table b1.subscription_count (pending_events b1) ++ []) := by
      simp only [bus_run, hproc]
    have hrun := bus_run_append 4 ([demo_event, demo_event].map BusCall.publish)
      [BusCall.process 0] fanout_bus _ b1 o1 _ b2 _ hrun1 hrun2
    simp only [List.map_cons, List.map_nil, List.cons_append, List.nil_append, List.length_cons,
      List.length_nil, List.replicate] at hrun
    obtain ⟨t1, t2, t3, -⟩ := async_fifo 4 fanout_bus _ _ b2 _ hwf (by decide) hrun
    obtain ⟨p1, p2, p3⟩ := process_obs_dequeued fanout_table b1.subscription_count
      (pending_events b1)
    have hdeq : obs_dequeued (o1 ++ (process_obs fanout_table b1.subscription_count
        (pending_events b1) ++ [])) = obs_published o1 := by
      rw [obs_dequeued_append, obs_dequeued_append, i3, p1, hq2]
      simp [obs_dequeued]
    refine ⟨b2, _, ⟨hwf, by decide, rfl, hsq, hrun⟩, ?_, ?_, ?_, t1, t2 rfl hsq⟩
    · rw [obs_published_append, obs_published_append, p2]
      simpa [obs_published] using hids
    · rw [hdeq]
      exact hids
    · rw [t3 rfl, hdeq]
      exact deliveries_single _ _ 3 _ fun e he => fanout_eligible e (htype e he)

/-- Counterexample to C9 as stated: on the bus whose only subscription is a sync
handler for type 1 that publishes an event of type 5, one publish of a type-1
event publishes the events with identifiers 1 and 2 in that order, both are
accepted, and the following process dequeues identifier 2 before identifier 1. -/
theorem async_fifo_counterexample :
    ∃ b1 o1 b2 o2, aegis_domain_event_publish 4 nest_bus demo_event = some (ERR_OK, b1, o1) ∧
      (obs_published o1).map AegisDomainEvent.event_id = [1, 2] ∧
      (obs_enqueued o1).map AegisDomainEvent.event_id = [2, 1] ∧ obs_dropped o1 = [] ∧
      aegis_domain_event_process 4 b1 0 = some (2, b2, o2) ∧
      (obs_dequeued o2).map AegisDomainEvent.event_id = [2, 1] := by
  have hev := nest_publish_eval
  have hwf0 := (bus_init_wf storage_bus none (some nest_table) 1 (by decide) (by decide)
    (fun _ h => nomatch h))
  cases hpub : aegis_domain_event_publish 4 nest_bus demo_event with
  | none => simp [hpub] at hev
  | some r =>
    obtain ⟨c1, b1, o1⟩ := r
    simp only [hpub, Option.map_some', Option.some.injEq, Prod.mk.injEq] at hev
    obtain ⟨rfl, h1, h2, h3⟩ := hev
    obtain ⟨-, e1, c2⟩ := publish_spec 4 nest_bus demo_event _ hwf0.1 (by decide) hpub
    simp only at e1 c2
    have hq := e1.queue
    have hp0 : pending_events nest_bus = [] := hwf0.2.1
    rw [c2.1, hp0] at hq
    have hq2 : pending_events b1 = obs_enqueued o1 := hq
    have hlen : (pending_events b1).length = 2 := by
      rw [hq2, ← List.length_map (obs_enqueued o1) AegisDomainEvent.event_id, h2]
      rfl
    obtain ⟨b2, hpl, -, -, -, -, -⟩ := process_loop_quiet
      (aegis_domain_event_publish 4) nest_table 0 4 (pending_events b1) b1 zero_event 0 e1.wf
      (by rw [e1.depth]; rfl) (by rw [e1.subs]; rfl) rfl (fun ev _ => nest_async_quiet ev)
      (by unfold process_count; rw [if_pos rfl, hlen]; omega)
      (by unfold process_count; rw [if_pos rfl, hlen]; omega)
    have hpc : process_count 0 0 (pending_events b1).length = 2 := by
      unfold process_count
      rw [if_pos rfl, hlen]
    rw [hpc, Nat.zero_add, List.take_of_length_le (by omega)] at hpl
    refine ⟨b1, o1, b2, process_obs nest_table b1.subscription_count (pending_events b1), rfl,
      h1, h2, h3, ?_, ?_⟩
    · unfold aegis_domain_event_process
      rw [if_neg (by rw [e1.init]; decide)]
      exact hpl
    · rw [(process_obs_dequeued _ _ _).1, hq2, h2]

end Aegis
